import Mathlib

/-! The fsevents broker of `bsd/vfs/vfs_fsevents.c`.

A shallow embedding of the in-kernel event broker: the bounded event pool, the
reference-counted `kfs_event` records, the dedup filter, the per-watcher ring
buffers, fan-out, delivery and the watcher registry, followed by theorems about
them.

Conventions of the embedding.

* A pointer to a `kfs_event` is the index of its slot in `event_zone`; `NULL` is
  `none`.  A watcher is named by its index in `watcher_table`.
* Each entry point is one atomic step on `fsevents_state` (the locks of the
  source serialise the bodies that touch shared state); the states between two
  steps are the quiescent states.
* C strings are lists of non-NUL bytes.
* `int32_t` counters that the source only moves by one stay `Int`; values the
  source wraps (`uint64_t` time differences, the `int` product in the
  backpressure test) are reduced explicitly.
* The members of the anonymous union of `kfs_event` are separate fields, except
  `str`/`len`, which `regular_event` and `access_granted_event` share at the same
  offset and which `release_event_ref` reads through `regular_event`.
-/

namespace Fsevents

/-! ## Constants -/

/-- Modelled from the spec: the event kinds of section 3; their numbers are in
`bsd/sys/fsevents.h`, which is outside `src/`. -/
abbrev FSE_INVALID : Int := -1
/-- Modelled from the spec: kind CreateFile. -/
abbrev FSE_CREATE_FILE : Int := 0
/-- Modelled from the spec: kind Delete. -/
abbrev FSE_DELETE : Int := 1
/-- Modelled from the spec: kind StatChanged. -/
abbrev FSE_STAT_CHANGED : Int := 2
/-- Modelled from the spec: kind Rename. -/
abbrev FSE_RENAME : Int := 3
/-- Modelled from the spec: kind ContentModified. -/
abbrev FSE_CONTENT_MODIFIED : Int := 4
/-- Modelled from the spec: kind Exchange. -/
abbrev FSE_EXCHANGE : Int := 5
/-- Modelled from the spec: kind FinderInfoChanged. -/
abbrev FSE_FINDER_INFO_CHANGED : Int := 6
/-- Modelled from the spec: kind CreateDir. -/
abbrev FSE_CREATE_DIR : Int := 7
/-- Modelled from the spec: kind Chown. -/
abbrev FSE_CHOWN : Int := 8
/-- Modelled from the spec: kind XattrModified. -/
abbrev FSE_XATTR_MODIFIED : Int := 9
/-- Modelled from the spec: kind XattrRemoved. -/
abbrev FSE_XATTR_REMOVED : Int := 10
/-- Modelled from the spec: kind DocIdCreated. -/
abbrev FSE_DOCID_CREATED : Int := 11
/-- Modelled from the spec: kind DocIdChanged. -/
abbrev FSE_DOCID_CHANGED : Int := 12
/-- Modelled from the spec: kind UnmountPending. -/
abbrev FSE_UNMOUNT_PENDING : Int := 13
/-- Modelled from the spec: kind Clone. -/
abbrev FSE_CLONE : Int := 14
/-- Modelled from the spec: kind Activity. -/
abbrev FSE_ACTIVITY : Int := 15
/-- Modelled from the spec: kind AccessGranted. -/
abbrev FSE_ACCESS_GRANTED : Int := 16
/-- Modelled from the spec: the number of event kinds (bound of the interest
counters). -/
abbrev FSE_MAX_EVENTS : Int := 17
/-- Modelled from the spec: the pseudo kind that asks for no hardlink fan-out. -/
abbrev FSE_CONTENT_MODIFIED_NO_HLINK : Int := 997
/-- Modelled from the spec: kind EventsDropped of the synthetic record. -/
abbrev FSE_EVENTS_DROPPED : Int := 999

/-- Modelled from the spec: interest value Ignore. -/
abbrev FSE_IGNORE : Int := 0
/-- Modelled from the spec: interest value Report. -/
abbrev FSE_REPORT : Int := 1

/-- Modelled from the spec: argument tags of the publisher API and of the wire
format (`bsd/sys/fsevents.h`). -/
abbrev FSE_ARG_VNODE : Int := 0x0001
/-- Modelled from the spec: tag of a length followed by a string pointer. -/
abbrev FSE_ARG_STRING : Int := 0x0002
/-- Modelled from the spec: tag of a full path. -/
abbrev FSE_ARG_PATH : Int := 0x0003
/-- Modelled from the spec: tag of a 32-bit integer. -/
abbrev FSE_ARG_INT32 : Int := 0x0004
/-- Modelled from the spec: tag of a 64-bit integer. -/
abbrev FSE_ARG_INT64 : Int := 0x0005
/-- Modelled from the spec: tag of raw data. -/
abbrev FSE_ARG_RAW : Int := 0x0006
/-- Modelled from the spec: tag of an inode number. -/
abbrev FSE_ARG_INO : Int := 0x0007
/-- Modelled from the spec: tag of a uid. -/
abbrev FSE_ARG_UID : Int := 0x0008
/-- Modelled from the spec: tag of a device. -/
abbrev FSE_ARG_DEV : Int := 0x0009
/-- Modelled from the spec: tag of a mode. -/
abbrev FSE_ARG_MODE : Int := 0x000a
/-- Modelled from the spec: tag of a gid (carries the document id). -/
abbrev FSE_ARG_GID : Int := 0x000b
/-- Modelled from the spec: tag of a packed `fse_info`. -/
abbrev FSE_ARG_FINFO : Int := 0x000c
/-- Modelled from the spec: tag of an audit token. -/
abbrev FSE_ARG_AUDIT_TOKEN : Int := 0x000d
/-- Modelled from the spec: tag that ends an argument list and a record. -/
abbrev FSE_ARG_DONE : Int := 0xb33f

/-- Modelled from the spec: shift of the flag bits in the kind word of an
extended record (`FSE_FLAG_SHIFT` of `bsd/sys/fsevents.h`). -/
abbrev FSE_FLAG_SHIFT : Nat := 12
/-- Modelled from the spec: flag CombinedEvents of an extended record. -/
abbrev FSE_COMBINED_EVENTS : Nat := 0x0001
/-- Modelled from the spec: flag ContainsDropped of an extended record. -/
abbrev FSE_CONTAINS_DROPPED_EVENTS : Nat := 0x0002

/-- Modelled from the spec: mode bit "hardlinked inode" of `fse_info.mode`. -/
abbrev FSE_MODE_HLINK : Nat := 0x80000000
/-- Modelled from the spec: mode bit "last hardlink". -/
abbrev FSE_MODE_LAST_HLINK : Nat := 0x40000000
/-- Modelled from the spec: mode bit "path was truncated". -/
abbrev FSE_TRUNCATED_PATH : Nat := 0x10000000

/-- Modelled from the spec: errno values (`sys/errno.h`). -/
abbrev ENOENT : Int := 2
/-- Modelled from the spec: errno EIO. -/
abbrev EIO : Int := 5
/-- Modelled from the spec: errno ENOMEM. -/
abbrev ENOMEM : Int := 12
/-- Modelled from the spec: errno EFAULT. -/
abbrev EFAULT : Int := 14
/-- Modelled from the spec: errno EINVAL. -/
abbrev EINVAL : Int := 22
/-- Modelled from the spec: errno ENOSPC. -/
abbrev ENOSPC : Int := 28
/-- Modelled from the spec: errno EAGAIN. -/
abbrev EAGAIN : Int := 35

/-- Modelled from the spec: `MAXPATHLEN` of `sys/param.h`. -/
abbrev MAXPATHLEN : Nat := 1024

abbrev KFSE_COMBINED_EVENTS : Nat := 0x0001
abbrev KFSE_CONTAINS_DROPPED_EVENTS : Nat := 0x0002
abbrev KFSE_ON_LIST : Nat := 0x0004
abbrev KFSE_BEING_CREATED : Nat := 0x0008

abbrev WATCHER_DROPPED_EVENTS : Nat := 0x0001
abbrev WATCHER_CLOSING : Nat := 0x0002
abbrev WATCHER_WANTS_COMPACT_EVENTS : Nat := 0x0004
abbrev WATCHER_WANTS_EXTENDED_INFO : Nat := 0x0008
abbrev WATCHER_APPLE_SYSTEM_SERVICE : Nat := 0x0010

abbrev MAX_WATCHERS : Nat := 8
abbrev DEFAULT_MAX_KFS_EVENTS : Nat := 4096
abbrev MAX_HARDLINK_NOTIFICATIONS : Int := 128
abbrev MAX_NUM_PENDING : Int := 16

/-! ## Data model -/

/-- The bytes of a C string, without the terminating NUL. -/
abbrev cstr := List Nat

/-- Counterpart of `struct kfs_event`.  The members of its union
(`regular_event`, `docid_event`, `activity_event`, `access_granted_event`) are
kept as fields of their own; `str` and `len` stand for the members of that
name of `regular_event` and of `access_granted_event`, which lie at the same
offsets.  The source reads one member through another in one place only:
`release_event_ref` reads `regular_event.dest` of an `FSE_ACCESS_GRANTED`
event, where `audit_token.val[6..7]` is stored; that read is
`regular_event_dest`. -/
structure kfs_event where
  abstime : Nat := 0
  type : Int := 0
  flags : Nat := 0
  refcount : Int := 0
  pid : Int := 0
  ino : Nat := 0
  dev : Int := 0
  mode : Nat := 0
  uid : Nat := 0
  document_id : Nat := 0
  dest : Option Nat := none
  str : Option cstr := none
  len : Nat := 0
  docid_src_ino : Nat := 0
  docid_dst_ino : Nat := 0
  docid_docid : Nat := 0
  docid_dev : Int := 0
  act_version : Nat := 0
  act_dev : Int := 0
  act_ino : Nat := 0
  act_origin_id : Nat := 0
  act_age : Nat := 0
  act_use_state : Nat := 0
  act_urgency : Nat := 0
  act_size : Nat := 0
  audit_token : List Nat := []
deriving DecidableEq, Repr

/-- The value of a `void *` the dedup filter remembers: the address of a vnode,
or a string (named by its contents: the filter compares such pointers only
after `vid` matched, which happens for vnodes only). -/
inductive ptr_val where
  | vnode_at (addr : Nat)
  | chars_at (s : cstr)
deriving DecidableEq, Repr

/-- Counterpart of `struct fs_event_watcher`; `event_queue` has `eventq_size`
entries. -/
structure fs_event_watcher where
  event_list : List Int
  num_events : Int
  devices_not_to_watch : Option (List Int) := none
  num_devices : Nat := 0
  flags : Nat := 0
  event_queue : List (Option Nat)
  eventq_size : Nat
  num_readers : Int := 0
  rd : Nat := 0
  wr : Nat := 0
  blockers : Int := 0
  my_id : Nat := 0
  num_dropped : Nat := 0
  max_event_id : Nat := 0
  pid : Int := 0
deriving DecidableEq, Repr

/-- The file-scope variables of `vfs_fsevents.c`, the event zone and the
string-intern table (one list entry per outstanding `vfs_addname` reference). -/
structure fsevents_state where
  max_kfs_events : Nat := DEFAULT_MAX_KFS_EVENTS
  event_zone : List (Option kfs_event) := []
  kfse_list_head : List Nat := []
  num_events_outstanding : Int := 0
  num_pending_rename : Int := 0
  watcher_table : List (Option fs_event_watcher) := List.replicate MAX_WATCHERS none
  fs_event_type_watchers : List Int := List.replicate 17 0
  fsevent_unmount_dev : Int := 0
  fsevent_unmount_ack_count : Int := 0
  num_dropped : Int := 0
  last_print_sec : Int := 0
  last_event_type : Int := -1
  last_ptr : Option ptr_val := none
  last_str : cstr := []
  last_nlen : Int := 0
  last_vid : Int := -1
  last_coalesced_time : Nat := 0
  last_event_ptr : Option Nat := none
  last_pid : Int := -1
  last_coalesced : Int := 0
  timebase_numer : Nat := 0
  timebase_denom : Nat := 0
  timer_set : Int := 0
  names : List cstr := []
  zfree_log : List Nat := []
deriving DecidableEq, Repr

/-! ## Event zone -/

/-- Index of the first free element of the zone. -/
def first_free : List (Option kfs_event) → Option Nat
  | [] => none
  | none :: _ => some 0
  | some _ :: rest => (first_free rest).map (fun i => i + 1)

/-- Counterpart of `zalloc_noblock(event_zone)`: `NULL` when no element is free,
else a free element (the lowest one), marked in use. -/
def zalloc_noblock (s : fsevents_state) : Option Nat × fsevents_state :=
  match first_free s.event_zone with
  | none => (none, s)
  | some p => (some p, { s with event_zone := s.event_zone.set p (some {}) })

/-- Counterpart of `zfree(event_zone, p)`. -/
def zfree (s : fsevents_state) (p : Nat) : fsevents_state :=
  { s with event_zone := s.event_zone.set p none, zfree_log := p :: s.zfree_log }

/-- The event a pointer designates, if the element is in use. -/
def deref (s : fsevents_state) (p : Nat) : Option kfs_event :=
  (s.event_zone.getD p none)

/-- Store through an event pointer. -/
def store (s : fsevents_state) (p : Nat) (e : kfs_event) : fsevents_state :=
  { s with event_zone := s.event_zone.set p (some e) }

/-- Number of zone elements in use. -/
def zone_in_use (s : fsevents_state) : Nat :=
  (s.event_zone.filter Option.isSome).length

/-- Counterpart of `vfs_removename`: drop one reference to an interned string. -/
def vfs_removename (s : fsevents_state) (name : cstr) : fsevents_state :=
  { s with names := s.names.erase name }

/-- Counterpart of `vfs_addname(name, len, 0, 0)`: intern the first `len` bytes
of `name` and take one reference. -/
def vfs_addname (s : fsevents_state) (name : cstr) (len : Nat) : cstr × fsevents_state :=
  (name.take len, { s with names := name.take len :: s.names })

/-- Counterpart of `kfse_init`. -/
def kfse_init (type : Int) (time : Nat) (pid : Int) : kfs_event :=
  { refcount := 1, type := type, abstime := time, pid := pid,
    flags := 0 ||| KFSE_BEING_CREATED }

/-- Test of `flags & mask`. -/
def has_flag (flags mask : Nat) : Bool := (flags &&& mask) != 0

/-- Two's-complement reduction of an `int` result to 32 bits. -/
def wrap32 (x : Int) : Int := (x + 2147483648) % 4294967296 - 2147483648

/-- The statement `if (last_event_ptr == kfse) { last_event_ptr = NULL;
last_event_type = -1; last_coalesced_time = 0; }` of `release_event_ref` and
`fmod_watch`. -/
def forget_last_event (s : fsevents_state) (p : Nat) : fsevents_state :=
  if s.last_event_ptr = some p then
    { s with last_event_ptr := none, last_event_type := -1, last_coalesced_time := 0 }
  else s

/-- The part of `release_event_ref` that drops the reference a source event
holds on its destination: `OSAddAtomic(-1, &dest->refcount) == 1` keeps `dest`
(to be freed), anything else forgets it.  `none` is a dangling `dest`. -/
def drop_dest (s : fsevents_state) (dest : Option Nat) :
    Option (fsevents_state × Option (Nat × kfs_event)) :=
  match dest with
  | none => some (s, none)
  | some d =>
    match deref s d with
    | none => none
    | some de =>
      let de1 := { de with refcount := de.refcount - 1 }
      if de.refcount = 1 then some (store s d de1, some (d, de1))
      else some (store s d de1, none)

/-- The part of `release_event_ref` that takes the destination and the event off
the global list, for those that carry `KFSE_ON_LIST`. -/
def unlist_events (s : fsevents_state) (p : Nat) (kfse : kfs_event)
    (dest : Option (Nat × kfs_event)) : fsevents_state :=
  let s := match dest with
    | none => s
    | some (d, de) =>
      if has_flag de.flags KFSE_ON_LIST then
        { s with num_events_outstanding := s.num_events_outstanding - 1,
                 kfse_list_head := s.kfse_list_head.erase d }
      else s
  if has_flag kfse.flags KFSE_ON_LIST then
    { s with num_events_outstanding := s.num_events_outstanding - 1,
             kfse_list_head := s.kfse_list_head.erase p,
             num_pending_rename :=
               if kfse.type = FSE_RENAME then s.num_pending_rename - 1
               else s.num_pending_rename }
  else s

/-- `if (str != NULL) vfs_removename(str)`. -/
def vfs_removename_opt (s : fsevents_state) (name : Option cstr) : fsevents_state :=
  match name with
  | none => s
  | some n => vfs_removename s n

/-- The part of `release_event_ref` that runs once the count has dropped to
zero; `kfse` is the event after the decrement.  The link followed is the
field `dest`, which is what `regular_event.dest` holds for every event but an
`FSE_ACCESS_GRANTED` event with token words 6 and 7 that are not both 0;
`free_event_union` reads it through the union. -/
def free_event (s : fsevents_state) (p : Nat) (kfse : kfs_event) : Option fsevents_state :=
  let s := forget_last_event s p
  if kfse.refcount < 0 then none
  else
    let regular : Bool := kfse.type != FSE_DOCID_CREATED && kfse.type != FSE_DOCID_CHANGED &&
      kfse.type != FSE_ACTIVITY
    let path_str : Option cstr := if regular then kfse.str else none
    match drop_dest s (if regular then kfse.dest else none) with
    | none => none
    | some (s, dest) =>
      let dest_path_str : Option cstr := match dest with
        | none => none
        | some (_, de) => de.str
      let s := unlist_events s p kfse dest
      let s := zfree s p
      let s := match dest with
        | none => s
        | some (d, _) => zfree s d
      let s := vfs_removename_opt s path_str
      let s := vfs_removename_opt s dest_path_str
      some s

/-- Counterpart of `release_event_ref`; `none` is the `panic` on a negative
reference count, or a pointer to an element that is not in use. -/
def release_event_ref (s : fsevents_state) (p : Nat) : Option fsevents_state :=
  match deref s p with
  | none => none
  | some kfse0 =>
    let old_refcount := kfse0.refcount
    let kfse := { kfse0 with refcount := kfse0.refcount - 1 }
    let s := store s p kfse
    if old_refcount > 1 then some s
    else free_event s p kfse

/-! ## Watchers -/

/-- Counterpart of `watcher_cares_about_dev`. -/
def watcher_cares_about_dev (watcher : fs_event_watcher) (dev : Int) : Bool :=
  match watcher.devices_not_to_watch with
  | none => true
  | some devs => !((devs.take watcher.num_devices).contains dev)

/-- Read `watcher_table[i]`. -/
def get_watcher (s : fsevents_state) (i : Nat) : Option fs_event_watcher :=
  s.watcher_table.getD i none

/-- Write `watcher_table[i]`. -/
def set_watcher (s : fsevents_state) (i : Nat) (w : Option fs_event_watcher) : fsevents_state :=
  { s with watcher_table := s.watcher_table.set i w }

/-- The loop `while (watcher->rd != watcher->wr) { ... release_event_ref(kfse); }`
shared by `watcher_add_event` and `remove_watcher`.  `fuel` bounds the number of
iterations; `none` is a panic of `release_event_ref`, a read through a pointer
to a free element, or the fuel running out. -/
def drain_event_queue : Nat → fsevents_state → fs_event_watcher →
    Option (fsevents_state × fs_event_watcher)
  | 0, s, w => if w.rd = w.wr then some (s, w) else none
  | fuel + 1, s, w =>
    if w.rd = w.wr then some (s, w)
    else
      let kfse := w.event_queue.getD w.rd none
      let w := { w with event_queue := w.event_queue.set w.rd none,
                        rd := (w.rd + 1) % w.eventq_size }
      match kfse with
      | none => drain_event_queue fuel s w
      | some p =>
        match deref s p with
        | none => none
        | some e =>
          if e.type != FSE_INVALID && e.refcount ≥ 1 then
            match release_event_ref s p with
            | none => none
            | some s => drain_event_queue fuel s w
          else drain_event_queue fuel s w

/-- The watcher after `event_queue[wr] = kfse; wr = (wr + 1) % eventq_size`. -/
def enqueued (watcher : fs_event_watcher) (p : Nat) : fs_event_watcher :=
  { watcher with event_queue := watcher.event_queue.set watcher.wr (some p),
                 wr := (watcher.wr + 1) % watcher.eventq_size }

/-- The watcher after `event_queue[rd] = NULL; rd = (rd + 1) % eventq_size`. -/
def dequeued (watcher : fs_event_watcher) : fs_event_watcher :=
  { watcher with event_queue := watcher.event_queue.set watcher.rd none,
                 rd := (watcher.rd + 1) % watcher.eventq_size }

/-- The local `num_pending` of `watcher_add_event`. -/
def pending_count (watcher : fs_event_watcher) : Int :=
  let num_pending : Int := 0
  let num_pending : Int := if watcher.rd < watcher.wr then
      (watcher.wr : Int) - watcher.rd else num_pending
  let num_pending : Int := if watcher.rd > watcher.wr then
      (watcher.wr : Int) + watcher.eventq_size - watcher.rd else num_pending
  num_pending

/-- The backpressure test of `watcher_add_event`:
`num_pending > (eventq_size * 3 / 4) && !(flags & WATCHER_APPLE_SYSTEM_SERVICE)`,
the product taken in 32 bits. -/
def falling_behind (watcher : fs_event_watcher) : Bool :=
  decide (pending_count watcher > (wrap32 ((watcher.eventq_size : Int) * 3)).tdiv 4) &&
    !(has_flag watcher.flags WATCHER_APPLE_SYSTEM_SERVICE)

/-- Counterpart of `watcher_add_event(watcher_table[i], kfse)`.  The result is the
return value and the new state; `none` is a trap (`eventq_size == 0`, a
dangling pointer, or a panic while draining). -/
def watcher_add_event (s : fsevents_state) (i : Nat) (p : Nat) : Option (Int × fsevents_state) :=
  match get_watcher s i, deref s p with
  | some watcher, some kfse =>
    let watcher := if kfse.abstime > watcher.max_event_id then
        { watcher with max_event_id := kfse.abstime } else watcher
    if watcher.eventq_size = 0 then none
    else if (watcher.wr + 1) % watcher.eventq_size = watcher.rd then
      let watcher := { watcher with flags := watcher.flags ||| WATCHER_DROPPED_EVENTS }
      some (ENOSPC, set_watcher s i (some watcher))
    else
      let s := store s p { kfse with refcount := kfse.refcount + 1 }
      let watcher := enqueued watcher p
      if falling_behind watcher then
        match drain_event_queue watcher.eventq_size s watcher with
        | none => none
        | some (s, watcher) =>
          let watcher := { watcher with flags := watcher.flags ||| WATCHER_DROPPED_EVENTS }
          some (0, set_watcher s i (some watcher))
      else if pending_count watcher > MAX_NUM_PENDING then
        some (0, set_watcher s i (some watcher))
      else if s.timer_set = 0 then
        some (0, set_watcher { s with timer_set := 1 } i (some watcher))
      else
        some (0, set_watcher s i (some watcher))
  | _, _ => none

/-- Counterpart of `delayed_event_delivery`: the timer fires and is disarmed. -/
def delayed_event_delivery (s : fsevents_state) : fsevents_state :=
  { s with timer_set := 0 }

/-- What `add_watcher` learns from its collaborators: the entitlements of the
calling task, its pid, and whether `kalloc_type` succeeds. -/
structure watcher_owner where
  entitled_watcher : Bool := false
  entitled_access_granted : Bool := false
  entitled_activity : Bool := false
  pid : Int := 0
  kalloc_ok : Bool := true
deriving DecidableEq, Repr

/-- Counterpart of `watcher_is_entitled`. -/
def watcher_is_entitled (task : watcher_owner) : Bool :=
  task.entitled_watcher || task.entitled_access_granted || task.entitled_activity

/-- Counterpart of `watcher_is_entitled_for_access_granted`. -/
def watcher_is_entitled_for_access_granted (task : watcher_owner) : Bool :=
  task.entitled_access_granted

/-- Counterpart of `watcher_is_entitled_for_activity`. -/
def watcher_is_entitled_for_activity (task : watcher_owner) : Bool :=
  task.entitled_activity

/-- Index of the first `NULL` entry of the watcher table. -/
def first_free_watcher : List (Option fs_event_watcher) → Option Nat
  | [] => none
  | none :: _ => some 0
  | some _ :: rest => (first_free_watcher rest).map (fun i => i + 1)

/-- The loop over `event_list` of `add_watcher` and `remove_watcher`: add `delta`
to `fs_event_type_watchers[i]` for each `i < num_events` with
`event_list[i] != FSE_IGNORE && i < FSE_MAX_EVENTS`. -/
def bump_type_watchers (delta : Int) (event_list : List Int) (num_events : Int)
    (counters : List Int) : List Int :=
  (List.range counters.length).zipWith
    (fun (i : Nat) (c : Int) => if (i : Int) < num_events ∧ event_list.getD i FSE_IGNORE ≠ FSE_IGNORE ∧
      (i : Int) < FSE_MAX_EVENTS then c + delta else c) counters

/-- Counterpart of `add_watcher`: the return value, the slot of the new watcher
(`*watcher_out`) and the new state. -/
def add_watcher (s : fsevents_state) (event_list : List Int) (num_events : Int)
    (eventq_size : Int) (task : watcher_owner) : Int × Option Nat × fsevents_state :=
  let eventq_size : Int :=
    if eventq_size ≤ 0 ∨ eventq_size > wrap32 (100 * (s.max_kfs_events : Int)) then
      (s.max_kfs_events : Int) else eventq_size
  let event_list :=
    if num_events > FSE_ACTIVITY ∧ event_list.getD 15 FSE_IGNORE ≠ FSE_IGNORE ∧
        !watcher_is_entitled_for_activity task then
      event_list.set 15 FSE_IGNORE else event_list
  let event_list :=
    if num_events > FSE_ACCESS_GRANTED ∧ event_list.getD 16 FSE_IGNORE ≠ FSE_IGNORE ∧
        !watcher_is_entitled_for_access_granted task then
      event_list.set 16 FSE_IGNORE else event_list
  if !task.kalloc_ok then (ENOMEM, none, s)
  else
    let watcher : fs_event_watcher :=
      { event_list := event_list, num_events := num_events, devices_not_to_watch := none,
        num_devices := 0, flags := 0,
        event_queue := List.replicate eventq_size.toNat none,
        eventq_size := eventq_size.toNat, rd := 0, wr := 0, blockers := 0, num_readers := 0,
        max_event_id := 0, pid := task.pid, num_dropped := 0 }
    let watcher := if watcher_is_entitled task then
        { watcher with flags := watcher.flags ||| WATCHER_APPLE_SYSTEM_SERVICE } else watcher
    match first_free_watcher s.watcher_table with
    | none => (ENOSPC, none, s)
    | some i =>
      let s := set_watcher s i (some { watcher with my_id := i })
      let s := { s with fs_event_type_watchers :=
        bump_type_watchers 1 event_list num_events s.fs_event_type_watchers }
      (0, some i, s)

/-- Counterpart of `remove_watcher(watcher_table[j])`; `none` is the panic when a
reader is still active after the wait, or a panic while draining. -/
def remove_watcher (s : fsevents_state) (j : Nat) : Option fsevents_state :=
  match get_watcher s j with
  | none => some s
  | some watcher =>
    let s := set_watcher s j none
    let s := { s with fs_event_type_watchers :=
      bump_type_watchers (-1) watcher.event_list watcher.num_events s.fs_event_type_watchers }
    if has_flag watcher.flags WATCHER_CLOSING then some s
    else
      let watcher := { watcher with flags := watcher.flags ||| WATCHER_CLOSING,
                                    num_readers := watcher.num_readers + 1 }
      if watcher.num_readers > 1 then none
      else
        match drain_event_queue watcher.eventq_size s watcher with
        | none => none
        | some (s, _) => some s

/-! ## Publishing: `add_fsevent` -/

/-- Counterpart of `fse_info`. -/
structure fse_info where
  ino : Nat := 0
  dev : Int := 0
  mode : Nat := 0
  uid : Nat := 0
  document_id : Nat := 0
  nlink : Nat := 0
deriving DecidableEq, Repr

/-- What `add_fsevent` asks of a `struct vnode *`: its address, `vnode_vid`, the
outcome of `vnode_getattr`, `vnode_vttoif(vnode_vtype(vp))`, the hardlink flag
and type, the outcome of `vn_getpath_no_firmlink` for it and for its successive
`v_parent` ancestors, the mount-point name of the topmost one, and whether
`vnode_mount` is non-NULL. -/
structure vnode where
  addr : Nat := 0
  vid : Int := 0
  getattr_ret : Int := 0
  va_fsid : Int := 0
  va_fileid : Nat := 0
  va_mode : Nat := 0
  va_uid : Nat := 0
  va_document_id : Nat := 0
  va_nlink : Nat := 0
  va_dirlinkcount : Nat := 0
  iftype : Nat := 0
  is_hardlink : Bool := false
  is_dir : Bool := false
  is_reg : Bool := false
  getpath_ret : Int := 0
  getpath : cstr := []
  parents : List (Int × cstr) := []
  top_mount : Option cstr := none
  has_mount : Bool := true
deriving DecidableEq, Repr

/-- One variadic argument slot as the callee reads it with `va_arg`: a 32-bit
integer (tags, lengths, `dev_t`), a 64-bit integer, or a pointer of one of the
kinds the API passes.  Reading a slot at another type is undefined and makes
the model return `none`. -/
inductive va_word where
  | int32 (v : Int)
  | int64 (v : Nat)
  | vp (v : Option vnode)
  | chars (s : Option cstr)
  | finfo (f : fse_info)
  | token (t : Option (List Nat))
deriving DecidableEq, Repr

/-- One answer of the hardlink collaborators to the block after `clean_up`:
`VFS_ROOT`, the `APFSIOC_NEXT_LINK` ioctl (return value and the link id it
writes), `fsgetpath_internal` (return value and path), and the clock read by
the pass that follows a restart. -/
structure link_reply where
  root_iret : Int := 0
  mnt_rootvp : Bool := true
  ioctl_iret : Int := 0
  next_linkid : Nat := 0
  getpath_iret : Int := 0
  path : cstr := []
  now : Nat := 0
deriving DecidableEq, Repr

/-- What one `add_fsevent` call learns from its collaborators: the caller's pid,
`mach_absolute_time()`, `microuptime()`, `clock_timebase_info`, the audit
token of the context, and the script of hardlink answers (when it runs out
`VFS_ROOT` fails). -/
structure fse_env where
  pid : Int := 0
  now : Nat := 0
  uptime_sec : Int := 0
  clock_numer : Nat := 1
  clock_denom : Nat := 1
  ctx_audit_token : Option (List Nat) := some []
  links : List link_reply := []
deriving DecidableEq, Repr

/-- The locals of `add_fsevent` that survive `goto restart`. -/
structure add_locals where
  error : Int := 0
  orig_linkcount : Int := -1
  dev : Int := 0
  orig_linkid : Nat := 0
  next_linkid : Nat := 0
  path_override : Option cstr := none
  link_vp : Option vnode := none
  do_all_links : Bool := true
deriving DecidableEq, Repr

/-- The types the dedup filter never looks at (the chain of `type != ...`). -/
def dedup_exempt (type : Int) : Bool :=
  type == FSE_CREATE_FILE || type == FSE_DELETE || type == FSE_RENAME ||
  type == FSE_EXCHANGE || type == FSE_CHOWN || type == FSE_DOCID_CHANGED ||
  type == FSE_DOCID_CREATED || type == FSE_CLONE || type == FSE_ACTIVITY ||
  type == FSE_ACCESS_GRANTED

/-- The types that take a second zone element. -/
def two_target (type : Int) : Bool :=
  type == FSE_RENAME || type == FSE_EXCHANGE || type == FSE_CLONE

/-- The argument scan of the dedup filter: result `(state, ptr, vid, was_str,
nlen)`.  The state changes only by `last_str[0] = 0`. -/
def dedup_scan (s : fsevents_state) : List va_word → Bool → Int →
    Option (fsevents_state × Option ptr_val × Int × Bool × Int)
  | va_word.int32 tag :: rest, was_str, nlen =>
    if tag = FSE_ARG_DONE then some (s, none, 0, was_str, nlen)
    else if tag = FSE_ARG_VNODE then
      match rest with
      | va_word.vp (some v) :: _ =>
        some ({ s with last_str := [] }, some (ptr_val.vnode_at v.addr), v.vid, was_str, nlen)
      | _ => none
    else if tag = FSE_ARG_STRING then
      match rest with
      | va_word.int32 n :: va_word.chars (some str) :: _ =>
        some (s, some (ptr_val.chars_at str), 0, true, n)
      | va_word.int32 n :: va_word.chars none :: rest2 => dedup_scan s rest2 true n
      | _ => none
    else dedup_scan s rest was_str nlen
  | _, _, _ => none

/-- The value `elapsed` is compared with: the `uint64_t` difference of the two
clock values, scaled by the timebase; `none` is a division by zero. -/
def dedup_elapsed (s : fsevents_state) (now : Nat) : Option Nat :=
  let elapsed := (now % 2 ^ 64 + 2 ^ 64 - s.last_coalesced_time % 2 ^ 64) % 2 ^ 64
  if s.timebase_denom ≠ s.timebase_numer then
    if s.timebase_denom = 1 then some ((elapsed * s.timebase_numer) % 2 ^ 64)
    else if s.timebase_denom = 0 then none
    else some (((elapsed * s.timebase_numer) % 2 ^ 64) / s.timebase_denom)
  else some elapsed

/-- The dedup filter of `add_fsevent` (the block guarded by `path_override ==
NULL && type != ...`): `some (true, s)` when the event is suppressed, `some
(false, s)` with the refreshed dedup state otherwise. -/
def dedup_filter (s : fsevents_state) (type : Int) (ap : List va_word) (env : fse_env)
    (now : Nat) : Option (Bool × fsevents_state) :=
  match dedup_scan s ap false 0 with
  | none => none
  | some (s, ptr, vid, was_str, nlen) =>
    let s := if s.timebase_denom = 0 then
        { s with timebase_numer := env.clock_numer, timebase_denom := env.clock_denom }
      else s
    match dedup_elapsed s now with
    | none => none
    | some elapsed =>
      let same_vnode : Bool := vid != 0 && vid == s.last_vid && s.last_ptr == ptr
      let same_str : Bool := s.last_str != [] && s.last_nlen == nlen &&
        (match ptr with
         | some (ptr_val.chars_at str) => s.last_str == str
         | _ => false)
      if type == s.last_event_type && decide (elapsed < 1000000000) && s.last_pid == env.pid &&
          (same_vnode || same_str) then
        some (true, { s with last_coalesced := s.last_coalesced + 1 })
      else
        match ptr, was_str with
        | some (ptr_val.vnode_at _), true => none
        | _, _ =>
          let s := match ptr with
            | some (ptr_val.chars_at str) =>
              if was_str then { s with last_str := str.take (MAXPATHLEN - 1) } else s
            | _ => s
          some (false, { s with last_ptr := ptr, last_nlen := nlen, last_vid := vid,
                                last_event_type := type, last_coalesced_time := now % 2 ^ 64,
                                last_pid := env.pid })

/-- `watcher->flags |= WATCHER_DROPPED_EVENTS` for every registered watcher. -/
def flag_all_dropped (table : List (Option fs_event_watcher)) : List (Option fs_event_watcher) :=
  table.map (fun w => w.map (fun watcher =>
    { watcher with flags := watcher.flags ||| WATCHER_DROPPED_EVENTS }))

/-- The branch `if (kfse == NULL)` of `add_fsevent`: flag every watcher, count
the drop, and at most every ten seconds print diagnostics (which allocate and
free one probe element when one is available). -/
def no_free_events (s : fsevents_state) (env : fse_env) : fsevents_state :=
  let s := { s with watcher_table := flag_all_dropped s.watcher_table }
  let s := { s with num_dropped := s.num_dropped + 1 }
  if env.uptime_sec - s.last_print_sec > 10 then
    let junk := zalloc_noblock s
    let s := { junk.2 with last_print_sec := env.uptime_sec }
    match junk.1 with
    | none => s
    | some j => zfree s j
  else s

/-- Update the event a pointer designates; `none` when the element is not in
use. -/
def upd (s : fsevents_state) (p : Nat) (f : kfs_event → kfs_event) : Option fsevents_state :=
  match deref s p with
  | none => none
  | some e => some (store s p (f e))

/-- Read `tag, value` where the source reads the tag and, only if it is the
expected one, a 32-bit value. -/
def va_tagged32 (tag : Int) : List va_word → Option (Option Int × List va_word)
  | va_word.int32 t :: rest =>
    if t = tag then
      match rest with
      | va_word.int32 v :: r => some (some v, r)
      | _ => none
    else some (none, rest)
  | _ => none

/-- Read `tag, value` where the value is 64 bits wide. -/
def va_tagged64 (tag : Int) : List va_word → Option (Option Nat × List va_word)
  | va_word.int32 t :: rest =>
    if t = tag then
      match rest with
      | va_word.int64 v :: r => some (some v, r)
      | _ => none
    else some (none, rest)
  | _ => none

/-- The argument block of `FSE_DOCID_CREATED` / `FSE_DOCID_CHANGED`. -/
def fill_docid (s : fsevents_state) (cur : Nat) (ap : List va_word) : Option fsevents_state :=
  match va_tagged32 FSE_ARG_DEV ap with
  | none => none
  | some (dev, ap) =>
  match va_tagged64 FSE_ARG_INO ap with
  | none => none
  | some (src, ap) =>
  match va_tagged64 FSE_ARG_INO ap with
  | none => none
  | some (dst, ap) =>
  let docid : Option (Option Nat) :=
    match ap with
    | va_word.int32 t :: rest =>
      if t = FSE_ARG_INT32 then
        match rest with
        | va_word.int32 v :: _ => some (some (v % 2 ^ 32).toNat)
        | _ => none
      else if t = FSE_ARG_INT64 then
        match rest with
        | va_word.int64 v :: _ => some (some v)
        | _ => none
      else some none
    | _ => none
  match docid with
  | none => none
  | some docid =>
    upd s cur (fun e =>
      { e with docid_dev := dev.getD e.docid_dev,
               docid_src_ino := src.getD e.docid_src_ino,
               docid_dst_ino := dst.getD e.docid_dst_ino,
               docid_docid := docid.getD e.docid_docid })

/-- The argument block of `FSE_ACTIVITY`. -/
def fill_activity (s : fsevents_state) (cur : Nat) (ap : List va_word) : Option fsevents_state :=
  match va_tagged32 FSE_ARG_INT32 ap with
  | none => none
  | some (version, ap) =>
  match va_tagged32 FSE_ARG_DEV ap with
  | none => none
  | some (dev, ap) =>
  match va_tagged64 FSE_ARG_INO ap with
  | none => none
  | some (ino, ap) =>
  match va_tagged64 FSE_ARG_INT64 ap with
  | none => none
  | some (origin, ap) =>
  match va_tagged64 FSE_ARG_INT64 ap with
  | none => none
  | some (age, ap) =>
  match va_tagged32 FSE_ARG_INT32 ap with
  | none => none
  | some (use_state, ap) =>
  match va_tagged32 FSE_ARG_INT32 ap with
  | none => none
  | some (urgency, ap) =>
  match va_tagged64 FSE_ARG_INT64 ap with
  | none => none
  | some (size, _) =>
    upd s cur (fun e =>
      { e with act_version := (version.map (fun v => (v % 2 ^ 32).toNat)).getD e.act_version,
               act_dev := dev.getD e.act_dev,
               act_ino := ino.getD e.act_ino,
               act_origin_id := origin.getD e.act_origin_id,
               act_age := age.getD e.act_age,
               act_use_state := (use_state.map (fun v => (v % 2 ^ 32).toNat)).getD e.act_use_state,
               act_urgency := (urgency.map (fun v => (v % 2 ^ 32).toNat)).getD e.act_urgency,
               act_size := size.getD e.act_size })

/-- What the argument loop of `FSE_ACCESS_GRANTED` collects. -/
structure access_args where
  atokenp : Option (List Nat) := none
  vp : Option vnode := none
  path_str : Option cstr := none
  path_strlen : Nat := 0
deriving DecidableEq, Repr

/-- The loop `while ((arg_type = va_arg(ap, int32_t)) != FSE_ARG_DONE)` of the
`FSE_ACCESS_GRANTED` block. -/
def scan_access_granted : List va_word → access_args → Option access_args
  | va_word.int32 tag :: rest, a =>
    if tag = FSE_ARG_DONE then some a
    else if tag = FSE_ARG_STRING then
      match rest with
      | va_word.int32 len32 :: va_word.chars arg :: rest2 =>
        scan_access_granted rest2
          (if a.path_str = none then
            { a with path_str := arg, path_strlen := (len32 % 2 ^ 64).toNat } else a)
      | _ => none
    else if tag = FSE_ARG_PATH then
      match rest with
      | va_word.chars arg :: rest2 =>
        scan_access_granted rest2 (if a.path_str = none then { a with path_str := arg } else a)
      | _ => none
    else if tag = FSE_ARG_VNODE then
      match rest with
      | va_word.vp arg :: rest2 =>
        scan_access_granted rest2 (if a.vp = none then { a with vp := arg } else a)
      | _ => none
    else if tag = FSE_ARG_AUDIT_TOKEN then
      match rest with
      | va_word.token arg :: rest2 =>
        scan_access_granted rest2 (if a.atokenp = none then { a with atokenp := arg } else a)
      | _ => none
    else
      match rest with
      | va_word.int32 _ :: rest2 => scan_access_granted rest2 a
      | _ => none
  | _, _ => none

/-- The path and its length as the `FSE_ACCESS_GRANTED` block settles them: the
string argument (its length computed when none was passed), else the path of
the vnode argument when `vn_getpath_no_firmlink` succeeds. -/
def access_path (a : access_args) : Option cstr × Nat :=
  match a.path_str with
  | some str => (some str, if a.path_strlen = 0 then str.length + 1 else a.path_strlen)
  | none =>
    match a.vp with
    | some v =>
      if v.getpath_ret = 0 then (some v.getpath, v.getpath.length + 1)
      else (none, a.path_strlen)
    | none => (none, a.path_strlen)

/-- The statement `if (path_str != NULL) cur->access_granted_event.str =
vfs_addname(path_str, (uint32_t)path_strlen, 0, 0)`. -/
def intern_access_path (s : fsevents_state) (cur : Nat) (path : Option cstr × Nat) :
    Option fsevents_state :=
  match path.1 with
  | some str => upd (vfs_addname s str (path.2 % 2 ^ 32)).2 cur
      (fun e => { e with str := some (vfs_addname s str (path.2 % 2 ^ 32)).1 })
  | none => some s

/-- The `FSE_ACCESS_GRANTED` block of `add_fsevent`.  Note that it stores the
interned path but never `access_granted_event.len`.  The token it stores
overlays `regular_event.ino` to `regular_event.dest`, of which the source
reads only `dest` again for such an event (`regular_event_dest`). -/
def fill_access_granted (s : fsevents_state) (cur : Nat) (ap : List va_word) (env : fse_env) :
    Option fsevents_state :=
  match scan_access_granted ap {} with
  | none => none
  | some a =>
    let tok : Option (List Nat) :=
      match a.atokenp with
      | some t => some t
      | none => env.ctx_audit_token
    match tok with
    | none => upd s cur (fun e => { e with flags := e.flags ||| KFSE_CONTAINS_DROPPED_EVENTS })
    | some t =>
      match upd s cur (fun e => { e with audit_token := t }) with
      | none => none
      | some s =>
        match intern_access_path s cur (access_path a) with
        | none => none
        | some s =>
          upd s cur (fun e =>
            if e.str = none then { e with flags := e.flags ||| KFSE_CONTAINS_DROPPED_EVENTS }
            else e)

/-- The `FSE_UNMOUNT_PENDING` block of `add_fsevent`. -/
def fill_unmount_pending (s : fsevents_state) (cur : Nat) (ap : List va_word) :
    Option fsevents_state :=
  match va_tagged32 FSE_ARG_DEV ap with
  | none => none
  | some (dev, _) =>
    upd s cur (fun e => { e with dev := dev.getD e.dev, dest := none, str := none, len := 0 })

/-- The loop that walks up `v_parent` after `vn_getpath_no_firmlink` failed:
the result is `(ret, vp == NULL, pathbuff, pathbuff_len)` on leaving it. -/
def walk_parents (top_mount : Option cstr) : List (Int × cstr) → Int → cstr → Nat →
    Int × Bool × cstr × Nat
  | [], ret, pathbuff, len =>
    match top_mount with
    | some m => (ret, false, m.take (MAXPATHLEN - 1), len)
    | none => (ret, true, pathbuff, len)
  | (r, p) :: rest, _, _, _ =>
    if r = ENOSPC then walk_parents top_mount rest r p MAXPATHLEN
    else (r, false, p, p.length + 1)

/-- The path `case FSE_ARG_VNODE` settles on when there is no override:
whether `KFSE_CONTAINS_DROPPED_EVENTS` gets set (the first lookup failed), and
the path with its length, or `none` for `error = ENOENT`. -/
def vnode_path (v : vnode) : Bool × Option (cstr × Nat) :=
  if v.getpath_ret ≠ 0 ∨ v.getpath = [] then
    let r := walk_parents v.top_mount v.parents v.getpath_ret v.getpath (v.getpath.length + 1)
    if r.1 ≠ 0 ∨ r.2.1 = true then (true, none) else (true, some (r.2.2.1, r.2.2.2))
  else (false, some (v.getpath, v.getpath.length + 1))

/-- The attribute part of `case FSE_ARG_VNODE`: the mode with the hardlink
hints. -/
def vnode_mode (v : vnode) : Nat :=
  let mode := v.iftype ||| v.va_mode
  let mode := if v.is_hardlink then mode ||| FSE_MODE_HLINK else mode
  if v.is_hardlink ∧ ((v.is_dir ∧ v.va_dirlinkcount = 0) ∨ (v.is_reg ∧ v.va_nlink = 0)) then
    mode ||| FSE_MODE_LAST_HLINK
  else mode

/-- The locals after the attribute part of `case FSE_ARG_VNODE`. -/
def vnode_locals (l : add_locals) (v : vnode) : add_locals :=
  let l := { l with dev := v.va_fsid }
  if v.is_hardlink ∧ l.orig_linkid = 0 then
    { l with orig_linkid := v.va_fileid,
             orig_linkcount := min (v.va_nlink : Int) MAX_HARDLINK_NOTIFICATIONS,
             link_vp := some v }
  else l

/-- The `case FSE_ARG_VNODE` of the argument loop.  The result is the state,
`cur`, the locals, and whether control left through `goto clean_up`.  (The
branch that copies "NOPATH" needs `pathbuff != NULL` on entry, which never
holds: every path that sets `pathbuff` resets it or leaves the loop.) -/
def arg_vnode (s : fsevents_state) (kfse : Nat) (kfse_dest : Option Nat) (cur : Option Nat)
    (l : add_locals) (vp : Option vnode) :
    Option (fsevents_state × Option Nat × add_locals × Bool) :=
  match deref s kfse, vp with
  | some k, some v =>
    match (if k.str ≠ none then kfse_dest else cur) with
    | none => none
    | some c =>
      if v.getattr_ret ≠ 0 then
        match upd s c (fun e => { e with str := none }) with
        | none => none
        | some s => some (s, some c, { l with error := EINVAL }, true)
      else
        match upd s c (fun e => { e with dev := v.va_fsid, ino := v.va_fileid,
                                         mode := vnode_mode v, uid := v.va_uid,
                                         document_id := v.va_document_id }) with
        | none => none
        | some s =>
          -- the path: resolved from the vnode, or the override of a sibling link
          let path : Bool × Option (cstr × Nat) :=
            match l.path_override with
            | none => vnode_path v
            | some po => (false, some (po, po.length + 1))
          match (if path.1 then
              upd s c (fun e => { e with flags := e.flags ||| KFSE_CONTAINS_DROPPED_EVENTS })
            else some s) with
          | none => none
          | some s =>
            match path.2 with
            | none => some (s, some c, { vnode_locals l v with error := ENOENT }, true)
            | some pb =>
              if (vfs_addname s pb.1 pb.2).1 = [] then none
              else
                match upd (vfs_addname s pb.1 pb.2).2 c
                    (fun e => { e with len := pb.2 % 2 ^ 16,
                                       str := some (vfs_addname s pb.1 pb.2).1 }) with
                | none => none
                | some s => some (s, some c, vnode_locals l v, false)
  | _, _ => none

/-- The mode `case FSE_ARG_FINFO` computes before the truncation test. -/
def finfo_mode (fse : fse_info) : Nat :=
  if has_flag fse.mode FSE_MODE_HLINK ∧ fse.nlink = 0 then fse.mode ||| FSE_MODE_LAST_HLINK
  else fse.mode

/-- The locals after `case FSE_ARG_FINFO`. -/
def finfo_locals (l : add_locals) (fse : fse_info) : add_locals :=
  let l := { l with dev := fse.dev }
  if has_flag fse.mode FSE_MODE_HLINK ∧ l.orig_linkid = 0 then
    { l with orig_linkid := fse.ino,
             orig_linkcount := min (fse.nlink : Int) MAX_HARDLINK_NOTIFICATIONS }
  else l

/-- The `case FSE_ARG_FINFO` of the argument loop. -/
def arg_finfo (s : fsevents_state) (cur : Option Nat) (l : add_locals) (fse : fse_info) :
    Option (fsevents_state × add_locals) :=
  match cur with
  | none => none
  | some c =>
    match upd s c (fun e =>
        { e with dev := fse.dev, ino := fse.ino, uid := fse.uid,
                 document_id := fse.document_id,
                 mode := if has_flag (finfo_mode fse) FSE_TRUNCATED_PATH then
                     finfo_mode fse &&& 0xEFFFFFFF else finfo_mode fse,
                 flags := if has_flag (finfo_mode fse) FSE_TRUNCATED_PATH then
                     e.flags ||| KFSE_CONTAINS_DROPPED_EVENTS else e.flags }) with
    | none => none
    | some s => some (s, finfo_locals l fse)

/-- How one iteration of the argument loop ends: the loop is over
(`FSE_ARG_DONE`), control jumped to `clean_up`, or the loop goes on with the
words that are left. -/
inductive arg_next where
  | done
  | clean_up
  | more (rest : List va_word)
deriving DecidableEq, Repr

/-- One iteration of the argument loop of `add_fsevent` for the kinds without a
block of their own: the `switch (arg_type)`.  The result is the state, `cur`,
the locals and how the iteration ends. -/
def regular_arg (kfse : Nat) (kfse_dest : Option Nat) (ap : List va_word) (s : fsevents_state)
    (cur : Option Nat) (l : add_locals) :
    Option (fsevents_state × Option Nat × add_locals × arg_next) :=
  match ap with
  | va_word.int32 tag :: rest =>
    if tag = FSE_ARG_DONE then some (s, cur, l, arg_next.done)
    else if tag = FSE_ARG_VNODE then
      match rest with
      | va_word.vp v :: rest2 =>
        match arg_vnode s kfse kfse_dest cur l v with
        | none => none
        | some (s, cur, l, true) => some (s, cur, l, arg_next.clean_up)
        | some (s, cur, l, false) => some (s, cur, l, arg_next.more rest2)
      | _ => none
    else if tag = FSE_ARG_FINFO then
      match rest with
      | va_word.finfo fse :: rest2 =>
        match arg_finfo s cur l fse with
        | none => none
        | some (s, l) => some (s, cur, l, arg_next.more rest2)
      | _ => none
    else if tag = FSE_ARG_STRING then
      match deref s kfse, rest with
      | some k, va_word.int32 n :: rest2 =>
        match (if k.str ≠ none then kfse_dest else cur) with
        | none => none
        | some c =>
          if (n % 32768).toNat ≥ 1 then
            match rest2 with
            | va_word.chars (some str) :: rest3 =>
              match upd (vfs_addname s str (n % 32768).toNat).2 c
                  (fun e => { e with len := (n % 32768).toNat,
                                     str := some (vfs_addname s str (n % 32768).toNat).1 }) with
              | none => none
              | some s => some (s, some c, l, arg_next.more rest3)
            | _ => none
          else
            match upd (vfs_addname s [47] 2).2 c
                (fun e => { e with len := 2, str := some (vfs_addname s [47] 2).1 }) with
            | none => none
            | some s => some (s, some c, l, arg_next.more rest2)
      | _, _ => none
    else if tag = FSE_ARG_INT32 then
      match rest with
      | va_word.int32 ival :: rest2 =>
        match upd s kfse (fun e => { e with uid := (ival % 2 ^ 32).toNat }) with
        | none => none
        | some s => some (s, cur, l, arg_next.more rest2)
      | _ => none
    else
      match rest with
      | va_word.int32 _ :: rest2 => some (s, cur, l, arg_next.more rest2)
      | _ => none
  | _ => none

/-- The argument loop of `add_fsevent` for the kinds without a block of their
own, at most `fuel` iterations of it (each takes at least one word, so the
number of words plus one is enough).  The result is the state, the locals, and
whether control left through `goto clean_up`. -/
def fill_regular (kfse : Nat) (kfse_dest : Option Nat) :
    Nat → List va_word → fsevents_state → Option Nat → add_locals →
    Option (fsevents_state × add_locals × Bool)
  | 0, _, _, _, _ => none
  | fuel + 1, ap, s, cur, l =>
    match regular_arg kfse kfse_dest ap s cur l with
    | none => none
    | some (s, _, l, arg_next.done) => some (s, l, false)
    | some (s, _, l, arg_next.clean_up) => some (s, l, true)
    | some (s, cur, l, arg_next.more rest) => fill_regular kfse kfse_dest fuel rest s cur l

/-- The fan-out loop of `add_fsevent` over the watcher slots in `slots`. -/
def fan_out (type : Int) (dev : Int) (kfse : Nat) :
    List Nat → fsevents_state → Option fsevents_state
  | [], s => some s
  | i :: rest, s =>
    match get_watcher s i with
    | none => fan_out type dev kfse rest s
    | some watcher =>
      if type < watcher.num_events ∧ watcher.event_list.getD type.toNat FSE_IGNORE = FSE_REPORT ∧
          watcher_cares_about_dev watcher dev then
        match watcher_add_event s i kfse with
        | none => none
        | some (r, s) =>
          if r ≠ 0 then
            match get_watcher s i with
            | none => none
            | some w =>
              fan_out type dev kfse rest
                (set_watcher s i (some { w with num_dropped := (w.num_dropped + 1) % 2 ^ 32 }))
          else fan_out type dev kfse rest s
      else fan_out type dev kfse rest s

/-- How one pass over the body of `add_fsevent` ends: with `return err`, or with
`goto restart` (carrying the locals, the rest of the collaborator script and
the clock value of the next pass). -/
inductive pass_result where
  | ret (err : Int) (s : fsevents_state)
  | restart (s : fsevents_state) (l : add_locals) (links : List link_reply) (now : Nat)
deriving DecidableEq, Repr

/-- The kinds whose events are replicated for sibling hardlinks. -/
def hlink_type (type : Int) : Bool :=
  type == FSE_STAT_CHANGED || type == FSE_CONTENT_MODIFIED ||
  type == FSE_FINDER_INFO_CHANGED || type == FSE_XATTR_MODIFIED

/-- The tail of `add_fsevent`: the final `release_event_ref(kfse); return
error;`. -/
def add_fsevent_finish (s : fsevents_state) (kfse : Nat) (l : add_locals) : Option pass_result :=
  match release_event_ref s kfse with
  | none => none
  | some s => some (pass_result.ret l.error s)

/-- How one execution of the code from the label `clean_up` ends: with the
end of the pass, or with `goto clean_up` (carrying the locals and the rest of
the collaborator script). -/
inductive clean_next where
  | done (r : pass_result)
  | again (links : List link_reply) (l : add_locals)
deriving DecidableEq, Repr

/-- The locals after `path_override = get_pathbuff()` and `next_linkid =
orig_linkid` at the head of the sibling-hardlink block. -/
def hlink_locals (l : add_locals) : add_locals :=
  let l := if l.path_override = none then { l with path_override := some [] } else l
  if l.next_linkid = 0 then { l with next_linkid := l.orig_linkid } else l

/-- The value of `iret` after `VFS_ROOT`. -/
def hlink_root_iret (link_vp : vnode) (r : link_reply) : Int :=
  if link_vp.has_mount then r.root_iret else -1

/-- The value of `iret` after the block guarded by `iret == 0 && mnt_rootvp`. -/
def hlink_iret (link_vp : vnode) (r : link_reply) : Int :=
  if hlink_root_iret link_vp r = 0 ∧ r.mnt_rootvp then r.ioctl_iret
  else hlink_root_iret link_vp r

/-- The locals after the block guarded by `iret == 0 && mnt_rootvp`, in which
`VNOP_IOCTL(APFSIOC_NEXT_LINK)` overwrites `next_linkid`. -/
def hlink_next (link_vp : vnode) (r : link_reply) (l : add_locals) : add_locals :=
  if hlink_root_iret link_vp r = 0 ∧ r.mnt_rootvp then { l with next_linkid := r.next_linkid }
  else l

/-- One execution of the code from the label `clean_up` on: the sibling-hardlink
block, which either restarts the function with an override path, jumps back to
`clean_up` after a failed resolution, or falls through to the final release. -/
def hlink_block (type : Int) (kfse : Nat) (links : List link_reply) (s : fsevents_state)
    (l : add_locals) : Option clean_next :=
  match deref s kfse with
  | none => none
  | some k =>
    if l.do_all_links ∧ has_flag k.mode FSE_MODE_HLINK ∧ ¬ has_flag k.mode FSE_MODE_LAST_HLINK ∧
        hlink_type type ∧ l.orig_linkcount > 0 ∧ l.orig_linkid ≠ 0 then
      match (hlink_locals l).link_vp, links with
      | some link_vp, r :: links =>
        let l := hlink_next link_vp r (hlink_locals l)
        if hlink_iret link_vp r = 0 ∧ l.next_linkid ≠ 0 then
          if r.getpath_iret = 0 then
            let l := { l with orig_linkcount := l.orig_linkcount - 1 }
            let l := { l with path_override := some r.path }
            if l.orig_linkcount ≥ 0 then
              match release_event_ref s kfse with
              | none => none
              | some s => some (clean_next.done (pass_result.restart s l links r.now))
            else (add_fsevent_finish s kfse l).map clean_next.done
          else
            let l := { l with orig_linkcount := l.orig_linkcount - 1 }
            if l.orig_linkcount ≥ 0 then some (clean_next.again links l)
            else (add_fsevent_finish s kfse l).map clean_next.done
        else (add_fsevent_finish s kfse l).map clean_next.done
      | _, _ => (add_fsevent_finish s kfse (hlink_locals l)).map clean_next.done
    else (add_fsevent_finish s kfse l).map clean_next.done

/-- The code from the label `clean_up` on, with its `goto clean_up`, of which at
most `fuel` executions are made. -/
def clean_up_loop (type : Int) (kfse : Nat) (s : fsevents_state) :
    Nat → List link_reply → add_locals → Option pass_result
  | 0, _, _ => none
  | fuel + 1, links, l =>
    match hlink_block type kfse links s l with
    | none => none
    | some (clean_next.done r) => some r
    | some (clean_next.again links l) => clean_up_loop type kfse s fuel links l

/-- The code from the label `clean_up` on.  Each `goto clean_up` uses up one
answer of the collaborator script, so `links.length + 1` executions suffice. -/
def clean_up (type : Int) (kfse : Nat) (links : List link_reply) (s : fsevents_state)
    (l : add_locals) : Option pass_result :=
  clean_up_loop type kfse s (links.length + 1) links l

/-- The two `zalloc_noblock` calls of `add_fsevent`: `(kfse, kfse_dest, state)`;
a first element is given back when the second cannot be had. -/
def alloc_events (s : fsevents_state) (type : Int) : Option Nat × Option Nat × fsevents_state :=
  match zalloc_noblock s with
  | (none, s) => (none, none, s)
  | (some k, s) =>
    if two_target type then
      match zalloc_noblock s with
      | (none, s) => (none, none, zfree s k)
      | (some d, s) => (some k, some d, s)
    else (some k, none, s)

/-- The statements of `add_fsevent` between the allocation and the unlock of the
event list: `kfse_init` of both events, the link to the destination, and the
insertion at the head of the global list. -/
def publish_events (s : fsevents_state) (type : Int) (now : Nat) (pid : Int) (kfse : Nat)
    (kfse_dest : Option Nat) : fsevents_state :=
  let s := store s kfse (kfse_init type now pid)
  let s := { s with last_event_ptr := some kfse }
  let s := if two_target type then
      match kfse_dest with
      | some d =>
        store (store s d (kfse_init type now pid)) kfse
          { kfse_init type now pid with dest := some d }
      | none => s
    else s
  let s := { s with num_events_outstanding := s.num_events_outstanding + 1,
                    num_pending_rename :=
                      if type = FSE_RENAME then s.num_pending_rename + 1
                      else s.num_pending_rename,
                    kfse_list_head := kfse :: s.kfse_list_head }
  match deref s kfse with
  | some e => store s kfse { e with flags := e.flags ||| KFSE_ON_LIST }
  | none => s

/-- The label `done_with_args`: clear `KFSE_BEING_CREATED` on both events. -/
def done_with_args (s : fsevents_state) (kfse : Nat) (kfse_dest : Option Nat) :
    Option fsevents_state :=
  let r := match kfse_dest with
    | some d => upd s d (fun e => { e with flags := e.flags &&& 0xFFF7 })
    | none => some s
  match r with
  | none => none
  | some s => upd s kfse (fun e => { e with flags := e.flags &&& 0xFFF7 })

/-- The argument blocks of `add_fsevent`, by event kind: the new state, the
locals, and `true` when the block ends with `goto clean_up` (which skips the
fan-out). -/
def fill_event (s : fsevents_state) (type : Int) (kfse : Nat) (kfse_dest : Option Nat)
    (ap : List va_word) (env : fse_env) (l : add_locals) :
    Option (fsevents_state × add_locals × Bool) :=
  if type = FSE_DOCID_CREATED ∨ type = FSE_DOCID_CHANGED then
    (fill_docid s kfse ap).map (fun s => (s, { l with do_all_links := false }, false))
  else if type = FSE_ACTIVITY then
    (fill_activity s kfse ap).map (fun s => (s, { l with do_all_links := false }, false))
  else if type = FSE_ACCESS_GRANTED then
    (fill_access_granted s kfse ap env).map
      (fun s => (s, { l with do_all_links := false }, false))
  else if type = FSE_UNMOUNT_PENDING then
    (fill_unmount_pending s kfse ap).map
      (fun s => (s, { l with do_all_links := false }, false))
  else fill_regular kfse kfse_dest (ap.length + 1) ap s (some kfse) l

/-- The part of a pass of `add_fsevent` that follows the argument blocks: the
label `done_with_args`, the fan-out, and the code from `clean_up` on. -/
def deliver_pass (s : fsevents_state) (type : Int) (kfse : Nat) (kfse_dest : Option Nat)
    (l : add_locals) (links : List link_reply) (skip : Bool) : Option pass_result :=
  if skip then clean_up type kfse links s l
  else
    match done_with_args s kfse kfse_dest with
    | none => none
    | some s =>
      match fan_out type l.dev kfse (List.range MAX_WATCHERS) s with
      | none => none
      | some s => clean_up type kfse links s l

/-- The part of a pass of `add_fsevent` that follows the dedup filter: the
allocation, the argument blocks, the fan-out and the code from `clean_up` on. -/
def publish_pass (s : fsevents_state) (type : Int) (ap : List va_word) (env : fse_env)
    (now : Nat) (l : add_locals) (links : List link_reply) : Option pass_result :=
  match alloc_events s type with
  | (none, _, s) => some (pass_result.ret ENOSPC (no_free_events s env))
  | (some kfse, kfse_dest, s) =>
    match fill_event (publish_events s type now env.pid kfse kfse_dest) type kfse kfse_dest
        ap env l with
    | none => none
    | some (s, l, skip) => deliver_pass s type kfse kfse_dest l links skip

/-- One pass over the body of `add_fsevent`, from the label `restart` to a
`return` or a `goto restart`.  `none` is a panic or an undefined read. -/
def add_fsevent_pass (s : fsevents_state) (type : Int) (ap : List va_word) (env : fse_env)
    (now : Nat) (l : add_locals) (links : List link_reply) : Option pass_result :=
  if type < 0 ∨ type ≥ FSE_MAX_EVENTS then some (pass_result.ret EINVAL s)
  else if s.fs_event_type_watchers.getD type.toNat 0 = 0 then some (pass_result.ret 0 s)
  else if l.path_override = none ∧ dedup_exempt type = false then
    match dedup_filter s type ap env now with
    | none => none
    | some (true, s) => some (pass_result.ret 0 s)
    | some (false, s) => publish_pass s type ap env now l links
  else publish_pass s type ap env now l links

/-- The passes of `add_fsevent`, at most `fuel` of them: `none` also when the
fuel runs out. -/
def add_fsevent_loop (type : Int) (ap : List va_word) (env : fse_env) :
    Nat → fsevents_state → Nat → add_locals → List link_reply → Option (Int × fsevents_state)
  | 0, _, _, _, _ => none
  | fuel + 1, s, now, l, links =>
    match add_fsevent_pass s type ap env now l links with
    | none => none
    | some (pass_result.ret err s) => some (err, s)
    | some (pass_result.restart s l links now) => add_fsevent_loop type ap env fuel s now l links

/-- Counterpart of `add_fsevent(type, ctx, ...)`: the return value and the new
state.  The variadic arguments are `ap` (without the final `FSE_ARG_DONE`
being special: it is a word like the others).  At most 130 passes are made. -/
def add_fsevent (s : fsevents_state) (type : Int) (ap : List va_word) (env : fse_env) :
    Option (Int × fsevents_state) :=
  let l : add_locals := {}
  let (type, l) := if type = FSE_CONTENT_MODIFIED_NO_HLINK then
      (FSE_CONTENT_MODIFIED, { l with do_all_links := false }) else (type, l)
  add_fsevent_loop type ap env 130 s env.now l env.links

/-! ## Delivery: `fill_buff`, `copy_out_kfse`, `fmod_watch` -/

/-- The part of `struct uio` the broker sees: the residual count, the bytes
moved out so far, and the return codes the coming `uiomove` calls will have
(success once the list is used up). -/
structure uio where
  resid : Int := 0
  written : List Nat := []
  errs : List Int := []
deriving DecidableEq, Repr

/-- Counterpart of `uiomove(buf, n, uio)` for a kernel-to-user move of the `n`
bytes `buf`: at most `resid` bytes are moved. -/
def uiomove (buf : List Nat) (u : uio) : Int × uio :=
  let move (u : uio) : uio :=
    let k := min buf.length u.resid.toNat
    { u with written := u.written ++ buf.take k, resid := u.resid - k }
  match u.errs with
  | [] => (0, move u)
  | e :: rest => if e ≠ 0 then (e, { u with errs := rest }) else (0, move { u with errs := rest })

/-- The `width` low-order bytes of `v`, least significant first. -/
def le_bytes : Nat → Nat → List Nat
  | 0, _ => []
  | width + 1, v => v % 256 :: le_bytes width (v / 256)

/-- The bytes of a signed 32-bit value. -/
def le_bytes_int32 (v : Int) : List Nat := le_bytes 4 (v % 2 ^ 32).toNat

/-- The `n` bytes found at an interned string: its characters, then NULs. -/
def cstr_bytes (str : cstr) (n : Nat) : List Nat := (str ++ List.replicate n 0).take n

/-- The 32 bytes of an `audit_token_t` given as its 32-bit words. -/
def token_bytes (t : List Nat) : List Nat :=
  ((t.map (le_bytes 4)).flatten ++ List.replicate 32 0).take 32

/-- The data-copy loop of `fill_buff`; `fuel` bounds its iterations.  The state
is the scratch contents (`buff_idx` is its length), the data left and the
uio. -/
def fill_buff_loop (buff_sz : Nat) : Nat → List Nat → List Nat → uio → Int × List Nat × uio
  | 0, _, buff, u => (0, buff, u)
  | fuel + 1, data, buff, u =>
    if data.length > 0 then
      let amt := min data.length (buff_sz - buff.length)
      let buff := buff ++ data.take amt
      let data := data.drop amt
      if (data.length : Int) > (buff_sz : Int) - buff.length then
        if (buff.length : Int) > u.resid then (ENOSPC, buff, u)
        else
          match uiomove buff u with
          | (error, u) =>
            if error ≠ 0 then (error, buff, u)
            else if amt = 0 then (0, [], u)
            else fill_buff_loop buff_sz fuel data [] u
      else if amt = 0 then (0, buff, u)
      else fill_buff_loop buff_sz fuel data buff u
    else (0, buff, u)

/-- Counterpart of `fill_buff(type, size, data, buff, &buff_idx, buff_sz, uio)`;
`data` holds the `size` bytes to copy. -/
def fill_buff (type : Int) (data : List Nat) (buff : List Nat) (buff_sz : Nat) (u : uio) :
    Int × List Nat × uio :=
  let flushed : Int × List Nat × uio :=
    if (buff_sz : Int) - buff.length ≤ 5 then
      if (buff.length : Int) > u.resid then (ENOSPC, buff, u)
      else
        match uiomove buff u with
        | (error, u) => if error ≠ 0 then (error, buff, u) else (0, [], u)
    else (0, buff, u)
  match flushed with
  | (error, buff, u) =>
    if error ≠ 0 then (error, buff, u)
    else
      let buff := buff ++ le_bytes 2 (type % 2 ^ 16).toNat
      let buff := buff ++ le_bytes 2 (data.length % 2 ^ 16)
      fill_buff_loop buff_sz (data.length + 1) data buff u

/-- Chain several `fill_buff` calls, stopping at the first error (`goto
get_out`). -/
def fill_fields (buff_sz : Nat) : List (Int × List Nat) → List Nat → uio → Int × List Nat × uio
  | [], buff, u => (0, buff, u)
  | (type, data) :: rest, buff, u =>
    match fill_buff type data buff buff_sz u with
    | (error, buff, u) => if error ≠ 0 then (error, buff, u) else fill_fields buff_sz rest buff u

/-- The fields `copy_out_kfse` emits from the label `copy_again` for the event
`cur` (and, for a regular event, its destinations), up to the label `done`;
the second component is the event whose `abstime` the trailer carries.  `fuel`
bounds the length of the `dest` chain. -/
def body_fields (s : fsevents_state) (watcher : fs_event_watcher) (type : Int) :
    Nat → kfs_event → Option (List (Int × List Nat) × kfs_event)
  | 0, _ => none
  | fuel + 1, cur =>
    if type = FSE_DOCID_CHANGED ∨ type = FSE_DOCID_CREATED then
      some ([(FSE_ARG_DEV, le_bytes_int32 cur.docid_dev),
             (FSE_ARG_INO, le_bytes 8 cur.docid_src_ino),
             (FSE_ARG_INO, le_bytes 8 cur.docid_dst_ino),
             (FSE_ARG_INT64, le_bytes 8 cur.docid_docid)], cur)
    else if type = FSE_UNMOUNT_PENDING then
      some ([(FSE_ARG_DEV, le_bytes_int32 cur.dev)], cur)
    else if type = FSE_ACTIVITY then
      some ([(FSE_ARG_INT32, le_bytes 4 cur.act_version),
             (FSE_ARG_DEV, le_bytes_int32 cur.act_dev),
             (FSE_ARG_INO, le_bytes 8 cur.act_ino),
             (FSE_ARG_INT64, le_bytes 8 cur.act_origin_id),
             (FSE_ARG_INT64, le_bytes 8 cur.act_age),
             (FSE_ARG_INT32, le_bytes 4 cur.act_use_state),
             (FSE_ARG_INT32, le_bytes 4 cur.act_urgency),
             (FSE_ARG_INT64, le_bytes 8 cur.act_size)], cur)
    else if type = FSE_ACCESS_GRANTED then
      if has_flag cur.flags KFSE_CONTAINS_DROPPED_EVENTS then some ([], cur)
      else
        some ([(FSE_ARG_STRING, cstr_bytes (cur.str.getD []) cur.len),
               (FSE_ARG_AUDIT_TOKEN, token_bytes cur.audit_token)], cur)
    else
      let path : Int × List Nat :=
        match cur.str with
        | none => (FSE_ARG_STRING, [47, 0])
        | some [] => (FSE_ARG_STRING, [47, 0])
        | some str => (FSE_ARG_STRING, cstr_bytes str cur.len)
      if cur.dev = 0 ∧ cur.ino = 0 then some ([path], cur)
      else
        let info : List (Int × List Nat) :=
          if has_flag watcher.flags WATCHER_WANTS_COMPACT_EVENTS then
            [(FSE_ARG_FINFO, le_bytes 8 cur.ino ++ le_bytes_int32 cur.dev ++ le_bytes 4 cur.mode ++
                le_bytes 4 cur.uid ++ le_bytes 4 cur.document_id)]
          else
            [(FSE_ARG_DEV, le_bytes_int32 cur.dev),
             (FSE_ARG_INO, le_bytes 8 cur.ino),
             (FSE_ARG_MODE, le_bytes 4 cur.mode),
             (FSE_ARG_UID, le_bytes 4 cur.uid),
             (FSE_ARG_GID, le_bytes 4 cur.document_id)]
        match cur.dest with
        | none => some (path :: info, cur)
        | some d =>
          match deref s d with
          | none => none
          | some de =>
            match body_fields s watcher type fuel de with
            | none => none
            | some (more, last) => some (path :: info ++ more, last)

/-- Counterpart of `copy_out_kfse(watcher, kfse, uio)`; `none` is the panic on an
invalid event, or a read through a dangling `dest`. -/
def copy_out_kfse (s : fsevents_state) (watcher : fs_event_watcher) (kfse : kfs_event)
    (u : uio) : Option (Int × uio) :=
  if kfse.type = FSE_INVALID then none
  else if has_flag kfse.flags KFSE_BEING_CREATED then some (0, u)
  else if (kfse.type = FSE_RENAME ∨ kfse.type = FSE_CLONE) ∧ kfse.dest = none then some (0, u)
  else
    let type : Int :=
      if has_flag watcher.flags WATCHER_WANTS_EXTENDED_INFO then
        let t : Nat := (kfse.type % 2 ^ 32).toNat &&& 0xfff
        let t := if has_flag kfse.flags KFSE_CONTAINS_DROPPED_EVENTS then
            t ||| (FSE_CONTAINS_DROPPED_EVENTS <<< FSE_FLAG_SHIFT)
          else if has_flag kfse.flags KFSE_COMBINED_EVENTS then
            t ||| (FSE_COMBINED_EVENTS <<< FSE_FLAG_SHIFT)
          else t
        (t : Int)
      else kfse.type
    let evbuff : List Nat := le_bytes_int32 type ++ le_bytes_int32 kfse.pid
    match body_fields s watcher kfse.type (s.event_zone.length + 1) kfse with
    | none => none
    | some (fields, cur) =>
      match fill_fields 512 (fields ++ [(FSE_ARG_INT64, le_bytes 8 cur.abstime)]) evbuff u with
      | (error, evbuff, u) =>
        if error ≠ 0 then some (error, u)
        else
          -- check if the FSE_ARG_DONE will fit
          let flushed : Int × List Nat × uio :=
            if 2 > 512 - (evbuff.length : Int) then
              if (evbuff.length : Int) > u.resid then (ENOSPC, evbuff, u)
              else
                match uiomove evbuff u with
                | (error, u) => if error ≠ 0 then (error, evbuff, u) else (0, [], u)
            else (0, evbuff, u)
          match flushed with
          | (error, evbuff, u) =>
            if error ≠ 0 then some (error, u)
            else
              let evbuff := evbuff ++ le_bytes 2 (FSE_ARG_DONE % 2 ^ 16).toNat
              if (evbuff.length : Int) > u.resid then some (ENOSPC, u)
              else some (uiomove evbuff u)

/-- Whether `needle` occurs in `hay` (the `strnstr` of `is_ignored_directory`). -/
def strnstr : List Nat → List Nat → Bool
  | [], needle => needle.isEmpty
  | c :: hay, needle => needle.isPrefixOf (c :: hay) || strnstr hay needle

/-- Counterpart of `is_ignored_directory`: the path contains one of the three
directory names within its first `MAXPATHLEN` bytes. -/
def is_ignored_directory (path : Option cstr) : Bool :=
  match path with
  | none => false
  | some p =>
    strnstr (p.take MAXPATHLEN)
      [47, 46, 83, 112, 111, 116, 108, 105, 103, 104, 116, 45, 86, 49, 48, 48, 47] ||
    strnstr (p.take MAXPATHLEN)
      [47, 46, 77, 111, 98, 105, 108, 101, 66, 97, 99, 107, 117, 112, 115, 47] ||
    strnstr (p.take MAXPATHLEN)
      [47, 66, 97, 99, 107, 117, 112, 115, 46, 98, 97, 99, 107, 117, 112, 100, 98, 47]

/-- How the `while` loop of `fmod_watch` is left: by its condition or a `break`
(`fall`), or by `goto get_out`. -/
inductive watch_exit where
  | fall
  | get_out
deriving DecidableEq, Repr

/-- The locals of `fmod_watch` next to the watcher and the uio. -/
structure watch_locals where
  last_full_event_resid : Int
  error : Int := 0
  skipped : Bool := false
deriving DecidableEq, Repr

/-- How the body of the read loop ends before its tail: by leaving the loop, or
by going on to the tail, which drops the queue entry `p` and its reference. -/
inductive watch_next where
  | stop (s : fsevents_state) (u : uio) (v : watch_locals) (ex : watch_exit)
  | advance (p : Nat) (s : fsevents_state) (u : uio) (v : watch_locals)
deriving DecidableEq, Repr

/-- The body of the read loop of `fmod_watch` up to its tail; `none` is a panic
or a read through a pointer to a free element. -/
def watch_body (s : fsevents_state) (w : fs_event_watcher) (u : uio) (v : watch_locals) :
    Option watch_next :=
  if has_flag w.flags WATCHER_CLOSING then some (watch_next.stop s u v watch_exit.fall)
  else
    match w.event_queue.getD w.rd none with
    | none => some (watch_next.stop s u v watch_exit.fall)
    | some p =>
      match deref s p with
      | none => none
      | some kfse =>
        if kfse.type = FSE_INVALID ∨ kfse.type ≥ w.num_events ∨ kfse.refcount < 1 then
          some (watch_next.stop s u v watch_exit.fall)
        else if w.event_list.getD kfse.type.toNat FSE_IGNORE = FSE_REPORT then
          if !(has_flag w.flags WATCHER_APPLE_SYSTEM_SERVICE) ∧
              kfse.type ≠ FSE_DOCID_CREATED ∧ kfse.type ≠ FSE_DOCID_CHANGED ∧
              kfse.type ≠ FSE_ACTIVITY ∧ is_ignored_directory kfse.str then
            some (watch_next.advance p s u { v with error := 0, skipped := true })
          else
            match copy_out_kfse (forget_last_event s p) w kfse u with
            | none => none
            | some (error, u) =>
              if error ≠ 0 then
                if error ≠ ENOENT then
                  some (watch_next.stop (forget_last_event s p)
                    { u with resid := v.last_full_event_resid }
                    { v with error := 0, skipped := false } watch_exit.get_out)
                else
                  some (watch_next.advance p (forget_last_event s p)
                    { u with resid := v.last_full_event_resid }
                    { last_full_event_resid := v.last_full_event_resid, error := error,
                      skipped := false })
              else
                some (watch_next.advance p (forget_last_event s p) u
                  { last_full_event_resid := u.resid, error := error, skipped := false })
        else some (watch_next.advance p s u v)

/-- The `while (uio_resid(uio) > 0 && watcher->rd != watcher->wr)` loop of
`fmod_watch`; `fuel` bounds its iterations (`none` when it runs out, on a
panic, or on a read through a pointer to a free element). -/
def watch_loop : Nat → fsevents_state → fs_event_watcher → uio → watch_locals →
    Option (fsevents_state × fs_event_watcher × uio × watch_locals × watch_exit)
  | 0, s, w, u, v =>
    if u.resid > 0 ∧ w.rd ≠ w.wr then none else some (s, w, u, v, watch_exit.fall)
  | fuel + 1, s, w, u, v =>
    if u.resid > 0 ∧ w.rd ≠ w.wr then
      match watch_body s w u v with
      | none => none
      | some (watch_next.stop s u v ex) => some (s, w, u, v, ex)
      | some (watch_next.advance p s u v) =>
        match release_event_ref s p with
        | none => none
        | some s => watch_loop fuel s (dequeued w) u v
    else some (s, w, u, v, watch_exit.fall)

/-- The block of `fmod_watch` that writes the synthetic EventsDropped record:
`(error, watcher, uio, last_full_event_resid)`; the flag is cleared only when
the record went out. -/
def emit_dropped (w : fs_event_watcher) (u : uio) (last_full : Int) :
    Int × fs_event_watcher × uio × Int :=
  if has_flag w.flags WATCHER_DROPPED_EVENTS then
    match uiomove (le_bytes_int32 FSE_EVENTS_DROPPED) u with
    | (e1, u) =>
      if e1 = 0 then
        match uiomove (le_bytes_int32 0) u with
        | (_, u) =>
          match uiomove (le_bytes 2 (FSE_ARG_DONE % 2 ^ 16).toNat) u with
          | (e3, u) =>
            if e3 ≠ 0 then (e3, w, u, u.resid)
            else (0, { w with flags := w.flags &&& 0xFFFFFFFE }, u, u.resid)
      else (e1, w, u, last_full)
  else (0, w, u, last_full)

/-- The body of `fmod_watch` from the label `restart_watch` on, with the
watcher held locally; `fuel` bounds the number of `goto restart_watch`. -/
def watch_from_restart (sleep_err : Int) : Nat → fsevents_state → fs_event_watcher → uio →
    Int → Option (Int × fsevents_state × fs_event_watcher × uio)
  | 0, _, _, _, _ => none
  | fuel + 1, s, w, u, last_full =>
    let leave (error : Int) (s : fsevents_state) (w : fs_event_watcher) (u : uio) :
        Option (Int × fsevents_state × fs_event_watcher × uio) :=
      some (error, s, { w with num_readers := w.num_readers - 1 }, u)
    if w.rd = w.wr ∧ has_flag w.flags WATCHER_CLOSING then leave 0 s w u
    else if w.rd = w.wr ∧ (sleep_err ≠ 0 ∨ has_flag w.flags WATCHER_CLOSING) then
      leave sleep_err s w u
    else
      match emit_dropped w u last_full with
      | (error, w, u, last_full) =>
        if error ≠ 0 then leave error s w u
        else
          match watch_loop w.eventq_size s w u { last_full_event_resid := last_full } with
          | none => none
          | some (s, w, u, v, watch_exit.get_out) => leave v.error s w u
          | some (s, w, u, v, watch_exit.fall) =>
            if v.skipped ∧ v.error = 0 then
              watch_from_restart sleep_err fuel s w u v.last_full_event_resid
            else leave v.error s w u

/-- Counterpart of `fmod_watch(watcher_table[j], uio)`: the return value, the new
state and the uio.  An empty slot stands for the `NULL` watcher.  `sleep_err`
is what `tsleep` returns should the reader find the queue empty (nothing else
runs while it sleeps: the step is atomic). -/
def fmod_watch (s : fsevents_state) (j : Nat) (u : uio) (sleep_err : Int) :
    Option (Int × fsevents_state × uio) :=
  match get_watcher s j with
  | none => some (EINVAL, s, u)
  | some w =>
    if u.resid < 2048 then some (EINVAL, s, u)
    else if has_flag w.flags WATCHER_CLOSING then some (0, s, u)
    else if w.num_readers ≠ 0 then some (EAGAIN, s, u)
    else
      let w := { w with num_readers := w.num_readers + 1 }
      match watch_from_restart sleep_err (w.eventq_size + 2) s w u u.resid with
      | none => none
      | some (error, s, w, u) => some (error, set_watcher s j (some w), u)

/-! ## Per-handle ioctls and the unmount barrier -/

/-- The commands of `fseventsf_ioctl` with their payloads.  For the device
filter the payload is the bitness of the variant, `num_devices`, and the user
array `copyin` reads from. -/
inductive ioctl_cmd where
  | FIONBIO
  | FIOASYNC
  | FSEVENTS_WANT_COMPACT_EVENTS
  | FSEVENTS_WANT_EXTENDED_INFO
  | FSEVENTS_GET_CURRENT_ID
  | FSEVENTS_DEVICE_FILTER (is64 : Bool) (num_devices : Nat) (devices : List Int)
  | FSEVENTS_UNMOUNT_PENDING_ACK (dev : Int)
  | other
deriving DecidableEq, Repr

/-- Counterpart of `fseventsf_ioctl` on the handle of `watcher_table[j]`: the
return value, the value written through `data` (for `GetCurrentId`) and the
new state.  An empty slot stands for a handle that is closing.  `copyin` fails
with `EFAULT` when the user array is shorter than `num_devices`. -/
def fseventsf_ioctl (s : fsevents_state) (j : Nat) (cmd : ioctl_cmd) (proc_is64bit : Bool)
    (kalloc_ok : Bool) : Int × Option Nat × fsevents_state :=
  match get_watcher s j with
  | none => (0, none, s)
  | some w =>
    match cmd with
    | ioctl_cmd.FIONBIO => (0, none, s)
    | ioctl_cmd.FIOASYNC => (0, none, s)
    | ioctl_cmd.FSEVENTS_WANT_COMPACT_EVENTS =>
      (0, none, set_watcher s j (some { w with flags := w.flags ||| WATCHER_WANTS_COMPACT_EVENTS }))
    | ioctl_cmd.FSEVENTS_WANT_EXTENDED_INFO =>
      (0, none, set_watcher s j (some { w with flags := w.flags ||| WATCHER_WANTS_EXTENDED_INFO }))
    | ioctl_cmd.FSEVENTS_GET_CURRENT_ID => (0, some w.max_event_id, s)
    | ioctl_cmd.FSEVENTS_DEVICE_FILTER is64 num_devices devices =>
      if is64 ≠ proc_is64bit then (EINVAL, none, s)
      else if num_devices > 256 then (EINVAL, none, s)
      else if num_devices = 0 then
        (0, none, set_watcher s j (some { w with devices_not_to_watch := none, num_devices := 0 }))
      else if !kalloc_ok then (ENOMEM, none, s)
      else if devices.length < num_devices then (EFAULT, none, s)
      else
        let devices_not_to_watch := devices.take num_devices
        (0, none, set_watcher s j (some { w with devices_not_to_watch := some devices_not_to_watch,
                                                 num_devices := num_devices }))
    | ioctl_cmd.FSEVENTS_UNMOUNT_PENDING_ACK dev =>
      if s.fsevent_unmount_dev = dev then
        let s := { s with fsevent_unmount_ack_count := s.fsevent_unmount_ack_count - 1 }
        if s.fsevent_unmount_ack_count ≤ 0 then (0, none, { s with fsevent_unmount_dev := 0 })
        else (0, none, s)
      else (EINVAL, none, s)
    | ioctl_cmd.other => (EINVAL, none, s)

/-- The first half of `fsevent_unmount`, up to and including the
`add_fsevent(FSE_UNMOUNT_PENDING, ...)` call.  When another unmount is pending
the caller sleeps and, nothing else running meanwhile, gives up unchanged. -/
def fsevent_unmount_begin (s : fsevents_state) (dev : Int) (env : fse_env) :
    Option fsevents_state :=
  if s.fsevent_unmount_dev ≠ 0 then some s
  else if s.fs_event_type_watchers.getD 13 0 = 0 then some s
  else
    let s := { s with fsevent_unmount_dev := dev,
                      fsevent_unmount_ack_count := s.fs_event_type_watchers.getD 13 0 }
    match add_fsevent s FSE_UNMOUNT_PENDING
        [va_word.int32 FSE_ARG_DEV, va_word.int32 dev, va_word.int32 FSE_ARG_DONE] env with
    | none => none
    | some (_, s) => some s

/-- The second half of `fsevent_unmount` when the wait for the acknowledgments
ends with an error or a timeout: the barrier is reset if it is still ours. -/
def fsevent_unmount_timeout (s : fsevents_state) (dev : Int) : fsevents_state :=
  if s.fsevent_unmount_dev = dev then
    { s with fsevent_unmount_dev := 0, fsevent_unmount_ack_count := 0 }
  else s

/-! ## Initialisation and reachable states -/

/-- Counterpart of `fsevents_internal_init` with `kern.maxkfsevents` equal to
`max`: zeroed interest counters, an empty watcher table, and a zone filled with
`max` free elements. -/
def fsevents_internal_init (max : Nat) : fsevents_state :=
  { max_kfs_events := max,
    event_zone := List.replicate max none,
    watcher_table := List.replicate MAX_WATCHERS none,
    fs_event_type_watchers := List.replicate 17 0 }

/-- The states the broker can be in between two entry points: those reached
from initialisation by `add_watcher`, `remove_watcher`, `add_fsevent`,
`fmod_watch`, the ioctls, the coalescing timer and the unmount barrier. -/
inductive reachable : fsevents_state → Prop where
  | init (max : Nat) : reachable (fsevents_internal_init max)
  | add_watcher {s : fsevents_state} (event_list : List Int) (num_events eventq_size : Int)
      (task : watcher_owner) :
      reachable s → reachable (add_watcher s event_list num_events eventq_size task).2.2
  | remove_watcher {s s1 : fsevents_state} (j : Nat) :
      reachable s → remove_watcher s j = some s1 → reachable s1
  | add_fsevent {s s1 : fsevents_state} (type : Int) (ap : List va_word) (env : fse_env)
      (r : Int) : reachable s → add_fsevent s type ap env = some (r, s1) → reachable s1
  | fmod_watch {s s1 : fsevents_state} (j : Nat) (u u1 : uio) (sleep_err r : Int) :
      reachable s → fmod_watch s j u sleep_err = some (r, s1, u1) → reachable s1
  | ioctl {s : fsevents_state} (j : Nat) (cmd : ioctl_cmd) (is64 kalloc_ok : Bool) :
      reachable s → reachable (fseventsf_ioctl s j cmd is64 kalloc_ok).2.2
  | timer {s : fsevents_state} : reachable s → reachable (delayed_event_delivery s)
  | unmount_begin {s s1 : fsevents_state} (dev : Int) (env : fse_env) :
      reachable s → fsevent_unmount_begin s dev env = some s1 → reachable s1
  | unmount_timeout {s : fsevents_state} (dev : Int) :
      reachable s → reachable (fsevent_unmount_timeout s dev)

/-! ## Notions used by the statements -/

/-- The event carries `KFSE_ON_LIST`. -/
def on_list (e : kfs_event) : Bool := has_flag e.flags KFSE_ON_LIST

/-- The number of entries a ring holds: `(wr - rd) mod eventq_size`. -/
def num_pending (w : fs_event_watcher) : Nat := (w.wr + w.eventq_size - w.rd) % w.eventq_size

/-- The entries of a watcher's ring from `rd` up to (cyclically) `wr`, oldest
first. -/
def pending (w : fs_event_watcher) : List (Option Nat) :=
  (List.range (num_pending w)).map (fun k => w.event_queue.getD ((w.rd + k) % w.eventq_size) none)

/-- The number of pending entries of one watcher-table slot that reference the
event at `p`. -/
def slot_refs (p : Nat) (o : Option fs_event_watcher) : Nat :=
  match o with
  | none => 0
  | some w => (pending w).count (some p)

/-- The number of queue slots of the registered watchers that reference the
event at `p`. -/
def queue_refs (table : List (Option fs_event_watcher)) (p : Nat) : Nat :=
  (table.map (slot_refs p)).sum

/-- The events a release of the last reference frees: the event, and its
destination when it is of a kind that can have one. -/
def freed_by (e : kfs_event) (p q : Nat) : Prop :=
  q = p ∨ (e.type ≠ FSE_DOCID_CREATED ∧ e.type ≠ FSE_DOCID_CHANGED ∧ e.type ≠ FSE_ACTIVITY ∧
    e.dest = some q)

/-- The number of non-NULL slots of a watcher's `event_queue` array. -/
def held_slots (w : fs_event_watcher) : Nat :=
  ((List.range w.eventq_size).filter (fun i => (w.event_queue.getD i none).isSome)).length

/-- The indices and the length of a ring are consistent (a ring of size 0 is
empty and stays so), and the slots that are not between `rd` and `wr` are
NULL. -/
structure ring_ok (w : fs_event_watcher) : Prop where
  len : w.event_queue.length = w.eventq_size
  rd_lt : w.rd < w.eventq_size ∨ (w.eventq_size = 0 ∧ w.rd = 0)
  wr_lt : w.wr < w.eventq_size ∨ (w.eventq_size = 0 ∧ w.wr = 0)
  clean : ∀ i, (∀ k, k < num_pending w → (w.rd + k) % w.eventq_size ≠ i) →
    w.event_queue.getD i none = none

/-- The events of a zone are consistent with `cnt`, the number of references
there are to each: an event on the global list counts exactly `cnt` references
and at least one; an event off the list (a linked destination) counts one, has
none itself and is referenced by no queue; a `dest` link leads to an event off
the list and no two events share a destination. -/
def zone_ok (z : List (Option kfs_event)) (cnt : Nat → Nat) : Prop :=
  (∀ p, z.getD p none = none → cnt p = 0) ∧
  (∀ p e, z.getD p none = some e →
    (on_list e = true → e.refcount = cnt p ∧ 1 ≤ cnt p ∧ 0 ≤ e.type ∧ e.type < FSE_MAX_EVENTS) ∧
    (on_list e = false → e.refcount = 1 ∧ e.dest = none ∧ cnt p = 0) ∧
    (∀ d, e.dest = some d → d ≠ p ∧ ∃ de, z.getD d none = some de ∧ on_list de = false) ∧
    (∀ p1 e1 d, z.getD p1 none = some e1 → e1.dest = some d → e.dest = some d → p1 = p))

/-- Every event of `z1` is an event of `z` with at most another reference
count: nothing was allocated or rewritten on the way from `z` to `z1`. -/
def zone_shrinks (z z1 : List (Option kfs_event)) : Prop :=
  z1.length = z.length ∧
  ∀ p e1, z1.getD p none = some e1 →
    ∃ e, z.getD p none = some e ∧ e1 = { e with refcount := e1.refcount }

/-- A watcher is consistent with a zone of a pool of capacity `m`: its ring is
well formed, has at least one slot when the pool has, each of its pending
entries points to an event in use whose type is below `num_events`, and it is
not being closed. -/
def watcher_ok (z : List (Option kfs_event)) (m : Nat) (w : fs_event_watcher) : Prop :=
  ring_ok w ∧ (1 ≤ m → 1 ≤ w.eventq_size) ∧
  (∀ x ∈ pending w, ∃ p e, x = some p ∧ z.getD p none = some e ∧ e.type < w.num_events) ∧
  has_flag w.flags WATCHER_CLOSING = false

/-- The invariant of the broker: the zone is consistent with the references
held by the watcher queues plus those `held` by running code, and every
registered watcher is consistent with the zone. -/
def sys_ok (s : fsevents_state) (held : Nat → Nat) : Prop :=
  zone_ok s.event_zone (fun p => queue_refs s.watcher_table p + held p) ∧
  ∀ i w, get_watcher s i = some w → watcher_ok s.event_zone s.max_kfs_events w

/-- What no step inside `add_fsevent` (after the dedup filter), `fmod_watch` or
`remove_watcher` changes: the configuration, the interest counters, the
barrier, the sizes of zone and table, and the dedup record, except that its
type and time may be reset together by the release or delivery of an event. -/
structure frame (s s1 : fsevents_state) : Prop where
  max_kfs_events : s1.max_kfs_events = s.max_kfs_events
  type_watchers : s1.fs_event_type_watchers = s.fs_event_type_watchers
  unmount_dev : s1.fsevent_unmount_dev = s.fsevent_unmount_dev
  unmount_ack_count : s1.fsevent_unmount_ack_count = s.fsevent_unmount_ack_count
  last_ptr : s1.last_ptr = s.last_ptr
  last_str : s1.last_str = s.last_str
  last_nlen : s1.last_nlen = s.last_nlen
  last_vid : s1.last_vid = s.last_vid
  last_pid : s1.last_pid = s.last_pid
  last_coalesced : s1.last_coalesced = s.last_coalesced
  timebase_numer : s1.timebase_numer = s.timebase_numer
  timebase_denom : s1.timebase_denom = s.timebase_denom
  zone_length : s1.event_zone.length = s.event_zone.length
  table_length : s1.watcher_table.length = s.watcher_table.length
  record : (s1.last_event_type = s.last_event_type ∧
      s1.last_coalesced_time = s.last_coalesced_time) ∨
    (s1.last_event_type = -1 ∧ s1.last_coalesced_time = 0)

/-- An event rewritten without touching its count, its list flag, its type, or
its destination link (which may only be dropped). -/
def event_benign (e e1 : kfs_event) : Prop :=
  e1.refcount = e.refcount ∧ on_list e1 = on_list e ∧ e1.type = e.type ∧
  (e1.dest = e.dest ∨ e1.dest = none)

/-- A step that leaves the watcher table alone and only rewrites events in
place, benignly. -/
structure benign_step (s s1 : fsevents_state) : Prop where
  frame : frame s s1
  table : s1.watcher_table = s.watcher_table
  free : ∀ p, s.event_zone.getD p none = none → s1.event_zone.getD p none = none
  used : ∀ p e, s.event_zone.getD p none = some e →
    ∃ e1, s1.event_zone.getD p none = some e1 ∧ event_benign e e1

/-- The zone `publish_events` leaves. -/
def published_zone (z : List (Option kfs_event)) (type : Int) (now : Nat) (pid : Int) (k : Nat)
    (dd : Option Nat) : List (Option kfs_event) :=
  match dd with
  | none => z.set k (some { kfse_init type now pid with
      flags := (kfse_init type now pid).flags ||| KFSE_ON_LIST })
  | some d => (z.set d (some (kfse_init type now pid))).set k
      (some { kfse_init type now pid with
        dest := some d,
        flags := (kfse_init type now pid).flags ||| KFSE_ON_LIST })

/-- The state a pass of `add_fsevent` ends in. -/
def pass_state : pass_result → fsevents_state
  | pass_result.ret _ s => s
  | pass_result.restart s _ _ _ => s

/-- A pass that ends with `goto restart` has set `path_override`. -/
def pass_overrides : pass_result → Prop
  | pass_result.ret _ _ => True
  | pass_result.restart _ l _ _ => l.path_override ≠ none

/-- What the dedup filter cannot change. -/
structure dedup_only (s s1 : fsevents_state) : Prop where
  event_zone : s1.event_zone = s.event_zone
  watcher_table : s1.watcher_table = s.watcher_table
  max_kfs_events : s1.max_kfs_events = s.max_kfs_events
  type_watchers : s1.fs_event_type_watchers = s.fs_event_type_watchers
  num_dropped : s1.num_dropped = s.num_dropped
  list_head : s1.kfse_list_head = s.kfse_list_head

/-- The part of a reader's view of its watcher that a read keeps. -/
def same_ring (w w1 : fs_event_watcher) : Prop :=
  w1.eventq_size = w.eventq_size ∧ w1.num_events = w.num_events ∧ w1.wr = w.wr ∧
  has_flag w1.flags WATCHER_CLOSING = has_flag w.flags WATCHER_CLOSING

/-- The destination an event owns: its `dest`, for the kinds that can have
one. -/
def owned_dest (e : kfs_event) : Option Nat :=
  if e.type ≠ FSE_DOCID_CREATED ∧ e.type ≠ FSE_DOCID_CHANGED ∧ e.type ≠ FSE_ACTIVITY then e.dest
  else none

/-- The interned path an event owns. -/
def owned_path (e : kfs_event) : Option cstr :=
  if e.type ≠ FSE_DOCID_CREATED ∧ e.type ≠ FSE_DOCID_CHANGED ∧ e.type ≠ FSE_ACTIVITY then e.str
  else none

/-- The interned path of the destination an event owns. -/
def dest_path (s : fsevents_state) (e : kfs_event) : Option cstr :=
  match owned_dest e with
  | none => none
  | some d => (s.event_zone.getD d none).bind (fun de => de.str)

/-- The name references left after one reference to `n` is dropped. -/
def unintern (names : List cstr) (n : Option cstr) : List cstr :=
  match n with
  | none => names
  | some x => names.erase x

/-- The number of free elements of the zone. -/
def free_slots (s : fsevents_state) : Nat :=
  (s.event_zone.filter (fun o => o.isNone)).length

/-- The number of zone elements an event of a kind takes. -/
def slots_needed (type : Int) : Nat := if two_target type then 2 else 1

/-- The dedup record holds the handle or the path of the arguments: the same
vnode with a vid that is not 0, or the same path and length, the path not
being empty. -/
def recorded_match (s : fsevents_state) (ap : List va_word) : Prop :=
  match ap with
  | va_word.int32 tag :: va_word.vp (some v) :: _ =>
    tag = FSE_ARG_VNODE ∧ v.vid ≠ 0 ∧ s.last_vid = v.vid ∧
      s.last_ptr = some (ptr_val.vnode_at v.addr)
  | va_word.int32 tag :: va_word.int32 n :: va_word.chars (some str) :: _ =>
    tag = FSE_ARG_STRING ∧ str ≠ [] ∧ s.last_str = str ∧ s.last_nlen = n
  | _ => False

/-- A sequence of `add_fsevent` calls with the same type and arguments, one for
each environment: the return values and the final state. -/
def publish_all (type : Int) (ap : List va_word) :
    fsevents_state → List fse_env → Option (List Int × fsevents_state)
  | s, [] => some ([], s)
  | s, env :: rest =>
    match add_fsevent s type ap env with
    | none => none
    | some (r, s1) =>
      match publish_all type ap s1 rest with
      | none => none
      | some (rs, s2) => some (r :: rs, s2)

/-! ## Scenarios -/

/-- A broker with a pool of 4 and one watcher that reports every kind, its
queue 16 deep. -/
def scn_one_watcher : fsevents_state :=
  (add_watcher (fsevents_internal_init 4) (List.replicate 17 FSE_REPORT) 17 16 {}).2.2

/-- The arguments `FSE_ARG_STRING, 3, "/a", FSE_ARG_DONE`. -/
def scn_path_args : List va_word :=
  [va_word.int32 FSE_ARG_STRING, va_word.int32 3, va_word.chars (some [47, 97]),
   va_word.int32 FSE_ARG_DONE]

/-- The producer with pid 100 at clock value `now`. -/
def scn_env (now : Nat) : fse_env := { pid := 100, now := now }

/-- The state after ContentModified on "/a" was published at clock 1000. -/
def scn_published : fsevents_state :=
  ((add_fsevent scn_one_watcher FSE_CONTENT_MODIFIED scn_path_args (scn_env 1000)).getD
    (0, scn_one_watcher)).2

/-- The event in element 0 of `scn_published`. -/
def scn_event : kfs_event := (scn_published.event_zone.getD 0 none).getD {}

/-- A broker in the middle of publishing a Rename: the source in element 0
owns the destination in element 1, the publisher holds the one reference. -/
def scn_rename : fsevents_state :=
  publish_events (alloc_events (fsevents_internal_init 4) FSE_RENAME).2.2 FSE_RENAME 1000 100 0
    (some 1)

/-- The source event of `scn_rename`. -/
def scn_rename_event : kfs_event := (scn_rename.event_zone.getD 0 none).getD {}

/-- A broker with a pool of capacity 0 and one watcher. -/
def scn_empty_pool : fsevents_state :=
  (add_watcher (fsevents_internal_init 0) [] 0 0 {}).2.2

/-- A watcher of no kinds with no queue. -/
def scn_no_watcher : fs_event_watcher :=
  { event_list := [], num_events := 0, event_queue := [], eventq_size := 0 }

/-- The watcher of `scn_empty_pool`. -/
def scn_empty_pool_watcher : fs_event_watcher :=
  (get_watcher scn_empty_pool 0).getD scn_no_watcher

/-- The watcher of `scn_one_watcher`. -/
def scn_watcher : fs_event_watcher := (get_watcher scn_one_watcher 0).getD scn_no_watcher

/-- The watcher of `scn_published`. -/
def scn_published_watcher : fs_event_watcher :=
  (get_watcher scn_published 0).getD scn_no_watcher

/-- A broker with a pool of 4 and one watcher that reports every kind, its
queue 5 deep. -/
def scn_five_0 : fsevents_state :=
  (add_watcher (fsevents_internal_init 4) (List.replicate 17 FSE_REPORT) 17 5 {}).2.2

/-- The state after CreateFile on "/a" was published to `scn_five_0`. -/
def scn_five_1 : fsevents_state :=
  ((add_fsevent scn_five_0 FSE_CREATE_FILE scn_path_args (scn_env 1000)).getD (0, scn_five_0)).2

/-- The state after CreateFile on "/a" was published to `scn_five_1`. -/
def scn_five_2 : fsevents_state :=
  ((add_fsevent scn_five_1 FSE_CREATE_FILE scn_path_args (scn_env 2000)).getD (0, scn_five_1)).2

/-- The state after CreateFile on "/a" was published to `scn_five_2`: three
entries are pending. -/
def scn_five_3 : fsevents_state :=
  ((add_fsevent scn_five_2 FSE_CREATE_FILE scn_path_args (scn_env 3000)).getD (0, scn_five_2)).2

/-- The broker in the middle of a fourth publish: the new event is in element
3 and the publisher holds the one reference to it. -/
def scn_five_mid : fsevents_state :=
  publish_events (alloc_events scn_five_3 FSE_CREATE_FILE).2.2 FSE_CREATE_FILE 4000 100 3 none

/-- The watcher of `scn_five_mid`. -/
def scn_five_watcher : fs_event_watcher := (get_watcher scn_five_mid 0).getD scn_no_watcher

/-- A broker with a pool of 1 and one watcher that reports every kind. -/
def scn_small_pool : fsevents_state :=
  (add_watcher (fsevents_internal_init 1) (List.replicate 17 FSE_REPORT) 17 16 {}).2.2

/-- A regular file with two hardlinks. -/
def scn_hardlink : vnode :=
  { addr := 7, vid := 3, va_fsid := 5, va_fileid := 11, is_hardlink := true, is_reg := true,
    va_nlink := 2, getpath := [47, 97] }

/-- The arguments `FSE_ARG_VNODE, vp, FSE_ARG_DONE` for `scn_hardlink`. -/
def scn_hardlink_args : List va_word :=
  [va_word.int32 FSE_ARG_VNODE, va_word.vp (some scn_hardlink), va_word.int32 FSE_ARG_DONE]

/-- The producer with pid 100 at clock 1000, the sibling link resolving to
"/b". -/
def scn_hardlink_env : fse_env :=
  { pid := 100, now := 1000, links := [{ next_linkid := 12, path := [47, 98], now := 1001 }] }

/-- The state after ContentModified on `scn_hardlink` was published to
`scn_small_pool`. -/
def scn_hardlink_result : fsevents_state :=
  ((add_fsevent scn_small_pool FSE_CONTENT_MODIFIED scn_hardlink_args scn_hardlink_env).getD
    (0, scn_small_pool)).2

/-- The arguments `FSE_ARG_STRING, 1, "", FSE_ARG_DONE`. -/
def scn_empty_path_args : List va_word :=
  [va_word.int32 FSE_ARG_STRING, va_word.int32 1, va_word.chars (some []),
   va_word.int32 FSE_ARG_DONE]

/-- A vnode whose vid is 0. -/
def scn_vid0 : vnode := { addr := 9, vid := 0, getpath := [47, 99] }

/-- A vnode whose vid is 3. -/
def scn_vnode : vnode := { addr := 8, vid := 3, getpath := [47, 100] }

/-- The arguments `FSE_ARG_VNODE, vp, FSE_ARG_DONE`. -/
def scn_vnode_args (v : vnode) : List va_word :=
  [va_word.int32 FSE_ARG_VNODE, va_word.vp (some v), va_word.int32 FSE_ARG_DONE]

/-- The state after one publish `type, ap` by pid 100 at clock 1000. -/
def scn_once (type : Int) (ap : List va_word) : fsevents_state :=
  ((add_fsevent scn_one_watcher type ap (scn_env 1000)).getD (0, scn_one_watcher)).2

/-- A broker whose one watcher has a queue of 2 slots, after ContentModified
on "/a" was published: the ring is full. -/
def scn_full_ring : fsevents_state :=
  ((add_fsevent
    (add_watcher (fsevents_internal_init 4) (List.replicate 17 FSE_REPORT) 17 2 {}).2.2
    FSE_CONTENT_MODIFIED scn_path_args (scn_env 1000)).getD (0, fsevents_internal_init 4)).2

/-- The watcher of `scn_full_ring`. -/
def scn_full_ring_watcher : fs_event_watcher :=
  (get_watcher scn_full_ring 0).getD scn_no_watcher

/-- The state after CreateFile on "/a" was published to `scn_full_ring`. -/
def scn_full_ring_create : fsevents_state :=
  ((add_fsevent scn_full_ring FSE_CREATE_FILE scn_path_args (scn_env 2000)).getD
    (0, scn_full_ring)).2

/-- The state after ContentModified on "/a" was published to `scn_small_pool`:
the pool is used up. -/
def scn_small_used : fsevents_state :=
  ((add_fsevent scn_small_pool FSE_CONTENT_MODIFIED scn_path_args (scn_env 1000)).getD
    (0, scn_small_pool)).2

/-- The state after ContentModified on "/a" was published to `scn_published`
again, 0.6 s after the first time. -/
def scn_spaced_2 : fsevents_state :=
  ((add_fsevent scn_published FSE_CONTENT_MODIFIED scn_path_args (scn_env 600001000)).getD
    (0, scn_published)).2

/-- The state after ContentModified on "/a" was published to `scn_spaced_2`,
1.2 s after the first time. -/
def scn_spaced_3 : fsevents_state :=
  ((add_fsevent scn_spaced_2 FSE_CONTENT_MODIFIED scn_path_args (scn_env 1200001000)).getD
    (0, scn_spaced_2)).2

/-- The state after `type, ap` was published to `scn_once type ap` again, 50 ms
after the first time. -/
def scn_again (type : Int) (ap : List va_word) : fsevents_state :=
  ((add_fsevent (scn_once type ap) type ap (scn_env 50001000)).getD (0, scn_once type ap)).2

/-- The state the dedup filter leaves when ContentModified on `scn_vnode` is
published to `scn_one_watcher` at clock 1000. -/
def scn_filtered : fsevents_state :=
  ((dedup_filter scn_one_watcher FSE_CONTENT_MODIFIED (scn_vnode_args scn_vnode) (scn_env 1000)
    1000).getD (false, scn_one_watcher)).2

/-- The state after CreateFile on "/a" was published to `scn_published`. -/
def scn_created : fsevents_state :=
  ((add_fsevent scn_published FSE_CREATE_FILE scn_path_args (scn_env 2000)).getD
    (0, scn_published)).2

/-- The state after ContentModified on `scn_vnode` was published to
`scn_small_used`, whose pool is used up. -/
def scn_small_vnode_1 : fsevents_state :=
  ((add_fsevent scn_small_used FSE_CONTENT_MODIFIED (scn_vnode_args scn_vnode)
    (scn_env 2000)).getD (0, scn_small_used)).2

/-- The state after ContentModified on `scn_vnode` was published to
`scn_small_vnode_1` again, 1 µs later. -/
def scn_small_vnode_2 : fsevents_state :=
  ((add_fsevent scn_small_vnode_1 FSE_CONTENT_MODIFIED (scn_vnode_args scn_vnode)
    (scn_env 3000)).getD (0, scn_small_vnode_1)).2

/-! ## The wire format -/

/-- The uio after `bytes` were moved out to the user buffer. -/
def moved (u : uio) (bytes : List Nat) : uio :=
  { u with written := u.written ++ bytes, resid := u.resid - bytes.length }

/-- The outcome of a run of the encoder that has the bytes `pre` to put out
through a scratch buffer of `B` bytes: either all went well, the bytes `pre`
are those moved out followed by those still in the scratch buffer; or the space
ran out, and then the user buffer is shorter than `pre`. -/
def enc_result (u : uio) (pre : List Nat) (B : Nat) (r : Int × List Nat × uio) : Prop :=
  (∃ done rest, r = (0, rest, moved u done) ∧ done ++ rest = pre ∧ rest.length ≤ B) ∨
  (∃ done rest, r = (ENOSPC, rest, moved u done) ∧ u.resid < pre.length)

/-- The bytes of one tagged field as `fill_buff` lays them out: the 16-bit tag,
the 16-bit size, the data. -/
def encode_field (f : Int × List Nat) : List Nat :=
  le_bytes 2 (f.1 % 2 ^ 16).toNat ++ le_bytes 2 (f.2.length % 2 ^ 16) ++ f.2

/-- The bytes of a sequence of tagged fields. -/
def encode_fields (fs : List (Int × List Nat)) : List Nat := (fs.map encode_field).flatten

/-- The two bytes of the tag `FSE_ARG_DONE`. -/
def done_bytes : List Nat := le_bytes 2 (FSE_ARG_DONE % 2 ^ 16).toNat

/-- The bytes of one record: the 32-bit kind, the 32-bit pid, the tagged
fields, the tag `FSE_ARG_DONE`. -/
def encode_record (kind pid : Int) (fields : List (Int × List Nat)) : List Nat :=
  le_bytes_int32 kind ++ le_bytes_int32 pid ++ encode_fields fields ++ done_bytes

/-- A byte string that is one whole record. -/
def is_record (r : List Nat) : Prop :=
  ∃ kind pid fields, r = encode_record kind pid fields

/-- The kind word `copy_out_kfse` writes for an event: its type, with the flag
bits above `FSE_FLAG_SHIFT` for a watcher that wants extended information. -/
def wire_kind (watcher : fs_event_watcher) (kfse : kfs_event) : Int :=
  if has_flag watcher.flags WATCHER_WANTS_EXTENDED_INFO then
    let t : Nat := (kfse.type % 2 ^ 32).toNat &&& 0xfff
    let t := if has_flag kfse.flags KFSE_CONTAINS_DROPPED_EVENTS then
        t ||| (FSE_CONTAINS_DROPPED_EVENTS <<< FSE_FLAG_SHIFT)
      else if has_flag kfse.flags KFSE_COMBINED_EVENTS then
        t ||| (FSE_COMBINED_EVENTS <<< FSE_FLAG_SHIFT)
      else t
    (t : Int)
  else kfse.type

/-- The timestamp field that precedes `FSE_ARG_DONE` in every record. -/
def time_field (cur : kfs_event) : Int × List Nat := (FSE_ARG_INT64, le_bytes 8 cur.abstime)

/-- The bytes `copy_out_kfse` has to move out for an event: none for one that is
being created or for a Rename or Clone without destination, else one record.
`none` where `copy_out_kfse` panics or reads through a dangling `dest`. -/
def wire_record (s : fsevents_state) (watcher : fs_event_watcher) (kfse : kfs_event) :
    Option (List Nat) :=
  if kfse.type = FSE_INVALID then none
  else if has_flag kfse.flags KFSE_BEING_CREATED then some []
  else if (kfse.type = FSE_RENAME ∨ kfse.type = FSE_CLONE) ∧ kfse.dest = none then some []
  else
    match body_fields s watcher kfse.type (s.event_zone.length + 1) kfse with
    | none => none
    | some (fields, cur) =>
      some (encode_record (wire_kind watcher kfse) kfse.pid (fields ++ [time_field cur]))

/-- The synthetic record a read puts out first for a watcher that dropped
events: kind `FSE_EVENTS_DROPPED`, pid 0, `FSE_ARG_DONE`. -/
def dropped_record : List Nat := encode_record FSE_EVENTS_DROPPED 0 []

/-- What a read puts out for the event at the head of the queue when the room
suffices: nothing for an event the watcher does not report or whose path lies
in an ignored directory, else its record. -/
def read_bytes (s : fsevents_state) (w : fs_event_watcher) (kfse : kfs_event) : List Nat :=
  if w.event_list.getD kfse.type.toNat FSE_IGNORE = FSE_REPORT then
    if !(has_flag w.flags WATCHER_APPLE_SYSTEM_SERVICE) ∧
        kfse.type ≠ FSE_DOCID_CREATED ∧ kfse.type ≠ FSE_DOCID_CHANGED ∧
        kfse.type ≠ FSE_ACTIVITY ∧ is_ignored_directory kfse.str then []
    else (wire_record s w kfse).getD []
  else []

/-- What a read puts out for the queue entry `p`. -/
def entry_bytes (s : fsevents_state) (w : fs_event_watcher) (p : Nat) : List Nat :=
  match deref s p with
  | none => []
  | some e => read_bytes s w e

/-- The queue entries a read takes, oldest first, from a queue that holds `q`
when `resid` bytes of room are left: it goes on while there is room and stops
before the first entry whose record does not fit. -/
def read_spec (s : fsevents_state) (w : fs_event_watcher) : List (Option Nat) → Int → List Nat
  | some p :: rest, resid =>
    if 0 < resid ∧ ((entry_bytes s w p).length : Int) ≤ resid then
      p :: read_spec s w rest (resid - (entry_bytes s w p).length)
    else []
  | _, _ => []

/-- The bytes a read puts out for the entries `taken`. -/
def read_out (s : fsevents_state) (w : fs_event_watcher) (taken : List Nat) : List Nat :=
  (taken.map (entry_bytes s w)).flatten

/-- Two views of a watcher that encode events alike: the same interest list
and the same format and service flags. -/
def same_view (w w1 : fs_event_watcher) : Prop :=
  w1.event_list = w.event_list ∧
  has_flag w1.flags WATCHER_WANTS_COMPACT_EVENTS = has_flag w.flags WATCHER_WANTS_COMPACT_EVENTS ∧
  has_flag w1.flags WATCHER_WANTS_EXTENDED_INFO = has_flag w.flags WATCHER_WANTS_EXTENDED_INFO ∧
  has_flag w1.flags WATCHER_APPLE_SYSTEM_SERVICE = has_flag w.flags WATCHER_APPLE_SYSTEM_SERVICE

/-- The synthetic record a read puts out for a watcher, if it has one to
report. -/
def dropped_bytes (w : fs_event_watcher) : List Nat :=
  if has_flag w.flags WATCHER_DROPPED_EVENTS then dropped_record else []

/-- The flags of a watcher once a read has reported the dropped events. -/
def flags_after_read (w : fs_event_watcher) : Nat :=
  if has_flag w.flags WATCHER_DROPPED_EVENTS then w.flags &&& 0xFFFFFFFE else w.flags

/-- The queue entries a read into a buffer of `resid` bytes takes from a
watcher: those that fit behind the synthetic record, if there is one. -/
def read_taken (s : fsevents_state) (w : fs_event_watcher) (resid : Int) : List Nat :=
  read_spec s w (pending w) (resid - (dropped_bytes w).length)

/-! ## Scenarios of reads -/

/-- A user buffer of `n` bytes that does not fault. -/
def scn_buffer (n : Int) : uio := { resid := n }

/-- The outcome of a read of the watcher of `scn_published` into a buffer of
2048 bytes. -/
def scn_read : Int × fsevents_state × uio :=
  (fmod_watch scn_published 0 (scn_buffer 2048) 0).getD (0, scn_published, scn_buffer 2048)

/-- The broker `scn_published` while a reader is inside `fmod_watch`. -/
def scn_reading : fsevents_state :=
  set_watcher scn_published 0 (some { scn_published_watcher with num_readers := 1 })

/-- The broker `scn_published` while a reader is inside `fmod_watch` and the
watcher is being closed. -/
def scn_closing : fsevents_state :=
  set_watcher scn_published 0
    (some { scn_published_watcher with
      num_readers := 1, flags := scn_published_watcher.flags ||| WATCHER_CLOSING })

/-! ## The fields of a record, kind by kind -/

/-- The timestamp field and the closing tag that end every record. -/
def trailer (e : kfs_event) : List Nat :=
  encode_field (FSE_ARG_INT64, le_bytes 8 e.abstime) ++ done_bytes

/-- The `FSE_ARG_STRING` field with the path of an event: the `len` bytes at its
string. -/
def path_field (e : kfs_event) : Int × List Nat :=
  (FSE_ARG_STRING, cstr_bytes (e.str.getD []) e.len)

/-- The file information of an event: one packed `FSE_ARG_FINFO` field for a
watcher that wants compact events, else the five fields `FSE_ARG_DEV`,
`FSE_ARG_INO`, `FSE_ARG_MODE`, `FSE_ARG_UID` and `FSE_ARG_GID`, the last with
the document id. -/
def info_fields (w : fs_event_watcher) (e : kfs_event) : List (Int × List Nat) :=
  if has_flag w.flags WATCHER_WANTS_COMPACT_EVENTS then
    [(FSE_ARG_FINFO, le_bytes 8 e.ino ++ le_bytes_int32 e.dev ++ le_bytes 4 e.mode ++
        le_bytes 4 e.uid ++ le_bytes 4 e.document_id)]
  else
    [(FSE_ARG_DEV, le_bytes_int32 e.dev), (FSE_ARG_INO, le_bytes 8 e.ino),
     (FSE_ARG_MODE, le_bytes 4 e.mode), (FSE_ARG_UID, le_bytes 4 e.uid),
     (FSE_ARG_GID, le_bytes 4 e.document_id)]

/-- The field group of one regular event: the path, and the file information
unless device and inode are both 0. -/
def field_group (w : fs_event_watcher) (e : kfs_event) : List (Int × List Nat) :=
  path_field e :: (if e.dev = 0 ∧ e.ino = 0 then [] else info_fields w e)

/-- The destination whose field group follows that of a regular event: the one
it links, unless its own device and inode are both 0. -/
def linked_dest (s : fsevents_state) (e : kfs_event) : Option kfs_event :=
  if e.dev = 0 ∧ e.ino = 0 then none else e.dest.bind (deref s)

/-- The record of a regular event: kind, pid, its field group, the field group
of the linked destination if there is one, and the trailer, with the timestamp
of the last event of the record. -/
def regular_record (s : fsevents_state) (w : fs_event_watcher) (e : kfs_event) : List Nat :=
  le_bytes_int32 (wire_kind w e) ++ le_bytes_int32 e.pid ++ encode_fields (field_group w e) ++
    (match linked_dest s e with
     | none => trailer e
     | some de => encode_fields (field_group w de) ++ trailer de)

/-- The kinds of event without an argument block of their own. -/
def regular_kind (type : Int) : Prop :=
  type ≠ FSE_INVALID ∧ type ≠ FSE_DOCID_CREATED ∧ type ≠ FSE_DOCID_CHANGED ∧
  type ≠ FSE_UNMOUNT_PENDING ∧ type ≠ FSE_ACTIVITY ∧ type ≠ FSE_ACCESS_GRANTED

instance (type : Int) : Decidable (regular_kind type) := by
  unfold regular_kind; infer_instance

/-- An event a read of the watcher puts out a record for: one of a kind the
watcher reports, not in a directory the watcher ignores, that is completely
created and, for a Rename or a Clone, has its destination. -/
def deliverable (w : fs_event_watcher) (e : kfs_event) : Prop :=
  w.event_list.getD e.type.toNat FSE_IGNORE = FSE_REPORT ∧
  ¬ (!(has_flag w.flags WATCHER_APPLE_SYSTEM_SERVICE) ∧
      e.type ≠ FSE_DOCID_CREATED ∧ e.type ≠ FSE_DOCID_CHANGED ∧
      e.type ≠ FSE_ACTIVITY ∧ is_ignored_directory e.str) ∧
  has_flag e.flags KFSE_BEING_CREATED = false ∧
  ¬ ((e.type = FSE_RENAME ∨ e.type = FSE_CLONE) ∧ e.dest = none)

instance (w : fs_event_watcher) (e : kfs_event) : Decidable (deliverable w e) := by
  unfold deliverable; infer_instance

/-- The bytes of path an event stores: its `len` and that of the destination it
links. -/
def path_room (s : fsevents_state) (e : kfs_event) : Nat :=
  e.len + (match e.dest.bind (deref s) with
    | none => 0
    | some de => de.len)

/-! ## Scenarios of records -/

/-- The arguments of a Rename of "/src", inode 7 on device 1, to "/dst", inode
8 on device 1. -/
def scn_rename_args : List va_word :=
  [va_word.int32 FSE_ARG_STRING, va_word.int32 5, va_word.chars (some [47, 115, 114, 99]),
   va_word.int32 FSE_ARG_FINFO, va_word.finfo { ino := 7, dev := 1, mode := 33188, uid := 501 },
   va_word.int32 FSE_ARG_STRING, va_word.int32 5, va_word.chars (some [47, 100, 115, 116]),
   va_word.int32 FSE_ARG_FINFO, va_word.finfo { ino := 8, dev := 1, mode := 33188, uid := 501 },
   va_word.int32 FSE_ARG_DONE]

/-- The state after the Rename `scn_rename_args` was published at clock 1000. -/
def scn_renamed : fsevents_state := scn_once FSE_RENAME scn_rename_args

/-- The source event of `scn_renamed`. -/
def scn_renamed_event : kfs_event := (deref scn_renamed 0).getD {}

/-- The destination event of `scn_renamed`. -/
def scn_renamed_dest : kfs_event := (deref scn_renamed 1).getD {}

/-- The watcher of `scn_renamed`. -/
def scn_renamed_watcher : fs_event_watcher := (get_watcher scn_renamed 0).getD scn_no_watcher

/-- The arguments of a Rename of "/src" to "/dst" given by the two paths
alone. -/
def scn_paths_args : List va_word :=
  [va_word.int32 FSE_ARG_STRING, va_word.int32 5, va_word.chars (some [47, 115, 114, 99]),
   va_word.int32 FSE_ARG_STRING, va_word.int32 5, va_word.chars (some [47, 100, 115, 116]),
   va_word.int32 FSE_ARG_DONE]

/-- The state after the Rename `scn_paths_args` was published at clock 1000. -/
def scn_paths : fsevents_state := scn_once FSE_RENAME scn_paths_args

/-- The outcome of a read of the watcher of `scn_paths` into a buffer of 2048
bytes. -/
def scn_paths_read : Int × fsevents_state × uio :=
  (fmod_watch scn_paths 0 (scn_buffer 2048) 0).getD (0, scn_paths, scn_buffer 2048)

/-- A broker with a pool of 4 and one watcher that reports every kind and is
entitled to AccessGranted and Activity events. -/
def scn_entitled : fsevents_state :=
  (add_watcher (fsevents_internal_init 4) (List.replicate 17 FSE_REPORT) 17 16
    { entitled_access_granted := true, entitled_activity := true }).2.2

/-- The watcher of `scn_entitled`. -/
def scn_entitled_watcher : fs_event_watcher := (get_watcher scn_entitled 0).getD scn_no_watcher

/-- The state after `type, ap` was published to `scn_entitled` by pid 100 at
clock 1000. -/
def scn_entitled_once (type : Int) (ap : List va_word) : fsevents_state :=
  ((add_fsevent scn_entitled type ap (scn_env 1000)).getD (0, scn_entitled)).2

/-- The event in element 0 of `scn_entitled_once type ap`. -/
def scn_entitled_event (type : Int) (ap : List va_word) : kfs_event :=
  (deref (scn_entitled_once type ap) 0).getD {}

/-- The arguments of a DocIdChanged event: device 1, inodes 7 and 8, document
id 9. -/
def scn_docid_args : List va_word :=
  [va_word.int32 FSE_ARG_DEV, va_word.int32 1, va_word.int32 FSE_ARG_INO, va_word.int64 7,
   va_word.int32 FSE_ARG_INO, va_word.int64 8, va_word.int32 FSE_ARG_INT64, va_word.int64 9,
   va_word.int32 FSE_ARG_DONE]

/-- The arguments of an UnmountPending event for device 5. -/
def scn_unmount_args : List va_word :=
  [va_word.int32 FSE_ARG_DEV, va_word.int32 5, va_word.int32 FSE_ARG_DONE]

/-- The arguments of an Activity event: version 1, device 1, inode 7, origin
2, age 3, use state 4, urgency 5, size 6. -/
def scn_activity_args : List va_word :=
  [va_word.int32 FSE_ARG_INT32, va_word.int32 1, va_word.int32 FSE_ARG_DEV, va_word.int32 1,
   va_word.int32 FSE_ARG_INO, va_word.int64 7, va_word.int32 FSE_ARG_INT64, va_word.int64 2,
   va_word.int32 FSE_ARG_INT64, va_word.int64 3, va_word.int32 FSE_ARG_INT32, va_word.int32 4,
   va_word.int32 FSE_ARG_INT32, va_word.int32 5, va_word.int32 FSE_ARG_INT64, va_word.int64 6,
   va_word.int32 FSE_ARG_DONE]

/-- The arguments `FSE_ARG_STRING, 3, "/a", FSE_ARG_AUDIT_TOKEN, &token,
FSE_ARG_DONE`, the token having the words 1 to 8. -/
def scn_granted_args : List va_word :=
  [va_word.int32 FSE_ARG_STRING, va_word.int32 3, va_word.chars (some [47, 97]),
   va_word.int32 FSE_ARG_AUDIT_TOKEN, va_word.token (some [1, 2, 3, 4, 5, 6, 7, 8]),
   va_word.int32 FSE_ARG_DONE]

/-- The state after AccessGranted on "/a" was published to `scn_entitled` at
clock 1000. -/
def scn_granted : fsevents_state := scn_entitled_once FSE_ACCESS_GRANTED scn_granted_args

/-- The outcome of a read of the watcher of `scn_granted` into a buffer of 2048
bytes. -/
def scn_granted_read : Int × fsevents_state × uio :=
  (fmod_watch scn_granted 0 (scn_buffer 2048) 0).getD (0, scn_granted, scn_buffer 2048)

/-- The watcher of `scn_full_ring_create`: it has dropped an event. -/
def scn_flagged_watcher : fs_event_watcher :=
  (get_watcher scn_full_ring_create 0).getD scn_no_watcher

/-- The watcher of `scn_five_3`: three entries are pending. -/
def scn_three_watcher : fs_event_watcher := (get_watcher scn_five_3 0).getD scn_no_watcher

/-! ## Scenarios of long records -/

/-- The arguments of a Rename between two paths of the greatest length
`vn_getpath` yields, `MAXPATHLEN` bytes with the NUL, both with file
information. -/
def scn_wide_args : List va_word :=
  [va_word.int32 FSE_ARG_STRING, va_word.int32 1024,
   va_word.chars (some (47 :: List.replicate 1022 97)),
   va_word.int32 FSE_ARG_FINFO, va_word.finfo { ino := 7, dev := 1, mode := 33188, uid := 501 },
   va_word.int32 FSE_ARG_STRING, va_word.int32 1024,
   va_word.chars (some (47 :: List.replicate 1022 98)),
   va_word.int32 FSE_ARG_FINFO, va_word.finfo { ino := 8, dev := 1, mode := 33188, uid := 501 },
   va_word.int32 FSE_ARG_DONE]

/-- The state after the Rename `scn_wide_args` was published at clock 1000. -/
def scn_wide : fsevents_state := scn_once FSE_RENAME scn_wide_args

/-- The watcher of `scn_wide`. -/
def scn_wide_watcher : fs_event_watcher := (get_watcher scn_wide 0).getD scn_no_watcher

/-- The source event of `scn_wide`. -/
def scn_wide_event : kfs_event := (deref scn_wide 0).getD {}

/-- The outcome of a read of the watcher of `scn_wide` into a buffer of 2048
bytes. -/
def scn_wide_read : Int × fsevents_state × uio :=
  (fmod_watch scn_wide 0 (scn_buffer 2048) 0).getD (0, scn_wide, scn_buffer 2048)

/-- The outcome of a read into a buffer of 4096 bytes that follows the read
`scn_wide_read`. -/
def scn_wide_reread : Int × fsevents_state × uio :=
  (fmod_watch scn_wide_read.2.1 0 (scn_buffer 4096) 0).getD
    (0, scn_wide_read.2.1, scn_buffer 4096)

/-! ## The registry over the lifetime of a watcher -/

/-- What a registered watcher keeps for as long as it is registered: its
interest vector with its length, the size of its ring, and whether it is a
system service. -/
def kept (w w1 : fs_event_watcher) : Prop :=
  w1.event_list = w.event_list ∧ w1.num_events = w.num_events ∧
  w1.eventq_size = w.eventq_size ∧
  has_flag w1.flags WATCHER_APPLE_SYSTEM_SERVICE = has_flag w.flags WATCHER_APPLE_SYSTEM_SERVICE

/-- The test of the fan-out loop on the interest vector of a watcher:
`type < watcher->num_events && watcher->event_list[type] == FSE_REPORT`. -/
def reports (w : fs_event_watcher) (type : Int) : Prop :=
  type < w.num_events ∧ w.event_list.getD type.toNat FSE_IGNORE = FSE_REPORT

instance (w : fs_event_watcher) (type : Int) : Decidable (reports w type) := by
  unfold reports; infer_instance

/-- The queues of the registered watchers hold no event twice, and only events
of kinds their watcher reports. -/
def queue_inv (s : fsevents_state) : Prop :=
  ∀ i w, get_watcher s i = some w →
    (pending w).Nodup ∧
    ∀ p e, some p ∈ pending w → deref s p = some e → reports w e.type

/-- What a step does to the registry: no slot is filled or emptied, each
watcher keeps what identifies it and its device filter, an element in use
before and after holds an event of the same kind, and each queue is left
alone, or drained, or extended by one entry, an element `k` that was free
before the step and for which `ok` holds. -/
def queue_step (s s1 : fsevents_state) (ok : fs_event_watcher → Nat → Prop) : Prop :=
  s1.watcher_table.length = s.watcher_table.length ∧
  (∀ p e e1, deref s p = some e → deref s1 p = some e1 → e1.type = e.type) ∧
  ∀ i, (get_watcher s i = none → get_watcher s1 i = none) ∧
    ∀ w, get_watcher s i = some w → ∃ w1, get_watcher s1 i = some w1 ∧ kept w w1 ∧
      w1.devices_not_to_watch = w.devices_not_to_watch ∧ w1.num_devices = w.num_devices ∧
      (pending w1 = pending w ∨ pending w1 = [] ∨
        ∃ k, deref s k = none ∧ ok w k ∧ pending w1 = pending w ++ [some k])

/-- Whether the watcher of a slot counts for the kind `t` in the loops over
`event_list` of `add_watcher` and `remove_watcher`: 1 when the slot holds a
watcher with `t < num_events` and `event_list[t] != FSE_IGNORE`, else 0. -/
def slot_wants (t : Nat) (o : Option fs_event_watcher) : Nat :=
  match o with
  | none => 0
  | some w => if (t : Int) < w.num_events ∧ w.event_list.getD t FSE_IGNORE ≠ FSE_IGNORE then 1
    else 0

/-- The number of registered watchers with `t < num_events` and
`event_list[t] != FSE_IGNORE`. -/
def interested (table : List (Option fs_event_watcher)) (t : Nat) : Nat :=
  (table.map (slot_wants t)).sum

/-- A step that registers and removes no watcher: the table keeps its length,
the interest counters their values, and each slot its watcher, with what
identifies it. -/
def registry_kept (s s1 : fsevents_state) : Prop :=
  s1.watcher_table.length = s.watcher_table.length ∧
  s1.fs_event_type_watchers = s.fs_event_type_watchers ∧
  ∀ i, (get_watcher s i = none → get_watcher s1 i = none) ∧
    ∀ w, get_watcher s i = some w → ∃ w1, get_watcher s1 i = some w1 ∧ kept w w1

/-- The invariant of the registry: the table has `MAX_WATCHERS` slots, there is
one interest counter for each kind and it counts the registered watchers
interested in the kind, and the queues hold no event twice and only events of
kinds their watcher reports. -/
def registry_ok (s : fsevents_state) : Prop :=
  s.watcher_table.length = MAX_WATCHERS ∧ s.fs_event_type_watchers.length = 17 ∧
  (∀ t, t < 17 → s.fs_event_type_watchers.getD t 0 = (interested s.watcher_table t : Int)) ∧
  queue_inv s

/-- The states the broker goes through from `s` on while the watcher of slot `i`
stays registered: those reached by the entry points, `remove_watcher` on slot
`i` excepted. -/
inductive lifetime (i : Nat) (s : fsevents_state) : fsevents_state → Prop where
  | start : lifetime i s s
  | add_watcher {s1 : fsevents_state} (event_list : List Int) (num_events eventq_size : Int)
      (task : watcher_owner) :
      lifetime i s s1 → lifetime i s (add_watcher s1 event_list num_events eventq_size task).2.2
  | remove_watcher {s1 s2 : fsevents_state} (j : Nat) :
      j ≠ i → lifetime i s s1 → remove_watcher s1 j = some s2 → lifetime i s s2
  | add_fsevent {s1 s2 : fsevents_state} (type : Int) (ap : List va_word) (env : fse_env)
      (r : Int) : lifetime i s s1 → add_fsevent s1 type ap env = some (r, s2) → lifetime i s s2
  | fmod_watch {s1 s2 : fsevents_state} (j : Nat) (u u1 : uio) (sleep_err r : Int) :
      lifetime i s s1 → fmod_watch s1 j u sleep_err = some (r, s2, u1) → lifetime i s s2
  | ioctl {s1 : fsevents_state} (j : Nat) (cmd : ioctl_cmd) (is64 kalloc_ok : Bool) :
      lifetime i s s1 → lifetime i s (fseventsf_ioctl s1 j cmd is64 kalloc_ok).2.2
  | timer {s1 : fsevents_state} : lifetime i s s1 → lifetime i s (delayed_event_delivery s1)
  | unmount_begin {s1 s2 : fsevents_state} (dev : Int) (env : fse_env) :
      lifetime i s s1 → fsevent_unmount_begin s1 dev env = some s2 → lifetime i s s2
  | unmount_timeout {s1 : fsevents_state} (dev : Int) :
      lifetime i s s1 → lifetime i s (fsevent_unmount_timeout s1 dev)

/-- The kinds of event with an argument block of their own. -/
def special_kind (type : Int) : Prop :=
  type = FSE_DOCID_CREATED ∨ type = FSE_DOCID_CHANGED ∨ type = FSE_ACTIVITY ∨
  type = FSE_ACCESS_GRANTED ∨ type = FSE_UNMOUNT_PENDING

instance (type : Int) : Decidable (special_kind type) := by
  unfold special_kind; infer_instance

/-- One call `watcher_add_event(watcher_table[i], p)` between the states `s` and
`s1`: it is made in a consistent state `sm` by a caller that holds a reference
to the event `p`, with the watcher as it is in `s`, and the watcher is in `s1`
as the call left it. -/
def enqueues (i p : Nat) (s s1 : fsevents_state) : Prop :=
  ∃ sm held r s2, sys_ok sm held ∧ 1 ≤ held p ∧ get_watcher sm i = get_watcher s i ∧
    watcher_add_event sm i p = some (r, s2) ∧ get_watcher s1 i = get_watcher s2 i

/-- Calls of `watcher_add_event` for the watcher of slot `i` with the events of
a list in turn, the watcher being left alone between them: no read and no
other change. -/
def enqueues_all (i : Nat) : List Nat → fsevents_state → fsevents_state → Prop
  | [], s, s1 => get_watcher s1 i = get_watcher s i
  | p :: ps, s, s1 => ∃ s0, enqueues i p s s0 ∧ enqueues_all i ps s0 s1

/-! ## Scenarios of the registry -/

/-- The broker `scn_one_watcher` after its watcher set the device filter to the
one device 5. -/
def scn_denied : fsevents_state :=
  (fseventsf_ioctl scn_one_watcher 0 (ioctl_cmd.FSEVENTS_DEVICE_FILTER true 1 [5]) true
    true).2.2

/-- The watcher of `scn_denied`. -/
def scn_denied_watcher : fs_event_watcher := (get_watcher scn_denied 0).getD scn_no_watcher

/-- The state after UnmountPending for device 5 was published to `scn_denied`
at clock 1000. -/
def scn_denied_unmount : fsevents_state :=
  ((add_fsevent scn_denied FSE_UNMOUNT_PENDING scn_unmount_args (scn_env 1000)).getD
    (0, scn_denied)).2

/-- The arguments of an event on "/a", inode 7 on device 5. -/
def scn_dev5_args : List va_word :=
  [va_word.int32 FSE_ARG_STRING, va_word.int32 3, va_word.chars (some [47, 97]),
   va_word.int32 FSE_ARG_FINFO, va_word.finfo { ino := 7, dev := 5, mode := 33188, uid := 501 },
   va_word.int32 FSE_ARG_DONE]

/-- The state after CreateFile on "/a" on device 5 was published to
`scn_denied` at clock 1000. -/
def scn_denied_create : fsevents_state :=
  ((add_fsevent scn_denied FSE_CREATE_FILE scn_dev5_args (scn_env 1000)).getD
    (0, scn_denied)).2

/-- The outcome of a read of the watcher of `scn_full_ring_create`, which has
dropped an event and holds one, into a buffer of 2048 bytes. -/
def scn_flagged_read : Int × fsevents_state × uio :=
  (fmod_watch scn_full_ring_create 0 (scn_buffer 2048) 0).getD
    (0, scn_full_ring_create, scn_buffer 2048)

/-- A broker with a pool of 32 and one watcher, of an owner without
entitlements, that reports every kind, its queue 16 deep. -/
def scn_deep : fsevents_state :=
  (add_watcher (fsevents_internal_init 32) (List.replicate 17 FSE_REPORT) 17 16 {}).2.2

/-- The watcher of `scn_deep`. -/
def scn_deep_watcher : fs_event_watcher := (get_watcher scn_deep 0).getD scn_no_watcher

/-- The broker `scn_deep` after `n` events were published with no read in
between: CreateFile on "/a" at the clock values 1000, 2000, and so on. -/
def scn_burst : Nat → fsevents_state
  | 0 => scn_deep
  | n + 1 =>
    ((add_fsevent (scn_burst n) FSE_CREATE_FILE scn_path_args (scn_env (1000 * (n + 1)))).getD
      (0, scn_burst n)).2

/-- The broker in the middle of the publish that leads from `scn_burst n` to
`scn_burst (n + 1)`: the new event is allocated and on the list, the
publisher holds the one reference to it. -/
def scn_burst_mid (n : Nat) : fsevents_state :=
  publish_events (alloc_events (scn_burst n) FSE_CREATE_FILE).2.2 FSE_CREATE_FILE
    (1000 * (n + 1)) 100 ((alloc_events (scn_burst n) FSE_CREATE_FILE).1.getD 0) none

/-- The element the publish that leads from `scn_burst n` to
`scn_burst (n + 1)` takes for its event. -/
def scn_burst_event (n : Nat) : Nat := (alloc_events (scn_burst n) FSE_CREATE_FILE).1.getD 0

/-- The watcher of `scn_burst 20`. -/
def scn_burst_watcher : fs_event_watcher := (get_watcher (scn_burst 20) 0).getD scn_no_watcher

/-- The outcome of a read of the watcher of `scn_burst 20` into a buffer of
2048 bytes. -/
def scn_burst_read : Int × fsevents_state × uio :=
  (fmod_watch (scn_burst 20) 0 (scn_buffer 2048) 0).getD (0, scn_burst 20, scn_buffer 2048)

/-! ## Closing a watcher: what the drain of its queue releases -/

/-- The loop of `remove_watcher` over the entries of the queue, oldest first:
one `release_event_ref` for each. -/
def release_all : fsevents_state → List Nat → Option fsevents_state
  | s, [] => some s
  | s, p :: l => (release_event_ref s p).bind (fun s1 => release_all s1 l)

/-- The event at `p` is in use and has one reference only. -/
def last_ref (s : fsevents_state) (p : Nat) : Bool :=
  match deref s p with
  | some e => decide (e.refcount = 1)
  | none => false

/-- The zone elements taken by those events at `l` that have one reference
only: the event and the destination it owns. -/
def released_slots (s : fsevents_state) : List Nat → List Nat
  | [] => []
  | p :: l =>
    match deref s p with
    | some e =>
      if e.refcount = 1 then p :: (owned_dest e).toList ++ released_slots s l
      else released_slots s l
    | none => released_slots s l

/-- The name references held by those events at `l` that have one reference
only: the path of the event and the path of the destination it owns. -/
def released_names (s : fsevents_state) : List Nat → List cstr
  | [] => []
  | p :: l =>
    match deref s p with
    | some e =>
      if e.refcount = 1 then
        (owned_path e).toList ++ (dest_path s e).toList ++ released_names s l
      else released_names s l
    | none => released_names s l

/-- The number of events at `l` that have one reference only. -/
def released_count (s : fsevents_state) : List Nat → Nat
  | [] => 0
  | p :: l =>
    match deref s p with
    | some e => if e.refcount = 1 then released_count s l + 1 else released_count s l
    | none => released_count s l

/-- The event with one reference less. -/
def unref (e : kfs_event) : kfs_event := { e with refcount := e.refcount - 1 }

/-- The watcher of `scn_burst 7`, which has 7 events in its queue. -/
def scn_seven_watcher : fs_event_watcher := (get_watcher (scn_burst 7) 0).getD scn_no_watcher

/-- The broker `scn_burst 7` after its watcher was removed. -/
def scn_seven_closed : fsevents_state := (remove_watcher (scn_burst 7) 0).getD (scn_burst 7)

/-! ## The unmount barrier -/

/-- A sequence of `FSEVENTS_UNMOUNT_PENDING_ACK` ioctls for `dev`, one on the
handle of each of the slots `js` in turn: the return values and the state they
leave. -/
def ack_all (dev : Int) (proc_is64bit kalloc_ok : Bool) :
    List Nat → fsevents_state → List Int × fsevents_state
  | [], s => ([], s)
  | j :: js, s =>
    let r := fseventsf_ioctl s j (ioctl_cmd.FSEVENTS_UNMOUNT_PENDING_ACK dev) proc_is64bit
      kalloc_ok
    (r.1 :: (ack_all dev proc_is64bit kalloc_ok js r.2.2).1,
      (ack_all dev proc_is64bit kalloc_ok js r.2.2).2)

/-- A broker with a pool of 4 and two watchers that report every kind. -/
def scn_two_watchers : fsevents_state :=
  (add_watcher scn_one_watcher (List.replicate 17 FSE_REPORT) 17 16 {}).2.2

/-- The broker `scn_two_watchers` with the unmount of device 5 announced at
clock 1000: the barrier waits for two acknowledgments. -/
def scn_barrier : fsevents_state :=
  (fsevent_unmount_begin scn_two_watchers 5 (scn_env 1000)).getD scn_two_watchers

/-! ## The encoder with its copies written down -/

/-- The loop `fill_buff_loop` with a log of its `memcpy` calls: for each, the
number of bytes copied (`amt`) and `buff_idx` after the copy. -/
def fill_buff_loop_traced (buff_sz : Nat) :
    Nat → List Nat → List Nat → uio → (Int × List Nat × uio) × List (Nat × Nat)
  | 0, _, buff, u => ((0, buff, u), [])
  | fuel + 1, data, buff, u =>
    if data.length > 0 then
      let amt := min data.length (buff_sz - buff.length)
      let buff := buff ++ data.take amt
      let data := data.drop amt
      if (data.length : Int) > (buff_sz : Int) - buff.length then
        if (buff.length : Int) > u.resid then ((ENOSPC, buff, u), [(amt, buff.length)])
        else
          match uiomove buff u with
          | (error, u) =>
            if error ≠ 0 then ((error, buff, u), [(amt, buff.length)])
            else if amt = 0 then ((0, [], u), [(amt, buff.length)])
            else
              ((fill_buff_loop_traced buff_sz fuel data [] u).1,
                (amt, buff.length) :: (fill_buff_loop_traced buff_sz fuel data [] u).2)
      else if amt = 0 then ((0, buff, u), [(amt, buff.length)])
      else
        ((fill_buff_loop_traced buff_sz fuel data buff u).1,
          (amt, buff.length) :: (fill_buff_loop_traced buff_sz fuel data buff u).2)
    else ((0, buff, u), [])

/-- The function `fill_buff` with a log of its `memcpy` calls: the two copies
of the header, then those of the loop. -/
def fill_buff_traced (type : Int) (data : List Nat) (buff : List Nat) (buff_sz : Nat) (u : uio) :
    (Int × List Nat × uio) × List (Nat × Nat) :=
  let flushed : Int × List Nat × uio :=
    if (buff_sz : Int) - buff.length ≤ 5 then
      if (buff.length : Int) > u.resid then (ENOSPC, buff, u)
      else
        match uiomove buff u with
        | (error, u) => if error ≠ 0 then (error, buff, u) else (0, [], u)
    else (0, buff, u)
  match flushed with
  | (error, buff, u) =>
    if error ≠ 0 then ((error, buff, u), [])
    else
      let buff1 := buff ++ le_bytes 2 (type % 2 ^ 16).toNat
      let buff2 := buff1 ++ le_bytes 2 (data.length % 2 ^ 16)
      ((fill_buff_loop_traced buff_sz (data.length + 1) data buff2 u).1,
        (2, buff1.length) :: (2, buff2.length) ::
          (fill_buff_loop_traced buff_sz (data.length + 1) data buff2 u).2)

/-! ## Ignored directories -/

/-- The three directory names `is_ignored_directory` looks for:
"/.Spotlight-V100/", "/.MobileBackups/" and "/Backups.backupdb/". -/
def ignored_names : List (List Nat) :=
  [[47, 46, 83, 112, 111, 116, 108, 105, 103, 104, 116, 45, 86, 49, 48, 48, 47],
   [47, 46, 77, 111, 98, 105, 108, 101, 66, 97, 99, 107, 117, 112, 115, 47],
   [47, 66, 97, 99, 107, 117, 112, 115, 46, 98, 97, 99, 107, 117, 112, 100, 98, 47]]

/-- The path "/a/.Spotlight-V100/b". -/
def scn_spot_path : List Nat :=
  [47, 97, 47, 46, 83, 112, 111, 116, 108, 105, 103, 104, 116, 45, 86, 49, 48, 48, 47, 98]

/-- The arguments `FSE_ARG_STRING, 21, "/a/.Spotlight-V100/b", FSE_ARG_DONE`. -/
def scn_spot_args : List va_word :=
  [va_word.int32 FSE_ARG_STRING, va_word.int32 21, va_word.chars (some scn_spot_path),
   va_word.int32 FSE_ARG_DONE]

/-- The state after CreateFile on "/a/.Spotlight-V100/b" was published to
`scn_one_watcher` at clock 1000. -/
def scn_spot : fsevents_state :=
  ((add_fsevent scn_one_watcher FSE_CREATE_FILE scn_spot_args (scn_env 1000)).getD
    (0, scn_one_watcher)).2

/-- The watcher of `scn_spot`. -/
def scn_spot_watcher : fs_event_watcher := (get_watcher scn_spot 0).getD scn_no_watcher

/-- The event in element 0 of `scn_spot`. -/
def scn_spot_event : kfs_event := (scn_spot.event_zone.getD 0 none).getD {}

/-- The outcome of a read of the watcher of `scn_spot` into a buffer of 2048
bytes. -/
def scn_spot_read : Int × fsevents_state × uio :=
  (fmod_watch scn_spot 0 (scn_buffer 2048) 0).getD (0, scn_spot, scn_buffer 2048)

/-! ## The highest event id of a watcher -/

/-- The `max_event_id` of the watcher in slot `i`, if there is one. -/
def current_id (s : fsevents_state) (i : Nat) : Option Nat :=
  (get_watcher s i).map (fun w => w.max_event_id)

/-- The broker goes from `s` to `s1` by calls of `watcher_add_event` for the
watcher in slot `i`, on events with the timestamps `ts` in this order; between
the calls anything may run that leaves the `max_event_id` of the watcher
alone. -/
def offered_all (i : Nat) : List Nat → fsevents_state → fsevents_state → Prop
  | [], s, s1 => current_id s1 i = current_id s i
  | t :: ts, s, s1 =>
    ∃ (sm : fsevents_state) (p : Nat) (e : kfs_event) (r : Int) (s2 : fsevents_state),
      current_id sm i = current_id s i ∧ deref sm p = some e ∧ e.abstime = t ∧
      watcher_add_event sm i p = some (r, s2) ∧ offered_all i ts s2 s1

/-- The broker `fsevents_internal_init 4` with one watcher whose queue has 2
slots. -/
def scn_narrow : fsevents_state :=
  (add_watcher (fsevents_internal_init 4) (List.replicate 17 FSE_REPORT) 17 2 {}).2.2

/-- The broker in the middle of the publish that leads from `scn_narrow` to
`scn_full_ring`: the event is allocated and filled in. -/
def scn_narrow_mid : fsevents_state :=
  ((fill_event (publish_events (alloc_events scn_narrow FSE_CONTENT_MODIFIED).2.2
      FSE_CONTENT_MODIFIED 1000 100 0 none) FSE_CONTENT_MODIFIED 0 none scn_path_args
      (scn_env 1000) {}).bind
    (fun x => done_with_args x.1 0 none)).getD scn_narrow

/-- The broker in the middle of the publish that leads from `scn_full_ring` to
`scn_full_ring_create`: the event is allocated and filled in. -/
def scn_full_ring_mid : fsevents_state :=
  ((fill_event (publish_events (alloc_events scn_full_ring FSE_CREATE_FILE).2.2
      FSE_CREATE_FILE 2000 100 1 none) FSE_CREATE_FILE 1 none scn_path_args
      (scn_env 2000) {}).bind
    (fun x => done_with_args x.1 1 none)).getD scn_full_ring

/-! ## The dedup record and the event it describes -/

/-- An event list that reports the kind `k` and ignores the sixteen others. -/
def scn_only (k : Nat) : List Int :=
  (List.range 17).map (fun i => if i = k then FSE_REPORT else FSE_IGNORE)

/-- A broker with a pool of 4 and two watchers: slot 0 reports ContentModified
only, slot 1 reports CreateFile only. -/
def scn_split : fsevents_state :=
  (add_watcher (add_watcher (fsevents_internal_init 4) (scn_only 4) 17 16 {}).2.2
    (scn_only 0) 17 16 {}).2.2

/-- The state after ContentModified on "/a" was published to `scn_split` at
clock 1000. -/
def scn_split_modified : fsevents_state :=
  ((add_fsevent scn_split FSE_CONTENT_MODIFIED scn_path_args (scn_env 1000)).getD
    (0, scn_split)).2

/-- The state after CreateFile on "/a" was published to `scn_split_modified` at
clock 2000. -/
def scn_split_created : fsevents_state :=
  ((add_fsevent scn_split_modified FSE_CREATE_FILE scn_path_args (scn_env 2000)).getD
    (0, scn_split_modified)).2

/-- The result of the read of watcher 0 of `scn_split_created` into a buffer of
2048 bytes. -/
def scn_split_read : Int × fsevents_state × uio :=
  (fmod_watch scn_split_created 0 (scn_buffer 2048) 0).getD
    (0, scn_split_created, scn_buffer 2048)

/-! ## The sibling-hardlink loop with its collaborator calls counted -/

/-- The number of `VNOP_IOCTL(mnt_rootvp, APFSIOC_NEXT_LINK, ...)` calls one
execution of the code from the label `clean_up` makes: one when the
sibling-hardlink block is entered with a `link_vp` whose `VFS_ROOT` succeeds,
none otherwise. -/
def hlink_asks (type : Int) (kfse : Nat) (links : List link_reply) (s : fsevents_state)
    (l : add_locals) : Nat :=
  match deref s kfse with
  | none => 0
  | some k =>
    if l.do_all_links ∧ has_flag k.mode FSE_MODE_HLINK ∧ ¬ has_flag k.mode FSE_MODE_LAST_HLINK ∧
        hlink_type type ∧ l.orig_linkcount > 0 ∧ l.orig_linkid ≠ 0 then
      match (hlink_locals l).link_vp, links with
      | some link_vp, r :: _ => if hlink_root_iret link_vp r = 0 ∧ r.mnt_rootvp then 1 else 0
      | _, _ => 0
    else 0

/-- The loop `clean_up_loop` with the next-link queries counted.  The outer
`none` is the end of the fuel; a panic or undefined read is the inner `none`. -/
def clean_up_loop_traced (type : Int) (kfse : Nat) (s : fsevents_state) :
    Nat → List link_reply → add_locals → Option (Option pass_result × Nat)
  | 0, _, _ => none
  | fuel + 1, links, l =>
    match hlink_block type kfse links s l with
    | none => some (none, hlink_asks type kfse links s l)
    | some (clean_next.done r) => some (some r, hlink_asks type kfse links s l)
    | some (clean_next.again links1 l1) =>
      match clean_up_loop_traced type kfse s fuel links1 l1 with
      | none => none
      | some (r, q) => some (r, q + hlink_asks type kfse links s l)

/-- The function `clean_up` with the next-link queries counted. -/
def clean_up_traced (type : Int) (kfse : Nat) (links : List link_reply) (s : fsevents_state)
    (l : add_locals) : Option (Option pass_result × Nat) :=
  clean_up_loop_traced type kfse s (links.length + 1) links l

/-- The function `deliver_pass` with the next-link queries counted. -/
def deliver_pass_traced (s : fsevents_state) (type : Int) (kfse : Nat) (kfse_dest : Option Nat)
    (l : add_locals) (links : List link_reply) (skip : Bool) :
    Option (Option pass_result × Nat) :=
  if skip then clean_up_traced type kfse links s l
  else
    match done_with_args s kfse kfse_dest with
    | none => some (none, 0)
    | some s =>
      match fan_out type l.dev kfse (List.range MAX_WATCHERS) s with
      | none => some (none, 0)
      | some s => clean_up_traced type kfse links s l

/-- The function `publish_pass` with the next-link queries counted. -/
def publish_pass_traced (s : fsevents_state) (type : Int) (ap : List va_word) (env : fse_env)
    (now : Nat) (l : add_locals) (links : List link_reply) :
    Option (Option pass_result × Nat) :=
  match alloc_events s type with
  | (none, _, s) => some (some (pass_result.ret ENOSPC (no_free_events s env)), 0)
  | (some kfse, kfse_dest, s) =>
    match fill_event (publish_events s type now env.pid kfse kfse_dest) type kfse kfse_dest
        ap env l with
    | none => some (none, 0)
    | some (s, l, skip) => deliver_pass_traced s type kfse kfse_dest l links skip

/-- The function `add_fsevent_pass` with the next-link queries counted. -/
def add_fsevent_pass_traced (s : fsevents_state) (type : Int) (ap : List va_word)
    (env : fse_env) (now : Nat) (l : add_locals) (links : List link_reply) :
    Option (Option pass_result × Nat) :=
  if type < 0 ∨ type ≥ FSE_MAX_EVENTS then some (some (pass_result.ret EINVAL s), 0)
  else if s.fs_event_type_watchers.getD type.toNat 0 = 0 then some (some (pass_result.ret 0 s), 0)
  else if l.path_override = none ∧ dedup_exempt type = false then
    match dedup_filter s type ap env now with
    | none => some (none, 0)
    | some (true, s) => some (some (pass_result.ret 0 s), 0)
    | some (false, s) => publish_pass_traced s type ap env now l links
  else publish_pass_traced s type ap env now l links

/-- The passes of `add_fsevent` with the next-link queries and the executions of
`goto restart` counted: `(result, queries, restarts)`.  The outer `none` is the
end of the fuel; a panic or undefined read is the inner `none`. -/
def add_fsevent_loop_traced (type : Int) (ap : List va_word) (env : fse_env) :
    Nat → fsevents_state → Nat → add_locals → List link_reply →
      Option (Option (Int × fsevents_state) × Nat × Nat)
  | 0, _, _, _, _ => none
  | fuel + 1, s, now, l, links =>
    match add_fsevent_pass_traced s type ap env now l links with
    | none => none
    | some (none, q) => some (none, q, 0)
    | some (some (pass_result.ret err s), q) => some (some (err, s), q, 0)
    | some (some (pass_result.restart s l links now), q) =>
      match add_fsevent_loop_traced type ap env fuel s now l links with
      | none => none
      | some (r, q1, p1) => some (r, q1 + q, p1 + 1)

/-- The function `add_fsevent` with the next-link queries and the executions of
`goto restart` counted. -/
def add_fsevent_traced (s : fsevents_state) (type : Int) (ap : List va_word) (env : fse_env) :
    Option (Option (Int × fsevents_state) × Nat × Nat) :=
  let l : add_locals := {}
  let (type, l) := if type = FSE_CONTENT_MODIFIED_NO_HLINK then
      (FSE_CONTENT_MODIFIED, { l with do_all_links := false }) else (type, l)
  add_fsevent_loop_traced type ap env 130 s env.now l env.links

/-- The number of sibling links a call of `add_fsevent` may still visit: the
value of `orig_linkcount` once `orig_linkid` is set, and the cap
`MAX_HARDLINK_NOTIFICATIONS` before. -/
def link_budget (l : add_locals) : Nat :=
  if l.orig_linkid = 0 then 128 else l.orig_linkcount.toNat

/-- What a part of a pass that ends in the code from `clean_up` guarantees, for
the budget `b` it started with: the traced function returns, its first
component is the result `orig` of the function it traces, its queries are
within the budget, and a restart leaves a smaller budget that still covers the
queries made. -/
def pass_within (b : Nat) (orig : Option pass_result)
    (traced : Option (Option pass_result × Nat)) : Prop :=
  ∃ q, traced = some (orig, q) ∧ q ≤ b ∧
    ∀ s1 l1 links1 now1, orig = some (pass_result.restart s1 l1 links1 now1) →
      q + link_budget l1 ≤ b ∧ link_budget l1 + 1 ≤ b ∧ l1.orig_linkid ≠ 0

/-! ## Scenarios for the sibling-hardlink loop -/

/-- A regular file with 200 hardlinks. -/
def scn_many_links : vnode :=
  { addr := 7, vid := 3, va_fsid := 5, va_fileid := 11, is_hardlink := true, is_reg := true,
    va_nlink := 200, getpath := [47, 97] }

/-- The arguments `FSE_ARG_VNODE, vp, FSE_ARG_DONE` for `scn_many_links`. -/
def scn_many_args : List va_word :=
  [va_word.int32 FSE_ARG_VNODE, va_word.vp (some scn_many_links), va_word.int32 FSE_ARG_DONE]

/-- A sibling link whose path cannot be resolved (`fsgetpath_internal` returns
`ENOENT`). -/
def scn_broken_link : link_reply := { next_linkid := 12, getpath_iret := 2 }

/-- A sibling link that resolves to "/b". -/
def scn_good_link : link_reply := { next_linkid := 13, path := [47, 98], now := 1001 }

/-- The producer with pid 100 at clock 1000; the file system names 200 sibling
links, none of which resolves. -/
def scn_broken_env : fse_env :=
  { pid := 100, now := 1000, links := List.replicate 200 scn_broken_link }

/-- The producer with pid 100 at clock 1000; the file system names 200 sibling
links, each of which resolves to "/b". -/
def scn_endless_env : fse_env :=
  { pid := 100, now := 1000, links := List.replicate 200 scn_good_link }

/-- The producer with pid 100 at clock 1000; the first sibling link does not
resolve, the second resolves to "/b", and there is no third. -/
def scn_mixed_env : fse_env :=
  { pid := 100, now := 1000, links := [scn_broken_link, scn_good_link] }

/-- A broker with a pool of 32 and one watcher that reports every kind, its
queue 16 deep. -/
def scn_roomy : fsevents_state :=
  (add_watcher (fsevents_internal_init 32) (List.replicate 17 FSE_REPORT) 17 16 {}).2.2

/-- The state after ContentModified on `scn_many_links` was published to
`scn_one_watcher` with the answers of `scn_mixed_env`. -/
def scn_mixed_result : fsevents_state :=
  ((add_fsevent scn_one_watcher FSE_CONTENT_MODIFIED scn_many_args scn_mixed_env).getD
    (0, scn_one_watcher)).2

/-- The locals of `add_fsevent` at the label `clean_up` of the first pass over
`scn_many_links`. -/
def scn_many_locals : add_locals :=
  { dev := 5, orig_linkid := 11, orig_linkcount := 128, link_vp := some scn_many_links }

/-! ## The write path: `parse_buffer_and_add_events` and `fseventswrite` -/

/-- The value of `sizeof(int)`. -/
abbrev SIZEOF_INT : Nat := 4

/-- The value of `sizeof(fse_info)`: the fields `ino64_t ino; dev_t dev; int32_t
mode; uid_t uid; uint32_t document_id; uint64_t nlink`, 32 bytes. -/
abbrev SIZEOF_FSE_INFO : Nat := 32

/-- The value of `WRITE_BUFFER_SIZE`. -/
abbrev WRITE_BUFFER_SIZE : Nat := 4096

/-- The unsigned value of the first `width` bytes of `b`, least significant
first. -/
def read_le : Nat → List Nat → Nat
  | 0, _ => 0
  | _ + 1, [] => 0
  | width + 1, c :: rest => c + 256 * read_le width rest

/-- The value `*(const int *)ptr`. -/
def read_int32 (b : List Nat) : Int := wrap32 (read_le 4 b)

/-- The `fse_info` found at a pointer. -/
def read_fse_info (b : List Nat) : fse_info :=
  { ino := read_le 8 b,
    dev := wrap32 (read_le 4 (b.drop 8)),
    mode := read_le 4 (b.drop 12),
    uid := read_le 4 (b.drop 16),
    document_id := read_le 4 (b.drop 20),
    nlink := read_le 8 (b.drop 24) }

/-- The loop `while (ptr < buffer + bufsize && *ptr != 0) ptr++;` on a pointer
given as the bytes from it to the end of the buffer: the bytes passed over and
the pointer it leaves. -/
def scan_path : List Nat → List Nat × List Nat
  | [] => ([], [])
  | c :: rest => if c = 0 then ([], c :: rest) else (c :: (scan_path rest).1, (scan_path rest).2)

/-- How one iteration of the loop of `parse_buffer_and_add_events` ends: the
function returns `(err, *remainder, state, k)`, or the loop goes on (carrying
`ptr` and `event_start`), or `add_fsevent` ends in a panic or undefined read. -/
inductive parse_next where
  | ret (r : Int × Nat × fsevents_state × Nat)
  | more (ptr : List Nat) (event_start : List Nat) (s : fsevents_state) (k : Nat)
  | undefined
deriving DecidableEq, Repr

/-- One iteration of the loop of `parse_buffer_and_add_events`, from the test of
the loop condition on.  A pointer into the buffer is the list of the bytes from
it to `buffer + bufsize`, so `ptr.length` is `buffer + bufsize - ptr`.  The
`k`-th call of `add_fsevent` since the start of the model run finds the
environment `env k`.  (The length is passed as a `size_t` and read as an
`int32_t`: the low 32 bits.) -/
def parse_body (env : Nat → fse_env) (ptr : List Nat) (event_start : List Nat)
    (s : fsevents_state) (k : Nat) : parse_next :=
  if SIZEOF_INT + SIZEOF_FSE_INFO + 1 < ptr.length then
    let type := read_int32 ptr
    if type < 0 ∨ type = FSE_ACCESS_GRANTED ∨ type = FSE_ACTIVITY ∨ type ≥ FSE_MAX_EVENTS then
      parse_next.ret (EINVAL, event_start.length, s, k)
    else
      let ptr := ptr.drop SIZEOF_INT
      let finfo := read_fse_info ptr
      let ptr := ptr.drop SIZEOF_FSE_INFO
      let path := (scan_path ptr).1
      let ptr := (scan_path ptr).2
      if ptr = [] then parse_next.ret (0, event_start.length, s, k)
      else
        let ptr := ptr.tail
        let path_len : Nat := path.length + 1
        if two_target type = false then
          let event_start := ptr
          match add_fsevent s type
              [va_word.int32 FSE_ARG_STRING, va_word.int32 path_len, va_word.chars (some path),
               va_word.int32 FSE_ARG_FINFO, va_word.finfo finfo, va_word.int32 FSE_ARG_DONE]
              (env k) with
          | none => parse_next.undefined
          | some (err, s) =>
            if err ≠ 0 then parse_next.ret (err, event_start.length, s, k + 1)
            else parse_next.more ptr event_start s (k + 1)
        else
          let dest_finfo := read_fse_info ptr
          let ptr := ptr.drop SIZEOF_FSE_INFO
          let dest_path := (scan_path ptr).1
          let ptr := (scan_path ptr).2
          if ptr = [] then parse_next.ret (0, event_start.length, s, k)
          else
            let ptr := ptr.tail
            let event_start := ptr
            let dest_path_len : Nat := dest_path.length + 1
            match (if dest_finfo.ino ≠ 0 then
                add_fsevent s type
                  [va_word.int32 FSE_ARG_STRING, va_word.int32 path_len,
                   va_word.chars (some path), va_word.int32 FSE_ARG_FINFO, va_word.finfo finfo,
                   va_word.int32 FSE_ARG_STRING, va_word.int32 dest_path_len,
                   va_word.chars (some dest_path), va_word.int32 FSE_ARG_FINFO,
                   va_word.finfo dest_finfo, va_word.int32 FSE_ARG_DONE]
                  (env k)
              else
                add_fsevent s type
                  [va_word.int32 FSE_ARG_STRING, va_word.int32 path_len,
                   va_word.chars (some path), va_word.int32 FSE_ARG_FINFO, va_word.finfo finfo,
                   va_word.int32 FSE_ARG_STRING, va_word.int32 dest_path_len,
                   va_word.chars (some dest_path), va_word.int32 FSE_ARG_DONE]
                  (env k)) with
            | none => parse_next.undefined
            | some (err, s) =>
              if err ≠ 0 then parse_next.ret (err, event_start.length, s, k + 1)
              else parse_next.more ptr event_start s (k + 1)
  else parse_next.ret (0, event_start.length, s, k)

/-- The loop of `parse_buffer_and_add_events`, at most `fuel` iterations of it:
`(err, *remainder, state, k)`.  The outer `none` is the end of the fuel, the
inner one a panic or undefined read in `add_fsevent`. -/
def parse_loop (env : Nat → fse_env) :
    Nat → List Nat → List Nat → fsevents_state → Nat →
      Option (Option (Int × Nat × fsevents_state × Nat))
  | 0, _, _, _, _ => none
  | fuel + 1, ptr, event_start, s, k =>
    match parse_body env ptr event_start s k with
    | parse_next.ret r => some (some r)
    | parse_next.undefined => some none
    | parse_next.more ptr event_start s k => parse_loop env fuel ptr event_start s k

/-- Counterpart of `parse_buffer_and_add_events(buffer, bufsize, ctx,
&remainder)` for the `bufsize` bytes `buffer`: `(err, *remainder, state, k)`.
Every iteration that goes on moves `ptr` forward, so `bufsize + 1` iterations
are enough.  The outer `none` is the end of the fuel, the inner one a panic or
undefined read in `add_fsevent`. -/
def parse_buffer_and_add_events (buffer : List Nat) (s : fsevents_state) (k : Nat)
    (env : Nat → fse_env) : Option (Option (Int × Nat × fsevents_state × Nat)) :=
  parse_loop env (buffer.length + 1) buffer buffer s k

/-- The part of the `struct uio` of a write that `fseventswrite` sees: the bytes
not yet moved in (`uio_resid` is their number) and the return codes the coming
`uiomove` calls will have (success once the list is used up). -/
structure write_uio where
  data : List Nat := []
  errs : List Int := []
deriving DecidableEq, Repr

/-- Counterpart of `uiomove(buf, n, uio)` for a user-to-kernel move of `n`
bytes: the return value, the bytes moved and the new uio.  A failing call moves
nothing. -/
def uiomove_in (n : Nat) (u : write_uio) : Int × List Nat × write_uio :=
  match u.errs with
  | [] => (0, u.data.take n, { u with data := u.data.drop n })
  | e :: rest =>
    if e ≠ 0 then (e, [], { u with errs := rest })
    else (0, u.data.take n, { data := u.data.drop n, errs := rest })

/-- Counterpart of `memmove(write_buffer, write_buffer + src, n)`. -/
def memmove (write_buffer : List Nat) (src n : Nat) : List Nat :=
  (write_buffer.drop src).take n ++ write_buffer.drop n

/-- How one iteration of the loop of `fseventswrite` ends: with a `break`
carrying `error`, with the next iteration (carrying `write_buffer`, `offset`
and the rest), or in a panic or undefined read of `add_fsevent`. -/
inductive write_next where
  | stop (error : Int) (write_buffer : List Nat) (s : fsevents_state) (k : Nat) (u : write_uio)
  | again (write_buffer : List Nat) (offset : Nat) (s : fsevents_state) (k : Nat) (u : write_uio)
  | undefined
deriving DecidableEq, Repr

/-- The body of the loop `while (uio_resid(uio))` of `fseventswrite`. -/
def fseventswrite_body (env : Nat → fse_env) (write_buffer : List Nat) (offset : Nat)
    (s : fsevents_state) (k : Nat) (u : write_uio) : write_next :=
  let count := min (WRITE_BUFFER_SIZE - offset) u.data.length
  match uiomove_in count u with
  | (error, bytes, u) =>
    if error ≠ 0 then write_next.stop error write_buffer s k u
    else
      let write_buffer := write_buffer.take offset ++ bytes ++ write_buffer.drop (offset + count)
      match parse_buffer_and_add_events (write_buffer.take (offset + count)) s k env with
      | none => write_next.undefined
      | some none => write_next.undefined
      | some (some (error, remainder, s, k)) =>
        if error ≠ 0 then write_next.stop error write_buffer s k u
        else
          write_next.again (memmove write_buffer (count + offset - remainder) remainder)
            remainder s k u

/-- The loop `while (uio_resid(uio))` of `fseventswrite`, at most `fuel`
iterations of it: `(error, write_buffer, state, k, uio)`.  The outer `none` is
the end of the fuel, the inner one a panic or undefined read. -/
def fseventswrite_loop (env : Nat → fse_env) :
    Nat → List Nat → Nat → fsevents_state → Nat → write_uio →
      Option (Option (Int × List Nat × fsevents_state × Nat × write_uio))
  | 0, _, _, _, _, _ => none
  | fuel + 1, write_buffer, offset, s, k, u =>
    if u.data.length ≠ 0 then
      match fseventswrite_body env write_buffer offset s k u with
      | write_next.undefined => some none
      | write_next.stop error write_buffer s k u => some (some (error, write_buffer, s, k, u))
      | write_next.again write_buffer offset s k u =>
        fseventswrite_loop env fuel write_buffer offset s k u
    else some (some (0, write_buffer, s, k, u))

/-- Counterpart of `fseventswrite(dev, uio, ioflag)`, given the contents of the
static `write_buffer` (4096 bytes): `offset` starts at 0 in every call.  At
most `fuel` iterations of the loop are made. -/
def fseventswrite (env : Nat → fse_env) (fuel : Nat) (write_buffer : List Nat)
    (s : fsevents_state) (k : Nat) (u : write_uio) :
    Option (Option (Int × List Nat × fsevents_state × Nat × write_uio)) :=
  fseventswrite_loop env fuel write_buffer 0 s k u

/-! ## Packed records -/

/-- One packed record of the write format: `{int32 kind; fse_info finfo;
nul-terminated path; [fse_info finfo2; nul-terminated path2]}`. -/
structure packed_record where
  kind : Int := 0
  finfo : fse_info := {}
  path : cstr := []
  dest : Option (fse_info × cstr) := none
deriving DecidableEq, Repr

/-- The 32 bytes of an `fse_info`. -/
def encode_fse_info (f : fse_info) : List Nat :=
  le_bytes 8 f.ino ++ le_bytes_int32 f.dev ++ le_bytes 4 f.mode ++ le_bytes 4 f.uid ++
    le_bytes 4 f.document_id ++ le_bytes 8 f.nlink

/-- The bytes of a packed record. -/
def encode_packed (r : packed_record) : List Nat :=
  le_bytes_int32 r.kind ++ encode_fse_info r.finfo ++ r.path ++ [0] ++
    (match r.dest with
     | none => []
     | some d => encode_fse_info d.1 ++ d.2 ++ [0])

/-- The bytes of a sequence of packed records. -/
def encode_all (recs : List packed_record) : List Nat := (recs.map encode_packed).flatten

/-- The fields of an `fse_info` are within their C types. -/
def fse_info_fits (f : fse_info) : Prop :=
  f.ino < 2 ^ 64 ∧ -2147483648 ≤ f.dev ∧ f.dev < 2147483648 ∧ f.mode < 2 ^ 32 ∧
    f.uid < 2 ^ 32 ∧ f.document_id < 2 ^ 32 ∧ f.nlink < 2 ^ 64

instance (f : fse_info) : Decidable (fse_info_fits f) := by
  unfold fse_info_fits; infer_instance

/-- A well-formed packed record: a kind the device accepts, fields within their
types, paths without a NUL inside, and a second `fse_info` and path exactly for
Rename, Exchange and Clone. -/
def packed_ok (r : packed_record) : Prop :=
  0 ≤ r.kind ∧ r.kind < FSE_MAX_EVENTS ∧ r.kind ≠ FSE_ACCESS_GRANTED ∧ r.kind ≠ FSE_ACTIVITY ∧
    fse_info_fits r.finfo ∧ (∀ c ∈ r.path, c ≠ 0) ∧
    (match r.dest with
     | none => two_target r.kind = false
     | some d => two_target r.kind = true ∧ fse_info_fits d.1 ∧ ∀ c ∈ d.2, c ≠ 0)

instance (r : packed_record) : Decidable (packed_ok r) := by
  unfold packed_ok
  cases r.dest <;> infer_instance

/-- The arguments `parse_buffer_and_add_events` hands to `add_fsevent` for a
packed record: `FSE_ARG_STRING, len, path, FSE_ARG_FINFO, finfo`, for a record
with a second half followed by `FSE_ARG_STRING, len2, path2` and, when the
second inode number is not 0, `FSE_ARG_FINFO, finfo2`. -/
def record_args (r : packed_record) : List va_word :=
  [va_word.int32 FSE_ARG_STRING, va_word.int32 (r.path.length + 1 : Nat),
   va_word.chars (some r.path), va_word.int32 FSE_ARG_FINFO, va_word.finfo r.finfo] ++
  (match r.dest with
   | none => []
   | some d =>
     [va_word.int32 FSE_ARG_STRING, va_word.int32 (d.2.length + 1 : Nat),
      va_word.chars (some d.2)] ++
     (if d.1.ino ≠ 0 then [va_word.int32 FSE_ARG_FINFO, va_word.finfo d.1] else [])) ++
  [va_word.int32 FSE_ARG_DONE]

/-- The calls `add_fsevent(kind, ctx, ...)` for the records of a list, in order,
up to the first that returns an error: `(err, state, k, records not
reached)`. -/
def publish_records (env : Nat → fse_env) :
    List packed_record → fsevents_state → Nat →
      Option (Int × fsevents_state × Nat × List packed_record)
  | [], s, k => some (0, s, k, [])
  | r :: rs, s, k =>
    match add_fsevent s r.kind (record_args r) (env k) with
    | none => none
    | some (err, s1) =>
      if err ≠ 0 then some (err, s1, k + 1, rs) else publish_records env rs s1 (k + 1)

/-- The kinds `parse_buffer_and_add_events` rejects with `EINVAL`. -/
def bad_kind (type : Int) : Prop :=
  type < 0 ∨ type = FSE_ACCESS_GRANTED ∨ type = FSE_ACTIVITY ∨ type ≥ FSE_MAX_EVENTS

instance (type : Int) : Decidable (bad_kind type) := by
  unfold bad_kind; infer_instance

/-- The bytes `b` start with a record that is not complete: its path has no
terminating NUL in `b`, or it is a Rename, Exchange or Clone whose second path
has none. -/
def record_cut (b : List Nat) : Prop :=
  0 ∉ b.drop 36 ∨
    (two_target (read_int32 b) = true ∧ 0 ∉ (((b.drop 36).dropWhile (fun c => c ≠ 0)).drop 33))

instance (b : List Nat) : Decidable (record_cut b) := by
  unfold record_cut; infer_instance

/-- The bytes `b` are where parsing stops: fewer than 38 of them, or a kind the
device rejects, or a record that is not complete. -/
def parse_stops (b : List Nat) : Prop :=
  b.length ≤ 37 ∨ bad_kind (read_int32 b) ∨ record_cut b

instance (b : List Nat) : Decidable (parse_stops b) := by
  unfold parse_stops; infer_instance

/-- The return value at the bytes where parsing stops: `EINVAL` for a rejected
kind with at least 38 bytes, 0 otherwise. -/
def stop_error (b : List Nat) : Int :=
  if 37 < b.length ∧ bad_kind (read_int32 b) then EINVAL else 0

/-- What the claim on `parse_buffer_and_add_events` says of a buffer made of
the records `recs` followed by the bytes `tail` where parsing stops: the
records are handed to `add_fsevent` in order up to the first error; an error
leaves as remainder the bytes after the record that met it, and otherwise the
remainder is `tail`. -/
def records_result (env : Nat → fse_env) (recs : List packed_record) (tail : List Nat)
    (s : fsevents_state) (k : Nat) : Option (Int × Nat × fsevents_state × Nat) :=
  match publish_records env recs s k with
  | none => none
  | some (err, s1, k1, left) =>
    if err ≠ 0 then some (err, (encode_all left ++ tail).length, s1, k1)
    else some (stop_error tail, tail.length, s1, k1)

/-! ## Scenarios for the write path -/

/-- The producer with pid 100; its `k`-th call of `add_fsevent` reads the clock
value `1000 + k`. -/
def scn_write_env (k : Nat) : fse_env := { pid := 100, now := 1000 + k }

/-- The packed record of CreateFile on "/a", inode 9 on device 5. -/
def scn_packed_a : packed_record :=
  { kind := FSE_CREATE_FILE, finfo := { ino := 9, dev := 5, mode := 0x81a4, uid := 501 },
    path := [47, 97] }

/-- The packed record of CreateFile on the empty path: 37 bytes. -/
def scn_packed_empty : packed_record := { kind := FSE_CREATE_FILE, path := [] }

/-- The packed record of Rename from "/a" to "/b", the second inode 3. -/
def scn_packed_rename : packed_record :=
  { kind := FSE_RENAME, finfo := { ino := 9, dev := 5 }, path := [47, 97],
    dest := some ({ ino := 3, dev := 5 }, [47, 98]) }

/-- The state after the records `scn_packed_a` and `scn_packed_rename` were
handed to `add_fsevent` on `scn_one_watcher`. -/
def scn_parsed_two : fsevents_state :=
  ((publish_records scn_write_env [scn_packed_a, scn_packed_rename] scn_one_watcher 0).getD
    (0, scn_one_watcher, 0, [])).2.1

/-- The state after `scn_packed_a` met a used-up pool on `scn_small_used`. -/
def scn_parsed_full : fsevents_state :=
  ((add_fsevent scn_small_used FSE_CREATE_FILE (record_args scn_packed_a)
    (scn_write_env 0)).getD (0, scn_small_used)).2

/-- The static `write_buffer` as `zalloc_permanent` hands it out: 4096 zero
bytes. -/
def scn_zero_buffer : List Nat := List.replicate WRITE_BUFFER_SIZE 0

/-- The first 4096 bytes of a packed record of CreateFile whose path has no
terminating NUL so far: the kind, a zero `fse_info`, and 4060 times the letter
`a`. -/
def scn_long_chunk : List Nat :=
  le_bytes_int32 FSE_CREATE_FILE ++ encode_fse_info {} ++ List.replicate 4060 97

/-- A write of 4097 bytes: `scn_long_chunk` and one more letter `a`. -/
def scn_long_write : write_uio := { data := scn_long_chunk ++ [97] }

/-- The scratch after a write of the first 20 bytes of `scn_packed_a`. -/
def scn_half_buffer : List Nat :=
  (encode_packed scn_packed_a).take 20 ++ scn_zero_buffer.drop 20

/-- The packed record of CreateFile on a path of 4050 letters `a`: 4087
bytes. -/
def scn_packed_long : packed_record :=
  { kind := FSE_CREATE_FILE, finfo := { ino := 10, dev := 5 }, path := List.replicate 4050 97 }

/-- The state after `scn_packed_a` was handed to `add_fsevent` on
`scn_one_watcher`. -/
def scn_parsed_a : fsevents_state :=
  ((add_fsevent scn_one_watcher FSE_CREATE_FILE (record_args scn_packed_a)
    (scn_write_env 0)).getD (0, scn_one_watcher)).2

/-! ## The dedup record across a publish -/

/-- What a step inside `add_fsevent` does to `last_event_ptr` and
`last_event_type`: it leaves both alone, or the release of an event has reset
the record (`last_event_type = -1`). -/
def record_kept (s s1 : fsevents_state) : Prop :=
  (s1.last_event_ptr = s.last_event_ptr ∧ s1.last_event_type = s.last_event_type) ∨
    s1.last_event_type = -1

/-- The event `last_event_ptr` points to, the one published last, is of kind
`type` and stands in the queue of a registered watcher. -/
def newest_queued (s : fsevents_state) (type : Int) : Prop :=
  ∃ k e i w, s.last_event_ptr = some k ∧ deref s k = some e ∧ e.type = type ∧
    get_watcher s i = some w ∧ some k ∈ pending w

/-- The event published last is delivered: it is of kind `type` and stands in
the queue of a registered watcher that reports the kind. -/
def newest_delivered (s : fsevents_state) (type : Int) : Prop :=
  ∃ k e i w, s.last_event_ptr = some k ∧ deref s k = some e ∧ e.type = type ∧
    get_watcher s i = some w ∧ reports w type ∧ some k ∈ pending w

/-- The arguments of a publish start with what the dedup filter compares: a
vnode whose vid is not 0, or a path that is not empty and fits into `last_str`
with its NUL (`strlcpy(last_str, ptr, sizeof(last_str))` cuts a longer one). -/
def dedup_key (ap : List va_word) : Prop :=
  match ap with
  | va_word.int32 tag :: va_word.vp (some v) :: _ => tag = FSE_ARG_VNODE ∧ v.vid ≠ 0
  | va_word.int32 tag :: va_word.int32 _ :: va_word.chars (some str) :: _ =>
    tag = FSE_ARG_STRING ∧ str ≠ [] ∧ str.length < MAXPATHLEN
  | _ => False

/-! ## The union of `kfs_event` as `release_event_ref` reads it -/

/-- What a read of the member `regular_event.dest` yields: `NULL`, a pointer to
a zone element, or a value that is no pointer the broker has stored. -/
inductive dest_word where
  | null
  | element (d : Nat)
  | wild (addr : Nat)
deriving DecidableEq, Repr

/-- The value `release_event_ref` reads as `kfse->regular_event.dest`.  The
members of the union of `kfs_event` share their storage: `regular_event.dest`
lies at offset 24 (behind `ino`, `dev`, `mode`, `uid` and `document_id`), where
`access_granted_event` keeps `audit_token.val[6]` and `audit_token.val[7]`.
For an `FSE_ACCESS_GRANTED` event the 64-bit value read is made of these two
words, the low one first; for the other kinds it is the link the event
stores.  A token that was never written is the 0 of the `memset` in
`kfse_init`. -/
def regular_event_dest (e : kfs_event) : dest_word :=
  if e.type = FSE_ACCESS_GRANTED then
    let addr := e.audit_token.getD 6 0 % 2 ^ 32 + 2 ^ 32 * (e.audit_token.getD 7 0 % 2 ^ 32)
    if addr = 0 then dest_word.null else dest_word.wild addr
  else
    match e.dest with
    | none => dest_word.null
    | some d => dest_word.element d

/-- The part of `release_event_ref` that drops the reference held on the
destination, given what was read as `regular_event.dest`: `NULL` is skipped, a
zone element is handled as `drop_dest` does, and `assert(dest->type !=
FSE_INVALID)` and `OSAddAtomic(-1, &dest->refcount)` through any other value
are undefined (`none`). -/
def drop_dest_union (s : fsevents_state) (dest : dest_word) :
    Option (fsevents_state × Option (Nat × kfs_event)) :=
  match dest with
  | dest_word.null => some (s, none)
  | dest_word.element d => drop_dest s (some d)
  | dest_word.wild _ => none

/-- The part of `release_event_ref` that runs once the count has dropped to
zero, with `regular_event.dest` read through the union (`regular_event_dest`);
`kfse` is the event after the decrement. -/
def free_event_union (s : fsevents_state) (p : Nat) (kfse : kfs_event) : Option fsevents_state :=
  let s := forget_last_event s p
  if kfse.refcount < 0 then none
  else
    let regular : Bool := kfse.type != FSE_DOCID_CREATED && kfse.type != FSE_DOCID_CHANGED &&
      kfse.type != FSE_ACTIVITY
    let path_str : Option cstr := if regular then kfse.str else none
    match drop_dest_union s (if regular then regular_event_dest kfse else dest_word.null) with
    | none => none
    | some (s, dest) =>
      let dest_path_str : Option cstr := match dest with
        | none => none
        | some (_, de) => de.str
      let s := unlist_events s p kfse dest
      let s := zfree s p
      let s := match dest with
        | none => s
        | some (d, _) => zfree s d
      let s := vfs_removename_opt s path_str
      let s := vfs_removename_opt s dest_path_str
      some s

/-- Counterpart of `release_event_ref` with `regular_event.dest` read through
the union; `none` is the `panic` on a negative reference count, a pointer to
an element that is not in use, or the dereference of a value that is no
pointer. -/
def release_event_ref_union (s : fsevents_state) (p : Nat) : Option fsevents_state :=
  match deref s p with
  | none => none
  | some kfse0 =>
    let old_refcount := kfse0.refcount
    let kfse := { kfse0 with refcount := kfse0.refcount - 1 }
    let s := store s p kfse
    if old_refcount > 1 then some s
    else free_event_union s p kfse

/-! ## Scenarios of the dedup filter and of faulting reads -/

/-- The state after ContentModified on `scn_vnode` was published a third time,
100 ms after the first. -/
def scn_vnode_third : fsevents_state :=
  ((add_fsevent (scn_again FSE_CONTENT_MODIFIED (scn_vnode_args scn_vnode)) FSE_CONTENT_MODIFIED
    (scn_vnode_args scn_vnode) (scn_env 100001000)).getD
    (0, scn_again FSE_CONTENT_MODIFIED (scn_vnode_args scn_vnode))).2

/-- The state after ContentModified on `scn_vnode` was published to
`scn_full_ring`, whose one watcher has no room. -/
def scn_full_vnode_1 : fsevents_state :=
  ((add_fsevent scn_full_ring FSE_CONTENT_MODIFIED (scn_vnode_args scn_vnode)
    (scn_env 2000)).getD (0, scn_full_ring)).2

/-- The state after ContentModified on `scn_vnode` was published to
`scn_full_vnode_1` again, 50 ms later. -/
def scn_full_vnode_2 : fsevents_state :=
  ((add_fsevent scn_full_vnode_1 FSE_CONTENT_MODIFIED (scn_vnode_args scn_vnode)
    (scn_env 50002000)).getD (0, scn_full_vnode_1)).2

/-- A path of 1100 bytes, more than `last_str` holds. -/
def scn_long_path : cstr := List.replicate 1100 97

/-- The arguments `FSE_ARG_STRING, 1101, path, FSE_ARG_DONE` for the path of
1100 bytes. -/
def scn_long_path_args : List va_word :=
  [va_word.int32 FSE_ARG_STRING, va_word.int32 1101, va_word.chars (some scn_long_path),
   va_word.int32 FSE_ARG_DONE]

/-- The state the dedup filter leaves when ContentModified on "/a" is published
to `scn_one_watcher` at clock 1000. -/
def scn_filtered_path : fsevents_state :=
  ((dedup_filter scn_one_watcher FSE_CONTENT_MODIFIED scn_path_args (scn_env 1000)
    1000).getD (false, scn_one_watcher)).2

/-- A user buffer of 2048 bytes that faults under the second and the fourth
`uiomove` of a read: the first four bytes and the two bytes that follow them
are writable, the bytes behind them are not. -/
def scn_fault_buffer : uio := { resid := 2048, errs := [0, EFAULT, 0, EFAULT] }

/-- The outcome of a read of the watcher of `scn_full_ring_create`, which has
dropped an event and holds one, into `scn_fault_buffer`. -/
def scn_fault_read : Int × fsevents_state × uio :=
  (fmod_watch scn_full_ring_create 0 scn_fault_buffer 0).getD
    (0, scn_full_ring_create, scn_fault_buffer)

/-! ## Flag arithmetic -/

theorem or_and_self_mask (f m : Nat) : (f ||| m) &&& m = m := by
  apply Nat.eq_of_testBit_eq
  intro i
  simp only [Nat.testBit_and, Nat.testBit_or]
  cases f.testBit i <;> cases m.testBit i <;> rfl

theorem has_flag_or_self (f m : Nat) (hm : m ≠ 0) : has_flag (f ||| m) m = true := by
  simp [has_flag, or_and_self_mask, hm]

theorem has_flag_or_other (f m n : Nat) (h : m &&& n = 0) :
    has_flag (f ||| m) n = has_flag f n := by
  simp [has_flag, Nat.and_distrib_right, h]

theorem has_flag_and_mask (f m n k : Nat) (h : m &&& n = k) :
    has_flag (f &&& m) n = has_flag f k := by
  simp [has_flag, Nat.and_assoc, h]

theorem has_flag_zero (f : Nat) : has_flag f 0 = false := by
  simp [has_flag]

/-! ## Zone and table access -/

theorem deref_store_same (s : fsevents_state) (p : Nat) (e : kfs_event)
    (h : p < s.event_zone.length) : deref (store s p e) p = some e := by
  simp [deref, store, List.getD_eq_getElem?_getD, List.getElem?_set, h]

theorem deref_store_other (s : fsevents_state) (p q : Nat) (e : kfs_event) (h : p ≠ q) :
    deref (store s p e) q = deref s q := by
  simp [deref, store, List.getD_eq_getElem?_getD, List.getElem?_set, h]

theorem deref_some_lt {s : fsevents_state} {p : Nat} {e : kfs_event} (h : deref s p = some e) :
    p < s.event_zone.length := by
  by_contra hc
  simp [deref, List.getD_eq_getElem?_getD, List.getElem?_eq_none (Nat.le_of_not_lt hc)] at h

theorem get_watcher_some_lt {s : fsevents_state} {i : Nat} {w : fs_event_watcher}
    (h : get_watcher s i = some w) : i < s.watcher_table.length := by
  by_contra hc
  simp [get_watcher, List.getD_eq_getElem?_getD, List.getElem?_eq_none (Nat.le_of_not_lt hc)] at h

theorem get_set_watcher_same (s : fsevents_state) (i : Nat) (w : Option fs_event_watcher)
    (h : i < s.watcher_table.length) : get_watcher (set_watcher s i w) i = w := by
  simp [get_watcher, set_watcher, List.getD_eq_getElem?_getD, List.getElem?_set, h]

theorem get_set_watcher_other (s : fsevents_state) (i j : Nat) (w : Option fs_event_watcher)
    (h : i ≠ j) : get_watcher (set_watcher s i w) j = get_watcher s j := by
  simp [get_watcher, set_watcher, List.getD_eq_getElem?_getD, List.getElem?_set, h]

/-! ## `watcher_add_event` -/

/-- The value of `watcher_add_event` on a full ring. -/
theorem watcher_add_event_full_eq (s : fsevents_state) (i p : Nat) (w : fs_event_watcher)
    (e : kfs_event) (hw : get_watcher s i = some w) (he : deref s p = some e)
    (hsz : w.eventq_size ≠ 0) (hfull : (w.wr + 1) % w.eventq_size = w.rd) :
    watcher_add_event s i p = some (ENOSPC, set_watcher s i (some
      { w with flags := w.flags ||| WATCHER_DROPPED_EVENTS,
               max_event_id := if e.abstime > w.max_event_id then e.abstime
                 else w.max_event_id })) := by
  by_cases hab : e.abstime > w.max_event_id <;>
    simp [watcher_add_event, hw, he, hab, hsz, hfull]

theorem watcher_add_event_full (s : fsevents_state) (i p : Nat) (w : fs_event_watcher)
    (e : kfs_event) (hw : get_watcher s i = some w) (he : deref s p = some e)
    (hsz : w.eventq_size ≠ 0) :
    ((∃ s1, watcher_add_event s i p = some (ENOSPC, s1)) ↔
      (w.wr + 1) % w.eventq_size = w.rd) ∧
    ((w.wr + 1) % w.eventq_size = w.rd →
      ∃ s1 w1, watcher_add_event s i p = some (ENOSPC, s1) ∧ get_watcher s1 i = some w1 ∧
        has_flag w1.flags WATCHER_DROPPED_EVENTS = true ∧ w1.rd = w.rd ∧ w1.wr = w.wr ∧
        w1.event_queue = w.event_queue ∧ s1.event_zone = s.event_zone ∧
        deref s1 p = some e) := by
  have hi := get_watcher_some_lt hw
  have key : (w.wr + 1) % w.eventq_size = w.rd →
      ∃ s1 w1, watcher_add_event s i p = some (ENOSPC, s1) ∧ get_watcher s1 i = some w1 ∧
        has_flag w1.flags WATCHER_DROPPED_EVENTS = true ∧ w1.rd = w.rd ∧ w1.wr = w.wr ∧
        w1.event_queue = w.event_queue ∧ s1.event_zone = s.event_zone ∧
        deref s1 p = some e := by
    intro hfull
    refine ⟨_, _, watcher_add_event_full_eq s i p w e hw he hsz hfull,
      get_set_watcher_same s i _ hi, ?_, rfl, rfl, rfl, rfl, ?_⟩
    · exact has_flag_or_self _ _ (by decide)
    · simpa [deref, set_watcher] using he
  refine ⟨⟨?_, fun h => ?_⟩, key⟩
  · rintro ⟨s1, h1⟩
    by_contra hnf
    by_cases hab : e.abstime > w.max_event_id <;>
    · simp only [watcher_add_event, hw, he, hab, hsz, hnf, if_true, if_false, enqueued] at h1
      split at h1
      · split at h1
        · simp at h1
        · simp at h1
      · split at h1
        · simp at h1
        · split at h1 <;> simp at h1
  · obtain ⟨s1, _, h1, _⟩ := key h
    exact ⟨s1, h1⟩

/-- The value of `watcher_add_event` when the ring has room and the watcher is
not falling behind. -/
theorem watcher_add_event_room (s : fsevents_state) (i p : Nat) (w : fs_event_watcher)
    (e : kfs_event) (hw : get_watcher s i = some w) (he : deref s p = some e)
    (hsz : w.eventq_size ≠ 0) (hnf : (w.wr + 1) % w.eventq_size ≠ w.rd)
    (hnd : falling_behind (enqueued w p) = false) :
    ∃ t, watcher_add_event s i p = some (0, set_watcher
        { store s p { e with refcount := e.refcount + 1 } with timer_set := t } i
        (some (enqueued { w with max_event_id := if e.abstime > w.max_event_id then e.abstime
                            else w.max_event_id } p))) := by
  have hfb : ∀ m, falling_behind (enqueued { w with max_event_id := m } p) = false := by
    intro m
    simpa [falling_behind, enqueued, pending_count] using hnd
  by_cases hab : e.abstime > w.max_event_id
  · have h1 := hfb e.abstime
    by_cases hp : pending_count (enqueued { w with max_event_id := e.abstime } p) > MAX_NUM_PENDING
    · exact ⟨s.timer_set, by simp [watcher_add_event, hw, he, hab, hsz, hnf, h1, hp, store]⟩
    · by_cases ht : s.timer_set = 0
      · exact ⟨1, by simp [watcher_add_event, hw, he, hab, hsz, hnf, h1, hp, ht, store]⟩
      · exact ⟨s.timer_set, by simp [watcher_add_event, hw, he, hab, hsz, hnf, h1, hp, ht, store]⟩
  · have h1 := hfb w.max_event_id
    by_cases hp : pending_count (enqueued { w with max_event_id := w.max_event_id } p) >
        MAX_NUM_PENDING
    · exact ⟨s.timer_set, by simp [watcher_add_event, hw, he, hab, hsz, hnf, h1, hp, store]⟩
    · by_cases ht : s.timer_set = 0
      · exact ⟨1, by simp [watcher_add_event, hw, he, hab, hsz, hnf, h1, hp, ht, store]⟩
      · exact ⟨s.timer_set, by simp [watcher_add_event, hw, he, hab, hsz, hnf, h1, hp, ht, store]⟩

/-! ## The ring buffer -/

theorem getD_set_eq {α : Type} (l : List α) (i j : Nat) (x d : α) :
    (l.set i x).getD j d = if i = j ∧ i < l.length then x else l.getD j d := by
  simp only [List.getD_eq_getElem?_getD, List.getElem?_set]
  by_cases h : i = j
  · subst h
    by_cases h2 : i < l.length
    · simp [h2]
    · simp [h2, List.getElem?_eq_none (Nat.le_of_not_lt h2)]
  · simp [h]

theorem pending_congr {w w1 : fs_event_watcher} (hq : w1.event_queue = w.event_queue)
    (hs : w1.eventq_size = w.eventq_size) (hr : w1.rd = w.rd) (hw : w1.wr = w.wr) :
    pending w1 = pending w := by
  simp [pending, num_pending, hq, hs, hr, hw]

theorem num_pending_eq {w : fs_event_watcher} (hr : w.rd < w.eventq_size)
    (hw : w.wr < w.eventq_size) :
    num_pending w = if w.rd ≤ w.wr then w.wr - w.rd else w.wr + w.eventq_size - w.rd := by
  unfold num_pending
  split_ifs with h
  · rw [show w.wr + w.eventq_size - w.rd = (w.wr - w.rd) + w.eventq_size by omega,
      Nat.add_mod_right, Nat.mod_eq_of_lt (by omega)]
  · exact Nat.mod_eq_of_lt (by omega)

theorem num_pending_lt {w : fs_event_watcher} (hs : w.eventq_size ≠ 0) :
    num_pending w < w.eventq_size :=
  Nat.mod_lt _ (Nat.pos_of_ne_zero hs)

theorem ring_index {n a k : Nat} (ha : a < n) (hk : k < n) :
    (a + k) % n = if a + k < n then a + k else a + k - n := by
  split_ifs with h
  · exact Nat.mod_eq_of_lt h
  · rw [show a + k = (a + k - n) + n by omega, Nat.add_mod_right, Nat.mod_eq_of_lt (by omega)]
    omega

theorem succ_mod {n a : Nat} (ha : a < n) : (a + 1) % n = if a + 1 < n then a + 1 else 0 := by
  split_ifs with h
  · exact Nat.mod_eq_of_lt h
  · have : a + 1 = n := by omega
    rw [this, Nat.mod_self]

theorem pending_nil_of_eq {w : fs_event_watcher} (h : w.rd = w.wr) : pending w = [] := by
  have : num_pending w = 0 := by
    unfold num_pending
    rw [h]
    by_cases hs : w.eventq_size = 0
    · simp [hs]
    · rw [show w.wr + w.eventq_size - w.wr = w.eventq_size by omega, Nat.mod_self]
  simp [pending, this]

theorem num_pending_pos {w : fs_event_watcher} (h : ring_ok w) (hne : w.rd ≠ w.wr) :
    w.rd < w.eventq_size ∧ w.wr < w.eventq_size ∧ 0 < num_pending w := by
  have hr : w.rd < w.eventq_size := by
    rcases h.rd_lt with h1 | ⟨h1, h2⟩
    · exact h1
    · rcases h.wr_lt with h3 | ⟨_, h4⟩ <;> omega
  have hw : w.wr < w.eventq_size := by
    rcases h.wr_lt with h1 | ⟨h1, _⟩ <;> omega
  refine ⟨hr, hw, ?_⟩
  rw [num_pending_eq hr hw]
  split_ifs <;> omega

/-- Taking the oldest entry off the ring. -/
theorem pending_dequeue {w w1 : fs_event_watcher} (h : ring_ok w) (hne : w.rd ≠ w.wr)
    (hq : w1.event_queue = w.event_queue.set w.rd none)
    (hs : w1.eventq_size = w.eventq_size) (hr : w1.rd = (w.rd + 1) % w.eventq_size)
    (hw : w1.wr = w.wr) :
    pending w = w.event_queue.getD w.rd none :: pending w1 ∧ ring_ok w1 ∧
      num_pending w = num_pending w1 + 1 := by
  obtain ⟨hrd, hwr, hpos⟩ := num_pending_pos h hne
  have hsz : w.eventq_size ≠ 0 := by omega
  have hr1 : w1.rd < w1.eventq_size := by
    rw [hr, hs]; exact Nat.mod_lt _ (by omega)
  have hn1 : num_pending w = num_pending w1 + 1 := by
    rw [num_pending_eq hrd hwr, num_pending_eq hr1 (by rw [hw, hs]; exact hwr), hr, hs, hw,
      succ_mod hrd]
    split_ifs <;> omega
  have hlt := num_pending_lt hsz
  have hok : ring_ok w1 := by
    refine ⟨?_, Or.inl hr1, Or.inl (by rw [hw, hs]; exact hwr), fun i hi => ?_⟩
    · rw [hq, List.length_set, h.len, hs]
    · rw [hq, getD_set_eq]
      split
      · rfl
      · rename_i hne1
        apply h.clean
        intro k hk
        rcases Nat.eq_zero_or_pos k with hk0 | hk0
        · subst hk0
          rw [Nat.add_zero, Nat.mod_eq_of_lt hrd]
          intro g
          exact hne1 ⟨g, by rw [h.len]; exact hrd⟩
        · have := hi (k - 1) (by omega)
          rw [hr, hs] at this
          have e1 : ((w.rd + 1) % w.eventq_size + (k - 1)) % w.eventq_size =
              (w.rd + k) % w.eventq_size := by
            rw [Nat.add_mod, Nat.mod_mod, ← Nat.add_mod]; congr 1; omega
          rw [e1] at this
          exact this
  refine ⟨?_, hok, hn1⟩
  unfold pending
  rw [hn1, List.range_succ_eq_map, List.map_cons, List.map_map]
  congr 1
  · simp [Nat.mod_eq_of_lt hrd]
  · apply List.map_congr_left
    intro k hk
    rw [List.mem_range] at hk
    simp only [Function.comp, hq, hs, hr]
    have e1 : ((w.rd + 1) % w.eventq_size + k) % w.eventq_size =
        (w.rd + (k + 1)) % w.eventq_size := by
      rw [Nat.add_mod, Nat.mod_mod, ← Nat.add_mod]; congr 1; omega
    rw [e1]
    have e2 : (w.rd + (k + 1)) % w.eventq_size ≠ w.rd := by
      rw [ring_index hrd (by omega)]
      split_ifs <;> omega
    simp [List.getD_eq_getElem?_getD, List.getElem?_set, Ne.symm e2]

/-- Putting an entry on a ring that is not full. -/
theorem pending_enqueue {w w1 : fs_event_watcher} (x : Option Nat) (h : ring_ok w)
    (hsz : w.eventq_size ≠ 0) (hnf : (w.wr + 1) % w.eventq_size ≠ w.rd)
    (hq : w1.event_queue = w.event_queue.set w.wr x)
    (hs : w1.eventq_size = w.eventq_size) (hr : w1.rd = w.rd)
    (hw : w1.wr = (w.wr + 1) % w.eventq_size) :
    pending w1 = pending w ++ [x] ∧ ring_ok w1 ∧ num_pending w1 = num_pending w + 1 := by
  have hrd : w.rd < w.eventq_size := by rcases h.rd_lt with h1 | ⟨h1, _⟩ <;> omega
  have hwr : w.wr < w.eventq_size := by rcases h.wr_lt with h1 | ⟨h1, _⟩ <;> omega
  have hw1 : w1.wr < w1.eventq_size := by rw [hw, hs]; exact Nat.mod_lt _ (by omega)
  have hnf1 : (if w.wr + 1 < w.eventq_size then w.wr + 1 else 0) ≠ w.rd := by
    rw [← succ_mod hwr]; exact hnf
  have hn1 : num_pending w1 = num_pending w + 1 := by
    rw [num_pending_eq hrd hwr, num_pending_eq (by rw [hr, hs]; exact hrd) hw1, hr, hs, hw,
      succ_mod hwr]
    split_ifs at hnf1 ⊢ <;> omega
  have hlt : num_pending w1 < w1.eventq_size := num_pending_lt (by rw [hs]; exact hsz)
  have hidx : (w.rd + num_pending w) % w.eventq_size = w.wr := by
    rw [ring_index hrd (by rw [hn1, hs] at hlt; omega), num_pending_eq hrd hwr]
    split_ifs <;> omega
  have hok : ring_ok w1 := by
    refine ⟨?_, Or.inl (by rw [hr, hs]; exact hrd), Or.inl hw1, fun i hi => ?_⟩
    · rw [hq, List.length_set, h.len, hs]
    · rw [hn1, hr, hs] at hi
      have hiw : w.wr ≠ i := by
        have := hi (num_pending w) (by omega)
        rw [hidx] at this
        exact this
      rw [hq, getD_set_eq, if_neg (fun g => hiw g.1)]
      exact h.clean i (fun k hk => hi k (by omega))
  refine ⟨?_, hok, hn1⟩
  unfold pending
  rw [hn1, List.range_succ, List.map_append, List.map_singleton]
  congr 1
  · apply List.map_congr_left
    intro k hk
    rw [List.mem_range] at hk
    simp only [hq, hs, hr]
    have e2 : (w.rd + k) % w.eventq_size ≠ w.wr := by
      rw [ring_index hrd (by rw [hn1, hs] at hlt; omega)]
      rw [num_pending_eq hrd hwr] at hk
      split_ifs at hk ⊢ <;> omega
    simp [List.getD_eq_getElem?_getD, List.getElem?_set, Ne.symm e2]
  · simp only [hq, hs, hr, hidx]
    simp [List.getD_eq_getElem?_getD, List.getElem?_set, h.len, hwr]

/-! ## Frames of the primitive state changes -/

@[simp] theorem store_zone (s : fsevents_state) (p : Nat) (e : kfs_event) :
    (store s p e).event_zone = s.event_zone.set p (some e) := rfl
@[simp] theorem store_table (s : fsevents_state) (p : Nat) (e : kfs_event) :
    (store s p e).watcher_table = s.watcher_table := rfl
@[simp] theorem zfree_zone (s : fsevents_state) (p : Nat) :
    (zfree s p).event_zone = s.event_zone.set p none := rfl
@[simp] theorem zfree_table (s : fsevents_state) (p : Nat) :
    (zfree s p).watcher_table = s.watcher_table := rfl
@[simp] theorem forget_zone (s : fsevents_state) (p : Nat) :
    (forget_last_event s p).event_zone = s.event_zone := by
  unfold forget_last_event; split <;> rfl
@[simp] theorem forget_table (s : fsevents_state) (p : Nat) :
    (forget_last_event s p).watcher_table = s.watcher_table := by
  unfold forget_last_event; split <;> rfl
@[simp] theorem unlist_zone (s : fsevents_state) (p : Nat) (e : kfs_event)
    (d : Option (Nat × kfs_event)) : (unlist_events s p e d).event_zone = s.event_zone := by
  unfold unlist_events; cases d <;> simp only [] <;> repeat (split <;> try rfl)
@[simp] theorem unlist_table (s : fsevents_state) (p : Nat) (e : kfs_event)
    (d : Option (Nat × kfs_event)) : (unlist_events s p e d).watcher_table = s.watcher_table := by
  unfold unlist_events; cases d <;> simp only [] <;> repeat (split <;> try rfl)
@[simp] theorem removename_opt_zone (s : fsevents_state) (n : Option cstr) :
    (vfs_removename_opt s n).event_zone = s.event_zone := by
  cases n <;> rfl
@[simp] theorem removename_opt_table (s : fsevents_state) (n : Option cstr) :
    (vfs_removename_opt s n).watcher_table = s.watcher_table := by
  cases n <;> rfl
@[simp] theorem set_watcher_zone (s : fsevents_state) (i : Nat) (w : Option fs_event_watcher) :
    (set_watcher s i w).event_zone = s.event_zone := rfl
@[simp] theorem set_watcher_table (s : fsevents_state) (i : Nat) (w : Option fs_event_watcher) :
    (set_watcher s i w).watcher_table = s.watcher_table.set i w := rfl

theorem deref_eq (s : fsevents_state) (p : Nat) : deref s p = s.event_zone.getD p none := rfl

theorem getD_some_lt {α : Type} {l : List (Option α)} {i : Nat} {x : α}
    (h : l.getD i none = some x) : i < l.length := by
  by_contra hc
  simp [List.getD_eq_getElem?_getD, List.getElem?_eq_none (Nat.le_of_not_lt hc)] at h

/-! ## `release_event_ref` -/

/-- The first branch of `release_event_ref`: other references remain. -/
theorem release_event_ref_gt {s : fsevents_state} {p : Nat} {e : kfs_event}
    (he : deref s p = some e) (h : e.refcount > 1) :
    release_event_ref s p = some (store s p { e with refcount := e.refcount - 1 }) := by
  simp [release_event_ref, he, h]

/-- The second branch of `release_event_ref`: the last reference goes. -/
theorem release_event_ref_last {s : fsevents_state} {p : Nat} {e : kfs_event}
    (he : deref s p = some e) (h : ¬ e.refcount > 1) :
    release_event_ref s p =
      free_event (store s p { e with refcount := e.refcount - 1 }) p
        { e with refcount := e.refcount - 1 } := by
  simp [release_event_ref, he, h]

theorem regular_iff (e : kfs_event) :
    (e.type != FSE_DOCID_CREATED && e.type != FSE_DOCID_CHANGED && e.type != FSE_ACTIVITY) = true ↔
      (e.type ≠ FSE_DOCID_CREATED ∧ e.type ≠ FSE_DOCID_CHANGED ∧ e.type ≠ FSE_ACTIVITY) := by
  simp only [Bool.and_eq_true, bne_iff_ne, and_assoc]

theorem free_event_spec {s : fsevents_state} {p : Nat} {e : kfs_event} {cnt : Nat → Nat}
    (hz : zone_ok s.event_zone cnt) (he : deref s p = some e) (hrc : e.refcount = 1) :
    ∃ s1, free_event (store s p { e with refcount := e.refcount - 1 }) p
        { e with refcount := e.refcount - 1 } = some s1 ∧
      s1.watcher_table = s.watcher_table ∧
      s1.event_zone.length = s.event_zone.length ∧
      ∀ q, (freed_by e p q → s1.event_zone.getD q none = none) ∧
           (¬ freed_by e p q → s1.event_zone.getD q none = s.event_zone.getD q none) := by
  have hp : p < s.event_zone.length := getD_some_lt he
  obtain ⟨_, hz2⟩ := hz
  obtain ⟨_, _, hdest, _⟩ := hz2 p e he
  generalize hs0 : store s p { e with refcount := e.refcount - 1 } = s0
  generalize he0 : ({ e with refcount := e.refcount - 1 } : kfs_event) = e0
  have hz0 : s0.event_zone = s.event_zone.set p (some e0) := by rw [← hs0, ← he0]; rfl
  have ht0 : s0.watcher_table = s.watcher_table := by rw [← hs0]; rfl
  have hrc0 : ¬ e0.refcount < 0 := by rw [← he0]; simp [hrc]
  have htype : e0.type = e.type := by rw [← he0]
  have hdest0 : e0.dest = e.dest := by rw [← he0]
  by_cases hreg : e.type ≠ FSE_DOCID_CREATED ∧ e.type ≠ FSE_DOCID_CHANGED ∧ e.type ≠ FSE_ACTIVITY
  · have hregb := (regular_iff e0).2 (by rw [htype]; exact hreg)
    rcases hd : e.dest with _ | d
    · have hval : free_event s0 p e0 = some (vfs_removename_opt (vfs_removename_opt
          (zfree (unlist_events (forget_last_event s0 p) p e0 none) p) e0.str) none) := by
        simp [free_event, hrc0, hregb, hdest0, hd, drop_dest]
      refine ⟨_, hval, by simp [ht0], by simp [hz0], ?_⟩
      intro q
      simp only [freed_by, hd]
      constructor
      · rintro (rfl | ⟨_, _, _, h⟩)
        · simp [hz0, getD_set_eq, hp]
        · simp at h
      · intro hn
        have : q ≠ p := fun h => hn (Or.inl h)
        simp [hz0, getD_set_eq, Ne.symm this]
    · obtain ⟨hdp, de, hde, hdl⟩ := hdest d hd
      obtain ⟨_, hnl, _, _⟩ := hz2 d de hde
      have hdrc := (hnl hdl).1
      have hdd : d < s.event_zone.length := getD_some_lt hde
      have hde0 : deref (forget_last_event s0 p) d = some de := by
        rw [deref_eq, forget_zone, hz0, getD_set_eq, if_neg (fun h => hdp h.1.symm)]
        exact hde
      have hval : free_event s0 p e0 = some (vfs_removename_opt (vfs_removename_opt
          (zfree (zfree (unlist_events (store (forget_last_event s0 p) d
            { de with refcount := de.refcount - 1 }) p e0
            (some (d, { de with refcount := de.refcount - 1 }))) p) d) e0.str) de.str) := by
        simp [free_event, hrc0, hregb, hdest0, hd, drop_dest, hde0, hdrc]
      refine ⟨_, hval, by simp [ht0], by simp [hz0], ?_⟩
      intro q
      simp only [freed_by, hd]
      constructor
      · rintro (rfl | ⟨_, _, _, h⟩)
        · simp [hz0, getD_set_eq, hp, hdp]
        · simp at h; subst h
          simp [hz0, getD_set_eq, hdd]
      · intro hn
        have h1 : q ≠ p := fun h => hn (Or.inl h)
        have h2 : q ≠ d := fun h => hn (Or.inr ⟨hreg.1, hreg.2.1, hreg.2.2, by rw [h]⟩)
        simp [hz0, getD_set_eq, Ne.symm h1, Ne.symm h2]
  · have hregb : (e0.type != FSE_DOCID_CREATED && e0.type != FSE_DOCID_CHANGED &&
        e0.type != FSE_ACTIVITY) = false := by
      rw [← Bool.not_eq_true, regular_iff, htype]; exact hreg
    have hval : free_event s0 p e0 = some (vfs_removename_opt (vfs_removename_opt
        (zfree (unlist_events (forget_last_event s0 p) p e0 none) p) none) none) := by
      simp [free_event, hrc0, hregb, drop_dest]
    refine ⟨_, hval, by simp [ht0], by simp [hz0], ?_⟩
    intro q
    simp only [freed_by]
    constructor
    · rintro (rfl | ⟨h1, h2, h3, _⟩)
      · simp [hz0, getD_set_eq, hp]
      · exact absurd ⟨h1, h2, h3⟩ hreg
    · intro hn
      have : q ≠ p := fun h => hn (Or.inl h)
      simp [hz0, getD_set_eq, Ne.symm this]

theorem on_list_refcount (e : kfs_event) (r : Int) :
    on_list { e with refcount := r } = on_list e := rfl

/-- Releasing one reference to an event on the list keeps the zone consistent,
with one reference less counted for it. -/
theorem release_event_ref_ok {s : fsevents_state} {p : Nat} {e : kfs_event} {cnt : Nat → Nat}
    (hz : zone_ok s.event_zone cnt) (he : deref s p = some e) (hl : on_list e = true) :
    ∃ s1, release_event_ref s p = some s1 ∧ s1.watcher_table = s.watcher_table ∧
      zone_ok s1.event_zone (fun q => if q = p then cnt q - 1 else cnt q) ∧
      zone_shrinks s.event_zone s1.event_zone := by
  have hp : p < s.event_zone.length := getD_some_lt he
  have hz' := hz
  obtain ⟨hz1, hz2⟩ := hz
  obtain ⟨hon, _, hdest, huniq⟩ := hz2 p e he
  obtain ⟨hrc, hge, hty0, hty1⟩ := hon hl
  have he' : s.event_zone.getD p none = some e := he
  by_cases hgt : e.refcount > 1
  · refine ⟨_, release_event_ref_gt he hgt, rfl, ⟨?_, ?_⟩, ⟨by simp, ?_⟩⟩
    · intro q hq
      simp only [store_zone, getD_set_eq] at hq
      by_cases hqp : p = q
      · simp [hqp.symm, hp] at hq
      · simp only [hqp, false_and, if_false] at hq
        simp [Ne.symm hqp, hz1 q hq]
    · intro q eq hq
      simp only [store_zone, getD_set_eq] at hq
      by_cases hqp : p = q
      · subst hqp
        simp only [hp, and_self, if_true, Option.some.injEq] at hq
        subst hq
        refine ⟨fun _ => ⟨?_, ?_, hty0, hty1⟩, fun h => ?_, ?_, ?_⟩
        · simp only [if_true]; omega
        · simp only [if_true]; omega
        · rw [on_list_refcount] at h; rw [hl] at h; cases h
        · intro d hd
          obtain ⟨h1, de, h2, h3⟩ := hdest d hd
          refine ⟨h1, de, ?_, h3⟩
          simp only [store_zone, getD_set_eq, if_neg (fun h : p = d ∧ _ => h1 h.1.symm)]
          exact h2
        · intro p1 e1 d h1 h2 h3
          simp only [store_zone, getD_set_eq] at h1
          by_cases hp1 : p = p1
          · exact hp1.symm
          · simp only [hp1, false_and, if_false] at h1
            exact huniq p1 e1 d h1 h2 h3
      · simp only [hqp, false_and, if_false] at hq
        obtain ⟨a1, a2, a3, a4⟩ := hz2 q eq hq
        refine ⟨fun h => ?_, fun h => ?_, ?_, ?_⟩
        · simpa [Ne.symm hqp] using a1 h
        · simpa [Ne.symm hqp] using a2 h
        · intro d hd
          obtain ⟨h1, de, h2, h3⟩ := a3 d hd
          have hdp : d ≠ p := by
            rintro rfl
            rw [he'] at h2; cases h2; rw [hl] at h3; cases h3
          refine ⟨h1, de, ?_, h3⟩
          simp only [store_zone, getD_set_eq, if_neg (fun h : p = d ∧ _ => hdp h.1.symm)]
          exact h2
        · intro p1 e1 d h1 h2 h3
          simp only [store_zone, getD_set_eq] at h1
          by_cases hp1 : p = p1
          · subst hp1
            simp only [hp, and_self, if_true, Option.some.injEq] at h1
            subst h1
            exact (huniq q eq d hq h3 h2).symm
          · simp only [hp1, false_and, if_false] at h1
            exact a4 p1 e1 d h1 h2 h3
    · intro q e1 hq
      simp only [store_zone, getD_set_eq] at hq
      by_cases hqp : p = q
      · subst hqp
        simp only [hp, and_self, if_true, Option.some.injEq] at hq
        subst hq
        exact ⟨e, he', rfl⟩
      · simp only [hqp, false_and, if_false] at hq
        exact ⟨e1, hq, rfl⟩
  · have hrc1 : e.refcount = 1 := by omega
    obtain ⟨s1, h1, h2, h3, h4⟩ := free_event_spec hz' he hrc1
    refine ⟨s1, by rw [release_event_ref_last he hgt]; exact h1, h2, ⟨?_, ?_⟩, ⟨h3, ?_⟩⟩
    · intro q hq
      by_cases hf : freed_by e p q
      · rcases hf with rfl | ⟨_, _, _, hd⟩
        · simp only [if_true]; omega
        · obtain ⟨hqp, de, hde, hdl⟩ := hdest q hd
          simp only [if_neg hqp]
          exact ((hz2 q de hde).2.1 hdl).2.2
      · have hqp : q ≠ p := fun h => hf (Or.inl h)
        rw [(h4 q).2 hf] at hq
        simp [hqp, hz1 q hq]
    · intro q eq hq
      have hf : ¬ freed_by e p q := by
        intro hf
        rw [(h4 q).1 hf] at hq; cases hq
      have hqp : q ≠ p := fun h => hf (Or.inl h)
      rw [(h4 q).2 hf] at hq
      obtain ⟨a1, a2, a3, a4⟩ := hz2 q eq hq
      refine ⟨fun h => ?_, fun h => ?_, ?_, ?_⟩
      · simpa [hqp] using a1 h
      · simpa [hqp] using a2 h
      · intro d hd
        obtain ⟨b1, de, b2, b3⟩ := a3 d hd
        refine ⟨b1, de, ?_, b3⟩
        have hfd : ¬ freed_by e p d := by
          rintro (rfl | ⟨_, _, _, hd2⟩)
          · rw [he'] at b2; cases b2; rw [hl] at b3; cases b3
          · exact hqp (huniq q eq d hq hd hd2)
        rw [(h4 d).2 hfd]; exact b2
      · intro p1 e1 d c1 c2 c3
        have hf1 : ¬ freed_by e p p1 := by
          intro hf1
          rw [(h4 p1).1 hf1] at c1; cases c1
        rw [(h4 p1).2 hf1] at c1
        exact a4 p1 e1 d c1 c2 c3
    · intro q e1 hq
      have hf : ¬ freed_by e p q := by
        intro hf
        rw [(h4 q).1 hf] at hq; cases hq
      rw [(h4 q).2 hf] at hq
      exact ⟨e1, hq, rfl⟩

/-! ## Counting references -/

theorem zone_ok_congr {z : List (Option kfs_event)} {cnt cnt1 : Nat → Nat}
    (h : zone_ok z cnt) (hc : ∀ p, cnt1 p = cnt p) : zone_ok z cnt1 := by
  have : cnt1 = cnt := funext hc
  rw [this]; exact h

theorem zone_shrinks_refl (z : List (Option kfs_event)) : zone_shrinks z z :=
  ⟨rfl, fun _ e1 h => ⟨e1, h, rfl⟩⟩

theorem zone_shrinks_trans {z z1 z2 : List (Option kfs_event)} (h1 : zone_shrinks z z1)
    (h2 : zone_shrinks z1 z2) : zone_shrinks z z2 := by
  refine ⟨h2.1.trans h1.1, fun p e2 h => ?_⟩
  obtain ⟨e1, a1, a2⟩ := h2.2 p e2 h
  obtain ⟨e, b1, b2⟩ := h1.2 p e1 a1
  refine ⟨e, b1, ?_⟩
  rw [a2, b2]

theorem map_sum_set {α : Type} (f : α → Nat) (l : List α) (i : Nat) (x : α)
    (h : i < l.length) :
    ((l.set i x).map f).sum + f (l.get ⟨i, h⟩) = (l.map f).sum + f x := by
  induction l generalizing i with
  | nil => simp at h
  | cons a l ih =>
    cases i with
    | zero => simp; omega
    | succ i =>
      simp only [List.length_cons, Nat.succ_lt_succ_iff] at h
      have := ih i h
      simp only [List.set_cons_succ, List.map_cons, List.sum_cons, List.get_cons_succ] at this ⊢
      omega

theorem getD_eq_get {α : Type} (l : List α) (i : Nat) (d : α) (h : i < l.length) :
    l.getD i d = l.get ⟨i, h⟩ := by
  simp [List.getD_eq_getElem?_getD, List.getElem?_eq_getElem h]

/-- Replacing one slot of the watcher table changes the number of queue
references by the references of that slot. -/
theorem queue_refs_set (table : List (Option fs_event_watcher)) (i : Nat)
    (x : Option fs_event_watcher) (p : Nat) (h : i < table.length) :
    queue_refs (table.set i x) p + slot_refs p (table.getD i none) =
      queue_refs table p + slot_refs p x := by
  rw [getD_eq_get _ _ _ h]
  exact map_sum_set (slot_refs p) table i x h

theorem zone_ok_alloc_of_pos {z : List (Option kfs_event)} {cnt : Nat → Nat} (h : zone_ok z cnt)
    {p : Nat} (hp : 1 ≤ cnt p) : ∃ e, z.getD p none = some e ∧ on_list e = true := by
  cases he : z.getD p none with
  | none => have := h.1 p he; omega
  | some e =>
    refine ⟨e, rfl, ?_⟩
    by_contra hc
    have := ((h.2 p e he).2.1 (by simpa using hc)).2.2
    omega

/-! ## Draining a queue -/

theorem watcher_eta_rd (w : fs_event_watcher) (h : w.rd = w.wr) :
    ({ w with event_queue := w.event_queue, rd := w.wr } : fs_event_watcher) = w := by
  cases w; simp only [fs_event_watcher.mk.injEq] at h ⊢; simp_all

/-- The drain loop releases every pending entry: the zone stays consistent with
the references that are not this ring's, the ring ends empty, and nothing else
of the watcher changes. -/
theorem drain_event_queue_ok (fuel : Nat) :
    ∀ (s : fsevents_state) (w : fs_event_watcher) (base : Nat → Nat),
      ring_ok w → num_pending w ≤ fuel →
      zone_ok s.event_zone (fun p => base p + (pending w).count (some p)) →
      (∀ x ∈ pending w, x ≠ none) →
      ∃ s1 q, drain_event_queue fuel s w = some (s1, { w with event_queue := q, rd := w.wr }) ∧
        ring_ok ({ w with event_queue := q, rd := w.wr } : fs_event_watcher) ∧
        s1.watcher_table = s.watcher_table ∧ zone_ok s1.event_zone base ∧
        zone_shrinks s.event_zone s1.event_zone := by
  induction fuel with
  | zero =>
    intro s w base hr hn hz hx
    have hrw : w.rd = w.wr := by
      by_contra hne
      have := (num_pending_pos hr hne).2.2
      omega
    refine ⟨s, w.event_queue, ?_, by rw [watcher_eta_rd w hrw]; exact hr, rfl, ?_,
      zone_shrinks_refl _⟩
    · simp only [drain_event_queue, hrw, if_true]
      rw [watcher_eta_rd w hrw]
    · exact zone_ok_congr hz (by simp [pending_nil_of_eq hrw])
  | succ fuel ih =>
    intro s w base hr hn hz hx
    by_cases hrw : w.rd = w.wr
    · refine ⟨s, w.event_queue, ?_, by rw [watcher_eta_rd w hrw]; exact hr, rfl, ?_,
        zone_shrinks_refl _⟩
      · simp only [drain_event_queue, hrw, if_true]
        rw [watcher_eta_rd w hrw]
      · exact zone_ok_congr hz (by simp [pending_nil_of_eq hrw])
    · obtain ⟨hpd, hok1, hnum⟩ := @pending_dequeue _ { w with
          event_queue := w.event_queue.set w.rd none, rd := (w.rd + 1) % w.eventq_size }
        hr hrw rfl rfl rfl rfl
      have hmem : w.event_queue.getD w.rd none ∈ pending w := by rw [hpd]; simp
      cases hx0 : w.event_queue.getD w.rd none with
      | none => exact absurd hx0 (hx _ hmem)
      | some p =>
        rw [hx0] at hpd
        have hcnt : 1 ≤ base p + (pending w).count (some p) := by
          rw [hpd, List.count_cons_self]; omega
        obtain ⟨e, he, hl⟩ := zone_ok_alloc_of_pos hz hcnt
        obtain ⟨hrc, _, hty0, _⟩ := (hz.2 p e he).1 hl
        obtain ⟨s1, hrel, htab, hz1, hsh⟩ := release_event_ref_ok hz he hl
        have hz1' : zone_ok s1.event_zone (fun q => base q + (pending
            { w with event_queue := w.event_queue.set w.rd none,
                     rd := (w.rd + 1) % w.eventq_size }).count (some q)) := by
          apply zone_ok_congr hz1
          intro q
          rw [hpd]
          by_cases hq : q = p
          · subst hq; simp
          · simp [hq, List.count_cons, Ne.symm hq]
        obtain ⟨s2, q2, hdr, hlen, htab2, hz2, hsh2⟩ := ih s1 _ base hok1 (by omega) hz1'
          (fun x hx1 => hx x (by rw [hpd]; exact List.mem_cons_of_mem _ hx1))
        refine ⟨s2, q2, ?_, hlen, htab2.trans htab, hz2, zone_shrinks_trans hsh hsh2⟩
        have hguard : (e.type != FSE_INVALID && decide (e.refcount ≥ 1)) = true := by
          simp only [Bool.and_eq_true, bne_iff_ne, decide_eq_true_eq]
          constructor
          · intro h; rw [h] at hty0; simp at hty0
          · omega
        simp only [drain_event_queue, hrw, if_false, hx0]
        have he2 : deref s p = some e := he
        simp only [he2, hguard, if_true, hrel]
        exact hdr

/-! ## The frame of the internal steps -/

theorem frame_refl (s : fsevents_state) : frame s s :=
  ⟨rfl, rfl, rfl, rfl, rfl, rfl, rfl, rfl, rfl, rfl, rfl, rfl, rfl, rfl, Or.inl ⟨rfl, rfl⟩⟩

theorem frame_trans {s s1 s2 : fsevents_state} (h1 : frame s s1) (h2 : frame s1 s2) :
    frame s s2 := by
  refine ⟨h2.1.trans h1.1, h2.2.trans h1.2, h2.3.trans h1.3, h2.4.trans h1.4, h2.5.trans h1.5,
    h2.6.trans h1.6, h2.7.trans h1.7, h2.8.trans h1.8, h2.9.trans h1.9, h2.10.trans h1.10,
    h2.11.trans h1.11, h2.12.trans h1.12, h2.13.trans h1.13, h2.14.trans h1.14, ?_⟩
  rcases h2.record with ⟨a, b⟩ | ⟨a, b⟩
  · rcases h1.record with ⟨c, d⟩ | ⟨c, d⟩
    · exact Or.inl ⟨a.trans c, b.trans d⟩
    · exact Or.inr ⟨a.trans c, b.trans d⟩
  · exact Or.inr ⟨a, b⟩

theorem frame_store (s : fsevents_state) (p : Nat) (e : kfs_event) : frame s (store s p e) :=
  ⟨rfl, rfl, rfl, rfl, rfl, rfl, rfl, rfl, rfl, rfl, rfl, rfl, by simp, rfl, Or.inl ⟨rfl, rfl⟩⟩

theorem frame_zfree (s : fsevents_state) (p : Nat) : frame s (zfree s p) :=
  ⟨rfl, rfl, rfl, rfl, rfl, rfl, rfl, rfl, rfl, rfl, rfl, rfl, by simp, rfl, Or.inl ⟨rfl, rfl⟩⟩

theorem frame_set_watcher (s : fsevents_state) (i : Nat) (w : Option fs_event_watcher) :
    frame s (set_watcher s i w) :=
  ⟨rfl, rfl, rfl, rfl, rfl, rfl, rfl, rfl, rfl, rfl, rfl, rfl, rfl, by simp, Or.inl ⟨rfl, rfl⟩⟩

theorem frame_forget (s : fsevents_state) (p : Nat) : frame s (forget_last_event s p) := by
  unfold forget_last_event
  split
  · exact ⟨rfl, rfl, rfl, rfl, rfl, rfl, rfl, rfl, rfl, rfl, rfl, rfl, rfl, rfl,
      Or.inr ⟨rfl, rfl⟩⟩
  · exact frame_refl s

theorem frame_unlist (s : fsevents_state) (p : Nat) (e : kfs_event)
    (d : Option (Nat × kfs_event)) : frame s (unlist_events s p e d) := by
  unfold unlist_events
  have h1 : frame s (match d with
      | none => s
      | some (d, de) =>
        if has_flag de.flags KFSE_ON_LIST then
          { s with num_events_outstanding := s.num_events_outstanding - 1,
                   kfse_list_head := s.kfse_list_head.erase d }
        else s) := by
    cases d with
    | none => exact frame_refl s
    | some x =>
      simp only []
      split
      · exact ⟨rfl, rfl, rfl, rfl, rfl, rfl, rfl, rfl, rfl, rfl, rfl, rfl, rfl, rfl,
          Or.inl ⟨rfl, rfl⟩⟩
      · exact frame_refl s
  simp only []
  split
  · exact frame_trans h1 ⟨rfl, rfl, rfl, rfl, rfl, rfl, rfl, rfl, rfl, rfl, rfl, rfl, rfl, rfl,
      Or.inl ⟨rfl, rfl⟩⟩
  · exact h1

theorem frame_removename_opt (s : fsevents_state) (n : Option cstr) :
    frame s (vfs_removename_opt s n) := by
  cases n with
  | none => exact frame_refl s
  | some x => exact ⟨rfl, rfl, rfl, rfl, rfl, rfl, rfl, rfl, rfl, rfl, rfl, rfl, rfl, rfl,
      Or.inl ⟨rfl, rfl⟩⟩

theorem frame_addname (s : fsevents_state) (n : cstr) (len : Nat) :
    frame s (vfs_addname s n len).2 :=
  ⟨rfl, rfl, rfl, rfl, rfl, rfl, rfl, rfl, rfl, rfl, rfl, rfl, rfl, rfl, Or.inl ⟨rfl, rfl⟩⟩

theorem frame_drop_dest {s s1 : fsevents_state} {d : Option Nat} {r : Option (Nat × kfs_event)}
    (h : drop_dest s d = some (s1, r)) : frame s s1 := by
  unfold drop_dest at h
  split at h
  · cases h; exact frame_refl s
  · split at h
    · cases h
    · simp only [] at h
      split at h <;> (cases h; exact frame_store _ _ _)

theorem frame_free_event {s s1 : fsevents_state} {p : Nat} {e : kfs_event}
    (h : free_event s p e = some s1) : frame s s1 := by
  unfold free_event at h
  simp only [] at h
  split at h
  · cases h
  · split at h
    · cases h
    · rename_i s2 dest hd
      cases h
      have h1 := frame_trans (frame_forget s p) (frame_drop_dest hd)
      have h2 := frame_trans h1 (frame_unlist s2 p e dest)
      have h3 := frame_trans h2 (frame_zfree _ p)
      cases dest with
      | none =>
        exact frame_trans (frame_trans h3 (frame_removename_opt _ _)) (frame_removename_opt _ _)
      | some x =>
        exact frame_trans (frame_trans (frame_trans h3 (frame_zfree _ _))
          (frame_removename_opt _ _)) (frame_removename_opt _ _)

theorem frame_release {s s1 : fsevents_state} {p : Nat} (h : release_event_ref s p = some s1) :
    frame s s1 := by
  unfold release_event_ref at h
  split at h
  · cases h
  · simp only [] at h
    split at h
    · cases h; exact frame_store _ _ _
    · exact frame_trans (frame_store _ _ _) (frame_free_event h)

theorem frame_drain (fuel : Nat) : ∀ {s s1 : fsevents_state} {w w1 : fs_event_watcher},
    drain_event_queue fuel s w = some (s1, w1) → frame s s1 := by
  induction fuel with
  | zero =>
    intro s s1 w w1 h
    simp only [drain_event_queue] at h
    split at h
    · cases h; exact frame_refl s
    · cases h
  | succ fuel ih =>
    intro s s1 w w1 h
    simp only [drain_event_queue] at h
    split at h
    · cases h; exact frame_refl s
    · split at h
      · exact ih h
      · split at h
        · cases h
        · split at h
          · split at h
            · cases h
            · rename_i s2 hrel
              exact frame_trans (frame_release hrel) (ih h)
          · exact ih h

/-! ## Benign steps: the argument blocks of `add_fsevent` -/

theorem event_benign_refl (e : kfs_event) : event_benign e e := ⟨rfl, rfl, rfl, Or.inl rfl⟩

theorem event_benign_trans {e e1 e2 : kfs_event} (h1 : event_benign e e1)
    (h2 : event_benign e1 e2) : event_benign e e2 := by
  obtain ⟨a1, a2, a3, a4⟩ := h1
  obtain ⟨b1, b2, b3, b4⟩ := h2
  refine ⟨b1.trans a1, b2.trans a2, b3.trans a3, ?_⟩
  rcases b4 with b4 | b4
  · rw [b4]; exact a4
  · exact Or.inr b4

theorem benign_refl (s : fsevents_state) : benign_step s s :=
  ⟨frame_refl s, rfl, fun _ h => h, fun _ e h => ⟨e, h, event_benign_refl e⟩⟩

theorem benign_trans {s s1 s2 : fsevents_state} (h1 : benign_step s s1)
    (h2 : benign_step s1 s2) : benign_step s s2 := by
  refine ⟨frame_trans h1.frame h2.frame, h2.table.trans h1.table,
    fun p h => h2.free p (h1.free p h), fun p e h => ?_⟩
  obtain ⟨e1, a1, a2⟩ := h1.used p e h
  obtain ⟨e2, b1, b2⟩ := h2.used p e1 a1
  exact ⟨e2, b1, event_benign_trans a2 b2⟩

theorem benign_store {s : fsevents_state} {p : Nat} {e e1 : kfs_event}
    (he : deref s p = some e) (hb : event_benign e e1) : benign_step s (store s p e1) := by
  have hp : p < s.event_zone.length := getD_some_lt he
  refine ⟨frame_store s p e1, rfl, fun q h => ?_, fun q eq h => ?_⟩
  · have hqp : p ≠ q := by
      rintro rfl
      rw [deref_eq] at he; rw [he] at h; cases h
    simp only [store_zone, getD_set_eq, hqp, false_and, if_false]; exact h
  · by_cases hqp : p = q
    · subst hqp
      rw [deref_eq] at he; rw [he] at h; cases h
      exact ⟨e1, by simp [getD_set_eq, hp], hb⟩
    · exact ⟨eq, by simp only [store_zone, getD_set_eq, hqp, false_and, if_false]; exact h,
        event_benign_refl eq⟩

theorem benign_upd {s s1 : fsevents_state} {p : Nat} {f : kfs_event → kfs_event}
    (h : upd s p f = some s1) (hf : ∀ e, event_benign e (f e)) : benign_step s s1 := by
  unfold upd at h
  split at h
  · cases h
  · rename_i e he
    cases h
    exact benign_store he (hf e)

theorem benign_addname (s : fsevents_state) (n : cstr) (len : Nat) :
    benign_step s (vfs_addname s n len).2 :=
  ⟨frame_addname s n len, rfl, fun _ h => h, fun _ e h => ⟨e, h, event_benign_refl e⟩⟩

theorem on_list_or_dropped (e : kfs_event) :
    on_list { e with flags := e.flags ||| KFSE_CONTAINS_DROPPED_EVENTS } = on_list e := by
  simp only [on_list]
  exact has_flag_or_other _ _ _ (by decide)

theorem on_list_clear_created (e : kfs_event) :
    on_list { e with flags := e.flags &&& 0xFFF7 } = on_list e := by
  simp only [on_list]
  exact has_flag_and_mask _ _ _ _ (by decide)

theorem benign_fill_docid {s s1 : fsevents_state} {cur : Nat} {ap : List va_word}
    (h : fill_docid s cur ap = some s1) : benign_step s s1 := by
  unfold fill_docid at h
  split at h
  · cases h
  · split at h
    · cases h
    · split at h
      · cases h
      · simp only [] at h
        split at h
        · cases h
        · exact benign_upd h (fun e => ⟨rfl, rfl, rfl, Or.inl rfl⟩)

theorem benign_fill_activity {s s1 : fsevents_state} {cur : Nat} {ap : List va_word}
    (h : fill_activity s cur ap = some s1) : benign_step s s1 := by
  unfold fill_activity at h
  repeat (split at h; · cases h)
  exact benign_upd h (fun e => ⟨rfl, rfl, rfl, Or.inl rfl⟩)

theorem benign_fill_unmount_pending {s s1 : fsevents_state} {cur : Nat} {ap : List va_word}
    (h : fill_unmount_pending s cur ap = some s1) : benign_step s s1 := by
  unfold fill_unmount_pending at h
  split at h
  · cases h
  · exact benign_upd h (fun e => ⟨rfl, rfl, rfl, Or.inr rfl⟩)

theorem benign_intern_access_path {s s1 : fsevents_state} {cur : Nat}
    {path : Option cstr × Nat} (h : intern_access_path s cur path = some s1) :
    benign_step s s1 := by
  unfold intern_access_path at h
  split at h
  · exact benign_trans (benign_addname _ _ _)
      (benign_upd h (fun e => ⟨rfl, rfl, rfl, Or.inl rfl⟩))
  · cases h; exact benign_refl _

theorem benign_fill_access_granted {s s1 : fsevents_state} {cur : Nat} {ap : List va_word}
    {env : fse_env} (h : fill_access_granted s cur ap env = some s1) : benign_step s s1 := by
  unfold fill_access_granted at h
  split at h
  · cases h
  · simp only [] at h
    split at h
    · exact benign_upd h (fun e => ⟨rfl, on_list_or_dropped e, rfl, Or.inl rfl⟩)
    · split at h
      · cases h
      · rename_i s2 h2
        have b2 := benign_upd h2 (fun e => ⟨rfl, rfl, rfl, Or.inl rfl⟩)
        split at h
        · cases h
        · rename_i s3 h3
          refine benign_trans (benign_trans b2 (benign_intern_access_path h3))
            (benign_upd h (fun e => ?_))
          split
          · exact ⟨rfl, on_list_or_dropped e, rfl, Or.inl rfl⟩
          · exact event_benign_refl e

theorem benign_arg_vnode {s s1 : fsevents_state} {kfse : Nat} {kfse_dest cur cur1 : Option Nat}
    {l l1 : add_locals} {vp : Option vnode} {b : Bool}
    (h : arg_vnode s kfse kfse_dest cur l vp = some (s1, cur1, l1, b)) : benign_step s s1 := by
  unfold arg_vnode at h
  split at h
  · split at h
    · cases h
    · split at h
      · split at h
        · cases h
        · rename_i s2 h2
          cases h
          exact benign_upd h2 (fun e => ⟨rfl, rfl, rfl, Or.inl rfl⟩)
      · split at h
        · cases h
        · rename_i s2 h2
          have b2 := benign_upd h2 (fun e => ⟨rfl, rfl, rfl, Or.inl rfl⟩)
          simp only [] at h
          split at h
          · cases h
          · rename_i s3 h3
            have b3 : benign_step s2 s3 := by
              split at h3
              · exact benign_upd h3 (fun e => ⟨rfl, on_list_or_dropped e, rfl, Or.inl rfl⟩)
              · cases h3; exact benign_refl _
            split at h
            · cases h; exact benign_trans b2 b3
            · split at h
              · cases h
              · split at h
                · cases h
                · rename_i s4 h4
                  cases h
                  exact benign_trans (benign_trans b2 b3) (benign_trans (benign_addname _ _ _)
                    (benign_upd h4 (fun e => ⟨rfl, rfl, rfl, Or.inl rfl⟩)))
  · cases h

theorem benign_arg_finfo {s s1 : fsevents_state} {cur : Option Nat} {l l1 : add_locals}
    {fse : fse_info} (h : arg_finfo s cur l fse = some (s1, l1)) : benign_step s s1 := by
  unfold arg_finfo at h
  split at h
  · cases h
  · split at h
    · cases h
    · rename_i s2 h2
      cases h
      refine benign_upd h2 (fun e => ⟨rfl, ?_, rfl, Or.inl rfl⟩)
      split
      · exact on_list_or_dropped e
      · rfl

theorem benign_regular_arg {kfse : Nat} {kfse_dest : Option Nat} {ap : List va_word}
    {s s1 : fsevents_state} {cur cur1 : Option Nat} {l l1 : add_locals} {nx : arg_next}
    (h : regular_arg kfse kfse_dest ap s cur l = some (s1, cur1, l1, nx)) : benign_step s s1 := by
  unfold regular_arg at h
  split at h
  · split at h
    · cases h; exact benign_refl s
    · split at h
      · split at h
        · split at h
          · cases h
          · rename_i h2
            cases h
            exact benign_arg_vnode h2
          · rename_i h2
            cases h
            exact benign_arg_vnode h2
        · cases h
      · split at h
        · split at h
          · split at h
            · cases h
            · rename_i h2
              cases h
              exact benign_arg_finfo h2
          · cases h
        · split at h
          · split at h
            · split at h
              · cases h
              · split at h
                · split at h
                  · split at h
                    · cases h
                    · rename_i h2
                      cases h
                      exact benign_trans (benign_addname _ _ _)
                        (benign_upd h2 (fun e => ⟨rfl, rfl, rfl, Or.inl rfl⟩))
                  · cases h
                · split at h
                  · cases h
                  · rename_i h2
                    cases h
                    exact benign_trans (benign_addname _ _ _)
                      (benign_upd h2 (fun e => ⟨rfl, rfl, rfl, Or.inl rfl⟩))
            · cases h
          · split at h
            · split at h
              · split at h
                · cases h
                · rename_i h2
                  cases h
                  exact benign_upd h2 (fun e => ⟨rfl, rfl, rfl, Or.inl rfl⟩)
              · cases h
            · split at h
              · cases h; exact benign_refl s
              · cases h
  · cases h

theorem benign_fill_regular (kfse : Nat) (kfse_dest : Option Nat) (fuel : Nat) :
    ∀ {ap : List va_word} {s s1 : fsevents_state} {cur : Option Nat} {l l1 : add_locals}
      {b : Bool}, fill_regular kfse kfse_dest fuel ap s cur l = some (s1, l1, b) →
      benign_step s s1 := by
  induction fuel with
  | zero => intro ap s s1 cur l l1 b h; simp [fill_regular] at h
  | succ fuel ih =>
    intro ap s s1 cur l l1 b h
    simp only [fill_regular] at h
    split at h
    · cases h
    · rename_i h2; cases h; exact benign_regular_arg h2
    · rename_i h2; cases h; exact benign_regular_arg h2
    · rename_i h2; exact benign_trans (benign_regular_arg h2) (ih h)

theorem benign_done_with_args {s s1 : fsevents_state} {kfse : Nat} {kfse_dest : Option Nat}
    (h : done_with_args s kfse kfse_dest = some s1) : benign_step s s1 := by
  unfold done_with_args at h
  simp only [] at h
  split at h
  · cases h
  · rename_i s2 h2
    have b2 : benign_step s s2 := by
      split at h2
      · exact benign_upd h2 (fun e => ⟨rfl, on_list_clear_created e, rfl, Or.inl rfl⟩)
      · cases h2; exact benign_refl s
    exact benign_trans b2 (benign_upd h (fun e => ⟨rfl, on_list_clear_created e, rfl, Or.inl rfl⟩))

/-! ## The invariant under the small steps -/

theorem zone_ok_pointwise {z z1 : List (Option kfs_event)} {cnt : Nat → Nat}
    (hz : zone_ok z cnt)
    (hfree : ∀ p, z.getD p none = none → z1.getD p none = none)
    (hused : ∀ p e, z.getD p none = some e →
      ∃ e1, z1.getD p none = some e1 ∧ event_benign e e1) : zone_ok z1 cnt := by
  have back : ∀ p e1, z1.getD p none = some e1 →
      ∃ e, z.getD p none = some e ∧ event_benign e e1 := by
    intro p e1 h1
    cases he : z.getD p none with
    | none => rw [hfree p he] at h1; cases h1
    | some e =>
      obtain ⟨e2, a1, a2⟩ := hused p e he
      rw [a1] at h1; cases h1
      exact ⟨e, rfl, a2⟩
  refine ⟨fun p h1 => ?_, fun p e1 h1 => ?_⟩
  · cases he : z.getD p none with
    | none => exact hz.1 p he
    | some e =>
      obtain ⟨e2, a1, _⟩ := hused p e he
      rw [a1] at h1; cases h1
  · obtain ⟨e, he, hrc, hol, hty, hd⟩ := back p e1 h1
    obtain ⟨a1, a2, a3, a4⟩ := hz.2 p e he
    refine ⟨fun h => ?_, fun h => ?_, fun d hd1 => ?_, fun p1 e1' d c1 c2 c3 => ?_⟩
    · rw [hol] at h; rw [hrc, hty]; exact a1 h
    · rw [hol] at h
      obtain ⟨b1, b2, b3⟩ := a2 h
      refine ⟨by rw [hrc]; exact b1, ?_, b3⟩
      rcases hd with hd | hd
      · rw [hd]; exact b2
      · exact hd
    · have hd0 : e.dest = some d := by
        rcases hd with hd | hd
        · rw [← hd]; exact hd1
        · rw [hd] at hd1; cases hd1
      obtain ⟨b1, de, b2, b3⟩ := a3 d hd0
      obtain ⟨de1, c1, c2⟩ := hused d de b2
      exact ⟨b1, de1, c1, by rw [c2.2.1]; exact b3⟩
    · obtain ⟨e', he', _, _, _, hd'⟩ := back p1 e1' c1
      have hd0 : e.dest = some d := by
        rcases hd with hd | hd
        · rw [← hd]; exact c3
        · rw [hd] at c3; cases c3
      have hd0' : e'.dest = some d := by
        rcases hd' with hd' | hd'
        · rw [← hd']; exact c2
        · rw [hd'] at c2; cases c2
      exact a4 p1 e' d he' hd0' hd0

theorem watcher_ok_mono {z z1 : List (Option kfs_event)} {m : Nat} {w : fs_event_watcher}
    (h : watcher_ok z m w)
    (hz : ∀ x ∈ pending w, ∀ p e, x = some p → z.getD p none = some e →
      ∃ e1, z1.getD p none = some e1 ∧ e1.type = e.type) : watcher_ok z1 m w := by
  refine ⟨h.1, h.2.1, fun x hx => ?_, h.2.2.2⟩
  obtain ⟨p, e, a1, a2, a3⟩ := h.2.2.1 x hx
  obtain ⟨e1, b1, b2⟩ := hz x hx p e a1 a2
  exact ⟨p, e1, a1, b1, by rw [b2]; exact a3⟩

theorem sys_ok_benign {s s1 : fsevents_state} {held : Nat → Nat} (h : sys_ok s held)
    (hb : benign_step s s1) : sys_ok s1 held := by
  refine ⟨?_, fun i w hw => ?_⟩
  · rw [hb.table]
    exact zone_ok_pointwise h.1 hb.free hb.used
  · have hw0 : get_watcher s i = some w := by
      simpa [get_watcher, hb.table] using hw
    rw [hb.frame.max_kfs_events]
    refine watcher_ok_mono (h.2 i w hw0) (fun x _ p e _ he => ?_)
    obtain ⟨e1, a1, a2⟩ := hb.used p e he
    exact ⟨e1, a1, a2.2.2.1⟩

/-- A state with the same zone, table and pool capacity satisfies the same
invariant. -/
theorem sys_ok_of_eq {s s1 : fsevents_state} {held : Nat → Nat} (h : sys_ok s held)
    (hz : s1.event_zone = s.event_zone) (ht : s1.watcher_table = s.watcher_table)
    (hm : s1.max_kfs_events = s.max_kfs_events) : sys_ok s1 held := by
  unfold sys_ok get_watcher at *
  rw [hz, ht, hm]; exact h

theorem sys_ok_congr {s : fsevents_state} {held held1 : Nat → Nat} (h : sys_ok s held)
    (hc : ∀ p, held1 p = held p) : sys_ok s held1 := by
  have : held1 = held := funext hc
  rw [this]; exact h

/-- Changing the count of an event on the list, in step with `cnt`. -/
theorem zone_ok_set_refcount {z : List (Option kfs_event)} {cnt : Nat → Nat} {k : Nat}
    {e : kfs_event} (hz : zone_ok z cnt) (he : z.getD k none = some e) (hl : on_list e = true)
    (c : Nat) (hc : 1 ≤ c) :
    zone_ok (z.set k (some { e with refcount := (c : Int) }))
      (fun q => if q = k then c else cnt q) := by
  have hp : k < z.length := getD_some_lt he
  obtain ⟨hz1, hz2⟩ := hz
  obtain ⟨hon, _, hdest, huniq⟩ := hz2 k e he
  obtain ⟨_, _, hty0, hty1⟩ := hon hl
  refine ⟨?_, ?_⟩
  · intro q hq
    simp only [getD_set_eq] at hq
    by_cases hqp : k = q
    · simp [hqp.symm, hp] at hq
    · simp only [hqp, false_and, if_false] at hq
      simp [Ne.symm hqp, hz1 q hq]
  · intro q eq hq
    simp only [getD_set_eq] at hq
    by_cases hqp : k = q
    · subst hqp
      simp only [hp, and_self, if_true, Option.some.injEq] at hq
      subst hq
      refine ⟨fun _ => ⟨by simp, by simpa using hc, hty0, hty1⟩, fun h => ?_, ?_, ?_⟩
      · rw [on_list_refcount] at h; rw [hl] at h; cases h
      · intro d hd
        obtain ⟨h1, de, h2, h3⟩ := hdest d hd
        refine ⟨h1, de, ?_, h3⟩
        simp only [getD_set_eq, if_neg (fun h : k = d ∧ _ => h1 h.1.symm)]
        exact h2
      · intro p1 e1 d h1 h2 h3
        simp only [getD_set_eq] at h1
        by_cases hp1 : k = p1
        · exact hp1.symm
        · simp only [hp1, false_and, if_false] at h1
          exact huniq p1 e1 d h1 h2 h3
    · simp only [hqp, false_and, if_false] at hq
      obtain ⟨a1, a2, a3, a4⟩ := hz2 q eq hq
      refine ⟨fun h => ?_, fun h => ?_, ?_, ?_⟩
      · simpa [Ne.symm hqp] using a1 h
      · simpa [Ne.symm hqp] using a2 h
      · intro d hd
        obtain ⟨h1, de, h2, h3⟩ := a3 d hd
        have hdp : d ≠ k := by
          rintro rfl
          rw [he] at h2; cases h2; rw [hl] at h3; cases h3
        refine ⟨h1, de, ?_, h3⟩
        simp only [getD_set_eq, if_neg (fun h : k = d ∧ _ => hdp h.1.symm)]
        exact h2
      · intro p1 e1 d h1 h2 h3
        simp only [getD_set_eq] at h1
        by_cases hp1 : k = p1
        · subst hp1
          simp only [hp, and_self, if_true, Option.some.injEq] at h1
          subst h1
          exact (huniq q eq d hq h3 h2).symm
        · simp only [hp1, false_and, if_false] at h1
          exact a4 p1 e1 d h1 h2 h3

theorem queue_refs_set_some {table : List (Option fs_event_watcher)} {i : Nat}
    {w : fs_event_watcher} (hi : table.getD i none = some w) (x : Option fs_event_watcher)
    (p : Nat) :
    queue_refs (table.set i x) p + (pending w).count (some p) =
      queue_refs table p + slot_refs p x := by
  have := queue_refs_set table i x p (getD_some_lt hi)
  rw [hi] at this
  exact this

theorem queue_refs_set_none {table : List (Option fs_event_watcher)} {i : Nat}
    (hi : table.getD i none = none) (hlt : i < table.length) (x : Option fs_event_watcher)
    (p : Nat) :
    queue_refs (table.set i x) p = queue_refs table p + slot_refs p x := by
  have := queue_refs_set table i x p hlt
  rw [hi] at this
  simpa [slot_refs] using this

/-! ## `watcher_add_event` and the invariant -/

/-- The body of `watcher_add_event` with the `max_event_id` update folded in. -/
theorem watcher_add_event_eq {s : fsevents_state} {i k : Nat} {w : fs_event_watcher}
    {e : kfs_event} (hw : get_watcher s i = some w) (he : deref s k = some e)
    (hsz : w.eventq_size ≠ 0) :
    watcher_add_event s i k =
      if (w.wr + 1) % w.eventq_size = w.rd then
        some (ENOSPC, set_watcher s i (some
          { w with flags := w.flags ||| WATCHER_DROPPED_EVENTS,
                   max_event_id := if e.abstime > w.max_event_id then e.abstime
                     else w.max_event_id }))
      else if falling_behind (enqueued w k) then
        match drain_event_queue w.eventq_size (store s k { e with refcount := e.refcount + 1 })
            (enqueued { w with max_event_id := if e.abstime > w.max_event_id then e.abstime
                          else w.max_event_id } k) with
        | none => none
        | some (s2, w2) =>
          some (0, set_watcher s2 i (some
            { w2 with flags := w2.flags ||| WATCHER_DROPPED_EVENTS }))
      else
        some (0, set_watcher
          { store s k { e with refcount := e.refcount + 1 } with
            timer_set := if pending_count (enqueued w k) > MAX_NUM_PENDING then s.timer_set
              else if s.timer_set = 0 then 1 else s.timer_set } i
          (some (enqueued { w with max_event_id := if e.abstime > w.max_event_id then e.abstime
                              else w.max_event_id } k))) := by
  have hfb : ∀ m, falling_behind (enqueued { w with max_event_id := m } k) =
      falling_behind (enqueued w k) := fun m => rfl
  have hpc : ∀ m, pending_count (enqueued { w with max_event_id := m } k) =
      pending_count (enqueued w k) := fun m => rfl
  have hes : ∀ w0 : fs_event_watcher, (enqueued w0 k).eventq_size = w0.eventq_size :=
    fun _ => rfl
  by_cases hfull : (w.wr + 1) % w.eventq_size = w.rd
  · rw [if_pos hfull]
    exact watcher_add_event_full_eq s i k w e hw he hsz hfull
  · rw [if_neg hfull]
    by_cases hab : e.abstime > w.max_event_id
    · by_cases hf : falling_behind (enqueued w k) = true
      · simp [watcher_add_event, hw, he, hab, hsz, hfull, hfb, hf, hes]
      · by_cases hp : pending_count (enqueued w k) > MAX_NUM_PENDING
        · simp [watcher_add_event, hw, he, hab, hsz, hfull, hfb, hf, hpc, hp, store]
        · by_cases ht : s.timer_set = 0 <;>
            simp [watcher_add_event, hw, he, hab, hsz, hfull, hfb, hf, hpc, hp, ht, store]
    · by_cases hf : falling_behind (enqueued w k) = true
      · simp [watcher_add_event, hw, he, hab, hsz, hfull, hf, hes]
      · by_cases hp : pending_count (enqueued w k) > MAX_NUM_PENDING
        · simp [watcher_add_event, hw, he, hab, hsz, hfull, hf, hp, store]
        · by_cases ht : s.timer_set = 0 <;>
            simp [watcher_add_event, hw, he, hab, hsz, hfull, hf, hp, ht, store]

theorem queue_refs_pos {table : List (Option fs_event_watcher)} {j p : Nat}
    {w : fs_event_watcher} (hj : table.getD j none = some w) (hp : some p ∈ pending w) :
    1 ≤ queue_refs table p := by
  induction table generalizing j with
  | nil => simp at hj
  | cons a t ih =>
    cases j with
    | zero =>
      simp only [List.getD_cons_zero] at hj
      subst hj
      have : 0 < (pending w).count (some p) := List.count_pos_iff.2 hp
      simp only [queue_refs, List.map_cons, List.sum_cons, slot_refs]
      omega
    | succ j =>
      simp only [List.getD_cons_succ] at hj
      have := ih hj
      simp only [queue_refs, List.map_cons, List.sum_cons] at this ⊢
      omega

theorem queue_refs_split {table : List (Option fs_event_watcher)} {i : Nat}
    {w : fs_event_watcher} (hi : table.getD i none = some w) (p : Nat) :
    queue_refs table p = queue_refs (table.set i none) p + (pending w).count (some p) := by
  have := queue_refs_set_some hi none p
  simp only [slot_refs] at this
  omega

theorem queue_refs_replace {table : List (Option fs_event_watcher)} {i : Nat}
    (hlt : i < table.length) (w1 : fs_event_watcher) (p : Nat) :
    queue_refs (table.set i (some w1)) p =
      queue_refs (table.set i none) p + (pending w1).count (some p) := by
  have h1 := queue_refs_set table i (some w1) p hlt
  have h2 := queue_refs_set table i none p hlt
  simp only [slot_refs] at h1 h2
  generalize slot_refs p (table.getD i none) = x at h1 h2
  omega

/-- Putting a watcher into slot `i` of a state whose zone accounts for the
references of the other slots, of the new watcher and of running code. -/
theorem sys_ok_set_watcher {s : fsevents_state} {i : Nat} {w1 : fs_event_watcher}
    {held : Nat → Nat} (hlt : i < s.watcher_table.length)
    (hz : zone_ok s.event_zone (fun p => queue_refs (s.watcher_table.set i none) p +
      (pending w1).count (some p) + held p))
    (hw1 : watcher_ok s.event_zone s.max_kfs_events w1)
    (hothers : ∀ j wj, j ≠ i → get_watcher s j = some wj →
      watcher_ok s.event_zone s.max_kfs_events wj) :
    sys_ok (set_watcher s i (some w1)) held := by
  refine ⟨?_, fun j wj hj => ?_⟩
  · simp only [set_watcher_zone, set_watcher_table]
    exact zone_ok_congr hz (fun p => by rw [queue_refs_replace hlt])
  · by_cases hji : j = i
    · subst hji
      rw [get_set_watcher_same s j _ hlt] at hj
      cases hj
      exact hw1
    · rw [get_set_watcher_other s i j _ (Ne.symm hji)] at hj
      exact hothers j wj hji hj

theorem ring_ok_congr {w w1 : fs_event_watcher} (h : ring_ok w)
    (hq : w1.event_queue = w.event_queue) (hs : w1.eventq_size = w.eventq_size)
    (hr : w1.rd = w.rd) (hw : w1.wr = w.wr) : ring_ok w1 := by
  have hn : num_pending w1 = num_pending w := by simp [num_pending, hs, hr, hw]
  refine ⟨by rw [hq, hs]; exact h.len, by rw [hr, hs]; exact h.rd_lt,
    by rw [hw, hs]; exact h.wr_lt, fun i hi => ?_⟩
  rw [hq]
  rw [hn, hr, hs] at hi
  exact h.clean i hi
theorem watcher_ok_congr {z : List (Option kfs_event)} {m : Nat} {w w1 : fs_event_watcher}
    (h : watcher_ok z m w) (hq : w1.event_queue = w.event_queue)
    (hs : w1.eventq_size = w.eventq_size) (hr : w1.rd = w.rd) (hw : w1.wr = w.wr)
    (hn : w1.num_events = w.num_events)
    (hf : has_flag w1.flags WATCHER_CLOSING = has_flag w.flags WATCHER_CLOSING) :
    watcher_ok z m w1 := by
  refine ⟨ring_ok_congr h.1 hq hs hr hw, by rw [hs]; exact h.2.1, ?_, by rw [hf]; exact h.2.2.2⟩
  rw [pending_congr hq hs hr hw, hn]
  exact h.2.2.1

theorem closing_or_dropped (f : Nat) :
    has_flag (f ||| WATCHER_DROPPED_EVENTS) WATCHER_CLOSING = has_flag f WATCHER_CLOSING :=
  has_flag_or_other _ _ _ (by decide)

theorem getD_store_type {s : fsevents_state} {k : Nat} {e : kfs_event} {r : Int}
    (he : deref s k = some e) (p : Nat) (ep : kfs_event)
    (hp : s.event_zone.getD p none = some ep) :
    ∃ e1, (store s k { e with refcount := r }).event_zone.getD p none = some e1 ∧
      e1.type = ep.type := by
  have hk : k < s.event_zone.length := getD_some_lt he
  by_cases hkp : k = p
  · subst hkp
    rw [deref_eq] at he; rw [he] at hp; cases hp
    exact ⟨{ e with refcount := r }, by simp [getD_set_eq, hk], rfl⟩
  · exact ⟨ep, by simp only [store_zone, getD_set_eq, hkp, false_and, if_false]; exact hp, rfl⟩

theorem zone_shrinks_store {s : fsevents_state} {k : Nat} {e : kfs_event} (r : Int)
    (he : deref s k = some e) :
    zone_shrinks s.event_zone (store s k { e with refcount := r }).event_zone := by
  have hk : k < s.event_zone.length := getD_some_lt he
  refine ⟨by simp, fun p e1 hp => ?_⟩
  rw [store_zone, getD_set_eq] at hp
  split at hp
  · rename_i hkp
    obtain ⟨rfl, _⟩ := hkp
    cases hp
    exact ⟨e, he, rfl⟩
  · exact ⟨e1, hp, rfl⟩

/-- `watcher_add_event`, called for an event the caller holds a reference to,
keeps the invariant. -/
theorem watcher_add_event_ok {s s1 : fsevents_state} {i k : Nat} {r : Int} {held : Nat → Nat}
    {w : fs_event_watcher} (h : sys_ok s held) (hk : 1 ≤ held k)
    (hw : get_watcher s i = some w)
    (hty : falling_behind (enqueued w k) = false →
      ∀ e, deref s k = some e → e.type < w.num_events)
    (hres : watcher_add_event s i k = some (r, s1)) :
    sys_ok s1 held ∧ frame s s1 ∧ zone_shrinks s.event_zone s1.event_zone ∧
      ∃ w1, s1.watcher_table = s.watcher_table.set i (some w1) ∧
        ((w.wr + 1) % w.eventq_size ≠ w.rd → falling_behind (enqueued w k) = true →
          r = 0 ∧ w1.rd = w1.wr ∧ has_flag w1.flags WATCHER_DROPPED_EVENTS = true) := by
  obtain ⟨e, he, hl⟩ := zone_ok_alloc_of_pos h.1 (p := k) (by omega)
  have hrc := ((h.1.2 k e he).1 hl).1
  have hwok := h.2 i w hw
  have hi : s.watcher_table.getD i none = some w := hw
  have hlt : i < s.watcher_table.length := getD_some_lt hi
  have hsz : w.eventq_size ≠ 0 := by
    intro h0
    by_cases hab : e.abstime > w.max_event_id <;>
      simp [watcher_add_event, hw, show deref s k = some e from he, hab, h0] at hres
  rw [watcher_add_event_eq hw he hsz] at hres
  have hothers : ∀ (s2 : fsevents_state), s2.watcher_table = s.watcher_table →
      s2.max_kfs_events = s.max_kfs_events →
      (∀ j wj, j ≠ i → get_watcher s j = some wj → ∀ x ∈ pending wj, ∀ p ep, x = some p →
        s.event_zone.getD p none = some ep →
        ∃ e1, s2.event_zone.getD p none = some e1 ∧ e1.type = ep.type) →
      ∀ j wj, j ≠ i → get_watcher s2 j = some wj →
        watcher_ok s2.event_zone s2.max_kfs_events wj := by
    intro s2 ht hm hz j wj hji hj
    have hj0 : get_watcher s j = some wj := by simpa [get_watcher, ht] using hj
    rw [hm]
    exact watcher_ok_mono (h.2 j wj hj0) (hz j wj hji hj0)
  split at hres
  · -- the ring is full
    cases hres
    rename_i hfull
    refine ⟨sys_ok_set_watcher hlt ?_ ?_ ?_, frame_set_watcher _ _ _, zone_shrinks_refl _,
      _, rfl, fun g => absurd hfull g⟩
    · refine zone_ok_congr h.1 (fun p => ?_)
      rw [queue_refs_split hi p]
      rfl
    · exact watcher_ok_congr hwok rfl rfl rfl rfl rfl (closing_or_dropped _)
    · exact fun j wj hji hj => h.2 j wj hj
  · rename_i hfull
    -- the state and the watcher after the enqueue
    obtain ⟨w1, hw1⟩ : ∃ w1, w1 = enqueued { w with max_event_id :=
        if e.abstime > w.max_event_id then e.abstime else w.max_event_id } k := ⟨_, rfl⟩
    rw [← hw1] at hres
    have f1 : w1.event_queue = w.event_queue.set w.wr (some k) := by rw [hw1]; rfl
    have f2 : w1.eventq_size = w.eventq_size := by rw [hw1]; rfl
    have f3 : w1.rd = w.rd := by rw [hw1]; rfl
    have f4 : w1.wr = (w.wr + 1) % w.eventq_size := by rw [hw1]; rfl
    have f5 : w1.num_events = w.num_events := by rw [hw1]; rfl
    have f6 : w1.flags = w.flags := by rw [hw1]; rfl
    clear hw1
    obtain ⟨hpe, hrok, _⟩ := pending_enqueue (some k) hwok.1 hsz hfull f1 f2 f3 f4
    obtain ⟨s', hs'⟩ : ∃ s', s' = store s k { e with refcount := e.refcount + 1 } := ⟨_, rfl⟩
    rw [← hs'] at hres
    have hst : s' =
        store s k { e with refcount := ((queue_refs s.watcher_table k + held k + 1 : Nat) : Int) } := by
      rw [hs']
      congr 2
      rw [hrc]; push_cast; ring
    have g1 : s'.watcher_table = s.watcher_table := by rw [hs']; rfl
    have g2 : s'.max_kfs_events = s.max_kfs_events := by rw [hs']; rfl
    have g3 : frame s s' := by rw [hs']; exact frame_store _ _ _
    have g4 : zone_shrinks s.event_zone s'.event_zone := by
      rw [hs']; exact zone_shrinks_store _ he
    have hz1 : zone_ok s'.event_zone
        (fun p => queue_refs (s.watcher_table.set i none) p + held p +
          (pending w1).count (some p)) := by
      rw [hst]
      refine zone_ok_congr (zone_ok_set_refcount h.1 he hl
        (queue_refs s.watcher_table k + held k + 1) (by omega)) (fun p => ?_)
      rw [hpe, List.count_append, queue_refs_split hi k]
      by_cases hpk : p = k
      · subst hpk; simp; omega
      · have : queue_refs s.watcher_table p =
            queue_refs (s.watcher_table.set i none) p + (pending w).count (some p) :=
          queue_refs_split hi p
        simp [hpk, Ne.symm hpk, List.count_cons]
        omega
    have htypes : ∀ p ep, s.event_zone.getD p none = some ep →
        ∃ e1, s'.event_zone.getD p none = some e1 ∧ e1.type = ep.type := by
      rw [hs']; exact fun p ep hp => getD_store_type he p ep hp
    have hnn : ∀ x ∈ pending w1, x ≠ none := by
      intro x hx
      rw [hpe, List.mem_append, List.mem_singleton] at hx
      rcases hx with hx | hx
      · obtain ⟨p, _, a1, _⟩ := hwok.2.2.1 x hx
        rw [a1]; simp
      · rw [hx]; simp
    have hwok1 : falling_behind (enqueued w k) = false →
        watcher_ok s'.event_zone s.max_kfs_events w1 := by
      intro hfb
      refine ⟨hrok, by rw [f2]; exact hwok.2.1, fun x hx => ?_, by rw [f6]; exact hwok.2.2.2⟩
      rw [hpe, List.mem_append, List.mem_singleton] at hx
      rcases hx with hx | hx
      · obtain ⟨p, ep, a1, a2, a3⟩ := hwok.2.2.1 x hx
        obtain ⟨e1, b1, b2⟩ := htypes p ep a2
        exact ⟨p, e1, a1, b1, by rw [b2, f5]; exact a3⟩
      · obtain ⟨e1, b1, b2⟩ := htypes k e he
        exact ⟨k, e1, hx, b1, by rw [b2, f5]; exact hty hfb e he⟩
    have g5 : s'.watcher_table.length = s.watcher_table.length := by rw [g1]
    clear hst hs'
    split at hres
    · -- backpressure: the whole queue is drained
      obtain ⟨s2, q, hdr, hlen, htab, hz2, hsh⟩ := drain_event_queue_ok w1.eventq_size s' w1
        (fun p => queue_refs (s.watcher_table.set i none) p + held p) hrok
        (Nat.le_of_lt (num_pending_lt (by rw [f2]; exact hsz))) hz1 hnn
      rw [← f2, hdr] at hres
      simp only [Option.some.injEq, Prod.mk.injEq] at hres
      obtain ⟨hr0, hres⟩ := hres
      subst hres
      have htab2 : s2.watcher_table = s.watcher_table := htab.trans g1
      have hfr2 : frame s s2 := frame_trans g3 (frame_drain _ hdr)
      have hmax2 : s2.max_kfs_events = s.max_kfs_events := hfr2.max_kfs_events
      have hempty : pending ({ ({ w1 with event_queue := q, rd := w1.wr } : fs_event_watcher) with
          flags := w1.flags ||| WATCHER_DROPPED_EVENTS } : fs_event_watcher) = [] :=
        pending_nil_of_eq rfl
      have hw1lt : w1.wr < w1.eventq_size := by
        rw [f4, f2]; exact Nat.mod_lt _ (Nat.pos_of_ne_zero hsz)
      refine ⟨sys_ok_set_watcher (by rw [htab2]; exact hlt) ?_ ?_ ?_,
        frame_trans hfr2 (frame_set_watcher _ _ _), zone_shrinks_trans g4 hsh,
        _, (by rw [← htab2]; rfl),
        fun _ _ => ⟨hr0.symm, rfl, has_flag_or_self _ WATCHER_DROPPED_EVENTS (by decide)⟩⟩
      · rw [htab2]
        refine zone_ok_congr hz2 (fun p => ?_)
        rw [hempty]; simp
      · refine ⟨ring_ok_congr hlen rfl rfl rfl rfl, ?_, ?_, ?_⟩
        · rw [hmax2]; show 1 ≤ s.max_kfs_events → 1 ≤ w1.eventq_size
          rw [f2]; exact hwok.2.1
        · rw [hempty]; intro x hx; cases hx
        · show has_flag (w1.flags ||| WATCHER_DROPPED_EVENTS) WATCHER_CLOSING = false
          rw [closing_or_dropped, f6]; exact hwok.2.2.2
      · refine hothers s2 htab2 hmax2 (fun j wj hji hj x hx p ep hxp hp => ?_)
        have hj1 : (s.watcher_table.set i none).getD j none = some wj := by
          rw [getD_set_eq, if_neg (fun h => hji h.1.symm)]; exact hj
        have hpos := queue_refs_pos hj1 (by rw [← hxp]; exact hx)
        obtain ⟨e2, a1, _⟩ := zone_ok_alloc_of_pos hz2 (p := p) (by omega)
        obtain ⟨e1, b1, b2⟩ := hsh.2 p e2 a1
        obtain ⟨e0, c1, c2⟩ := htypes p ep hp
        rw [c1] at b1; cases b1
        exact ⟨e2, a1, by rw [b2]; exact c2⟩
    · -- the usual case
      rename_i hfb
      have hfb1 : falling_behind (enqueued w k) = false := by
        cases hq : falling_behind (enqueued w k)
        · rfl
        · exact absurd hq hfb
      cases hres
      have hfr : ∀ t, frame s' { s' with timer_set := t } := fun t =>
        ⟨rfl, rfl, rfl, rfl, rfl, rfl, rfl, rfl, rfl, rfl, rfl, rfl, rfl, rfl, Or.inl ⟨rfl, rfl⟩⟩
      refine ⟨sys_ok_set_watcher (by rw [show _ = s'.watcher_table from rfl, g1]; exact hlt)
        ?_ ?_ ?_, frame_trans (frame_trans g3 (hfr _)) (frame_set_watcher _ _ _), g4,
        _, (by rw [← g1]; rfl),
        fun _ g => absurd g hfb⟩
      · refine zone_ok_congr hz1 (fun p => ?_)
        show queue_refs (s'.watcher_table.set i none) p + _ + _ = _
        rw [g1]; omega
      · show watcher_ok s'.event_zone s'.max_kfs_events w1
        rw [g2]; exact hwok1 hfb1
      · exact hothers _ g1 g2 (fun j wj hji hj x hx p ep hxp hp => htypes p ep hp)

/-- Rewriting a registered watcher without touching its ring or its event
list length keeps the invariant. -/
theorem sys_ok_touch_watcher {s : fsevents_state} {i : Nat} {w w1 : fs_event_watcher}
    {held : Nat → Nat} (h : sys_ok s held) (hw : get_watcher s i = some w)
    (hq : w1.event_queue = w.event_queue) (hs : w1.eventq_size = w.eventq_size)
    (hr : w1.rd = w.rd) (hwr : w1.wr = w.wr) (hn : w1.num_events = w.num_events)
    (hf : has_flag w1.flags WATCHER_CLOSING = has_flag w.flags WATCHER_CLOSING) :
    sys_ok (set_watcher s i (some w1)) held := by
  have hi : s.watcher_table.getD i none = some w := hw
  have hlt : i < s.watcher_table.length := getD_some_lt hi
  refine sys_ok_set_watcher hlt ?_ (watcher_ok_congr (h.2 i w hw) hq hs hr hwr hn hf)
    (fun j wj _ hj => h.2 j wj hj)
  refine zone_ok_congr h.1 (fun p => ?_)
  rw [queue_refs_split hi p, pending_congr hq hs hr hwr]

theorem zone_shrinks_type {z z1 : List (Option kfs_event)} (h : zone_shrinks z z1) {p : Nat}
    {e1 : kfs_event} (h1 : z1.getD p none = some e1) :
    ∃ e, z.getD p none = some e ∧ e1.type = e.type := by
  obtain ⟨e, he, heq⟩ := h.2 p e1 h1
  exact ⟨e, he, by rw [heq]⟩

/-- The fan-out loop keeps the invariant while the publisher holds its
reference. -/
theorem fan_out_ok (type dev : Int) (kfse : Nat) {held : Nat → Nat} (hk : 1 ≤ held kfse) :
    ∀ (slots : List Nat) (s s1 : fsevents_state), sys_ok s held →
      (∀ e, deref s kfse = some e → e.type = type) →
      fan_out type dev kfse slots s = some s1 →
      sys_ok s1 held ∧ frame s s1 ∧ zone_shrinks s.event_zone s1.event_zone := by
  intro slots
  induction slots with
  | nil =>
    intro s s1 h _ hres
    simp only [fan_out, Option.some.injEq] at hres
    subst hres
    exact ⟨h, frame_refl _, zone_shrinks_refl _⟩
  | cons i rest ih =>
    intro s s1 h hty hres
    simp only [fan_out] at hres
    split at hres
    · exact ih s s1 h hty hres
    · rename_i watcher hw
      split at hres
      · rename_i hc
        split at hres
        · cases hres
        · rename_i r s2 hwae
          obtain ⟨ok2, fr2, sh2, _⟩ := watcher_add_event_ok h hk hw
            (fun _ e he => by rw [hty e he]; exact hc.1) hwae
          have hty2 : ∀ e, deref s2 kfse = some e → e.type = type := by
            intro e he
            obtain ⟨e0, he0, ht⟩ := zone_shrinks_type sh2 he
            rw [ht]; exact hty e0 he0
          split at hres
          · split at hres
            · cases hres
            · rename_i w hw2
              have ok3 := @sys_ok_touch_watcher _ _ _
                { w with num_dropped := (w.num_dropped + 1) % 2 ^ 32 } _ ok2 hw2
                rfl rfl rfl rfl rfl rfl
              obtain ⟨ok4, fr4, sh4⟩ := ih _ s1 ok3 hty2 hres
              exact ⟨ok4, frame_trans (frame_trans fr2 (frame_set_watcher _ _ _)) fr4,
                zone_shrinks_trans sh2 sh4⟩
          · obtain ⟨ok4, fr4, sh4⟩ := ih _ s1 ok2 hty2 hres
            exact ⟨ok4, frame_trans fr2 fr4, zone_shrinks_trans sh2 sh4⟩
      · exact ih s s1 h hty hres

theorem set_set_none {α : Type} (z : List (Option α)) (k : Nat) (x : Option α)
    (h : z.getD k none = none) : (z.set k x).set k none = z := by
  rw [List.set_set]
  apply List.ext_getElem (by simp)
  intro n h1 h2
  rw [List.getElem_set]
  split
  · rename_i hk
    subst hk
    rw [List.getD_eq_getElem _ _ h2] at h
    exact h.symm
  · rfl

theorem first_free_some : ∀ (z : List (Option kfs_event)) (p : Nat), first_free z = some p →
    p < z.length ∧ z.getD p none = none := by
  intro z
  induction z with
  | nil => intro p h; simp [first_free] at h
  | cons a rest ih =>
    intro p h
    cases a with
    | none =>
      simp only [first_free, Option.some.injEq] at h
      subst h
      simp
    | some e =>
      simp only [first_free, Option.map_eq_some'] at h
      obtain ⟨q, hq, rfl⟩ := h
      obtain ⟨h1, h2⟩ := ih q hq
      exact ⟨by simpa using h1, by simpa using h2⟩

theorem first_free_none : ∀ (z : List (Option kfs_event)), first_free z = none →
    ∀ p, p < z.length → z.getD p none ≠ none := by
  intro z
  induction z with
  | nil => intro _ p hp; simp at hp
  | cons a rest ih =>
    intro h p hp
    cases a with
    | none => simp [first_free] at h
    | some e =>
      simp only [first_free, Option.map_eq_none'] at h
      cases p with
      | zero => simp
      | succ q =>
        have := ih h q (by simpa using hp)
        simpa using this

theorem zalloc_noblock_some {s s1 : fsevents_state} {k : Nat}
    (h : zalloc_noblock s = (some k, s1)) :
    k < s.event_zone.length ∧ s.event_zone.getD k none = none ∧
      s1 = { s with event_zone := s.event_zone.set k (some {}) } := by
  unfold zalloc_noblock at h
  split at h
  · cases h
  · rename_i p hp
    cases h
    obtain ⟨h1, h2⟩ := first_free_some _ _ hp
    exact ⟨h1, h2, rfl⟩

theorem zalloc_noblock_none {s s1 : fsevents_state} (h : zalloc_noblock s = (none, s1)) :
    s1 = s ∧ first_free s.event_zone = none := by
  unfold zalloc_noblock at h
  split at h
  · rename_i hp
    cases h
    exact ⟨rfl, hp⟩
  · cases h

/-- What a successful `alloc_events` did. -/
theorem alloc_events_some {s sa : fsevents_state} {type : Int} {k : Nat} {dd : Option Nat}
    (h : alloc_events s type = (some k, dd, sa)) :
    k < s.event_zone.length ∧ s.event_zone.getD k none = none ∧
    ((two_target type = false ∧ dd = none ∧
        sa = { s with event_zone := s.event_zone.set k (some {}) }) ∨
     (two_target type = true ∧ ∃ d, dd = some d ∧ d ≠ k ∧ d < s.event_zone.length ∧
        s.event_zone.getD d none = none ∧
        sa = { s with event_zone := (s.event_zone.set k (some {})).set d (some {}) })) := by
  unfold alloc_events at h
  split at h
  · cases h
  · rename_i k0 s0 hz
    obtain ⟨h1, h2, h3⟩ := zalloc_noblock_some hz
    split at h
    · rename_i htt
      split at h
      · cases h
      · rename_i d s2 hz2
        cases h
        obtain ⟨g1, g2, g3⟩ := zalloc_noblock_some hz2
        subst h3
        simp only [List.length_set] at g1
        have hdk : d ≠ k := by
          intro hdk
          subst hdk
          simp [getD_set_eq, h1] at g2
        have g2' : s.event_zone.getD d none = none := by
          rw [getD_set_eq] at g2
          split at g2
          · cases g2
          · exact g2
        exact ⟨h1, h2, Or.inr ⟨htt, d, rfl, hdk, g1, g2', g3⟩⟩
    · rename_i htt
      cases h
      exact ⟨h1, h2, Or.inl ⟨by simpa using htt, rfl, h3⟩⟩

/-- A successful `alloc_events`, field by field. -/
theorem alloc_events_fields {s sa : fsevents_state} {type : Int} {k : Nat} {dd : Option Nat}
    (h : alloc_events s type = (some k, dd, sa)) :
    k < s.event_zone.length ∧ s.event_zone.getD k none = none ∧
    sa.watcher_table = s.watcher_table ∧ sa.max_kfs_events = s.max_kfs_events ∧ frame s sa ∧
    ((two_target type = false ∧ dd = none ∧
        sa.event_zone = s.event_zone.set k (some {})) ∨
     (two_target type = true ∧ ∃ d, dd = some d ∧ d ≠ k ∧ d < s.event_zone.length ∧
        s.event_zone.getD d none = none ∧
        sa.event_zone = (s.event_zone.set k (some {})).set d (some {}))) := by
  obtain ⟨hk, hkf, hcase⟩ := alloc_events_some h
  rcases hcase with ⟨a, b, c⟩ | ⟨a, d, b, c1, c2, c3, c4⟩
  · subst c
    exact ⟨hk, hkf, rfl, rfl, ⟨rfl, rfl, rfl, rfl, rfl, rfl, rfl, rfl, rfl, rfl, rfl, rfl,
      by simp, rfl, Or.inl ⟨rfl, rfl⟩⟩, Or.inl ⟨a, b, rfl⟩⟩
  · subst c4
    exact ⟨hk, hkf, rfl, rfl, ⟨rfl, rfl, rfl, rfl, rfl, rfl, rfl, rfl, rfl, rfl, rfl, rfl,
      by simp, rfl, Or.inl ⟨rfl, rfl⟩⟩, Or.inr ⟨a, d, b, c1, c2, c3, rfl⟩⟩

/-- What a failed `alloc_events` left: the zone as it was, up to the free log. -/
theorem alloc_events_none {s sa : fsevents_state} {type : Int} {dd : Option Nat}
    (h : alloc_events s type = (none, dd, sa)) :
    sa.event_zone = s.event_zone ∧ sa.watcher_table = s.watcher_table ∧ frame s sa ∧
      sa.kfse_list_head = s.kfse_list_head ∧ sa.num_dropped = s.num_dropped ∧
      sa.max_kfs_events = s.max_kfs_events ∧ sa.last_print_sec = s.last_print_sec := by
  unfold alloc_events at h
  split at h
  · rename_i s0 hz
    cases h
    obtain ⟨h1, _⟩ := zalloc_noblock_none hz
    subst h1
    exact ⟨rfl, rfl, frame_refl _, rfl, rfl, rfl, rfl⟩
  · rename_i k0 s0 hz
    obtain ⟨h1, h2, h3⟩ := zalloc_noblock_some hz
    split at h
    · split at h
      · rename_i s2 hz2
        cases h
        obtain ⟨g1, _⟩ := zalloc_noblock_none hz2
        subst g1 h3
        refine ⟨?_, rfl, ?_, rfl, rfl, rfl, rfl⟩
        · exact set_set_none _ _ _ h2
        · exact ⟨rfl, rfl, rfl, rfl, rfl, rfl, rfl, rfl, rfl, rfl, rfl, rfl, by simp [zfree],
            rfl, Or.inl ⟨rfl, rfl⟩⟩
      · cases h
    · cases h

theorem publish_events_eq (sa : fsevents_state) (type : Int) (now : Nat) (pid : Int) (k : Nat)
    (dd : Option Nat) (hk : k < sa.event_zone.length)
    (hdd : (two_target type = false ∧ dd = none) ∨
      (two_target type = true ∧ ∃ d, dd = some d ∧ d ≠ k ∧ d < sa.event_zone.length)) :
    publish_events sa type now pid k dd =
      { sa with event_zone := published_zone sa.event_zone type now pid k dd,
                last_event_ptr := some k,
                num_events_outstanding := sa.num_events_outstanding + 1,
                num_pending_rename :=
                  if type = FSE_RENAME then sa.num_pending_rename + 1
                  else sa.num_pending_rename,
                kfse_list_head := k :: sa.kfse_list_head } := by
  rcases hdd with ⟨htt, rfl⟩ | ⟨htt, d, rfl, hdk, hd⟩
  · simp [publish_events, htt, deref, store, getD_set_eq, hk, published_zone, List.set_set]
  · simp [publish_events, htt, deref, store, getD_set_eq, hk, hd, published_zone, List.set_set]
    rw [List.set_comm _ _ _ (Ne.symm hdk), List.set_set]

theorem on_list_kfse_init (type : Int) (now : Nat) (pid : Int) :
    on_list (kfse_init type now pid) = false := by
  simp [on_list, kfse_init, has_flag]
  decide

theorem on_list_listed (e : kfs_event) :
    on_list { e with flags := e.flags ||| KFSE_ON_LIST } = true := by
  simp only [on_list]
  exact has_flag_or_self _ _ (by decide)

/-- Putting a fresh event (and its fresh destination) into free elements of a
consistent zone gives a consistent zone in which the new event counts one
reference more. -/
theorem zone_ok_publish {z z1 : List (Option kfs_event)} {cnt : Nat → Nat}
    (hz : zone_ok z cnt) {k : Nat} {ek : kfs_event} {dd : Option Nat}
    (hk : z.getD k none = none)
    (hek : on_list ek = true ∧ ek.refcount = 1 ∧ 0 ≤ ek.type ∧ ek.type < FSE_MAX_EVENTS ∧
      ek.dest = dd)
    (hd : ∀ d, dd = some d → d ≠ k ∧ z.getD d none = none ∧
      ∃ de, z1.getD d none = some de ∧ on_list de = false ∧ de.refcount = 1 ∧ de.dest = none)
    (hzk : z1.getD k none = some ek)
    (hother : ∀ p, p ≠ k → dd ≠ some p → z1.getD p none = z.getD p none) :
    zone_ok z1 (fun p => cnt p + if p = k then 1 else 0) := by
  obtain ⟨hl, hrc, ht0, ht1, hdest⟩ := hek
  have hcases : ∀ p, p = k ∨ (p ≠ k ∧ dd = some p) ∨ (p ≠ k ∧ dd ≠ some p) := by
    intro p
    by_cases h1 : p = k
    · exact Or.inl h1
    · by_cases h2 : dd = some p
      · exact Or.inr (Or.inl ⟨h1, h2⟩)
      · exact Or.inr (Or.inr ⟨h1, h2⟩)
  have hold : ∀ p e, z.getD p none = some e → p ≠ k ∧ dd ≠ some p := by
    intro p e hp
    refine ⟨fun h => ?_, fun h => ?_⟩
    · subst h; rw [hk] at hp; cases hp
    · rw [(hd p h).2.1] at hp; cases hp
  refine ⟨fun p hp => ?_, fun p e hp => ?_⟩
  · rcases hcases p with h | ⟨_, h⟩ | ⟨h1, h2⟩
    · subst h; rw [hzk] at hp; cases hp
    · obtain ⟨_, _, de, hde, _⟩ := hd p h
      rw [hde] at hp; cases hp
    · rw [hother p h1 h2] at hp
      simp [hz.1 p hp, h1]
  · rcases hcases p with h | ⟨h1, h⟩ | ⟨h1, h2⟩
    · subst h
      rw [hzk] at hp; cases hp
      refine ⟨fun _ => ⟨by simp [hz.1 p hk, hrc], by simp, ht0, ht1⟩,
        fun h => (by rw [hl] at h; cases h), fun d hdd => ?_, fun p1 e1 d h1 h1d hed => ?_⟩
      · rw [hdest] at hdd
        obtain ⟨a, _, de, b, c, _⟩ := hd d hdd
        exact ⟨a, de, b, c⟩
      · rw [hdest] at hed
        rcases hcases p1 with g | ⟨_, g⟩ | ⟨g1, g2⟩
        · exact g
        · obtain ⟨_, _, de, hde, _, _, hdn⟩ := hd p1 g
          rw [hde] at h1; cases h1
          rw [hdn] at h1d; cases h1d
        · rw [hother p1 g1 g2] at h1
          obtain ⟨_, de, hde, _⟩ := (hz.2 p1 e1 h1).2.2.1 d h1d
          rw [(hd d hed).2.1] at hde; cases hde
    · obtain ⟨_, hfree, de, hde, hdl, hdr, hdn⟩ := hd p h
      rw [hde] at hp; cases hp
      refine ⟨fun g => (by rw [hdl] at g; cases g),
        fun _ => ⟨hdr, hdn, by simp [hz.1 p hfree, h1]⟩,
        fun d g => (by rw [hdn] at g; cases g),
        fun p1 e1 d _ _ g => (by rw [hdn] at g; cases g)⟩
    · rw [hother p h1 h2] at hp
      obtain ⟨a, b, c, d4⟩ := hz.2 p e hp
      refine ⟨fun g => (by simpa [h1] using a g), fun g => (by simpa [h1] using b g),
        fun d g => ?_, fun p1 e1 d g1 g1d ged => ?_⟩
      · obtain ⟨c1, de, c2, c3⟩ := c d g
        obtain ⟨o1, o2⟩ := hold d de c2
        exact ⟨c1, de, by rw [hother d o1 o2]; exact c2, c3⟩
      · obtain ⟨_, de, c2, _⟩ := c d ged
        rcases hcases p1 with g | ⟨_, g⟩ | ⟨k1, k2⟩
        · subst g
          rw [hzk] at g1; cases g1
          rw [hdest] at g1d
          rw [(hd d g1d).2.1] at c2; cases c2
        · obtain ⟨_, _, de1, hde1, _, _, hdn1⟩ := hd p1 g
          rw [hde1] at g1; cases g1
          rw [hdn1] at g1d; cases g1d
        · rw [hother p1 k1 k2] at g1
          exact d4 p1 e1 d g1 g1d ged

/-- Allocation and publication of a new event: the invariant holds with one
reference held by the publisher. -/
theorem alloc_publish_ok {s sa : fsevents_state} {type : Int} {now : Nat} {pid : Int} {k : Nat}
    {dd : Option Nat} (h : sys_ok s (fun _ => 0))
    (hty : 0 ≤ type ∧ type < FSE_MAX_EVENTS)
    (ha : alloc_events s type = (some k, dd, sa)) :
    sys_ok (publish_events sa type now pid k dd) (fun p => if p = k then 1 else 0) ∧
    frame s (publish_events sa type now pid k dd) ∧
    (∀ e, deref (publish_events sa type now pid k dd) k = some e → e.type = type) := by
  obtain ⟨hk, hkf, htab, hmax, hfr, hcase⟩ := alloc_events_fields ha
  obtain ⟨z1, hz1⟩ : ∃ z1, z1 = published_zone sa.event_zone type now pid k dd := ⟨_, rfl⟩
  have hpub : publish_events sa type now pid k dd =
      { sa with event_zone := z1,
                last_event_ptr := some k,
                num_events_outstanding := sa.num_events_outstanding + 1,
                num_pending_rename :=
                  if type = FSE_RENAME then sa.num_pending_rename + 1
                  else sa.num_pending_rename,
                kfse_list_head := k :: sa.kfse_list_head } := by
    rw [hz1]
    rcases hcase with ⟨a, b, c⟩ | ⟨a, d, b, c1, c2, c3, c4⟩
    · exact publish_events_eq sa type now pid k dd (by rw [c]; simpa using hk) (Or.inl ⟨a, b⟩)
    · exact publish_events_eq sa type now pid k dd (by rw [c4]; simpa using hk)
        (Or.inr ⟨a, d, b, c1, by rw [c4]; simpa using c2⟩)
  have hlen : z1.length = sa.event_zone.length := by
    rw [hz1]
    cases dd <;> simp [published_zone]
  -- the new zone, element by element
  obtain ⟨ek, hzk, hek, hekt, hd, hother⟩ : ∃ ek, z1.getD k none = some ek ∧
      (on_list ek = true ∧ ek.refcount = 1 ∧ 0 ≤ ek.type ∧ ek.type < FSE_MAX_EVENTS ∧
        ek.dest = dd) ∧ ek.type = type ∧
      (∀ d, dd = some d → d ≠ k ∧ s.event_zone.getD d none = none ∧
        ∃ de, z1.getD d none = some de ∧ on_list de = false ∧ de.refcount = 1 ∧
          de.dest = none) ∧
      (∀ p, p ≠ k → dd ≠ some p → z1.getD p none = s.event_zone.getD p none) := by
    rcases hcase with ⟨_, b, c⟩ | ⟨_, d, b, c1, c2, c3, c4⟩
    · subst b
      refine ⟨{ kfse_init type now pid with
          flags := (kfse_init type now pid).flags ||| KFSE_ON_LIST },
        by rw [hz1, c]; simp [published_zone, getD_set_eq, hk],
        ⟨on_list_listed (kfse_init type now pid), rfl, hty.1, hty.2, rfl⟩, rfl,
        fun d hd => (by cases hd),
        fun p hpk _ => ?_⟩
      rw [hz1, c]
      simp [published_zone, getD_set_eq, Ne.symm hpk]
    · subst b
      refine ⟨{ kfse_init type now pid with
          dest := some d,
          flags := (kfse_init type now pid).flags ||| KFSE_ON_LIST },
        by rw [hz1, c4]; simp [published_zone, getD_set_eq, hk],
        ⟨on_list_listed { kfse_init type now pid with dest := some d }, rfl, hty.1, hty.2, rfl⟩,
        rfl, fun d1 hd1 => ?_, fun p hpk hpd => ?_⟩
      · cases hd1
        refine ⟨c1, c3, kfse_init type now pid, ?_, on_list_kfse_init _ _ _, rfl, rfl⟩
        rw [hz1, c4]
        simp [published_zone, getD_set_eq, c1, Ne.symm c1, c2]
      · have hpd1 : d ≠ p := fun g => hpd (by rw [g])
        rw [hz1, c4]
        simp [published_zone, getD_set_eq, Ne.symm hpk, hpd1]
  rw [hpub]
  refine ⟨⟨?_, fun i w hw => ?_⟩, ?_, ?_⟩
  · show zone_ok z1 _
    refine zone_ok_congr (zone_ok_publish h.1 hkf hek hd hzk hother) (fun p => ?_)
    show queue_refs sa.watcher_table p + _ = _
    rw [htab]
    simp
  · have hw0 : get_watcher s i = some w := by
      have : sa.watcher_table.getD i none = some w := hw
      rw [htab] at this
      exact this
    show watcher_ok z1 sa.max_kfs_events w
    rw [hmax]
    refine watcher_ok_mono (h.2 i w hw0) (fun x hx p e hxp hp => ?_)
    have hpk : p ≠ k := by
      intro g; subst g; rw [hkf] at hp; cases hp
    have hpd : dd ≠ some p := by
      intro g; rw [(hd p g).2.1] at hp; cases hp
    exact ⟨e, by rw [hother p hpk hpd]; exact hp, rfl⟩
  · refine frame_trans hfr ?_
    exact ⟨rfl, rfl, rfl, rfl, rfl, rfl, rfl, rfl, rfl, rfl, rfl, rfl, hlen, rfl,
      Or.inl ⟨rfl, rfl⟩⟩
  · intro e he
    have : z1.getD k none = some e := he
    rw [hzk] at this
    cases this
    exact hekt

/-- From a consistent zone to a consistent state, when the events the watchers
hold are still there. -/
theorem sys_ok_of_shrinks {s s1 : fsevents_state} {held1 : Nat → Nat}
    (hz : zone_ok s1.event_zone (fun p => queue_refs s1.watcher_table p + held1 p))
    (ht : s1.watcher_table = s.watcher_table) (hm : s1.max_kfs_events = s.max_kfs_events)
    (hsh : zone_shrinks s.event_zone s1.event_zone)
    (hw : ∀ i w, get_watcher s i = some w → watcher_ok s.event_zone s.max_kfs_events w) :
    sys_ok s1 held1 := by
  refine ⟨hz, fun i w hi => ?_⟩
  have hi0 : get_watcher s i = some w := by
    have : s1.watcher_table.getD i none = some w := hi
    rw [ht] at this
    exact this
  rw [hm]
  refine watcher_ok_mono (hw i w hi0) (fun x hx p e hxp hp => ?_)
  have hpos : 1 ≤ queue_refs s1.watcher_table p :=
    queue_refs_pos (show s1.watcher_table.getD i none = some w from hi) (by rw [← hxp]; exact hx)
  obtain ⟨e1, h1, _⟩ := zone_ok_alloc_of_pos hz (p := p) (by show 1 ≤ _ + _; omega)
  obtain ⟨e0, h0, ht0⟩ := zone_shrinks_type hsh h1
  rw [hp] at h0; cases h0
  exact ⟨e1, h1, ht0⟩

/-- The publisher gives up its reference. -/
theorem release_held_ok {s s1 : fsevents_state} {k : Nat}
    (h : sys_ok s (fun p => if p = k then 1 else 0))
    (hr : release_event_ref s k = some s1) : sys_ok s1 (fun _ => 0) ∧ frame s s1 := by
  obtain ⟨e, he, hl⟩ := zone_ok_alloc_of_pos h.1 (p := k) (by simp)
  obtain ⟨s2, h2, htab, hz, hsh⟩ := release_event_ref_ok h.1 he hl
  rw [hr] at h2; cases h2
  refine ⟨sys_ok_of_shrinks (zone_ok_congr hz (fun p => ?_)) htab (frame_release hr).max_kfs_events
    hsh h.2, frame_release hr⟩
  rw [htab]
  by_cases hp : p = k <;> simp [hp]

theorem add_fsevent_finish_ok {s : fsevents_state} {k : Nat} {l : add_locals}
    {res : pass_result} (h : sys_ok s (fun p => if p = k then 1 else 0))
    (hr : add_fsevent_finish s k l = some res) :
    sys_ok (pass_state res) (fun _ => 0) ∧ frame s (pass_state res) ∧ pass_overrides res := by
  unfold add_fsevent_finish at hr
  split at hr
  · cases hr
  · rename_i s1 h1
    cases hr
    obtain ⟨a, b⟩ := release_held_ok h h1
    exact ⟨a, b, trivial⟩

/-- One execution of the code from `clean_up` on either ends the pass in a
consistent state or changes nothing. -/
theorem hlink_block_ok {type : Int} {k : Nat} {links : List link_reply} {s : fsevents_state}
    {l : add_locals} {nx : clean_next} (h : sys_ok s (fun p => if p = k then 1 else 0))
    (hr : hlink_block type k links s l = some nx) :
    match nx with
    | clean_next.done res =>
      sys_ok (pass_state res) (fun _ => 0) ∧ frame s (pass_state res) ∧ pass_overrides res
    | clean_next.again links1 _ => links1.length < links.length := by
  have hfin : ∀ {l1 : add_locals}, (add_fsevent_finish s k l1).map clean_next.done = some nx →
      match nx with
      | clean_next.done res =>
        sys_ok (pass_state res) (fun _ => 0) ∧ frame s (pass_state res) ∧ pass_overrides res
      | clean_next.again links1 _ => links1.length < links.length := by
    intro l1 h1
    rw [Option.map_eq_some'] at h1
    obtain ⟨res, h2, rfl⟩ := h1
    exact add_fsevent_finish_ok h h2
  unfold hlink_block at hr
  split at hr
  · cases hr
  · split at hr
    · split at hr
      · dsimp only at hr
        split at hr
        · split at hr
          · split at hr
            · split at hr
              · cases hr
              · rename_i s1 h1
                cases hr
                obtain ⟨a, b⟩ := release_held_ok h h1
                exact ⟨a, b, by simp [pass_overrides]⟩
            · exact hfin hr
          · split at hr
            · cases hr
              simp
            · exact hfin hr
        · exact hfin hr
      · exact hfin hr
    · exact hfin hr

theorem clean_up_loop_ok (type : Int) (k : Nat) (s : fsevents_state)
    (h : sys_ok s (fun p => if p = k then 1 else 0)) :
    ∀ (fuel : Nat) (links : List link_reply) (l : add_locals) (res : pass_result),
      clean_up_loop type k s fuel links l = some res →
      sys_ok (pass_state res) (fun _ => 0) ∧ frame s (pass_state res) ∧ pass_overrides res := by
  intro fuel
  induction fuel with
  | zero => intro links l res hr; simp [clean_up_loop] at hr
  | succ n ih =>
    intro links l res hr
    simp only [clean_up_loop] at hr
    split at hr
    · cases hr
    · rename_i r hb
      cases hr
      exact hlink_block_ok h hb
    · rename_i links1 l1 hb
      exact ih links1 l1 res hr

theorem clean_up_ok {type : Int} {k : Nat} {links : List link_reply} {s : fsevents_state}
    {l : add_locals} {res : pass_result} (h : sys_ok s (fun p => if p = k then 1 else 0))
    (hr : clean_up type k links s l = some res) :
    sys_ok (pass_state res) (fun _ => 0) ∧ frame s (pass_state res) ∧ pass_overrides res :=
  clean_up_loop_ok type k s h _ links l res hr

theorem pending_flagged (w : fs_event_watcher) (f : Nat) :
    pending ({ w with flags := f } : fs_event_watcher) = pending w := rfl

theorem queue_refs_flag_all (t : List (Option fs_event_watcher)) (p : Nat) :
    queue_refs (flag_all_dropped t) p = queue_refs t p := by
  simp only [queue_refs, flag_all_dropped, List.map_map]
  congr 1
  apply List.map_congr_left
  intro o _
  cases o <;> rfl

theorem getD_flag_all (t : List (Option fs_event_watcher)) (i : Nat) :
    (flag_all_dropped t).getD i none =
      (t.getD i none).map (fun watcher =>
        { watcher with flags := watcher.flags ||| WATCHER_DROPPED_EVENTS }) := by
  simp only [flag_all_dropped]
  rw [List.getD_eq_getElem?_getD, List.getD_eq_getElem?_getD, List.getElem?_map]
  cases t[i]? <;> rfl

/-- The exhaustion branch changes the watcher flags, the drop counter, the
time of the last diagnostic and the free log, and nothing else. -/
theorem no_free_events_fields (s : fsevents_state) (env : fse_env) :
    (no_free_events s env).event_zone = s.event_zone ∧
    (no_free_events s env).watcher_table = flag_all_dropped s.watcher_table ∧
    (no_free_events s env).max_kfs_events = s.max_kfs_events ∧
    (no_free_events s env).num_dropped = s.num_dropped + 1 ∧
    (no_free_events s env).kfse_list_head = s.kfse_list_head ∧
    (no_free_events s env).num_events_outstanding = s.num_events_outstanding ∧
    frame { s with watcher_table := flag_all_dropped s.watcher_table } (no_free_events s env) := by
  unfold no_free_events
  dsimp only
  split
  · generalize hz : zalloc_noblock _ = junk
    obtain ⟨junkptr, s1⟩ := junk
    cases junkptr with
    | none =>
      obtain ⟨h1, _⟩ := zalloc_noblock_none hz
      subst h1
      exact ⟨rfl, rfl, rfl, rfl, rfl, rfl, rfl, rfl, rfl, rfl, rfl, rfl, rfl, rfl, rfl, rfl,
        rfl, rfl, rfl, rfl, Or.inl ⟨rfl, rfl⟩⟩
    | some j =>
      obtain ⟨h1, h2, h3⟩ := zalloc_noblock_some hz
      subst h3
      refine ⟨set_set_none _ _ _ h2, rfl, rfl, rfl, rfl, rfl, ?_⟩
      exact ⟨rfl, rfl, rfl, rfl, rfl, rfl, rfl, rfl, rfl, rfl, rfl, rfl, by simp [zfree],
        rfl, Or.inl ⟨rfl, rfl⟩⟩
  · exact ⟨rfl, rfl, rfl, rfl, rfl, rfl, rfl, rfl, rfl, rfl, rfl, rfl, rfl, rfl, rfl, rfl,
      rfl, rfl, rfl, rfl, Or.inl ⟨rfl, rfl⟩⟩

theorem sys_ok_flag_all {s s1 : fsevents_state} {held : Nat → Nat} (h : sys_ok s held)
    (hz : s1.event_zone = s.event_zone)
    (ht : s1.watcher_table = flag_all_dropped s.watcher_table)
    (hm : s1.max_kfs_events = s.max_kfs_events) : sys_ok s1 held := by
  refine ⟨?_, fun i w hw => ?_⟩
  · rw [hz, ht]
    exact zone_ok_congr h.1 (fun p => by rw [queue_refs_flag_all])
  · have hw1 : s1.watcher_table.getD i none = some w := hw
    rw [ht, getD_flag_all, Option.map_eq_some'] at hw1
    obtain ⟨w0, hw0, rfl⟩ := hw1
    rw [hz, hm]
    exact watcher_ok_congr (h.2 i w0 hw0) rfl rfl rfl rfl rfl (closing_or_dropped _)

theorem frame_flag_all (s : fsevents_state) :
    frame s { s with watcher_table := flag_all_dropped s.watcher_table } :=
  ⟨rfl, rfl, rfl, rfl, rfl, rfl, rfl, rfl, rfl, rfl, rfl, rfl, rfl,
    by simp [flag_all_dropped], Or.inl ⟨rfl, rfl⟩⟩

theorem no_free_events_ok {s : fsevents_state} {held : Nat → Nat} (env : fse_env)
    (h : sys_ok s held) :
    sys_ok (no_free_events s env) held ∧ frame s (no_free_events s env) := by
  obtain ⟨a, b, c, _, _, _, f⟩ := no_free_events_fields s env
  exact ⟨sys_ok_flag_all h a b c, frame_trans (frame_flag_all s) f⟩

theorem benign_fill_event {s s1 : fsevents_state} {type : Int} {kfse : Nat}
    {kfse_dest : Option Nat} {ap : List va_word} {env : fse_env} {l l1 : add_locals} {b : Bool}
    (h : fill_event s type kfse kfse_dest ap env l = some (s1, l1, b)) : benign_step s s1 := by
  unfold fill_event at h
  split at h
  · rw [Option.map_eq_some'] at h
    obtain ⟨s2, h2, h3⟩ := h
    cases h3
    exact benign_fill_docid h2
  · split at h
    · rw [Option.map_eq_some'] at h
      obtain ⟨s2, h2, h3⟩ := h
      cases h3
      exact benign_fill_activity h2
    · split at h
      · rw [Option.map_eq_some'] at h
        obtain ⟨s2, h2, h3⟩ := h
        cases h3
        exact benign_fill_access_granted h2
      · split at h
        · rw [Option.map_eq_some'] at h
          obtain ⟨s2, h2, h3⟩ := h
          cases h3
          exact benign_fill_unmount_pending h2
        · exact benign_fill_regular _ _ _ h

theorem benign_type {s s1 : fsevents_state} (hb : benign_step s s1) {k : Nat} {type : Int}
    (hk : ∃ e, deref s k = some e)
    (hty : ∀ e, deref s k = some e → e.type = type) :
    ∀ e, deref s1 k = some e → e.type = type := by
  intro e he
  obtain ⟨e0, he0⟩ := hk
  obtain ⟨e1, h1, hb1⟩ := hb.used k e0 he0
  have : s1.event_zone.getD k none = some e := he
  rw [h1] at this
  cases this
  rw [hb1.2.2.1]
  exact hty e0 he0

theorem deliver_pass_ok {s : fsevents_state} {type : Int} {k : Nat} {dd : Option Nat}
    {l : add_locals} {links : List link_reply} {skip : Bool} {res : pass_result}
    (h : sys_ok s (fun p => if p = k then 1 else 0))
    (hty : ∀ e, deref s k = some e → e.type = type)
    (hr : deliver_pass s type k dd l links skip = some res) :
    sys_ok (pass_state res) (fun _ => 0) ∧ frame s (pass_state res) ∧ pass_overrides res := by
  unfold deliver_pass at hr
  split at hr
  · exact clean_up_ok h hr
  · split at hr
    · cases hr
    · rename_i s1 h1
      have hb := benign_done_with_args h1
      have ok1 := sys_ok_benign h hb
      have hex : ∃ e, deref s k = some e := by
        obtain ⟨e, he, _⟩ := zone_ok_alloc_of_pos h.1 (p := k) (by simp)
        exact ⟨e, he⟩
      have hty1 := benign_type hb hex hty
      split at hr
      · cases hr
      · rename_i s2 h2
        obtain ⟨ok2, fr2, _⟩ := fan_out_ok type l.dev k (by simp) _ s1 s2 ok1 hty1 h2
        obtain ⟨ok3, fr3, ov⟩ := clean_up_ok ok2 hr
        exact ⟨ok3, frame_trans (frame_trans hb.frame fr2) fr3, ov⟩

/-- A pass of `add_fsevent` after the dedup filter keeps the invariant and
leaves the dedup record alone, up to a reset of its type and time. -/
theorem publish_pass_ok {s : fsevents_state} {type : Int} {ap : List va_word} {env : fse_env}
    {now : Nat} {l : add_locals} {links : List link_reply} {res : pass_result}
    (h : sys_ok s (fun _ => 0)) (hty : 0 ≤ type ∧ type < FSE_MAX_EVENTS)
    (hr : publish_pass s type ap env now l links = some res) :
    sys_ok (pass_state res) (fun _ => 0) ∧ frame s (pass_state res) ∧ pass_overrides res := by
  unfold publish_pass at hr
  split at hr
  · rename_i dd sa ha
    cases hr
    obtain ⟨a, b, c, _, _, d, _⟩ := alloc_events_none ha
    obtain ⟨e, f⟩ := no_free_events_ok env (sys_ok_of_eq h a b d)
    exact ⟨e, frame_trans c f, trivial⟩
  · rename_i k dd sa ha
    obtain ⟨ok1, fr1, ty1⟩ := @alloc_publish_ok _ _ _ now env.pid _ _ h hty ha
    split at hr
    · cases hr
    · rename_i s2 l2 skip hf
      have hb := benign_fill_event hf
      have hex : ∃ e, deref (publish_events sa type now env.pid k dd) k = some e := by
        obtain ⟨e, he, _⟩ := zone_ok_alloc_of_pos ok1.1 (p := k) (by simp)
        exact ⟨e, he⟩
      obtain ⟨ok3, fr3, ov⟩ := deliver_pass_ok (sys_ok_benign ok1 hb) (benign_type hb hex ty1) hr
      exact ⟨ok3, frame_trans (frame_trans fr1 hb.frame) fr3, ov⟩

/-- The scan of the dedup filter changes at most `last_str`, which it may
clear. -/
theorem dedup_scan_fields : ∀ (n : Nat) (ap : List va_word), ap.length ≤ n →
    ∀ (s s1 : fsevents_state) (was_str : Bool) (nlen : Int) (ptr : Option ptr_val) (vid : Int)
      (ws : Bool) (nl : Int),
      dedup_scan s ap was_str nlen = some (s1, ptr, vid, ws, nl) →
      s1 = s ∨ s1 = { s with last_str := [] } := by
  intro n
  induction n with
  | zero =>
    intro ap hlen s s1 was_str nlen ptr vid ws nl h
    cases ap with
    | nil => simp [dedup_scan] at h
    | cons a rest => simp at hlen
  | succ n ih =>
    intro ap hlen s s1 was_str nlen ptr vid ws nl h
    unfold dedup_scan at h
    split at h
    · rename_i tag rest
      simp only [List.length_cons] at hlen
      split at h
      · cases h; exact Or.inl rfl
      · split at h
        · split at h
          · cases h; exact Or.inr rfl
          · cases h
        · split at h
          · split at h
            · cases h; exact Or.inl rfl
            · rename_i n1 rest2
              simp only [List.length_cons] at hlen
              exact ih rest2 (by omega) s s1 _ _ _ _ _ _ h
            · cases h
          · exact ih rest (by omega) s s1 _ _ _ _ _ _ h
    · cases h

theorem dedup_only_timebase (s : fsevents_state) (env : fse_env) :
    dedup_only s (if s.timebase_denom = 0 then
        { s with timebase_numer := env.clock_numer, timebase_denom := env.clock_denom }
      else s) := by
  split <;> exact ⟨rfl, rfl, rfl, rfl, rfl, rfl⟩

theorem dedup_filter_fields {s s1 : fsevents_state} {type : Int} {ap : List va_word}
    {env : fse_env} {now : Nat} {b : Bool}
    (h : dedup_filter s type ap env now = some (b, s1)) : dedup_only s s1 := by
  unfold dedup_filter at h
  split at h
  · cases h
  · rename_i s2 ptr vid was_str nlen hscan
    have h2 : dedup_only s s2 := by
      rcases dedup_scan_fields _ ap (le_refl _) s s2 _ _ _ _ _ _ hscan with g | g <;>
        subst g <;> exact ⟨rfl, rfl, rfl, rfl, rfl, rfl⟩
    have h3 := dedup_only_timebase s2 env
    dsimp only at h
    generalize (if s2.timebase_denom = 0 then
        { s2 with timebase_numer := env.clock_numer, timebase_denom := env.clock_denom }
      else s2) = s3 at h h3
    have h23 : dedup_only s s3 :=
      ⟨h3.1.trans h2.1, h3.2.trans h2.2, h3.3.trans h2.3, h3.4.trans h2.4, h3.5.trans h2.5,
        h3.6.trans h2.6⟩
    split at h
    · cases h
    · split at h
      · cases h
        exact ⟨h23.1, h23.2, h23.3, h23.4, h23.5, h23.6⟩
      · split at h
        · cases h
        · cases h
          refine ⟨?_, ?_, ?_, ?_, ?_, ?_⟩ <;> dsimp only <;>
            first
            | (split <;> first
                | exact h23.1 | exact h23.2 | exact h23.3 | exact h23.4 | exact h23.5
                | exact h23.6
                | (split <;> first
                    | exact h23.1 | exact h23.2 | exact h23.3 | exact h23.4 | exact h23.5
                    | exact h23.6))

theorem sys_ok_dedup_only {s s1 : fsevents_state} {held : Nat → Nat} (h : sys_ok s held)
    (hd : dedup_only s s1) : sys_ok s1 held :=
  sys_ok_of_eq h hd.event_zone hd.watcher_table hd.max_kfs_events

/-- One pass of `add_fsevent` keeps the invariant. -/
theorem add_fsevent_pass_ok {s : fsevents_state} {type : Int} {ap : List va_word}
    {env : fse_env} {now : Nat} {l : add_locals} {links : List link_reply} {res : pass_result}
    (h : sys_ok s (fun _ => 0)) (hr : add_fsevent_pass s type ap env now l links = some res) :
    sys_ok (pass_state res) (fun _ => 0) ∧ pass_overrides res := by
  unfold add_fsevent_pass at hr
  split at hr
  · cases hr; exact ⟨h, trivial⟩
  · rename_i hty
    have hty1 : 0 ≤ type ∧ type < FSE_MAX_EVENTS := by
      constructor <;> omega
    split at hr
    · cases hr; exact ⟨h, trivial⟩
    · split at hr
      · split at hr
        · cases hr
        · rename_i s1 hd
          cases hr
          exact ⟨sys_ok_dedup_only h (dedup_filter_fields hd), trivial⟩
        · rename_i s1 hd
          obtain ⟨a, _, c⟩ := publish_pass_ok (sys_ok_dedup_only h (dedup_filter_fields hd)) hty1 hr
          exact ⟨a, c⟩
      · obtain ⟨a, _, c⟩ := publish_pass_ok h hty1 hr
        exact ⟨a, c⟩

/-- A pass of `add_fsevent` that skips the dedup filter leaves the dedup record
alone, up to a reset of its type and time. -/
theorem add_fsevent_pass_frame {s : fsevents_state} {type : Int} {ap : List va_word}
    {env : fse_env} {now : Nat} {l : add_locals} {links : List link_reply} {res : pass_result}
    (h : sys_ok s (fun _ => 0)) (hskip : l.path_override ≠ none ∨ dedup_exempt type = true)
    (hr : add_fsevent_pass s type ap env now l links = some res) :
    frame s (pass_state res) := by
  unfold add_fsevent_pass at hr
  split at hr
  · cases hr; exact frame_refl _
  · rename_i hty
    have hty1 : 0 ≤ type ∧ type < FSE_MAX_EVENTS := by
      constructor <;> omega
    split at hr
    · cases hr; exact frame_refl _
    · split at hr
      · rename_i hc
        rcases hskip with g | g
        · exact absurd hc.1 g
        · rw [hc.2] at g; cases g
      · exact (publish_pass_ok h hty1 hr).2.1

/-- All passes of `add_fsevent` keep the invariant. -/
theorem add_fsevent_loop_ok (type : Int) (ap : List va_word) (env : fse_env) :
    ∀ (fuel : Nat) (s : fsevents_state) (now : Nat) (l : add_locals) (links : List link_reply)
      (r : Int) (s1 : fsevents_state), sys_ok s (fun _ => 0) →
      add_fsevent_loop type ap env fuel s now l links = some (r, s1) →
      sys_ok s1 (fun _ => 0) := by
  intro fuel
  induction fuel with
  | zero => intro s now l links r s1 _ hr; simp [add_fsevent_loop] at hr
  | succ n ih =>
    intro s now l links r s1 h hr
    simp only [add_fsevent_loop] at hr
    split at hr
    · cases hr
    · rename_i err s2 hp
      cases hr
      exact (add_fsevent_pass_ok h hp).1
    · rename_i s2 l2 links2 now2 hp
      exact ih s2 now2 l2 links2 r s1 (add_fsevent_pass_ok h hp).1 hr

/-- Passes of `add_fsevent` that skip the dedup filter leave the dedup record
alone, up to a reset of its type and time. -/
theorem add_fsevent_loop_frame (type : Int) (ap : List va_word) (env : fse_env) :
    ∀ (fuel : Nat) (s : fsevents_state) (now : Nat) (l : add_locals) (links : List link_reply)
      (r : Int) (s1 : fsevents_state), sys_ok s (fun _ => 0) →
      (l.path_override ≠ none ∨ dedup_exempt type = true) →
      add_fsevent_loop type ap env fuel s now l links = some (r, s1) → frame s s1 := by
  intro fuel
  induction fuel with
  | zero => intro s now l links r s1 _ _ hr; simp [add_fsevent_loop] at hr
  | succ n ih =>
    intro s now l links r s1 h hskip hr
    simp only [add_fsevent_loop] at hr
    split at hr
    · cases hr
    · rename_i err s2 hp
      cases hr
      exact add_fsevent_pass_frame h hskip hp
    · rename_i s2 l2 links2 now2 hp
      have hov : l2.path_override ≠ none := (add_fsevent_pass_ok h hp).2
      exact frame_trans (add_fsevent_pass_frame h hskip hp)
        (ih s2 now2 l2 links2 r s1 (add_fsevent_pass_ok h hp).1 (Or.inl hov) hr)

/-- The entry point `add_fsevent` keeps the invariant. -/
theorem add_fsevent_ok {s s1 : fsevents_state} {type : Int} {ap : List va_word}
    {env : fse_env} {r : Int} (h : sys_ok s (fun _ => 0))
    (hr : add_fsevent s type ap env = some (r, s1)) : sys_ok s1 (fun _ => 0) := by
  unfold add_fsevent at hr
  dsimp only at hr
  split at hr <;> exact add_fsevent_loop_ok _ ap env _ s _ _ _ r s1 h hr

/-- The body of the read loop changes the state at most by forgetting the last
event. -/
theorem watch_body_state {s : fsevents_state} {w : fs_event_watcher} {u : uio}
    {v : watch_locals} {nx : watch_next} (h : watch_body s w u v = some nx) :
    match nx with
    | watch_next.stop s1 _ _ _ => s1 = s ∨ ∃ p, s1 = forget_last_event s p
    | watch_next.advance p s1 _ _ =>
      w.event_queue.getD w.rd none = some p ∧ (s1 = s ∨ s1 = forget_last_event s p) := by
  unfold watch_body at h
  split at h
  · cases h; exact Or.inl rfl
  · split at h
    · cases h; exact Or.inl rfl
    · rename_i p hp
      split at h
      · cases h
      · split at h
        · cases h; exact Or.inl rfl
        · split at h
          · split at h
            · cases h; exact ⟨hp, Or.inl rfl⟩
            · split at h
              · cases h
              · split at h
                · split at h
                  · cases h; exact Or.inr ⟨p, rfl⟩
                  · cases h; exact ⟨hp, Or.inr rfl⟩
                · cases h; exact ⟨hp, Or.inr rfl⟩
          · cases h; exact ⟨hp, Or.inl rfl⟩

theorem forget_or_same {s s1 : fsevents_state} (h : s1 = s ∨ ∃ p, s1 = forget_last_event s p) :
    s1.event_zone = s.event_zone ∧ s1.watcher_table = s.watcher_table ∧ frame s s1 := by
  rcases h with rfl | ⟨p, rfl⟩
  · exact ⟨rfl, rfl, frame_refl _⟩
  · exact ⟨forget_zone _ _, forget_table _ _, frame_forget _ _⟩

theorem zone_shrinks_of_eq {z z1 : List (Option kfs_event)} (h : z1 = z) : zone_shrinks z z1 := by
  subst h; exact zone_shrinks_refl _

/-- The read loop of `fmod_watch`, run on the reader's view of its watcher. -/
theorem watch_loop_ok (base : Nat → Nat) : ∀ (fuel : Nat) (s : fsevents_state)
    (w : fs_event_watcher) (u : uio) (v : watch_locals) (s1 : fsevents_state)
    (w1 : fs_event_watcher) (u1 : uio) (v1 : watch_locals) (ex : watch_exit),
    ring_ok w → zone_ok s.event_zone (fun p => base p + (pending w).count (some p)) →
    watch_loop fuel s w u v = some (s1, w1, u1, v1, ex) →
    ring_ok w1 ∧ (∃ q r, w1 = { w with event_queue := q, rd := r }) ∧
      s1.watcher_table = s.watcher_table ∧
      zone_ok s1.event_zone (fun p => base p + (pending w1).count (some p)) ∧
      zone_shrinks s.event_zone s1.event_zone ∧ frame s s1 ∧
      (∀ x ∈ pending w1, x ∈ pending w) := by
  intro fuel
  induction fuel with
  | zero =>
    intro s w u v s1 w1 u1 v1 ex hr hz h
    simp only [watch_loop] at h
    split at h
    · cases h
    · cases h
      exact ⟨hr, ⟨_, _, rfl⟩, rfl, hz, zone_shrinks_refl _, frame_refl _, fun x hx => hx⟩
  | succ n ih =>
    intro s w u v s1 w1 u1 v1 ex hr hz h
    simp only [watch_loop] at h
    split at h
    · rename_i hc
      split at h
      · cases h
      · rename_i s2 u2 v2 ex2 hb
        cases h
        obtain ⟨a, b, c⟩ := forget_or_same (watch_body_state hb)
        exact ⟨hr, ⟨_, _, rfl⟩, b, by rw [a]; exact hz, zone_shrinks_of_eq a, c,
          fun x hx => hx⟩
      · rename_i p s2 u2 v2 hb
        obtain ⟨hp, hs2⟩ := watch_body_state hb
        obtain ⟨a, b, c⟩ := @forget_or_same s s2
          (hs2.elim Or.inl (fun g => Or.inr ⟨p, g⟩))
        split at h
        · cases h
        · rename_i s3 hrel
          obtain ⟨hpd, hok1, _⟩ := @pending_dequeue _ (dequeued w) hr hc.2 rfl rfl rfl rfl
          rw [hp] at hpd
          have hz2 : zone_ok s2.event_zone (fun p => base p + (pending w).count (some p)) := by
            rw [a]; exact hz
          have hcnt : 1 ≤ base p + (pending w).count (some p) := by
            rw [hpd, List.count_cons_self]; omega
          obtain ⟨e, he, hl⟩ := zone_ok_alloc_of_pos hz2 hcnt
          obtain ⟨s4, hrel4, htab, hz4, hsh⟩ := release_event_ref_ok hz2 he hl
          rw [hrel] at hrel4; cases hrel4
          have hz3 : zone_ok s3.event_zone
              (fun q => base q + (pending (dequeued w)).count (some q)) := by
            apply zone_ok_congr hz4
            intro q
            rw [hpd]
            by_cases hq : q = p
            · subst hq; simp
            · simp [hq, List.count_cons, Ne.symm hq]
          obtain ⟨r1, ⟨q, r, r2⟩, r3, r4, r5, r6, r7⟩ := ih s3 (dequeued w) u2 v2 s1 w1 u1 v1 ex
            hok1 hz3 h
          refine ⟨r1, ⟨q, r, r2⟩, r3.trans (htab.trans b), r4,
            zone_shrinks_trans (zone_shrinks_trans (zone_shrinks_of_eq a) hsh) r5,
            frame_trans (frame_trans c (frame_release hrel)) r6, fun x hx => ?_⟩
          rw [hpd]
          exact List.mem_cons_of_mem _ (r7 x hx)
    · cases h
      exact ⟨hr, ⟨_, _, rfl⟩, rfl, hz, zone_shrinks_refl _, frame_refl _, fun x hx => hx⟩

theorem emit_dropped_flags {w w1 : fs_event_watcher} {u u1 : uio} {lf lf1 e : Int}
    (h : emit_dropped w u lf = (e, w1, u1, lf1)) :
    ∃ f, w1 = { w with flags := f } ∧
      has_flag f WATCHER_CLOSING = has_flag w.flags WATCHER_CLOSING := by
  unfold emit_dropped at h
  split at h
  · split at h
    split at h
    · split at h
      split at h
      split at h
      · cases h; exact ⟨_, rfl, rfl⟩
      · cases h; exact ⟨_, rfl, has_flag_and_mask _ _ _ _ (by decide)⟩
    · cases h; exact ⟨_, rfl, rfl⟩
  · cases h; exact ⟨_, rfl, rfl⟩

/-- The body of `fmod_watch`, run on the reader's view of its watcher. -/
theorem watch_from_restart_ok (sleep_err : Int) (base : Nat → Nat) : ∀ (fuel : Nat)
    (s : fsevents_state) (w : fs_event_watcher) (u : uio) (lf : Int) (err : Int)
    (s1 : fsevents_state) (w1 : fs_event_watcher) (u1 : uio),
    ring_ok w → zone_ok s.event_zone (fun p => base p + (pending w).count (some p)) →
    watch_from_restart sleep_err fuel s w u lf = some (err, s1, w1, u1) →
    ring_ok w1 ∧ same_ring w w1 ∧ s1.watcher_table = s.watcher_table ∧
      zone_ok s1.event_zone (fun p => base p + (pending w1).count (some p)) ∧
      zone_shrinks s.event_zone s1.event_zone ∧ frame s s1 ∧
      (∀ x ∈ pending w1, x ∈ pending w) := by
  intro fuel
  induction fuel with
  | zero => intro s w u lf err s1 w1 u1 _ _ h; simp [watch_from_restart] at h
  | succ n ih =>
    intro s w u lf err s1 w1 u1 hr hz h
    have hleave : ∀ (e : Int) (s2 : fsevents_state) (w2 : fs_event_watcher) (u2 : uio),
        some (e, s2, ({ w2 with num_readers := w2.num_readers - 1 } : fs_event_watcher), u2) =
          some (err, s1, w1, u1) →
        ring_ok w2 → same_ring w w2 → s2.watcher_table = s.watcher_table →
        zone_ok s2.event_zone (fun p => base p + (pending w2).count (some p)) →
        zone_shrinks s.event_zone s2.event_zone → frame s s2 →
        (∀ x ∈ pending w2, x ∈ pending w) →
        ring_ok w1 ∧ same_ring w w1 ∧ s1.watcher_table = s.watcher_table ∧
          zone_ok s1.event_zone (fun p => base p + (pending w1).count (some p)) ∧
          zone_shrinks s.event_zone s1.event_zone ∧ frame s s1 ∧
          (∀ x ∈ pending w1, x ∈ pending w) := by
      intro e s2 w2 u2 heq a b c d e1 f g
      cases heq
      exact ⟨ring_ok_congr a rfl rfl rfl rfl, b, c, d, e1, f, g⟩
    have hsame : same_ring w w := ⟨rfl, rfl, rfl, rfl⟩
    simp only [watch_from_restart] at h
    split at h
    · exact hleave _ _ _ _ h hr hsame rfl hz (zone_shrinks_refl _) (frame_refl _) (fun x hx => hx)
    · split at h
      · exact hleave _ _ _ _ h hr hsame rfl hz (zone_shrinks_refl _) (frame_refl _)
          (fun x hx => hx)
      · rcases hem : emit_dropped w u lf with ⟨e2, w2, u2, lf2⟩
        rw [hem] at h
        dsimp only at h
        obtain ⟨f, hf, hfc⟩ := emit_dropped_flags hem
        subst hf
        have hsame2 : same_ring w ({ w with flags := f } : fs_event_watcher) :=
          ⟨rfl, rfl, rfl, hfc⟩
        have hr2 : ring_ok ({ w with flags := f } : fs_event_watcher) :=
          ring_ok_congr hr rfl rfl rfl rfl
        split at h
        · exact hleave _ _ _ _ h hr2 hsame2 rfl hz (zone_shrinks_refl _) (frame_refl _)
            (fun x hx => hx)
        · split at h
          · cases h
          · rename_i s3 w3 u3 v3 hl
            obtain ⟨r1, ⟨q, r, r2⟩, r3, r4, r5, r6, r7⟩ :=
              watch_loop_ok base _ _ _ _ _ _ _ _ _ _ hr2 hz hl
            subst r2
            exact hleave _ _ _ _ h r1 hsame2 r3 r4 r5 r6 r7
          · rename_i s3 w3 u3 v3 hl
            obtain ⟨r1, ⟨q, r, r2⟩, r3, r4, r5, r6, r7⟩ :=
              watch_loop_ok base _ _ _ _ _ _ _ _ _ _ hr2 hz hl
            subst r2
            split at h
            · obtain ⟨i1, i2, i3, i4, i5, i6, i7⟩ := ih _ _ _ _ _ _ _ _ r1 r4 h
              exact ⟨i1, ⟨i2.1, i2.2.1, i2.2.2.1, i2.2.2.2.trans hfc⟩, i3.trans r3, i4,
                zone_shrinks_trans r5 i5, frame_trans r6 i6, fun x hx => r7 x (i7 x hx)⟩
            · exact hleave _ _ _ _ h r1 hsame2 r3 r4 r5 r6 r7

/-- A read keeps the invariant. -/
theorem fmod_watch_ok {s s1 : fsevents_state} {j : Nat} {u u1 : uio} {sleep_err r : Int}
    (h : sys_ok s (fun _ => 0)) (hr : fmod_watch s j u sleep_err = some (r, s1, u1)) :
    sys_ok s1 (fun _ => 0) ∧ frame s s1 := by
  unfold fmod_watch at hr
  split at hr
  · cases hr; exact ⟨h, frame_refl _⟩
  · rename_i w hw
    split at hr
    · cases hr; exact ⟨h, frame_refl _⟩
    · split at hr
      · cases hr; exact ⟨h, frame_refl _⟩
      · split at hr
        · cases hr; exact ⟨h, frame_refl _⟩
        · dsimp only at hr
          split at hr
          · cases hr
          · rename_i err s2 w2 u2 hwr
            cases hr
            have hi : s.watcher_table.getD j none = some w := hw
            have hlt : j < s.watcher_table.length := getD_some_lt hi
            have hwok := h.2 j w hw
            have hz0 : zone_ok s.event_zone (fun p => queue_refs (s.watcher_table.set j none) p +
                (pending ({ w with num_readers := w.num_readers + 1 } : fs_event_watcher)).count
                  (some p)) := by
              refine zone_ok_congr h.1 (fun p => ?_)
              rw [queue_refs_split hi p]
              rfl
            obtain ⟨r1, ⟨q1, q2, q3, q4⟩, r3, r4, r5, r6, r7⟩ := watch_from_restart_ok sleep_err
              (fun p => queue_refs (s.watcher_table.set j none) p) _ s _ u _ _ _ _ _
              (@ring_ok_congr _ { w with num_readers := w.num_readers + 1 } hwok.1
                rfl rfl rfl rfl) hz0 hwr
            refine ⟨sys_ok_set_watcher (by rw [r3]; exact hlt) ?_ ?_ ?_,
              frame_trans r6 (frame_set_watcher _ _ _)⟩
            · rw [r3]
              exact zone_ok_congr r4 (fun p => by omega)
            · refine ⟨r1, ?_, fun x hx => ?_, by rw [q4]; exact hwok.2.2.2⟩
              · rw [r6.max_kfs_events, q1]; exact hwok.2.1
              · obtain ⟨p, e, a1, a2, a3⟩ := hwok.2.2.1 x (r7 x hx)
                have hc : 1 ≤ (pending w2).count (some p) :=
                  List.count_pos_iff.mpr (by rw [← a1]; exact hx)
                obtain ⟨e2, b1, _⟩ := zone_ok_alloc_of_pos r4 (p := p) (by show 1 ≤ _ + _; omega)
                obtain ⟨e0, c1, c2⟩ := zone_shrinks_type r5 b1
                rw [a2] at c1; cases c1
                exact ⟨p, e2, a1, b1, by rw [c2, q2]; exact a3⟩
            · intro i wi hij hgi
              have hgi0 : s.watcher_table.getD i none = some wi := by
                have : s2.watcher_table.getD i none = some wi := hgi
                rw [r3] at this
                exact this
              rw [r6.max_kfs_events]
              refine watcher_ok_mono (h.2 i wi hgi0) (fun x hx p e hxp hp => ?_)
              have hgi1 : (s.watcher_table.set j none).getD i none = some wi := by
                rw [getD_set_eq, if_neg (fun g => hij g.1.symm)]; exact hgi0
              have hpos := queue_refs_pos hgi1 (by rw [← hxp]; exact hx)
              obtain ⟨e2, b1, _⟩ := zone_ok_alloc_of_pos r4 (p := p) (by show 1 ≤ _ + _; omega)
              obtain ⟨e0, c1, c2⟩ := zone_shrinks_type r5 b1
              rw [hp] at c1; cases c1
              exact ⟨e2, b1, c2⟩

theorem first_free_watcher_some : ∀ (t : List (Option fs_event_watcher)) (i : Nat),
    first_free_watcher t = some i → i < t.length ∧ t.getD i none = none := by
  intro t
  induction t with
  | nil => intro i h; simp [first_free_watcher] at h
  | cons a rest ih =>
    intro i h
    cases a with
    | none =>
      simp only [first_free_watcher, Option.some.injEq] at h
      subst h
      simp
    | some e =>
      simp only [first_free_watcher, Option.map_eq_some'] at h
      obtain ⟨q, hq, rfl⟩ := h
      obtain ⟨h1, h2⟩ := ih q hq
      exact ⟨by simpa using h1, by simpa using h2⟩

theorem getD_replicate_none {α : Type} (n i : Nat) :
    (List.replicate n (none : Option α)).getD i none = none := by
  rw [List.getD_eq_getElem?_getD]
  by_cases hi : i < n
  · simp [List.getElem?_replicate, hi]
  · simp [List.getElem?_replicate, hi]

/-- Registering a watcher with an empty ring in a free slot. -/
theorem sys_ok_new_watcher {s : fsevents_state} {i : Nat} {w1 : fs_event_watcher}
    (h : sys_ok s (fun _ => 0)) (hlt : i < s.watcher_table.length)
    (hfree : s.watcher_table.getD i none = none) (hrd : w1.rd = 0) (hwr : w1.wr = 0)
    (hq : w1.event_queue = List.replicate w1.eventq_size none)
    (hsz : 1 ≤ s.max_kfs_events → 1 ≤ w1.eventq_size)
    (hf : has_flag w1.flags WATCHER_CLOSING = false) :
    sys_ok (set_watcher s i (some w1)) (fun _ => 0) := by
  have hempty : pending w1 = [] := pending_nil_of_eq (by rw [hrd, hwr])
  have hring : ring_ok w1 := by
    refine ⟨by rw [hq]; simp, ?_, ?_, fun i _ => ?_⟩
    · rw [hrd]; by_cases g : w1.eventq_size = 0
      · exact Or.inr ⟨g, rfl⟩
      · exact Or.inl (by omega)
    · rw [hwr]; by_cases g : w1.eventq_size = 0
      · exact Or.inr ⟨g, rfl⟩
      · exact Or.inl (by omega)
    · rw [hq]; exact getD_replicate_none _ _
  refine sys_ok_set_watcher hlt ?_ ⟨hring, hsz, fun x hx => ?_, hf⟩
    (fun j wj _ hj => h.2 j wj hj)
  · refine zone_ok_congr h.1 (fun p => ?_)
    rw [hempty, queue_refs_set_none hfree hlt none p]
    simp [slot_refs]
  · rw [hempty] at hx; cases hx

/-- Registering a watcher keeps the invariant. -/
theorem add_watcher_ok {s : fsevents_state} (event_list : List Int) (num_events eventq_size : Int)
    (task : watcher_owner) (h : sys_ok s (fun _ => 0)) :
    sys_ok (add_watcher s event_list num_events eventq_size task).2.2 (fun _ => 0) := by
  unfold add_watcher
  dsimp only
  split
  · exact h
  · split
    · exact h
    · rename_i i hi
      obtain ⟨hlt, hfree⟩ := first_free_watcher_some _ _ hi
      refine sys_ok_of_eq (s := set_watcher s i _) ?_ rfl rfl rfl
      refine sys_ok_new_watcher h hlt hfree ?_ ?_ ?_ ?_ ?_
      · split <;> rfl
      · split <;> rfl
      · split <;> rfl
      · intro hm
        have : (1 : Int) ≤ if eventq_size ≤ 0 ∨
            eventq_size > wrap32 (100 * (s.max_kfs_events : Int)) then
            (s.max_kfs_events : Int) else eventq_size := by
          split
          · exact_mod_cast hm
          · rename_i hc
            push_neg at hc
            omega
        split <;> (show 1 ≤ Int.toNat _; omega)
      · split
        · exact (has_flag_or_other 0 WATCHER_APPLE_SYSTEM_SERVICE WATCHER_CLOSING
            (by decide)).trans (by decide)
        · show has_flag 0 WATCHER_CLOSING = false
          decide

/-- Removing a watcher keeps the invariant. -/
theorem remove_watcher_ok {s s1 : fsevents_state} {j : Nat} (h : sys_ok s (fun _ => 0))
    (hr : remove_watcher s j = some s1) : sys_ok s1 (fun _ => 0) := by
  unfold remove_watcher at hr
  split at hr
  · cases hr; exact h
  · rename_i w hw
    have hi : s.watcher_table.getD j none = some w := hw
    have hlt : j < s.watcher_table.length := getD_some_lt hi
    have hwok := h.2 j w hw
    have hz0 : zone_ok s.event_zone (fun p => queue_refs (s.watcher_table.set j none) p +
        (pending w).count (some p)) :=
      zone_ok_congr h.1 (fun p => by rw [queue_refs_split hi p]; rfl)
    have hothers : ∀ i wi, (s.watcher_table.set j none).getD i none = some wi →
        watcher_ok s.event_zone s.max_kfs_events wi := by
      intro i wi hg
      rw [getD_set_eq] at hg
      split at hg
      · cases hg
      · exact h.2 i wi hg
    dsimp only at hr
    split at hr
    · rename_i hc
      rw [hwok.2.2.2] at hc
      cases hc
    · split at hr
      · cases hr
      · split at hr
        · cases hr
        · rename_i s2 w2 hd
          cases hr
          have hring : ring_ok ({ w with
              flags := w.flags ||| WATCHER_CLOSING,
              num_readers := w.num_readers + 1 } : fs_event_watcher) :=
            ring_ok_congr hwok.1 rfl rfl rfl rfl
          have hfuel : num_pending w ≤ w.eventq_size := by
            by_cases g : w.eventq_size = 0
            · rcases hwok.1.rd_lt with g1 | ⟨_, g1⟩
              · omega
              · rcases hwok.1.wr_lt with g2 | ⟨_, g2⟩
                · omega
                · simp [num_pending, g, g1, g2]
            · exact Nat.le_of_lt (num_pending_lt g)
          obtain ⟨s0, hs0⟩ : ∃ s0 : fsevents_state, s0 =
              { set_watcher s j none with
                fs_event_type_watchers :=
                  bump_type_watchers (-1) w.event_list w.num_events
                    (set_watcher s j none).fs_event_type_watchers } := ⟨_, rfl⟩
          have hs0z : s0.event_zone = s.event_zone := by rw [hs0]; rfl
          have hs0t : s0.watcher_table = s.watcher_table.set j none := by rw [hs0]; rfl
          have hs0m : s0.max_kfs_events = s.max_kfs_events := by rw [hs0]; rfl
          rw [← hs0] at hd
          obtain ⟨s3, q, hdr, _, htab, hz3, hsh⟩ := drain_event_queue_ok w.eventq_size s0
            ({ w with
                flags := w.flags ||| WATCHER_CLOSING,
                num_readers := w.num_readers + 1 } : fs_event_watcher)
            (fun p => queue_refs (s.watcher_table.set j none) p) hring hfuel
            (by rw [hs0z]; exact hz0)
            (fun x hx => by
              obtain ⟨p, _, a1, _⟩ := hwok.2.2.1 x hx
              rw [a1]; simp)
          have hd1 : drain_event_queue w.eventq_size s0
              ({ w with
                  flags := w.flags ||| WATCHER_CLOSING,
                  num_readers := w.num_readers + 1 } : fs_event_watcher) =
              some (s1, w2) := hd
          rw [hdr] at hd1
          cases hd1
          refine sys_ok_of_shrinks (s := s0)
            ?_ htab (frame_drain _ hdr).max_kfs_events hsh (fun i wi hg => ?_)
          · rw [htab, hs0t]
            exact zone_ok_congr hz3 (fun p => by show _ + 0 = _; omega)
          · rw [hs0z, hs0m]
            refine hothers i wi ?_
            have : s0.watcher_table.getD i none = some wi := hg
            rw [hs0t] at this
            exact this

/-- The ioctls keep the invariant. -/
theorem fseventsf_ioctl_ok {s : fsevents_state} (j : Nat) (cmd : ioctl_cmd) (is64 kalloc_ok : Bool)
    (h : sys_ok s (fun _ => 0)) :
    sys_ok (fseventsf_ioctl s j cmd is64 kalloc_ok).2.2 (fun _ => 0) := by
  unfold fseventsf_ioctl
  split
  · exact h
  · rename_i w hw
    split
    · exact h
    · exact h
    · exact sys_ok_touch_watcher h hw rfl rfl rfl rfl rfl
        (has_flag_or_other _ _ _ (by decide))
    · exact sys_ok_touch_watcher h hw rfl rfl rfl rfl rfl
        (has_flag_or_other _ _ _ (by decide))
    · exact h
    · split
      · exact h
      · split
        · exact h
        · split
          · exact sys_ok_touch_watcher h hw rfl rfl rfl rfl rfl rfl
          · split
            · exact h
            · split
              · exact h
              · exact sys_ok_touch_watcher h hw rfl rfl rfl rfl rfl rfl
    · split
      · dsimp only
        split
        · exact sys_ok_of_eq h rfl rfl rfl
        · exact sys_ok_of_eq h rfl rfl rfl
      · exact h
    · exact h

theorem fsevent_unmount_begin_ok {s s1 : fsevents_state} {dev : Int} {env : fse_env}
    (h : sys_ok s (fun _ => 0)) (hr : fsevent_unmount_begin s dev env = some s1) :
    sys_ok s1 (fun _ => 0) := by
  unfold fsevent_unmount_begin at hr
  split at hr
  · cases hr; exact h
  · split at hr
    · cases hr; exact h
    · dsimp only at hr
      split at hr
      · cases hr
      · rename_i r s2 ha
        cases hr
        refine add_fsevent_ok ?_ ha
        exact sys_ok_of_eq h rfl rfl rfl

theorem fsevent_unmount_timeout_ok {s : fsevents_state} (dev : Int)
    (h : sys_ok s (fun _ => 0)) : sys_ok (fsevent_unmount_timeout s dev) (fun _ => 0) := by
  unfold fsevent_unmount_timeout
  split
  · exact sys_ok_of_eq h rfl rfl rfl
  · exact h

theorem queue_refs_replicate (n p : Nat) :
    queue_refs (List.replicate n none) p = 0 := by
  simp [queue_refs, slot_refs]

theorem init_ok (max : Nat) : sys_ok (fsevents_internal_init max) (fun _ => 0) := by
  refine ⟨⟨fun p _ => ?_, fun p e hp => ?_⟩, fun i w hw => ?_⟩
  · show queue_refs (List.replicate MAX_WATCHERS none) p + 0 = 0
    rw [queue_refs_replicate]
  · have : (List.replicate max (none : Option kfs_event)).getD p none = some e := hp
    rw [getD_replicate_none] at this
    cases this
  · have : (List.replicate MAX_WATCHERS (none : Option fs_event_watcher)).getD i none = some w := hw
    rw [getD_replicate_none] at this
    cases this

/-- The invariant holds in every reachable state. -/
theorem reachable_inv {s : fsevents_state} (h : reachable s) : sys_ok s (fun _ => 0) := by
  induction h with
  | init max => exact init_ok max
  | add_watcher event_list num_events eventq_size task _ ih =>
    exact add_watcher_ok event_list num_events eventq_size task ih
  | remove_watcher j _ hr ih => exact remove_watcher_ok ih hr
  | add_fsevent type ap env r _ hr ih => exact add_fsevent_ok ih hr
  | fmod_watch j u u1 sleep_err r _ hr ih => exact (fmod_watch_ok ih hr).1
  | ioctl j cmd is64 kalloc_ok _ ih => exact fseventsf_ioctl_ok j cmd is64 kalloc_ok ih
  | timer _ ih => exact sys_ok_of_eq ih rfl rfl rfl
  | unmount_begin dev env _ hr ih => exact fsevent_unmount_begin_ok ih hr
  | unmount_timeout dev _ ih => exact fsevent_unmount_timeout_ok dev ih

/-- In a well-formed ring whose pending entries are all non-NULL, the non-NULL
slots of the array are exactly the pending ones. -/
theorem held_slots_eq {w : fs_event_watcher} (h : ring_ok w)
    (hnn : ∀ x ∈ pending w, x ≠ none) : held_slots w = num_pending w := by
  by_cases hsz : w.eventq_size = 0
  · have hrd : w.rd = 0 := by rcases h.rd_lt with g | ⟨_, g⟩ <;> omega
    have hwr : w.wr = 0 := by rcases h.wr_lt with g | ⟨_, g⟩ <;> omega
    simp [held_slots, num_pending, hsz, hrd, hwr]
  · have hrd : w.rd < w.eventq_size := by rcases h.rd_lt with g | ⟨g, _⟩ <;> omega
    have hlt := num_pending_lt hsz
    have hinj : ∀ x ∈ List.range (num_pending w), ∀ y ∈ List.range (num_pending w),
        (w.rd + x) % w.eventq_size = (w.rd + y) % w.eventq_size → x = y := by
      intro x hx y hy hxy
      rw [List.mem_range] at hx hy
      rw [ring_index hrd (by omega), ring_index hrd (by omega)] at hxy
      split_ifs at hxy <;> omega
    have hperm : List.Perm ((List.range w.eventq_size).filter
          (fun i => (w.event_queue.getD i none).isSome))
        ((List.range (num_pending w)).map (fun k => (w.rd + k) % w.eventq_size)) := by
      rw [List.perm_ext_iff_of_nodup ((List.nodup_range _).filter _)
        ((List.nodup_range _).map_on hinj)]
      intro a
      simp only [List.mem_filter, List.mem_range, List.mem_map]
      constructor
      · rintro ⟨_, ha⟩
        by_contra hc
        push_neg at hc
        rw [h.clean a hc] at ha
        cases ha
      · rintro ⟨k, hk, rfl⟩
        refine ⟨Nat.mod_lt _ (Nat.pos_of_ne_zero hsz), ?_⟩
        have hmem : w.event_queue.getD ((w.rd + k) % w.eventq_size) none ∈ pending w := by
          simp only [pending, List.mem_map, List.mem_range]
          exact ⟨k, hk, rfl⟩
        have := hnn _ hmem
        cases hq : w.event_queue.getD ((w.rd + k) % w.eventq_size) none with
        | none => exact absurd hq this
        | some _ => rfl
    unfold held_slots
    rw [hperm.length_eq, List.length_map, List.length_range]

/-- The local `num_pending` of `watcher_add_event` is the number of pending
entries. -/
theorem pending_count_eq {w : fs_event_watcher} (hrd : w.rd < w.eventq_size)
    (hwr : w.wr < w.eventq_size) : pending_count w = (num_pending w : Int) := by
  rw [num_pending_eq hrd hwr]
  unfold pending_count
  dsimp only
  split_ifs <;> omega

theorem wrap32_le (x : Int) (hx : 0 ≤ x) : wrap32 x ≤ x := by
  unfold wrap32
  omega

theorem tdiv4_le (a : Int) (b : Int) (hb : 0 ≤ b) (hab : a ≤ b) : a.tdiv 4 ≤ b / 4 := by
  by_cases ha : 0 ≤ a
  · rw [Int.tdiv_eq_ediv ha (by decide)]
    omega
  · have h1 : a.tdiv 4 ≤ 0 := by
      have : a = -(-a) := by omega
      rw [this, Int.neg_tdiv]
      have := Int.tdiv_nonneg (a := -a) (b := 4) (by omega) (by decide)
      omega
    omega

/-- Above three quarters of the ring, a watcher that is not a system service is
falling behind. -/
theorem falling_behind_of_gt {w : fs_event_watcher} (hrd : w.rd < w.eventq_size)
    (hwr : w.wr < w.eventq_size) (h : 4 * num_pending w > 3 * w.eventq_size)
    (hp : has_flag w.flags WATCHER_APPLE_SYSTEM_SERVICE = false) :
    falling_behind w = true := by
  unfold falling_behind
  rw [pending_count_eq hrd hwr, hp]
  simp only [Bool.not_false, Bool.and_true, decide_eq_true_eq, gt_iff_lt]
  have h1 := tdiv4_le (wrap32 ((w.eventq_size : Int) * 3)) ((w.eventq_size : Int) * 3)
    (by omega) (wrap32_le _ (by omega))
  omega

theorem falling_behind_privileged {w : fs_event_watcher}
    (hp : has_flag w.flags WATCHER_APPLE_SYSTEM_SERVICE = true) : falling_behind w = false := by
  simp [falling_behind, hp]

/-! ## Scenario facts -/

set_option maxRecDepth 100000

theorem scn_one_watcher_reachable : reachable scn_one_watcher :=
  reachable.add_watcher _ _ _ _ (reachable.init 4)

theorem scn_published_eq :
    add_fsevent scn_one_watcher FSE_CONTENT_MODIFIED scn_path_args (scn_env 1000) =
      some (0, scn_published) := by decide

theorem scn_published_reachable : reachable scn_published :=
  reachable.add_fsevent _ _ _ _ scn_one_watcher_reachable scn_published_eq

theorem scn_event_eq : scn_published.event_zone.getD 0 none = some scn_event := by decide

/-! ## C1 -/

/-- C1, as stated, fails: after one publish to one watcher the event carries
`KFSE_ON_LIST`, is referenced by one queue slot, and its reference count is 1,
not 2. -/
theorem C1_counterexample :
    ¬ ∀ s, reachable s → ∀ p e, s.event_zone.getD p none = some e →
      e.refcount = (if on_list e = true then 1 else 0) + (queue_refs s.watcher_table p : Int) := by
  intro h
  have h1 := h scn_published scn_published_reachable 0 scn_event scn_event_eq
  revert h1
  decide

/-- C1 (amended): in every state reachable between two entry points, an event
that carries `KFSE_ON_LIST` has a reference count equal to the number of
watcher queue slots that reference it, which is at least one; an event in use
without the flag (a linked destination) has reference count 1 and is referenced
by no queue slot; a freshly initialised event has reference count 1. -/
theorem C1_refcount_counts_queue_slots {s : fsevents_state} (h : reachable s) {p : Nat}
    {e : kfs_event} (he : s.event_zone.getD p none = some e) :
    (on_list e = true →
      e.refcount = (queue_refs s.watcher_table p : Int) ∧ 1 ≤ queue_refs s.watcher_table p) ∧
    (on_list e = false → e.refcount = 1 ∧ queue_refs s.watcher_table p = 0) ∧
    (∀ type now pid, (kfse_init type now pid).refcount = 1) := by
  have hz := (reachable_inv h).1
  obtain ⟨a, b, _, _⟩ := hz.2 p e he
  refine ⟨fun hl => ?_, fun hl => ?_, fun _ _ _ => rfl⟩
  · obtain ⟨a1, a2, _⟩ := a hl
    exact ⟨by simpa using a1, by simpa using a2⟩
  · obtain ⟨b1, _, b3⟩ := b hl
    exact ⟨b1, by simpa using b3⟩

/-- C1 (amended) at the state after one publish to one watcher. -/
theorem C1_refcount_counts_queue_slots_witness :
    reachable scn_published ∧ scn_published.event_zone.getD 0 none = some scn_event ∧
    ((on_list scn_event = true →
      scn_event.refcount = (queue_refs scn_published.watcher_table 0 : Int) ∧
        1 ≤ queue_refs scn_published.watcher_table 0) ∧
    (on_list scn_event = false →
      scn_event.refcount = 1 ∧ queue_refs scn_published.watcher_table 0 = 0) ∧
    (∀ type now pid, (kfse_init type now pid).refcount = 1)) :=
  ⟨scn_published_reachable, scn_event_eq,
    C1_refcount_counts_queue_slots scn_published_reachable scn_event_eq⟩

/-! ## The effect of `release_event_ref` -/

theorem forget_fields (s : fsevents_state) (p : Nat) :
    (forget_last_event s p).num_events_outstanding = s.num_events_outstanding ∧
    (forget_last_event s p).kfse_list_head = s.kfse_list_head ∧
    (forget_last_event s p).zfree_log = s.zfree_log ∧
    (forget_last_event s p).names = s.names ∧
    (forget_last_event s p).num_pending_rename = s.num_pending_rename := by
  unfold forget_last_event
  split <;> exact ⟨rfl, rfl, rfl, rfl, rfl⟩

theorem freed_by_iff (e : kfs_event) (p q : Nat) :
    freed_by e p q ↔ q = p ∨ owned_dest e = some q := by
  unfold freed_by owned_dest
  constructor
  · rintro (h | ⟨h1, h2, h3, h4⟩)
    · exact Or.inl h
    · exact Or.inr (by rw [if_pos ⟨h1, h2, h3⟩]; exact h4)
  · rintro (h | h)
    · exact Or.inl h
    · split at h
      · rename_i hc
        exact Or.inr ⟨hc.1, hc.2.1, hc.2.2, h⟩
      · cases h

/-- The release of the last reference to an event on the list, field by
field. -/
theorem release_last_detail {s : fsevents_state} {p : Nat} {e : kfs_event} {cnt : Nat → Nat}
    (hz : zone_ok s.event_zone cnt) (he : deref s p = some e) (hl : on_list e = true)
    (hrc : e.refcount = 1) :
    ∃ s1, release_event_ref s p = some s1 ∧
      s1.watcher_table = s.watcher_table ∧
      s1.num_events_outstanding = s.num_events_outstanding - 1 ∧
      s1.kfse_list_head = s.kfse_list_head.erase p ∧
      s1.zfree_log = (owned_dest e).toList ++ p :: s.zfree_log ∧
      s1.names = unintern (unintern s.names (owned_path e)) (dest_path s e) ∧
      (∀ q, freed_by e p q → s1.event_zone.getD q none = none) ∧
      (∀ q, ¬ freed_by e p q → s1.event_zone.getD q none = s.event_zone.getD q none) := by
  have hp : p < s.event_zone.length := getD_some_lt he
  obtain ⟨_, hz2⟩ := hz
  obtain ⟨_, _, hdest, _⟩ := hz2 p e he
  rw [release_event_ref_last he (by omega)]
  generalize hs0 : store s p { e with refcount := e.refcount - 1 } = s0
  generalize he0 : ({ e with refcount := e.refcount - 1 } : kfs_event) = e0
  have hz0 : s0.event_zone = s.event_zone.set p (some e0) := by rw [← hs0, ← he0]; rfl
  have ht0 : s0.watcher_table = s.watcher_table := by rw [← hs0]; rfl
  have hn0 : s0.num_events_outstanding = s.num_events_outstanding := by rw [← hs0]; rfl
  have hh0 : s0.kfse_list_head = s.kfse_list_head := by rw [← hs0]; rfl
  have hg0 : s0.zfree_log = s.zfree_log := by rw [← hs0]; rfl
  have hm0 : s0.names = s.names := by rw [← hs0]; rfl
  have hrc0 : ¬ e0.refcount < 0 := by rw [← he0]; simp [hrc]
  have htype : e0.type = e.type := by rw [← he0]
  have hdest0 : e0.dest = e.dest := by rw [← he0]
  have hstr0 : e0.str = e.str := by rw [← he0]
  have hfl0 : has_flag e0.flags KFSE_ON_LIST = true := by rw [← he0]; exact hl
  obtain ⟨f1, f2, f3, f4, _⟩ := forget_fields s0 p
  by_cases hreg : e.type ≠ FSE_DOCID_CREATED ∧ e.type ≠ FSE_DOCID_CHANGED ∧ e.type ≠ FSE_ACTIVITY
  · have hregb := (regular_iff e0).2 (by rw [htype]; exact hreg)
    have hod : owned_dest e = e.dest := by simp [owned_dest, hreg]
    have hop : owned_path e = e.str := by simp [owned_path, hreg]
    rcases hd : e.dest with _ | d
    · have hval : free_event s0 p e0 = some (vfs_removename_opt (vfs_removename_opt
          (zfree (unlist_events (forget_last_event s0 p) p e0 none) p) e0.str) none) := by
        simp [free_event, hrc0, hregb, hdest0, hd, drop_dest]
      have hdp : dest_path s e = none := by simp [dest_path, hod, hd]
      refine ⟨_, hval, by simp [ht0], ?_, ?_, ?_, ?_, ?_, ?_⟩
      · simp [vfs_removename_opt, zfree, unlist_events, hfl0, f1, hn0]
        cases e0.str <;> simp [vfs_removename]
      · simp [vfs_removename_opt, zfree, unlist_events, hfl0, f2, hh0]
        cases e0.str <;> simp [vfs_removename]
      · simp [vfs_removename_opt, zfree, unlist_events, hfl0, f3, hg0, hod, hd]
        cases e0.str <;> simp [vfs_removename]
      · rw [hdp, hop, ← hstr0]
        simp [vfs_removename_opt, zfree, unlist_events, hfl0, f4, hm0, unintern]
        cases e0.str <;> simp [vfs_removename, f4, hm0]
      · intro q hq
        simp only [freed_by, hd] at hq
        rcases hq with rfl | ⟨_, _, _, h⟩
        · simp [hz0, getD_set_eq, hp]
        · cases h
      · intro q hn
        have : q ≠ p := fun h => hn (Or.inl h)
        simp [hz0, getD_set_eq, Ne.symm this]
    · obtain ⟨hdp, de, hde, hdl⟩ := hdest d hd
      obtain ⟨_, hnl, _, _⟩ := hz2 d de hde
      have hdrc := (hnl hdl).1
      have hdd : d < s.event_zone.length := getD_some_lt hde
      have hde0 : deref (forget_last_event s0 p) d = some de := by
        rw [deref_eq, forget_zone, hz0, getD_set_eq, if_neg (fun h => hdp h.1.symm)]
        exact hde
      have hdfl : has_flag de.flags KFSE_ON_LIST = false := hdl
      have hval : free_event s0 p e0 = some (vfs_removename_opt (vfs_removename_opt
          (zfree (zfree (unlist_events (store (forget_last_event s0 p) d
            { de with refcount := de.refcount - 1 }) p e0
            (some (d, { de with refcount := de.refcount - 1 }))) p) d) e0.str) de.str) := by
        simp [free_event, hrc0, hregb, hdest0, hd, drop_dest, hde0, hdrc]
      have hdpath : dest_path s e = de.str := by
        unfold dest_path
        rw [hod, hd]
        show (s.event_zone.getD d none).bind _ = _
        rw [hde]; rfl
      refine ⟨_, hval, by simp [ht0], ?_, ?_, ?_, ?_, ?_, ?_⟩
      · simp [vfs_removename_opt, zfree, unlist_events, hfl0, hdfl, store, f1, hn0]
        cases e0.str <;> cases de.str <;> simp [vfs_removename]
      · simp [vfs_removename_opt, zfree, unlist_events, hfl0, hdfl, store, f2, hh0]
        cases e0.str <;> cases de.str <;> simp [vfs_removename]
      · simp [vfs_removename_opt, zfree, unlist_events, hfl0, hdfl, store, f3, hg0, hod, hd]
        cases e0.str <;> cases de.str <;> simp [vfs_removename]
      · rw [hdpath, hop, ← hstr0]
        cases e0.str <;> cases de.str <;>
          simp [vfs_removename_opt, zfree, unlist_events, hfl0, hdfl, store, f4, hm0, unintern,
            vfs_removename]
      · intro q hq
        simp only [freed_by, hd] at hq
        rcases hq with rfl | ⟨_, _, _, h⟩
        · simp [hz0, getD_set_eq, hp, hdp]
        · simp at h; subst h
          simp [hz0, getD_set_eq, hdd]
      · intro q hn
        have h1 : q ≠ p := fun h => hn (Or.inl h)
        have h2 : q ≠ d := fun h => hn (Or.inr ⟨hreg.1, hreg.2.1, hreg.2.2, by rw [h]; exact hd⟩)
        simp [hz0, getD_set_eq, Ne.symm h1, Ne.symm h2]
  · have hregb : (e0.type != FSE_DOCID_CREATED && e0.type != FSE_DOCID_CHANGED &&
        e0.type != FSE_ACTIVITY) = false := by
      rw [← Bool.not_eq_true, regular_iff, htype]; exact hreg
    have hod : owned_dest e = none := by simp [owned_dest, hreg]
    have hop : owned_path e = none := by simp [owned_path, hreg]
    have hdp : dest_path s e = none := by simp [dest_path, hod]
    have hval : free_event s0 p e0 = some (vfs_removename_opt (vfs_removename_opt
        (zfree (unlist_events (forget_last_event s0 p) p e0 none) p) none) none) := by
      simp [free_event, hrc0, hregb, drop_dest]
    refine ⟨_, hval, by simp [ht0], ?_, ?_, ?_, ?_, ?_, ?_⟩
    · simp [vfs_removename_opt, zfree, unlist_events, hfl0, f1, hn0]
    · simp [vfs_removename_opt, zfree, unlist_events, hfl0, f2, hh0]
    · simp [vfs_removename_opt, zfree, unlist_events, hfl0, f3, hg0, hod]
    · rw [hdp, hop]
      simp [vfs_removename_opt, zfree, unlist_events, hfl0, f4, hm0, unintern]
    · intro q hq
      rcases hq with rfl | ⟨h1, h2, h3, _⟩
      · simp [hz0, getD_set_eq, hp]
      · exact absurd ⟨h1, h2, h3⟩ hreg
    · intro q hn
      have : q ≠ p := fun h => hn (Or.inl h)
      simp [hz0, getD_set_eq, Ne.symm this]

theorem scn_rename_ok : sys_ok scn_rename (fun p => if p = 0 then 1 else 0) :=
  (@alloc_publish_ok _ _ _ 1000 100 _ _ (init_ok 4) (by decide)
    (show alloc_events (fsevents_internal_init 4) FSE_RENAME =
      (some 0, some 1, (alloc_events (fsevents_internal_init 4) FSE_RENAME).2.2) by decide)).1

theorem scn_rename_event_eq : deref scn_rename 0 = some scn_rename_event := by decide

/-- The effect of `release_event_ref` where `regular_event.dest` is the link the
event stores (every event but an `FSE_ACCESS_GRANTED` event whose token words 6
and 7 are not both 0, for which see `release_event_ref_union`): called by the
owner of a reference, it decrements the reference count by one; if the old
count was above 1 nothing else changes; if it was 1 the event leaves the
global list (`num_events_outstanding` decreases by one), its element and the
element of the destination it owns are returned to the pool exactly once, each
interned path is released exactly once, and no watcher queue references a
freed event. -/
theorem release_event_ref_effect {s : fsevents_state} {held : Nat → Nat} {p : Nat} {e : kfs_event}
    (hs : sys_ok s held) (hp : 1 ≤ held p) (he : deref s p = some e) :
    (e.refcount > 1 →
      release_event_ref s p = some (store s p { e with refcount := e.refcount - 1 })) ∧
    (¬ e.refcount > 1 → e.refcount - 1 = 0 ∧
      ∃ s1, release_event_ref s p = some s1 ∧
        s1.watcher_table = s.watcher_table ∧
        s1.num_events_outstanding = s.num_events_outstanding - 1 ∧
        s1.kfse_list_head = s.kfse_list_head.erase p ∧
        s1.names = unintern (unintern s.names (owned_path e)) (dest_path s e) ∧
        (∀ q, freed_by e p q →
          s1.event_zone.getD q none = none ∧ queue_refs s1.watcher_table q = 0 ∧
          s1.zfree_log.count q = s.zfree_log.count q + 1) ∧
        (∀ q, ¬ freed_by e p q →
          s1.event_zone.getD q none = s.event_zone.getD q none ∧
          s1.zfree_log.count q = s.zfree_log.count q)) := by
  obtain ⟨e0, he0, hl⟩ := zone_ok_alloc_of_pos hs.1 (p := p) (by show 1 ≤ _ + _; omega)
  have he1 : s.event_zone.getD p none = some e := he
  rw [he1] at he0; cases he0
  obtain ⟨hon, _, hdest, _⟩ := hs.1.2 p e he1
  obtain ⟨hcnt, hpos, _⟩ := hon hl
  refine ⟨fun h => release_event_ref_gt he h, fun h => ?_⟩
  have hrc : e.refcount = 1 := by
    have : (1 : Int) ≤ e.refcount := by rw [hcnt]; exact_mod_cast hpos
    omega
  obtain ⟨s1, h1, h2, h3, h4, h5, h6, h7, h8⟩ := release_last_detail hs.1 he hl hrc
  have hqp : queue_refs s.watcher_table p = 0 := by
    have : ((queue_refs s.watcher_table p + held p : Nat) : Int) = 1 := by rw [← hrc, hcnt]
    have : queue_refs s.watcher_table p + held p = 1 := by exact_mod_cast this
    omega
  have hown : ∀ d, owned_dest e = some d → d ≠ p ∧ queue_refs s.watcher_table d = 0 := by
    intro d hd
    have hed : e.dest = some d := by
      unfold owned_dest at hd
      split at hd
      · exact hd
      · cases hd
    obtain ⟨hdp, de, hde, hdl⟩ := hdest d hed
    obtain ⟨_, hoff, _, _⟩ := hs.1.2 d de hde
    have := (hoff hdl).2.2
    exact ⟨hdp, by
      have h0 : queue_refs s.watcher_table d + held d = 0 := this
      omega⟩
  refine ⟨by omega, s1, h1, h2, h3, h4, h6, fun q hq => ⟨h7 q hq, ?_, ?_⟩,
    fun q hq => ⟨h8 q hq, ?_⟩⟩
  · rw [h2]
    rcases (freed_by_iff e p q).1 hq with rfl | hd
    · exact hqp
    · exact (hown q hd).2
  · rw [h5, List.count_append, List.count_cons]
    rcases (freed_by_iff e p q).1 hq with rfl | hd
    · cases hod : owned_dest e with
      | none => simp
      | some d =>
        have := (hown d hod).1
        simp [Option.toList, List.count_cons, this]
    · have := (hown q hd).1
      simp [hd, Option.toList, List.count_cons, Ne.symm this]
      omega
  · rw [h5, List.count_append, List.count_cons]
    have h1 : q ≠ p := fun g => hq ((freed_by_iff e p q).2 (Or.inl g))
    have h2 : owned_dest e ≠ some q := fun g => hq ((freed_by_iff e p q).2 (Or.inr g))
    cases hod : owned_dest e with
    | none => simp [Option.toList, Ne.symm h1]
    | some d =>
      have : d ≠ q := fun g => h2 (by rw [hod, g])
      simp [Option.toList, List.count_cons, Ne.symm h1, this]

/-- The release of a Rename source that owns a destination: both elements are
freed. -/
theorem release_event_ref_effect_example :
    sys_ok scn_rename (fun p => if p = 0 then 1 else 0) ∧
    1 ≤ (fun p => if p = 0 then 1 else 0) 0 ∧
    deref scn_rename 0 = some scn_rename_event ∧
    ((scn_rename_event.refcount > 1 →
      release_event_ref scn_rename 0 =
        some (store scn_rename 0
          { scn_rename_event with refcount := scn_rename_event.refcount - 1 })) ∧
    (¬ scn_rename_event.refcount > 1 → scn_rename_event.refcount - 1 = 0 ∧
      ∃ s1, release_event_ref scn_rename 0 = some s1 ∧
        s1.watcher_table = scn_rename.watcher_table ∧
        s1.num_events_outstanding = scn_rename.num_events_outstanding - 1 ∧
        s1.kfse_list_head = scn_rename.kfse_list_head.erase 0 ∧
        s1.names = unintern (unintern scn_rename.names (owned_path scn_rename_event))
          (dest_path scn_rename scn_rename_event) ∧
        (∀ q, freed_by scn_rename_event 0 q →
          s1.event_zone.getD q none = none ∧ queue_refs s1.watcher_table q = 0 ∧
          s1.zfree_log.count q = scn_rename.zfree_log.count q + 1) ∧
        (∀ q, ¬ freed_by scn_rename_event 0 q →
          s1.event_zone.getD q none = scn_rename.event_zone.getD q none ∧
          s1.zfree_log.count q = scn_rename.zfree_log.count q))) :=
  ⟨scn_rename_ok, by decide, scn_rename_event_eq,
    release_event_ref_effect scn_rename_ok (by decide) scn_rename_event_eq⟩

/-! ## C3 -/

theorem scn_empty_pool_reachable : reachable scn_empty_pool :=
  reachable.add_watcher _ _ _ _ (reachable.init 0)

theorem scn_empty_pool_watcher_eq :
    get_watcher scn_empty_pool 0 = some scn_empty_pool_watcher := by decide

/-- C3, as stated, fails for a pool of capacity 0: `add_watcher` then makes a
ring of 0 slots, in which `rd = 0` is not below `eventq_size = 0`. -/
theorem C3_counterexample :
    ¬ ∀ s, reachable s → ∀ i w, get_watcher s i = some w →
      w.rd < w.eventq_size ∧ w.wr < w.eventq_size := by
  intro h
  have h1 := h scn_empty_pool scn_empty_pool_reachable 0 scn_empty_pool_watcher
    scn_empty_pool_watcher_eq
  revert h1
  decide

theorem num_pending_cast {w : fs_event_watcher} (hrd : w.rd < w.eventq_size) :
    (num_pending w : Int) = ((w.wr : Int) - (w.rd : Int)) % (w.eventq_size : Int) := by
  unfold num_pending
  rw [Int.natCast_mod, Nat.cast_sub (by omega), Nat.cast_add]
  rw [show (w.wr : Int) + w.eventq_size - w.rd = ((w.wr : Int) - w.rd) + w.eventq_size by ring,
    Int.add_emod_self]

/-- C3 (amended): in a broker whose pool has capacity at least 1, every
registered watcher in every reachable state has `rd` and `wr` below
`eventq_size`; the number of non-NULL slots of its queue is `(wr - rd) mod
eventq_size` and at most `eventq_size - 1`; and each slot from `rd` up to
`wr` holds an event in use with reference count at least 1 and a type that is
valid and below `num_events`, which is what the defensive `break` of the read
loop tests. -/
theorem C3_ring_invariant {s : fsevents_state} (h : reachable s) (hm : 1 ≤ s.max_kfs_events)
    {i : Nat} {w : fs_event_watcher} (hw : get_watcher s i = some w) :
    w.rd < w.eventq_size ∧ w.wr < w.eventq_size ∧
    (held_slots w : Int) = ((w.wr : Int) - (w.rd : Int)) % (w.eventq_size : Int) ∧
    held_slots w ≤ w.eventq_size - 1 ∧
    ∀ k, k < held_slots w →
      ∃ p e, w.event_queue.getD ((w.rd + k) % w.eventq_size) none = some p ∧
        deref s p = some e ∧
        ¬ (e.type = FSE_INVALID ∨ e.type ≥ w.num_events ∨ e.refcount < 1) := by
  have hs := reachable_inv h
  obtain ⟨hring, hsize, hpend, _⟩ := hs.2 i w hw
  have hsz : w.eventq_size ≠ 0 := by have := hsize hm; omega
  have hrd : w.rd < w.eventq_size := by rcases hring.rd_lt with g | ⟨g, _⟩ <;> omega
  have hwr : w.wr < w.eventq_size := by rcases hring.wr_lt with g | ⟨g, _⟩ <;> omega
  have hnn : ∀ x ∈ pending w, x ≠ none := by
    intro x hx
    obtain ⟨p, _, a, _⟩ := hpend x hx
    rw [a]; simp
  have hheld := held_slots_eq hring hnn
  have hlt := num_pending_lt hsz
  refine ⟨hrd, hwr, by rw [hheld]; exact num_pending_cast hrd, by omega, fun k hk => ?_⟩
  rw [hheld] at hk
  have hmem : w.event_queue.getD ((w.rd + k) % w.eventq_size) none ∈ pending w := by
    simp only [pending, List.mem_map, List.mem_range]
    exact ⟨k, hk, rfl⟩
  obtain ⟨p, e, a1, a2, a3⟩ := hpend _ hmem
  have hpos : 1 ≤ queue_refs s.watcher_table p :=
    queue_refs_pos (show s.watcher_table.getD i none = some w from hw) (by rw [← a1]; exact hmem)
  obtain ⟨e1, b1, b2⟩ := zone_ok_alloc_of_pos hs.1 (p := p) (by show 1 ≤ _ + _; omega)
  rw [a2] at b1; cases b1
  obtain ⟨c1, c2, c3, _⟩ := (hs.1.2 p e a2).1 b2
  refine ⟨p, e, a1, a2, ?_⟩
  have : (1 : Int) ≤ e.refcount := by rw [c1]; exact_mod_cast c2
  rintro (g | g | g)
  · rw [g] at c3; exact absurd c3 (by decide)
  · omega
  · omega

theorem scn_published_watcher_eq :
    get_watcher scn_published 0 = some scn_published_watcher := by decide

/-- C3 (amended) at the watcher of a broker after one publish. -/
theorem C3_ring_invariant_witness :
    reachable scn_published ∧ 1 ≤ scn_published.max_kfs_events ∧
    get_watcher scn_published 0 = some scn_published_watcher ∧
    (scn_published_watcher.rd < scn_published_watcher.eventq_size ∧
    scn_published_watcher.wr < scn_published_watcher.eventq_size ∧
    (held_slots scn_published_watcher : Int) =
      ((scn_published_watcher.wr : Int) - (scn_published_watcher.rd : Int)) %
        (scn_published_watcher.eventq_size : Int) ∧
    held_slots scn_published_watcher ≤ scn_published_watcher.eventq_size - 1 ∧
    ∀ k, k < held_slots scn_published_watcher →
      ∃ p e, scn_published_watcher.event_queue.getD
          ((scn_published_watcher.rd + k) % scn_published_watcher.eventq_size) none = some p ∧
        deref scn_published p = some e ∧
        ¬ (e.type = FSE_INVALID ∨ e.type ≥ scn_published_watcher.num_events ∨
          e.refcount < 1)) :=
  ⟨scn_published_reachable, by decide, scn_published_watcher_eq,
    C3_ring_invariant scn_published_reachable (by decide) scn_published_watcher_eq⟩

/-! ## C4 -/

/-- C4: when the ring is not full and the backpressure test does not fire,
`watcher_add_event` returns 0, adds one to the reference count of the event
and changes nothing else of it, stores the event at `queue[wr]`, advances `wr`
to `(wr + 1) mod eventq_size`, and leaves `rd` and the other slots alone. -/
theorem C4_enqueue {s : fsevents_state} {i p : Nat} {w : fs_event_watcher} {e : kfs_event}
    (hw : get_watcher s i = some w) (he : deref s p = some e) (hsz : w.eventq_size ≠ 0)
    (hwr : w.wr < w.event_queue.length) (hnf : (w.wr + 1) % w.eventq_size ≠ w.rd)
    (hnd : falling_behind (enqueued w p) = false) :
    ∃ s1 w1, watcher_add_event s i p = some (0, s1) ∧ get_watcher s1 i = some w1 ∧
      deref s1 p = some { e with refcount := e.refcount + 1 } ∧
      w1.event_queue.getD w.wr none = some p ∧
      w1.wr = (w.wr + 1) % w.eventq_size ∧ w1.rd = w.rd ∧
      ∀ j, j ≠ w.wr → w1.event_queue.getD j none = w.event_queue.getD j none := by
  obtain ⟨t, ht⟩ := watcher_add_event_room s i p w e hw he hsz hnf hnd
  have hi := get_watcher_some_lt hw
  have hp := deref_some_lt he
  refine ⟨_, _, ht, get_set_watcher_same _ i _ hi, ?_, ?_, rfl, rfl, fun j hj => ?_⟩
  · show (s.event_zone.set p _).getD p none = _
    rw [getD_set_eq, if_pos ⟨rfl, hp⟩]
  · show (w.event_queue.set w.wr (some p)).getD w.wr none = _
    rw [getD_set_eq, if_pos ⟨rfl, hwr⟩]
  · show (w.event_queue.set w.wr (some p)).getD j none = _
    rw [getD_set_eq, if_neg (fun g => hj g.1.symm)]

/-- C4 at a second enqueue of the event of `scn_published`. -/
theorem C4_enqueue_witness :
    get_watcher scn_published 0 = some scn_published_watcher ∧
    deref scn_published 0 = some scn_event ∧
    scn_published_watcher.eventq_size ≠ 0 ∧
    scn_published_watcher.wr < scn_published_watcher.event_queue.length ∧
    (scn_published_watcher.wr + 1) % scn_published_watcher.eventq_size ≠
      scn_published_watcher.rd ∧
    falling_behind (enqueued scn_published_watcher 0) = false ∧
    ∃ s1 w1, watcher_add_event scn_published 0 0 = some (0, s1) ∧
      get_watcher s1 0 = some w1 ∧
      deref s1 0 = some { scn_event with refcount := scn_event.refcount + 1 } ∧
      w1.event_queue.getD scn_published_watcher.wr none = some 0 ∧
      w1.wr = (scn_published_watcher.wr + 1) % scn_published_watcher.eventq_size ∧
      w1.rd = scn_published_watcher.rd ∧
      ∀ j, j ≠ scn_published_watcher.wr →
        w1.event_queue.getD j none = scn_published_watcher.event_queue.getD j none :=
  ⟨scn_published_watcher_eq, scn_event_eq, by decide, by decide, by decide, by decide,
    C4_enqueue scn_published_watcher_eq scn_event_eq (by decide) (by decide) (by decide)
      (by decide)⟩

/-! ## C5 -/

/-- C5: `watcher_add_event` returns `ENOSPC` exactly when `(wr + 1) mod
eventq_size = rd` on entry, and then it sets `WATCHER_DROPPED_EVENTS` and leaves
`rd`, `wr`, the queue and the event (with its reference count) as they were. -/
theorem C5_full_ring {s : fsevents_state} {i p : Nat} {w : fs_event_watcher} {e : kfs_event}
    (hw : get_watcher s i = some w) (he : deref s p = some e) (hsz : w.eventq_size ≠ 0) :
    ((∃ s1, watcher_add_event s i p = some (ENOSPC, s1)) ↔
      (w.wr + 1) % w.eventq_size = w.rd) ∧
    ((w.wr + 1) % w.eventq_size = w.rd →
      ∃ s1 w1, watcher_add_event s i p = some (ENOSPC, s1) ∧ get_watcher s1 i = some w1 ∧
        has_flag w1.flags WATCHER_DROPPED_EVENTS = true ∧ w1.rd = w.rd ∧ w1.wr = w.wr ∧
        w1.event_queue = w.event_queue ∧ s1.event_zone = s.event_zone ∧
        deref s1 p = some e) :=
  watcher_add_event_full s i p w e hw he hsz

theorem scn_full_ring_watcher_eq :
    get_watcher scn_full_ring 0 = some scn_full_ring_watcher := by decide

theorem scn_full_ring_event_eq : deref scn_full_ring 0 = some scn_event := by decide

/-- C5 at a watcher whose ring of 2 slots holds one entry. -/
theorem C5_full_ring_witness :
    get_watcher scn_full_ring 0 = some scn_full_ring_watcher ∧
    deref scn_full_ring 0 = some scn_event ∧
    scn_full_ring_watcher.eventq_size ≠ 0 ∧
    (((∃ s1, watcher_add_event scn_full_ring 0 0 = some (ENOSPC, s1)) ↔
      (scn_full_ring_watcher.wr + 1) % scn_full_ring_watcher.eventq_size =
        scn_full_ring_watcher.rd) ∧
    ((scn_full_ring_watcher.wr + 1) % scn_full_ring_watcher.eventq_size =
        scn_full_ring_watcher.rd →
      ∃ s1 w1, watcher_add_event scn_full_ring 0 0 = some (ENOSPC, s1) ∧
        get_watcher s1 0 = some w1 ∧
        has_flag w1.flags WATCHER_DROPPED_EVENTS = true ∧
        w1.rd = scn_full_ring_watcher.rd ∧ w1.wr = scn_full_ring_watcher.wr ∧
        w1.event_queue = scn_full_ring_watcher.event_queue ∧
        s1.event_zone = scn_full_ring.event_zone ∧
        deref s1 0 = some scn_event)) :=
  ⟨scn_full_ring_watcher_eq, scn_full_ring_event_eq, by decide,
    C5_full_ring scn_full_ring_watcher_eq scn_full_ring_event_eq (by decide)⟩

/-! ## C6 -/

/-- With the invariant in force, `watcher_add_event` on a ring of at least one
slot returns. -/
theorem watcher_add_event_total {s : fsevents_state} {held : Nat → Nat} {i p : Nat}
    {w : fs_event_watcher} (hs : sys_ok s held) (hp : 1 ≤ held p)
    (hw : get_watcher s i = some w) (hsz : w.eventq_size ≠ 0) :
    ∃ r s1, watcher_add_event s i p = some (r, s1) := by
  obtain ⟨e, he, hl⟩ := zone_ok_alloc_of_pos hs.1 (p := p) (by show 1 ≤ _ + _; omega)
  have hrc := ((hs.1.2 p e he).1 hl).1
  have hwok := hs.2 i w hw
  have hi : s.watcher_table.getD i none = some w := hw
  rw [watcher_add_event_eq hw he hsz]
  split
  · exact ⟨_, _, rfl⟩
  · rename_i hfull
    split
    · obtain ⟨w1, hw1⟩ : ∃ w1, w1 = enqueued { w with max_event_id :=
          if e.abstime > w.max_event_id then e.abstime else w.max_event_id } p := ⟨_, rfl⟩
      rw [← hw1]
      have f1 : w1.event_queue = w.event_queue.set w.wr (some p) := by rw [hw1]; rfl
      have f2 : w1.eventq_size = w.eventq_size := by rw [hw1]; rfl
      have f3 : w1.rd = w.rd := by rw [hw1]; rfl
      have f4 : w1.wr = (w.wr + 1) % w.eventq_size := by rw [hw1]; rfl
      obtain ⟨hpe, hrok, _⟩ := pending_enqueue (some p) hwok.1 hsz hfull f1 f2 f3 f4
      have hst : store s p { e with refcount := e.refcount + 1 } =
          store s p { e with refcount :=
            ((queue_refs s.watcher_table p + held p + 1 : Nat) : Int) } := by
        congr 2
        rw [hrc]; push_cast; ring
      have hz1 : zone_ok (store s p { e with refcount := e.refcount + 1 }).event_zone
          (fun q => queue_refs (s.watcher_table.set i none) q + held q +
            (pending w1).count (some q)) := by
        rw [hst]
        refine zone_ok_congr (zone_ok_set_refcount hs.1 he hl
          (queue_refs s.watcher_table p + held p + 1) (by omega)) (fun q => ?_)
        rw [hpe, List.count_append, queue_refs_split hi p]
        by_cases hqp : q = p
        · subst hqp; simp; omega
        · have : queue_refs s.watcher_table q =
              queue_refs (s.watcher_table.set i none) q + (pending w).count (some q) :=
            queue_refs_split hi q
          simp [hqp, Ne.symm hqp, List.count_cons]
          omega
      have hnn : ∀ x ∈ pending w1, x ≠ none := by
        intro x hx
        rw [hpe, List.mem_append, List.mem_singleton] at hx
        rcases hx with hx | hx
        · obtain ⟨q, _, a1, _⟩ := hwok.2.2.1 x hx
          rw [a1]; simp
        · rw [hx]; simp
      obtain ⟨s2, q, hdr, _⟩ := drain_event_queue_ok w1.eventq_size
        (store s p { e with refcount := e.refcount + 1 }) w1
        (fun q => queue_refs (s.watcher_table.set i none) q + held q) hrok
        (Nat.le_of_lt (num_pending_lt (by rw [f2]; exact hsz))) hz1 hnn
      rw [← f2, hdr]
      exact ⟨_, _, rfl⟩
    · exact ⟨_, _, rfl⟩

/-- C6: after `watcher_add_event` stored an event, if the pending count is above
three quarters of `eventq_size` and the watcher is not a system service, every
queued entry is released exactly once (an event loses as many references as the
queue held for it, the new entry included, and is freed when none is left), the
queue ends empty and `WATCHER_DROPPED_EVENTS` is set; the queue of a system
service is not drained by an enqueue. -/
theorem C6_backpressure {s : fsevents_state} {held : Nat → Nat} {i p : Nat}
    {w : fs_event_watcher} (hs : sys_ok s held) (hp : 1 ≤ held p)
    (hw : get_watcher s i = some w) (hsz : w.eventq_size ≠ 0)
    (hnf : (w.wr + 1) % w.eventq_size ≠ w.rd) :
    (4 * num_pending (enqueued w p) > 3 * w.eventq_size →
      has_flag w.flags WATCHER_APPLE_SYSTEM_SERVICE = false →
      ∃ s1 w1, watcher_add_event s i p = some (0, s1) ∧ get_watcher s1 i = some w1 ∧
        w1.rd = w1.wr ∧ has_flag w1.flags WATCHER_DROPPED_EVENTS = true ∧
        (∀ q e1, s1.event_zone.getD q none = some e1 →
          ∃ e0, s.event_zone.getD q none = some e0 ∧
            e1.refcount = e0.refcount - (pending w).count (some q)) ∧
        (∀ q e0, s.event_zone.getD q none = some e0 →
          e0.refcount = (pending w).count (some q) → s1.event_zone.getD q none = none)) ∧
    (has_flag w.flags WATCHER_APPLE_SYSTEM_SERVICE = true →
      ∃ s1 w1, watcher_add_event s i p = some (0, s1) ∧ get_watcher s1 i = some w1 ∧
        w1.rd = w.rd ∧ pending w1 = pending w ++ [some p]) := by
  have hwok := hs.2 i w hw
  have hi : s.watcher_table.getD i none = some w := hw
  have hlt : i < s.watcher_table.length := getD_some_lt hi
  have hrd : w.rd < w.eventq_size := by rcases hwok.1.rd_lt with g | ⟨g, _⟩ <;> omega
  have hwr : w.wr < w.eventq_size := by rcases hwok.1.wr_lt with g | ⟨g, _⟩ <;> omega
  obtain ⟨e, he, hl⟩ := zone_ok_alloc_of_pos hs.1 (p := p) (by show 1 ≤ _ + _; omega)
  constructor
  · intro hgt hnp
    have hfb : falling_behind (enqueued w p) = true :=
      falling_behind_of_gt (show (enqueued w p).rd < (enqueued w p).eventq_size from hrd)
        (show (enqueued w p).wr < (enqueued w p).eventq_size from
          Nat.mod_lt _ (Nat.pos_of_ne_zero hsz)) hgt hnp
    obtain ⟨r, s1, hres⟩ := watcher_add_event_total hs hp hw hsz
    obtain ⟨ok1, _, hsh, w1, htab, hdr⟩ := watcher_add_event_ok hs hp hw
      (fun g => by rw [hfb] at g; cases g) hres
    obtain ⟨hr0, hempty, hflag⟩ := hdr hnf hfb
    subst hr0
    have hget : get_watcher s1 i = some w1 := by
      show s1.watcher_table.getD i none = some w1
      rw [htab, getD_set_eq, if_pos ⟨rfl, hlt⟩]
    have hq1 : ∀ q, queue_refs s1.watcher_table q + (pending w).count (some q) =
        queue_refs s.watcher_table q := by
      intro q
      rw [htab, queue_refs_replace hlt, pending_nil_of_eq hempty, queue_refs_split hi q]
      simp
    have hrel : ∀ q e1, s1.event_zone.getD q none = some e1 →
        ∃ e0, s.event_zone.getD q none = some e0 ∧
          e1.refcount = e0.refcount - (pending w).count (some q) := by
      intro q e1 h1
      obtain ⟨e0, h0, heq⟩ := hsh.2 q e1 h1
      refine ⟨e0, h0, ?_⟩
      have hon : on_list e1 = on_list e0 := by rw [heq]; rfl
      cases hb : on_list e0
      · have a := ((hs.1.2 q e0 h0).2.1 hb)
        have b := ((ok1.1.2 q e1 h1).2.1 (by rw [hon, hb]))
        have hz : queue_refs s.watcher_table q + held q = 0 := a.2.2
        have := hq1 q
        have hc : (pending w).count (some q) = 0 := by omega
        rw [a.1, b.1, hc]; simp
      · have a := ((hs.1.2 q e0 h0).1 hb).1
        have b := ((ok1.1.2 q e1 h1).1 (by rw [hon, hb])).1
        have := hq1 q
        rw [a, b]
        push_cast
        have h2 : ((queue_refs s.watcher_table q : Nat) : Int) =
            (queue_refs s1.watcher_table q : Int) + ((pending w).count (some q) : Int) := by
          exact_mod_cast this.symm
        omega
    refine ⟨s1, w1, hres, hget, hempty, hflag, hrel, fun q e0 h0 hc => ?_⟩
    cases h1 : s1.event_zone.getD q none with
    | none => rfl
    | some e1 =>
      exfalso
      obtain ⟨e0', h0', hr⟩ := hrel q e1 h1
      rw [h0] at h0'; cases h0'
      have hzero : e1.refcount = 0 := by rw [hr, hc]; simp
      cases hb : on_list e1
      · have := ((ok1.1.2 q e1 h1).2.1 hb).1
        omega
      · obtain ⟨b1, b2, _⟩ := (ok1.1.2 q e1 h1).1 hb
        have : (1 : Int) ≤ e1.refcount := by rw [b1]; exact_mod_cast b2
        omega
  · intro hpriv
    have hnd : falling_behind (enqueued w p) = false :=
      falling_behind_privileged (show has_flag (enqueued w p).flags _ = true from hpriv)
    obtain ⟨t, ht⟩ := watcher_add_event_room s i p w e hw he hsz hnf hnd
    refine ⟨_, _, ht, get_set_watcher_same _ i _ hlt, rfl, ?_⟩
    exact (@pending_enqueue _ (enqueued { w with max_event_id :=
      if e.abstime > w.max_event_id then e.abstime else w.max_event_id } p)
      (some p) hwok.1 hsz hnf rfl rfl rfl rfl).1

theorem scn_five_3_reachable : reachable scn_five_3 :=
  reachable.add_fsevent _ _ _ 0
    (reachable.add_fsevent _ _ _ 0
      (reachable.add_fsevent _ _ _ 0 (reachable.add_watcher _ _ _ _ (reachable.init 4))
        (show add_fsevent scn_five_0 FSE_CREATE_FILE scn_path_args (scn_env 1000) =
          some (0, scn_five_1) by decide))
      (show add_fsevent scn_five_1 FSE_CREATE_FILE scn_path_args (scn_env 2000) =
        some (0, scn_five_2) by decide))
    (show add_fsevent scn_five_2 FSE_CREATE_FILE scn_path_args (scn_env 3000) =
      some (0, scn_five_3) by decide)

theorem scn_five_mid_ok : sys_ok scn_five_mid (fun p => if p = 3 then 1 else 0) :=
  (@alloc_publish_ok _ _ _ 4000 100 _ _ (reachable_inv scn_five_3_reachable) (by decide)
    (show alloc_events scn_five_3 FSE_CREATE_FILE =
      (some 3, none, (alloc_events scn_five_3 FSE_CREATE_FILE).2.2) by decide)).1

theorem scn_five_watcher_eq : get_watcher scn_five_mid 0 = some scn_five_watcher := by decide

/-- C6 at a ring of 5 slots with three entries, on the enqueue of a fourth. -/
theorem C6_backpressure_witness :
    sys_ok scn_five_mid (fun p => if p = 3 then 1 else 0) ∧
    1 ≤ (fun p => if p = 3 then 1 else 0) 3 ∧
    get_watcher scn_five_mid 0 = some scn_five_watcher ∧
    scn_five_watcher.eventq_size ≠ 0 ∧
    (scn_five_watcher.wr + 1) % scn_five_watcher.eventq_size ≠ scn_five_watcher.rd ∧
    ((4 * num_pending (enqueued scn_five_watcher 3) > 3 * scn_five_watcher.eventq_size →
      has_flag scn_five_watcher.flags WATCHER_APPLE_SYSTEM_SERVICE = false →
      ∃ s1 w1, watcher_add_event scn_five_mid 0 3 = some (0, s1) ∧
        get_watcher s1 0 = some w1 ∧
        w1.rd = w1.wr ∧ has_flag w1.flags WATCHER_DROPPED_EVENTS = true ∧
        (∀ q e1, s1.event_zone.getD q none = some e1 →
          ∃ e0, scn_five_mid.event_zone.getD q none = some e0 ∧
            e1.refcount = e0.refcount - (pending scn_five_watcher).count (some q)) ∧
        (∀ q e0, scn_five_mid.event_zone.getD q none = some e0 →
          e0.refcount = (pending scn_five_watcher).count (some q) →
          s1.event_zone.getD q none = none)) ∧
    (has_flag scn_five_watcher.flags WATCHER_APPLE_SYSTEM_SERVICE = true →
      ∃ s1 w1, watcher_add_event scn_five_mid 0 3 = some (0, s1) ∧
        get_watcher s1 0 = some w1 ∧
        w1.rd = scn_five_watcher.rd ∧
        pending w1 = pending scn_five_watcher ++ [some 3])) ∧
    4 * num_pending (enqueued scn_five_watcher 3) > 3 * scn_five_watcher.eventq_size ∧
    has_flag scn_five_watcher.flags WATCHER_APPLE_SYSTEM_SERVICE = false :=
  ⟨scn_five_mid_ok, by decide, scn_five_watcher_eq, by decide, by decide,
    C6_backpressure scn_five_mid_ok (by decide) scn_five_watcher_eq (by decide) (by decide),
    by decide, by decide⟩

/-! ## C7 -/

theorem first_free_of_no_free : ∀ (z : List (Option kfs_event)),
    (z.filter (fun o => o.isNone)).length = 0 → first_free z = none := by
  intro z
  induction z with
  | nil => intro _; rfl
  | cons a rest ih =>
    intro h
    cases a with
    | none => simp at h
    | some e =>
      have : (rest.filter (fun o => o.isNone)).length = 0 := by simpa using h
      simp [first_free, ih this]

theorem free_after_set : ∀ (z : List (Option kfs_event)) (k : Nat) (x : kfs_event),
    z.getD k none = none → k < z.length →
    ((z.set k (some x)).filter (fun o => o.isNone)).length + 1 =
      (z.filter (fun o => o.isNone)).length := by
  intro z
  induction z with
  | nil => intro k x _ hk; simp at hk
  | cons a rest ih =>
    intro k x hz hk
    cases k with
    | zero =>
      have : a = none := by simpa using hz
      subst this
      simp
    | succ k =>
      have h1 : rest.getD k none = none := by simpa using hz
      have h2 : k < rest.length := by simpa using hk
      have := ih k x h1 h2
      cases a with
      | none => simp [List.set, List.filter]; omega
      | some e => simpa [List.set, List.filter] using this

/-- A pool with fewer free elements than the event needs makes `alloc_events`
fail. -/
theorem alloc_events_fails {s : fsevents_state} {type : Int}
    (h : free_slots s < slots_needed type) :
    ∃ dd sa, alloc_events s type = (none, dd, sa) := by
  unfold alloc_events
  rcases hz : zalloc_noblock s with ⟨o, s1⟩
  cases o with
  | none => exact ⟨_, _, rfl⟩
  | some k =>
    obtain ⟨h1, h2, h3⟩ := zalloc_noblock_some hz
    have hfree := free_after_set s.event_zone k {} h2 h1
    dsimp only
    split
    · rename_i htt
      have hs1 : first_free s1.event_zone = none := by
        apply first_free_of_no_free
        rw [h3]
        simp only [slots_needed, htt, if_true, free_slots] at h
        show ((s.event_zone.set k (some {})).filter (fun o => o.isNone)).length = 0
        omega
      have hz2 : zalloc_noblock s1 = (none, s1) := by
        simp [zalloc_noblock, hs1]
      rw [hz2]
      exact ⟨_, _, rfl⟩
    · rename_i htt
      have h' : free_slots s < 1 := by simpa [slots_needed, htt] using h
      unfold free_slots at h'
      omega

theorem add_fsevent_first_pass {s : fsevents_state} {type : Int} (ap : List va_word)
    (env : fse_env) (hty : 0 ≤ type ∧ type < FSE_MAX_EVENTS) :
    add_fsevent s type ap env =
      match add_fsevent_pass s type ap env env.now {} env.links with
      | none => none
      | some (pass_result.ret err s) => some (err, s)
      | some (pass_result.restart s l links now) =>
        add_fsevent_loop type ap env 129 s now l links := by
  have hne : type ≠ FSE_CONTENT_MODIFIED_NO_HLINK := by
    intro g; rw [g] at hty; exact absurd hty.2 (by decide)
  unfold add_fsevent
  simp only [hne, if_false]
  rfl

/-- C7 (amended): for a publish that reaches the allocation (a valid type, an
interested watcher, not suppressed by the dedup filter), if the pool holds
fewer free elements than the event needs when `add_fsevent` is called (one, or
two for Rename, Exchange and Clone), the call returns `ENOSPC`, sets
`WATCHER_DROPPED_EVENTS` on every registered watcher and adds one to the drop
counter, while the zone, the global event list and the `rd`, `wr` and queue of
every watcher are as before the call. -/
theorem C7_exhaustion {s : fsevents_state} {type : Int} {ap : List va_word} {env : fse_env}
    (hty : 0 ≤ type ∧ type < FSE_MAX_EVENTS)
    (hint : s.fs_event_type_watchers.getD type.toNat 0 ≠ 0)
    (hpass : dedup_exempt type = true ∨
      ∃ sd, dedup_filter s type ap env env.now = some (false, sd))
    (hfull : free_slots s < slots_needed type) :
    ∃ s1, add_fsevent s type ap env = some (ENOSPC, s1) ∧
      s1.num_dropped = s.num_dropped + 1 ∧ s1.event_zone = s.event_zone ∧
      s1.kfse_list_head = s.kfse_list_head ∧
      ∀ i w, get_watcher s i = some w →
        ∃ w1, get_watcher s1 i = some w1 ∧
          has_flag w1.flags WATCHER_DROPPED_EVENTS = true ∧
          w1.rd = w.rd ∧ w1.wr = w.wr ∧ w1.event_queue = w.event_queue := by
  -- the state the allocation is tried in
  obtain ⟨sd, hd, hpassv⟩ : ∃ sd, dedup_only s sd ∧
      add_fsevent_pass s type ap env env.now {} env.links =
        publish_pass sd type ap env env.now {} env.links := by
    have hrange : ¬ (type < 0 ∨ type ≥ FSE_MAX_EVENTS) := by omega
    by_cases hex : dedup_exempt type = true
    · refine ⟨s, ⟨rfl, rfl, rfl, rfl, rfl, rfl⟩, ?_⟩
      unfold add_fsevent_pass
      rw [if_neg hrange, if_neg hint, if_neg (by rw [hex]; simp)]
    · have hex' : dedup_exempt type = false := by simpa using hex
      rcases hpass with g | ⟨sd, hsd⟩
      · exact absurd g hex
      · refine ⟨sd, dedup_filter_fields hsd, ?_⟩
        unfold add_fsevent_pass
        rw [if_neg hrange, if_neg hint, if_pos ⟨rfl, hex'⟩, hsd]
  have hfull' : free_slots sd < slots_needed type := by
    unfold free_slots
    rw [hd.event_zone]
    exact hfull
  obtain ⟨dd, sa, ha⟩ := alloc_events_fails hfull'
  obtain ⟨a1, a2, _, a4, a5, _, _⟩ := alloc_events_none ha
  obtain ⟨n1, n2, _, n4, n5, _, _⟩ := no_free_events_fields sa env
  have hres : add_fsevent s type ap env = some (ENOSPC, no_free_events sa env) := by
    rw [add_fsevent_first_pass ap env hty, hpassv]
    simp [publish_pass, ha]
  refine ⟨_, hres, ?_, ?_, ?_, fun i w hw => ?_⟩
  · rw [n4, a5, hd.num_dropped]
  · rw [n1, a1, hd.event_zone]
  · rw [n5, a4, hd.list_head]
  · have hg : (no_free_events sa env).watcher_table.getD i none =
        some { w with flags := w.flags ||| WATCHER_DROPPED_EVENTS } := by
      rw [n2, a2, hd.watcher_table, getD_flag_all]
      have : s.watcher_table.getD i none = some w := hw
      rw [this]
      rfl
    exact ⟨_, hg, has_flag_or_self _ _ (by decide), rfl, rfl, rfl⟩

/-- C7, as stated, fails when the pool runs out for the replica of a
sibling hardlink: `add_fsevent` returns `ENOSPC` and counts the drop, but the
first event of the call stays allocated and queued. -/
theorem C7_counterexample :
    add_fsevent scn_small_pool FSE_CONTENT_MODIFIED scn_hardlink_args scn_hardlink_env =
      some (ENOSPC, scn_hardlink_result) ∧
    scn_hardlink_result.num_dropped = scn_small_pool.num_dropped + 1 ∧
    zone_in_use scn_small_pool = 0 ∧ zone_in_use scn_hardlink_result = 1 ∧
    (get_watcher scn_small_pool 0).map (fun w => (w.rd, w.wr)) = some (0, 0) ∧
    (get_watcher scn_hardlink_result 0).map (fun w => (w.rd, w.wr)) = some (0, 1) := by
  decide

/-- C7 (amended) at a publish of CreateFile to a pool of one element that is in
use. -/
theorem C7_exhaustion_witness :
    (0 ≤ FSE_CREATE_FILE ∧ FSE_CREATE_FILE < FSE_MAX_EVENTS) ∧
    scn_small_used.fs_event_type_watchers.getD FSE_CREATE_FILE.toNat 0 ≠ 0 ∧
    (dedup_exempt FSE_CREATE_FILE = true ∨
      ∃ sd, dedup_filter scn_small_used FSE_CREATE_FILE scn_path_args (scn_env 2000)
        (scn_env 2000).now = some (false, sd)) ∧
    free_slots scn_small_used < slots_needed FSE_CREATE_FILE ∧
    ∃ s1, add_fsevent scn_small_used FSE_CREATE_FILE scn_path_args (scn_env 2000) =
        some (ENOSPC, s1) ∧
      s1.num_dropped = scn_small_used.num_dropped + 1 ∧
      s1.event_zone = scn_small_used.event_zone ∧
      s1.kfse_list_head = scn_small_used.kfse_list_head ∧
      ∀ i w, get_watcher scn_small_used i = some w →
        ∃ w1, get_watcher s1 i = some w1 ∧
          has_flag w1.flags WATCHER_DROPPED_EVENTS = true ∧
          w1.rd = w.rd ∧ w1.wr = w.wr ∧ w1.event_queue = w.event_queue :=
  ⟨by decide, by decide, Or.inl (by decide), by decide,
    C7_exhaustion (by decide) (by decide) (Or.inl (by decide)) (by decide)⟩

/-! ## The dedup filter: publishes that match the record -/

theorem dedup_elapsed_congr {s s1 : fsevents_state} (now : Nat)
    (h1 : s1.last_coalesced_time = s.last_coalesced_time)
    (h2 : s1.timebase_denom = s.timebase_denom) (h3 : s1.timebase_numer = s.timebase_numer) :
    dedup_elapsed s1 now = dedup_elapsed s now := by
  simp only [dedup_elapsed, h1, h2, h3]

/-- The filter suppresses a publish that matches the record. -/
theorem dedup_filter_match {s : fsevents_state} {type : Int} {ap : List va_word}
    {env : fse_env} {el : Nat} (htype : s.last_event_type = type)
    (hpid : s.last_pid = env.pid) (htb : s.timebase_denom ≠ 0)
    (hel : dedup_elapsed s env.now = some el) (hlt : el < 1000000000)
    (hm : recorded_match s ap) :
    ∃ s1, dedup_filter s type ap env env.now = some (true, s1) ∧
      s1.event_zone = s.event_zone ∧ s1.watcher_table = s.watcher_table ∧
      s1.fs_event_type_watchers = s.fs_event_type_watchers ∧
      s1.last_event_type = s.last_event_type ∧ s1.last_pid = s.last_pid ∧
      s1.timebase_denom = s.timebase_denom ∧ s1.timebase_numer = s.timebase_numer ∧
      s1.last_coalesced_time = s.last_coalesced_time ∧ recorded_match s1 ap := by
  unfold recorded_match at hm
  split at hm
  · rename_i tag v rest
    obtain ⟨rfl, hv, hvid, hptr⟩ := hm
    have hscan : dedup_scan s (va_word.int32 FSE_ARG_VNODE :: va_word.vp (some v) :: rest)
        false 0 = some ({ s with last_str := [] }, some (ptr_val.vnode_at v.addr), v.vid,
          false, 0) := by
      simp [dedup_scan]
    have hel1 : dedup_elapsed { s with last_str := [] } env.now = some el := by
      exact (dedup_elapsed_congr (s := s) env.now rfl rfl rfl).trans hel
    refine ⟨{ ({ s with last_str := [] } : fsevents_state) with
        last_coalesced := s.last_coalesced + 1 }, ?_, rfl, rfl, rfl, rfl, rfl, rfl, rfl, rfl, ?_⟩
    · unfold dedup_filter
      rw [hscan]
      simp only [htb, if_false, hel1]
      simp [htype, hpid, hlt, hv, hvid, hptr]
    · exact ⟨rfl, hv, hvid, hptr⟩
  · rename_i tag n str rest
    obtain ⟨rfl, hstr, hlast, hn⟩ := hm
    have hscan : dedup_scan s (va_word.int32 FSE_ARG_STRING :: va_word.int32 n ::
        va_word.chars (some str) :: rest) false 0 =
        some (s, some (ptr_val.chars_at str), 0, true, n) := by
      simp [dedup_scan]
    refine ⟨{ s with last_coalesced := s.last_coalesced + 1 }, ?_, rfl, rfl, rfl, rfl, rfl, rfl,
      rfl, rfl, ?_⟩
    · unfold dedup_filter
      rw [hscan]
      simp only [htb, if_false, hel]
      simp [htype, hpid, hlt, hstr, hlast, hn]
    · exact ⟨rfl, hstr, hlast, hn⟩
  · exact absurd hm id

/-- One publish that matches the record is suppressed. -/
theorem add_fsevent_suppressed {s : fsevents_state} {type : Int} {ap : List va_word}
    {env : fse_env} {el : Nat} (hex : dedup_exempt type = false)
    (hty : 0 ≤ type ∧ type < FSE_MAX_EVENTS)
    (hint : s.fs_event_type_watchers.getD type.toNat 0 ≠ 0)
    (htype : s.last_event_type = type) (hpid : s.last_pid = env.pid)
    (htb : s.timebase_denom ≠ 0) (hel : dedup_elapsed s env.now = some el)
    (hlt : el < 1000000000) (hm : recorded_match s ap) :
    ∃ s1, add_fsevent s type ap env = some (0, s1) ∧
      s1.event_zone = s.event_zone ∧ s1.watcher_table = s.watcher_table ∧
      s1.fs_event_type_watchers = s.fs_event_type_watchers ∧
      s1.last_event_type = s.last_event_type ∧ s1.last_pid = s.last_pid ∧
      s1.timebase_denom = s.timebase_denom ∧ s1.timebase_numer = s.timebase_numer ∧
      s1.last_coalesced_time = s.last_coalesced_time ∧ recorded_match s1 ap := by
  obtain ⟨s1, hf, rest⟩ := dedup_filter_match htype hpid htb hel hlt hm
  refine ⟨s1, ?_, rest⟩
  have hrange : ¬ (type < 0 ∨ type ≥ FSE_MAX_EVENTS) := by omega
  rw [add_fsevent_first_pass ap env hty]
  unfold add_fsevent_pass
  rw [if_neg hrange, if_neg hint, if_pos ⟨rfl, hex⟩, hf]

/-- Any number of publishes in a row that match the record are suppressed. -/
theorem publish_all_suppressed {type : Int} {ap : List va_word}
    (hex : dedup_exempt type = false) (hty : 0 ≤ type ∧ type < FSE_MAX_EVENTS) :
    ∀ (envs : List fse_env) (s : fsevents_state),
      s.fs_event_type_watchers.getD type.toNat 0 ≠ 0 → s.last_event_type = type →
      s.timebase_denom ≠ 0 → recorded_match s ap →
      (∀ env ∈ envs, s.last_pid = env.pid ∧
        ∃ el, dedup_elapsed s env.now = some el ∧ el < 1000000000) →
      ∃ s1, publish_all type ap s envs = some (List.replicate envs.length 0, s1) ∧
        s1.event_zone = s.event_zone ∧ s1.watcher_table = s.watcher_table := by
  intro envs
  induction envs with
  | nil => intro s _ _ _ _ _; exact ⟨s, rfl, rfl, rfl⟩
  | cons env rest ih =>
    intro s hint htype htb hm henv
    obtain ⟨hpid, el, hel, hlt⟩ := henv env (List.mem_cons_self _ _)
    obtain ⟨s1, h1, a1, a2, a3, a4, a5, a6, a7, a8, a9⟩ :=
      add_fsevent_suppressed hex hty hint htype hpid htb hel hlt hm
    obtain ⟨s2, h2, b1, b2⟩ := ih s1 (by rw [a3]; exact hint) (by rw [a4]; exact htype)
      (by rw [a6]; exact htb) a9 (fun env1 h1 => by
        obtain ⟨c1, el1, c2, c3⟩ := henv env1 (List.mem_cons_of_mem _ h1)
        exact ⟨by rw [a5]; exact c1, el1, by rw [dedup_elapsed_congr _ a8 a6 a7]; exact c2, c3⟩)
    refine ⟨s2, ?_, b1.trans a1, b2.trans a2⟩
    simp only [publish_all, h1, h2, List.length_cons, List.replicate_succ]

/-! ## The dedup filter: what a publish records -/

/-- What the filter records when it lets a publish through. -/
theorem dedup_filter_recorded {s s2 sf : fsevents_state} {type : Int} {ap : List va_word}
    {env : fse_env} {now : Nat} {ptr : Option ptr_val} {vid : Int} {ws : Bool} {nlen : Int}
    (hscan : dedup_scan s ap false 0 = some (s2, ptr, vid, ws, nlen))
    (h : dedup_filter s type ap env now = some (false, sf)) :
    sf.last_ptr = ptr ∧ sf.last_vid = vid ∧ sf.last_pid = env.pid ∧
      sf.last_event_type = type ∧ sf.last_coalesced_time = now % 2 ^ 64 := by
  unfold dedup_filter at h
  rw [hscan] at h
  dsimp only at h
  generalize (if s2.timebase_denom = 0 then
      { s2 with timebase_numer := env.clock_numer, timebase_denom := env.clock_denom }
    else s2) = s3 at h
  split at h
  · cases h
  · split at h
    · cases h
    · split at h
      · cases h
      · cases h
        exact ⟨rfl, rfl, rfl, rfl, rfl⟩

/-- What the filter records when it lets a publish with a vnode through. -/
theorem dedup_filter_vnode_record {s sf : fsevents_state} {type : Int} {v : vnode}
    {rest : List va_word} {env : fse_env} {now : Nat}
    (h : dedup_filter s type (va_word.int32 FSE_ARG_VNODE :: va_word.vp (some v) :: rest) env
      now = some (false, sf)) :
    sf.last_ptr = some (ptr_val.vnode_at v.addr) ∧ sf.last_vid = v.vid ∧
      sf.last_pid = env.pid ∧ sf.last_event_type = type ∧
      sf.last_coalesced_time = now % 2 ^ 64 := by
  have hscan : dedup_scan s (va_word.int32 FSE_ARG_VNODE :: va_word.vp (some v) :: rest)
      false 0 = some ({ s with last_str := [] }, some (ptr_val.vnode_at v.addr), v.vid,
        false, 0) := by
    simp [dedup_scan]
  exact dedup_filter_recorded hscan h

/-- A call of `add_fsevent` whose first pass gets past the dedup filter leaves
the record of the filter alone, up to a reset of its type and time. -/
theorem add_fsevent_after_filter {s sf s1 : fsevents_state} {type : Int} {ap : List va_word}
    {env : fse_env} {r : Int} (hs : sys_ok s (fun _ => 0))
    (hex : dedup_exempt type = false) (hty : 0 ≤ type ∧ type < FSE_MAX_EVENTS)
    (hint : s.fs_event_type_watchers.getD type.toNat 0 ≠ 0)
    (hf : dedup_filter s type ap env env.now = some (false, sf))
    (h : add_fsevent s type ap env = some (r, s1)) : frame sf s1 := by
  have hrange : ¬ (type < 0 ∨ type ≥ FSE_MAX_EVENTS) := by omega
  have hsf := sys_ok_dedup_only hs (dedup_filter_fields hf)
  rw [add_fsevent_first_pass ap env hty] at h
  have hpass : add_fsevent_pass s type ap env env.now {} env.links =
      publish_pass sf type ap env env.now {} env.links := by
    unfold add_fsevent_pass
    rw [if_neg hrange, if_neg hint, if_pos ⟨rfl, hex⟩, hf]
  rw [hpass] at h
  split at h
  · cases h
  · rename_i err s2 hp
    cases h
    exact (publish_pass_ok hsf hty hp).2.1
  · rename_i s2 l2 links2 now2 hp
    obtain ⟨ok2, fr2, ov2⟩ := publish_pass_ok hsf hty hp
    exact frame_trans fr2 (add_fsevent_loop_frame type ap env 129 s2 now2 l2 links2 r s1 ok2
      (Or.inl ov2) h)

/-! ## C10 -/

/-- The ten types the dedup filter never looks at are valid event types. -/
theorem dedup_exempt_range {type : Int} (h : dedup_exempt type = true) :
    0 ≤ type ∧ type < FSE_MAX_EVENTS := by
  unfold dedup_exempt at h
  simp only [Bool.or_eq_true, beq_iff_eq] at h
  rcases h with ((((((((h | h) | h) | h) | h) | h) | h) | h) | h) | h <;>
    · rw [h]
      decide

theorem scn_created_eq :
    add_fsevent scn_published FSE_CREATE_FILE scn_path_args (scn_env 2000) =
      some (0, scn_created) := by decide

/-- C10 (amended): an event whose type is one of CreateFile, Delete, Rename,
Exchange, Chown, DocIdChanged, DocIdCreated, Clone, Activity or AccessGranted
never goes through the dedup filter, whatever the state: a pass of
`add_fsevent` over it returns 0 when no watcher is interested in the type and
goes on to allocate and publish otherwise.  Publishing it leaves the handle,
path, path length, vid and pid of the dedup state unchanged, and leaves its
type and timestamp either unchanged or reset to -1 and 0, which is what
freeing the published event does. -/
theorem C10_exempt_not_filtered {s s1 : fsevents_state} {type : Int} {ap : List va_word}
    {env : fse_env} {r : Int} (hreach : reachable s) (hex : dedup_exempt type = true)
    (h : add_fsevent s type ap env = some (r, s1)) :
    (∀ (t : fsevents_state) (now : Nat) (l : add_locals) (links : List link_reply),
      add_fsevent_pass t type ap env now l links =
        if t.fs_event_type_watchers.getD type.toNat 0 = 0 then some (pass_result.ret 0 t)
        else publish_pass t type ap env now l links) ∧
    s1.last_ptr = s.last_ptr ∧ s1.last_str = s.last_str ∧ s1.last_nlen = s.last_nlen ∧
    s1.last_vid = s.last_vid ∧ s1.last_pid = s.last_pid ∧
    ((s1.last_event_type = s.last_event_type ∧
        s1.last_coalesced_time = s.last_coalesced_time) ∨
      (s1.last_event_type = -1 ∧ s1.last_coalesced_time = 0)) := by
  have hty := dedup_exempt_range hex
  have hrange : ¬ (type < 0 ∨ type ≥ FSE_MAX_EVENTS) := by omega
  have hne : type ≠ FSE_CONTENT_MODIFIED_NO_HLINK := by
    intro g; rw [g] at hty; exact absurd hty.2 (by decide)
  have hfr : frame s s1 := by
    unfold add_fsevent at h
    simp only [hne, if_false] at h
    exact add_fsevent_loop_frame type ap env 130 s env.now {} env.links r s1
      (reachable_inv hreach) (Or.inr hex) h
  refine ⟨?_, hfr.last_ptr, hfr.last_str, hfr.last_nlen, hfr.last_vid, hfr.last_pid, hfr.record⟩
  intro t now l links
  unfold add_fsevent_pass
  rw [if_neg hrange]
  by_cases hw : t.fs_event_type_watchers.getD type.toNat 0 = 0
  · rw [if_pos hw, if_pos hw]
  · rw [if_neg hw, if_neg hw, if_neg (by rw [hex]; simp)]

/-- C10 (amended) at an example: CreateFile on "/a", published 1 µs after
ContentModified on "/a" was; the event is queued and the dedup state is as
before. -/
theorem C10_exempt_not_filtered_witness :
    reachable scn_published ∧ dedup_exempt FSE_CREATE_FILE = true ∧
    add_fsevent scn_published FSE_CREATE_FILE scn_path_args (scn_env 2000) =
      some (0, scn_created) ∧
    (get_watcher scn_created 0).map num_pending = some 2 ∧
    scn_created.last_event_type = FSE_CONTENT_MODIFIED ∧
    ((∀ (t : fsevents_state) (now : Nat) (l : add_locals) (links : List link_reply),
      add_fsevent_pass t FSE_CREATE_FILE scn_path_args (scn_env 2000) now l links =
        if t.fs_event_type_watchers.getD FSE_CREATE_FILE.toNat 0 = 0 then
          some (pass_result.ret 0 t)
        else publish_pass t FSE_CREATE_FILE scn_path_args (scn_env 2000) now l links) ∧
    scn_created.last_ptr = scn_published.last_ptr ∧
    scn_created.last_str = scn_published.last_str ∧
    scn_created.last_nlen = scn_published.last_nlen ∧
    scn_created.last_vid = scn_published.last_vid ∧
    scn_created.last_pid = scn_published.last_pid ∧
    ((scn_created.last_event_type = scn_published.last_event_type ∧
        scn_created.last_coalesced_time = scn_published.last_coalesced_time) ∨
      (scn_created.last_event_type = -1 ∧ scn_created.last_coalesced_time = 0))) :=
  ⟨scn_published_reachable, by decide, scn_created_eq, by decide, by decide,
    C10_exempt_not_filtered scn_published_reachable (by decide) scn_created_eq⟩

/-- C10, as stated, fails: CreateFile on "/a", published to a broker whose one
watcher has a full ring and whose dedup state records ContentModified at clock
1000, returns 0 and leaves a dedup state whose type is -1 and whose timestamp
is 0, because the watcher drops the event, which frees it. -/
theorem C10_counterexample :
    scn_full_ring.last_event_type = FSE_CONTENT_MODIFIED ∧
    scn_full_ring.last_coalesced_time = 1000 ∧
    add_fsevent scn_full_ring FSE_CREATE_FILE scn_path_args (scn_env 2000) =
      some (0, scn_full_ring_create) ∧
    scn_full_ring_create.last_event_type = -1 ∧
    scn_full_ring_create.last_coalesced_time = 0 :=
  ⟨by decide, by decide, by decide, by decide, by decide⟩

/-! ## The encoder: `fill_buff` and `copy_out_kfse` -/

theorem le_bytes_length : ∀ (n v : Nat), (le_bytes n v).length = n
  | 0, _ => rfl
  | n + 1, v => by simp [le_bytes, le_bytes_length n]

theorem moved_nil (u : uio) : moved u [] = u := by
  simp [moved]

theorem moved_moved (u : uio) (a b : List Nat) : moved (moved u a) b = moved u (a ++ b) := by
  simp only [moved, List.append_assoc, List.length_append, Nat.cast_add, uio.mk.injEq, and_true,
    true_and]
  ring

@[simp] theorem moved_errs (u : uio) (a : List Nat) : (moved u a).errs = u.errs := rfl

@[simp] theorem moved_resid (u : uio) (a : List Nat) : (moved u a).resid = u.resid - a.length :=
  rfl

@[simp] theorem moved_written (u : uio) (a : List Nat) : (moved u a).written = u.written ++ a :=
  rfl

/-- A move that fits and does not fault moves all the bytes. -/
theorem uiomove_fit {buf : List Nat} {u : uio} (he : u.errs = [])
    (hl : (buf.length : Int) ≤ u.resid) : uiomove buf u = (0, moved u buf) := by
  have hm : min buf.length u.resid.toNat = buf.length := by omega
  simp only [uiomove, he, hm, List.take_length, moved]

theorem fill_buff_loop_spec (B : Nat) : ∀ (fuel : Nat) (data buff : List Nat) (u : uio),
    u.errs = [] → data.length < fuel → buff.length ≤ B → (data ≠ [] → buff.length < B) →
    enc_result u (buff ++ data) B (fill_buff_loop B fuel data buff u) := by
  intro fuel
  induction fuel with
  | zero => intro data buff u _ h; omega
  | succ n ih =>
    intro data buff u he hf hb hroom
    rw [fill_buff_loop]
    by_cases hd : data.length > 0
    · have hne : data ≠ [] := by
        intro g; rw [g] at hd; simp at hd
      have hlt := hroom hne
      rw [if_pos hd]
      dsimp only
      obtain ⟨amt, hamt⟩ : ∃ amt, amt = min data.length (B - buff.length) := ⟨_, rfl⟩
      rw [← hamt]
      have hamt1 : 1 ≤ amt := by omega
      have hamt2 : amt ≤ data.length := by omega
      have hamt3 : buff.length + amt ≤ B := by omega
      have hlen1 : (buff ++ List.take amt data).length = buff.length + amt := by
        simp [List.length_take]; omega
      have hlen2 : (List.drop amt data).length = data.length - amt := by simp
      have hsplit : buff ++ List.take amt data ++ List.drop amt data = buff ++ data := by
        rw [List.append_assoc, List.take_append_drop]
      have hamt0 : ¬ amt = 0 := by omega
      by_cases hfl : ((List.drop amt data).length : Int) >
          (B : Int) - ((buff ++ List.take amt data).length : Nat)
      · rw [if_pos hfl]
        by_cases hsp : (((buff ++ List.take amt data).length : Nat) : Int) > u.resid
        · rw [if_pos hsp]
          refine Or.inr ⟨[], _, by rw [moved_nil], ?_⟩
          rw [List.length_append]
          rw [hlen1] at hsp
          push_cast at hsp ⊢
          omega
        · rw [if_neg hsp]
          rw [uiomove_fit he (by omega)]
          dsimp only
          rw [if_neg (by simp), if_neg hamt0]
          have hrec := ih (List.drop amt data) [] (moved u (buff ++ List.take amt data))
            he (by rw [hlen2]; omega) (by simp) (fun _ => by simp; omega)
          rcases hrec with ⟨done, rest, h1, h2, h3⟩ | ⟨done, rest, h1, h2⟩
          · refine Or.inl ⟨buff ++ List.take amt data ++ done, rest, ?_, ?_, h3⟩
            · rw [h1, moved_moved]
            · rw [List.append_assoc, h2, List.nil_append, hsplit]
          · refine Or.inr ⟨buff ++ List.take amt data ++ done, rest, ?_, ?_⟩
            · rw [h1, moved_moved]
            · rw [moved_resid, List.nil_append, hlen2] at h2
              rw [List.length_append]
              rw [hlen1] at h2
              push_cast at h2 ⊢
              omega
      · rw [if_neg hfl, if_neg hamt0]
        have hrec := ih (List.drop amt data) (buff ++ List.take amt data) u he
          (by rw [hlen2]; omega) (by rw [hlen1]; exact hamt3) (fun g => by
            have : 0 < (List.drop amt data).length := List.length_pos.mpr g
            rw [hlen1] at hfl ⊢
            push_cast at hfl
            omega)
        rw [hsplit] at hrec
        exact hrec
    · rw [if_neg hd]
      have hnil : data = [] := by
        cases data with
        | nil => rfl
        | cons a t => simp at hd
      subst hnil
      exact Or.inl ⟨[], buff, by rw [moved_nil], by simp, hb⟩

theorem enc_result_lift {u : uio} {a pre : List Nat} {B : Nat} {r : Int × List Nat × uio}
    (h : enc_result (moved u a) pre B r) : enc_result u (a ++ pre) B r := by
  rcases h with ⟨done, rest, h1, h2, h3⟩ | ⟨done, rest, h1, h2⟩
  · exact Or.inl ⟨a ++ done, rest, by rw [h1, moved_moved], by rw [List.append_assoc, h2], h3⟩
  · refine Or.inr ⟨a ++ done, rest, by rw [h1, moved_moved], ?_⟩
    rw [moved_resid] at h2
    rw [List.length_append]
    push_cast
    omega

theorem encode_field_length (type : Int) (data : List Nat) :
    (encode_field (type, data)).length = 4 + data.length := by
  simp [encode_field, le_bytes_length]
  omega

theorem fill_buff_spec {B : Nat} (type : Int) (data buff : List Nat) (u : uio)
    (hB : 6 ≤ B) (he : u.errs = []) :
    enc_result u (buff ++ encode_field (type, data)) B (fill_buff type data buff B u) := by
  unfold fill_buff
  by_cases hfl : (B : Int) - (buff.length : Nat) ≤ 5
  · rw [if_pos hfl]
    by_cases hsp : ((buff.length : Nat) : Int) > u.resid
    · rw [if_pos hsp]
      dsimp only
      rw [if_pos (by decide)]
      refine Or.inr ⟨[], _, by rw [moved_nil], ?_⟩
      rw [List.length_append]
      push_cast
      omega
    · rw [if_neg hsp, uiomove_fit he (by omega)]
      dsimp only
      rw [if_neg (by simp)]
      simp only [ne_eq, not_true_eq_false, if_false]
      have h := fill_buff_loop_spec B (data.length + 1) data
        ([] ++ le_bytes 2 (type % 2 ^ 16).toNat ++ le_bytes 2 (data.length % 2 ^ 16))
        (moved u buff) he (by omega) (by simp [le_bytes_length]; omega)
        (fun _ => by simp [le_bytes_length]; omega)
      have h2 := enc_result_lift h
      simpa [encode_field, List.append_assoc] using h2
  · rw [if_neg hfl]
    dsimp only
    rw [if_neg (by simp)]
    have h := fill_buff_loop_spec B (data.length + 1) data
      (buff ++ le_bytes 2 (type % 2 ^ 16).toNat ++ le_bytes 2 (data.length % 2 ^ 16))
      u he (by omega) (by simp [le_bytes_length]; omega)
      (fun _ => by simp [le_bytes_length]; omega)
    simpa [encode_field, List.append_assoc] using h

theorem fill_fields_spec {B : Nat} (hB : 6 ≤ B) : ∀ (fs : List (Int × List Nat))
    (buff : List Nat) (u : uio), u.errs = [] → buff.length ≤ B →
    enc_result u (buff ++ encode_fields fs) B (fill_fields B fs buff u) := by
  intro fs
  induction fs with
  | nil =>
    intro buff u _ hb
    exact Or.inl ⟨[], buff, by rw [fill_fields, moved_nil], by simp [encode_fields], hb⟩
  | cons f fs ih =>
    intro buff u he hb
    obtain ⟨type, data⟩ := f
    rw [fill_fields]
    have hcons : buff ++ encode_fields ((type, data) :: fs) =
        buff ++ encode_field (type, data) ++ encode_fields fs := by
      simp [encode_fields, List.append_assoc]
    rcases fill_buff_spec type data buff u hB he with
      ⟨done, rest, h1, h2, h3⟩ | ⟨done, rest, h1, h2⟩
    · rw [h1]
      dsimp only
      rw [if_neg (by simp)]
      have h := enc_result_lift (ih rest (moved u done) he h3)
      rw [← List.append_assoc, h2] at h
      rw [hcons]
      exact h
    · rw [h1]
      dsimp only
      rw [if_pos (by decide)]
      refine Or.inr ⟨done, rest, rfl, ?_⟩
      rw [hcons, List.length_append]
      push_cast
      omega

theorem done_bytes_length : done_bytes.length = 2 := by decide

theorem encode_record_length (kind pid : Int) (fs : List (Int × List Nat)) :
    (encode_record kind pid fs).length = 10 + (encode_fields fs).length := by
  simp [encode_record, le_bytes_int32, le_bytes_length, done_bytes_length]
  omega

/-- The end of `copy_out_kfse`, from the check whether `FSE_ARG_DONE` fits. -/
theorem copy_out_finish {u : uio} {pre done rest : List Nat} (he : u.errs = [])
    (hpre : done ++ rest = pre) :
    ∃ res,
      (match (if 2 > 512 - (rest.length : Int) then
          if (rest.length : Int) > (moved u done).resid then (ENOSPC, rest, moved u done)
          else
            match uiomove rest (moved u done) with
            | (error, u) => if error ≠ 0 then (error, rest, u) else (0, [], u)
        else (0, rest, moved u done) : Int × List Nat × uio) with
      | (error, evbuff, u) =>
        if error ≠ 0 then some (error, u)
        else
          if ((evbuff ++ le_bytes 2 (FSE_ARG_DONE % 2 ^ 16).toNat).length : Int) > u.resid then
            some (ENOSPC, u)
          else some (uiomove (evbuff ++ le_bytes 2 (FSE_ARG_DONE % 2 ^ 16).toNat) u)) = some res ∧
      ((res = (0, moved u (pre ++ done_bytes)) ∧ ((pre ++ done_bytes).length : Int) ≤ u.resid) ∨
        (∃ d, res = (ENOSPC, moved u d) ∧ u.resid < (pre ++ done_bytes).length)) := by
  have hlen : (pre ++ done_bytes).length = done.length + rest.length + 2 := by
    rw [← hpre]; simp [done_bytes_length]; omega
  have hdb : le_bytes 2 (FSE_ARG_DONE % 2 ^ 16).toNat = done_bytes := rfl
  rw [hdb]
  by_cases hfl : 2 > 512 - (rest.length : Int)
  · rw [if_pos hfl]
    by_cases hsp : (rest.length : Int) > (moved u done).resid
    · rw [if_pos hsp]
      refine ⟨_, rfl, Or.inr ⟨done, rfl, ?_⟩⟩
      rw [moved_resid] at hsp
      rw [hlen]
      push_cast
      omega
    · rw [if_neg hsp, uiomove_fit (by simpa using he) (by omega), moved_moved]
      simp only [ne_eq, not_true_eq_false, if_false, List.nil_append]
      by_cases hsp2 : (done_bytes.length : Int) > (moved u (done ++ rest)).resid
      · rw [if_pos hsp2]
        refine ⟨_, rfl, Or.inr ⟨done ++ rest, rfl, ?_⟩⟩
        rw [moved_resid, done_bytes_length, List.length_append] at hsp2
        rw [hlen]
        push_cast at hsp2 ⊢
        omega
      · rw [if_neg hsp2, uiomove_fit (by simpa using he) (by omega), moved_moved, hpre]
        refine ⟨_, rfl, Or.inl ⟨rfl, ?_⟩⟩
        rw [moved_resid, done_bytes_length, List.length_append] at hsp2
        rw [hlen]
        push_cast at hsp2 ⊢
        omega
  · rw [if_neg hfl]
    simp only [ne_eq, not_true_eq_false, if_false]
    by_cases hsp2 : ((rest ++ done_bytes).length : Int) > (moved u done).resid
    · rw [if_pos hsp2]
      refine ⟨_, rfl, Or.inr ⟨done, rfl, ?_⟩⟩
      rw [moved_resid, List.length_append, done_bytes_length] at hsp2
      rw [hlen]
      push_cast at hsp2 ⊢
      omega
    · rw [if_neg hsp2, uiomove_fit (by simpa using he) (by omega), moved_moved,
        ← List.append_assoc, hpre]
      refine ⟨_, rfl, Or.inl ⟨rfl, ?_⟩⟩
      rw [moved_resid, List.length_append, done_bytes_length] at hsp2
      rw [hlen]
      push_cast at hsp2 ⊢
      omega

/-- What `copy_out_kfse` does with a user buffer that does not fault: when the
record of the event fits it is moved out whole, and when it does not the call
fails with `ENOSPC`. -/
theorem copy_out_kfse_spec {s : fsevents_state} {w : fs_event_watcher} {kfse : kfs_event}
    {u : uio} {rec : List Nat} (he : u.errs = []) (h0 : 0 ≤ u.resid)
    (hw : wire_record s w kfse = some rec) :
    ∃ res, copy_out_kfse s w kfse u = some res ∧
      ((res = (0, moved u rec) ∧ (rec.length : Int) ≤ u.resid) ∨
        (∃ d, res = (ENOSPC, moved u d) ∧ u.resid < rec.length)) := by
  unfold wire_record at hw
  unfold copy_out_kfse
  split at hw
  · cases hw
  · rename_i hinv
    rw [if_neg hinv]
    split at hw
    · rename_i hbc
      cases hw
      rw [if_pos hbc]
      exact ⟨_, rfl, Or.inl ⟨by rw [moved_nil], by simpa using h0⟩⟩
    · rename_i hbc
      rw [if_neg hbc]
      split at hw
      · rename_i hrn
        cases hw
        rw [if_pos hrn]
        exact ⟨_, rfl, Or.inl ⟨by rw [moved_nil], by simpa using h0⟩⟩
      · rename_i hrn
        rw [if_neg hrn]
        split at hw
        · cases hw
        · rename_i fields cur hbf
          cases hw
          try dsimp only
          try rw [hbf]
          try dsimp only
          have hspec := fill_fields_spec (show 6 ≤ 512 by decide) (fields ++ [time_field cur])
            (le_bytes_int32 (wire_kind w kfse) ++ le_bytes_int32 kfse.pid) u he
            (by simp [le_bytes_int32, le_bytes_length])
          have hrec : encode_record (wire_kind w kfse) kfse.pid (fields ++ [time_field cur]) =
              (le_bytes_int32 (wire_kind w kfse) ++ le_bytes_int32 kfse.pid ++
                encode_fields (fields ++ [time_field cur])) ++ done_bytes := rfl
          rw [hrec]
          rcases hspec with ⟨done, rest, h1, h2, h3⟩ | ⟨done, rest, h1, h2⟩
          · have h1' : fill_fields 512 (fields ++ [(FSE_ARG_INT64, le_bytes 8 cur.abstime)])
                (le_bytes_int32 (wire_kind w kfse) ++ le_bytes_int32 kfse.pid) u =
                (0, rest, moved u done) := h1
            unfold wire_kind at h1'
            rw [h1']
            dsimp only
            rw [if_neg (by simp)]
            exact copy_out_finish he h2
          · have h1' : fill_fields 512 (fields ++ [(FSE_ARG_INT64, le_bytes 8 cur.abstime)])
                (le_bytes_int32 (wire_kind w kfse) ++ le_bytes_int32 kfse.pid) u =
                (ENOSPC, rest, moved u done) := h1
            unfold wire_kind at h1'
            rw [h1']
            dsimp only
            rw [if_pos (by decide)]
            refine ⟨_, rfl, Or.inr ⟨done, rfl, ?_⟩⟩
            rw [List.length_append]
            push_cast
            omega

/-! ## The record of an event -/

theorem body_fields_congr {s s1 : fsevents_state} (w : fs_event_watcher) (type : Int)
    (hz : s1.event_zone = s.event_zone) : ∀ (n : Nat) (e : kfs_event),
    body_fields s1 w type n e = body_fields s w type n e := by
  intro n
  induction n with
  | zero => intro e; rfl
  | succ n ih =>
    intro e
    have hd : ∀ d, deref s1 d = deref s d := fun d => by simp [deref, hz]
    simp only [body_fields, hd, ih]

theorem wire_record_congr {s s1 : fsevents_state} (w : fs_event_watcher) (e : kfs_event)
    (hz : s1.event_zone = s.event_zone) : wire_record s1 w e = wire_record s w e := by
  simp only [wire_record, hz, body_fields_congr w e.type hz]

/-- Where `copy_out_kfse` returns, the event has a record. -/
theorem wire_record_of_copy_out {s : fsevents_state} {w : fs_event_watcher} {kfse : kfs_event}
    {u : uio} {res : Int × uio} (h : copy_out_kfse s w kfse u = some res) :
    ∃ rec, wire_record s w kfse = some rec := by
  unfold copy_out_kfse at h
  unfold wire_record
  split at h
  · cases h
  · rename_i h1
    rw [if_neg h1]
    split at h
    · rename_i h2
      rw [if_pos h2]; exact ⟨_, rfl⟩
    · rename_i h2
      rw [if_neg h2]
      split at h
      · rename_i h3
        rw [if_pos h3]; exact ⟨_, rfl⟩
      · rename_i h3
        rw [if_neg h3]
        dsimp only at h
        split at h
        · cases h
        · rename_i fields cur hbf
          first
            | (rw [hbf]; exact ⟨_, rfl⟩)
            | exact ⟨_, rfl⟩

/-- What `copy_out_kfse` has to move out is nothing or one whole record. -/
theorem wire_record_is_record {s : fsevents_state} {w : fs_event_watcher} {kfse : kfs_event}
    {rec : List Nat} (h : wire_record s w kfse = some rec) : rec = [] ∨ is_record rec := by
  unfold wire_record at h
  split at h
  · cases h
  · split at h
    · cases h; exact Or.inl rfl
    · split at h
      · cases h; exact Or.inl rfl
      · split at h
        · cases h
        · cases h; exact Or.inr ⟨_, _, _, rfl⟩

/-! ## Framing of what a read moves out -/

/-- What one pass through the body of the read loop does to the uio. -/
theorem watch_body_uio {s : fsevents_state} {w : fs_event_watcher} {u : uio} {v : watch_locals}
    {nx : watch_next} (h : watch_body s w u v = some nx) (he : u.errs = []) (h0 : 0 ≤ u.resid)
    (hv : v.last_full_event_resid = u.resid) :
    match nx with
    | watch_next.stop _ u1 v1 ex =>
      (ex = watch_exit.fall ∧ u1 = u ∧ v1 = v) ∨
      (ex = watch_exit.get_out ∧ v1.last_full_event_resid = u.resid ∧ v1.error = 0 ∧
        ∃ d, u1 = { moved u d with resid := u.resid })
    | watch_next.advance _ _ u1 v1 =>
      ∃ rec, (rec = [] ∨ is_record rec) ∧ u1 = moved u rec ∧
        v1.last_full_event_resid = u1.resid ∧ (v1.error = 0 ∨ v1.error = v.error) := by
  unfold watch_body at h
  split at h
  · cases h; exact Or.inl ⟨rfl, rfl, rfl⟩
  · split at h
    · cases h; exact Or.inl ⟨rfl, rfl, rfl⟩
    · split at h
      · cases h
      · rename_i kfse _
        split at h
        · cases h; exact Or.inl ⟨rfl, rfl, rfl⟩
        · split at h
          · split at h
            · cases h
              exact ⟨[], Or.inl rfl, (moved_nil u).symm, hv, Or.inl rfl⟩
            · split at h
              · cases h
              · rename_i error u2 hco
                obtain ⟨rec, hrec⟩ := wire_record_of_copy_out hco
                obtain ⟨res, hres, hcase⟩ := copy_out_kfse_spec he h0 hrec
                rw [hco] at hres
                cases hres
                rcases hcase with ⟨h1, _⟩ | ⟨d, h1, _⟩
                · cases h1
                  rw [if_neg (by simp)] at h
                  cases h
                  exact ⟨rec, wire_record_is_record hrec, rfl, rfl, Or.inl rfl⟩
                · cases h1
                  rw [if_pos (by decide), if_pos (by decide)] at h
                  cases h
                  exact Or.inr ⟨rfl, hv, rfl, d, by rw [hv]⟩
          · cases h
            exact ⟨[], Or.inl rfl, (moved_nil u).symm, hv, Or.inr rfl⟩

/-- The records a run of the read loop has put out: `u1` is `u` after whole
records were moved out, followed, when the loop was left because an event did
not fit, by bytes beyond the residual count. -/
theorem watch_loop_framed : ∀ (fuel : Nat) (s : fsevents_state) (w : fs_event_watcher) (u : uio)
    (v : watch_locals) (s1 : fsevents_state) (w1 : fs_event_watcher) (u1 : uio)
    (v1 : watch_locals) (ex : watch_exit),
    u.errs = [] → v.last_full_event_resid = u.resid →
    watch_loop fuel s w u v = some (s1, w1, u1, v1, ex) →
    ∃ (recs : List (List Nat)) (junk : List Nat), (∀ r ∈ recs, is_record r) ∧
      u1.written = u.written ++ recs.flatten ++ junk ∧
      u1.resid = u.resid - recs.flatten.length ∧ u1.errs = [] ∧
      v1.last_full_event_resid = u1.resid ∧ (ex = watch_exit.fall → junk = []) := by
  intro fuel
  induction fuel with
  | zero =>
    intro s w u v s1 w1 u1 v1 ex he hv h
    simp only [watch_loop] at h
    split at h
    · cases h
    · cases h
      exact ⟨[], [], by simp, by simp, by simp, he, hv, fun _ => rfl⟩
  | succ n ih =>
    intro s w u v s1 w1 u1 v1 ex he hv h
    simp only [watch_loop] at h
    split at h
    · rename_i hc
      split at h
      · cases h
      · rename_i s2 u2 v2 ex2 hb
        cases h
        have hb2 := watch_body_uio hb he (by omega) hv
        rcases hb2 with ⟨_, h2, h3⟩ | ⟨hx, h2, _, d, h4⟩
        · subst h2; subst h3
          exact ⟨[], [], by simp, by simp, by simp, he, hv, fun _ => rfl⟩
        · subst h4
          refine ⟨[], d, by simp, by simp [moved], by simp, he, h2, fun g => ?_⟩
          rw [hx] at g; cases g
      · rename_i p s2 u2 v2 hb
        obtain ⟨rec, hrec, hu2, hv2, _⟩ := watch_body_uio hb he (by omega) hv
        subst hu2
        split at h
        · cases h
        · rename_i s3 _
          obtain ⟨recs, junk, a1, a2, a3, a4, a5, a6⟩ :=
            ih s3 (dequeued w) (moved u rec) v2 s1 w1 u1 v1 ex he hv2 h
          rcases hrec with hnil | hrec
          · subst hnil
            rw [moved_nil] at a2 a3
            exact ⟨recs, junk, a1, a2, a3, a4, a5, a6⟩
          · refine ⟨rec :: recs, junk, ?_, ?_, ?_, a4, a5, a6⟩
            · intro r hr
              rcases List.mem_cons.mp hr with g | g
              · rw [g]; exact hrec
              · exact a1 r g
            · rw [a2]; simp [List.append_assoc]
            · rw [a3]; simp
              omega
    · cases h
      exact ⟨[], [], by simp, by simp, by simp, he, hv, fun _ => rfl⟩

theorem dropped_record_length : dropped_record.length = 10 := by decide

theorem has_flag_cleared (f : Nat) : has_flag (f &&& 0xFFFFFFFE) WATCHER_DROPPED_EVENTS = false := by
  unfold has_flag
  rw [Nat.land_assoc]
  simp

/-- The block that writes the synthetic record, for a user buffer that does not
fault and has room for it. -/
theorem emit_dropped_spec (w : fs_event_watcher) {u : uio} (lf : Int) (he : u.errs = [])
    (hr : 10 ≤ u.resid) :
    emit_dropped w u lf =
      if has_flag w.flags WATCHER_DROPPED_EVENTS then
        (0, { w with flags := w.flags &&& 0xFFFFFFFE }, moved u dropped_record, u.resid - 10)
      else (0, w, u, lf) := by
  unfold emit_dropped
  by_cases hf : has_flag w.flags WATCHER_DROPPED_EVENTS = true
  · rw [if_pos hf, if_pos hf]
    have h1 := @uiomove_fit (le_bytes_int32 FSE_EVENTS_DROPPED) u he
      (by simp [le_bytes_int32, le_bytes_length]; omega)
    have h2 := @uiomove_fit (le_bytes_int32 0) (moved u (le_bytes_int32 FSE_EVENTS_DROPPED)) he
      (by simp [le_bytes_int32, le_bytes_length]; omega)
    have h3 := @uiomove_fit (le_bytes 2 (FSE_ARG_DONE % 2 ^ 16).toNat)
      (moved (moved u (le_bytes_int32 FSE_EVENTS_DROPPED)) (le_bytes_int32 0)) he
      (by simp [le_bytes_int32, le_bytes_length]; omega)
    rw [h1]
    dsimp only
    rw [if_pos rfl, h2]
    dsimp only
    rw [h3]
    dsimp only
    rw [if_neg (by simp), moved_moved, moved_moved]
    have hrec : le_bytes_int32 FSE_EVENTS_DROPPED ++
        (le_bytes_int32 0 ++ le_bytes 2 (FSE_ARG_DONE % 2 ^ 16).toNat) = dropped_record := by
      decide
    rw [hrec, moved_resid, dropped_record_length]
    rfl
  · rw [if_neg hf, if_neg hf]

/-- The read loop changes nothing of the watcher but its queue and `rd`. -/
theorem watch_loop_watcher : ∀ (fuel : Nat) (s : fsevents_state) (w : fs_event_watcher) (u : uio)
    (v : watch_locals) (s1 : fsevents_state) (w1 : fs_event_watcher) (u1 : uio)
    (v1 : watch_locals) (ex : watch_exit),
    watch_loop fuel s w u v = some (s1, w1, u1, v1, ex) →
    ∃ q r, w1 = { w with event_queue := q, rd := r } := by
  intro fuel
  induction fuel with
  | zero =>
    intro s w u v s1 w1 u1 v1 ex h
    simp only [watch_loop] at h
    split at h
    · cases h
    · cases h; exact ⟨_, _, rfl⟩
  | succ n ih =>
    intro s w u v s1 w1 u1 v1 ex h
    simp only [watch_loop] at h
    split at h
    · split at h
      · cases h
      · cases h; exact ⟨_, _, rfl⟩
      · split at h
        · cases h
        · obtain ⟨q, r, hq⟩ := ih _ _ _ _ _ _ _ _ _ h
          exact ⟨q, r, by rw [hq]; rfl⟩
    · cases h; exact ⟨_, _, rfl⟩

/-- The records the body of `fmod_watch` has put out. -/
theorem watch_from_restart_framed (sleep_err : Int) : ∀ (fuel : Nat) (s : fsevents_state)
    (w : fs_event_watcher) (u : uio) (lf : Int) (err : Int) (s1 : fsevents_state)
    (w1 : fs_event_watcher) (u1 : uio),
    u.errs = [] → lf = u.resid →
    (has_flag w.flags WATCHER_DROPPED_EVENTS = true → 10 ≤ u.resid) →
    watch_from_restart sleep_err fuel s w u lf = some (err, s1, w1, u1) →
    ∃ (recs : List (List Nat)) (junk : List Nat), (∀ r ∈ recs, is_record r) ∧
      u1.written = u.written ++ recs.flatten ++ junk ∧
      u1.resid = u.resid - recs.flatten.length := by
  intro fuel
  induction fuel with
  | zero => intro s w u lf err s1 w1 u1 _ _ _ h; simp [watch_from_restart] at h
  | succ n ih =>
    intro s w u lf err s1 w1 u1 he hlf hroom h
    have hnone : ∃ (recs : List (List Nat)) (junk : List Nat), (∀ r ∈ recs, is_record r) ∧
        u.written = u.written ++ recs.flatten ++ junk ∧
        u.resid = u.resid - recs.flatten.length := ⟨[], [], by simp, by simp, by simp⟩
    simp only [watch_from_restart] at h
    split at h
    · cases h; exact hnone
    · split at h
      · cases h; exact hnone
      · by_cases hf : has_flag w.flags WATCHER_DROPPED_EVENTS = true
        · rw [emit_dropped_spec w lf he (hroom hf), if_pos hf] at h
          dsimp only at h
          rw [if_neg (by simp)] at h
          have hdr : is_record dropped_record := ⟨_, _, _, rfl⟩
          have hfin : ∀ (recs : List (List Nat)) (junk : List Nat) (u2 : uio),
              (∀ r ∈ recs, is_record r) →
              u2.written = (moved u dropped_record).written ++ recs.flatten ++ junk →
              u2.resid = (moved u dropped_record).resid - recs.flatten.length →
              ∃ (recs : List (List Nat)) (junk : List Nat), (∀ r ∈ recs, is_record r) ∧
                u2.written = u.written ++ recs.flatten ++ junk ∧
                u2.resid = u.resid - recs.flatten.length := by
            intro recs junk u2 a1 a2 a3
            refine ⟨dropped_record :: recs, junk, ?_, ?_, ?_⟩
            · intro r hr
              rcases List.mem_cons.mp hr with g | g
              · rw [g]; exact hdr
              · exact a1 r g
            · rw [a2]; simp [List.append_assoc]
            · rw [a3]; simp
              omega
          split at h
          · cases h
          · rename_i s3 w3 u3 v3 hl
            cases h
            obtain ⟨recs, junk, a1, a2, a3, _, _, _⟩ :=
              watch_loop_framed _ _ _ _ _ _ _ _ _ _ (by simpa using he)
                (by simp [dropped_record_length]) hl
            exact hfin recs junk _ a1 a2 a3
          · rename_i s3 w3 u3 v3 hl
            obtain ⟨recs, junk, a1, a2, a3, a4, a5, a6⟩ :=
              watch_loop_framed _ _ _ _ _ _ _ _ _ _ (by simpa using he)
                (by simp [dropped_record_length]) hl
            have hj := a6 rfl
            subst hj
            obtain ⟨q, r, hw3⟩ := watch_loop_watcher _ _ _ _ _ _ _ _ _ _ hl
            split at h
            · have hflag : ¬ has_flag w3.flags WATCHER_DROPPED_EVENTS = true := by
                rw [hw3]
                show ¬ has_flag (w.flags &&& 0xFFFFFFFE) WATCHER_DROPPED_EVENTS = true
                rw [has_flag_cleared]; simp
              obtain ⟨recs2, junk2, b1, b2, b3⟩ := ih _ _ _ _ _ _ _ _ a4 a5
                (fun g => absurd g hflag) h
              refine hfin (recs ++ recs2) junk2 _ ?_ ?_ ?_
              · intro r hr
                rcases List.mem_append.mp hr with g | g
                · exact a1 r g
                · exact b1 r g
              · rw [b2, a2]; simp [List.append_assoc]
              · rw [b3, a3]; simp
                omega
            · cases h
              exact hfin recs [] _ a1 a2 a3
        · have hem : emit_dropped w u lf = (0, w, u, lf) := by
            unfold emit_dropped
            rw [if_neg hf]
          rw [hem] at h
          dsimp only at h
          rw [if_neg (by simp)] at h
          split at h
          · cases h
          · rename_i s3 w3 u3 v3 hl
            cases h
            obtain ⟨recs, junk, a1, a2, a3, _, _, _⟩ :=
              watch_loop_framed _ _ _ _ _ _ _ _ _ _ he hlf hl
            exact ⟨recs, junk, a1, a2, a3⟩
          · rename_i s3 w3 u3 v3 hl
            obtain ⟨recs, junk, a1, a2, a3, a4, a5, a6⟩ :=
              watch_loop_framed _ _ _ _ _ _ _ _ _ _ he hlf hl
            have hj := a6 rfl
            subst hj
            obtain ⟨q, r, hw3⟩ := watch_loop_watcher _ _ _ _ _ _ _ _ _ _ hl
            split at h
            · have hflag : ¬ has_flag w3.flags WATCHER_DROPPED_EVENTS = true := by
                rw [hw3]; exact hf
              obtain ⟨recs2, junk2, b1, b2, b3⟩ := ih _ _ _ _ _ _ _ _ a4 a5
                (fun g => absurd g hflag) h
              refine ⟨recs ++ recs2, junk2, ?_, ?_, ?_⟩
              · intro r hr
                rcases List.mem_append.mp hr with g | g
                · exact a1 r g
                · exact b1 r g
              · rw [b2, a2]; simp [List.append_assoc]
              · rw [b3, a3]; simp
                omega
            · cases h
              exact ⟨recs, [], a1, a2, a3⟩

/-- The records a read has put out. -/
theorem fmod_watch_framed {s s1 : fsevents_state} {j : Nat} {u u1 : uio} {sleep_err r : Int}
    (he : u.errs = []) (h : fmod_watch s j u sleep_err = some (r, s1, u1)) :
    ∃ (recs : List (List Nat)) (junk : List Nat), (∀ r ∈ recs, is_record r) ∧
      u1.written = u.written ++ recs.flatten ++ junk ∧
      u1.resid = u.resid - recs.flatten.length := by
  have hnone : ∃ (recs : List (List Nat)) (junk : List Nat), (∀ r ∈ recs, is_record r) ∧
      u.written = u.written ++ recs.flatten ++ junk ∧
      u.resid = u.resid - recs.flatten.length := ⟨[], [], by simp, by simp, by simp⟩
  unfold fmod_watch at h
  split at h
  · cases h; exact hnone
  · split at h
    · cases h; exact hnone
    · rename_i hres
      split at h
      · cases h; exact hnone
      · split at h
        · cases h; exact hnone
        · dsimp only at h
          split at h
          · cases h
          · rename_i err s2 w2 u2 hwr
            cases h
            exact watch_from_restart_framed sleep_err _ _ _ _ _ _ _ _ _ he rfl
              (fun _ => by omega) hwr

/-! ## The record of an event in another state or view -/

theorem body_fields_view {s : fsevents_state} {w w1 : fs_event_watcher} (type : Int)
    (h : has_flag w1.flags WATCHER_WANTS_COMPACT_EVENTS =
      has_flag w.flags WATCHER_WANTS_COMPACT_EVENTS) : ∀ (n : Nat) (e : kfs_event),
    body_fields s w1 type n e = body_fields s w type n e := by
  intro n
  induction n with
  | zero => intro e; rfl
  | succ n ih =>
    intro e
    simp only [body_fields, h, ih]

theorem wire_record_view {s : fsevents_state} {w w1 : fs_event_watcher} (h : same_view w w1)
    (e : kfs_event) : wire_record s w1 e = wire_record s w e := by
  simp only [wire_record, wire_kind, h.2.2.1, body_fields_view e.type h.2.1]

theorem read_bytes_view {s : fsevents_state} {w w1 : fs_event_watcher} (h : same_view w w1)
    (e : kfs_event) : read_bytes s w1 e = read_bytes s w e := by
  simp only [read_bytes, h.1, h.2.2.2, wire_record_view h]

theorem entry_bytes_view {s : fsevents_state} {w w1 : fs_event_watcher} (h : same_view w w1)
    (p : Nat) : entry_bytes s w1 p = entry_bytes s w p := by
  unfold entry_bytes
  split
  · rfl
  · exact read_bytes_view h _

theorem same_view_refl (w : fs_event_watcher) : same_view w w := ⟨rfl, rfl, rfl, rfl⟩

theorem same_view_trans {w w1 w2 : fs_event_watcher} (h1 : same_view w w1)
    (h2 : same_view w1 w2) : same_view w w2 :=
  ⟨h2.1.trans h1.1, h2.2.1.trans h1.2.1, h2.2.2.1.trans h1.2.2.1, h2.2.2.2.trans h1.2.2.2⟩

/-- The fields of an event read in a state whose zone holds the same events up
to their reference counts. -/
theorem body_fields_shrinks {s s3 : fsevents_state} (w : fs_event_watcher) (type : Int)
    (hsh : zone_shrinks s.event_zone s3.event_zone)
    (hcl : ∀ p e3, s3.event_zone.getD p none = some e3 → ∀ d, e3.dest = some d →
      ∃ de, s3.event_zone.getD d none = some de) :
    ∀ (n p : Nat) (e3 : kfs_event), s3.event_zone.getD p none = some e3 →
      ∃ e, s.event_zone.getD p none = some e ∧ e3 = { e with refcount := e3.refcount } ∧
        (body_fields s3 w type n e3).map (fun r => (r.1, r.2.abstime)) =
          (body_fields s w type n e).map (fun r => (r.1, r.2.abstime)) := by
  intro n
  induction n with
  | zero =>
    intro p e3 h3
    obtain ⟨e, he, heq⟩ := hsh.2 p e3 h3
    exact ⟨e, he, heq, rfl⟩
  | succ n ih =>
    intro p e3 h3
    obtain ⟨e, he, heq⟩ := hsh.2 p e3 h3
    refine ⟨e, he, heq, ?_⟩
    have f1 : e3.docid_dev = e.docid_dev := by rw [heq]
    have f2 : e3.docid_src_ino = e.docid_src_ino := by rw [heq]
    have f3 : e3.docid_dst_ino = e.docid_dst_ino := by rw [heq]
    have f4 : e3.docid_docid = e.docid_docid := by rw [heq]
    have f5 : e3.dev = e.dev := by rw [heq]
    have f6 : e3.act_version = e.act_version := by rw [heq]
    have f7 : e3.act_dev = e.act_dev := by rw [heq]
    have f8 : e3.act_ino = e.act_ino := by rw [heq]
    have f9 : e3.act_origin_id = e.act_origin_id := by rw [heq]
    have f10 : e3.act_age = e.act_age := by rw [heq]
    have f11 : e3.act_use_state = e.act_use_state := by rw [heq]
    have f12 : e3.act_urgency = e.act_urgency := by rw [heq]
    have f13 : e3.act_size = e.act_size := by rw [heq]
    have f14 : e3.flags = e.flags := by rw [heq]
    have f15 : e3.str = e.str := by rw [heq]
    have f16 : e3.len = e.len := by rw [heq]
    have f17 : e3.audit_token = e.audit_token := by rw [heq]
    have f18 : e3.ino = e.ino := by rw [heq]
    have f19 : e3.mode = e.mode := by rw [heq]
    have f20 : e3.uid = e.uid := by rw [heq]
    have f21 : e3.document_id = e.document_id := by rw [heq]
    have f22 : e3.dest = e.dest := by rw [heq]
    have f23 : e3.abstime = e.abstime := by rw [heq]
    simp only [body_fields, f1, f2, f3, f4, f5, f6, f7, f8, f9, f10, f11, f12, f13, f14, f15, f16,
      f17, f18, f19, f20, f21, f22]
    split
    · simp [f23]
    · split
      · simp [f23]
      · split
        · simp [f23]
        · split
          · split <;> simp [f23]
          · split
            · simp [f23]
            · cases hd : e.dest with
              | none => simp [f23]
              | some d =>
                obtain ⟨de3, hde3⟩ := hcl p e3 h3 d (by rw [f22, hd])
                obtain ⟨de, hde, _, hrec⟩ := ih d de3 hde3
                have g3 : deref s3 d = some de3 := hde3
                have g : deref s d = some de := hde
                simp only [g3, g]
                cases hb3 : body_fields s3 w type n de3 with
                | none =>
                  rw [hb3] at hrec
                  cases hb : body_fields s w type n de with
                  | none => rfl
                  | some r => rw [hb] at hrec; simp at hrec
                | some r3 =>
                  rw [hb3] at hrec
                  cases hb : body_fields s w type n de with
                  | none => rw [hb] at hrec; simp at hrec
                  | some r =>
                    rw [hb] at hrec
                    simp only [Option.map_some', Option.some.injEq, Prod.mk.injEq] at hrec
                    obtain ⟨r3a, r3b⟩ := r3
                    obtain ⟨ra, rb⟩ := r
                    simp only at hrec
                    simp [hrec.1, hrec.2]

theorem wire_record_map (s : fsevents_state) (w : fs_event_watcher) (e : kfs_event) :
    wire_record s w e =
      if e.type = FSE_INVALID then none
      else if has_flag e.flags KFSE_BEING_CREATED then some []
      else if (e.type = FSE_RENAME ∨ e.type = FSE_CLONE) ∧ e.dest = none then some []
      else
        ((body_fields s w e.type (s.event_zone.length + 1) e).map
          (fun r => (r.1, r.2.abstime))).map
          (fun r => encode_record (wire_kind w e) e.pid
            (r.1 ++ [(FSE_ARG_INT64, le_bytes 8 r.2)])) := by
  unfold wire_record
  split
  · rfl
  · split
    · rfl
    · split
      · rfl
      · cases body_fields s w e.type (s.event_zone.length + 1) e with
        | none => rfl
        | some r => rfl

/-- The record of an event read in a state whose zone holds the same events up
to their reference counts. -/
theorem wire_record_shrinks {s s3 : fsevents_state} (w : fs_event_watcher)
    (hsh : zone_shrinks s.event_zone s3.event_zone)
    (hcl : ∀ p e3, s3.event_zone.getD p none = some e3 → ∀ d, e3.dest = some d →
      ∃ de, s3.event_zone.getD d none = some de)
    {p : Nat} {e3 : kfs_event} (h3 : s3.event_zone.getD p none = some e3) :
    ∃ e, s.event_zone.getD p none = some e ∧ e3 = { e with refcount := e3.refcount } ∧
      wire_record s3 w e3 = wire_record s w e := by
  obtain ⟨e, he, heq, hb⟩ := body_fields_shrinks w e3.type hsh hcl (s3.event_zone.length + 1)
    p e3 h3
  refine ⟨e, he, heq, ?_⟩
  have f1 : e3.type = e.type := by rw [heq]
  have f2 : e3.flags = e.flags := by rw [heq]
  have f3 : e3.dest = e.dest := by rw [heq]
  have f4 : e3.pid = e.pid := by rw [heq]
  have f5 : wire_kind w e3 = wire_kind w e := by simp only [wire_kind, f1, f2]
  rw [wire_record_map s3, wire_record_map s, hb, f1, f2, f3, f4, f5, hsh.1]

theorem read_bytes_shrinks {s s3 : fsevents_state} (w : fs_event_watcher)
    (hsh : zone_shrinks s.event_zone s3.event_zone)
    (hcl : ∀ p e3, s3.event_zone.getD p none = some e3 → ∀ d, e3.dest = some d →
      ∃ de, s3.event_zone.getD d none = some de)
    {p : Nat} {e3 : kfs_event} (h3 : s3.event_zone.getD p none = some e3) :
    entry_bytes s3 w p = entry_bytes s w p := by
  obtain ⟨e, he, heq, hw⟩ := wire_record_shrinks w hsh hcl h3
  have g3 : deref s3 p = some e3 := h3
  have g : deref s p = some e := he
  have f1 : e3.type = e.type := by rw [heq]
  have f2 : e3.str = e.str := by rw [heq]
  simp only [entry_bytes, g3, g, read_bytes, hw, f1, f2]

/-- The destinations of the events of a consistent zone are in use. -/
theorem zone_ok_closed {z : List (Option kfs_event)} {cnt : Nat → Nat} (h : zone_ok z cnt) :
    ∀ p e, z.getD p none = some e → ∀ d, e.dest = some d →
      ∃ de, z.getD d none = some de := by
  intro p e he d hd
  obtain ⟨_, de, hde, _⟩ := (h.2 p e he).2.2.1 d hd
  exact ⟨de, hde⟩

/-- An event without destination has its fields. -/
theorem body_fields_leaf (s : fsevents_state) (w : fs_event_watcher) (type : Int) (n : Nat)
    {e : kfs_event} (hd : e.dest = none) : ∃ r, body_fields s w type (n + 1) e = some r := by
  simp only [body_fields, hd]
  split
  · exact ⟨_, rfl⟩
  · split
    · exact ⟨_, rfl⟩
    · split
      · exact ⟨_, rfl⟩
      · split
        · split <;> exact ⟨_, rfl⟩
        · split <;> exact ⟨_, rfl⟩

/-- An event of a consistent zone has its fields. -/
theorem body_fields_some {s : fsevents_state} {cnt : Nat → Nat} (w : fs_event_watcher)
    (type : Int) (h : zone_ok s.event_zone cnt) {p : Nat} {e : kfs_event}
    (he : s.event_zone.getD p none = some e) (n : Nat) :
    ∃ r, body_fields s w type (n + 2) e = some r := by
  cases hd : e.dest with
  | none => exact body_fields_leaf s w type (n + 1) hd
  | some d =>
    obtain ⟨_, de, hde, hoff⟩ := (h.2 p e he).2.2.1 d hd
    have hdd : de.dest = none := ((h.2 d de hde).2.1 hoff).2.1
    obtain ⟨r, hr⟩ := body_fields_leaf s w type n hdd
    rw [show n + 2 = (n + 1) + 1 from rfl]
    have g : deref s d = some de := hde
    rw [body_fields]
    simp only [hd, g, hr]
    split
    · exact ⟨_, rfl⟩
    · split
      · exact ⟨_, rfl⟩
      · split
        · exact ⟨_, rfl⟩
        · split
          · split <;> exact ⟨_, rfl⟩
          · split <;> exact ⟨_, rfl⟩

/-- An event of a consistent zone that is on the global list has a record. -/
theorem wire_record_some {s : fsevents_state} {cnt : Nat → Nat} (w : fs_event_watcher)
    (h : zone_ok s.event_zone cnt) {p : Nat} {e : kfs_event}
    (he : s.event_zone.getD p none = some e) :
    e.type ≠ FSE_INVALID → ∃ rec, wire_record s w e = some rec := by
  intro hty
  have hp : p < s.event_zone.length := getD_some_lt he
  obtain ⟨m, hm⟩ : ∃ m, s.event_zone.length + 1 = m + 2 := ⟨s.event_zone.length - 1, by omega⟩
  obtain ⟨r, hr⟩ := body_fields_some w e.type h he m
  unfold wire_record
  rw [if_neg hty, hm, hr]
  split
  · exact ⟨_, rfl⟩
  · split <;> exact ⟨_, rfl⟩

theorem read_spec_congr {s s3 : fsevents_state} {w w3 : fs_event_watcher} :
    ∀ (q : List (Option Nat)) (r : Int),
    (∀ p, some p ∈ q → entry_bytes s3 w3 p = entry_bytes s w p) →
    read_spec s3 w3 q r = read_spec s w q r := by
  intro q
  induction q with
  | nil => intro r _; rfl
  | cons x rest ih =>
    intro r h
    cases x with
    | none => rfl
    | some p =>
      simp only [read_spec, h p (List.mem_cons_self _ _)]
      rw [ih _ (fun p1 hp1 => h p1 (List.mem_cons_of_mem _ hp1))]

theorem read_spec_subset (s : fsevents_state) (w : fs_event_watcher) :
    ∀ (q : List (Option Nat)) (r : Int) (p : Nat), p ∈ read_spec s w q r → some p ∈ q := by
  intro q
  induction q with
  | nil => intro r p h; simp [read_spec] at h
  | cons x rest ih =>
    intro r p h
    cases x with
    | none => simp [read_spec] at h
    | some p0 =>
      simp only [read_spec] at h
      split at h
      · rcases List.mem_cons.mp h with g | g
        · rw [g]; exact List.mem_cons_self _ _
        · exact List.mem_cons_of_mem _ (ih _ _ g)
      · simp at h

theorem read_out_congr {s s3 : fsevents_state} {w w3 : fs_event_watcher} (taken : List Nat)
    (h : ∀ p ∈ taken, entry_bytes s3 w3 p = entry_bytes s w p) :
    read_out s3 w3 taken = read_out s w taken := by
  unfold read_out
  congr 1
  exact List.map_congr_left h

theorem read_spec_length (s : fsevents_state) (w : fs_event_watcher) :
    ∀ (q : List (Option Nat)) (r : Int), (read_spec s w q r).length ≤ q.length := by
  intro q
  induction q with
  | nil => intro r; simp [read_spec]
  | cons x rest ih =>
    intro r
    cases x with
    | none => simp [read_spec]
    | some p0 =>
      simp only [read_spec]
      split
      · simp only [List.length_cons]
        have := ih (r - (entry_bytes s w p0).length)
        omega
      · simp

/-! ## What a read takes from the queue -/

theorem pending_length (w : fs_event_watcher) : (pending w).length = num_pending w := by
  simp [pending]

theorem num_pending_of_eq {w : fs_event_watcher} (h : w.rd = w.wr) : num_pending w = 0 := by
  rw [← pending_length, pending_nil_of_eq h]; rfl

theorem read_spec_nonpos (s : fsevents_state) (w : fs_event_watcher) (q : List (Option Nat))
    {r : Int} (h : r ≤ 0) : read_spec s w q r = [] := by
  cases q with
  | nil => rfl
  | cons x rest =>
    cases x with
    | none => rfl
    | some p =>
      simp only [read_spec]
      rw [if_neg (fun g => by omega)]

/-- One pass through the body of the read loop, for a queue head that holds a
valid event and a user buffer that does not fault: the entry is taken and its
bytes are moved out when they fit, and the loop is left for `get_out` when they
do not. -/
theorem watch_body_spec {s : fsevents_state} {w : fs_event_watcher} {u : uio} {v : watch_locals}
    {p : Nat} {e : kfs_event} {rec : List Nat}
    (hnc : has_flag w.flags WATCHER_CLOSING = false)
    (hhead : w.event_queue.getD w.rd none = some p) (he : deref s p = some e)
    (hvalid : ¬ (e.type = FSE_INVALID ∨ e.type ≥ w.num_events ∨ e.refcount < 1))
    (hu : u.errs = []) (h0 : 0 ≤ u.resid) (hv : v.last_full_event_resid = u.resid)
    (hve : v.error = 0) (hrec : wire_record s w e = some rec) :
    (((entry_bytes s w p).length : Int) ≤ u.resid ∧
      ∃ s2 v2, watch_body s w u v =
          some (watch_next.advance p s2 (moved u (entry_bytes s w p)) v2) ∧
        (s2 = s ∨ s2 = forget_last_event s p) ∧
        v2.last_full_event_resid = (moved u (entry_bytes s w p)).resid ∧ v2.error = 0) ∨
    (u.resid < (entry_bytes s w p).length ∧
      ∃ d, watch_body s w u v =
        some (watch_next.stop (forget_last_event s p) { moved u d with resid := u.resid }
          { v with error := 0, skipped := false } watch_exit.get_out)) := by
  have hnc' : ¬ has_flag w.flags WATCHER_CLOSING = true := by rw [hnc]; simp
  have hentry : entry_bytes s w p = read_bytes s w e := by simp only [entry_bytes, he]
  unfold watch_body
  rw [if_neg hnc', hhead]
  dsimp only
  rw [he]
  dsimp only
  rw [if_neg hvalid]
  by_cases hrep : w.event_list.getD e.type.toNat FSE_IGNORE = FSE_REPORT
  · rw [if_pos hrep]
    by_cases hign : !(has_flag w.flags WATCHER_APPLE_SYSTEM_SERVICE) ∧
        e.type ≠ FSE_DOCID_CREATED ∧ e.type ≠ FSE_DOCID_CHANGED ∧
        e.type ≠ FSE_ACTIVITY ∧ is_ignored_directory e.str
    · rw [if_pos hign]
      have hb : entry_bytes s w p = [] := by
        rw [hentry]; unfold read_bytes; rw [if_pos hrep, if_pos hign]
      rw [hb, moved_nil]
      exact Or.inl ⟨by simpa using h0, _, _, rfl, Or.inl rfl, hv, rfl⟩
    · rw [if_neg hign]
      have hb : entry_bytes s w p = rec := by
        rw [hentry]; unfold read_bytes; rw [if_pos hrep, if_neg hign, hrec]; rfl
      have hrec2 : wire_record (forget_last_event s p) w e = some rec := by
        rw [wire_record_congr w e (forget_zone s p)]; exact hrec
      obtain ⟨res, hres, hcase⟩ := copy_out_kfse_spec hu h0 hrec2
      rw [hres]
      dsimp only
      rcases hcase with ⟨h1, h2⟩ | ⟨d, h1, h2⟩
      · subst h1
        dsimp only
        rw [if_neg (by simp), hb]
        exact Or.inl ⟨h2, _, _, rfl, Or.inr rfl, rfl, rfl⟩
      · subst h1
        dsimp only
        rw [if_pos (by decide), if_pos (by decide), hb, hv]
        exact Or.inr ⟨h2, d, rfl⟩
  · rw [if_neg hrep]
    have hb : entry_bytes s w p = [] := by
      rw [hentry]; unfold read_bytes; rw [if_neg hrep]
    rw [hb, moved_nil]
    exact Or.inl ⟨by simpa using h0, _, _, rfl, Or.inl rfl, hv, hve⟩

theorem same_view_dequeued (w : fs_event_watcher) : same_view w (dequeued w) :=
  ⟨rfl, rfl, rfl, rfl⟩

/-- The read loop, run on the reader's view of a consistent watcher with a user
buffer that does not fault: it returns, having taken the entries `read_spec`
lists and moved out their bytes. -/
theorem watch_loop_spec (base : Nat → Nat) : ∀ (fuel : Nat) (s : fsevents_state)
    (w : fs_event_watcher) (u : uio) (v : watch_locals),
    ring_ok w → zone_ok s.event_zone (fun p => base p + (pending w).count (some p)) →
    (∀ x ∈ pending w, ∃ p e, x = some p ∧ s.event_zone.getD p none = some e ∧
      e.type < w.num_events) →
    has_flag w.flags WATCHER_CLOSING = false → u.errs = [] →
    v.last_full_event_resid = u.resid → v.error = 0 → num_pending w ≤ fuel →
    ∃ s1 u1 v1 ex junk,
      watch_loop fuel s w u v =
        some (s1, dequeued^[(read_spec s w (pending w) u.resid).length] w, u1, v1, ex) ∧
      u1.errs = [] ∧ v1.last_full_event_resid = u1.resid ∧ v1.error = 0 ∧
      u1.resid = u.resid - (read_out s w (read_spec s w (pending w) u.resid)).length ∧
      u1.written = u.written ++ read_out s w (read_spec s w (pending w) u.resid) ++ junk ∧
      (ex = watch_exit.fall → junk = [] ∧
        (u1.resid ≤ 0 ∨ (read_spec s w (pending w) u.resid).length = num_pending w)) ∧
      (ex = watch_exit.get_out →
        (read_spec s w (pending w) u.resid).length < num_pending w) := by
  intro fuel
  induction fuel with
  | zero =>
    intro s w u v hr hz hent hnc hu hv hve hfuel
    have hnp : num_pending w = 0 := by omega
    have hpn : pending w = [] := by
      apply List.eq_nil_of_length_eq_zero; rw [pending_length]; exact hnp
    have heq : w.rd = w.wr := by
      by_contra hne
      have := (num_pending_pos hr hne).2.2
      omega
    refine ⟨s, u, v, watch_exit.fall, [], ?_, hu, hv, hve, ?_, ?_, fun _ => ⟨rfl, Or.inr ?_⟩,
      fun g => by cases g⟩
    · simp only [watch_loop, hpn, read_spec]
      rw [if_neg (fun g => g.2 heq)]
      rfl
    · simp [hpn, read_spec, read_out]
    · simp [hpn, read_spec, read_out]
    · simp [hpn, read_spec, hnp]
  | succ n ih =>
    intro s w u v hr hz hent hnc hu hv hve hfuel
    by_cases hc : u.resid > 0 ∧ w.rd ≠ w.wr
    · obtain ⟨hpd, hok1, hnum⟩ := @pending_dequeue _ (dequeued w) hr hc.2 rfl rfl rfl rfl
      obtain ⟨p, e, hx, he, hty⟩ := hent (w.event_queue.getD w.rd none)
        (by rw [hpd]; exact List.mem_cons_self _ _)
      have hcnt : 1 ≤ base p + (pending w).count (some p) := by
        rw [hpd, hx, List.count_cons_self]; omega
      obtain ⟨e', he', hl⟩ := zone_ok_alloc_of_pos hz hcnt
      rw [he] at he'; cases he'
      obtain ⟨hrc, hpos, hty0, _⟩ := (hz.2 p e he).1 hl
      have hvalid : ¬ (e.type = FSE_INVALID ∨ e.type ≥ w.num_events ∨ e.refcount < 1) := by
        rintro (g | g | g)
        · rw [g] at hty0; exact absurd hty0 (by decide)
        · omega
        · rw [hrc] at g; omega
      obtain ⟨rec, hrec⟩ := wire_record_some w hz he
        (fun g => by rw [g] at hty0; exact absurd hty0 (by decide))
      rw [hx] at hpd
      rcases watch_body_spec hnc hx he hvalid hu (by omega) hv hve hrec with
        ⟨hfit, s2, v2, hb, hs2, hv2, hve2⟩ | ⟨hnofit, d, hb⟩
      · -- the entry is taken
        have hz2e : s2.event_zone = s.event_zone := by
          rcases hs2 with g | g
          · rw [g]
          · rw [g]; exact forget_zone s p
        have hz2 : zone_ok s2.event_zone (fun q => base q + (pending w).count (some q)) := by
          rw [hz2e]; exact hz
        have he2 : deref s2 p = some e := by
          show s2.event_zone.getD p none = some e
          rw [hz2e]; exact he
        obtain ⟨s3, hrel, _, hz4, hsh⟩ := release_event_ref_ok hz2 he2 hl
        have hz3 : zone_ok s3.event_zone
            (fun q => base q + (pending (dequeued w)).count (some q)) := by
          apply zone_ok_congr hz4
          intro q
          rw [hpd]
          by_cases hq : q = p
          · subst hq; simp
          · simp [hq, List.count_cons, Ne.symm hq]
        have hsh3 : zone_shrinks s.event_zone s3.event_zone := by
          rw [← hz2e]; exact hsh
        have hent3 : ∀ x ∈ pending (dequeued w), ∃ p e, x = some p ∧
            s3.event_zone.getD p none = some e ∧ e.type < (dequeued w).num_events := by
          intro x hx3
          obtain ⟨p1, e1, a1, a2, a3⟩ := hent x (by rw [hpd]; exact List.mem_cons_of_mem _ hx3)
          have hc1 : 1 ≤ base p1 + (pending (dequeued w)).count (some p1) := by
            have : 1 ≤ (pending (dequeued w)).count (some p1) :=
              List.count_pos_iff.mpr (by rw [← a1]; exact hx3)
            omega
          obtain ⟨e3, b1, _⟩ := zone_ok_alloc_of_pos hz3 hc1
          obtain ⟨e0, c1, c2⟩ := zone_shrinks_type hsh3 b1
          rw [a2] at c1; cases c1
          exact ⟨p1, e3, a1, b1, by rw [c2]; exact a3⟩
        have hbytes : ∀ q, some q ∈ pending (dequeued w) →
            entry_bytes s3 (dequeued w) q = entry_bytes s w q := by
          intro q hq
          obtain ⟨p1, e3, a1, a2, _⟩ := hent3 (some q) hq
          cases a1
          rw [entry_bytes_view (same_view_dequeued w)]
          exact read_bytes_shrinks w hsh3 (zone_ok_closed hz3) a2
        obtain ⟨s1, u1, v1, ex, junk, i1, i2, i3, i4, i5, i6, i7, i8⟩ :=
          ih s3 (dequeued w) (moved u (entry_bytes s w p)) v2 hok1 hz3 hent3 hnc
            (by simpa using hu) hv2 hve2 (by omega)
        rw [read_spec_congr _ _ hbytes] at i1 i5 i6 i7 i8
        have hout : read_out s3 (dequeued w)
              (read_spec s w (pending (dequeued w)) (moved u (entry_bytes s w p)).resid) =
            read_out s w
              (read_spec s w (pending (dequeued w)) (moved u (entry_bytes s w p)).resid) :=
          read_out_congr _ (fun q hq => hbytes q (read_spec_subset _ _ _ _ _ hq))
        rw [hout] at i5 i6
        have hspec : read_spec s w (pending w) u.resid =
            p :: read_spec s w (pending (dequeued w)) (moved u (entry_bytes s w p)).resid := by
          rw [hpd]
          simp only [read_spec]
          rw [if_pos ⟨hc.1, hfit⟩]
          rfl
        refine ⟨s1, u1, v1, ex, junk, ?_, i2, i3, i4, ?_, ?_, fun g => ?_, fun g => ?_⟩
        · simp only [watch_loop]
          rw [if_pos hc, hb]
          dsimp only
          rw [hrel]
          dsimp only
          rw [i1, hspec, List.length_cons, Function.iterate_succ_apply]
        · rw [i5, hspec]
          simp only [read_out, List.map_cons, List.flatten_cons, List.length_append, moved_resid]
          push_cast
          ring
        · rw [i6, hspec]
          simp only [read_out, List.map_cons, List.flatten_cons, moved_written,
            List.append_assoc]
        · obtain ⟨j1, j2⟩ := i7 g
          refine ⟨j1, ?_⟩
          rcases j2 with j2 | j2
          · exact Or.inl j2
          · right
            rw [hspec, List.length_cons, j2, hnum]
        · have := i8 g
          rw [hspec, List.length_cons, hnum]
          omega
      · -- the record of the entry does not fit
        have hspec : read_spec s w (pending w) u.resid = [] := by
          rw [hpd]
          simp only [read_spec]
          rw [if_neg (fun g => by omega)]
        refine ⟨forget_last_event s p, { moved u d with resid := u.resid },
          { v with error := 0, skipped := false }, watch_exit.get_out, d, ?_, hu, hv, rfl, ?_, ?_,
          (fun g => by cases g), fun _ => ?_⟩
        · simp only [watch_loop]
          rw [if_pos hc, hb, hspec]
          rfl
        · rw [hspec]; simp [read_out]
        · rw [hspec]; simp [read_out]
        · rw [hspec, hnum]; simp
    · have hspec : read_spec s w (pending w) u.resid = [] := by
        by_cases hres : u.resid > 0
        · have heq : w.rd = w.wr := by
            by_contra hne
            exact hc ⟨hres, hne⟩
          rw [pending_nil_of_eq heq]
          rfl
        · exact read_spec_nonpos s w _ (by omega)
      refine ⟨s, u, v, watch_exit.fall, [], ?_, hu, hv, hve, ?_, ?_, fun _ => ⟨rfl, ?_⟩,
        fun g => by cases g⟩
      · simp only [watch_loop]
        rw [if_neg hc, hspec]
        rfl
      · rw [hspec]; simp [read_out]
      · rw [hspec]; simp [read_out]
      · by_cases hres : u.resid > 0
        · right
          have heq : w.rd = w.wr := by
            by_contra hne
            exact hc ⟨hres, hne⟩
          rw [hspec, num_pending_of_eq heq]
          rfl
        · exact Or.inl (by omega)

/-! ## Several entries taken from a ring -/

theorem iterate_fields : ∀ (k : Nat) (w : fs_event_watcher),
    (dequeued^[k] w).flags = w.flags ∧ (dequeued^[k] w).event_list = w.event_list ∧
    (dequeued^[k] w).num_events = w.num_events ∧
    (dequeued^[k] w).eventq_size = w.eventq_size ∧ (dequeued^[k] w).wr = w.wr ∧
    (dequeued^[k] w).num_readers = w.num_readers := by
  intro k
  induction k with
  | zero => intro w; exact ⟨rfl, rfl, rfl, rfl, rfl, rfl⟩
  | succ k ih =>
    intro w
    rw [Function.iterate_succ_apply]
    exact ih (dequeued w)

theorem iterate_rd_mod : ∀ (k : Nat) (w : fs_event_watcher),
    (dequeued^[k] w).rd = if k = 0 then w.rd else (w.rd + k) % w.eventq_size := by
  intro k
  induction k with
  | zero => intro w; rfl
  | succ k ih =>
    intro w
    rw [Function.iterate_succ_apply', if_neg (by omega)]
    show ((dequeued^[k] w).rd + 1) % (dequeued^[k] w).eventq_size = _
    rw [(iterate_fields k w).2.2.2.1, ih w]
    split
    · rename_i h; subst h; rfl
    · rw [Nat.mod_add_mod]; rfl

theorem iterate_rd {w : fs_event_watcher} (h : ring_ok w) (k : Nat) :
    (dequeued^[k] w).rd = (w.rd + k) % w.eventq_size := by
  rw [iterate_rd_mod]
  split
  · rename_i hk
    subst hk
    rcases h.rd_lt with g | ⟨g, _⟩
    · rw [Nat.add_zero, Nat.mod_eq_of_lt g]
    · rw [g, Nat.mod_zero]; rfl
  · rfl

theorem pending_iterate : ∀ (k : Nat) (w : fs_event_watcher), ring_ok w → k ≤ num_pending w →
    ring_ok (dequeued^[k] w) ∧ pending w = (pending w).take k ++ pending (dequeued^[k] w) ∧
    num_pending (dequeued^[k] w) = num_pending w - k := by
  intro k
  induction k with
  | zero => intro w h _; exact ⟨h, by simp, rfl⟩
  | succ k ih =>
    intro w h hk
    have hne : w.rd ≠ w.wr := by
      intro g
      have := num_pending_of_eq g
      omega
    obtain ⟨hpd, hok1, hnum⟩ := @pending_dequeue _ (dequeued w) h hne rfl rfl rfl rfl
    obtain ⟨i1, i2, i3⟩ := ih (dequeued w) hok1 (by omega)
    rw [Function.iterate_succ_apply]
    refine ⟨i1, ?_, by rw [i3, hnum]; omega⟩
    rw [hpd, List.take_succ_cons, List.cons_append, ← i2]

theorem read_spec_take (s : fsevents_state) (w : fs_event_watcher) :
    ∀ (q : List (Option Nat)) (r : Int),
    (read_spec s w q r).map some = q.take (read_spec s w q r).length := by
  intro q
  induction q with
  | nil => intro r; simp [read_spec]
  | cons x rest ih =>
    intro r
    cases x with
    | none => simp [read_spec]
    | some p =>
      simp only [read_spec]
      split
      · simp only [List.map_cons, List.length_cons, List.take_succ_cons]
        rw [ih]
      · simp

/-- What a read has taken is the front of the queue, and the rest stays. -/
theorem pending_taken {s : fsevents_state} {w : fs_event_watcher} (h : ring_ok w) (r : Int) :
    pending w = (read_spec s w (pending w) r).map some ++
      pending (dequeued^[(read_spec s w (pending w) r).length] w) := by
  have hk : (read_spec s w (pending w) r).length ≤ num_pending w := by
    rw [← pending_length]; exact read_spec_length s w _ _
  rw [read_spec_take]
  exact (pending_iterate _ w h hk).2.1

/-- A pass of `fmod_watch` that finds no room or an empty queue, and no flag to
report, leaves everything as it is. -/
theorem watch_from_restart_idle (sleep_err : Int) (n : Nat) (s : fsevents_state)
    (w : fs_event_watcher) (u : uio) (lf : Int) (hidle : u.resid ≤ 0 ∨ w.rd = w.wr)
    (hf : has_flag w.flags WATCHER_DROPPED_EVENTS = false)
    (hnc : has_flag w.flags WATCHER_CLOSING = false) :
    watch_from_restart sleep_err (n + 1) s w u lf =
      some (if w.rd = w.wr ∧ sleep_err ≠ 0 then sleep_err else 0, s,
        { w with num_readers := w.num_readers - 1 }, u) := by
  have hloop : ∀ fuel v, watch_loop fuel s w u v = some (s, w, u, v, watch_exit.fall) := by
    intro fuel v
    have hc : ¬ (u.resid > 0 ∧ w.rd ≠ w.wr) := by
      rintro ⟨g1, g2⟩
      rcases hidle with g | g
      · omega
      · exact g2 g
    cases fuel with
    | zero => simp only [watch_loop]; rw [if_neg hc]
    | succ m => simp only [watch_loop]; rw [if_neg hc]
  have hem : emit_dropped w u lf = (0, w, u, lf) := by
    unfold emit_dropped
    rw [if_neg (by rw [hf]; simp)]
  simp only [watch_from_restart]
  rw [if_neg (fun g => by rw [hnc] at g; simp at g)]
  by_cases hsl : w.rd = w.wr ∧ sleep_err ≠ 0
  · rw [if_pos ⟨hsl.1, Or.inl hsl.2⟩, if_pos hsl]
  · rw [if_neg (fun g => by
      rcases g with ⟨g1, g2 | g2⟩
      · exact hsl ⟨g1, g2⟩
      · rw [hnc] at g2; simp at g2), if_neg hsl, hem]
    dsimp only
    rw [if_neg (by simp), hloop]
    dsimp only
    rw [if_neg (by simp)]

/-! ## The body of `fmod_watch` -/

theorem flags_after_read_other (w : fs_event_watcher) (m : Nat) (h : 0xFFFFFFFE &&& m = m) :
    has_flag (flags_after_read w) m = has_flag w.flags m := by
  unfold flags_after_read
  split
  · exact has_flag_and_mask _ _ _ _ h
  · rfl

theorem flags_after_read_clear (w : fs_event_watcher) :
    has_flag (flags_after_read w) WATCHER_DROPPED_EVENTS = false := by
  unfold flags_after_read
  split
  · exact has_flag_cleared _
  · rename_i h; simpa using h

theorem dropped_bytes_length_le (w : fs_event_watcher) : (dropped_bytes w).length ≤ 10 := by
  unfold dropped_bytes
  split
  · rw [dropped_record_length]
  · simp

theorem emit_dropped_eq (w : fs_event_watcher) {u : uio} (he : u.errs = [])
    (hr : 10 ≤ u.resid) :
    emit_dropped w u u.resid =
      (0, { w with flags := flags_after_read w }, moved u (dropped_bytes w),
        (moved u (dropped_bytes w)).resid) := by
  rw [emit_dropped_spec w u.resid he hr]
  unfold flags_after_read dropped_bytes
  cases hf : has_flag w.flags WATCHER_DROPPED_EVENTS with
  | true =>
    simp only [if_true, moved_resid, dropped_record_length]
    rfl
  | false =>
    simp only [Bool.false_eq_true, if_false, moved_nil]

theorem iterate_flags_comm (f : Nat) : ∀ (k : Nat) (w : fs_event_watcher),
    dequeued^[k] { w with flags := f } = { dequeued^[k] w with flags := f } := by
  intro k
  induction k with
  | zero => intro w; rfl
  | succ k ih =>
    intro w
    rw [Function.iterate_succ_apply, Function.iterate_succ_apply]
    exact ih (dequeued w)

theorem same_view_flags (w : fs_event_watcher) :
    same_view w { w with flags := flags_after_read w } :=
  ⟨rfl, flags_after_read_other w _ (by decide), flags_after_read_other w _ (by decide),
    flags_after_read_other w _ (by decide)⟩

theorem num_pending_le_size {w : fs_event_watcher} (h : ring_ok w) :
    num_pending w ≤ w.eventq_size := by
  by_cases hs : w.eventq_size = 0
  · rcases h.rd_lt with g | ⟨_, g⟩
    · omega
    · rcases h.wr_lt with g2 | ⟨_, g2⟩
      · omega
      · simp [num_pending, hs, g, g2]
  · exact Nat.le_of_lt (num_pending_lt hs)

/-- The body of `fmod_watch`, run on the reader's view of a consistent watcher
with a user buffer that does not fault and has room for the synthetic record,
unless the reader is interrupted while it waits at an empty queue: it returns,
having moved out the synthetic record, if there is one to report, and the
entries `read_taken` lists. -/
theorem watch_from_restart_spec (sleep_err : Int) (base : Nat → Nat) (n : Nat)
    {s : fsevents_state} {w : fs_event_watcher} {u : uio}
    (hr : ring_ok w)
    (hz : zone_ok s.event_zone (fun p => base p + (pending w).count (some p)))
    (hent : ∀ x ∈ pending w, ∃ p e, x = some p ∧ s.event_zone.getD p none = some e ∧
      e.type < w.num_events)
    (hnc : has_flag w.flags WATCHER_CLOSING = false) (hu : u.errs = [])
    (hroom : 10 ≤ u.resid) (hgo : ¬ (w.rd = w.wr ∧ sleep_err ≠ 0)) :
    ∃ r s1 u1 junk,
      watch_from_restart sleep_err (w.eventq_size + n + 2) s w u u.resid =
        some (r, s1,
          { dequeued^[(read_taken s w u.resid).length] w with
            flags := flags_after_read w, num_readers := w.num_readers - 1 }, u1) ∧
      (r = 0 ∨ (r = sleep_err ∧ (read_taken s w u.resid).length = num_pending w)) ∧
      ((read_taken s w u.resid).length < num_pending w → 0 < u1.resid → r = 0) ∧
      u1.written = u.written ++ dropped_bytes w ++ read_out s w (read_taken s w u.resid) ++
        junk ∧
      u1.resid = u.resid - (dropped_bytes w).length -
        (read_out s w (read_taken s w u.resid)).length ∧
      u1.errs = [] := by
  obtain ⟨wf, hwf⟩ : ∃ wf : fs_event_watcher, wf = { w with flags := flags_after_read w } :=
    ⟨_, rfl⟩
  have hview : same_view w wf := by rw [hwf]; exact same_view_flags w
  have hpw : pending wf = pending w := by rw [hwf]; exact pending_congr rfl rfl rfl rfl
  have hnp : num_pending wf = num_pending w := by rw [hwf]; rfl
  have hrf : ring_ok wf := by rw [hwf]; exact ring_ok_congr hr rfl rfl rfl rfl
  have hncf : has_flag wf.flags WATCHER_CLOSING = false := by
    rw [hwf]
    show has_flag (flags_after_read w) WATCHER_CLOSING = false
    rw [flags_after_read_other w _ (by decide)]; exact hnc
  have hzf : zone_ok s.event_zone (fun p => base p + (pending wf).count (some p)) := by
    rw [hpw]; exact hz
  have hentf : ∀ x ∈ pending wf, ∃ p e, x = some p ∧ s.event_zone.getD p none = some e ∧
      e.type < wf.num_events := by
    rw [hpw, hwf]; exact hent
  have hdl := dropped_bytes_length_le w
  obtain ⟨s1, u1, v1, ex, junk, l1, l2, l3, l4, l5, l6, l7, l8⟩ :=
    watch_loop_spec base wf.eventq_size s wf (moved u (dropped_bytes w))
      { last_full_event_resid := (moved u (dropped_bytes w)).resid } hrf hzf hentf hncf
      (by simpa using hu) rfl rfl (num_pending_le_size hrf)
  have hspec : read_spec s wf (pending wf) (moved u (dropped_bytes w)).resid =
      read_taken s w u.resid := by
    rw [hpw]
    exact read_spec_congr _ _ (fun p _ => entry_bytes_view hview p)
  have hout : read_out s wf (read_taken s w u.resid) = read_out s w (read_taken s w u.resid) :=
    read_out_congr _ (fun p _ => entry_bytes_view hview p)
  rw [hspec] at l1 l5 l6 l7 l8
  rw [hout] at l5 l6
  rw [hnp] at l7 l8
  have hw1 : dequeued^[(read_taken s w u.resid).length] wf =
      { dequeued^[(read_taken s w u.resid).length] w with flags := flags_after_read w } := by
    rw [hwf]; exact iterate_flags_comm _ _ _
  have hwritten : u1.written = u.written ++ dropped_bytes w ++
      read_out s w (read_taken s w u.resid) ++ junk := by
    rw [l6]; rfl
  have hresid : u1.resid = u.resid - (dropped_bytes w).length -
      (read_out s w (read_taken s w u.resid)).length := by
    rw [l5]; rfl
  have hstart : watch_from_restart sleep_err (w.eventq_size + n + 2) s w u u.resid =
      match ex with
      | watch_exit.get_out =>
        some (v1.error, s1, { dequeued^[(read_taken s w u.resid).length] wf with
          num_readers := (dequeued^[(read_taken s w u.resid).length] wf).num_readers - 1 }, u1)
      | watch_exit.fall =>
        if v1.skipped ∧ v1.error = 0 then
          watch_from_restart sleep_err (w.eventq_size + n + 1) s1
            (dequeued^[(read_taken s w u.resid).length] wf) u1 v1.last_full_event_resid
        else
          some (v1.error, s1, { dequeued^[(read_taken s w u.resid).length] wf with
            num_readers := (dequeued^[(read_taken s w u.resid).length] wf).num_readers - 1 },
            u1) := by
    rw [show w.eventq_size + n + 2 = (w.eventq_size + n + 1) + 1 from rfl]
    rw [watch_from_restart]
    rw [if_neg (fun g => by rw [hnc] at g; simp at g)]
    rw [if_neg (fun g => by
      rcases g with ⟨g1, g2 | g2⟩
      · exact hgo ⟨g1, g2⟩
      · rw [hnc] at g2; simp at g2)]
    rw [emit_dropped_eq w hu hroom]
    subst hwf
    simp only [l1, ne_eq, not_true_eq_false, if_false]
    cases ex <;> rfl
  have hnr : (dequeued^[(read_taken s w u.resid).length] wf).num_readers = w.num_readers := by
    rw [(iterate_fields _ wf).2.2.2.2.2, hwf]
  have hfinal : ({ dequeued^[(read_taken s w u.resid).length] wf with
      num_readers := (dequeued^[(read_taken s w u.resid).length] wf).num_readers - 1 } :
        fs_event_watcher) =
      { dequeued^[(read_taken s w u.resid).length] w with
        flags := flags_after_read w, num_readers := w.num_readers - 1 } := by
    rw [hnr, hw1]
  cases ex with
  | get_out =>
    refine ⟨v1.error, s1, u1, junk, ?_, Or.inl l4, fun _ _ => l4, hwritten, hresid, l2⟩
    rw [hstart]
    dsimp only
    rw [hfinal]
  | fall =>
    obtain ⟨j1, j2⟩ := l7 rfl
    by_cases hsk : v1.skipped = true ∧ v1.error = 0
    · have hflag : has_flag (dequeued^[(read_taken s w u.resid).length] wf).flags
          WATCHER_DROPPED_EVENTS = false := by
        rw [(iterate_fields _ wf).1, hwf]
        exact flags_after_read_clear w
      have hclos : has_flag (dequeued^[(read_taken s w u.resid).length] wf).flags
          WATCHER_CLOSING = false := by
        rw [(iterate_fields _ wf).1]; exact hncf
      obtain ⟨q1, _, q3⟩ := pending_iterate (read_taken s w u.resid).length wf hrf (by
        rw [hnp, ← pending_length, ← hspec, hpw]
        rw [← hpw]
        exact read_spec_length s wf _ _)
      have hidle : u1.resid ≤ 0 ∨ (dequeued^[(read_taken s w u.resid).length] wf).rd =
          (dequeued^[(read_taken s w u.resid).length] wf).wr := by
        rcases j2 with g | g
        · exact Or.inl g
        · right
          by_contra hne
          have := (num_pending_pos q1 hne).2.2
          rw [q3, hnp, g] at this
          omega
      have hrestart := watch_from_restart_idle sleep_err (w.eventq_size + n) s1
        (dequeued^[(read_taken s w u.resid).length] wf) u1 v1.last_full_event_resid hidle hflag
        hclos
      refine ⟨if (dequeued^[(read_taken s w u.resid).length] wf).rd =
          (dequeued^[(read_taken s w u.resid).length] wf).wr ∧ sleep_err ≠ 0 then sleep_err
        else 0, s1, u1, junk, ?_, ?_, ?_, hwritten, hresid, l2⟩
      · rw [hstart]
        dsimp only
        rw [if_pos hsk, hrestart, hfinal]
      · split
        · rename_i hcond
          right
          refine ⟨rfl, ?_⟩
          have hz0 : num_pending (dequeued^[(read_taken s w u.resid).length] wf) = 0 :=
            num_pending_of_eq hcond.1
          rw [q3, hnp] at hz0
          have hle : (read_taken s w u.resid).length ≤ num_pending w := by
            rw [← pending_length, ← hspec, hpw]
            rw [← hpw]
            exact read_spec_length s wf _ _
          omega
        · exact Or.inl rfl
      · intro hlt hpos
        rcases j2 with g | g
        · omega
        · omega
    · refine ⟨v1.error, s1, u1, junk, ?_, Or.inl l4, fun _ _ => l4, hwritten, hresid, l2⟩
      rw [hstart]
      dsimp only
      rw [if_neg hsk, hfinal]

/-! ## A read -/

theorem count_map_some (l : List Nat) (q : Nat) : (l.map some).count (some q) = l.count q := by
  induction l with
  | nil => rfl
  | cons a t ih =>
    by_cases h : a = q
    · subst h; simp [ih]
    · simp [List.count_cons, h, ih]

/-- A read of a registered watcher in a consistent state, with no other reader
active, into a user buffer of at least 2048 bytes that does not fault, unless it
is interrupted while it waits at an empty queue: it returns, having moved out
the synthetic record, if there is one to report, and the records of the entries
`read_taken` lists, which it takes from the front of the queue, dropping one
reference for each. -/
theorem fmod_watch_spec {s : fsevents_state} {j : Nat} {w : fs_event_watcher} {u : uio}
    (sleep_err : Int) (hs : sys_ok s (fun _ => 0)) (hw : get_watcher s j = some w)
    (hnr : w.num_readers = 0) (hu : u.errs = []) (hres : 2048 ≤ u.resid)
    (hgo : ¬ (w.rd = w.wr ∧ sleep_err ≠ 0)) :
    ∃ r s1 u1 junk w1,
      fmod_watch s j u sleep_err = some (r, s1, u1) ∧
      get_watcher s1 j = some w1 ∧
      pending w = (read_taken s w u.resid).map some ++ pending w1 ∧
      w1.rd = (w.rd + (read_taken s w u.resid).length) % w.eventq_size ∧
      w1.wr = w.wr ∧ w1.eventq_size = w.eventq_size ∧ w1.flags = flags_after_read w ∧
      w1.num_readers = w.num_readers ∧
      (r = 0 ∨ (r = sleep_err ∧ (read_taken s w u.resid).length = num_pending w)) ∧
      ((read_taken s w u.resid).length < num_pending w → 0 < u1.resid → r = 0) ∧
      u1.written = u.written ++ dropped_bytes w ++ read_out s w (read_taken s w u.resid) ++
        junk ∧
      u1.resid = u.resid - (dropped_bytes w).length -
        (read_out s w (read_taken s w u.resid)).length ∧
      sys_ok s1 (fun _ => 0) ∧ zone_shrinks s.event_zone s1.event_zone ∧
      s1.watcher_table = s.watcher_table.set j (some w1) ∧ same_view w w1 := by
  have hi : s.watcher_table.getD j none = some w := hw
  have hlt : j < s.watcher_table.length := getD_some_lt hi
  obtain ⟨hring, _, hentw, hncw⟩ := hs.2 j w hw
  obtain ⟨w', hw'⟩ : ∃ w' : fs_event_watcher, w' = { w with num_readers := w.num_readers + 1 } :=
    ⟨_, rfl⟩
  have hview : same_view w w' := by rw [hw']; exact ⟨rfl, rfl, rfl, rfl⟩
  have hpw : pending w' = pending w := by rw [hw']; exact pending_congr rfl rfl rfl rfl
  have hring' : ring_ok w' := by rw [hw']; exact ring_ok_congr hring rfl rfl rfl rfl
  have hz0 : zone_ok s.event_zone (fun p => queue_refs (s.watcher_table.set j none) p +
      (pending w').count (some p)) := by
    rw [hpw]
    refine zone_ok_congr hs.1 (fun p => ?_)
    rw [queue_refs_split hi p]
    rfl
  have hent' : ∀ x ∈ pending w', ∃ p e, x = some p ∧ s.event_zone.getD p none = some e ∧
      e.type < w'.num_events := by
    rw [hpw, hw']; exact hentw
  have hnc' : has_flag w'.flags WATCHER_CLOSING = false := by rw [hw']; exact hncw
  have hgo' : ¬ (w'.rd = w'.wr ∧ sleep_err ≠ 0) := by rw [hw']; exact hgo
  obtain ⟨r, s1, u1, junk, e1, e2, e3, e4, e5, _⟩ :=
    watch_from_restart_spec sleep_err (fun p => queue_refs (s.watcher_table.set j none) p) 0
      hring' hz0 hent' hnc' hu (by omega) hgo'
  have hrt : read_taken s w' u.resid = read_taken s w u.resid := by
    unfold read_taken
    rw [hpw, show dropped_bytes w' = dropped_bytes w by rw [hw']; rfl]
    exact read_spec_congr _ _ (fun p _ => entry_bytes_view hview p)
  have hout : read_out s w' (read_taken s w u.resid) = read_out s w (read_taken s w u.resid) :=
    read_out_congr _ (fun p _ => entry_bytes_view hview p)
  have hdb : dropped_bytes w' = dropped_bytes w := by rw [hw']; rfl
  have hnp : num_pending w' = num_pending w := by rw [hw']; rfl
  rw [hrt] at e1 e2 e3 e4 e5
  rw [hout, hdb] at e4 e5
  rw [hnp] at e2 e3
  obtain ⟨k, hk⟩ : ∃ k, k = (read_taken s w u.resid).length := ⟨_, rfl⟩
  rw [← hk] at e1
  obtain ⟨wres, hwres⟩ : ∃ wres : fs_event_watcher, wres =
      { dequeued^[k] w' with
        flags := flags_after_read w', num_readers := w'.num_readers - 1 } := ⟨_, rfl⟩
  rw [← hwres] at e1
  have hfm : fmod_watch s j u sleep_err = some (r, set_watcher s1 j (some wres), u1) := by
    unfold fmod_watch
    rw [hw]
    dsimp only
    rw [if_neg (by omega), if_neg (by rw [hncw]; simp), if_neg (by rw [hnr]; simp), ← hw']
    have hsz : w.eventq_size + 2 = w'.eventq_size + 0 + 2 := by rw [hw']
    rw [hsz, e1]
  obtain ⟨o1, _, o3, o4, o5, o6, o7⟩ := watch_from_restart_ok sleep_err
    (fun p => queue_refs (s.watcher_table.set j none) p) _ s _ u _ _ _ _ _ hring' hz0 e1
  obtain ⟨ok, _⟩ := fmod_watch_ok hs hfm
  have hlt1 : j < s1.watcher_table.length := by rw [o3]; exact hlt
  have hpres : pending wres = pending (dequeued^[k] w') := by
    rw [hwres]; exact pending_congr rfl rfl rfl rfl
  have htaken := @pending_taken s w' hring' (u.resid - (dropped_bytes w').length)
  have hrt2 : read_spec s w' (pending w') (u.resid - (dropped_bytes w').length) =
      read_taken s w u.resid := hrt
  rw [hrt2, ← hk, hpw, ← hpres] at htaken
  refine ⟨r, set_watcher s1 j (some wres), u1, junk, wres, hfm,
    get_set_watcher_same s1 j _ hlt1, htaken, ?_, ?_, ?_, ?_, ?_, e2, e3, e4, e5, ok, o5, ?_, ?_⟩
  · rw [hwres]
    show (dequeued^[k] w').rd = _
    rw [iterate_rd hring' k, hk, hw']
  · rw [hwres]
    show (dequeued^[k] w').wr = _
    rw [(iterate_fields k w').2.2.2.2.1, hw']
  · rw [hwres]
    show (dequeued^[k] w').eventq_size = _
    rw [(iterate_fields k w').2.2.2.1, hw']
  · rw [hwres, hw']; rfl
  · rw [hwres, hw']
    show w.num_readers + 1 - 1 = w.num_readers
    omega
  · show s1.watcher_table.set j (some wres) = _
    rw [o3]
  · have hv2 : same_view w' wres := by
      rw [hwres]
      refine ⟨?_, ?_, ?_, ?_⟩
      · exact (iterate_fields k w').2.1
      · exact flags_after_read_other w' _ (by decide)
      · exact flags_after_read_other w' _ (by decide)
      · exact flags_after_read_other w' _ (by decide)
    exact same_view_trans hview hv2

/-! ## Pending entries and their records -/

/-- A pending entry of a registered watcher points to an event on the global
list, whose reference count is the number of queue slots that hold it. -/
theorem pending_on_list {s : fsevents_state} {j : Nat} {w : fs_event_watcher} {p : Nat}
    (hs : sys_ok s (fun _ => 0)) (hw : get_watcher s j = some w) (hp : some p ∈ pending w) :
    ∃ e, deref s p = some e ∧ on_list e = true ∧ 0 ≤ e.type ∧ e.type < FSE_MAX_EVENTS ∧
      e.type < w.num_events ∧ e.refcount = (queue_refs s.watcher_table p : Int) ∧
      (pending w).count (some p) ≤ queue_refs s.watcher_table p := by
  obtain ⟨_, _, hent, _⟩ := hs.2 j w hw
  obtain ⟨p', e, hx, he, hty⟩ := hent _ hp
  obtain rfl : p = p' := Option.some.inj hx
  have hcount : 1 ≤ (pending w).count (some p) := List.count_pos_iff.mpr hp
  have hq := queue_refs_split (show s.watcher_table.getD j none = some w from hw) p
  obtain ⟨hon, hoff, _, _⟩ := hs.1.2 p e he
  cases hl : on_list e
  · have h0 := (hoff hl).2.2
    simp only [Nat.add_zero] at h0
    omega
  · obtain ⟨a, _, c, d⟩ := hon hl
    refine ⟨e, he, hl, c, d, hty, ?_, by omega⟩
    simpa using a

/-- The kind word of an event of one of the 17 kinds is never the kind of the
synthetic record. -/
theorem wire_kind_ne_dropped (w : fs_event_watcher) (e : kfs_event) (h0 : 0 ≤ e.type)
    (h1 : e.type < FSE_MAX_EVENTS) : wire_kind w e ≠ FSE_EVENTS_DROPPED := by
  unfold wire_kind
  obtain ⟨n, hn⟩ := Int.eq_ofNat_of_zero_le h0
  rw [hn] at h1 ⊢
  have hn17 : n < 17 := by
    have : (n : Int) < 17 := h1
    omega
  interval_cases n <;> repeat' split
  all_goals decide

/-- What a read puts out for an event is nothing, or one record that carries
the kind word and the pid of the event. -/
theorem read_bytes_record (s : fsevents_state) (w : fs_event_watcher) (e : kfs_event) :
    read_bytes s w e = [] ∨
      ∃ fields, read_bytes s w e = encode_record (wire_kind w e) e.pid fields := by
  unfold read_bytes
  split
  · split
    · exact Or.inl rfl
    · unfold wire_record
      split
      · exact Or.inl rfl
      · split
        · exact Or.inl rfl
        · split
          · exact Or.inl rfl
          · split
            · exact Or.inl rfl
            · exact Or.inr ⟨_, rfl⟩
  · exact Or.inl rfl

/-- What a read puts out for a pending entry of a registered watcher is nothing,
or one record whose kind is not that of the synthetic record. -/
theorem entry_bytes_record {s : fsevents_state} {j : Nat} {w : fs_event_watcher} {p : Nat}
    (hs : sys_ok s (fun _ => 0)) (hw : get_watcher s j = some w) (hp : some p ∈ pending w) :
    entry_bytes s w p = [] ∨
      ∃ kind pid fields, entry_bytes s w p = encode_record kind pid fields ∧
        kind ≠ FSE_EVENTS_DROPPED := by
  obtain ⟨e, he, _, h0, h1, _⟩ := pending_on_list hs hw hp
  unfold entry_bytes
  rw [he]
  rcases read_bytes_record s w e with h | ⟨f, h⟩
  · exact Or.inl h
  · exact Or.inr ⟨_, _, f, h, wire_kind_ne_dropped w e h0 h1⟩

/-- The bytes of a sequence of records given by kind, pid and fields. -/
theorem read_out_records (s : fsevents_state) (w : fs_event_watcher) :
    ∀ (taken : List Nat),
    (∀ p ∈ taken, entry_bytes s w p = [] ∨
      ∃ kind pid fields, entry_bytes s w p = encode_record kind pid fields ∧
        kind ≠ FSE_EVENTS_DROPPED) →
    ∃ recs : List (Int × Int × List (Int × List Nat)),
      read_out s w taken = (recs.map (fun x => encode_record x.1 x.2.1 x.2.2)).flatten ∧
      ∀ x ∈ recs, x.1 ≠ FSE_EVENTS_DROPPED := by
  intro taken
  induction taken with
  | nil => intro _; exact ⟨[], rfl, by simp⟩
  | cons a t ih =>
    intro h
    obtain ⟨recs, h1, h2⟩ := ih (fun p hp => h p (List.mem_cons_of_mem _ hp))
    have hcons : read_out s w (a :: t) = entry_bytes s w a ++ read_out s w t := by
      simp [read_out]
    rcases h a (List.mem_cons_self _ _) with h0 | ⟨k, pid, f, h0, hk⟩
    · exact ⟨recs, by rw [hcons, h0, h1]; rfl, h2⟩
    · refine ⟨(k, pid, f) :: recs, by rw [hcons, h0, h1]; simp, ?_⟩
      intro x hx
      rcases List.mem_cons.mp hx with rfl | hx
      · exact hk
      · exact h2 x hx

/-- The references a read drops: an event it took `n` entries of from the queue
is freed when these were its last references, else it counts `n` references
less. -/
theorem read_refs {s s1 : fsevents_state} {j : Nat} {w w1 : fs_event_watcher}
    {taken : List Nat} {q : Nat} (hs : sys_ok s (fun _ => 0)) (hs1 : sys_ok s1 (fun _ => 0))
    (hw : get_watcher s j = some w)
    (htab : s1.watcher_table = s.watcher_table.set j (some w1))
    (hp : pending w = taken.map some ++ pending w1)
    (hsh : zone_shrinks s.event_zone s1.event_zone) (hq : q ∈ taken) :
    ∃ e, deref s q = some e ∧ (taken.count q : Int) ≤ e.refcount ∧
      ((deref s1 q = none ∧ e.refcount = taken.count q) ∨
        (deref s1 q = some { e with refcount := e.refcount - taken.count q } ∧
          (taken.count q : Int) < e.refcount)) := by
  have hmem : some q ∈ pending w := by
    rw [hp]; exact List.mem_append_left _ (List.mem_map_of_mem _ hq)
  obtain ⟨e, he, hl, _, _, _, hrc, _⟩ := pending_on_list hs hw hmem
  have hi : s.watcher_table.getD j none = some w := hw
  have hlt : j < s.watcher_table.length := getD_some_lt hi
  have h1 := queue_refs_split hi q
  have h2 := queue_refs_replace hlt w1 q
  rw [← htab] at h2
  have h3 : (pending w).count (some q) = taken.count q + (pending w1).count (some q) := by
    rw [hp, List.count_append, count_map_some]
  have hdiff : queue_refs s.watcher_table q = queue_refs s1.watcher_table q + taken.count q := by
    omega
  refine ⟨e, he, by omega, ?_⟩
  cases h1z : s1.event_zone.getD q none with
  | none =>
    have h0 := hs1.1.1 q h1z
    simp only [Nat.add_zero] at h0
    exact Or.inl ⟨h1z, by omega⟩
  | some e1 =>
    obtain ⟨e', he', heq⟩ := hsh.2 q e1 h1z
    have hee : e' = e := by
      have : s.event_zone.getD q none = some e := he
      rw [this] at he'
      exact (Option.some.inj he').symm
    subst hee
    have hl1 : on_list e1 = true := by
      rw [heq]; exact hl
    obtain ⟨a, b, _, _⟩ := (hs1.1.2 q e1 h1z).1 hl1
    simp only [Nat.add_zero] at a b
    refine Or.inr ⟨?_, by omega⟩
    show s1.event_zone.getD q none = _
    rw [h1z, heq]
    congr 2
    show e1.refcount = _
    omega

/-- Where `read_spec` stops short of an entry, that entry does not fit into the
room that is left. -/
theorem read_spec_stop (s : fsevents_state) (w : fs_event_watcher) (p : Nat)
    (rest : List (Option Nat)) : ∀ (l : List Nat) (r : Int),
    read_spec s w (l.map some ++ some p :: rest) r = l →
    ¬ (0 < r - (read_out s w l).length ∧
      ((entry_bytes s w p).length : Int) ≤ r - (read_out s w l).length) := by
  intro l
  induction l with
  | nil =>
    intro r h
    simp only [List.map_nil, List.nil_append, read_spec] at h
    simp only [read_out, List.map_nil, List.flatten_nil, List.length_nil, Int.Nat.cast_ofNat_Int,
      Int.sub_zero]
    intro hc
    rw [if_pos hc] at h
    cases h
  | cons a t ih =>
    intro r h
    simp only [List.map_cons, List.cons_append, read_spec] at h
    split at h
    · have h' := (List.cons.inj h).2
      have := ih _ h'
      have hcons : read_out s w (a :: t) = entry_bytes s w a ++ read_out s w t := by
        simp [read_out]
      rw [hcons, List.length_append]
      push_cast
      rw [show r - ((entry_bytes s w a).length + (read_out s w t).length : Int) =
        r - (entry_bytes s w a).length - (read_out s w t).length by ring]
      exact this
    · cases h

/-- The first entry of the queue is taken when there is room for its record. -/
theorem read_spec_head (s : fsevents_state) (w : fs_event_watcher) (p : Nat)
    (rest : List (Option Nat)) (r : Int) (h0 : 0 < r)
    (h1 : ((entry_bytes s w p).length : Int) ≤ r) :
    read_spec s w (some p :: rest) r =
      p :: read_spec s w rest (r - (entry_bytes s w p).length) := by
  simp only [read_spec]
  rw [if_pos ⟨h0, h1⟩]

/-! ## Framing of a read -/

/-- Framing of a read into a buffer that does not fault: whatever the state of
the broker and of the watcher, the bytes a call of `fmod_watch` with a user
buffer that does not fault reports as transferred
(the residual count before the call minus the one after it) are the
concatenation of whole records, each made of the kind, the pid, tagged fields
and the closing tag `FSE_ARG_DONE`: they are the first bytes moved out by the
call, and no part of a record follows them in the transferred range. -/
theorem read_atomic_framing {s s1 : fsevents_state} {j : Nat} {u u1 : uio}
    {sleep_err r : Int} (hu : u.errs = [])
    (h : fmod_watch s j u sleep_err = some (r, s1, u1)) :
    ∃ recs : List (List Nat), (∀ x ∈ recs, is_record x) ∧ u1.resid ≤ u.resid ∧
      (u.resid - u1.resid).toNat = recs.flatten.length ∧
      u1.written.take (u.written.length + (u.resid - u1.resid).toNat) =
        u.written ++ recs.flatten := by
  obtain ⟨recs, junk, h1, h2, h3⟩ := fmod_watch_framed hu h
  refine ⟨recs, h1, by omega, by omega, ?_⟩
  have hl : (u.resid - u1.resid).toNat = recs.flatten.length := by omega
  rw [hl, h2, List.append_assoc, ← List.length_append, ← List.append_assoc]
  exact List.take_left' rfl

/-- Framing at an example: a read of the watcher of `scn_published` into a
buffer of 2048 bytes. -/
theorem read_atomic_framing_example :
    (scn_buffer 2048).errs = [] ∧
    fmod_watch scn_published 0 (scn_buffer 2048) 0 = some scn_read ∧
    ∃ recs : List (List Nat), (∀ x ∈ recs, is_record x) ∧
      scn_read.2.2.resid ≤ (scn_buffer 2048).resid ∧
      ((scn_buffer 2048).resid - scn_read.2.2.resid).toNat = recs.flatten.length ∧
      scn_read.2.2.written.take ((scn_buffer 2048).written.length +
          ((scn_buffer 2048).resid - scn_read.2.2.resid).toNat) =
        (scn_buffer 2048).written ++ recs.flatten :=
  ⟨rfl, by decide,
    @read_atomic_framing scn_published scn_read.2.1 0 (scn_buffer 2048) scn_read.2.2 0 scn_read.1
      rfl (by decide)⟩

/-! ## C15 -/

/-- C15 (amended): `fmod_watch` called with fewer than 2048 bytes of buffer
space returns `EINVAL`, and called with at least 2048 bytes on a watcher that
is not being closed while another reader is active (`num_readers` is not 0)
returns `EAGAIN`; in both cases the state of the broker (queues, indices,
flags, reference counts, `num_readers`) and the user buffer are what they were
before the call. -/
theorem C15_guards (s : fsevents_state) (j : Nat) (u : uio) (sleep_err : Int) :
    (u.resid < 2048 → fmod_watch s j u sleep_err = some (EINVAL, s, u)) ∧
    (∀ w, get_watcher s j = some w → 2048 ≤ u.resid →
      has_flag w.flags WATCHER_CLOSING = false → w.num_readers ≠ 0 →
      fmod_watch s j u sleep_err = some (EAGAIN, s, u)) := by
  constructor
  · intro h
    unfold fmod_watch
    split
    · rfl
    · rw [if_pos h]
  · intro w hw hres hnc hnr
    unfold fmod_watch
    rw [hw]
    dsimp only
    rw [if_neg (by omega), if_neg (by rw [hnc]; simp), if_pos hnr]

/-- C15 (amended) at examples: a read of 100 bytes from `scn_published`, and a
read of 2048 bytes from `scn_reading`, where a reader is active. -/
theorem C15_guards_witness :
    ((scn_buffer 100).resid < 2048 ∧
      fmod_watch scn_published 0 (scn_buffer 100) 0 =
        some (EINVAL, scn_published, scn_buffer 100)) ∧
    ((get_watcher scn_reading 0).map (fun w => w.num_readers) = some 1 ∧
      fmod_watch scn_reading 0 (scn_buffer 2048) 7 =
        some (EAGAIN, scn_reading, scn_buffer 2048)) :=
  ⟨⟨by decide, (C15_guards scn_published 0 (scn_buffer 100) 0).1 (by decide)⟩,
    ⟨by decide, (C15_guards scn_reading 0 (scn_buffer 2048) 7).2
      { scn_published_watcher with num_readers := 1 } (by decide) (by decide) (by decide)
      (by decide)⟩⟩

/-- C15, as stated, fails: a read of 2048 bytes from a watcher that is being
closed while another reader is active returns 0, not `EAGAIN`; and a read of
100 bytes while another reader is active returns `EINVAL`, not `EAGAIN`. -/
theorem C15_counterexample :
    ((get_watcher scn_closing 0).map (fun w => w.num_readers) = some 1 ∧
      fmod_watch scn_closing 0 (scn_buffer 2048) 0 =
        some (0, scn_closing, scn_buffer 2048) ∧
      fmod_watch scn_closing 0 (scn_buffer 2048) 0 ≠
        some (EAGAIN, scn_closing, scn_buffer 2048)) ∧
    ((get_watcher scn_reading 0).map (fun w => w.num_readers) = some 1 ∧
      fmod_watch scn_reading 0 (scn_buffer 100) 0 =
        some (EINVAL, scn_reading, scn_buffer 100) ∧
      fmod_watch scn_reading 0 (scn_buffer 100) 0 ≠
        some (EAGAIN, scn_reading, scn_buffer 100)) :=
  ⟨⟨by decide, by decide, by decide⟩, ⟨by decide, by decide, by decide⟩⟩

/-! ## The records of `copy_out_kfse`, kind by kind -/

theorem encode_fields_append (a b : List (Int × List Nat)) :
    encode_fields (a ++ b) = encode_fields a ++ encode_fields b := by
  simp [encode_fields]

theorem encode_record_trailer (kind pid : Int) (fs : List (Int × List Nat)) (last : kfs_event) :
    encode_record kind pid (fs ++ [time_field last]) =
      le_bytes_int32 kind ++ le_bytes_int32 pid ++ encode_fields fs ++ trailer last := by
  simp [encode_record, encode_fields, trailer, time_field]

theorem trailer_length (e : kfs_event) : (trailer e).length = 14 := by
  simp [trailer, encode_field_length, le_bytes_length, done_bytes_length]

theorem le_bytes_int32_length (v : Int) : (le_bytes_int32 v).length = 4 := by
  simp [le_bytes_int32, le_bytes_length]

/-- The record of an event whose fields are known. -/
theorem wire_record_of_body {s : fsevents_state} {w : fs_event_watcher} {kfse : kfs_event}
    {fields : List (Int × List Nat)} {last : kfs_event} (hv : kfse.type ≠ FSE_INVALID)
    (hbc : has_flag kfse.flags KFSE_BEING_CREATED = false)
    (hrc : ¬ ((kfse.type = FSE_RENAME ∨ kfse.type = FSE_CLONE) ∧ kfse.dest = none))
    (hb : body_fields s w kfse.type (s.event_zone.length + 1) kfse = some (fields, last)) :
    wire_record s w kfse = some (le_bytes_int32 (wire_kind w kfse) ++ le_bytes_int32 kfse.pid ++
      encode_fields fields ++ trailer last) := by
  unfold wire_record
  rw [if_neg hv, if_neg (by rw [hbc]; simp), if_neg hrc, hb]
  simp only [encode_record_trailer]

/-- With room for the record and a buffer that does not fault, `copy_out_kfse`
moves out the record of an event whose fields are known. -/
theorem copy_out_of_body {s : fsevents_state} {w : fs_event_watcher} {kfse : kfs_event}
    {u : uio} {fields : List (Int × List Nat)} {last : kfs_event} (hu : u.errs = [])
    (hv : kfse.type ≠ FSE_INVALID) (hbc : has_flag kfse.flags KFSE_BEING_CREATED = false)
    (hrc : ¬ ((kfse.type = FSE_RENAME ∨ kfse.type = FSE_CLONE) ∧ kfse.dest = none))
    (hb : body_fields s w kfse.type (s.event_zone.length + 1) kfse = some (fields, last))
    (hfit : ((le_bytes_int32 (wire_kind w kfse) ++ le_bytes_int32 kfse.pid ++
      encode_fields fields ++ trailer last).length : Int) ≤ u.resid) :
    copy_out_kfse s w kfse u = some (0, moved u (le_bytes_int32 (wire_kind w kfse) ++
      le_bytes_int32 kfse.pid ++ encode_fields fields ++ trailer last)) := by
  have hw := wire_record_of_body hv hbc hrc hb
  obtain ⟨res, h1, h2⟩ := copy_out_kfse_spec hu (by omega) hw
  rcases h2 with ⟨h2, _⟩ | ⟨d, _, h3⟩
  · rw [h1, h2]
  · omega

/-- The fields `copy_out_kfse` collects from a regular event with a path. -/
theorem body_fields_group {s : fsevents_state} {w : fs_event_watcher} {type : Int}
    {e : kfs_event} {p : cstr} (hk : regular_kind type) (hp : e.str = some p) (hne : p ≠ [])
    (n : Nat) :
    (e.dev = 0 ∧ e.ino = 0 → body_fields s w type (n + 1) e = some (field_group w e, e)) ∧
    (e.dest = none → body_fields s w type (n + 1) e = some (field_group w e, e)) ∧
    (∀ d de, ¬ (e.dev = 0 ∧ e.ino = 0) → e.dest = some d → deref s d = some de →
      body_fields s w type (n + 1) e =
        (body_fields s w type n de).map (fun r => (field_group w e ++ r.1, r.2))) := by
  obtain ⟨_, k1, k2, k3, k4, k5⟩ := hk
  obtain ⟨a, t, rfl⟩ : ∃ a t, p = a :: t := by
    cases p with
    | nil => exact absurd rfl hne
    | cons a t => exact ⟨a, t, rfl⟩
  have hpath : path_field e = (FSE_ARG_STRING, cstr_bytes (a :: t) e.len) := by
    simp [path_field, hp]
  refine ⟨fun h0 => ?_, fun hd => ?_, fun d de h0 hd hde => ?_⟩
  · rw [body_fields]
    simp only [k1, k2, k3, k4, k5, hp, h0, or_self, if_false, and_self, if_true, field_group, hpath]
  · rw [body_fields]
    by_cases h0 : e.dev = 0 ∧ e.ino = 0
    · simp only [k1, k2, k3, k4, k5, hp, h0, or_self, if_false, and_self, if_true, field_group,
        hpath]
    · simp only [k1, k2, k3, k4, k5, hp, h0, hd, or_self, if_false, field_group, hpath,
        info_fields]
  · rw [body_fields]
    simp only [k1, k2, k3, k4, k5, hp, h0, hd, hde, or_self, if_false, field_group, hpath,
      info_fields]
    cases body_fields s w type n de with
    | none => rfl
    | some r =>
      obtain ⟨r1, r2⟩ := r
      simp only [Option.map_some']

/-- The fields `copy_out_kfse` collects from a regular event with a path whose
destination, if it has one, has a path and no destination of its own. -/
theorem body_fields_regular {s : fsevents_state} {w : fs_event_watcher} {e : kfs_event}
    {p : cstr} (hk : regular_kind e.type) (hp : e.str = some p) (hne : p ≠ [])
    (hd : ∀ d, e.dest = some d → ¬ (e.dev = 0 ∧ e.ino = 0) →
      ∃ de q, deref s d = some de ∧ de.dest = none ∧ de.str = some q ∧ q ≠ []) :
    body_fields s w e.type (s.event_zone.length + 1) e =
      some (match linked_dest s e with
        | none => (field_group w e, e)
        | some de => (field_group w e ++ field_group w de, de)) := by
  obtain ⟨g1, g2, g3⟩ := @body_fields_group s w e.type e p hk hp hne s.event_zone.length
  by_cases h0 : e.dev = 0 ∧ e.ino = 0
  · rw [g1 h0]
    simp only [linked_dest, h0, and_self, if_true]
  · cases hdest : e.dest with
    | none =>
      rw [g2 hdest]
      simp only [linked_dest, h0, if_false, hdest]
      rfl
    | some d =>
      obtain ⟨de, q, hde, hdd, hq, hqne⟩ := hd d hdest h0
      have hlen : d < s.event_zone.length := getD_some_lt hde
      obtain ⟨m, hm⟩ : ∃ m, s.event_zone.length = m + 1 := ⟨s.event_zone.length - 1, by omega⟩
      rw [g3 d de h0 hdest hde, hm,
        (@body_fields_group s w e.type de q hk hq hqne m).2.1 hdd]
      simp only [linked_dest, h0, if_false, hdest, Option.map_some']
      show _ = some (match deref s d with
        | none => (field_group w e, e)
        | some de => (field_group w e ++ field_group w de, de))
      rw [hde]

/-- The record of a regular event with a path. -/
theorem wire_record_regular {s : fsevents_state} {w : fs_event_watcher} {e : kfs_event}
    {p : cstr} (hk : regular_kind e.type) (hp : e.str = some p) (hne : p ≠ [])
    (hbc : has_flag e.flags KFSE_BEING_CREATED = false)
    (hrc : ¬ ((e.type = FSE_RENAME ∨ e.type = FSE_CLONE) ∧ e.dest = none))
    (hd : ∀ d, e.dest = some d → ¬ (e.dev = 0 ∧ e.ino = 0) →
      ∃ de q, deref s d = some de ∧ de.dest = none ∧ de.str = some q ∧ q ≠ []) :
    wire_record s w e = some (regular_record s w e) := by
  have hb := @body_fields_regular s w e p hk hp hne hd
  cases hl : linked_dest s e with
  | none =>
    rw [hl] at hb
    rw [wire_record_of_body hk.1 hbc hrc hb]
    simp only [regular_record, hl, List.append_assoc]
  | some de =>
    rw [hl] at hb
    rw [wire_record_of_body hk.1 hbc hrc hb]
    simp only [regular_record, hl, encode_fields_append, List.append_assoc]

/-! ## C17 -/

/-- C19: for an event that is completely created, given room and a buffer that
does not fault, `copy_out_kfse` moves out, after the kind and the pid: for a
DocIdCreated or DocIdChanged event exactly `FSE_ARG_DEV`, `FSE_ARG_INO` (source
inode), `FSE_ARG_INO` (destination inode), `FSE_ARG_INT64` (document id); for
an UnmountPending event exactly `FSE_ARG_DEV`; for an Activity event exactly
`FSE_ARG_INT32` version, `FSE_ARG_DEV`, `FSE_ARG_INO`, `FSE_ARG_INT64` origin,
`FSE_ARG_INT64` age, `FSE_ARG_INT32` use state, `FSE_ARG_INT32` urgency,
`FSE_ARG_INT64` size; each with the value the event stores, in that order,
followed by the trailer. -/
theorem C19_special_records {s : fsevents_state} {w : fs_event_watcher} {kfse : kfs_event}
    {u : uio} (hbc : has_flag kfse.flags KFSE_BEING_CREATED = false) (hu : u.errs = [])
    (hroom : 102 ≤ u.resid) :
    ((kfse.type = FSE_DOCID_CREATED ∨ kfse.type = FSE_DOCID_CHANGED) →
      copy_out_kfse s w kfse u = some (0, moved u
        (le_bytes_int32 (wire_kind w kfse) ++ le_bytes_int32 kfse.pid ++
          encode_fields [(FSE_ARG_DEV, le_bytes_int32 kfse.docid_dev),
            (FSE_ARG_INO, le_bytes 8 kfse.docid_src_ino),
            (FSE_ARG_INO, le_bytes 8 kfse.docid_dst_ino),
            (FSE_ARG_INT64, le_bytes 8 kfse.docid_docid)] ++ trailer kfse))) ∧
    (kfse.type = FSE_UNMOUNT_PENDING →
      copy_out_kfse s w kfse u = some (0, moved u
        (le_bytes_int32 (wire_kind w kfse) ++ le_bytes_int32 kfse.pid ++
          encode_fields [(FSE_ARG_DEV, le_bytes_int32 kfse.dev)] ++ trailer kfse))) ∧
    (kfse.type = FSE_ACTIVITY →
      copy_out_kfse s w kfse u = some (0, moved u
        (le_bytes_int32 (wire_kind w kfse) ++ le_bytes_int32 kfse.pid ++
          encode_fields [(FSE_ARG_INT32, le_bytes 4 kfse.act_version),
            (FSE_ARG_DEV, le_bytes_int32 kfse.act_dev),
            (FSE_ARG_INO, le_bytes 8 kfse.act_ino),
            (FSE_ARG_INT64, le_bytes 8 kfse.act_origin_id),
            (FSE_ARG_INT64, le_bytes 8 kfse.act_age),
            (FSE_ARG_INT32, le_bytes 4 kfse.act_use_state),
            (FSE_ARG_INT32, le_bytes 4 kfse.act_urgency),
            (FSE_ARG_INT64, le_bytes 8 kfse.act_size)] ++ trailer kfse))) := by
  refine ⟨fun ht => ?_, fun ht => ?_, fun ht => ?_⟩
  · have hb : body_fields s w kfse.type (s.event_zone.length + 1) kfse =
        some ([(FSE_ARG_DEV, le_bytes_int32 kfse.docid_dev),
          (FSE_ARG_INO, le_bytes 8 kfse.docid_src_ino),
          (FSE_ARG_INO, le_bytes 8 kfse.docid_dst_ino),
          (FSE_ARG_INT64, le_bytes 8 kfse.docid_docid)], kfse) := by
      rw [body_fields, if_pos (by tauto)]
    refine copy_out_of_body hu (by rcases ht with h | h <;> rw [h] <;> decide) hbc
      (fun hc => by
        rcases ht with h | h <;> rw [h] at hc <;> exact absurd hc.1 (by decide)) hb ?_
    simp [encode_fields, encode_field_length, le_bytes_length, le_bytes_int32_length,
      trailer_length]
    omega
  · have hb : body_fields s w kfse.type (s.event_zone.length + 1) kfse =
        some ([(FSE_ARG_DEV, le_bytes_int32 kfse.dev)], kfse) := by
      rw [body_fields, ht]
      rfl
    refine copy_out_of_body hu (by rw [ht]; decide) hbc
      (fun hc => by rw [ht] at hc; exact absurd hc.1 (by decide)) hb ?_
    simp [encode_fields, encode_field_length, le_bytes_length, le_bytes_int32_length,
      trailer_length]
    omega
  · have hb : body_fields s w kfse.type (s.event_zone.length + 1) kfse =
        some ([(FSE_ARG_INT32, le_bytes 4 kfse.act_version),
            (FSE_ARG_DEV, le_bytes_int32 kfse.act_dev),
            (FSE_ARG_INO, le_bytes 8 kfse.act_ino),
            (FSE_ARG_INT64, le_bytes 8 kfse.act_origin_id),
            (FSE_ARG_INT64, le_bytes 8 kfse.act_age),
            (FSE_ARG_INT32, le_bytes 4 kfse.act_use_state),
            (FSE_ARG_INT32, le_bytes 4 kfse.act_urgency),
            (FSE_ARG_INT64, le_bytes 8 kfse.act_size)], kfse) := by
      rw [body_fields, ht]
      rfl
    refine copy_out_of_body hu (by rw [ht]; decide) hbc
      (fun hc => by rw [ht] at hc; exact absurd hc.1 (by decide)) hb ?_
    simp [encode_fields, encode_field_length, le_bytes_length, le_bytes_int32_length,
      trailer_length]
    omega

/-- C19 at examples: the events a DocIdChanged, an UnmountPending and an
Activity publish leave, encoded for the watcher of `scn_entitled`. -/
theorem C19_special_records_witness :
    (copy_out_kfse (scn_entitled_once FSE_DOCID_CHANGED scn_docid_args) scn_entitled_watcher
        (scn_entitled_event FSE_DOCID_CHANGED scn_docid_args) (scn_buffer 2048) =
      some (0, moved (scn_buffer 2048)
        (le_bytes_int32 12 ++ le_bytes_int32 100 ++
          encode_fields [(FSE_ARG_DEV, le_bytes_int32 1), (FSE_ARG_INO, le_bytes 8 7),
            (FSE_ARG_INO, le_bytes 8 8), (FSE_ARG_INT64, le_bytes 8 9)] ++
          encode_fields [(FSE_ARG_INT64, le_bytes 8 1000)] ++ done_bytes))) ∧
    (copy_out_kfse (scn_entitled_once FSE_UNMOUNT_PENDING scn_unmount_args) scn_entitled_watcher
        (scn_entitled_event FSE_UNMOUNT_PENDING scn_unmount_args) (scn_buffer 2048) =
      some (0, moved (scn_buffer 2048)
        (le_bytes_int32 13 ++ le_bytes_int32 100 ++
          encode_fields [(FSE_ARG_DEV, le_bytes_int32 5)] ++
          encode_fields [(FSE_ARG_INT64, le_bytes 8 1000)] ++ done_bytes))) ∧
    (copy_out_kfse (scn_entitled_once FSE_ACTIVITY scn_activity_args) scn_entitled_watcher
        (scn_entitled_event FSE_ACTIVITY scn_activity_args) (scn_buffer 2048) =
      some (0, moved (scn_buffer 2048)
        (le_bytes_int32 15 ++ le_bytes_int32 100 ++
          encode_fields [(FSE_ARG_INT32, le_bytes 4 1), (FSE_ARG_DEV, le_bytes_int32 1),
            (FSE_ARG_INO, le_bytes 8 7), (FSE_ARG_INT64, le_bytes 8 2),
            (FSE_ARG_INT64, le_bytes 8 3), (FSE_ARG_INT32, le_bytes 4 4),
            (FSE_ARG_INT32, le_bytes 4 5), (FSE_ARG_INT64, le_bytes 8 6)] ++
          encode_fields [(FSE_ARG_INT64, le_bytes 8 1000)] ++ done_bytes))) :=
  ⟨((@C19_special_records (scn_entitled_once FSE_DOCID_CHANGED scn_docid_args)
      scn_entitled_watcher (scn_entitled_event FSE_DOCID_CHANGED scn_docid_args)
      (scn_buffer 2048) (by decide) (by decide) (by decide)).1 (by decide)).trans (by decide),
    ((@C19_special_records (scn_entitled_once FSE_UNMOUNT_PENDING scn_unmount_args)
      scn_entitled_watcher (scn_entitled_event FSE_UNMOUNT_PENDING scn_unmount_args)
      (scn_buffer 2048) (by decide) (by decide) (by decide)).2.1 (by decide)).trans (by decide),
    ((@C19_special_records (scn_entitled_once FSE_ACTIVITY scn_activity_args)
      scn_entitled_watcher (scn_entitled_event FSE_ACTIVITY scn_activity_args)
      (scn_buffer 2048) (by decide) (by decide) (by decide)).2.2 (by decide)).trans (by decide)⟩

/-! ## C20 -/

/-- C20 at the call `add_fsevent(FSE_ACCESS_GRANTED, ctx, FSE_ARG_STRING, 3,
"/a", FSE_ARG_AUDIT_TOKEN, &token, FSE_ARG_DONE)` for an entitled watcher: the
event stores the path "/a" and the token but the length 0, and the record a
read delivers has an `FSE_ARG_STRING` field of length 0 without any byte of the
path, followed by the `FSE_ARG_AUDIT_TOKEN` field with the token. -/
theorem C20_access_granted_path_lost :
    add_fsevent scn_entitled FSE_ACCESS_GRANTED scn_granted_args (scn_env 1000) =
      some (0, scn_granted) ∧
    (deref scn_granted 0).map (fun e => (e.type, e.str, e.len, e.audit_token)) =
      some (FSE_ACCESS_GRANTED, some [47, 97], 0, [1, 2, 3, 4, 5, 6, 7, 8]) ∧
    fmod_watch scn_granted 0 (scn_buffer 2048) 0 = some scn_granted_read ∧
    scn_granted_read.1 = 0 ∧
    scn_granted_read.2.2.written =
      encode_record FSE_ACCESS_GRANTED 100
        [(FSE_ARG_STRING, []),
         (FSE_ARG_AUDIT_TOKEN, token_bytes [1, 2, 3, 4, 5, 6, 7, 8]),
         (FSE_ARG_INT64, le_bytes 8 1000)] ∧
    scn_granted_read.2.2.written ≠
      encode_record FSE_ACCESS_GRANTED 100
        [(FSE_ARG_STRING, [47, 97, 0]),
         (FSE_ARG_AUDIT_TOKEN, token_bytes [1, 2, 3, 4, 5, 6, 7, 8]),
         (FSE_ARG_INT64, le_bytes 8 1000)] :=
  ⟨by decide, by decide, by decide, by decide, by decide, by decide⟩

/-! ## The first record of a read -/

theorem rd_ne_wr_of_pending {w : fs_event_watcher} {x : Option Nat} {rest : List (Option Nat)}
    (h : pending w = x :: rest) : w.rd ≠ w.wr := by
  intro hc
  rw [pending_nil_of_eq hc] at h
  cases h

/-- The first pending entry is the one at `event_queue[rd]`. -/
theorem pending_head {w : fs_event_watcher} {x : Option Nat} {rest : List (Option Nat)}
    (hr : ring_ok w) (h : pending w = x :: rest) : w.event_queue.getD w.rd none = x := by
  have h1 := (@pending_dequeue w (dequeued w) hr (rd_ne_wr_of_pending h) rfl rfl rfl rfl).1
  rw [h] at h1
  exact (List.cons.inj h1).1.symm

theorem read_out_cons (s : fsevents_state) (w : fs_event_watcher) (a : Nat) (t : List Nat) :
    read_out s w (a :: t) = entry_bytes s w a ++ read_out s w t := by
  simp [read_out]

theorem dropped_bytes_eq (w : fs_event_watcher) :
    dropped_bytes w =
      if has_flag w.flags WATCHER_DROPPED_EVENTS then
        le_bytes_int32 FSE_EVENTS_DROPPED ++ le_bytes_int32 0 ++ done_bytes
      else [] := by
  unfold dropped_bytes dropped_record encode_record encode_fields
  simp

theorem dropped_bytes_after (w w1 : fs_event_watcher) (h : w1.flags = flags_after_read w) :
    dropped_bytes w1 = [] := by
  unfold dropped_bytes
  rw [h, flags_after_read_clear]
  rfl

theorem is_record_dropped : is_record dropped_record := ⟨_, _, _, rfl⟩

/-- What a read puts out for a deliverable event of a consistent zone is one
record. -/
theorem entry_bytes_deliverable {s : fsevents_state} {cnt : Nat → Nat} {w : fs_event_watcher}
    {p : Nat} {e : kfs_event} (hz : zone_ok s.event_zone cnt) (he : deref s p = some e)
    (hty : e.type ≠ FSE_INVALID) (hdel : deliverable w e) :
    entry_bytes s w p = (wire_record s w e).getD [] ∧
    ∃ fields, entry_bytes s w p = encode_record (wire_kind w e) e.pid fields := by
  obtain ⟨d1, d2, d3, d4⟩ := hdel
  have h1 : entry_bytes s w p = (wire_record s w e).getD [] := by
    unfold entry_bytes
    rw [he]
    dsimp only
    unfold read_bytes
    rw [if_pos d1, if_neg d2]
  refine ⟨h1, ?_⟩
  obtain ⟨rec, hrec⟩ := wire_record_some w hz he hty
  rw [h1, hrec]
  unfold wire_record at hrec
  rw [if_neg hty, if_neg (by rw [d3]; simp), if_neg d4] at hrec
  split at hrec
  · cases hrec
  · cases hrec
    exact ⟨_, rfl⟩

/-- A read of a registered watcher whose first pending entry has room behind
the synthetic record puts out the record of that entry. -/
theorem fmod_watch_head {s : fsevents_state} {j : Nat} {w : fs_event_watcher} {u : uio}
    {p : Nat} {rest : List (Option Nat)} (sleep_err : Int) (hs : sys_ok s (fun _ => 0))
    (hw : get_watcher s j = some w) (hnr : w.num_readers = 0) (hu : u.errs = [])
    (hres : 2048 ≤ u.resid) (hq : pending w = some p :: rest)
    (hfit : ((dropped_bytes w).length : Int) + (entry_bytes s w p).length ≤ u.resid) :
    ∃ r s1 u1 more, fmod_watch s j u sleep_err = some (r, s1, u1) ∧
      u1.written = u.written ++ dropped_bytes w ++ entry_bytes s w p ++ more ∧
      u1.resid ≤ u.resid - (dropped_bytes w).length - (entry_bytes s w p).length := by
  have hgo : ¬ (w.rd = w.wr ∧ sleep_err ≠ 0) := fun h => rd_ne_wr_of_pending hq h.1
  obtain ⟨r, s1, u1, junk, w1, a1, _, _, _, _, _, _, _, _, _, a11, a12, _⟩ :=
    fmod_watch_spec sleep_err hs hw hnr hu hres hgo
  have hd := dropped_bytes_length_le w
  have ht : read_taken s w u.resid =
      p :: read_spec s w rest (u.resid - (dropped_bytes w).length - (entry_bytes s w p).length) := by
    unfold read_taken
    rw [hq]
    exact read_spec_head s w p rest _ (by omega) (by omega)
  rw [ht, read_out_cons] at a11 a12
  refine ⟨r, s1, u1, read_out s w (read_spec s w rest
    (u.resid - (dropped_bytes w).length - (entry_bytes s w p).length)) ++ junk, a1, ?_, ?_⟩
  · rw [a11]
    simp only [List.append_assoc]
  · rw [a12, List.length_append]
    push_cast
    omega

/-- The references a read leaves to an event that is still pending after it. -/
theorem read_refs_kept {s s1 : fsevents_state} {j : Nat} {w w1 : fs_event_watcher}
    {taken : List Nat} {q : Nat} (hs : sys_ok s (fun _ => 0)) (hs1 : sys_ok s1 (fun _ => 0))
    (hw : get_watcher s j = some w) (hw1 : get_watcher s1 j = some w1)
    (htab : s1.watcher_table = s.watcher_table.set j (some w1))
    (hp : pending w = taken.map some ++ pending w1)
    (hsh : zone_shrinks s.event_zone s1.event_zone) (hq : some q ∈ pending w1) :
    ∃ e, deref s q = some e ∧
      deref s1 q = some { e with refcount := e.refcount - taken.count q } := by
  have hmem : some q ∈ pending w := by
    rw [hp]; exact List.mem_append_right _ hq
  obtain ⟨e, he, _, _, _, _, hrc, _⟩ := pending_on_list hs hw hmem
  obtain ⟨e1, he1, _, _, _, _, hrc1, _⟩ := pending_on_list hs1 hw1 hq
  have hi : s.watcher_table.getD j none = some w := hw
  have hlt : j < s.watcher_table.length := getD_some_lt hi
  have h1 := queue_refs_split hi q
  have h2 := queue_refs_replace hlt w1 q
  rw [← htab] at h2
  have h3 : (pending w).count (some q) = taken.count q + (pending w1).count (some q) := by
    rw [hp, List.count_append, count_map_some]
  obtain ⟨e', he', heq⟩ := hsh.2 q e1 he1
  have hee : e' = e := by
    have : s.event_zone.getD q none = some e := he
    rw [this] at he'
    exact (Option.some.inj he').symm
  subst hee
  refine ⟨e', he, ?_⟩
  rw [he1, heq]
  congr 2
  show e1.refcount = _
  omega

theorem cstr_bytes_length (str : cstr) (n : Nat) : (cstr_bytes str n).length = n := by
  simp [cstr_bytes]

theorem token_bytes_length (t : List Nat) : (token_bytes t).length = 32 := by
  simp [token_bytes]

/-- The length of the fields of an event without destination. -/
theorem body_fields_leaf_bound (s : fsevents_state) (w : fs_event_watcher) (type : Int)
    (n : Nat) {e : kfs_event} (hd : e.dest = none) {fs : List (Int × List Nat)}
    {last : kfs_event} (h : body_fields s w type (n + 1) e = some (fs, last)) :
    (encode_fields fs).length ≤ 80 + e.len := by
  rw [body_fields] at h
  simp only [hd] at h
  repeat' split at h
  all_goals cases h
  all_goals
    simp [encode_fields, encode_field_length, le_bytes_length, le_bytes_int32_length,
      cstr_bytes_length, token_bytes_length]
  all_goals omega

/-- The length of the fields of a regular event without destination. -/
theorem body_fields_leaf_regular (s : fsevents_state) (w : fs_event_watcher) (type : Int)
    (n : Nat) {e : kfs_event} (hd : e.dest = none)
    (k1 : ¬ (type = FSE_DOCID_CHANGED ∨ type = FSE_DOCID_CREATED))
    (k2 : ¬ type = FSE_UNMOUNT_PENDING) (k3 : ¬ type = FSE_ACTIVITY)
    (k4 : ¬ type = FSE_ACCESS_GRANTED) {fs : List (Int × List Nat)}
    {last : kfs_event} (h : body_fields s w type (n + 1) e = some (fs, last)) :
    (encode_fields fs).length ≤ 50 + e.len := by
  rw [body_fields] at h
  simp only [hd, k1, k2, k3, k4, if_false] at h
  repeat' split at h
  all_goals cases h
  all_goals
    simp [encode_fields, encode_field_length, le_bytes_length, le_bytes_int32_length,
      cstr_bytes_length]
  all_goals omega

/-- The length of the fields of an event whose destination, if it has one, has
none itself. -/
theorem body_fields_bound {s : fsevents_state} {w : fs_event_watcher} {type : Int} {n : Nat}
    {e : kfs_event} {fs : List (Int × List Nat)} {last : kfs_event}
    (hcl : ∀ d de, e.dest = some d → deref s d = some de → de.dest = none)
    (h : body_fields s w type (n + 2) e = some (fs, last)) :
    (encode_fields fs).length ≤ 100 + path_room s e := by
  cases hdest : e.dest with
  | none =>
    have := body_fields_leaf_bound s w type (n + 1) hdest h
    unfold path_room
    omega
  | some d =>
    have hroom : path_room s e = e.len + (match deref s d with
        | none => 0
        | some de => de.len) := by
      unfold path_room
      rw [hdest]
      rfl
    rw [body_fields] at h
    split at h
    · cases h
      simp [encode_fields, encode_field_length, le_bytes_length, le_bytes_int32_length]
      omega
    · rename_i k1
      split at h
      · cases h
        simp [encode_fields, encode_field_length, le_bytes_length, le_bytes_int32_length]
        omega
      · rename_i k2
        split at h
        · cases h
          simp [encode_fields, encode_field_length, le_bytes_length, le_bytes_int32_length]
          omega
        · rename_i k3
          split at h
          · split at h
            · cases h
              simp [encode_fields]
            · cases h
              simp [encode_fields, encode_field_length, le_bytes_length, cstr_bytes_length,
                token_bytes_length]
              omega
          · rename_i k4
            simp only [hdest] at h
            split at h
            · cases h
              split <;>
              · simp [encode_fields, encode_field_length, cstr_bytes_length]
                try omega
            · cases hde : deref s d with
              | none => simp [hde] at h
              | some de =>
                rw [hroom, hde]
                dsimp only
                simp only [hde] at h
                cases hb : body_fields s w type (n + 1) de with
                | none => simp [hb] at h
                | some r =>
                  obtain ⟨more, last1⟩ := r
                  have hm := body_fields_leaf_regular s w type n (hcl d de hdest hde)
                    k1 k2 k3 k4 hb
                  simp only [hb, Option.some.injEq, Prod.mk.injEq] at h
                  obtain ⟨h, _⟩ := h
                  subst h
                  rw [encode_fields_append, show ∀ (a : Int × List Nat)
                    (l : List (Int × List Nat)),
                    encode_fields (a :: l) = encode_field a ++ encode_fields l from
                      fun a l => by simp [encode_fields]]
                  simp only [List.length_append]
                  have hgoal : ∀ (pf : Int × List Nat) (inf : List (Int × List Nat)),
                      (encode_field pf).length ≤ 6 + e.len → (encode_fields inf).length ≤ 44 →
                      (encode_field pf).length + (encode_fields inf).length +
                        (encode_fields more).length ≤ 100 + (e.len + de.len) := by
                    intro pf inf h6 h44
                    omega
                  refine hgoal _ _ ?_ ?_
                  · split
                    · simp [encode_field_length]
                    · simp [encode_field_length]
                    · simp only [encode_field_length, cstr_bytes_length]
                      omega
                  · split <;>
                      simp [encode_fields, encode_field_length, le_bytes_length,
                        le_bytes_int32_length]

/-- The length of what a read puts out for an event of a consistent zone. -/
theorem entry_bytes_bound {s : fsevents_state} {cnt : Nat → Nat} (w : fs_event_watcher)
    {p : Nat} {e : kfs_event} (hz : zone_ok s.event_zone cnt) (he : deref s p = some e) :
    (entry_bytes s w p).length ≤ 122 + path_room s e := by
  have hcl : ∀ d de, e.dest = some d → deref s d = some de → de.dest = none := by
    intro d de hd hde
    obtain ⟨_, _, h3, _⟩ := hz.2 p e he
    obtain ⟨_, de', hde', hoff⟩ := h3 d hd
    have : de' = de := by
      have h := hde
      rw [deref_eq, hde'] at h
      exact Option.some.inj h
    subst this
    exact ((hz.2 d de' hde').2.1 hoff).2.1
  have hlen : 1 ≤ s.event_zone.length := by
    have := getD_some_lt (show s.event_zone.getD p none = some e from he)
    omega
  obtain ⟨m, hm⟩ : ∃ m, s.event_zone.length = m + 1 := ⟨s.event_zone.length - 1, by omega⟩
  unfold entry_bytes
  rw [he]
  dsimp only
  unfold read_bytes
  split
  · split
    · simp
    · unfold wire_record
      split
      · simp
      · split
        · simp
        · split
          · simp
          · rw [hm]
            cases hb : body_fields s w e.type (m + 1 + 1) e with
            | none => simp
            | some r =>
              obtain ⟨fs, last⟩ := r
              have := body_fields_bound hcl hb
              have ht : (encode_fields [time_field last]).length = 12 := by
                simp [encode_fields, encode_field_length, time_field, le_bytes_length]
              simp only [Option.getD_some, encode_record_length, encode_fields_append,
                List.length_append, ht]
              omega
  · simp

/-! ## Reachability of the scenarios -/

theorem scn_full_ring_reachable : reachable scn_full_ring :=
  reachable.add_fsevent _ _ _ 0 (reachable.add_watcher _ _ _ _ (reachable.init 4))
    (show add_fsevent
      (add_watcher (fsevents_internal_init 4) (List.replicate 17 FSE_REPORT) 17 2 {}).2.2
      FSE_CONTENT_MODIFIED scn_path_args (scn_env 1000) = some (0, scn_full_ring) by decide)

theorem scn_full_ring_create_reachable : reachable scn_full_ring_create :=
  reachable.add_fsevent _ _ _ 0 scn_full_ring_reachable
    (show add_fsevent scn_full_ring FSE_CREATE_FILE scn_path_args (scn_env 2000) =
      some (0, scn_full_ring_create) by decide)

theorem scn_renamed_reachable : reachable scn_renamed :=
  reachable.add_fsevent _ _ _ 0 scn_one_watcher_reachable
    (show add_fsevent scn_one_watcher FSE_RENAME scn_rename_args (scn_env 1000) =
      some (0, scn_renamed) by decide)

theorem scn_wide_reachable : reachable scn_wide :=
  reachable.add_fsevent _ _ _ 0 scn_one_watcher_reachable
    (show add_fsevent scn_one_watcher FSE_RENAME scn_wide_args (scn_env 1000) =
      some (0, scn_wide) by decide!)

/-! ## The synthetic record of a read -/

/-- The synthetic record of a read into a buffer that does not fault: a read
of a registered watcher with no other reader active, into a buffer of at
least 2048 bytes that does not fault, unless it is interrupted
while it waits at an empty queue: when the watcher has `WATCHER_DROPPED_EVENTS`
set it writes first, before the record of any event, one synthetic record
(32-bit kind `FSE_EVENTS_DROPPED`, 32-bit pid 0, 16-bit `FSE_ARG_DONE`), and
the flag is clear afterwards; when the flag is clear it writes no such record:
all the records that follow carry another kind. -/
theorem read_dropped_record {s : fsevents_state} {j : Nat} {w : fs_event_watcher} {u : uio}
    (sleep_err : Int) (hreach : reachable s) (hw : get_watcher s j = some w)
    (hnr : w.num_readers = 0) (hu : u.errs = []) (hres : 2048 ≤ u.resid)
    (hgo : ¬ (w.rd = w.wr ∧ sleep_err ≠ 0)) :
    ∃ (r : Int) (s1 : fsevents_state) (u1 : uio) (w1 : fs_event_watcher)
      (recs : List (Int × Int × List (Int × List Nat))) (more : List Nat),
      fmod_watch s j u sleep_err = some (r, s1, u1) ∧ get_watcher s1 j = some w1 ∧
      has_flag w1.flags WATCHER_DROPPED_EVENTS = false ∧
      u1.written = u.written ++
        (if has_flag w.flags WATCHER_DROPPED_EVENTS then
          le_bytes_int32 FSE_EVENTS_DROPPED ++ le_bytes_int32 0 ++ done_bytes else []) ++
        (recs.map (fun x => encode_record x.1 x.2.1 x.2.2)).flatten ++ more ∧
      u.resid - u1.resid =
        (((if has_flag w.flags WATCHER_DROPPED_EVENTS then
          le_bytes_int32 FSE_EVENTS_DROPPED ++ le_bytes_int32 0 ++ done_bytes else []) ++
        (recs.map (fun x => encode_record x.1 x.2.1 x.2.2)).flatten).length : Int) ∧
      ∀ x ∈ recs, x.1 ≠ FSE_EVENTS_DROPPED := by
  have hs := reachable_inv hreach
  obtain ⟨r, s1, u1, junk, w1, a1, a2, a3, _, _, _, a7, _, _, _, a11, a12, _⟩ :=
    fmod_watch_spec sleep_err hs hw hnr hu hres hgo
  have hmem : ∀ p ∈ read_taken s w u.resid, some p ∈ pending w := by
    intro p hp
    rw [a3]
    exact List.mem_append_left _ (List.mem_map_of_mem _ hp)
  obtain ⟨recs, h1, h2⟩ := read_out_records s w (read_taken s w u.resid)
    (fun p hp => entry_bytes_record hs hw (hmem p hp))
  refine ⟨r, s1, u1, w1, recs, junk, a1, a2, ?_, ?_, ?_, h2⟩
  · rw [a7]; exact flags_after_read_clear w
  · rw [a11, h1, dropped_bytes_eq]
  · rw [a12, h1, ← dropped_bytes_eq, List.length_append]
    push_cast
    ring

/-- The synthetic record at an example: a read of the watcher of
`scn_full_ring_create`, which has dropped an event and has one pending. -/
theorem read_dropped_record_example :
    reachable scn_full_ring_create ∧
    get_watcher scn_full_ring_create 0 = some scn_flagged_watcher ∧
    has_flag scn_flagged_watcher.flags WATCHER_DROPPED_EVENTS = true ∧
    ∃ (r : Int) (s1 : fsevents_state) (u1 : uio) (w1 : fs_event_watcher)
      (recs : List (Int × Int × List (Int × List Nat))) (more : List Nat),
      fmod_watch scn_full_ring_create 0 (scn_buffer 2048) 0 = some (r, s1, u1) ∧
      get_watcher s1 0 = some w1 ∧
      has_flag w1.flags WATCHER_DROPPED_EVENTS = false ∧
      u1.written = (scn_buffer 2048).written ++
        (if has_flag scn_flagged_watcher.flags WATCHER_DROPPED_EVENTS then
          le_bytes_int32 FSE_EVENTS_DROPPED ++ le_bytes_int32 0 ++ done_bytes else []) ++
        (recs.map (fun x => encode_record x.1 x.2.1 x.2.2)).flatten ++ more ∧
      (scn_buffer 2048).resid - u1.resid =
        (((if has_flag scn_flagged_watcher.flags WATCHER_DROPPED_EVENTS then
          le_bytes_int32 FSE_EVENTS_DROPPED ++ le_bytes_int32 0 ++ done_bytes else []) ++
        (recs.map (fun x => encode_record x.1 x.2.1 x.2.2)).flatten).length : Int) ∧
      ∀ x ∈ recs, x.1 ≠ FSE_EVENTS_DROPPED :=
  ⟨scn_full_ring_create_reachable, by decide, by decide,
    @read_dropped_record scn_full_ring_create 0 scn_flagged_watcher (scn_buffer 2048) 0
      scn_full_ring_create_reachable (by decide) (by decide) (by decide) (by decide)
      (by decide)⟩

/-! ## C14 -/

theorem kept_refl (w : fs_event_watcher) : kept w w := ⟨rfl, rfl, rfl, rfl⟩

theorem kept_trans {w w1 w2 : fs_event_watcher} (h1 : kept w w1) (h2 : kept w1 w2) :
    kept w w2 :=
  ⟨h2.1.trans h1.1, h2.2.1.trans h1.2.1, h2.2.2.1.trans h1.2.2.1, h2.2.2.2.trans h1.2.2.2⟩

/-- What `watcher_add_event` does to the queue of its watcher: nothing (the
ring is full), one entry more, or none left (the queue was drained). -/
theorem watcher_add_event_queue {s s1 : fsevents_state} {i k : Nat} {r : Int}
    {held : Nat → Nat} {w : fs_event_watcher} (h : sys_ok s held) (hk : 1 ≤ held k)
    (hw : get_watcher s i = some w) (hres : watcher_add_event s i k = some (r, s1)) :
    ∃ w1, s1.watcher_table = s.watcher_table.set i (some w1) ∧ kept w w1 ∧
      w1.devices_not_to_watch = w.devices_not_to_watch ∧ w1.num_devices = w.num_devices ∧
      (pending w1 = pending w ∨ pending w1 = [] ∨ pending w1 = pending w ++ [some k]) := by
  obtain ⟨e, he, hl⟩ := zone_ok_alloc_of_pos h.1 (p := k) (by show 1 ≤ _ + _; omega)
  have hrc := ((h.1.2 k e he).1 hl).1
  have hwok := h.2 i w hw
  have hi : s.watcher_table.getD i none = some w := hw
  have hsz : w.eventq_size ≠ 0 := by
    intro h0
    by_cases hab : e.abstime > w.max_event_id <;>
      simp [watcher_add_event, hw, show deref s k = some e from he, hab, h0] at hres
  rw [watcher_add_event_eq hw he hsz] at hres
  split at hres
  · cases hres
    exact ⟨_, rfl, ⟨rfl, rfl, rfl, has_flag_or_other _ _ _ (by decide)⟩, rfl, rfl,
      Or.inl (pending_congr rfl rfl rfl rfl)⟩
  · rename_i hfull
    obtain ⟨w1, hw1⟩ : ∃ w1, w1 = enqueued { w with max_event_id :=
        if e.abstime > w.max_event_id then e.abstime else w.max_event_id } k := ⟨_, rfl⟩
    rw [← hw1] at hres
    have f1 : w1.event_queue = w.event_queue.set w.wr (some k) := by rw [hw1]; rfl
    have f2 : w1.eventq_size = w.eventq_size := by rw [hw1]; rfl
    have f3 : w1.rd = w.rd := by rw [hw1]; rfl
    have f4 : w1.wr = (w.wr + 1) % w.eventq_size := by rw [hw1]; rfl
    have f5 : w1.event_list = w.event_list := by rw [hw1]; rfl
    have f6 : w1.num_events = w.num_events := by rw [hw1]; rfl
    have f7 : w1.flags = w.flags := by rw [hw1]; rfl
    have f8 : w1.devices_not_to_watch = w.devices_not_to_watch := by rw [hw1]; rfl
    have f9 : w1.num_devices = w.num_devices := by rw [hw1]; rfl
    obtain ⟨hpe, hrok, _⟩ := pending_enqueue (some k) hwok.1 hsz hfull f1 f2 f3 f4
    split at hres
    · have hst : store s k { e with refcount := e.refcount + 1 } =
          store s k { e with refcount :=
            ((queue_refs s.watcher_table k + held k + 1 : Nat) : Int) } := by
        congr 2
        rw [hrc]; push_cast; ring
      have hz1 : zone_ok (store s k { e with refcount := e.refcount + 1 }).event_zone
          (fun q => queue_refs (s.watcher_table.set i none) q + held q +
            (pending w1).count (some q)) := by
        rw [hst]
        refine zone_ok_congr (zone_ok_set_refcount h.1 he hl
          (queue_refs s.watcher_table k + held k + 1) (by omega)) (fun q => ?_)
        rw [hpe, List.count_append, queue_refs_split hi k]
        by_cases hqp : q = k
        · subst hqp; simp; omega
        · have : queue_refs s.watcher_table q =
              queue_refs (s.watcher_table.set i none) q + (pending w).count (some q) :=
            queue_refs_split hi q
          simp [hqp, Ne.symm hqp, List.count_cons]
          omega
      have hnn : ∀ x ∈ pending w1, x ≠ none := by
        intro x hx
        rw [hpe, List.mem_append, List.mem_singleton] at hx
        rcases hx with hx | hx
        · obtain ⟨q, _, a1, _⟩ := hwok.2.2.1 x hx
          rw [a1]; simp
        · rw [hx]; simp
      obtain ⟨s2, q, hdr, _, htab, _⟩ := drain_event_queue_ok w1.eventq_size
        (store s k { e with refcount := e.refcount + 1 }) w1
        (fun q => queue_refs (s.watcher_table.set i none) q + held q) hrok
        (Nat.le_of_lt (num_pending_lt (by rw [f2]; exact hsz))) hz1 hnn
      rw [← f2, hdr] at hres
      cases hres
      refine ⟨{ ({ w1 with event_queue := q, rd := w1.wr } : fs_event_watcher) with
          flags := w1.flags ||| WATCHER_DROPPED_EVENTS }, ?_,
        ⟨f5, f6, f2, ?_⟩, f8, f9, Or.inr (Or.inl (pending_nil_of_eq rfl))⟩
      · show s2.watcher_table.set i _ = _
        rw [htab]; rfl
      · show has_flag (w1.flags ||| WATCHER_DROPPED_EVENTS) _ = _
        rw [f7]
        exact has_flag_or_other _ _ _ (by decide)
    · cases hres
      exact ⟨w1, rfl, ⟨f5, f6, f2, by rw [f7]⟩, f8, f9, Or.inr (Or.inr hpe)⟩

theorem get_watcher_of_table {s s1 : fsevents_state} (h : s1.watcher_table = s.watcher_table)
    (i : Nat) : get_watcher s1 i = get_watcher s i := by
  simp only [get_watcher, h]

theorem get_watcher_table_set_same {s s1 : fsevents_state} {i : Nat}
    {x : Option fs_event_watcher} (h : s1.watcher_table = s.watcher_table.set i x)
    (hlt : i < s.watcher_table.length) : get_watcher s1 i = x := by
  simp only [get_watcher, h, getD_set_eq]
  simp [hlt]

theorem get_watcher_table_set_other {s s1 : fsevents_state} {i j : Nat}
    {x : Option fs_event_watcher} (h : s1.watcher_table = s.watcher_table.set i x)
    (hij : i ≠ j) : get_watcher s1 j = get_watcher s j := by
  simp only [get_watcher, h, getD_set_eq]
  simp [hij]

/-- The fan-out loop and the queues: each registered watcher stays registered
and keeps what identifies it; its queue is left alone, or drained, or gets the
new event as its one new entry, the last only when the watcher reports the
kind and cares about the device. -/
theorem fan_out_queues (type dev : Int) (k : Nat) {held : Nat → Nat} (hk : 1 ≤ held k) :
    ∀ (slots : List Nat) (s s1 : fsevents_state), sys_ok s held →
      (∀ e, deref s k = some e → e.type = type) → slots.Nodup →
      fan_out type dev k slots s = some s1 →
      s1.watcher_table.length = s.watcher_table.length ∧
      ∀ i, (get_watcher s i = none → get_watcher s1 i = none) ∧
        ∀ w, get_watcher s i = some w → ∃ w1, get_watcher s1 i = some w1 ∧ kept w w1 ∧
          w1.devices_not_to_watch = w.devices_not_to_watch ∧ w1.num_devices = w.num_devices ∧
          (i ∉ slots → pending w1 = pending w) ∧
          (pending w1 = pending w ∨ pending w1 = [] ∨
            (reports w type ∧ watcher_cares_about_dev w dev = true ∧
              pending w1 = pending w ++ [some k])) := by
  intro slots
  induction slots with
  | nil =>
    intro s s1 h _ _ hres
    simp only [fan_out, Option.some.injEq] at hres
    subst hres
    exact ⟨rfl, fun i => ⟨fun h0 => h0, fun w hw =>
      ⟨w, hw, kept_refl w, rfl, rfl, fun _ => rfl, Or.inl rfl⟩⟩⟩
  | cons i0 rest ih =>
    intro s s1 h hty hnd hres
    have hnd1 : rest.Nodup := (List.nodup_cons.1 hnd).2
    have hi0 : i0 ∉ rest := (List.nodup_cons.1 hnd).1
    have hsame : fan_out type dev k rest s = some s1 →
        s1.watcher_table.length = s.watcher_table.length ∧
        ∀ i, (get_watcher s i = none → get_watcher s1 i = none) ∧
          ∀ w, get_watcher s i = some w → ∃ w1, get_watcher s1 i = some w1 ∧ kept w w1 ∧
            w1.devices_not_to_watch = w.devices_not_to_watch ∧
            w1.num_devices = w.num_devices ∧
            (i ∉ i0 :: rest → pending w1 = pending w) ∧
            (pending w1 = pending w ∨ pending w1 = [] ∨
              (reports w type ∧ watcher_cares_about_dev w dev = true ∧
                pending w1 = pending w ++ [some k])) := by
      intro hr
      obtain ⟨a, b⟩ := ih s s1 h hty hnd1 hr
      refine ⟨a, fun i => ⟨(b i).1, fun w hw => ?_⟩⟩
      obtain ⟨w1, c1, c2, c3, c4, c5, c6⟩ := (b i).2 w hw
      exact ⟨w1, c1, c2, c3, c4, fun hn => c5 (fun hm => hn (List.mem_cons_of_mem _ hm)), c6⟩
    simp only [fan_out] at hres
    split at hres
    · exact hsame hres
    · rename_i watcher hw
      have hlt : i0 < s.watcher_table.length := get_watcher_some_lt hw
      have key : ∀ (s2 : fsevents_state) (w2 : fs_event_watcher),
          s2.watcher_table = s.watcher_table.set i0 (some w2) → kept watcher w2 →
          w2.devices_not_to_watch = watcher.devices_not_to_watch →
          w2.num_devices = watcher.num_devices →
          (pending w2 = pending watcher ∨ pending w2 = [] ∨
            (reports watcher type ∧ watcher_cares_about_dev watcher dev = true ∧
              pending w2 = pending watcher ++ [some k])) →
          sys_ok s2 held → (∀ e, deref s2 k = some e → e.type = type) →
          fan_out type dev k rest s2 = some s1 →
          s1.watcher_table.length = s.watcher_table.length ∧
          ∀ i, (get_watcher s i = none → get_watcher s1 i = none) ∧
            ∀ w, get_watcher s i = some w → ∃ w1, get_watcher s1 i = some w1 ∧ kept w w1 ∧
              w1.devices_not_to_watch = w.devices_not_to_watch ∧
              w1.num_devices = w.num_devices ∧
              (i ∉ i0 :: rest → pending w1 = pending w) ∧
              (pending w1 = pending w ∨ pending w1 = [] ∨
                (reports w type ∧ watcher_cares_about_dev w dev = true ∧
                  pending w1 = pending w ++ [some k])) := by
        intro s2 w2 htab hk2 hd2 hn2 hp2 ok2 hty2 hr
        obtain ⟨a, b⟩ := ih s2 s1 ok2 hty2 hnd1 hr
        refine ⟨by rw [a, htab, List.length_set], fun i => ?_⟩
        by_cases hii : i0 = i
        · subst hii
          refine ⟨fun h0 => (by rw [hw] at h0; cases h0), fun w hw' => ?_⟩
          rw [hw] at hw'; cases hw'
          obtain ⟨w1, c1, c2, c3, c4, c5, _⟩ :=
            (b i0).2 w2 (get_watcher_table_set_same htab hlt)
          refine ⟨w1, c1, kept_trans hk2 c2, c3.trans hd2, c4.trans hn2,
            fun hn => absurd (List.mem_cons_self _ _) hn, ?_⟩
          rw [c5 hi0]
          exact hp2
        · have hg : get_watcher s2 i = get_watcher s i := get_watcher_table_set_other htab hii
          refine ⟨fun h0 => (b i).1 (by rw [hg]; exact h0), fun w hw' => ?_⟩
          obtain ⟨w1, c1, c2, c3, c4, c5, c6⟩ := (b i).2 w (by rw [hg]; exact hw')
          exact ⟨w1, c1, c2, c3, c4,
            fun hn => c5 (fun hm => hn (List.mem_cons_of_mem _ hm)), c6⟩
      split at hres
      · rename_i hc
        split at hres
        · cases hres
        · rename_i r s2 hwae
          obtain ⟨ok2, fr2, sh2, _⟩ := watcher_add_event_ok h hk hw
            (fun _ e he => by rw [hty e he]; exact hc.1) hwae
          obtain ⟨w2, htab, hk2, hd2, hn2, hp2⟩ := watcher_add_event_queue h hk hw hwae
          have hty2 : ∀ e, deref s2 k = some e → e.type = type := by
            intro e he
            obtain ⟨e0, he0, ht⟩ := zone_shrinks_type sh2 he
            rw [ht]; exact hty e0 he0
          have hp2' : pending w2 = pending watcher ∨ pending w2 = [] ∨
              (reports watcher type ∧ watcher_cares_about_dev watcher dev = true ∧
                pending w2 = pending watcher ++ [some k]) := by
            rcases hp2 with g | g | g
            · exact Or.inl g
            · exact Or.inr (Or.inl g)
            · exact Or.inr (Or.inr ⟨⟨hc.1, hc.2.1⟩, hc.2.2, g⟩)
          split at hres
          · split at hres
            · cases hres
            · rename_i w hw2
              have hww : w = w2 := by
                have := get_watcher_table_set_same htab hlt
                rw [hw2] at this
                exact Option.some.inj this
              subst hww
              have ok3 := @sys_ok_touch_watcher _ _ _
                { w with num_dropped := (w.num_dropped + 1) % 2 ^ 32 } _ ok2 hw2
                rfl rfl rfl rfl rfl rfl
              refine key _ { w with num_dropped := (w.num_dropped + 1) % 2 ^ 32 } ?_ hk2 hd2 hn2
                ?_ ok3 ?_ hres
              · show s2.watcher_table.set i0 _ = _
                rw [htab, List.set_set]
              · have : pending ({ w with num_dropped := (w.num_dropped + 1) % 2 ^ 32 } :
                    fs_event_watcher) = pending w := pending_congr rfl rfl rfl rfl
                rw [this]; exact hp2'
              · exact hty2
          · exact key s2 w2 htab hk2 hd2 hn2 hp2' ok2 hty2 hres
      · refine hsame hres

/-- Allocation and publication touch the elements of the new event and of its
destination, which were free, and nothing else of the zone or the table. -/
theorem alloc_publish_others {s sa : fsevents_state} {type : Int} {now : Nat} {pid : Int}
    {k : Nat} {dd : Option Nat} (ha : alloc_events s type = (some k, dd, sa)) :
    s.event_zone.getD k none = none ∧ (∀ d, dd = some d → s.event_zone.getD d none = none) ∧
    (publish_events sa type now pid k dd).watcher_table = s.watcher_table ∧
    ∀ p, p ≠ k → dd ≠ some p →
      (publish_events sa type now pid k dd).event_zone.getD p none =
        s.event_zone.getD p none := by
  obtain ⟨hk, hkf, htab, hmax, hfr, hcase⟩ := alloc_events_fields ha
  have hpub : publish_events sa type now pid k dd =
      { sa with event_zone := published_zone sa.event_zone type now pid k dd,
                last_event_ptr := some k,
                num_events_outstanding := sa.num_events_outstanding + 1,
                num_pending_rename :=
                  if type = FSE_RENAME then sa.num_pending_rename + 1
                  else sa.num_pending_rename,
                kfse_list_head := k :: sa.kfse_list_head } := by
    rcases hcase with ⟨a, b, c⟩ | ⟨a, d, b, c1, c2, c3, c4⟩
    · exact publish_events_eq sa type now pid k dd (by rw [c]; simpa using hk) (Or.inl ⟨a, b⟩)
    · exact publish_events_eq sa type now pid k dd (by rw [c4]; simpa using hk)
        (Or.inr ⟨a, d, b, c1, by rw [c4]; simpa using c2⟩)
  rw [hpub]
  refine ⟨hkf, ?_, htab, fun p hpk hpd => ?_⟩
  · intro d hd
    rcases hcase with ⟨_, b, _⟩ | ⟨_, d1, b, _, _, c3, _⟩
    · rw [b] at hd; cases hd
    · rw [b] at hd; cases hd; exact c3
  · show (published_zone sa.event_zone type now pid k dd).getD p none = _
    rcases hcase with ⟨_, b, c⟩ | ⟨_, d, b, c1, c2, c3, c4⟩
    · subst b
      rw [c]
      simp [published_zone, getD_set_eq, Ne.symm hpk]
    · subst b
      have hpd1 : d ≠ p := fun g => hpd (by rw [g])
      rw [c4]
      simp [published_zone, getD_set_eq, Ne.symm hpk, hpd1]

/-- The code from the label `clean_up` on ends in the state the release of the
publisher's reference leaves. -/
theorem hlink_block_release {type : Int} {k : Nat} {links : List link_reply}
    {s : fsevents_state} {l : add_locals} {res : pass_result}
    (hr : hlink_block type k links s l = some (clean_next.done res)) :
    release_event_ref s k = some (pass_state res) := by
  have hfin : ∀ {l1 : add_locals},
      (add_fsevent_finish s k l1).map clean_next.done = some (clean_next.done res) →
      release_event_ref s k = some (pass_state res) := by
    intro l1 h1
    rw [Option.map_eq_some'] at h1
    obtain ⟨res1, h2, h3⟩ := h1
    cases h3
    unfold add_fsevent_finish at h2
    split at h2
    · cases h2
    · rename_i s1 h1
      cases h2
      exact h1
  unfold hlink_block at hr
  split at hr
  · cases hr
  · split at hr
    · split at hr
      · dsimp only at hr
        split at hr
        · split at hr
          · split at hr
            · split at hr
              · cases hr
              · rename_i s1 h1
                cases hr
                exact h1
            · exact hfin hr
          · split at hr
            · cases hr
            · exact hfin hr
        · exact hfin hr
      · exact hfin hr
    · exact hfin hr

theorem clean_up_loop_release (type : Int) (k : Nat) (s : fsevents_state) :
    ∀ (fuel : Nat) (links : List link_reply) (l : add_locals) (res : pass_result),
      clean_up_loop type k s fuel links l = some res →
      release_event_ref s k = some (pass_state res) := by
  intro fuel
  induction fuel with
  | zero => intro links l res hr; simp [clean_up_loop] at hr
  | succ n ih =>
    intro links l res hr
    simp only [clean_up_loop] at hr
    split at hr
    · cases hr
    · rename_i r hb
      cases hr
      exact hlink_block_release hb
    · rename_i links1 l1 hb
      exact ih links1 l1 res hr

theorem clean_up_release {type : Int} {k : Nat} {links : List link_reply} {s : fsevents_state}
    {l : add_locals} {res : pass_result} (hr : clean_up type k links s l = some res) :
    release_event_ref s k = some (pass_state res) :=
  clean_up_loop_release type k s _ links l res hr

/-- The release of the publisher's reference leaves the table alone and
rewrites no event. -/
theorem clean_up_quiet {type : Int} {k : Nat} {links : List link_reply} {s : fsevents_state}
    {l : add_locals} {res : pass_result} (h : sys_ok s (fun p => if p = k then 1 else 0))
    (hr : clean_up type k links s l = some res) :
    (pass_state res).watcher_table = s.watcher_table ∧
    zone_shrinks s.event_zone (pass_state res).event_zone := by
  obtain ⟨e, he, hl⟩ := zone_ok_alloc_of_pos h.1 (p := k) (by simp)
  obtain ⟨s2, h2, htab, _, hsh⟩ := release_event_ref_ok h.1 he hl
  rw [clean_up_release hr] at h2
  cases h2
  exact ⟨htab, hsh⟩

/-- The part of a pass that follows the argument blocks, and the queues. -/
theorem deliver_pass_queues {s : fsevents_state} {type : Int} {k : Nat} {dd : Option Nat}
    {l : add_locals} {links : List link_reply} {skip : Bool} {res : pass_result}
    (h : sys_ok s (fun p => if p = k then 1 else 0))
    (hty : ∀ e, deref s k = some e → e.type = type)
    (hr : deliver_pass s type k dd l links skip = some res) :
    (pass_state res).watcher_table.length = s.watcher_table.length ∧
    (∀ p e e1, deref s p = some e → deref (pass_state res) p = some e1 → e1.type = e.type) ∧
    ∀ i, (get_watcher s i = none → get_watcher (pass_state res) i = none) ∧
      ∀ w, get_watcher s i = some w → ∃ w1, get_watcher (pass_state res) i = some w1 ∧
        kept w w1 ∧ w1.devices_not_to_watch = w.devices_not_to_watch ∧
        w1.num_devices = w.num_devices ∧
        (pending w1 = pending w ∨ pending w1 = [] ∨
          (skip = false ∧ reports w type ∧ watcher_cares_about_dev w l.dev = true ∧
            pending w1 = pending w ++ [some k])) := by
  have htypes : ∀ {sa sb : fsevents_state}, zone_shrinks sa.event_zone sb.event_zone →
      ∀ p e e1, deref sa p = some e → deref sb p = some e1 → e1.type = e.type := by
    intro sa sb hsh p e e1 he he1
    obtain ⟨e0, he0, ht⟩ := zone_shrinks_type hsh he1
    have : sa.event_zone.getD p none = some e := he
    rw [this] at he0; cases he0
    exact ht
  unfold deliver_pass at hr
  split at hr
  · obtain ⟨htab, hsh⟩ := clean_up_quiet h hr
    refine ⟨by rw [htab], htypes hsh, fun i => ?_⟩
    rw [get_watcher_of_table htab]
    exact ⟨fun h0 => h0, fun w hw => ⟨w, hw, kept_refl w, rfl, rfl, Or.inl rfl⟩⟩
  · rename_i hskip
    split at hr
    · cases hr
    · rename_i s1 h1
      have hb := benign_done_with_args h1
      have ok1 := sys_ok_benign h hb
      have hex : ∃ e, deref s k = some e := by
        obtain ⟨e, he, _⟩ := zone_ok_alloc_of_pos h.1 (p := k) (by simp)
        exact ⟨e, he⟩
      have hty1 := benign_type hb hex hty
      split at hr
      · cases hr
      · rename_i s2 h2
        obtain ⟨ok2, fr2, sh2⟩ := fan_out_ok type l.dev k (by simp) _ s1 s2 ok1 hty1 h2
        obtain ⟨hlen, hq⟩ := fan_out_queues type l.dev k (by simp) _ s1 s2 ok1 hty1
          (List.nodup_range _) h2
        obtain ⟨htab, hsh⟩ := clean_up_quiet ok2 hr
        refine ⟨by rw [htab, hlen, hb.table], fun p e e1 he he1 => ?_, fun i => ?_⟩
        · obtain ⟨eb, heb, hbe⟩ := hb.used p e he
          have := htypes (zone_shrinks_trans sh2 hsh) p eb e1 heb he1
          rw [this, hbe.2.2.1]
        · rw [get_watcher_of_table htab, ← get_watcher_of_table hb.table]
          refine ⟨(hq i).1, fun w hw => ?_⟩
          obtain ⟨w1, c1, c2, c3, c4, _, c6⟩ := (hq i).2 w hw
          refine ⟨w1, c1, c2, c3, c4, ?_⟩
          rcases c6 with g | g | g
          · exact Or.inl g
          · exact Or.inr (Or.inl g)
          · exact Or.inr (Or.inr ⟨by simpa using hskip, g⟩)

/-- A step that changes neither the zone nor the table. -/
theorem queue_step_of_eq {s s1 : fsevents_state} (ok : fs_event_watcher → Nat → Prop)
    (hz : s1.event_zone = s.event_zone) (ht : s1.watcher_table = s.watcher_table) :
    queue_step s s1 ok := by
  refine ⟨by rw [ht], fun p e e1 he he1 => ?_, fun i => ?_⟩
  · have h1 : s1.event_zone.getD p none = some e1 := he1
    have h0 : s.event_zone.getD p none = some e := he
    rw [hz, h0] at h1
    cases h1; rfl
  · rw [get_watcher_of_table ht]
    exact ⟨fun h0 => h0, fun w hw => ⟨w, hw, kept_refl w, rfl, rfl, Or.inl rfl⟩⟩

theorem queue_step_refl (s : fsevents_state) (ok : fs_event_watcher → Nat → Prop) :
    queue_step s s ok := queue_step_of_eq ok rfl rfl

/-- The exhaustion branch flags every watcher and leaves the queues alone. -/
theorem queue_step_no_free_events {s sa : fsevents_state} (env : fse_env)
    (ok : fs_event_watcher → Nat → Prop)
    (hz : sa.event_zone = s.event_zone) (ht : sa.watcher_table = s.watcher_table) :
    queue_step s (no_free_events sa env) ok := by
  obtain ⟨fz, ftab, _⟩ := no_free_events_fields sa env
  refine ⟨by rw [ftab, ht]; simp [flag_all_dropped], fun p e e1 he he1 => ?_, fun i => ?_⟩
  · have h1 : (no_free_events sa env).event_zone.getD p none = some e1 := he1
    have h0 : s.event_zone.getD p none = some e := he
    rw [fz, hz, h0] at h1
    cases h1; rfl
  · have hg : get_watcher (no_free_events sa env) i =
        (get_watcher s i).map (fun watcher =>
          { watcher with flags := watcher.flags ||| WATCHER_DROPPED_EVENTS }) := by
      show (no_free_events sa env).watcher_table.getD i none = _
      rw [ftab, ht, getD_flag_all]
      rfl
    rw [hg]
    refine ⟨fun h0 => by rw [h0]; rfl, fun w hw => ?_⟩
    rw [hw]
    exact ⟨_, rfl, ⟨rfl, rfl, rfl, has_flag_or_other _ _ _ (by decide)⟩, rfl, rfl,
      Or.inl (pending_flagged w _)⟩

/-- The part of a pass of `add_fsevent` that follows the dedup filter, and the
queues: a queue gets at most one new entry, the event of the pass, and only
when its watcher reports the kind and cares about the device the locals hold
after the argument block. -/
theorem publish_pass_queues {s : fsevents_state} {type : Int} {ap : List va_word}
    {env : fse_env} {now : Nat} {l : add_locals} {links : List link_reply} {res : pass_result}
    (h : sys_ok s (fun _ => 0)) (hty : 0 ≤ type ∧ type < FSE_MAX_EVENTS)
    (hr : publish_pass s type ap env now l links = some res) :
    queue_step s (pass_state res) (fun w k =>
      reports w type ∧ (∀ e1, deref (pass_state res) k = some e1 → e1.type = type) ∧
      ∃ dd sa s2 l1, alloc_events s type = (some k, dd, sa) ∧
        fill_event (publish_events sa type now env.pid k dd) type k dd ap env l =
          some (s2, l1, false) ∧
        watcher_cares_about_dev w l1.dev = true) := by
  unfold publish_pass at hr
  split at hr
  · rename_i dd sa ha
    cases hr
    obtain ⟨a, b, _⟩ := alloc_events_none ha
    exact queue_step_no_free_events env _ a b
  · rename_i k dd sa ha
    obtain ⟨ok1, fr1, ty1⟩ := @alloc_publish_ok _ _ _ now env.pid _ _ h hty ha
    obtain ⟨hkf, hdf, htab, hoth⟩ := @alloc_publish_others _ _ type now env.pid _ _ ha
    split at hr
    · cases hr
    · rename_i s2 l2 skip hf
      have hb := benign_fill_event hf
      have hex : ∃ e, deref (publish_events sa type now env.pid k dd) k = some e := by
        obtain ⟨e, he, _⟩ := zone_ok_alloc_of_pos ok1.1 (p := k) (by simp)
        exact ⟨e, he⟩
      have hty2 := benign_type hb hex ty1
      obtain ⟨hlen, htypes, hq⟩ := deliver_pass_queues (sys_ok_benign ok1 hb) hty2 hr
      have hex2 : ∃ e, deref s2 k = some e := by
        obtain ⟨e, he⟩ := hex
        obtain ⟨e1, h1, _⟩ := hb.used k e he
        exact ⟨e1, h1⟩
      refine ⟨by rw [hlen, hb.table, htab], fun p e e1 he he1 => ?_, fun i => ?_⟩
      · have he0 : s.event_zone.getD p none = some e := he
        have hpk : p ≠ k := by
          intro g; subst g; rw [hkf] at he0; cases he0
        have hpd : dd ≠ some p := by
          intro g
          rw [hdf p g] at he0; cases he0
        have hp1 : deref (publish_events sa type now env.pid k dd) p = some e := by
          show (publish_events sa type now env.pid k dd).event_zone.getD p none = _
          rw [hoth p hpk hpd]; exact he0
        obtain ⟨eb, heb, hbe⟩ := hb.used p e hp1
        rw [htypes p eb e1 heb he1, hbe.2.2.1]
      · have hg : get_watcher s2 i = get_watcher s i := by
          rw [get_watcher_of_table hb.table, get_watcher_of_table htab]
        rw [← hg]
        refine ⟨(hq i).1, fun w hw => ?_⟩
        obtain ⟨w1, c1, c2, c3, c4, c5⟩ := (hq i).2 w hw
        refine ⟨w1, c1, c2, c3, c4, ?_⟩
        rcases c5 with g | g | ⟨g1, g2, g3, g4⟩
        · exact Or.inl g
        · exact Or.inr (Or.inl g)
        · subst g1
          refine Or.inr (Or.inr ⟨k, hkf, ⟨g2, fun e1 he1 => ?_, dd, sa, s2, l2, ha, hf, g3⟩, g4⟩)
          obtain ⟨e, he⟩ := hex2
          rw [htypes k e e1 he he1]
          exact hty2 e he

theorem reports_kept {w w1 : fs_event_watcher} (h : kept w w1) (type : Int) :
    reports w1 type ↔ reports w type := by
  unfold reports
  rw [h.1, h.2.1]

/-- A step of the kind `queue_step` describes keeps the invariant of the
queues, when its new entries are of a kind the watcher reports. -/
theorem queue_inv_step {s s1 : fsevents_state} {ok : fs_event_watcher → Nat → Prop}
    (hs : sys_ok s (fun _ => 0)) (hq : queue_inv s) (hst : queue_step s s1 ok)
    (hok : ∀ w k, ok w k → ∃ type, reports w type ∧
      ∀ e1, deref s1 k = some e1 → e1.type = type) : queue_inv s1 := by
  obtain ⟨_, htypes, hslots⟩ := hst
  intro i w1 hw1
  cases hw : get_watcher s i with
  | none =>
    rw [(hslots i).1 hw] at hw1; cases hw1
  | some w =>
    obtain ⟨w1', c1, c2, _, _, c5⟩ := (hslots i).2 w hw
    rw [hw1] at c1; cases c1
    obtain ⟨hnd, hrep⟩ := hq i w hw
    have hwok := hs.2 i w hw
    have hold : ∀ p e1, some p ∈ pending w → deref s1 p = some e1 → reports w1 e1.type := by
      intro p e1 hp he1
      obtain ⟨p', e, a1, a2, _⟩ := hwok.2.2.1 (some p) hp
      cases a1
      rw [reports_kept c2, htypes p e e1 a2 he1]
      exact hrep p e hp a2
    rcases c5 with g | g | ⟨k, g1, g2, g3⟩
    · rw [g]
      exact ⟨hnd, hold⟩
    · rw [g]
      exact ⟨List.nodup_nil, fun p e hp _ => by simp at hp⟩
    · rw [g3]
      have hnk : some k ∉ pending w := by
        intro hm
        obtain ⟨p', e, a1, a2, _⟩ := hwok.2.2.1 (some k) hm
        cases a1
        have : s.event_zone.getD k none = none := g1
        rw [this] at a2; cases a2
      refine ⟨?_, fun p e1 hp he1 => ?_⟩
      · rw [List.nodup_append]
        refine ⟨hnd, List.nodup_singleton _, ?_⟩
        intro a ha hb
        rw [List.mem_singleton] at hb
        subst hb
        exact hnk ha
      · rw [List.mem_append, List.mem_singleton] at hp
        rcases hp with hp | hp
        · exact hold p e1 hp he1
        · cases hp
          obtain ⟨type, t1, t2⟩ := hok w k g2
          rw [reports_kept c2, t2 e1 he1]
          exact t1

theorem registry_kept_refl (s : fsevents_state) : registry_kept s s :=
  ⟨rfl, rfl, fun _ => ⟨fun h => h, fun w hw => ⟨w, hw, kept_refl w⟩⟩⟩

theorem registry_kept_trans {s s1 s2 : fsevents_state} (h1 : registry_kept s s1)
    (h2 : registry_kept s1 s2) : registry_kept s s2 := by
  refine ⟨h2.1.trans h1.1, h2.2.1.trans h1.2.1, fun i => ⟨fun h0 => ?_, fun w hw => ?_⟩⟩
  · exact (h2.2.2 i).1 ((h1.2.2 i).1 h0)
  · obtain ⟨w1, a1, a2⟩ := (h1.2.2 i).2 w hw
    obtain ⟨w2, b1, b2⟩ := (h2.2.2 i).2 w1 a1
    exact ⟨w2, b1, kept_trans a2 b2⟩

theorem registry_kept_of_step {s s1 : fsevents_state} {ok : fs_event_watcher → Nat → Prop}
    (hst : queue_step s s1 ok) (hc : s1.fs_event_type_watchers = s.fs_event_type_watchers) :
    registry_kept s s1 := by
  refine ⟨hst.1, hc, fun i => ⟨(hst.2.2 i).1, fun w hw => ?_⟩⟩
  obtain ⟨w1, c1, c2, _⟩ := (hst.2.2 i).2 w hw
  exact ⟨w1, c1, c2⟩

theorem slot_wants_kept {w w1 : fs_event_watcher} (h : kept w w1) (t : Nat) :
    slot_wants t (some w1) = slot_wants t (some w) := by
  simp only [slot_wants, h.1, h.2.1]

/-- A step that registers and removes no watcher leaves the number of watchers
interested in a kind as it was. -/
theorem interested_kept {s s1 : fsevents_state} (h : registry_kept s s1) (t : Nat) :
    interested s1.watcher_table t = interested s.watcher_table t := by
  have hmap : s1.watcher_table.map (slot_wants t) = s.watcher_table.map (slot_wants t) := by
    apply List.ext_getElem
    · simp [h.1]
    · intro n h1 h2
      simp only [List.length_map] at h1 h2
      simp only [List.getElem_map]
      have e1 : s1.watcher_table[n] = get_watcher s1 n := by
        simp [get_watcher, List.getD_eq_getElem?_getD, List.getElem?_eq_getElem h1]
      have e0 : s.watcher_table[n] = get_watcher s n := by
        simp [get_watcher, List.getD_eq_getElem?_getD, List.getElem?_eq_getElem h2]
      rw [e1, e0]
      cases hw : get_watcher s n with
      | none => rw [(h.2.2 n).1 hw]
      | some w =>
        obtain ⟨w1, a1, a2⟩ := (h.2.2 n).2 w hw
        rw [a1]
        exact slot_wants_kept a2 t
  simp only [interested, hmap]

/-- The invariant of the registry is kept by a step that registers and removes
no watcher and keeps the invariant of the queues. -/
theorem registry_ok_kept {s s1 : fsevents_state} (h : registry_ok s) (hk : registry_kept s s1)
    (hq : queue_inv s1) : registry_ok s1 := by
  refine ⟨hk.1.trans h.1, by rw [hk.2.1]; exact h.2.1, fun t ht => ?_, hq⟩
  rw [hk.2.1, interested_kept hk t]
  exact h.2.2.1 t ht

theorem queue_inv_of_eq {s s1 : fsevents_state} (hs : sys_ok s (fun _ => 0)) (hq : queue_inv s)
    (hz : s1.event_zone = s.event_zone) (ht : s1.watcher_table = s.watcher_table) :
    queue_inv s1 :=
  queue_inv_step hs hq (queue_step_of_eq (fun _ _ => False) hz ht) (fun _ _ h => h.elim)

theorem registry_kept_of_eq {s s1 : fsevents_state} (ht : s1.watcher_table = s.watcher_table)
    (hc : s1.fs_event_type_watchers = s.fs_event_type_watchers) : registry_kept s s1 := by
  refine ⟨by rw [ht], hc, fun i => ?_⟩
  rw [get_watcher_of_table ht]
  exact ⟨fun h => h, fun w hw => ⟨w, hw, kept_refl w⟩⟩

/-- One pass of `add_fsevent` keeps the invariant of the queues and registers
and removes no watcher. -/
theorem add_fsevent_pass_registry {s : fsevents_state} {type : Int} {ap : List va_word}
    {env : fse_env} {now : Nat} {l : add_locals} {links : List link_reply} {res : pass_result}
    (h : sys_ok s (fun _ => 0)) (hq : queue_inv s)
    (hr : add_fsevent_pass s type ap env now l links = some res) :
    queue_inv (pass_state res) ∧ registry_kept s (pass_state res) := by
  have hpub : ∀ {s0 : fsevents_state}, sys_ok s0 (fun _ => 0) → queue_inv s0 →
      0 ≤ type ∧ type < FSE_MAX_EVENTS →
      publish_pass s0 type ap env now l links = some res →
      queue_inv (pass_state res) ∧ registry_kept s0 (pass_state res) := by
    intro s0 h0 hq0 hty hp
    have hst := publish_pass_queues h0 hty hp
    exact ⟨queue_inv_step h0 hq0 hst (fun w k hk => ⟨type, hk.1, hk.2.1⟩),
      registry_kept_of_step hst (publish_pass_ok h0 hty hp).2.1.type_watchers⟩
  unfold add_fsevent_pass at hr
  split at hr
  · cases hr; exact ⟨hq, registry_kept_refl s⟩
  · rename_i hty
    have hty1 : 0 ≤ type ∧ type < FSE_MAX_EVENTS := by
      constructor <;> omega
    split at hr
    · cases hr; exact ⟨hq, registry_kept_refl s⟩
    · split at hr
      · split at hr
        · cases hr
        · rename_i s1 hd
          cases hr
          have hf := dedup_filter_fields hd
          exact ⟨queue_inv_of_eq h hq hf.event_zone hf.watcher_table,
            registry_kept_of_eq hf.watcher_table hf.type_watchers⟩
        · rename_i s1 hd
          have hf := dedup_filter_fields hd
          obtain ⟨a, b⟩ := hpub (sys_ok_dedup_only h hf)
            (queue_inv_of_eq h hq hf.event_zone hf.watcher_table) hty1 hr
          exact ⟨a, registry_kept_trans
            (registry_kept_of_eq hf.watcher_table hf.type_watchers) b⟩
      · exact hpub h hq hty1 hr

theorem add_fsevent_loop_registry (type : Int) (ap : List va_word) (env : fse_env) :
    ∀ (fuel : Nat) (s : fsevents_state) (now : Nat) (l : add_locals) (links : List link_reply)
      (r : Int) (s1 : fsevents_state), sys_ok s (fun _ => 0) → queue_inv s →
      add_fsevent_loop type ap env fuel s now l links = some (r, s1) →
      queue_inv s1 ∧ registry_kept s s1 := by
  intro fuel
  induction fuel with
  | zero => intro s now l links r s1 _ _ hr; simp [add_fsevent_loop] at hr
  | succ n ih =>
    intro s now l links r s1 h hq hr
    simp only [add_fsevent_loop] at hr
    split at hr
    · cases hr
    · rename_i err s2 hp
      cases hr
      exact add_fsevent_pass_registry h hq hp
    · rename_i s2 l2 links2 now2 hp
      obtain ⟨a, b⟩ := add_fsevent_pass_registry h hq hp
      obtain ⟨c, d⟩ := ih s2 now2 l2 links2 r s1 (add_fsevent_pass_ok h hp).1 a hr
      exact ⟨c, registry_kept_trans b d⟩

/-- The entry point `add_fsevent` keeps the invariant of the queues and
registers and removes no watcher. -/
theorem add_fsevent_registry {s s1 : fsevents_state} {type : Int} {ap : List va_word}
    {env : fse_env} {r : Int} (h : sys_ok s (fun _ => 0)) (hq : queue_inv s)
    (hr : add_fsevent s type ap env = some (r, s1)) :
    queue_inv s1 ∧ registry_kept s s1 := by
  unfold add_fsevent at hr
  dsimp only at hr
  split at hr <;> exact add_fsevent_loop_registry _ ap env _ s _ _ _ r s1 h hq hr

/-- The read loop takes entries from the front of the queue and changes nothing
else of the watcher. -/
theorem watch_loop_suffix : ∀ (fuel : Nat) (s : fsevents_state)
    (w : fs_event_watcher) (u : uio) (v : watch_locals) (s1 : fsevents_state)
    (w1 : fs_event_watcher) (u1 : uio) (v1 : watch_locals) (ex : watch_exit),
    ring_ok w → watch_loop fuel s w u v = some (s1, w1, u1, v1, ex) →
    ring_ok w1 ∧ (∃ q r, w1 = { w with event_queue := q, rd := r }) ∧
      ∃ taken, pending w = taken ++ pending w1 := by
  intro fuel
  induction fuel with
  | zero =>
    intro s w u v s1 w1 u1 v1 ex hr h
    simp only [watch_loop] at h
    split at h
    · cases h
    · cases h
      exact ⟨hr, ⟨_, _, rfl⟩, [], rfl⟩
  | succ n ih =>
    intro s w u v s1 w1 u1 v1 ex hr h
    simp only [watch_loop] at h
    split at h
    · rename_i hc
      split at h
      · cases h
      · cases h
        exact ⟨hr, ⟨_, _, rfl⟩, [], rfl⟩
      · rename_i p s2 u2 v2 hb
        split at h
        · cases h
        · rename_i s3 hrel
          obtain ⟨hpd, hrd, _⟩ := @pending_dequeue w (dequeued w) hr hc.2 rfl rfl rfl rfl
          obtain ⟨hr1, ⟨q, r, hw1⟩, taken, ht⟩ := ih _ _ _ _ _ _ _ _ _ hrd h
          refine ⟨hr1, ⟨q, r, ?_⟩, w.event_queue.getD w.rd none :: taken, ?_⟩
          · rw [hw1]; rfl
          · rw [hpd, ht]; rfl
    · cases h
      exact ⟨hr, ⟨_, _, rfl⟩, [], rfl⟩

theorem emit_dropped_kept {w w1 : fs_event_watcher} {u u1 : uio} {lf lf1 e : Int}
    (h : emit_dropped w u lf = (e, w1, u1, lf1)) :
    ∃ f, w1 = { w with flags := f } ∧
      has_flag f WATCHER_APPLE_SYSTEM_SERVICE =
        has_flag w.flags WATCHER_APPLE_SYSTEM_SERVICE := by
  unfold emit_dropped at h
  split at h
  · split at h
    split at h
    · split at h
      split at h
      split at h
      · cases h; exact ⟨_, rfl, rfl⟩
      · cases h; exact ⟨_, rfl, has_flag_and_mask _ _ _ _ (by decide)⟩
    · cases h; exact ⟨_, rfl, rfl⟩
  · cases h; exact ⟨_, rfl, rfl⟩

/-- The body of `fmod_watch` takes entries from the front of the queue and
changes the flags and the reader count, and nothing else of the watcher. -/
theorem watch_from_restart_suffix (sleep_err : Int) : ∀ (fuel : Nat)
    (s : fsevents_state) (w : fs_event_watcher) (u : uio) (lf : Int) (err : Int)
    (s1 : fsevents_state) (w1 : fs_event_watcher) (u1 : uio),
    ring_ok w → watch_from_restart sleep_err fuel s w u lf = some (err, s1, w1, u1) →
    (∃ f q r n, w1 = { w with flags := f, event_queue := q, rd := r, num_readers := n } ∧
      has_flag f WATCHER_APPLE_SYSTEM_SERVICE =
        has_flag w.flags WATCHER_APPLE_SYSTEM_SERVICE) ∧
    ∃ taken, pending w = taken ++ pending w1 := by
  intro fuel
  induction fuel with
  | zero => intro s w u lf err s1 w1 u1 _ h; simp [watch_from_restart] at h
  | succ n ih =>
    intro s w u lf err s1 w1 u1 hr h
    have hleave : ∀ (e : Int) (s2 : fsevents_state) (w2 : fs_event_watcher) (u2 : uio),
        some (e, s2, ({ w2 with num_readers := w2.num_readers - 1 } : fs_event_watcher), u2) =
          some (err, s1, w1, u1) →
        (∃ f q r n, w2 = { w with flags := f, event_queue := q, rd := r, num_readers := n } ∧
          has_flag f WATCHER_APPLE_SYSTEM_SERVICE =
            has_flag w.flags WATCHER_APPLE_SYSTEM_SERVICE) →
        (∃ taken, pending w = taken ++ pending w2) →
        (∃ f q r n, w1 = { w with flags := f, event_queue := q, rd := r, num_readers := n } ∧
          has_flag f WATCHER_APPLE_SYSTEM_SERVICE =
            has_flag w.flags WATCHER_APPLE_SYSTEM_SERVICE) ∧
        ∃ taken, pending w = taken ++ pending w1 := by
      intro e s2 w2 u2 heq a b
      cases heq
      obtain ⟨f, q, r, n, a1, a2⟩ := a
      refine ⟨⟨f, q, r, n - 1, ?_, a2⟩, ?_⟩
      · rw [a1]
      · obtain ⟨taken, ht⟩ := b
        exact ⟨taken, by rw [ht]; rfl⟩
    have hself : ∃ f q r n,
        w = { w with flags := f, event_queue := q, rd := r, num_readers := n } ∧
        has_flag f WATCHER_APPLE_SYSTEM_SERVICE =
          has_flag w.flags WATCHER_APPLE_SYSTEM_SERVICE := ⟨_, _, _, _, rfl, rfl⟩
    simp only [watch_from_restart] at h
    split at h
    · exact hleave _ _ _ _ h hself ⟨[], rfl⟩
    · split at h
      · exact hleave _ _ _ _ h hself ⟨[], rfl⟩
      · rcases hem : emit_dropped w u lf with ⟨e2, w2, u2, lf2⟩
        rw [hem] at h
        dsimp only at h
        obtain ⟨f, hf, hfc⟩ := emit_dropped_kept hem
        subst hf
        have hr2 : ring_ok ({ w with flags := f } : fs_event_watcher) :=
          ring_ok_congr hr rfl rfl rfl rfl
        have hflag : ∃ f1 q r n, ({ w with flags := f } : fs_event_watcher) =
            { w with flags := f1, event_queue := q, rd := r, num_readers := n } ∧
            has_flag f1 WATCHER_APPLE_SYSTEM_SERVICE =
              has_flag w.flags WATCHER_APPLE_SYSTEM_SERVICE := ⟨f, _, _, _, rfl, hfc⟩
        split at h
        · exact hleave _ _ _ _ h hflag ⟨[], rfl⟩
        · split at h
          · cases h
          · rename_i s3 w3 u3 v3 hl
            obtain ⟨_, ⟨q, r, r2⟩, taken, ht⟩ := watch_loop_suffix _ _ _ _ _ _ _ _ _ _ hr2 hl
            subst r2
            exact hleave _ _ _ _ h ⟨f, q, r, _, rfl, hfc⟩ ⟨taken, ht⟩
          · rename_i s3 w3 u3 v3 hl
            obtain ⟨hr3, ⟨q, r, r2⟩, taken, ht⟩ :=
              watch_loop_suffix _ _ _ _ _ _ _ _ _ _ hr2 hl
            subst r2
            split at h
            · obtain ⟨⟨f1, q1, r1, n1, i1, i2⟩, taken1, ht1⟩ := ih _ _ _ _ _ _ _ _ hr3 h
              refine ⟨⟨f1, q1, r1, n1, ?_, i2.trans hfc⟩, taken ++ taken1, ?_⟩
              · rw [i1]
              · have : pending w = pending ({ w with flags := f } : fs_event_watcher) := rfl
                rw [this, ht, ht1, List.append_assoc]
            · exact hleave _ _ _ _ h ⟨f, q, r, _, rfl, hfc⟩ ⟨taken, ht⟩

/-- A read and the registry: the watcher keeps what identifies it and its
device filter, its queue loses entries at the front, the other slots and the
interest counters are as they were, and no event is rewritten. -/
theorem fmod_watch_queues {s s1 : fsevents_state} {j : Nat} {u u1 : uio} {sleep_err r : Int}
    (h : sys_ok s (fun _ => 0)) (hr : fmod_watch s j u sleep_err = some (r, s1, u1)) :
    registry_kept s s1 ∧ zone_shrinks s.event_zone s1.event_zone ∧
    (∀ i, i ≠ j → get_watcher s1 i = get_watcher s i) ∧
    ∀ w, get_watcher s j = some w → ∃ w1, get_watcher s1 j = some w1 ∧ kept w w1 ∧
      w1.devices_not_to_watch = w.devices_not_to_watch ∧ w1.num_devices = w.num_devices ∧
      ∃ taken, pending w = taken ++ pending w1 := by
  have hsame : registry_kept s s ∧ zone_shrinks s.event_zone s.event_zone ∧
      (∀ i, i ≠ j → get_watcher s i = get_watcher s i) ∧
      ∀ w, get_watcher s j = some w → ∃ w1, get_watcher s j = some w1 ∧ kept w w1 ∧
        w1.devices_not_to_watch = w.devices_not_to_watch ∧ w1.num_devices = w.num_devices ∧
        ∃ taken, pending w = taken ++ pending w1 :=
    ⟨registry_kept_refl s, zone_shrinks_refl _, fun _ _ => rfl,
      fun w hw => ⟨w, hw, kept_refl w, rfl, rfl, [], rfl⟩⟩
  unfold fmod_watch at hr
  split at hr
  · cases hr; exact hsame
  · rename_i w hw
    split at hr
    · cases hr; exact hsame
    · split at hr
      · cases hr; exact hsame
      · split at hr
        · cases hr; exact hsame
        · dsimp only at hr
          split at hr
          · cases hr
          · rename_i err s2 w2 u2 hwr
            cases hr
            have hi : s.watcher_table.getD j none = some w := hw
            have hlt : j < s.watcher_table.length := getD_some_lt hi
            have hwok := h.2 j w hw
            have hz0 : zone_ok s.event_zone (fun p => queue_refs (s.watcher_table.set j none) p +
                (pending ({ w with num_readers := w.num_readers + 1 } : fs_event_watcher)).count
                  (some p)) := by
              refine zone_ok_congr h.1 (fun p => ?_)
              rw [queue_refs_split hi p]
              rfl
            have hring : ring_ok ({ w with num_readers := w.num_readers + 1 } :
                fs_event_watcher) := ring_ok_congr hwok.1 rfl rfl rfl rfl
            obtain ⟨_, _, r3, _, r5, r6, _⟩ := watch_from_restart_ok sleep_err
              (fun p => queue_refs (s.watcher_table.set j none) p) _ s _ u _ _ _ _ _
              hring hz0 hwr
            obtain ⟨⟨f, q, rd, n, g1, g2⟩, taken, ht⟩ :=
              watch_from_restart_suffix sleep_err _ _ _ _ _ _ _ _ _ hring hwr
            have htab : (set_watcher s2 j (some w2)).watcher_table =
                s.watcher_table.set j (some w2) := by
              show s2.watcher_table.set j _ = _
              rw [r3]
            have hkept : kept w w2 := by
              rw [g1]; exact ⟨rfl, rfl, rfl, g2⟩
            have hj : get_watcher (set_watcher s2 j (some w2)) j = some w2 :=
              get_watcher_table_set_same htab hlt
            have hoth : ∀ i, i ≠ j → get_watcher (set_watcher s2 j (some w2)) i =
                get_watcher s i :=
              fun i hij => get_watcher_table_set_other htab (Ne.symm hij)
            refine ⟨⟨by rw [htab, List.length_set], r6.type_watchers, fun i => ?_⟩, r5, hoth,
              fun w' hw' => ?_⟩
            · by_cases hij : i = j
              · subst hij
                refine ⟨fun h0 => (by rw [hw] at h0; cases h0), fun w' hw' => ?_⟩
                rw [hw] at hw'; cases hw'
                exact ⟨w2, hj, hkept⟩
              · rw [hoth i hij]
                exact ⟨fun h0 => h0, fun w' hw' => ⟨w', hw', kept_refl w'⟩⟩
            · rw [hw] at hw'; cases hw'
              refine ⟨w2, hj, hkept, by rw [g1], by rw [g1], taken, ?_⟩
              rw [← ht]; rfl

/-- A step that rewrites no event and only shortens queues keeps the invariant
of the queues. -/
theorem queue_inv_shrink {s s1 : fsevents_state} (hq : queue_inv s) (hsh : zone_shrinks s.event_zone s1.event_zone)
    (hslots : ∀ i w1, get_watcher s1 i = some w1 → ∃ w, get_watcher s i = some w ∧
      kept w w1 ∧ (pending w1).Sublist (pending w)) : queue_inv s1 := by
  intro i w1 hw1
  obtain ⟨w, hw, hk, hsub⟩ := hslots i w1 hw1
  obtain ⟨hnd, hrep⟩ := hq i w hw
  refine ⟨hnd.sublist hsub, fun p e1 hp he1 => ?_⟩
  obtain ⟨e, he, ht⟩ := zone_shrinks_type hsh he1
  rw [reports_kept hk, ht]
  exact hrep p e (hsub.subset hp) he

/-- A read keeps the invariant of the queues. -/
theorem fmod_watch_queue_inv {s s1 : fsevents_state} {j : Nat} {u u1 : uio}
    {sleep_err r : Int} (h : sys_ok s (fun _ => 0)) (hq : queue_inv s)
    (hr : fmod_watch s j u sleep_err = some (r, s1, u1)) : queue_inv s1 := by
  obtain ⟨hk, hsh, hoth, hj⟩ := fmod_watch_queues h hr
  refine queue_inv_shrink hq hsh (fun i w1 hw1 => ?_)
  by_cases hij : i = j
  · subst hij
    cases hw : get_watcher s i with
    | none => rw [(hk.2.2 i).1 hw] at hw1; cases hw1
    | some w =>
      obtain ⟨w1', a1, a2, _, _, taken, ht⟩ := hj w hw
      rw [hw1] at a1; cases a1
      exact ⟨w, rfl, a2, by rw [ht]; exact List.sublist_append_right _ _⟩
  · rw [hoth i hij] at hw1
    exact ⟨w1, hw1, kept_refl w1, List.Sublist.refl _⟩

/-- What `remove_watcher` does on a registered watcher: the slot is cleared,
the interest counters are taken back, and the references of the queue are
released, which rewrites no event. -/
theorem remove_watcher_fields {s s1 : fsevents_state} {j : Nat} {w : fs_event_watcher}
    (h : sys_ok s (fun _ => 0)) (hw : get_watcher s j = some w)
    (hr : remove_watcher s j = some s1) :
    s1.watcher_table = s.watcher_table.set j none ∧
    s1.fs_event_type_watchers =
      bump_type_watchers (-1) w.event_list w.num_events s.fs_event_type_watchers ∧
    zone_shrinks s.event_zone s1.event_zone ∧ s1.max_kfs_events = s.max_kfs_events := by
  unfold remove_watcher at hr
  rw [hw] at hr
  have hi : s.watcher_table.getD j none = some w := hw
  have hwok := h.2 j w hw
  have hz0 : zone_ok s.event_zone (fun p => queue_refs (s.watcher_table.set j none) p +
      (pending w).count (some p)) :=
    zone_ok_congr h.1 (fun p => by rw [queue_refs_split hi p]; rfl)
  dsimp only at hr
  split at hr
  · rename_i hc
    rw [hwok.2.2.2] at hc
    cases hc
  · split at hr
    · cases hr
    · split at hr
      · cases hr
      · rename_i s2 w2 hd
        cases hr
        have hring : ring_ok ({ w with
            flags := w.flags ||| WATCHER_CLOSING,
            num_readers := w.num_readers + 1 } : fs_event_watcher) :=
          ring_ok_congr hwok.1 rfl rfl rfl rfl
        have hfuel : num_pending w ≤ w.eventq_size := by
          by_cases g : w.eventq_size = 0
          · rcases hwok.1.rd_lt with g1 | ⟨_, g1⟩
            · omega
            · rcases hwok.1.wr_lt with g2 | ⟨_, g2⟩
              · omega
              · simp [num_pending, g, g1, g2]
          · exact Nat.le_of_lt (num_pending_lt g)
        obtain ⟨s0, hs0⟩ : ∃ s0 : fsevents_state, s0 =
            { set_watcher s j none with
              fs_event_type_watchers :=
                bump_type_watchers (-1) w.event_list w.num_events
                  (set_watcher s j none).fs_event_type_watchers } := ⟨_, rfl⟩
        have hs0z : s0.event_zone = s.event_zone := by rw [hs0]; rfl
        have hs0t : s0.watcher_table = s.watcher_table.set j none := by rw [hs0]; rfl
        have hs0m : s0.max_kfs_events = s.max_kfs_events := by rw [hs0]; rfl
        have hs0c : s0.fs_event_type_watchers =
            bump_type_watchers (-1) w.event_list w.num_events s.fs_event_type_watchers := by
          rw [hs0]; rfl
        rw [← hs0] at hd
        obtain ⟨s3, q, hdr, _, htab, hz3, hsh⟩ := drain_event_queue_ok w.eventq_size s0
          ({ w with
              flags := w.flags ||| WATCHER_CLOSING,
              num_readers := w.num_readers + 1 } : fs_event_watcher)
          (fun p => queue_refs (s.watcher_table.set j none) p) hring hfuel
          (by rw [hs0z]; exact hz0)
          (fun x hx => by
            obtain ⟨p, _, a1, _⟩ := hwok.2.2.1 x hx
            rw [a1]; simp)
        have hd1 : drain_event_queue w.eventq_size s0
            ({ w with
                flags := w.flags ||| WATCHER_CLOSING,
                num_readers := w.num_readers + 1 } : fs_event_watcher) =
            some (s1, w2) := hd
        rw [hdr] at hd1
        cases hd1
        have hfr := frame_drain _ hdr
        exact ⟨htab.trans hs0t, hfr.type_watchers.trans hs0c, by rw [← hs0z]; exact hsh,
          hfr.max_kfs_events.trans hs0m⟩

theorem bump_type_watchers_length (delta : Int) (event_list : List Int) (num_events : Int)
    (counters : List Int) :
    (bump_type_watchers delta event_list num_events counters).length = counters.length := by
  simp [bump_type_watchers]

/-- The counter of a kind after the loop over `event_list`. -/
theorem bump_type_watchers_getD (delta : Int) (event_list : List Int) (num_events : Int)
    (counters : List Int) (t : Nat) (ht : t < counters.length) :
    (bump_type_watchers delta event_list num_events counters).getD t 0 =
      if (t : Int) < num_events ∧ event_list.getD t FSE_IGNORE ≠ FSE_IGNORE ∧
          (t : Int) < FSE_MAX_EVENTS then counters.getD t 0 + delta else counters.getD t 0 := by
  have hl : t < (bump_type_watchers delta event_list num_events counters).length := by
    rw [bump_type_watchers_length]; exact ht
  rw [List.getD_eq_getElem _ _ hl, List.getD_eq_getElem _ _ ht]
  simp [bump_type_watchers]

/-- Replacing one slot of the watcher table changes the number of interested
watchers by the interest of that slot. -/
theorem interested_set (table : List (Option fs_event_watcher)) (i : Nat)
    (x : Option fs_event_watcher) (t : Nat) (h : i < table.length) :
    interested (table.set i x) t + slot_wants t (table.getD i none) =
      interested table t + slot_wants t x := by
  rw [getD_eq_get _ _ _ h]
  exact map_sum_set (slot_wants t) table i x h

theorem first_free_watcher_none : ∀ (t : List (Option fs_event_watcher)),
    first_free_watcher t = none → ∀ i, i < t.length → t.getD i none ≠ none := by
  intro t
  induction t with
  | nil => intro _ i hi; simp at hi
  | cons a t ih =>
    intro h i hi
    cases a with
    | none => simp [first_free_watcher] at h
    | some w =>
      simp only [first_free_watcher, Option.map_eq_none'] at h
      cases i with
      | zero => simp
      | succ i =>
        simp only [List.getD_cons_succ]
        exact ih h i (by simpa using hi)

/-- The slot `first_free_watcher` finds is the first free one. -/
theorem first_free_watcher_least : ∀ (t : List (Option fs_event_watcher)) (i : Nat),
    first_free_watcher t = some i → ∀ j, j < i → t.getD j none ≠ none := by
  intro t
  induction t with
  | nil => intro i h; simp [first_free_watcher] at h
  | cons a t ih =>
    intro i h j hj
    cases a with
    | none =>
      simp only [first_free_watcher, Option.some.injEq] at h
      omega
    | some w =>
      simp only [first_free_watcher, Option.map_eq_some'] at h
      obtain ⟨i0, h0, rfl⟩ := h
      cases j with
      | zero => simp
      | succ j =>
        simp only [List.getD_cons_succ]
        exact ih i0 h0 j (by omega)

/-- Clearing one entry of an interest vector under a condition. -/
theorem strip_getD (l : List Int) (k : Nat) (a b : Prop) [Decidable a] [Decidable b] (t : Nat) :
    (if a ∧ l.getD k FSE_IGNORE ≠ FSE_IGNORE ∧ b then l.set k FSE_IGNORE else l).getD t
        FSE_IGNORE =
      if t = k ∧ a ∧ b then FSE_IGNORE else l.getD t FSE_IGNORE := by
  by_cases hc : a ∧ l.getD k FSE_IGNORE ≠ FSE_IGNORE ∧ b
  · rw [if_pos hc, getD_set_eq]
    by_cases htk : t = k
    · subst htk
      have hl : t < l.length := by
        by_contra hl
        exact hc.2.1 (by
          simp [List.getD_eq_getElem?_getD, List.getElem?_eq_none (Nat.le_of_not_lt hl)])
      rw [if_pos ⟨rfl, hl⟩, if_pos ⟨rfl, hc.1, hc.2.2⟩]
    · rw [if_neg (fun g => htk g.1.symm), if_neg (fun g => htk g.1)]
  · rw [if_neg hc]
    by_cases htk : t = k ∧ a ∧ b
    · rw [if_pos htk]
      obtain ⟨rfl, ha, hb⟩ := htk
      by_contra hg
      exact hc ⟨ha, hg, hb⟩
    · rw [if_neg htk]

/-- The interest vector `add_watcher` stores: the caller's, with the entries of
Activity and AccessGranted cleared when the entitlement is missing. -/
theorem add_watcher_vector (event_list : List Int) (num_events : Int) (task : watcher_owner)
    (t : Nat) :
    (if num_events > FSE_ACCESS_GRANTED ∧
          (if num_events > FSE_ACTIVITY ∧ event_list.getD 15 FSE_IGNORE ≠ FSE_IGNORE ∧
              (!watcher_is_entitled_for_activity task) = true then
            event_list.set 15 FSE_IGNORE else event_list).getD 16 FSE_IGNORE ≠ FSE_IGNORE ∧
          (!watcher_is_entitled_for_access_granted task) = true then
        (if num_events > FSE_ACTIVITY ∧ event_list.getD 15 FSE_IGNORE ≠ FSE_IGNORE ∧
            (!watcher_is_entitled_for_activity task) = true then
          event_list.set 15 FSE_IGNORE else event_list).set 16 FSE_IGNORE
      else (if num_events > FSE_ACTIVITY ∧ event_list.getD 15 FSE_IGNORE ≠ FSE_IGNORE ∧
            (!watcher_is_entitled_for_activity task) = true then
          event_list.set 15 FSE_IGNORE else event_list)).getD t FSE_IGNORE =
    if (t = 15 ∧ num_events > FSE_ACTIVITY ∧ task.entitled_activity = false) ∨
        (t = 16 ∧ num_events > FSE_ACCESS_GRANTED ∧ task.entitled_access_granted = false) then
      FSE_IGNORE
    else event_list.getD t FSE_IGNORE := by
  rw [strip_getD, strip_getD]
  simp only [watcher_is_entitled_for_activity, watcher_is_entitled_for_access_granted,
    Bool.not_eq_true']
  by_cases h15 : t = 15 <;> by_cases h16 : t = 16 <;> simp [h15, h16]

/-- What a successful `add_watcher` does: the new watcher, with an empty ring of
the clamped size, the stripped interest vector and the service flag of an
entitled owner, is put into the first free slot, its index is recorded as its
id, and the interest counters are raised. -/
theorem add_watcher_some {s : fsevents_state} (event_list : List Int)
    (num_events eventq_size : Int) {task : watcher_owner} {i : Nat}
    (hk : task.kalloc_ok = true) (hi : first_free_watcher s.watcher_table = some i) :
    ∃ w1 s1, add_watcher s event_list num_events eventq_size task = (0, some i, s1) ∧
      s1 = { set_watcher s i (some w1) with
        fs_event_type_watchers :=
          bump_type_watchers 1 w1.event_list w1.num_events s.fs_event_type_watchers } ∧
      w1.my_id = i ∧ w1.num_events = num_events ∧ w1.rd = 0 ∧ w1.wr = 0 ∧
      w1.eventq_size = (if eventq_size ≤ 0 ∨
          eventq_size > wrap32 (100 * (s.max_kfs_events : Int)) then
        (s.max_kfs_events : Int) else eventq_size).toNat ∧
      w1.event_queue = List.replicate w1.eventq_size none ∧
      w1.flags = (if watcher_is_entitled task then WATCHER_APPLE_SYSTEM_SERVICE else 0) ∧
      w1.devices_not_to_watch = none ∧ w1.num_devices = 0 ∧ w1.num_readers = 0 ∧
      w1.pid = task.pid ∧
      ∀ t, w1.event_list.getD t FSE_IGNORE =
        if (t = 15 ∧ num_events > FSE_ACTIVITY ∧ task.entitled_activity = false) ∨
            (t = 16 ∧ num_events > FSE_ACCESS_GRANTED ∧
              task.entitled_access_granted = false) then
          FSE_IGNORE
        else event_list.getD t FSE_IGNORE := by
  unfold add_watcher
  simp only [hk, hi, Bool.not_true, Bool.false_eq_true, if_false]
  by_cases he : watcher_is_entitled task = true
  · simp only [he, if_true]
    exact ⟨_, _, rfl, rfl, rfl, rfl, rfl, rfl, rfl, rfl, Nat.zero_or _, rfl, rfl, rfl, rfl,
      add_watcher_vector event_list num_events task⟩
  · simp only [he, if_false]
    exact ⟨_, _, rfl, rfl, rfl, rfl, rfl, rfl, rfl, rfl, rfl, rfl, rfl, rfl, rfl,
      add_watcher_vector event_list num_events task⟩

/-- An `add_watcher` that registers nothing changes nothing. -/
theorem add_watcher_none {s : fsevents_state} (event_list : List Int)
    (num_events eventq_size : Int) (task : watcher_owner)
    (h : task.kalloc_ok = false ∨ first_free_watcher s.watcher_table = none) :
    add_watcher s event_list num_events eventq_size task =
      (if task.kalloc_ok = false then ENOMEM else ENOSPC, none, s) := by
  unfold add_watcher
  by_cases hk : task.kalloc_ok = true
  · rcases h with h | h
    · rw [hk] at h; cases h
    · simp [hk, h]
  · have hk' : task.kalloc_ok = false := by simpa using hk
    simp [hk']

theorem registry_ok_of_eq {s s1 : fsevents_state} (h : registry_ok s) (hs : sys_ok s (fun _ => 0))
    (hz : s1.event_zone = s.event_zone) (ht : s1.watcher_table = s.watcher_table)
    (hc : s1.fs_event_type_watchers = s.fs_event_type_watchers) : registry_ok s1 :=
  registry_ok_kept h (registry_kept_of_eq ht hc) (queue_inv_of_eq hs h.2.2.2 hz ht)

/-- Rewriting a registered watcher without touching its queue or what
identifies it keeps the invariant of the registry. -/
theorem registry_ok_touch {s s1 : fsevents_state} {j : Nat} {w w1 : fs_event_watcher}
    (h : registry_ok s) (hw : get_watcher s j = some w) (hk : kept w w1)
    (hp : pending w1 = pending w) (hz : s1.event_zone = s.event_zone)
    (ht : s1.watcher_table = s.watcher_table.set j (some w1))
    (hc : s1.fs_event_type_watchers = s.fs_event_type_watchers) : registry_ok s1 := by
  have hlt : j < s.watcher_table.length := get_watcher_some_lt hw
  have hkept : registry_kept s s1 := by
    refine ⟨by rw [ht, List.length_set], hc, fun i => ?_⟩
    by_cases hij : j = i
    · subst hij
      rw [get_watcher_table_set_same ht hlt]
      exact ⟨fun h0 => (by rw [hw] at h0; cases h0),
        fun w' hw' => ⟨w1, rfl, by rw [hw] at hw'; cases hw'; exact hk⟩⟩
    · rw [get_watcher_table_set_other ht hij]
      exact ⟨fun h0 => h0, fun w' hw' => ⟨w', hw', kept_refl w'⟩⟩
  refine registry_ok_kept h hkept (queue_inv_shrink h.2.2.2 (by rw [hz]; exact zone_shrinks_refl _)
    (fun i w' hw' => ?_))
  by_cases hij : j = i
  · subst hij
    rw [get_watcher_table_set_same ht hlt] at hw'
    cases hw'
    exact ⟨w, hw, hk, by rw [hp]⟩
  · rw [get_watcher_table_set_other ht hij] at hw'
    exact ⟨w', hw', kept_refl w', List.Sublist.refl _⟩

/-- Registering a watcher keeps the invariant of the registry. -/
theorem add_watcher_registry {s : fsevents_state} (event_list : List Int)
    (num_events eventq_size : Int) (task : watcher_owner) (h : registry_ok s) :
    registry_ok (add_watcher s event_list num_events eventq_size task).2.2 := by
  by_cases hk : task.kalloc_ok = true
  · cases hi : first_free_watcher s.watcher_table with
    | none =>
      rw [add_watcher_none event_list num_events eventq_size task (Or.inr hi)]
      exact h
    | some i =>
      obtain ⟨w1, s1, h1, h2, _, _, hrd, hwr, _⟩ :=
        @add_watcher_some s event_list num_events eventq_size task i hk hi
      rw [h1]
      show registry_ok s1
      obtain ⟨hlt, hfree⟩ := first_free_watcher_some _ _ hi
      have htab : s1.watcher_table = s.watcher_table.set i (some w1) := by rw [h2]; rfl
      have hcnt : s1.fs_event_type_watchers =
          bump_type_watchers 1 w1.event_list w1.num_events s.fs_event_type_watchers := by
        rw [h2]
      have hzone : s1.event_zone = s.event_zone := by rw [h2]; rfl
      refine ⟨by rw [htab, List.length_set]; exact h.1,
        by rw [hcnt, bump_type_watchers_length]; exact h.2.1, fun t ht => ?_, fun j w hw => ?_⟩
      · rw [hcnt, bump_type_watchers_getD _ _ _ _ _ (by rw [h.2.1]; exact ht), h.2.2.1 t ht,
          htab]
        have hset := interested_set s.watcher_table i (some w1) t hlt
        rw [hfree] at hset
        simp only [slot_wants] at hset
        have ht17 : (t : Int) < FSE_MAX_EVENTS := by
          show (t : Int) < 17
          omega
        by_cases hc : (t : Int) < w1.num_events ∧ w1.event_list.getD t FSE_IGNORE ≠ FSE_IGNORE
        · rw [if_pos hc] at hset
          rw [if_pos ⟨hc.1, hc.2, ht17⟩]
          have : interested (s.watcher_table.set i (some w1)) t =
              interested s.watcher_table t + 1 := by omega
          rw [this]; push_cast; ring
        · rw [if_neg hc] at hset
          rw [if_neg (fun g => hc ⟨g.1, g.2.1⟩)]
          have : interested (s.watcher_table.set i (some w1)) t =
              interested s.watcher_table t := by omega
          rw [this]
      · have hempty : pending w1 = [] := pending_nil_of_eq (by rw [hrd, hwr])
        by_cases hij : i = j
        · subst hij
          rw [get_watcher_table_set_same htab hlt] at hw
          cases hw
          rw [hempty]
          exact ⟨List.nodup_nil, fun p e hp _ => by simp at hp⟩
        · rw [get_watcher_table_set_other htab hij] at hw
          obtain ⟨a, b⟩ := h.2.2.2 j w hw
          refine ⟨a, fun p e hp he => b p e hp ?_⟩
          have : s1.event_zone.getD p none = some e := he
          rw [hzone] at this
          exact this
  · have hk' : task.kalloc_ok = false := by simpa using hk
    rw [add_watcher_none event_list num_events eventq_size task (Or.inl hk')]
    exact h

/-- Removing a watcher keeps the invariant of the registry. -/
theorem remove_watcher_registry {s s1 : fsevents_state} {j : Nat}
    (hs : sys_ok s (fun _ => 0)) (h : registry_ok s)
    (hr : remove_watcher s j = some s1) : registry_ok s1 := by
  cases hw : get_watcher s j with
  | none =>
    unfold remove_watcher at hr
    rw [hw] at hr
    cases hr
    exact h
  | some w =>
    obtain ⟨htab, hcnt, hsh, _⟩ := remove_watcher_fields hs hw hr
    have hlt : j < s.watcher_table.length := get_watcher_some_lt hw
    have hi : s.watcher_table.getD j none = some w := hw
    refine ⟨by rw [htab, List.length_set]; exact h.1,
      by rw [hcnt, bump_type_watchers_length]; exact h.2.1, fun t ht => ?_, ?_⟩
    · rw [hcnt, bump_type_watchers_getD _ _ _ _ _ (by rw [h.2.1]; exact ht), h.2.2.1 t ht,
        htab]
      have hset := interested_set s.watcher_table j none t hlt
      rw [hi] at hset
      simp only [slot_wants] at hset
      have ht17 : (t : Int) < FSE_MAX_EVENTS := by
        show (t : Int) < 17
        omega
      by_cases hc : (t : Int) < w.num_events ∧ w.event_list.getD t FSE_IGNORE ≠ FSE_IGNORE
      · rw [if_pos hc] at hset
        rw [if_pos ⟨hc.1, hc.2, ht17⟩]
        have : interested s.watcher_table t =
            interested (s.watcher_table.set j none) t + 1 := by omega
        rw [this]; push_cast; ring
      · rw [if_neg hc] at hset
        rw [if_neg (fun g => hc ⟨g.1, g.2.1⟩)]
        have : interested (s.watcher_table.set j none) t =
            interested s.watcher_table t := by omega
        rw [this]
    · refine queue_inv_shrink h.2.2.2 hsh (fun i w1 hw1 => ?_)
      by_cases hij : j = i
      · subst hij
        rw [get_watcher_table_set_same htab hlt] at hw1
        cases hw1
      · rw [get_watcher_table_set_other htab hij] at hw1
        exact ⟨w1, hw1, kept_refl w1, List.Sublist.refl _⟩

/-- The ioctls keep the invariant of the registry. -/
theorem fseventsf_ioctl_registry {s : fsevents_state} (j : Nat) (cmd : ioctl_cmd)
    (is64 kalloc_ok : Bool) (hs : sys_ok s (fun _ => 0)) (h : registry_ok s) :
    registry_ok (fseventsf_ioctl s j cmd is64 kalloc_ok).2.2 := by
  unfold fseventsf_ioctl
  split
  · exact h
  · rename_i w hw
    split
    · exact h
    · exact h
    · exact @registry_ok_touch s _ j w { w with flags := w.flags ||| WATCHER_WANTS_COMPACT_EVENTS }
        h hw ⟨rfl, rfl, rfl, has_flag_or_other _ _ _ (by decide)⟩
        (pending_congr rfl rfl rfl rfl) rfl rfl rfl
    · exact @registry_ok_touch s _ j w { w with flags := w.flags ||| WATCHER_WANTS_EXTENDED_INFO }
        h hw ⟨rfl, rfl, rfl, has_flag_or_other _ _ _ (by decide)⟩
        (pending_congr rfl rfl rfl rfl) rfl rfl rfl
    · exact h
    · split
      · exact h
      · split
        · exact h
        · split
          · exact @registry_ok_touch s _ j w
              { w with devices_not_to_watch := none, num_devices := 0 } h hw
              ⟨rfl, rfl, rfl, rfl⟩ (pending_congr rfl rfl rfl rfl) rfl rfl rfl
          · split
            · exact h
            · split
              · exact h
              · rename_i num_devices devices _ _ _ _ _
                exact @registry_ok_touch s _ j w
                  { w with devices_not_to_watch := some (devices.take num_devices),
                           num_devices := num_devices } h hw
                  ⟨rfl, rfl, rfl, rfl⟩ (pending_congr rfl rfl rfl rfl) rfl rfl rfl
    · split
      · dsimp only
        split
        · exact registry_ok_of_eq h hs rfl rfl rfl
        · exact registry_ok_of_eq h hs rfl rfl rfl
      · exact h
    · exact h

theorem fsevent_unmount_begin_registry {s s1 : fsevents_state} {dev : Int} {env : fse_env}
    (hs : sys_ok s (fun _ => 0)) (h : registry_ok s)
    (hr : fsevent_unmount_begin s dev env = some s1) : registry_ok s1 := by
  unfold fsevent_unmount_begin at hr
  split at hr
  · cases hr; exact h
  · split at hr
    · cases hr; exact h
    · dsimp only at hr
      split at hr
      · cases hr
      · rename_i r s2 ha
        cases hr
        have h0 := @registry_ok_of_eq s ({ s with
          fsevent_unmount_dev := dev,
          fsevent_unmount_ack_count := s.fs_event_type_watchers.getD 13 0 } :
          fsevents_state) h hs rfl rfl rfl
        have hs0 : sys_ok ({ s with
            fsevent_unmount_dev := dev,
            fsevent_unmount_ack_count := s.fs_event_type_watchers.getD 13 0 } :
            fsevents_state) (fun _ => 0) := sys_ok_of_eq hs rfl rfl rfl
        obtain ⟨a, b⟩ := add_fsevent_registry hs0 h0.2.2.2 ha
        exact registry_ok_kept h0 b a

theorem init_registry (max : Nat) : registry_ok (fsevents_internal_init max) := by
  refine ⟨by simp [fsevents_internal_init], by simp [fsevents_internal_init],
    fun t ht => ?_, fun i w hw => ?_⟩
  · have h1 : (fsevents_internal_init max).fs_event_type_watchers = List.replicate 17 0 := rfl
    have h2 : (fsevents_internal_init max).watcher_table = List.replicate MAX_WATCHERS none :=
      rfl
    rw [h1, h2]
    have : interested (List.replicate MAX_WATCHERS none) t = 0 := by
      simp [interested, slot_wants]
    rw [this]
    rw [List.getD_eq_getElem?_getD, List.getElem?_replicate, if_pos ht]
    rfl
  · have : (List.replicate MAX_WATCHERS (none : Option fs_event_watcher)).getD i none = some w := hw
    rw [getD_replicate_none] at this
    cases this

/-- The invariant of the registry holds in every reachable state. -/
theorem reachable_registry {s : fsevents_state} (h : reachable s) : registry_ok s := by
  induction h with
  | init max => exact init_registry max
  | add_watcher event_list num_events eventq_size task _ ih =>
    exact add_watcher_registry event_list num_events eventq_size task ih
  | remove_watcher j hs hr ih => exact remove_watcher_registry (reachable_inv hs) ih hr
  | add_fsevent type ap env r hs hr ih =>
    obtain ⟨a, b⟩ := add_fsevent_registry (reachable_inv hs) ih.2.2.2 hr
    exact registry_ok_kept ih b a
  | fmod_watch j u u1 sleep_err r hs hr ih =>
    exact registry_ok_kept ih (fmod_watch_queues (reachable_inv hs) hr).1
      (fmod_watch_queue_inv (reachable_inv hs) ih.2.2.2 hr)
  | ioctl j cmd is64 kalloc_ok hs ih =>
    exact fseventsf_ioctl_registry j cmd is64 kalloc_ok (reachable_inv hs) ih
  | timer hs ih => exact registry_ok_of_eq ih (reachable_inv hs) rfl rfl rfl
  | unmount_begin dev env hs hr ih => exact fsevent_unmount_begin_registry (reachable_inv hs) ih hr
  | unmount_timeout dev hs ih =>
    unfold fsevent_unmount_timeout
    split
    · exact registry_ok_of_eq ih (reachable_inv hs) rfl rfl rfl
    · exact ih

/-! ## C27 -/

/-- The lowest free slot is the one `first_free_watcher` finds. -/
theorem first_free_watcher_of_least {t : List (Option fs_event_watcher)} {i : Nat}
    (hlt : i < t.length) (hfree : t.getD i none = none)
    (hleast : ∀ j, j < i → t.getD j none ≠ none) : first_free_watcher t = some i := by
  cases h : first_free_watcher t with
  | none => exact absurd hfree (first_free_watcher_none t h i hlt)
  | some i' =>
    obtain ⟨_, hf'⟩ := first_free_watcher_some t i' h
    have h1 : ¬ i' < i := fun g => hleast i' g hf'
    have h2 : ¬ i < i' := fun g => first_free_watcher_least t i' h i g hfree
    have : i' = i := by omega
    rw [this]

/-- The table is full exactly when `first_free_watcher` finds nothing. -/
theorem first_free_watcher_of_full {t : List (Option fs_event_watcher)}
    (hfull : ∀ i, i < t.length → t.getD i none ≠ none) : first_free_watcher t = none := by
  cases h : first_free_watcher t with
  | none => rfl
  | some i =>
    obtain ⟨hlt, hf⟩ := first_free_watcher_some t i h
    exact absurd hf (hfull i hlt)

/-- C27: in a reachable state the registry has 8 slots; when the allocation of
the watcher succeeds, `add_watcher` returns 0 and installs the new watcher in
the lowest-index free slot, with that index as its `my_id`, leaving the other
slots alone; when all 8 slots are occupied it returns `ENOSPC` and leaves the
whole state, the registry and the interest counters included, unchanged. -/
theorem C27_lowest_free_slot {s : fsevents_state} (event_list : List Int)
    (num_events eventq_size : Int) (task : watcher_owner) (hreach : reachable s)
    (hk : task.kalloc_ok = true) :
    s.watcher_table.length = 8 ∧
    (∀ i, i < 8 → get_watcher s i = none → (∀ j, j < i → get_watcher s j ≠ none) →
      ∃ w1 s1, add_watcher s event_list num_events eventq_size task = (0, some i, s1) ∧
        get_watcher s1 i = some w1 ∧ w1.my_id = i ∧
        ∀ j, j ≠ i → get_watcher s1 j = get_watcher s j) ∧
    ((∀ i, i < 8 → get_watcher s i ≠ none) →
      add_watcher s event_list num_events eventq_size task = (ENOSPC, none, s) ∧
      (add_watcher s event_list num_events eventq_size task).2.2.watcher_table =
        s.watcher_table ∧
      (add_watcher s event_list num_events eventq_size task).2.2.fs_event_type_watchers =
        s.fs_event_type_watchers) := by
  have hlen : s.watcher_table.length = 8 := (reachable_registry hreach).1
  refine ⟨hlen, fun i hi hfree hleast => ?_, fun hfull => ?_⟩
  · have hff : first_free_watcher s.watcher_table = some i :=
      first_free_watcher_of_least (by rw [hlen]; exact hi) hfree hleast
    obtain ⟨w1, s1, h1, h2, h3, _⟩ :=
      @add_watcher_some s event_list num_events eventq_size task i hk hff
    have htab : s1.watcher_table = s.watcher_table.set i (some w1) := by rw [h2]; rfl
    exact ⟨w1, s1, h1, get_watcher_table_set_same htab (by rw [hlen]; exact hi), h3,
      fun j hj => get_watcher_table_set_other htab (Ne.symm hj)⟩
  · have hff : first_free_watcher s.watcher_table = none :=
      first_free_watcher_of_full (fun i hi => hfull i (by rw [← hlen]; exact hi))
    have h1 := add_watcher_none event_list num_events eventq_size task (Or.inr hff)
    rw [if_neg (by rw [hk]; simp)] at h1
    rw [h1]
    exact ⟨rfl, rfl, rfl⟩

/-- C27 at a broker whose slot 0 is taken: the next watcher goes to slot 1. -/
theorem C27_lowest_free_slot_witness :
    reachable scn_one_watcher ∧ ({} : watcher_owner).kalloc_ok = true ∧
    scn_one_watcher.watcher_table.length = 8 ∧
    ∃ w1 s1, add_watcher scn_one_watcher (List.replicate 17 FSE_REPORT) 17 16 {} =
        (0, some 1, s1) ∧
      get_watcher s1 1 = some w1 ∧ w1.my_id = 1 ∧
      ∀ j, j ≠ 1 → get_watcher s1 j = get_watcher scn_one_watcher j :=
  ⟨scn_one_watcher_reachable, rfl,
    (C27_lowest_free_slot (List.replicate 17 FSE_REPORT) 17 16 {} scn_one_watcher_reachable
      rfl).1,
    (C27_lowest_free_slot (List.replicate 17 FSE_REPORT) 17 16 {} scn_one_watcher_reachable
      rfl).2.1 1 (by decide) (by decide) (by decide)⟩

/-! ## C29 -/

theorem wrap32_id (x : Int) (h0 : 0 ≤ x) (h1 : x < 2 ^ 31) : wrap32 x = x := by
  unfold wrap32
  omega

/-- What a call of `add_watcher` that returns 0 registered. -/
theorem add_watcher_ok_some {s s1 : fsevents_state} {event_list : List Int}
    {num_events eventq_size : Int} {task : watcher_owner} {i : Nat}
    (hr : add_watcher s event_list num_events eventq_size task = (0, some i, s1)) :
    task.kalloc_ok = true ∧ first_free_watcher s.watcher_table = some i := by
  by_cases hk : task.kalloc_ok = true
  · cases hi : first_free_watcher s.watcher_table with
    | none =>
      rw [add_watcher_none event_list num_events eventq_size task (Or.inr hi)] at hr
      simp at hr
    | some i' =>
      obtain ⟨w1, s2, h1, _⟩ :=
        @add_watcher_some s event_list num_events eventq_size task i' hk hi
      rw [h1] at hr
      simp only [Prod.mk.injEq, Option.some.injEq, true_and] at hr
      exact ⟨hk, by rw [hr.1]⟩
  · have hk' : task.kalloc_ok = false := by simpa using hk
    rw [add_watcher_none event_list num_events eventq_size task (Or.inl hk')] at hr
    simp at hr

/-- C29: with a pool capacity `c >= 1` such that `100 * c` fits a signed 32-bit
integer, a successful `add_watcher` creates a ring of capacity `q` when
`1 <= q <= 100 * c` and of capacity `c` otherwise, so the capacity is at least
1 and equal to the length of the ring; and in every reachable state each
registered watcher has a ring of capacity at least 1, so that the ring's
modulo operations never divide by zero. -/
theorem C29_queue_capacity {s : fsevents_state} (hreach : reachable s)
    (hc : 1 ≤ s.max_kfs_events) (h32 : 100 * (s.max_kfs_events : Int) < 2 ^ 31) :
    (∀ (event_list : List Int) (num_events q : Int) (task : watcher_owner) (i : Nat)
        (s1 : fsevents_state),
      add_watcher s event_list num_events q task = (0, some i, s1) →
      ∃ w1, get_watcher s1 i = some w1 ∧
        (w1.eventq_size : Int) =
          (if 1 ≤ q ∧ q ≤ 100 * (s.max_kfs_events : Int) then q
           else (s.max_kfs_events : Int)) ∧
        1 ≤ w1.eventq_size ∧ w1.event_queue.length = w1.eventq_size) ∧
    (∀ i w, get_watcher s i = some w →
      1 ≤ w.eventq_size ∧ w.event_queue.length = w.eventq_size) := by
  refine ⟨fun event_list num_events q task i s1 hr => ?_, fun i w hw => ?_⟩
  · obtain ⟨hk, hff⟩ := add_watcher_ok_some hr
    obtain ⟨w1, s2, h1, h2, _, _, _, _, hsz, hq, _⟩ :=
      @add_watcher_some s event_list num_events q task i hk hff
    rw [h1] at hr
    simp only [Prod.mk.injEq, true_and] at hr
    obtain rfl := hr
    obtain ⟨hlt, _⟩ := first_free_watcher_some _ _ hff
    have htab : s2.watcher_table = s.watcher_table.set i (some w1) := by rw [h2]; rfl
    rw [wrap32_id _ (by positivity) h32] at hsz
    have hval : (w1.eventq_size : Int) =
        (if 1 ≤ q ∧ q ≤ 100 * (s.max_kfs_events : Int) then q
         else (s.max_kfs_events : Int)) := by
      rw [hsz]
      by_cases hcase : q ≤ 0 ∨ q > 100 * (s.max_kfs_events : Int)
      · rw [if_pos hcase, if_neg (by omega)]
        simp
      · rw [if_neg hcase, if_pos (by omega)]
        omega
    refine ⟨w1, get_watcher_table_set_same htab hlt, hval, ?_, by rw [hq]; simp⟩
    have : (1 : Int) ≤ (w1.eventq_size : Int) := by
      rw [hval]
      split <;> omega
    exact_mod_cast this
  · obtain ⟨hring, hsz, _, _⟩ := (reachable_inv hreach).2 i w hw
    exact ⟨hsz hc, hring.len⟩

/-- C29 at a broker with a pool of 4: a request for 16 slots gives a ring of 16
slots. -/
theorem C29_queue_capacity_witness :
    reachable (fsevents_internal_init 4) ∧ 1 ≤ (fsevents_internal_init 4).max_kfs_events ∧
    100 * ((fsevents_internal_init 4).max_kfs_events : Int) < 2 ^ 31 ∧
    (∃ w1, get_watcher scn_one_watcher 0 = some w1 ∧
      (w1.eventq_size : Int) =
        (if 1 ≤ (16 : Int) ∧ (16 : Int) ≤ 100 * ((fsevents_internal_init 4).max_kfs_events : Int)
         then 16 else ((fsevents_internal_init 4).max_kfs_events : Int)) ∧
      1 ≤ w1.eventq_size ∧ w1.event_queue.length = w1.eventq_size) :=
  ⟨reachable.init 4, by decide, by decide,
    (C29_queue_capacity (reachable.init 4) (by decide) (by decide)).1
      (List.replicate 17 FSE_REPORT) 17 16 {} 0 scn_one_watcher (by decide)⟩

/-! ## C24 -/

/-- A watcher with a filter cares about the devices that are not among its
first `num_devices` entries. -/
theorem watcher_cares_about_dev_some {w : fs_event_watcher} {devs : List Int}
    (h : w.devices_not_to_watch = some devs) (d : Int) :
    watcher_cares_about_dev w d = false ↔ d ∈ devs.take w.num_devices := by
  simp [watcher_cares_about_dev, h]

/-- C24: a DeviceFilter ioctl on a registered watcher that returns 0 with
`n <= 256` leaves a filter for which `watcher_cares_about_dev` is false exactly
for the devices among the first `n` of the user array, so with `n = 0` every
device is accepted; with `n > 256` the ioctl returns `EINVAL` and the state,
the watcher's filter included, is unchanged. -/
theorem C24_device_filter {s : fsevents_state} {j : Nat} {w : fs_event_watcher}
    (is64 : Bool) (n : Nat) (devices : List Int) (proc_is64bit kalloc_ok : Bool)
    (hw : get_watcher s j = some w) :
    (n ≤ 256 →
      (fseventsf_ioctl s j (ioctl_cmd.FSEVENTS_DEVICE_FILTER is64 n devices) proc_is64bit
        kalloc_ok).1 = 0 →
      ∃ w1, get_watcher (fseventsf_ioctl s j (ioctl_cmd.FSEVENTS_DEVICE_FILTER is64 n devices)
          proc_is64bit kalloc_ok).2.2 j = some w1 ∧
        (∀ d, watcher_cares_about_dev w1 d = false ↔ d ∈ devices.take n) ∧
        (n = 0 → ∀ d, watcher_cares_about_dev w1 d = true)) ∧
    (n > 256 →
      fseventsf_ioctl s j (ioctl_cmd.FSEVENTS_DEVICE_FILTER is64 n devices) proc_is64bit
        kalloc_ok = (EINVAL, none, s)) := by
  have hlt : j < s.watcher_table.length := get_watcher_some_lt hw
  refine ⟨fun hn hr => ?_, fun hn => ?_⟩
  · simp only [fseventsf_ioctl, hw] at hr ⊢
    split at hr
    · simp at hr
    · rw [if_neg (by assumption)]
      rw [if_neg (by omega)] at hr ⊢
      split at hr
      · rename_i h0
        rw [if_pos h0]
        refine ⟨_, get_set_watcher_same s j _ hlt, fun d => ?_, fun _ d => ?_⟩
        · subst h0
          simp [watcher_cares_about_dev]
        · simp [watcher_cares_about_dev]
      · rename_i h0
        rw [if_neg h0]
        split at hr
        · simp at hr
        · rw [if_neg (by assumption)]
          split at hr
          · simp at hr
          · rw [if_neg (by assumption)]
            refine ⟨_, get_set_watcher_same s j _ hlt, fun d => ?_, fun g => absurd g h0⟩
            rw [watcher_cares_about_dev_some rfl]
            show d ∈ (devices.take n).take n ↔ _
            rw [List.take_take, Nat.min_self]
  · simp only [fseventsf_ioctl, hw]
    split
    · rfl
    · first
      | rfl
      | rw [if_pos hn]

/-- C24 at a broker with one watcher: after a filter of the devices 5 and 7
the watcher cares about neither and about every other device. -/
theorem C24_device_filter_witness :
    get_watcher scn_one_watcher 0 = some scn_watcher ∧
    (((2 : Nat) ≤ 256 →
      (fseventsf_ioctl scn_one_watcher 0 (ioctl_cmd.FSEVENTS_DEVICE_FILTER true 2 [5, 7]) true
        true).1 = 0 →
      ∃ w1, get_watcher (fseventsf_ioctl scn_one_watcher 0
          (ioctl_cmd.FSEVENTS_DEVICE_FILTER true 2 [5, 7]) true true).2.2 0 = some w1 ∧
        (∀ d, watcher_cares_about_dev w1 d = false ↔ d ∈ ([5, 7] : List Int).take 2) ∧
        ((2 : Nat) = 0 → ∀ d, watcher_cares_about_dev w1 d = true)) ∧
    ((2 : Nat) > 256 →
      fseventsf_ioctl scn_one_watcher 0 (ioctl_cmd.FSEVENTS_DEVICE_FILTER true 2 [5, 7]) true
        true = (EINVAL, none, scn_one_watcher))) ∧
    (fseventsf_ioctl scn_one_watcher 0 (ioctl_cmd.FSEVENTS_DEVICE_FILTER true 2 [5, 7]) true
      true).1 = 0 :=
  ⟨by decide, @C24_device_filter scn_one_watcher 0 scn_watcher true 2 [5, 7] true true
    (by decide), by decide⟩

/-! ## C28 -/

/-- When no registered watcher is interested in a kind, none reports it. -/
theorem interested_zero {table : List (Option fs_event_watcher)} {t : Nat}
    (h : interested table t = 0) {i : Nat} {w : fs_event_watcher}
    (hw : table.getD i none = some w) : slot_wants t (some w) = 0 := by
  have hlt : i < table.length := getD_some_lt hw
  have hmem : slot_wants t (some w) ∈ table.map (slot_wants t) := by
    rw [List.mem_map]
    refine ⟨some w, ?_, rfl⟩
    rw [← hw, getD_eq_get _ _ _ hlt]
    exact List.get_mem _ _ _
  unfold interested at h
  exact List.sum_eq_zero_iff.1 h _ hmem

/-- C28: in every reachable state, for each event type `t` the counter
`fs_event_type_watchers[t]` is the number of registered watchers with
`t < num_events` and `event_list[t] != FSE_IGNORE`; a successful `add_watcher`
raises the counter of `t` by one exactly when the new watcher is such a
watcher, and `remove_watcher` lowers it by one exactly when the removed
watcher is; and when the counter of a type is 0, the pass of `add_fsevent`
returns 0 at once and no registered watcher reports the type. -/
theorem C28_interest_counters {s : fsevents_state} (hreach : reachable s) :
    (∀ t, t < 17 → s.fs_event_type_watchers.getD t 0 = (interested s.watcher_table t : Int)) ∧
    (∀ (event_list : List Int) (num_events q : Int) (task : watcher_owner) (i : Nat)
        (s1 : fsevents_state),
      add_watcher s event_list num_events q task = (0, some i, s1) →
      ∃ w1, get_watcher s1 i = some w1 ∧ ∀ t, t < 17 →
        s1.fs_event_type_watchers.getD t 0 =
          s.fs_event_type_watchers.getD t 0 + (slot_wants t (some w1) : Int)) ∧
    (∀ (j : Nat) (w : fs_event_watcher) (s1 : fsevents_state),
      get_watcher s j = some w → remove_watcher s j = some s1 →
      get_watcher s1 j = none ∧ ∀ t, t < 17 →
        s1.fs_event_type_watchers.getD t 0 =
          s.fs_event_type_watchers.getD t 0 - (slot_wants t (some w) : Int)) ∧
    (∀ (type : Int) (ap : List va_word) (env : fse_env) (now : Nat) (l : add_locals)
        (links : List link_reply),
      0 ≤ type → type < FSE_MAX_EVENTS → s.fs_event_type_watchers.getD type.toNat 0 = 0 →
      add_fsevent_pass s type ap env now l links = some (pass_result.ret 0 s) ∧
      ∀ i w, get_watcher s i = some w → ¬ reports w type) := by
  have hreg := reachable_registry hreach
  have hs := reachable_inv hreach
  refine ⟨hreg.2.2.1, fun event_list num_events q task i s1 hr => ?_,
    fun j w s1 hw hr => ?_, fun type ap env now l links h0 h1 hz => ⟨?_, fun i w hw hrep => ?_⟩⟩
  · have hreach1 : reachable s1 := by
      have := reachable.add_watcher event_list num_events q task hreach
      rw [hr] at this
      exact this
    have hreg1 := reachable_registry hreach1
    obtain ⟨hk, hff⟩ := add_watcher_ok_some hr
    obtain ⟨w1, s2, h1, h2, _⟩ :=
      @add_watcher_some s event_list num_events q task i hk hff
    rw [h1] at hr
    simp only [Prod.mk.injEq, true_and] at hr
    obtain rfl := hr
    obtain ⟨hlt, hfree⟩ := first_free_watcher_some _ _ hff
    have htab : s2.watcher_table = s.watcher_table.set i (some w1) := by rw [h2]; rfl
    refine ⟨w1, get_watcher_table_set_same htab hlt, fun t ht => ?_⟩
    rw [hreg1.2.2.1 t ht, hreg.2.2.1 t ht, htab]
    have hset := interested_set s.watcher_table i (some w1) t hlt
    rw [hfree] at hset
    have : slot_wants t none = 0 := rfl
    rw [this] at hset
    have : interested (s.watcher_table.set i (some w1)) t =
        interested s.watcher_table t + slot_wants t (some w1) := by omega
    rw [this]; push_cast; ring
  · have hreg1 := reachable_registry (reachable.remove_watcher j hreach hr)
    obtain ⟨htab, _⟩ := remove_watcher_fields hs hw hr
    have hlt : j < s.watcher_table.length := get_watcher_some_lt hw
    refine ⟨get_watcher_table_set_same htab hlt, fun t ht => ?_⟩
    rw [hreg1.2.2.1 t ht, hreg.2.2.1 t ht, htab]
    have hset := interested_set s.watcher_table j none t hlt
    have hi : s.watcher_table.getD j none = some w := hw
    rw [hi] at hset
    have : slot_wants t none = 0 := rfl
    rw [this] at hset
    have : interested s.watcher_table t =
        interested (s.watcher_table.set j none) t + slot_wants t (some w) := by omega
    rw [this]; push_cast; ring
  · unfold add_fsevent_pass
    rw [if_neg (by omega), if_pos hz]
  · have ht : type.toNat < 17 := by
      have : type < 17 := h1
      omega
    have hcnt := hreg.2.2.1 type.toNat ht
    rw [hz] at hcnt
    have hint : interested s.watcher_table type.toNat = 0 := by exact_mod_cast hcnt.symm
    have hsw := interested_zero hint (show s.watcher_table.getD i none = some w from hw)
    simp only [slot_wants] at hsw
    have hcast : ((type.toNat : Nat) : Int) = type := Int.toNat_of_nonneg h0
    rw [hcast] at hsw
    split at hsw
    · cases hsw
    · rename_i hc
      exact hc ⟨hrep.1, by rw [hrep.2]; decide⟩

/-- C28 at a broker with one watcher of every kind. -/
theorem C28_interest_counters_witness :
    reachable scn_one_watcher ∧
    (∀ t, t < 17 → scn_one_watcher.fs_event_type_watchers.getD t 0 =
      (interested scn_one_watcher.watcher_table t : Int)) ∧
    scn_one_watcher.fs_event_type_watchers.getD 4 0 = 1 :=
  ⟨scn_one_watcher_reachable, (C28_interest_counters scn_one_watcher_reachable).1, by decide⟩

/-! ## The lifetime of a watcher -/

theorem lifetime_reachable {i : Nat} {s s1 : fsevents_state} (hs : reachable s)
    (h : lifetime i s s1) : reachable s1 := by
  induction h with
  | start => exact hs
  | add_watcher event_list num_events eventq_size task _ ih =>
    exact reachable.add_watcher event_list num_events eventq_size task ih
  | remove_watcher j _ _ hr ih => exact reachable.remove_watcher j ih hr
  | add_fsevent type ap env r _ hr ih => exact reachable.add_fsevent type ap env r ih hr
  | fmod_watch j u u1 sleep_err r _ hr ih => exact reachable.fmod_watch j u u1 sleep_err r ih hr
  | ioctl j cmd is64 kalloc_ok _ ih => exact reachable.ioctl j cmd is64 kalloc_ok ih
  | timer _ ih => exact reachable.timer ih
  | unmount_begin dev env _ hr ih => exact reachable.unmount_begin dev env ih hr
  | unmount_timeout dev _ ih => exact reachable.unmount_timeout dev ih

/-- Rewriting a registered watcher without touching what identifies it
registers and removes no watcher. -/
theorem registry_kept_touch {s s1 : fsevents_state} {j : Nat} {w w1 : fs_event_watcher}
    (hw : get_watcher s j = some w) (hk : kept w w1)
    (ht : s1.watcher_table = s.watcher_table.set j (some w1))
    (hc : s1.fs_event_type_watchers = s.fs_event_type_watchers) : registry_kept s s1 := by
  have hlt : j < s.watcher_table.length := get_watcher_some_lt hw
  refine ⟨by rw [ht, List.length_set], hc, fun i => ?_⟩
  by_cases hij : j = i
  · subst hij
    rw [get_watcher_table_set_same ht hlt]
    exact ⟨fun h0 => (by rw [hw] at h0; cases h0),
      fun w' hw' => ⟨w1, rfl, by rw [hw] at hw'; cases hw'; exact hk⟩⟩
  · rw [get_watcher_table_set_other ht hij]
    exact ⟨fun h0 => h0, fun w' hw' => ⟨w', hw', kept_refl w'⟩⟩

/-- The ioctls register and remove no watcher. -/
theorem fseventsf_ioctl_kept (s : fsevents_state) (j : Nat) (cmd : ioctl_cmd)
    (is64 kalloc_ok : Bool) : registry_kept s (fseventsf_ioctl s j cmd is64 kalloc_ok).2.2 := by
  unfold fseventsf_ioctl
  split
  · exact registry_kept_refl s
  · rename_i w hw
    split
    · exact registry_kept_refl s
    · exact registry_kept_refl s
    · exact @registry_kept_touch s _ j w
        { w with flags := w.flags ||| WATCHER_WANTS_COMPACT_EVENTS } hw
        ⟨rfl, rfl, rfl, has_flag_or_other _ _ _ (by decide)⟩ rfl rfl
    · exact @registry_kept_touch s _ j w
        { w with flags := w.flags ||| WATCHER_WANTS_EXTENDED_INFO } hw
        ⟨rfl, rfl, rfl, has_flag_or_other _ _ _ (by decide)⟩ rfl rfl
    · exact registry_kept_refl s
    · split
      · exact registry_kept_refl s
      · split
        · exact registry_kept_refl s
        · split
          · exact @registry_kept_touch s _ j w
              { w with devices_not_to_watch := none, num_devices := 0 } hw
              ⟨rfl, rfl, rfl, rfl⟩ rfl rfl
          · split
            · exact registry_kept_refl s
            · split
              · exact registry_kept_refl s
              · rename_i num_devices devices _ _ _ _ _
                exact @registry_kept_touch s _ j w
                  { w with devices_not_to_watch := some (devices.take num_devices),
                           num_devices := num_devices } hw
                  ⟨rfl, rfl, rfl, rfl⟩ rfl rfl
    · split
      · dsimp only
        split
        · exact registry_kept_of_eq rfl rfl
        · exact registry_kept_of_eq rfl rfl
      · exact registry_kept_refl s
    · exact registry_kept_refl s

/-- A watcher stays in its slot, with what identifies it, for as long as
`remove_watcher` is not called on the slot. -/
theorem lifetime_kept {i : Nat} {s s1 : fsevents_state} {w : fs_event_watcher}
    (hs : reachable s) (hw : get_watcher s i = some w) (h : lifetime i s s1) :
    ∃ w1, get_watcher s1 i = some w1 ∧ kept w w1 := by
  induction h with
  | start => exact ⟨w, hw, kept_refl w⟩
  | @add_watcher s2 event_list num_events eventq_size task hl ih =>
    obtain ⟨w1, a1, a2⟩ := ih
    refine ⟨w1, ?_, a2⟩
    by_cases hk : task.kalloc_ok = true
    · cases hi : first_free_watcher s2.watcher_table with
      | none =>
        rw [add_watcher_none event_list num_events eventq_size task (Or.inr hi)]
        exact a1
      | some i' =>
        obtain ⟨w', s3, h1, h2, _⟩ :=
          @add_watcher_some s2 event_list num_events eventq_size task i' hk hi
        rw [h1]
        obtain ⟨_, hfree⟩ := first_free_watcher_some _ _ hi
        have htab : s3.watcher_table = s2.watcher_table.set i' (some w') := by rw [h2]; rfl
        have hne : i' ≠ i := by
          intro g
          subst g
          have : s2.watcher_table.getD i' none = some w1 := a1
          rw [hfree] at this
          cases this
        show get_watcher s3 i = some w1
        rw [get_watcher_table_set_other htab hne]
        exact a1
    · have hk' : task.kalloc_ok = false := by simpa using hk
      rw [add_watcher_none event_list num_events eventq_size task (Or.inl hk')]
      exact a1
  | @remove_watcher s2 s3 j hj hl hr ih =>
    obtain ⟨w1, a1, a2⟩ := ih
    refine ⟨w1, ?_, a2⟩
    cases hwj : get_watcher s2 j with
    | none =>
      unfold remove_watcher at hr
      rw [hwj] at hr
      cases hr
      exact a1
    | some wj =>
      obtain ⟨htab, _⟩ := remove_watcher_fields (reachable_inv (lifetime_reachable hs hl)) hwj hr
      rw [get_watcher_table_set_other htab hj]
      exact a1
  | @add_fsevent s2 s3 type ap env r hl hr ih =>
    obtain ⟨w1, a1, a2⟩ := ih
    have hr2 := lifetime_reachable hs hl
    obtain ⟨_, hk⟩ := add_fsevent_registry (reachable_inv hr2) (reachable_registry hr2).2.2.2 hr
    obtain ⟨w2, b1, b2⟩ := (hk.2.2 i).2 w1 a1
    exact ⟨w2, b1, kept_trans a2 b2⟩
  | @fmod_watch s2 s3 j u u1 sleep_err r hl hr ih =>
    obtain ⟨w1, a1, a2⟩ := ih
    have hr2 := lifetime_reachable hs hl
    obtain ⟨hk, _⟩ := fmod_watch_queues (reachable_inv hr2) hr
    obtain ⟨w2, b1, b2⟩ := (hk.2.2 i).2 w1 a1
    exact ⟨w2, b1, kept_trans a2 b2⟩
  | @ioctl s2 j cmd is64 kalloc_ok hl ih =>
    obtain ⟨w1, a1, a2⟩ := ih
    obtain ⟨w2, b1, b2⟩ := ((fseventsf_ioctl_kept s2 j cmd is64 kalloc_ok).2.2 i).2 w1 a1
    exact ⟨w2, b1, kept_trans a2 b2⟩
  | timer hl ih => exact ih
  | @unmount_begin s2 s3 dev env hl hr ih =>
    obtain ⟨w1, a1, a2⟩ := ih
    have hr2 := lifetime_reachable hs hl
    unfold fsevent_unmount_begin at hr
    split at hr
    · cases hr; exact ⟨w1, a1, a2⟩
    · split at hr
      · cases hr; exact ⟨w1, a1, a2⟩
      · dsimp only at hr
        split at hr
        · cases hr
        · rename_i r s4 ha
          cases hr
          have hs0 : sys_ok ({ s2 with
              fsevent_unmount_dev := dev,
              fsevent_unmount_ack_count := s2.fs_event_type_watchers.getD 13 0 } :
              fsevents_state) (fun _ => 0) := sys_ok_of_eq (reachable_inv hr2) rfl rfl rfl
          have hq0 := @queue_inv_of_eq s2 ({ s2 with
              fsevent_unmount_dev := dev,
              fsevent_unmount_ack_count := s2.fs_event_type_watchers.getD 13 0 } :
              fsevents_state)
            (reachable_inv hr2) (reachable_registry hr2).2.2.2 rfl rfl
          obtain ⟨_, hk⟩ := add_fsevent_registry hs0 hq0 ha
          obtain ⟨w2, b1, b2⟩ := (hk.2.2 i).2 w1 a1
          exact ⟨w2, b1, kept_trans a2 b2⟩
  | @unmount_timeout s2 dev hl ih =>
    obtain ⟨w1, a1, a2⟩ := ih
    refine ⟨w1, ?_, a2⟩
    unfold fsevent_unmount_timeout
    split
    · exact a1
    · exact a1

/-! ## C30 -/

/-- C30: let `add_watcher` register a watcher in slot `i` for an owner `task`.
In every state the broker goes through while the watcher stays registered: if
the owner lacks the activity entitlement, the watcher's interest in Activity is
`FSE_IGNORE` whenever its vector has the entry, whatever vector was supplied,
and no entry of its queue is an Activity event; the same holds for
AccessGranted and the access-granted entitlement; and
`WATCHER_APPLE_SYSTEM_SERVICE` is set exactly when the owner holds at least
one of the three watcher entitlements. -/
theorem C30_entitlements {s s1 s2 : fsevents_state} (event_list : List Int)
    (num_events q : Int) (task : watcher_owner) {i : Nat} (hreach : reachable s)
    (hr : add_watcher s event_list num_events q task = (0, some i, s1))
    (hlife : lifetime i s1 s2) :
    ∃ w2, get_watcher s2 i = some w2 ∧
      (task.entitled_activity = false →
        (FSE_ACTIVITY < w2.num_events → w2.event_list.getD 15 FSE_IGNORE = FSE_IGNORE) ∧
        ∀ p e, some p ∈ pending w2 → deref s2 p = some e → e.type ≠ FSE_ACTIVITY) ∧
      (task.entitled_access_granted = false →
        (FSE_ACCESS_GRANTED < w2.num_events →
          w2.event_list.getD 16 FSE_IGNORE = FSE_IGNORE) ∧
        ∀ p e, some p ∈ pending w2 → deref s2 p = some e → e.type ≠ FSE_ACCESS_GRANTED) ∧
      (has_flag w2.flags WATCHER_APPLE_SYSTEM_SERVICE = true ↔
        (task.entitled_watcher = true ∨ task.entitled_access_granted = true ∨
          task.entitled_activity = true)) := by
  have hreach1 : reachable s1 := by
    have := reachable.add_watcher event_list num_events q task hreach
    rw [hr] at this
    exact this
  obtain ⟨hk, hff⟩ := add_watcher_ok_some hr
  obtain ⟨w1, s1', h1, h2, _, hn, _, _, _, _, hfl, _, _, _, _, hvec⟩ :=
    @add_watcher_some s event_list num_events q task i hk hff
  rw [h1] at hr
  simp only [Prod.mk.injEq, true_and] at hr
  obtain rfl := hr
  obtain ⟨hlt, _⟩ := first_free_watcher_some _ _ hff
  have htab : s1'.watcher_table = s.watcher_table.set i (some w1) := by rw [h2]; rfl
  have hw1 : get_watcher s1' i = some w1 := get_watcher_table_set_same htab hlt
  obtain ⟨w2, hw2, hkept⟩ := lifetime_kept hreach1 hw1 hlife
  have hq := (reachable_registry (lifetime_reachable hreach1 hlife)).2.2.2 i w2 hw2
  refine ⟨w2, hw2, fun hent => ⟨fun hlen => ?_, fun p e hp he hty => ?_⟩,
    fun hent => ⟨fun hlen => ?_, fun p e hp he hty => ?_⟩, ?_⟩
  · rw [hkept.1, hvec 15, if_pos (Or.inl ⟨rfl, by rw [← hn, ← hkept.2.1]; exact hlen, hent⟩)]
  · have hrep := hq.2 p e hp he
    rw [hty] at hrep
    have hv : w2.event_list.getD 15 FSE_IGNORE = FSE_IGNORE := by
      rw [hkept.1, hvec 15,
        if_pos (Or.inl ⟨rfl, by rw [← hn, ← hkept.2.1]; exact hrep.1, hent⟩)]
    have h2' : w2.event_list.getD 15 FSE_IGNORE = FSE_REPORT := hrep.2
    rw [hv] at h2'
    exact absurd h2' (by decide)
  · rw [hkept.1, hvec 16, if_pos (Or.inr ⟨rfl, by rw [← hn, ← hkept.2.1]; exact hlen, hent⟩)]
  · have hrep := hq.2 p e hp he
    rw [hty] at hrep
    have hv : w2.event_list.getD 16 FSE_IGNORE = FSE_IGNORE := by
      rw [hkept.1, hvec 16,
        if_pos (Or.inr ⟨rfl, by rw [← hn, ← hkept.2.1]; exact hrep.1, hent⟩)]
    have h2' : w2.event_list.getD 16 FSE_IGNORE = FSE_REPORT := hrep.2
    rw [hv] at h2'
    exact absurd h2' (by decide)
  · rw [hkept.2.2.2, hfl]
    cases h3 : task.entitled_watcher <;> cases h4 : task.entitled_access_granted <;>
      cases h5 : task.entitled_activity <;> simp [watcher_is_entitled, h3, h4, h5] <;> decide

/-- C30 at the watcher of an owner without entitlements, after one publish: it
asked for every kind and is left without Activity and AccessGranted, and it is
no system service. -/
theorem C30_entitlements_witness :
    reachable (fsevents_internal_init 4) ∧
    add_watcher (fsevents_internal_init 4) (List.replicate 17 FSE_REPORT) 17 16 {} =
      (0, some 0, scn_one_watcher) ∧
    lifetime 0 scn_one_watcher scn_published ∧
    ∃ w2, get_watcher scn_published 0 = some w2 ∧
      (({} : watcher_owner).entitled_activity = false →
        (FSE_ACTIVITY < w2.num_events → w2.event_list.getD 15 FSE_IGNORE = FSE_IGNORE) ∧
        ∀ p e, some p ∈ pending w2 → deref scn_published p = some e →
          e.type ≠ FSE_ACTIVITY) ∧
      (({} : watcher_owner).entitled_access_granted = false →
        (FSE_ACCESS_GRANTED < w2.num_events →
          w2.event_list.getD 16 FSE_IGNORE = FSE_IGNORE) ∧
        ∀ p e, some p ∈ pending w2 → deref scn_published p = some e →
          e.type ≠ FSE_ACCESS_GRANTED) ∧
      (has_flag w2.flags WATCHER_APPLE_SYSTEM_SERVICE = true ↔
        (({} : watcher_owner).entitled_watcher = true ∨
          ({} : watcher_owner).entitled_access_granted = true ∨
          ({} : watcher_owner).entitled_activity = true)) :=
  ⟨reachable.init 4, by decide,
    lifetime.add_fsevent FSE_CONTENT_MODIFIED scn_path_args (scn_env 1000) 0 lifetime.start
      scn_published_eq,
    C30_entitlements (List.replicate 17 FSE_REPORT) 17 16 {} (reachable.init 4) (by decide)
      (lifetime.add_fsevent FSE_CONTENT_MODIFIED scn_path_args (scn_env 1000) 0 lifetime.start
        scn_published_eq)⟩

/-! ## C22 -/

/-- C22: in a reachable state, the part of a pass of `add_fsevent` with the
fan-out leaves each registered watcher's queue alone, or drained, or with
exactly one new entry, the event of the pass in an element that was free
before, and the last only for a watcher with `type < num_events` and
`event_list[type] == FSE_REPORT`; hence, in every reachable state, no watcher
queue holds the same event twice, and every queued event is of a type the
watcher marked `FSE_REPORT`, none of a type it marked `FSE_IGNORE`. -/
theorem C22_fan_out {s : fsevents_state} (hreach : reachable s) :
    (∀ (type : Int) (ap : List va_word) (env : fse_env) (now : Nat) (l : add_locals)
        (links : List link_reply) (res : pass_result),
      0 ≤ type → type < FSE_MAX_EVENTS →
      publish_pass s type ap env now l links = some res →
      ∀ i w, get_watcher s i = some w →
        ∃ w1, get_watcher (pass_state res) i = some w1 ∧
          (pending w1 = pending w ∨ pending w1 = [] ∨
            ∃ k, deref s k = none ∧ some k ∉ pending w ∧
              (type < w.num_events ∧
                w.event_list.getD type.toNat FSE_IGNORE = FSE_REPORT) ∧
              pending w1 = pending w ++ [some k])) ∧
    (∀ i w, get_watcher s i = some w →
      (pending w).Nodup ∧
      ∀ p e, some p ∈ pending w → deref s p = some e →
        e.type < w.num_events ∧ w.event_list.getD e.type.toNat FSE_IGNORE = FSE_REPORT ∧
        w.event_list.getD e.type.toNat FSE_IGNORE ≠ FSE_IGNORE) := by
  have hs := reachable_inv hreach
  refine ⟨fun type ap env now l links res h0 h1 hp i w hw => ?_, fun i w hw => ?_⟩
  · obtain ⟨_, _, hslots⟩ := publish_pass_queues hs ⟨h0, h1⟩ hp
    obtain ⟨w1, c1, _, _, _, c5⟩ := (hslots i).2 w hw
    refine ⟨w1, c1, ?_⟩
    rcases c5 with g | g | ⟨k, g1, g2, g3⟩
    · exact Or.inl g
    · exact Or.inr (Or.inl g)
    · refine Or.inr (Or.inr ⟨k, g1, fun hm => ?_, g2.1, g3⟩)
      obtain ⟨p', e, a1, a2, _⟩ := (hs.2 i w hw).2.2.1 (some k) hm
      cases a1
      have : s.event_zone.getD k none = none := g1
      rw [this] at a2; cases a2
  · obtain ⟨hnd, hrep⟩ := (reachable_registry hreach).2.2.2 i w hw
    refine ⟨hnd, fun p e hp he => ?_⟩
    obtain ⟨a, b⟩ := hrep p e hp he
    exact ⟨a, b, by rw [b]; decide⟩

/-- C22 at a broker after one publish: the watcher's queue holds the event
once, and it is of a kind the watcher reports. -/
theorem C22_fan_out_witness :
    reachable scn_published ∧ get_watcher scn_published 0 = some scn_published_watcher ∧
    pending scn_published_watcher = [some 0] ∧
    ((pending scn_published_watcher).Nodup ∧
      ∀ p e, some p ∈ pending scn_published_watcher → deref scn_published p = some e →
        e.type < scn_published_watcher.num_events ∧
        scn_published_watcher.event_list.getD e.type.toNat FSE_IGNORE = FSE_REPORT ∧
        scn_published_watcher.event_list.getD e.type.toNat FSE_IGNORE ≠ FSE_IGNORE) :=
  ⟨scn_published_reachable, scn_published_watcher_eq, by decide,
    (C22_fan_out scn_published_reachable).2 0 scn_published_watcher scn_published_watcher_eq⟩

/-! ## C23 -/

/-- The argument blocks of the special kinds leave the local `dev` alone and
switch the sibling-hardlink block off. -/
theorem fill_event_special {s s2 : fsevents_state} {type : Int} {k : Nat} {dd : Option Nat}
    {ap : List va_word} {env : fse_env} {l l1 : add_locals} {skip : Bool}
    (hsp : special_kind type)
    (h : fill_event s type k dd ap env l = some (s2, l1, skip)) :
    l1.dev = l.dev ∧ l1.do_all_links = false := by
  unfold fill_event at h
  split at h
  · rw [Option.map_eq_some'] at h
    obtain ⟨s3, _, h3⟩ := h
    cases h3
    exact ⟨rfl, rfl⟩
  · split at h
    · rw [Option.map_eq_some'] at h
      obtain ⟨s3, _, h3⟩ := h
      cases h3
      exact ⟨rfl, rfl⟩
    · split at h
      · rw [Option.map_eq_some'] at h
        obtain ⟨s3, _, h3⟩ := h
        cases h3
        exact ⟨rfl, rfl⟩
      · split at h
        · rw [Option.map_eq_some'] at h
          obtain ⟨s3, _, h3⟩ := h
          cases h3
          exact ⟨rfl, rfl⟩
        · rename_i h1 h2 h3 h4
          unfold special_kind at hsp
          rcases hsp with g | g | g | g | g
          · exact absurd (Or.inl g) h1
          · exact absurd (Or.inr g) h1
          · exact absurd g h2
          · exact absurd g h3
          · exact absurd g h4

/-- Without `do_all_links` the code from `clean_up` on ends the pass with a
`return`. -/
theorem clean_up_loop_returns (type : Int) (k : Nat) (s : fsevents_state) :
    ∀ (fuel : Nat) (links : List link_reply) (l : add_locals) (res : pass_result),
      l.do_all_links = false → clean_up_loop type k s fuel links l = some res →
      ∃ err s1, res = pass_result.ret err s1 := by
  intro fuel
  cases fuel with
  | zero => intro links l res _ hr; simp [clean_up_loop] at hr
  | succ n =>
    intro links l res hl hr
    simp only [clean_up_loop, hlink_block] at hr
    split at hr
    · cases hr
    · rename_i r hb
      cases hr
      split at hb
      · cases hb
      · rw [if_neg (by rw [hl]; simp)] at hb
        rw [Option.map_eq_some'] at hb
        obtain ⟨res1, h2, h3⟩ := hb
        cases h3
        unfold add_fsevent_finish at h2
        split at h2
        · cases h2
        · cases h2
          exact ⟨_, _, rfl⟩
    · rename_i links1 l1 hb
      split at hb
      · cases hb
      · rw [if_neg (by rw [hl]; simp)] at hb
        rw [Option.map_eq_some'] at hb
        obtain ⟨res1, _, h3⟩ := hb
        cases h3

/-- A pass for an event of a special kind ends with a `return`. -/
theorem publish_pass_special_returns {s : fsevents_state} {type : Int} {ap : List va_word}
    {env : fse_env} {now : Nat} {l : add_locals} {links : List link_reply} {res : pass_result}
    (hsp : special_kind type) (hr : publish_pass s type ap env now l links = some res) :
    ∃ err s1, res = pass_result.ret err s1 := by
  unfold publish_pass at hr
  split at hr
  · cases hr; exact ⟨_, _, rfl⟩
  · split at hr
    · cases hr
    · rename_i s2 l2 skip hf
      obtain ⟨_, hdl⟩ := fill_event_special hsp hf
      unfold deliver_pass at hr
      split at hr
      · exact clean_up_loop_returns _ _ _ _ _ _ _ hdl hr
      · split at hr
        · cases hr
        · split at hr
          · cases hr
          · exact clean_up_loop_returns _ _ _ _ _ _ _ hdl hr

theorem add_fsevent_loop_succ (type : Int) (ap : List va_word) (env : fse_env) (fuel : Nat)
    (s : fsevents_state) (now : Nat) (l : add_locals) (links : List link_reply) :
    add_fsevent_loop type ap env (fuel + 1) s now l links =
      match add_fsevent_pass s type ap env now l links with
      | none => none
      | some (pass_result.ret err s) => some (err, s)
      | some (pass_result.restart s l links now) =>
        add_fsevent_loop type ap env fuel s now l links := rfl

/-- The pass with the fan-out, and the device filter: a new entry of a queue is
the event of the pass, and the watcher cares about the device the locals hold
after the argument block. -/
theorem publish_pass_filter {s : fsevents_state} {type : Int} {ap : List va_word}
    {env : fse_env} {now : Nat} {l : add_locals} {links : List link_reply} {res : pass_result}
    (hs : sys_ok s (fun _ => 0)) (hty : 0 ≤ type ∧ type < FSE_MAX_EVENTS)
    (hr : publish_pass s type ap env now l links = some res)
    {i : Nat} {w w1 : fs_event_watcher} (hw : get_watcher s i = some w)
    (hw1 : get_watcher (pass_state res) i = some w1) {x : Option Nat} (hx : x ∈ pending w1)
    (hnx : x ∉ pending w) :
    ∃ k dd sa s2 l1, x = some k ∧ alloc_events s type = (some k, dd, sa) ∧
      fill_event (publish_events sa type now env.pid k dd) type k dd ap env l =
        some (s2, l1, false) ∧
      watcher_cares_about_dev w l1.dev = true ∧ (special_kind type → l1.dev = l.dev) := by
  obtain ⟨_, _, hslots⟩ := publish_pass_queues hs hty hr
  obtain ⟨w1', c1, _, _, _, c5⟩ := (hslots i).2 w hw
  rw [hw1] at c1
  cases c1
  rcases c5 with g | g | ⟨k, _, ⟨_, _, dd, sa, s2, l1, a1, a2, a3⟩, g3⟩
  · rw [g] at hx; exact absurd hx hnx
  · rw [g] at hx; cases hx
  · rw [g3, List.mem_append, List.mem_singleton] at hx
    rcases hx with hx | hx
    · exact absurd hx hnx
    · exact ⟨k, dd, sa, s2, l1, hx, a1, a2, a3, fun hsp => (fill_event_special hsp a2).1⟩

/-- An `add_fsevent` of a special kind consults the device filter with the
device 0. -/
theorem add_fsevent_special_filter {s s1 : fsevents_state} {type : Int} {ap : List va_word}
    {env : fse_env} {r : Int} (hs : sys_ok s (fun _ => 0)) (hsp : special_kind type)
    (hr : add_fsevent s type ap env = some (r, s1))
    {i : Nat} {w w1 : fs_event_watcher} (hw : get_watcher s i = some w)
    (hw1 : get_watcher s1 i = some w1) {x : Option Nat} (hx : x ∈ pending w1)
    (hnx : x ∉ pending w) : watcher_cares_about_dev w 0 = true := by
  have hne : type ≠ FSE_CONTENT_MODIFIED_NO_HLINK := by
    unfold special_kind at hsp
    rcases hsp with g | g | g | g | g <;> (rw [g]; decide)
  have hsame : ∀ {s0 : fsevents_state}, s0.watcher_table = s.watcher_table →
      get_watcher s0 i = some w1 → watcher_cares_about_dev w 0 = true := by
    intro s0 ht h0
    rw [get_watcher_of_table ht, hw] at h0
    cases h0
    exact absurd hx hnx
  have hpub : ∀ {s0 : fsevents_state} {res : pass_result}, sys_ok s0 (fun _ => 0) →
      s0.watcher_table = s.watcher_table → 0 ≤ type ∧ type < FSE_MAX_EVENTS →
      publish_pass s0 type ap env env.now {} env.links = some res →
      get_watcher (pass_state res) i = some w1 → watcher_cares_about_dev w 0 = true := by
    intro s0 res h0 ht hty hp hres
    obtain ⟨k, dd, sa, s2, l1, _, _, _, a3, a4⟩ := publish_pass_filter h0 hty hp
      (show get_watcher s0 i = some w by rw [get_watcher_of_table ht]; exact hw) hres hx hnx
    rw [a4 hsp] at a3
    exact a3
  unfold add_fsevent at hr
  dsimp only at hr
  rw [if_neg hne] at hr
  dsimp only at hr
  rw [show (130 : Nat) = 129 + 1 from rfl, add_fsevent_loop_succ] at hr
  split at hr
  · cases hr
  · rename_i err s2 hp
    cases hr
    unfold add_fsevent_pass at hp
    split at hp
    · cases hp; exact hsame rfl hw1
    · rename_i hty
      have hty1 : 0 ≤ type ∧ type < FSE_MAX_EVENTS := by
        constructor <;> omega
      split at hp
      · cases hp; exact hsame rfl hw1
      · split at hp
        · split at hp
          · cases hp
          · rename_i sf hd
            cases hp
            exact hsame (dedup_filter_fields hd).watcher_table hw1
          · rename_i sf hd
            have hf := dedup_filter_fields hd
            exact hpub (sys_ok_dedup_only hs hf) hf.watcher_table hty1 hp hw1
        · exact hpub hs rfl hty1 hp hw1
  · rename_i s2 l2 links2 now2 hp
    exfalso
    unfold add_fsevent_pass at hp
    split at hp
    · cases hp
    · split at hp
      · cases hp
      · split at hp
        · split at hp
          · cases hp
          · cases hp
          · obtain ⟨_, _, h3⟩ := publish_pass_special_returns hsp hp
            cases h3
        · obtain ⟨_, _, h3⟩ := publish_pass_special_returns hsp hp
          cases h3

theorem scn_denied_reachable : reachable scn_denied :=
  reachable.ioctl 0 (ioctl_cmd.FSEVENTS_DEVICE_FILTER true 1 [5]) true true
    scn_one_watcher_reachable

/-- C23, as the code has it: a watcher with the device 5 on its denylist gets
the UnmountPending event of device 5, while a CreateFile on device 5 is kept
from it. -/
theorem C23_counterexample :
    reachable scn_denied ∧ get_watcher scn_denied 0 = some scn_denied_watcher ∧
    scn_denied_watcher.devices_not_to_watch = some [5] ∧
    watcher_cares_about_dev scn_denied_watcher 5 = false ∧
    pending scn_denied_watcher = [] ∧
    add_fsevent scn_denied FSE_UNMOUNT_PENDING scn_unmount_args (scn_env 1000) =
      some (0, scn_denied_unmount) ∧
    (get_watcher scn_denied_unmount 0).map pending = some [some 0] ∧
    (deref scn_denied_unmount 0).map (fun e => (e.type, e.dev)) =
      some (FSE_UNMOUNT_PENDING, 5) ∧
    add_fsevent scn_denied FSE_CREATE_FILE scn_dev5_args (scn_env 1000) =
      some (0, scn_denied_create) ∧
    (get_watcher scn_denied_create 0).map pending = some [] :=
  ⟨scn_denied_reachable, by decide, by decide, by decide,
    by decide, by decide, by decide, by decide, by decide, by decide⟩

/-- C23 (amended): in a reachable state, a queue gets a new entry in the pass
with the fan-out only if it is the event of the pass and the device held in
the local `dev` after the argument block is not in the watcher's denylist; the
argument blocks of DocId, Activity, AccessGranted and UnmountPending events
leave that local alone, so an `add_fsevent` of these kinds, which starts with
`dev = 0`, enqueues the event only to watchers that care about device 0,
whatever device the event records. -/
theorem C23_device_filter {s : fsevents_state} (hreach : reachable s) :
    (∀ (type : Int) (ap : List va_word) (env : fse_env) (now : Nat) (l : add_locals)
        (links : List link_reply) (res : pass_result),
      0 ≤ type → type < FSE_MAX_EVENTS →
      publish_pass s type ap env now l links = some res →
      ∀ (i : Nat) (w w1 : fs_event_watcher), get_watcher s i = some w →
        get_watcher (pass_state res) i = some w1 →
        ∀ x, x ∈ pending w1 → x ∉ pending w →
          ∃ k dd sa s2 l1, x = some k ∧ alloc_events s type = (some k, dd, sa) ∧
            fill_event (publish_events sa type now env.pid k dd) type k dd ap env l =
              some (s2, l1, false) ∧
            watcher_cares_about_dev w l1.dev = true ∧
            (special_kind type → l1.dev = l.dev)) ∧
    (∀ (type : Int) (ap : List va_word) (env : fse_env) (r : Int) (s1 : fsevents_state),
      special_kind type → add_fsevent s type ap env = some (r, s1) →
      ∀ (i : Nat) (w w1 : fs_event_watcher), get_watcher s i = some w →
        get_watcher s1 i = some w1 →
        ∀ x, x ∈ pending w1 → x ∉ pending w → watcher_cares_about_dev w 0 = true) :=
  ⟨fun _ _ _ _ _ _ _ h0 h1 hp _ _ _ hw hw1 _ hx hnx =>
      publish_pass_filter (reachable_inv hreach) ⟨h0, h1⟩ hp hw hw1 hx hnx,
    fun _ _ _ _ _ hsp hr _ _ _ hw hw1 _ hx hnx =>
      add_fsevent_special_filter (reachable_inv hreach) hsp hr hw hw1 hx hnx⟩

/-- C23 (amended) at the watcher with device 5 on its denylist and the
UnmountPending event of device 5: the watcher cares about device 0. -/
theorem C23_device_filter_witness :
    reachable scn_denied ∧ special_kind FSE_UNMOUNT_PENDING ∧
    add_fsevent scn_denied FSE_UNMOUNT_PENDING scn_unmount_args (scn_env 1000) =
      some (0, scn_denied_unmount) ∧
    get_watcher scn_denied 0 = some scn_denied_watcher ∧
    (∀ w1, get_watcher scn_denied_unmount 0 = some w1 →
      ∀ x, x ∈ pending w1 → x ∉ pending scn_denied_watcher →
        watcher_cares_about_dev scn_denied_watcher 0 = true) :=
  ⟨scn_denied_reachable, by decide, by decide, by decide,
    fun w1 hw1 x hx hnx =>
      (C23_device_filter scn_denied_reachable).2
        FSE_UNMOUNT_PENDING scn_unmount_args (scn_env 1000) 0 scn_denied_unmount (by decide)
        (by decide) 0 scn_denied_watcher w1 (by decide) hw1 x hx hnx⟩

/-! ## C21 -/

/-- The fields of an event without destination end with the event itself. -/
theorem body_fields_leaf_last {s : fsevents_state} {w : fs_event_watcher} {type : Int}
    {e last : kfs_event} {fs : List (Int × List Nat)} (hd : e.dest = none) :
    ∀ n, body_fields s w type n e = some (fs, last) → last = e := by
  intro n h
  cases n with
  | zero => simp [body_fields] at h
  | succ n =>
    simp only [body_fields, hd] at h
    split at h
    · cases h; rfl
    · split at h
      · cases h; rfl
      · split at h
        · cases h; rfl
        · split at h
          · split at h <;> (cases h; rfl)
          · split at h
            · cases h; rfl
            · cases h; rfl

/-- The last event `copy_out_kfse` writes fields of is the event itself or the
destination it links. -/
theorem body_fields_last {s : fsevents_state} {w : fs_event_watcher} {type : Int}
    {e last : kfs_event} {fs : List (Int × List Nat)} {cnt : Nat → Nat} {p : Nat}
    (hz : zone_ok s.event_zone cnt) (he : deref s p = some e) :
    ∀ n, body_fields s w type n e = some (fs, last) →
      last = e ∨ ∃ d, e.dest = some d ∧ deref s d = some last := by
  intro n h
  cases hdest : e.dest with
  | none => exact Or.inl (body_fields_leaf_last hdest n h)
  | some d =>
    obtain ⟨_, _, hdd, _⟩ := hz.2 p e he
    obtain ⟨_, de, hde, hoff⟩ := hdd d hdest
    have hdn : de.dest = none := ((hz.2 d de hde).2.1 hoff).2.1
    cases n with
    | zero => simp [body_fields] at h
    | succ n =>
      simp only [body_fields, hdest] at h
      split at h
      · cases h; exact Or.inl rfl
      · split at h
        · cases h; exact Or.inl rfl
        · split at h
          · cases h; exact Or.inl rfl
          · split at h
            · split at h <;> (cases h; exact Or.inl rfl)
            · split at h
              · cases h; exact Or.inl rfl
              · have hde' : deref s d = some de := hde
                rw [hde'] at h
                dsimp only at h
                split at h
                · cases h
                · rename_i more last' hb
                  cases h
                  exact Or.inr ⟨d, rfl, by rw [body_fields_leaf_last hdn n hb]; exact hde'⟩

/-- What a read puts out for a pending entry of a registered watcher is
nothing, or one record of another kind than the synthetic one whose last field
is the timestamp of the event or of the destination it links. -/
theorem entry_bytes_trailer {s : fsevents_state} {j : Nat} {w : fs_event_watcher} {p : Nat}
    (hs : sys_ok s (fun _ => 0)) (hw : get_watcher s j = some w) (hp : some p ∈ pending w) :
    entry_bytes s w p = [] ∨
      ∃ kind pid fields, entry_bytes s w p = encode_record kind pid fields ∧
        (kind ≠ FSE_EVENTS_DROPPED ∧
          ∃ q e last body, some q ∈ pending w ∧ deref s q = some e ∧
            (last = e ∨ ∃ d, e.dest = some d ∧ deref s d = some last) ∧
            fields = body ++ [(FSE_ARG_INT64, le_bytes 8 last.abstime)]) := by
  obtain ⟨e, he, _, h0, h1, _⟩ := pending_on_list hs hw hp
  unfold entry_bytes
  rw [he]
  dsimp only
  unfold read_bytes
  split
  · split
    · exact Or.inl rfl
    · unfold wire_record
      split
      · exact Or.inl rfl
      · split
        · exact Or.inl rfl
        · split
          · exact Or.inl rfl
          · split
            · exact Or.inl rfl
            · rename_i fields cur hb
              refine Or.inr ⟨_, _, _, rfl, wire_kind_ne_dropped w e h0 h1, p, e, cur, fields, hp,
                he, body_fields_last hs.1 he _ hb, rfl⟩
  · exact Or.inl rfl

/-- The bytes of a sequence of records given by kind, pid and fields, each with
a property of its own. -/
theorem read_out_records_of (s : fsevents_state) (w : fs_event_watcher)
    (P : Int → Int → List (Int × List Nat) → Prop) :
    ∀ (taken : List Nat),
    (∀ p ∈ taken, entry_bytes s w p = [] ∨
      ∃ kind pid fields, entry_bytes s w p = encode_record kind pid fields ∧
        P kind pid fields) →
    ∃ recs : List (Int × Int × List (Int × List Nat)),
      read_out s w taken = (recs.map (fun x => encode_record x.1 x.2.1 x.2.2)).flatten ∧
      ∀ x ∈ recs, P x.1 x.2.1 x.2.2 := by
  intro taken
  induction taken with
  | nil => intro _; exact ⟨[], rfl, by simp⟩
  | cons a t ih =>
    intro h
    obtain ⟨recs, h1, h2⟩ := ih (fun p hp => h p (List.mem_cons_of_mem _ hp))
    rcases h a (List.mem_cons_self _ _) with h0 | ⟨k, pid, f, h0, hk⟩
    · exact ⟨recs, by rw [read_out_cons, h0, h1]; rfl, h2⟩
    · refine ⟨(k, pid, f) :: recs, by rw [read_out_cons, h0, h1]; simp, ?_⟩
      intro x hx
      rcases List.mem_cons.mp hx with rfl | hx
      · exact hk
      · exact h2 x hx

/-- The end of a record whose last field is a timestamp. -/
theorem encode_record_stamp (kind pid : Int) (body : List (Int × List Nat)) (t : Nat) :
    encode_record kind pid (body ++ [(FSE_ARG_INT64, le_bytes 8 t)]) =
      le_bytes_int32 kind ++ le_bytes_int32 pid ++ encode_fields body ++
        encode_field (FSE_ARG_INT64, le_bytes 8 t) ++ done_bytes := by
  simp [encode_record, encode_fields]

/-- One `watcher_add_event` on a ring of 16 slots of a watcher that is no system
service: up to 12 pending entries the event is appended, and the 13th entry
makes the call drain the queue and set `WATCHER_DROPPED_EVENTS`. -/
theorem enqueue_16 {sm s2 : fsevents_state} {held : Nat → Nat} {i p : Nat} {r : Int}
    {w : fs_event_watcher} (hs : sys_ok sm held) (hp : 1 ≤ held p)
    (hw : get_watcher sm i = some w) (hsz : w.eventq_size = 16)
    (hns : has_flag w.flags WATCHER_APPLE_SYSTEM_SERVICE = false)
    (hn : num_pending w ≤ 12) (hres : watcher_add_event sm i p = some (r, s2)) :
    ∃ w2, get_watcher s2 i = some w2 ∧ w2.eventq_size = 16 ∧
      has_flag w2.flags WATCHER_APPLE_SYSTEM_SERVICE = false ∧
      (num_pending w < 12 → pending w2 = pending w ++ [some p] ∧
        has_flag w2.flags WATCHER_DROPPED_EVENTS = has_flag w.flags WATCHER_DROPPED_EVENTS) ∧
      (num_pending w = 12 → pending w2 = [] ∧
        has_flag w2.flags WATCHER_DROPPED_EVENTS = true) := by
  have hwok := hs.2 i w hw
  have hlt : i < sm.watcher_table.length := get_watcher_some_lt hw
  have hrd : w.rd < w.eventq_size := by rcases hwok.1.rd_lt with g | ⟨g, _⟩ <;> omega
  have hwr : w.wr < w.eventq_size := by rcases hwok.1.wr_lt with g | ⟨g, _⟩ <;> omega
  have hnp := num_pending_eq hrd hwr
  have hnf : (w.wr + 1) % w.eventq_size ≠ w.rd := by
    rw [hsz] at hrd hwr hnp ⊢
    split at hnp <;> omega
  obtain ⟨hpe, hrok, hnp1⟩ := @pending_enqueue w (enqueued w p) (some p) hwok.1 (by omega) hnf
    rfl rfl rfl rfl
  have hrd1 : (enqueued w p).rd < (enqueued w p).eventq_size := hrd
  have hwr1 : (enqueued w p).wr < (enqueued w p).eventq_size :=
    Nat.mod_lt _ (by omega)
  have hfb : falling_behind (enqueued w p) = decide (12 < num_pending w + 1) := by
    unfold falling_behind
    rw [pending_count_eq hrd1 hwr1, hnp1]
    have h1 : (enqueued w p).flags = w.flags := rfl
    have h2 : (enqueued w p).eventq_size = 16 := hsz
    rw [h1, hns, h2]
    have h3 : (wrap32 (((16 : Nat) : Int) * 3)).tdiv 4 = 12 := by decide
    rw [h3]
    simp only [Bool.not_false, Bool.and_true, gt_iff_lt]
    congr 1
    apply propext
    constructor <;> intro h <;> omega
  obtain ⟨w2, htab, hk, _, _, _⟩ := watcher_add_event_queue hs hp hw hres
  have hw2 : get_watcher s2 i = some w2 := get_watcher_table_set_same htab hlt
  refine ⟨w2, hw2, hk.2.2.1.trans hsz, hk.2.2.2.trans hns, fun hlt12 => ?_, fun h12 => ?_⟩
  · have hfb' : falling_behind (enqueued w p) = false := by
      rw [hfb]; simp; omega
    obtain ⟨e, he, _⟩ := zone_ok_alloc_of_pos hs.1 (p := p) (by show 1 ≤ _ + _; omega)
    obtain ⟨t, ht⟩ := watcher_add_event_room sm i p w e hw he (by omega) hnf hfb'
    rw [ht] at hres
    simp only [Option.some.injEq, Prod.mk.injEq] at hres
    obtain ⟨_, rfl⟩ := hres
    have h3 : get_watcher (set_watcher
        ({ store sm p { e with refcount := e.refcount + 1 } with timer_set := t } :
          fsevents_state) i
        (some (enqueued { w with max_event_id := if e.abstime > w.max_event_id then e.abstime
                            else w.max_event_id } p))) i = some _ :=
      get_set_watcher_same _ i _ hlt
    rw [h3] at hw2
    cases hw2
    exact ⟨by rw [← hpe]; exact pending_congr rfl rfl rfl rfl, rfl⟩
  · have hgt : 4 * num_pending (enqueued w p) > 3 * w.eventq_size := by
      rw [hnp1, hsz]; omega
    have hfb1 : falling_behind (enqueued w p) = true :=
      falling_behind_of_gt hrd1 hwr1 hgt hns
    obtain ⟨_, _, _, w1, htab1, hdr⟩ := watcher_add_event_ok hs hp hw
      (fun g => by rw [hfb1] at g; cases g) hres
    obtain ⟨_, a3, a4⟩ := hdr hnf hfb1
    have hw1 : get_watcher s2 i = some w1 := get_watcher_table_set_same htab1 hlt
    rw [hw1] at hw2
    cases hw2
    exact ⟨pending_nil_of_eq a3, a4⟩

/-- One call of `watcher_add_event` between two states, on a ring of 16 slots of
a watcher that is no system service. -/
theorem enqueues_16 {s s1 : fsevents_state} {i p : Nat} {w : fs_event_watcher}
    (h : enqueues i p s s1) (hw : get_watcher s i = some w) (hsz : w.eventq_size = 16)
    (hns : has_flag w.flags WATCHER_APPLE_SYSTEM_SERVICE = false) (hn : num_pending w ≤ 12) :
    ∃ w1, get_watcher s1 i = some w1 ∧ w1.eventq_size = 16 ∧
      has_flag w1.flags WATCHER_APPLE_SYSTEM_SERVICE = false ∧
      (num_pending w < 12 → pending w1 = pending w ++ [some p] ∧
        has_flag w1.flags WATCHER_DROPPED_EVENTS = has_flag w.flags WATCHER_DROPPED_EVENTS) ∧
      (num_pending w = 12 → pending w1 = [] ∧
        has_flag w1.flags WATCHER_DROPPED_EVENTS = true) := by
  obtain ⟨sm, held, r, s2, a1, a2, a3, a4, a5⟩ := h
  obtain ⟨w2, b1, b2⟩ := enqueue_16 a1 a2 (a3.trans hw) hsz hns hn a4
  exact ⟨w2, a5.trans b1, b2⟩

/-- Calls of `watcher_add_event` that leave at most 12 entries pending append
their events to the queue. -/
theorem enqueues_all_grow (i : Nat) : ∀ (ps : List Nat) (s s1 : fsevents_state)
    (w : fs_event_watcher), get_watcher s i = some w → w.eventq_size = 16 →
    has_flag w.flags WATCHER_APPLE_SYSTEM_SERVICE = false →
    num_pending w + ps.length ≤ 12 → enqueues_all i ps s s1 →
    ∃ w1, get_watcher s1 i = some w1 ∧ w1.eventq_size = 16 ∧
      has_flag w1.flags WATCHER_APPLE_SYSTEM_SERVICE = false ∧
      pending w1 = pending w ++ ps.map some ∧
      has_flag w1.flags WATCHER_DROPPED_EVENTS = has_flag w.flags WATCHER_DROPPED_EVENTS := by
  intro ps
  induction ps with
  | nil =>
    intro s s1 w hw hsz hns _ h
    exact ⟨w, (show get_watcher s1 i = get_watcher s i from h).trans hw, hsz, hns, by simp, rfl⟩
  | cons p ps ih =>
    intro s s1 w hw hsz hns hn h
    obtain ⟨s0, h1, h2⟩ := h
    simp only [List.length_cons] at hn
    obtain ⟨w0, a1, a2, a3, a4, _⟩ := enqueues_16 h1 hw hsz hns (by omega)
    obtain ⟨a5, a6⟩ := a4 (by omega)
    have hn0 : num_pending w0 = num_pending w + 1 := by
      rw [← pending_length, a5, List.length_append, pending_length]
      rfl
    obtain ⟨w1, b1, b2, b3, b4, b5⟩ := ih s0 s1 w0 a1 a2 a3 (by omega) h2
    exact ⟨w1, b1, b2, b3, by rw [b4, a5]; simp, b5.trans a6⟩

theorem enqueues_all_append (i : Nat) : ∀ (a b : List Nat) (s s1 : fsevents_state),
    enqueues_all i (a ++ b) s s1 → ∃ s0, enqueues_all i a s s0 ∧ enqueues_all i b s0 s1 := by
  intro a
  induction a with
  | nil => intro b s s1 h; exact ⟨s, rfl, h⟩
  | cons p a ih =>
    intro b s s1 h
    obtain ⟨s0, h1, h2⟩ := h
    obtain ⟨s3, h3, h4⟩ := ih b s0 s1 h2
    exact ⟨s3, ⟨s0, h1, h3⟩, h4⟩

/-- A read takes every entry of the queue when the room is more than their
records need. -/
theorem read_spec_all (s : fsevents_state) (w : fs_event_watcher) :
    ∀ (l : List Nat) (resid : Int), ((read_out s w l).length : Int) < resid →
      read_spec s w (l.map some) resid = l := by
  intro l
  induction l with
  | nil => intro _ _; rfl
  | cons p l ih =>
    intro resid h
    rw [read_out_cons, List.length_append] at h
    push_cast at h
    simp only [List.map_cons, read_spec]
    rw [if_pos ⟨by omega, by omega⟩, ih _ (by omega)]

/-- The queue of a watcher with a ring of 16 slots that is no system service,
after 20 calls of `watcher_add_event` on its empty queue: the last 7 events,
with `WATCHER_DROPPED_EVENTS` set. -/
theorem enqueues_all_20 {s s1 : fsevents_state} {i : Nat} {w : fs_event_watcher}
    {ps : List Nat} (hw : get_watcher s i = some w) (hsz : w.eventq_size = 16)
    (hempty : w.rd = w.wr)
    (hns : has_flag w.flags WATCHER_APPLE_SYSTEM_SERVICE = false)
    (hlen : ps.length = 20) (h : enqueues_all i ps s s1) :
    ∃ w1, get_watcher s1 i = some w1 ∧ pending w1 = (ps.drop 13).map some ∧
      has_flag w1.flags WATCHER_DROPPED_EVENTS = true := by
  have hp0 : pending w = [] := pending_nil_of_eq hempty
  have hn0 : num_pending w = 0 := by rw [← pending_length, hp0]; rfl
  have hsplit : ps = ps.take 12 ++ ps.drop 12 := (List.take_append_drop 12 ps).symm
  have hd12 : (ps.drop 12).length = 8 := by rw [List.length_drop, hlen]
  obtain ⟨b, c, hbc⟩ : ∃ b c, ps.drop 12 = b :: c := by
    cases hq : ps.drop 12 with
    | nil => rw [hq] at hd12; cases hd12
    | cons b c => exact ⟨b, c, rfl⟩
  have hc : c = ps.drop 13 := by
    have : ps.drop 13 = (ps.drop 12).drop 1 := by rw [List.drop_drop]
    rw [this, hbc]; rfl
  have hclen : c.length = 7 := by rw [hc, List.length_drop, hlen]
  rw [hsplit] at h
  obtain ⟨s12, h1, h2⟩ := enqueues_all_append i _ _ s s1 h
  rw [hbc] at h2
  obtain ⟨s13, h3, h4⟩ := h2
  obtain ⟨w12, a1, a2, a3, a4, _⟩ := enqueues_all_grow i _ s s12 w hw hsz hns
    (by rw [hn0, List.length_take, hlen]; decide) h1
  have hn12 : num_pending w12 = 12 := by
    rw [← pending_length, a4, hp0, List.nil_append, List.length_map, List.length_take, hlen]
    rfl
  obtain ⟨w13, b1, b2, b3, _, b5⟩ := enqueues_16 h3 a1 a2 a3 (by omega)
  obtain ⟨b6, b7⟩ := b5 hn12
  have hn13 : num_pending w13 = 0 := by rw [← pending_length, b6]; rfl
  obtain ⟨w1, c1, _, _, c4, c5⟩ := enqueues_all_grow i c s13 s1 w13 b1 b2 b3
    (by rw [hn13, hclen]; decide) h4
  exact ⟨w1, c1, by rw [c4, b6, hc]; rfl, c5.trans b7⟩

/-- C25 (amended): let a watcher that is no system service have a ring of 16
slots and an empty queue, and let `watcher_add_event` be called for it with 20
events in turn, with no read in between.  Then its queue holds the last 7 of
the events and `WATCHER_DROPPED_EVENTS` is set (the queue was emptied when the
13th event arrived); and the next read, into a buffer that does not fault and
has room, yields the synthetic EventsDropped record followed by what a read
puts out for these 7 events, oldest first. -/
theorem C25_refill_after_drain {s s1 : fsevents_state} {i : Nat} {w : fs_event_watcher}
    {ps : List Nat} (hw : get_watcher s i = some w) (hsz : w.eventq_size = 16)
    (hempty : w.rd = w.wr)
    (hns : has_flag w.flags WATCHER_APPLE_SYSTEM_SERVICE = false)
    (hlen : ps.length = 20) (h : enqueues_all i ps s s1) :
    ∃ w1, get_watcher s1 i = some w1 ∧ pending w1 = (ps.drop 13).map some ∧
      (ps.drop 13).length = 7 ∧
      has_flag w1.flags WATCHER_DROPPED_EVENTS = true ∧
      (reachable s1 → w1.num_readers = 0 →
        ∀ (u : uio) (sleep_err : Int), u.errs = [] → 2048 ≤ u.resid →
          (10 + (read_out s1 w1 (ps.drop 13)).length : Int) < u.resid →
          ∃ (r : Int) (s2 : fsevents_state) (u1 : uio) (more : List Nat),
            fmod_watch s1 i u sleep_err = some (r, s2, u1) ∧
            u1.written = u.written ++ encode_record FSE_EVENTS_DROPPED 0 [] ++
              read_out s1 w1 (ps.drop 13) ++ more ∧
            u.resid - u1.resid = 10 + (read_out s1 w1 (ps.drop 13)).length) := by
  obtain ⟨w1, a1, a2, a3⟩ := enqueues_all_20 hw hsz hempty hns hlen h
  have h7 : (ps.drop 13).length = 7 := by rw [List.length_drop, hlen]
  refine ⟨w1, a1, a2, h7, a3, fun hreach hnr u sleep_err hu hres hfit => ?_⟩
  have hs := reachable_inv hreach
  have hgo : ¬ (w1.rd = w1.wr ∧ sleep_err ≠ 0) := by
    rintro ⟨g, _⟩
    have := pending_nil_of_eq g
    rw [a2] at this
    have h0 := congrArg List.length this
    rw [List.length_map, h7] at h0
    cases h0
  have hdb : dropped_bytes w1 = encode_record FSE_EVENTS_DROPPED 0 [] := by
    unfold dropped_bytes
    rw [if_pos a3]
    rfl
  have hdl : (dropped_bytes w1).length = 10 := by rw [hdb]; decide
  have htaken : read_taken s1 w1 u.resid = ps.drop 13 := by
    unfold read_taken
    rw [a2, hdl]
    exact read_spec_all s1 w1 _ _ (by push_cast; omega)
  obtain ⟨r, s2, u1, junk, w2, b1, _, _, _, _, _, _, _, _, _, b11, b12, _⟩ :=
    fmod_watch_spec sleep_err hs a1 hnr hu hres hgo
  rw [htaken] at b11 b12
  refine ⟨r, s2, u1, junk, b1, by rw [b11, hdb], ?_⟩
  rw [b12, hdl]
  push_cast
  ring

theorem scn_deep_reachable : reachable scn_deep :=
  reachable.add_watcher (List.replicate 17 FSE_REPORT) 17 16 {} (reachable.init 32)

/-- One publish of the burst, seen at the queue of watcher 0: the call of
`watcher_add_event` for the new event in the state in which the publisher holds
the one reference to it. -/
theorem scn_burst_step (n k : Nat) (r : Int) (s2 : fsevents_state)
    (hr : reachable (scn_burst n))
    (ha : alloc_events (scn_burst n) FSE_CREATE_FILE =
      (some k, none, (alloc_events (scn_burst n) FSE_CREATE_FILE).2.2))
    (h1 : get_watcher (scn_burst_mid n) 0 = get_watcher (scn_burst n) 0)
    (h2 : watcher_add_event (scn_burst_mid n) 0 k = some (r, s2))
    (h3 : get_watcher (scn_burst (n + 1)) 0 = get_watcher s2 0) :
    enqueues 0 k (scn_burst n) (scn_burst (n + 1)) := by
  have hk : scn_burst_mid n = publish_events (alloc_events (scn_burst n) FSE_CREATE_FILE).2.2
      FSE_CREATE_FILE (1000 * (n + 1)) 100 k none := by
    unfold scn_burst_mid
    rw [ha]
    rfl
  have hok := (@alloc_publish_ok _ _ FSE_CREATE_FILE (1000 * (n + 1)) 100 k none
    (reachable_inv hr) (by decide) ha).1
  rw [← hk] at hok
  exact ⟨scn_burst_mid n, _, r, s2, hok, by simp, h1, h2, h3⟩

theorem scn_burst_step_pre : reachable (scn_burst 0) := scn_deep_reachable

theorem scn_burst_reachable_1 : reachable (scn_burst 1) :=
  reachable.add_fsevent FSE_CREATE_FILE scn_path_args (scn_env 1000) 0 scn_burst_step_pre
    (show add_fsevent (scn_burst 0) FSE_CREATE_FILE scn_path_args (scn_env 1000) =
      some (0, scn_burst 1) by decide)

theorem scn_burst_enqueues_0 : enqueues 0 0 (scn_burst 0) (scn_burst 1) :=
  scn_burst_step 0 0 0 ((watcher_add_event (scn_burst_mid 0) 0 0).getD (0, scn_burst 0)).2
    scn_burst_step_pre (by decide) (by decide) (by decide) (by decide)

theorem scn_burst_reachable_2 : reachable (scn_burst 2) :=
  reachable.add_fsevent FSE_CREATE_FILE scn_path_args (scn_env 2000) 0 scn_burst_reachable_1
    (show add_fsevent (scn_burst 1) FSE_CREATE_FILE scn_path_args (scn_env 2000) =
      some (0, scn_burst 2) by decide)

theorem scn_burst_enqueues_1 : enqueues 0 1 (scn_burst 1) (scn_burst 2) :=
  scn_burst_step 1 1 0 ((watcher_add_event (scn_burst_mid 1) 0 1).getD (0, scn_burst 1)).2
    scn_burst_reachable_1 (by decide) (by decide) (by decide) (by decide)

theorem scn_burst_reachable_3 : reachable (scn_burst 3) :=
  reachable.add_fsevent FSE_CREATE_FILE scn_path_args (scn_env 3000) 0 scn_burst_reachable_2
    (show add_fsevent (scn_burst 2) FSE_CREATE_FILE scn_path_args (scn_env 3000) =
      some (0, scn_burst 3) by decide)

theorem scn_burst_enqueues_2 : enqueues 0 2 (scn_burst 2) (scn_burst 3) :=
  scn_burst_step 2 2 0 ((watcher_add_event (scn_burst_mid 2) 0 2).getD (0, scn_burst 2)).2
    scn_burst_reachable_2 (by decide) (by decide) (by decide) (by decide)

theorem scn_burst_reachable_4 : reachable (scn_burst 4) :=
  reachable.add_fsevent FSE_CREATE_FILE scn_path_args (scn_env 4000) 0 scn_burst_reachable_3
    (show add_fsevent (scn_burst 3) FSE_CREATE_FILE scn_path_args (scn_env 4000) =
      some (0, scn_burst 4) by decide)

theorem scn_burst_enqueues_3 : enqueues 0 3 (scn_burst 3) (scn_burst 4) :=
  scn_burst_step 3 3 0 ((watcher_add_event (scn_burst_mid 3) 0 3).getD (0, scn_burst 3)).2
    scn_burst_reachable_3 (by decide) (by decide) (by decide) (by decide)

theorem scn_burst_reachable_5 : reachable (scn_burst 5) :=
  reachable.add_fsevent FSE_CREATE_FILE scn_path_args (scn_env 5000) 0 scn_burst_reachable_4
    (show add_fsevent (scn_burst 4) FSE_CREATE_FILE scn_path_args (scn_env 5000) =
      some (0, scn_burst 5) by decide)

theorem scn_burst_enqueues_4 : enqueues 0 4 (scn_burst 4) (scn_burst 5) :=
  scn_burst_step 4 4 0 ((watcher_add_event (scn_burst_mid 4) 0 4).getD (0, scn_burst 4)).2
    scn_burst_reachable_4 (by decide) (by decide) (by decide) (by decide)

theorem scn_burst_reachable_6 : reachable (scn_burst 6) :=
  reachable.add_fsevent FSE_CREATE_FILE scn_path_args (scn_env 6000) 0 scn_burst_reachable_5
    (show add_fsevent (scn_burst 5) FSE_CREATE_FILE scn_path_args (scn_env 6000) =
      some (0, scn_burst 6) by decide)

theorem scn_burst_enqueues_5 : enqueues 0 5 (scn_burst 5) (scn_burst 6) :=
  scn_burst_step 5 5 0 ((watcher_add_event (scn_burst_mid 5) 0 5).getD (0, scn_burst 5)).2
    scn_burst_reachable_5 (by decide) (by decide) (by decide) (by decide)

theorem scn_burst_reachable_7 : reachable (scn_burst 7) :=
  reachable.add_fsevent FSE_CREATE_FILE scn_path_args (scn_env 7000) 0 scn_burst_reachable_6
    (show add_fsevent (scn_burst 6) FSE_CREATE_FILE scn_path_args (scn_env 7000) =
      some (0, scn_burst 7) by decide)

theorem scn_burst_enqueues_6 : enqueues 0 6 (scn_burst 6) (scn_burst 7) :=
  scn_burst_step 6 6 0 ((watcher_add_event (scn_burst_mid 6) 0 6).getD (0, scn_burst 6)).2
    scn_burst_reachable_6 (by decide) (by decide) (by decide) (by decide)

theorem scn_burst_reachable_8 : reachable (scn_burst 8) :=
  reachable.add_fsevent FSE_CREATE_FILE scn_path_args (scn_env 8000) 0 scn_burst_reachable_7
    (show add_fsevent (scn_burst 7) FSE_CREATE_FILE scn_path_args (scn_env 8000) =
      some (0, scn_burst 8) by decide)

theorem scn_burst_enqueues_7 : enqueues 0 7 (scn_burst 7) (scn_burst 8) :=
  scn_burst_step 7 7 0 ((watcher_add_event (scn_burst_mid 7) 0 7).getD (0, scn_burst 7)).2
    scn_burst_reachable_7 (by decide) (by decide) (by decide) (by decide)

theorem scn_burst_reachable_9 : reachable (scn_burst 9) :=
  reachable.add_fsevent FSE_CREATE_FILE scn_path_args (scn_env 9000) 0 scn_burst_reachable_8
    (show add_fsevent (scn_burst 8) FSE_CREATE_FILE scn_path_args (scn_env 9000) =
      some (0, scn_burst 9) by decide)

theorem scn_burst_enqueues_8 : enqueues 0 8 (scn_burst 8) (scn_burst 9) :=
  scn_burst_step 8 8 0 ((watcher_add_event (scn_burst_mid 8) 0 8).getD (0, scn_burst 8)).2
    scn_burst_reachable_8 (by decide) (by decide) (by decide) (by decide)

theorem scn_burst_reachable_10 : reachable (scn_burst 10) :=
  reachable.add_fsevent FSE_CREATE_FILE scn_path_args (scn_env 10000) 0 scn_burst_reachable_9
    (show add_fsevent (scn_burst 9) FSE_CREATE_FILE scn_path_args (scn_env 10000) =
      some (0, scn_burst 10) by decide)

theorem scn_burst_enqueues_9 : enqueues 0 9 (scn_burst 9) (scn_burst 10) :=
  scn_burst_step 9 9 0 ((watcher_add_event (scn_burst_mid 9) 0 9).getD (0, scn_burst 9)).2
    scn_burst_reachable_9 (by decide) (by decide) (by decide) (by decide)

theorem scn_burst_reachable_11 : reachable (scn_burst 11) :=
  reachable.add_fsevent FSE_CREATE_FILE scn_path_args (scn_env 11000) 0 scn_burst_reachable_10
    (show add_fsevent (scn_burst 10) FSE_CREATE_FILE scn_path_args (scn_env 11000) =
      some (0, scn_burst 11) by decide)

theorem scn_burst_enqueues_10 : enqueues 0 10 (scn_burst 10) (scn_burst 11) :=
  scn_burst_step 10 10 0 ((watcher_add_event (scn_burst_mid 10) 0 10).getD (0, scn_burst 10)).2
    scn_burst_reachable_10 (by decide) (by decide) (by decide) (by decide)

theorem scn_burst_reachable_12 : reachable (scn_burst 12) :=
  reachable.add_fsevent FSE_CREATE_FILE scn_path_args (scn_env 12000) 0 scn_burst_reachable_11
    (show add_fsevent (scn_burst 11) FSE_CREATE_FILE scn_path_args (scn_env 12000) =
      some (0, scn_burst 12) by decide)

theorem scn_burst_enqueues_11 : enqueues 0 11 (scn_burst 11) (scn_burst 12) :=
  scn_burst_step 11 11 0 ((watcher_add_event (scn_burst_mid 11) 0 11).getD (0, scn_burst 11)).2
    scn_burst_reachable_11 (by decide) (by decide) (by decide) (by decide)

theorem scn_burst_reachable_13 : reachable (scn_burst 13) :=
  reachable.add_fsevent FSE_CREATE_FILE scn_path_args (scn_env 13000) 0 scn_burst_reachable_12
    (show add_fsevent (scn_burst 12) FSE_CREATE_FILE scn_path_args (scn_env 13000) =
      some (0, scn_burst 13) by decide)

theorem scn_burst_enqueues_12 : enqueues 0 12 (scn_burst 12) (scn_burst 13) :=
  scn_burst_step 12 12 0 ((watcher_add_event (scn_burst_mid 12) 0 12).getD (0, scn_burst 12)).2
    scn_burst_reachable_12 (by decide) (by decide) (by decide) (by decide)

theorem scn_burst_reachable_14 : reachable (scn_burst 14) :=
  reachable.add_fsevent FSE_CREATE_FILE scn_path_args (scn_env 14000) 0 scn_burst_reachable_13
    (show add_fsevent (scn_burst 13) FSE_CREATE_FILE scn_path_args (scn_env 14000) =
      some (0, scn_burst 14) by decide)

theorem scn_burst_enqueues_13 : enqueues 0 0 (scn_burst 13) (scn_burst 14) :=
  scn_burst_step 13 0 0 ((watcher_add_event (scn_burst_mid 13) 0 0).getD (0, scn_burst 13)).2
    scn_burst_reachable_13 (by decide) (by decide) (by decide) (by decide)

theorem scn_burst_reachable_15 : reachable (scn_burst 15) :=
  reachable.add_fsevent FSE_CREATE_FILE scn_path_args (scn_env 15000) 0 scn_burst_reachable_14
    (show add_fsevent (scn_burst 14) FSE_CREATE_FILE scn_path_args (scn_env 15000) =
      some (0, scn_burst 15) by decide)

theorem scn_burst_enqueues_14 : enqueues 0 1 (scn_burst 14) (scn_burst 15) :=
  scn_burst_step 14 1 0 ((watcher_add_event (scn_burst_mid 14) 0 1).getD (0, scn_burst 14)).2
    scn_burst_reachable_14 (by decide) (by decide) (by decide) (by decide)

theorem scn_burst_reachable_16 : reachable (scn_burst 16) :=
  reachable.add_fsevent FSE_CREATE_FILE scn_path_args (scn_env 16000) 0 scn_burst_reachable_15
    (show add_fsevent (scn_burst 15) FSE_CREATE_FILE scn_path_args (scn_env 16000) =
      some (0, scn_burst 16) by decide)

theorem scn_burst_enqueues_15 : enqueues 0 2 (scn_burst 15) (scn_burst 16) :=
  scn_burst_step 15 2 0 ((watcher_add_event (scn_burst_mid 15) 0 2).getD (0, scn_burst 15)).2
    scn_burst_reachable_15 (by decide) (by decide) (by decide) (by decide)

theorem scn_burst_reachable_17 : reachable (scn_burst 17) :=
  reachable.add_fsevent FSE_CREATE_FILE scn_path_args (scn_env 17000) 0 scn_burst_reachable_16
    (show add_fsevent (scn_burst 16) FSE_CREATE_FILE scn_path_args (scn_env 17000) =
      some (0, scn_burst 17) by decide)

theorem scn_burst_enqueues_16 : enqueues 0 3 (scn_burst 16) (scn_burst 17) :=
  scn_burst_step 16 3 0 ((watcher_add_event (scn_burst_mid 16) 0 3).getD (0, scn_burst 16)).2
    scn_burst_reachable_16 (by decide) (by decide) (by decide) (by decide)

theorem scn_burst_reachable_18 : reachable (scn_burst 18) :=
  reachable.add_fsevent FSE_CREATE_FILE scn_path_args (scn_env 18000) 0 scn_burst_reachable_17
    (show add_fsevent (scn_burst 17) FSE_CREATE_FILE scn_path_args (scn_env 18000) =
      some (0, scn_burst 18) by decide)

theorem scn_burst_enqueues_17 : enqueues 0 4 (scn_burst 17) (scn_burst 18) :=
  scn_burst_step 17 4 0 ((watcher_add_event (scn_burst_mid 17) 0 4).getD (0, scn_burst 17)).2
    scn_burst_reachable_17 (by decide) (by decide) (by decide) (by decide)

theorem scn_burst_reachable_19 : reachable (scn_burst 19) :=
  reachable.add_fsevent FSE_CREATE_FILE scn_path_args (scn_env 19000) 0 scn_burst_reachable_18
    (show add_fsevent (scn_burst 18) FSE_CREATE_FILE scn_path_args (scn_env 19000) =
      some (0, scn_burst 19) by decide)

theorem scn_burst_enqueues_18 : enqueues 0 5 (scn_burst 18) (scn_burst 19) :=
  scn_burst_step 18 5 0 ((watcher_add_event (scn_burst_mid 18) 0 5).getD (0, scn_burst 18)).2
    scn_burst_reachable_18 (by decide) (by decide) (by decide) (by decide)

theorem scn_burst_reachable_20 : reachable (scn_burst 20) :=
  reachable.add_fsevent FSE_CREATE_FILE scn_path_args (scn_env 20000) 0 scn_burst_reachable_19
    (show add_fsevent (scn_burst 19) FSE_CREATE_FILE scn_path_args (scn_env 20000) =
      some (0, scn_burst 20) by decide)

theorem scn_burst_enqueues_19 : enqueues 0 6 (scn_burst 19) (scn_burst 20) :=
  scn_burst_step 19 6 0 ((watcher_add_event (scn_burst_mid 19) 0 6).getD (0, scn_burst 19)).2
    scn_burst_reachable_19 (by decide) (by decide) (by decide) (by decide)

theorem enqueues_all_cons {i p : Nat} {ps : List Nat} {s s0 s1 : fsevents_state}
    (h1 : enqueues i p s s0) (h2 : enqueues_all i ps s0 s1) :
    enqueues_all i (p :: ps) s s1 := ⟨s0, h1, h2⟩

theorem enqueues_all_nil (i : Nat) (s : fsevents_state) : enqueues_all i [] s s := rfl

/-- The 20 publishes of the burst, as calls of `watcher_add_event` for the
watcher in slot 0. -/
theorem scn_burst_enqueues_all :
    enqueues_all 0 [0, 1, 2, 3, 4, 5, 6, 7, 8, 9, 10, 11, 12, 0, 1, 2, 3, 4, 5, 6] scn_deep (scn_burst 20) :=
  enqueues_all_cons scn_burst_enqueues_0 <|
  enqueues_all_cons scn_burst_enqueues_1 <|
  enqueues_all_cons scn_burst_enqueues_2 <|
  enqueues_all_cons scn_burst_enqueues_3 <|
  enqueues_all_cons scn_burst_enqueues_4 <|
  enqueues_all_cons scn_burst_enqueues_5 <|
  enqueues_all_cons scn_burst_enqueues_6 <|
  enqueues_all_cons scn_burst_enqueues_7 <|
  enqueues_all_cons scn_burst_enqueues_8 <|
  enqueues_all_cons scn_burst_enqueues_9 <|
  enqueues_all_cons scn_burst_enqueues_10 <|
  enqueues_all_cons scn_burst_enqueues_11 <|
  enqueues_all_cons scn_burst_enqueues_12 <|
  enqueues_all_cons scn_burst_enqueues_13 <|
  enqueues_all_cons scn_burst_enqueues_14 <|
  enqueues_all_cons scn_burst_enqueues_15 <|
  enqueues_all_cons scn_burst_enqueues_16 <|
  enqueues_all_cons scn_burst_enqueues_17 <|
  enqueues_all_cons scn_burst_enqueues_18 <|
  enqueues_all_cons scn_burst_enqueues_19 <|
  enqueues_all_nil 0 (scn_burst 20)

/-- C25, as the code has it: a watcher that is no system service, with a ring
of 16 slots and an empty queue, gets 20 CreateFile events published with no
read in between; each publish returns 0.  The 13th publish empties the queue,
and the 7 that follow are queued, so the next read yields the synthetic
EventsDropped record followed by the records of 7 events. -/
theorem C25_counterexample :
    get_watcher scn_deep 0 = some scn_deep_watcher ∧
    scn_deep_watcher.eventq_size = 16 ∧
    pending scn_deep_watcher = [] ∧
    has_flag scn_deep_watcher.flags WATCHER_APPLE_SYSTEM_SERVICE = false ∧
    (∀ n, n < 20 →
      add_fsevent (scn_burst n) FSE_CREATE_FILE scn_path_args (scn_env (1000 * (n + 1))) =
        some (0, scn_burst (n + 1))) ∧
    (List.range 21).map (fun n => num_pending ((get_watcher (scn_burst n) 0).getD scn_no_watcher)) =
      [0, 1, 2, 3, 4, 5, 6, 7, 8, 9, 10, 11, 12, 0, 1, 2, 3, 4, 5, 6, 7] ∧
    get_watcher (scn_burst 20) 0 = some scn_burst_watcher ∧
    pending scn_burst_watcher = [some 0, some 1, some 2, some 3, some 4, some 5, some 6] ∧
    has_flag scn_burst_watcher.flags WATCHER_DROPPED_EVENTS = true ∧
    fmod_watch (scn_burst 20) 0 (scn_buffer 2048) 0 = some scn_burst_read ∧
    scn_burst_read.1 = 0 ∧
    scn_burst_read.2.2.written =
      encode_record FSE_EVENTS_DROPPED 0 [] ++
      encode_record FSE_CREATE_FILE 100
        [(FSE_ARG_STRING, [47, 97, 0]), (FSE_ARG_INT64, le_bytes 8 14000)] ++
      encode_record FSE_CREATE_FILE 100
        [(FSE_ARG_STRING, [47, 97, 0]), (FSE_ARG_INT64, le_bytes 8 15000)] ++
      encode_record FSE_CREATE_FILE 100
        [(FSE_ARG_STRING, [47, 97, 0]), (FSE_ARG_INT64, le_bytes 8 16000)] ++
      encode_record FSE_CREATE_FILE 100
        [(FSE_ARG_STRING, [47, 97, 0]), (FSE_ARG_INT64, le_bytes 8 17000)] ++
      encode_record FSE_CREATE_FILE 100
        [(FSE_ARG_STRING, [47, 97, 0]), (FSE_ARG_INT64, le_bytes 8 18000)] ++
      encode_record FSE_CREATE_FILE 100
        [(FSE_ARG_STRING, [47, 97, 0]), (FSE_ARG_INT64, le_bytes 8 19000)] ++
      encode_record FSE_CREATE_FILE 100
        [(FSE_ARG_STRING, [47, 97, 0]), (FSE_ARG_INT64, le_bytes 8 20000)] ∧
    scn_burst_read.2.2.written ≠ encode_record FSE_EVENTS_DROPPED 0 [] := by
  refine ⟨by decide, by decide, by decide, by decide, by decide, by decide, by decide, by decide,
    by decide, by decide, by decide, by decide, by decide⟩

/-- C25 (amended) at the burst of 20 CreateFile events on the watcher of
`scn_deep`. -/
theorem C25_refill_after_drain_witness :
    get_watcher scn_deep 0 = some scn_deep_watcher ∧
    scn_deep_watcher.eventq_size = 16 ∧
    scn_deep_watcher.rd = scn_deep_watcher.wr ∧
    has_flag scn_deep_watcher.flags WATCHER_APPLE_SYSTEM_SERVICE = false ∧
    ([0, 1, 2, 3, 4, 5, 6, 7, 8, 9, 10, 11, 12, 0, 1, 2, 3, 4, 5, 6] : List Nat).length = 20 ∧
    enqueues_all 0 [0, 1, 2, 3, 4, 5, 6, 7, 8, 9, 10, 11, 12, 0, 1, 2, 3, 4, 5, 6] scn_deep (scn_burst 20) ∧
    ∃ w1, get_watcher (scn_burst 20) 0 = some w1 ∧
      pending w1 = (([0, 1, 2, 3, 4, 5, 6, 7, 8, 9, 10, 11, 12, 0, 1, 2, 3, 4, 5, 6] : List Nat).drop 13).map some ∧
      (([0, 1, 2, 3, 4, 5, 6, 7, 8, 9, 10, 11, 12, 0, 1, 2, 3, 4, 5, 6] : List Nat).drop 13).length = 7 ∧
      has_flag w1.flags WATCHER_DROPPED_EVENTS = true ∧
      (reachable (scn_burst 20) → w1.num_readers = 0 →
        ∀ (u : uio) (sleep_err : Int), u.errs = [] → 2048 ≤ u.resid →
          (10 + (read_out (scn_burst 20) w1 (([0, 1, 2, 3, 4, 5, 6, 7, 8, 9, 10, 11, 12, 0, 1, 2, 3, 4, 5, 6] : List Nat).drop 13)).length : Int) < u.resid →
          ∃ (r : Int) (s2 : fsevents_state) (u1 : uio) (more : List Nat),
            fmod_watch (scn_burst 20) 0 u sleep_err = some (r, s2, u1) ∧
            u1.written = u.written ++ encode_record FSE_EVENTS_DROPPED 0 [] ++
              read_out (scn_burst 20) w1 (([0, 1, 2, 3, 4, 5, 6, 7, 8, 9, 10, 11, 12, 0, 1, 2, 3, 4, 5, 6] : List Nat).drop 13) ++ more ∧
            u.resid - u1.resid =
              10 + (read_out (scn_burst 20) w1 (([0, 1, 2, 3, 4, 5, 6, 7, 8, 9, 10, 11, 12, 0, 1, 2, 3, 4, 5, 6] : List Nat).drop 13)).length) :=
  ⟨by decide, by decide, by decide, by decide, by decide, scn_burst_enqueues_all,
    C25_refill_after_drain (show get_watcher scn_deep 0 = some scn_deep_watcher by decide)
      (by decide) (by decide) (by decide) (by decide) scn_burst_enqueues_all⟩

/-! ## One release, field by field -/

theorem unintern_diff (names : List cstr) (a b : Option cstr) :
    unintern (unintern names a) b = names.diff (a.toList ++ b.toList) := by
  cases a <;> cases b <;> simp [unintern, List.diff_cons]

theorem freed_by_slots (e : kfs_event) (p q : Nat) :
    freed_by e p q ↔ (q = p ∨ q ∈ (owned_dest e).toList) := by
  rw [freed_by_iff]
  simp only [Option.mem_toList, Option.mem_def]

/-- One `release_event_ref` on an event on the list: either it takes one
reference of several and changes nothing else, or it takes the last one and
frees the event and the destination it owns, with their paths. -/
theorem release_step {s : fsevents_state} {p : Nat} {e : kfs_event} {cnt : Nat → Nat}
    (hz : zone_ok s.event_zone cnt) (he : deref s p = some e) (hl : on_list e = true) :
    ∃ s1, release_event_ref s p = some s1 ∧ s1.watcher_table = s.watcher_table ∧
      zone_ok s1.event_zone (fun q => if q = p then cnt q - 1 else cnt q) ∧
      s1.event_zone.length = s.event_zone.length ∧
      (e.refcount = 1 →
        s1.num_events_outstanding = s.num_events_outstanding - 1 ∧
        s1.names = s.names.diff ((owned_path e).toList ++ (dest_path s e).toList) ∧
        ∀ q, s1.event_zone.getD q none =
          if q = p ∨ q ∈ (owned_dest e).toList then none else s.event_zone.getD q none) ∧
      (e.refcount ≠ 1 →
        s1.num_events_outstanding = s.num_events_outstanding ∧ s1.names = s.names ∧
        ∀ q, s1.event_zone.getD q none =
          if q = p then some (unref e) else s.event_zone.getD q none) := by
  obtain ⟨s1, h1, h2, h3, h4⟩ := release_event_ref_ok hz he hl
  have hp : p < s.event_zone.length := getD_some_lt he
  refine ⟨s1, h1, h2, h3, h4.1, fun hrc => ?_, fun hrc => ?_⟩
  · obtain ⟨s2, a1, _, a3, _, _, a6, a7, a8⟩ := release_last_detail hz he hl hrc
    rw [h1] at a1
    cases a1
    refine ⟨a3, by rw [a6, unintern_diff], fun q => ?_⟩
    by_cases hq : freed_by e p q
    · rw [a7 q hq, if_pos ((freed_by_slots e p q).1 hq)]
    · rw [a8 q hq, if_neg (fun g => hq ((freed_by_slots e p q).2 g))]
  · have hge := ((hz.2 p e he).1 hl)
    have hgt : e.refcount > 1 := by
      have := hge.1
      have := hge.2.1
      omega
    rw [release_event_ref_gt he hgt] at h1
    cases h1
    refine ⟨rfl, rfl, fun q => ?_⟩
    show (s.event_zone.set p (some { e with refcount := e.refcount - 1 })).getD q none = _
    rw [getD_set_eq]
    by_cases hq : q = p
    · subst hq
      rw [if_pos ⟨rfl, hp⟩, if_pos rfl]
      rfl
    · rw [if_neg (fun g => hq g.1.symm), if_neg hq]

/-! ## Counting free elements -/

theorem filter_none_congr {α : Type} : ∀ (z z1 : List (Option α)), z1.length = z.length →
    (∀ q, (z1.getD q none).isNone = (z.getD q none).isNone) →
    (z1.filter (fun o => o.isNone)).length = (z.filter (fun o => o.isNone)).length := by
  intro z
  induction z with
  | nil =>
    intro z1 hl _
    cases z1 with
    | nil => rfl
    | cons _ _ => cases hl
  | cons a z ih =>
    intro z1 hl h
    cases z1 with
    | nil => cases hl
    | cons b z1 =>
      have h0 : b.isNone = a.isNone := h 0
      have ht := ih z1 (by simpa using hl) (fun q => h (q + 1))
      simp only [List.filter_cons, h0]
      split
      · simp only [List.length_cons, ht]
      · exact ht

theorem filter_none_set {α : Type} : ∀ (z : List (Option α)) (r : Nat),
    (z.getD r none).isSome = true →
    ((z.set r none).filter (fun o => o.isNone)).length =
      (z.filter (fun o => o.isNone)).length + 1 := by
  intro z
  induction z with
  | nil => intro r h; simp at h
  | cons a z ih =>
    intro r h
    cases r with
    | zero =>
      have ha : a.isSome = true := h
      cases a with
      | none => cases ha
      | some x => simp [List.filter_cons]
    | succ r =>
      have := ih r h
      simp only [List.set_cons_succ, List.filter_cons]
      split
      · simp only [List.length_cons, this]
      · exact this

/-- What one release returns to the pool. -/
theorem release_step_free {s s1 : fsevents_state} {p : Nat} {e : kfs_event} {cnt : Nat → Nat}
    (hz : zone_ok s.event_zone cnt) (he : deref s p = some e)
    (hlen : s1.event_zone.length = s.event_zone.length)
    (hq : ∀ q, s1.event_zone.getD q none =
      if q = p ∨ q ∈ (owned_dest e).toList then none else s.event_zone.getD q none) :
    free_slots s1 = free_slots s + (p :: (owned_dest e).toList).length := by
  have hpsome : (s.event_zone.getD p none).isSome = true := by
    rw [show s.event_zone.getD p none = some e from he]; rfl
  have hplt : p < s.event_zone.length := getD_some_lt he
  unfold free_slots
  cases hd : owned_dest e with
  | none =>
    show _ = (s.event_zone.filter (fun o => o.isNone)).length + 1
    rw [← filter_none_set _ p hpsome]
    apply filter_none_congr
    · rw [hlen, List.length_set]
    · intro q
      rw [hq q, hd, getD_set_eq]
      by_cases hqp : q = p
      · subst hqp; simp [hplt]
      · simp [hqp, Ne.symm hqp]
  | some d =>
    have hdest : e.dest = some d := by
      unfold owned_dest at hd
      split at hd
      · exact hd
      · cases hd
    obtain ⟨hdp, de, hde, _⟩ := (hz.2 p e he).2.2.1 d hdest
    have hdlt : d < s.event_zone.length := getD_some_lt hde
    have hdsome : ((s.event_zone.set p none).getD d none).isSome = true := by
      rw [getD_set_eq, if_neg (fun g => hdp g.1.symm), hde]; rfl
    have h2 := filter_none_set _ d hdsome
    have h1 := filter_none_set _ p hpsome
    have h3 : (s1.event_zone.filter (fun o => o.isNone)).length =
        (((s.event_zone.set p none).set d none).filter (fun o => o.isNone)).length := by
      apply filter_none_congr
      · rw [hlen, List.length_set, List.length_set]
      · intro q
        rw [hq q, hd, getD_set_eq, getD_set_eq]
        by_cases hqp : q = p
        · subst hqp; simp [hplt]
        · by_cases hqd : q = d
          · subst hqd; simp [hdlt]
          · simp [hqp, hqd, Ne.symm hqp, Ne.symm hqd]
    rw [h3, h2, h1]
    simp

/-! ## What the releases of a queue add up to -/

theorem released_congr {s s1 : fsevents_state} : ∀ (l : List Nat),
    (∀ p ∈ l, deref s1 p = deref s p ∧
      ∀ e, deref s p = some e → dest_path s1 e = dest_path s e) →
    released_slots s1 l = released_slots s l ∧ released_names s1 l = released_names s l ∧
      released_count s1 l = released_count s l := by
  intro l
  induction l with
  | nil => intro _; exact ⟨rfl, rfl, rfl⟩
  | cons p l ih =>
    intro h
    obtain ⟨i1, i2, i3⟩ := ih (fun q hq => h q (List.mem_cons_of_mem _ hq))
    obtain ⟨h1, h2⟩ := h p (List.mem_cons_self _ _)
    cases he : deref s p with
    | none => simp [released_slots, released_names, released_count, h1, he, i1, i2, i3]
    | some e =>
      simp [released_slots, released_names, released_count, h1, he, i1, i2, i3, h2 e he]

theorem owned_dest_dest {e : kfs_event} {d : Nat} (h : d ∈ (owned_dest e).toList) :
    e.dest = some d := by
  simp only [Option.mem_toList, Option.mem_def] at h
  unfold owned_dest at h
  split at h
  · exact h
  · cases h

/-- A release of one entry of a queue leaves the other entries, and the
destinations they own, as they are. -/
theorem release_others {s s1 : fsevents_state} {p : Nat} {e : kfs_event} {cnt : Nat → Nat}
    (hz : zone_ok s.event_zone cnt) (he : deref s p = some e) (hl : on_list e = true)
    (hq : ∀ q, q ≠ p → q ∉ (owned_dest e).toList →
      s1.event_zone.getD q none = s.event_zone.getD q none)
    {p1 : Nat} (hne : p1 ≠ p) (hc : 1 ≤ cnt p1) :
    deref s1 p1 = deref s p1 ∧
      ∀ e1, deref s p1 = some e1 → dest_path s1 e1 = dest_path s e1 := by
  have h1 : p1 ∉ (owned_dest e).toList := by
    intro g
    obtain ⟨_, de, hde, hoff⟩ := (hz.2 p e he).2.2.1 p1 (owned_dest_dest g)
    have := ((hz.2 p1 de hde).2.1 hoff).2.2
    omega
  refine ⟨hq p1 hne h1, fun e1 he1 => ?_⟩
  unfold dest_path
  cases hd : owned_dest e1 with
  | none => rfl
  | some d =>
    have hd1 : e1.dest = some d := owned_dest_dest (by rw [hd]; simp)
    obtain ⟨_, de, hde, hoff⟩ := (hz.2 p1 e1 he1).2.2.1 d hd1
    have hdp : d ≠ p := by
      rintro rfl
      have h2 : some de = some e := hde.symm.trans he
      cases h2
      rw [hl] at hoff
      cases hoff
    have hdo : d ∉ (owned_dest e).toList := by
      intro g
      exact hne ((hz.2 p e he).2.2.2 p1 e1 d he1 hd1 (owned_dest_dest g))
    show (s1.event_zone.getD d none).bind _ = (s.event_zone.getD d none).bind _
    rw [hq d hdp hdo]

/-- The releases of the entries of a queue, each entry once: every event loses
one reference, and those that had only one are freed together with the
destinations and the paths they own. -/
theorem release_all_spec : ∀ (l : List Nat) (s : fsevents_state) (cnt : Nat → Nat),
    zone_ok s.event_zone cnt → l.Nodup → (∀ p ∈ l, 1 ≤ cnt p) →
    ∃ s1, release_all s l = some s1 ∧ s1.watcher_table = s.watcher_table ∧
      s1.event_zone.length = s.event_zone.length ∧
      (∀ q, s1.event_zone.getD q none =
        if q ∈ released_slots s l then none
        else if q ∈ l then (s.event_zone.getD q none).map unref
        else s.event_zone.getD q none) ∧
      s1.names = s.names.diff (released_names s l) ∧
      s1.num_events_outstanding = s.num_events_outstanding - released_count s l ∧
      free_slots s1 = free_slots s + (released_slots s l).length := by
  intro l
  induction l with
  | nil =>
    intro s cnt _ _ _
    exact ⟨s, rfl, rfl, rfl, fun q => by simp [released_slots], by simp [released_names],
      by simp [released_count], by simp [released_slots]⟩
  | cons p l ih =>
    intro s cnt hz hnd hc
    obtain ⟨hpl, hnd1⟩ := List.nodup_cons.1 hnd
    obtain ⟨e, he, hl⟩ := zone_ok_alloc_of_pos hz (hc p (List.mem_cons_self _ _))
    have he1 : deref s p = some e := he
    obtain ⟨s0, r1, r2, r3, r4, r5, r6⟩ := release_step hz he1 hl
    have hc0 : ∀ p1 ∈ l, 1 ≤ (fun q => if q = p then cnt q - 1 else cnt q) p1 := by
      intro p1 hp1
      have hne : p1 ≠ p := fun g => hpl (g ▸ hp1)
      show 1 ≤ if p1 = p then _ else _
      rw [if_neg hne]
      exact hc p1 (List.mem_cons_of_mem _ hp1)
    obtain ⟨s1, a1, a2, a3, a4, a5, a6, a7⟩ := ih s0 _ r3 hnd1 hc0
    have hrun : release_all s (p :: l) = some s1 := by
      simp only [release_all, r1, Option.some_bind, a1]
    have hothers : ∀ q, q ≠ p → q ∉ (owned_dest e).toList →
        s0.event_zone.getD q none = s.event_zone.getD q none := by
      intro q hq1 hq2
      by_cases hrc : e.refcount = 1
      · rw [(r5 hrc).2.2 q, if_neg (by rintro (g | g); exact hq1 g; exact hq2 g)]
      · rw [(r6 hrc).2.2 q, if_neg hq1]
    obtain ⟨c1, c2, c3⟩ := @released_congr s s0 l (fun p1 hp1 =>
      release_others hz he1 hl hothers (fun g => hpl (g ▸ hp1))
        (hc p1 (List.mem_cons_of_mem _ hp1)))
    rw [c1] at a4 a7
    rw [c2] at a5
    rw [c3] at a6
    refine ⟨s1, hrun, a2.trans r2, a3.trans r4, ?_, ?_, ?_, ?_⟩
    · intro q
      rw [a4 q]
      by_cases hrc : e.refcount = 1
      · have hrs : released_slots s (p :: l) =
            p :: (owned_dest e).toList ++ released_slots s l := by
          simp only [released_slots, he1, hrc, if_true]
        rw [hrs, (r5 hrc).2.2 q]
        by_cases hf : q = p ∨ q ∈ (owned_dest e).toList
        · rw [if_pos hf]
          have hm : q ∈ p :: (owned_dest e).toList ++ released_slots s l := by
            rcases hf with g | g
            · rw [g]; exact List.mem_append_left _ (List.mem_cons_self _ _)
            · exact List.mem_append_left _ (List.mem_cons_of_mem _ g)
          rw [if_pos hm]
          split
          · rfl
          · split <;> rfl
        · rw [if_neg hf]
          have hqp : q ≠ p := fun g => hf (Or.inl g)
          by_cases hm : q ∈ released_slots s l
          · rw [if_pos hm, if_pos (List.mem_append_right _ hm)]
          · have hm1 : q ∉ p :: (owned_dest e).toList ++ released_slots s l := by
              intro g
              rcases List.mem_append.1 g with g | g
              · rcases List.mem_cons.1 g with g | g
                · exact hqp g
                · exact hf (Or.inr g)
              · exact hm g
            rw [if_neg hm, if_neg hm1]
            by_cases hql : q ∈ l
            · rw [if_pos hql, if_pos (List.mem_cons_of_mem _ hql)]
            · rw [if_neg hql, if_neg (fun g => by
                rcases List.mem_cons.1 g with g | g
                · exact hqp g
                · exact hql g)]
      · have hrs : released_slots s (p :: l) = released_slots s l := by
          simp only [released_slots, he1, hrc, if_false]
        rw [hrs, (r6 hrc).2.2 q]
        by_cases hm : q ∈ released_slots s l
        · rw [if_pos hm, if_pos hm]
        · rw [if_neg hm, if_neg hm]
          by_cases hqp : q = p
          · subst hqp
            rw [if_neg hpl, if_pos rfl, if_pos (List.mem_cons_self _ _)]
            rw [show s.event_zone.getD q none = some e from he]
            rfl
          · rw [if_neg hqp]
            by_cases hql : q ∈ l
            · rw [if_pos hql, if_pos (List.mem_cons_of_mem _ hql)]
            · rw [if_neg hql, if_neg (fun g => by
                rcases List.mem_cons.1 g with g | g
                · exact hqp g
                · exact hql g)]
    · rw [a5]
      by_cases hrc : e.refcount = 1
      · have hrs : released_names s (p :: l) =
            (owned_path e).toList ++ (dest_path s e).toList ++ released_names s l := by
          simp only [released_names, he1, hrc, if_true]
        rw [hrs, (r5 hrc).2.1, ← List.diff_append]
      · have hrs : released_names s (p :: l) = released_names s l := by
          simp only [released_names, he1, hrc, if_false]
        rw [hrs, (r6 hrc).2.1]
    · rw [a6]
      by_cases hrc : e.refcount = 1
      · have hrs : released_count s (p :: l) = released_count s l + 1 := by
          simp only [released_count, he1, hrc, if_true]
        rw [hrs, (r5 hrc).1]
        push_cast
        ring
      · have hrs : released_count s (p :: l) = released_count s l := by
          simp only [released_count, he1, hrc, if_false]
        rw [hrs, (r6 hrc).1]
    · rw [a7]
      by_cases hrc : e.refcount = 1
      · have hrs : released_slots s (p :: l) =
            p :: (owned_dest e).toList ++ released_slots s l := by
          simp only [released_slots, he1, hrc, if_true]
        rw [hrs, release_step_free hz he1 r4 (r5 hrc).2.2, List.length_append]
        omega
      · have hrs : released_slots s (p :: l) = released_slots s l := by
          simp only [released_slots, he1, hrc, if_false]
        rw [hrs]
        congr 1
        unfold free_slots
        apply filter_none_congr _ _ r4
        intro q
        rw [(r6 hrc).2.2 q]
        by_cases hqp : q = p
        · subst hqp
          rw [if_pos rfl, show s.event_zone.getD q none = some e from he]
          rfl
        · rw [if_neg hqp]

/-- The drain loop does the releases of `release_all` on the entries of the
queue. -/
theorem drain_release_all (fuel : Nat) :
    ∀ (s : fsevents_state) (w : fs_event_watcher) (base : Nat → Nat) (l : List Nat),
      ring_ok w → num_pending w ≤ fuel →
      zone_ok s.event_zone (fun p => base p + (pending w).count (some p)) →
      pending w = l.map some →
      ∀ s1 w1, drain_event_queue fuel s w = some (s1, w1) → release_all s l = some s1 := by
  induction fuel with
  | zero =>
    intro s w base l hr hn _ hl s1 w1 hd
    have hrw : w.rd = w.wr := by
      by_contra hne
      have := (num_pending_pos hr hne).2.2
      omega
    simp only [drain_event_queue, hrw, if_true, Option.some.injEq, Prod.mk.injEq] at hd
    rw [pending_nil_of_eq hrw] at hl
    cases l with
    | nil => rw [← hd.1]; rfl
    | cons _ _ => cases hl
  | succ fuel ih =>
    intro s w base l hr hn hz hl s1 w1 hd
    by_cases hrw : w.rd = w.wr
    · simp only [drain_event_queue, hrw, if_true, Option.some.injEq, Prod.mk.injEq] at hd
      rw [pending_nil_of_eq hrw] at hl
      cases l with
      | nil => rw [← hd.1]; rfl
      | cons _ _ => cases hl
    · obtain ⟨hpd, hok1, hnum⟩ := @pending_dequeue _ { w with
          event_queue := w.event_queue.set w.rd none, rd := (w.rd + 1) % w.eventq_size }
        hr hrw rfl rfl rfl rfl
      cases l with
      | nil => rw [hpd] at hl; cases hl
      | cons p l =>
        rw [hpd, List.map_cons, List.cons.injEq] at hl
        obtain ⟨hx0, hl1⟩ := hl
        rw [hx0] at hpd
        have hcnt : 1 ≤ base p + (pending w).count (some p) := by
          rw [hpd, List.count_cons_self]; omega
        obtain ⟨e, he, hon⟩ := zone_ok_alloc_of_pos hz hcnt
        obtain ⟨hrc, _, hty0, _⟩ := (hz.2 p e he).1 hon
        obtain ⟨s0, hrel, _, hz1, _⟩ := release_event_ref_ok hz he hon
        have hz1' : zone_ok s0.event_zone (fun q => base q + (pending
            { w with event_queue := w.event_queue.set w.rd none,
                     rd := (w.rd + 1) % w.eventq_size }).count (some q)) := by
          apply zone_ok_congr hz1
          intro q
          rw [hpd]
          by_cases hq : q = p
          · subst hq; simp
          · simp [hq, List.count_cons, Ne.symm hq]
        have hguard : (e.type != FSE_INVALID && decide (e.refcount ≥ 1)) = true := by
          simp only [Bool.and_eq_true, bne_iff_ne, decide_eq_true_eq]
          constructor
          · intro h; rw [h] at hty0; simp at hty0
          · omega
        have he2 : deref s p = some e := he
        simp only [drain_event_queue, hrw, if_false, hx0, he2, hguard, if_true, hrel] at hd
        have := ih s0 _ base l hok1 (by omega) hz1' hl1 s1 w1 hd
        simp only [release_all, hrel, Option.some_bind, this]

theorem map_some_filterMap : ∀ (q : List (Option Nat)), (∀ x ∈ q, x ≠ none) →
    q = (q.filterMap id).map some := by
  intro q
  induction q with
  | nil => intro _; rfl
  | cons a q ih =>
    intro h
    cases a with
    | none => exact absurd rfl (h none (List.mem_cons_self _ _))
    | some p =>
      have := ih (fun x hx => h x (List.mem_cons_of_mem _ hx))
      simp only [List.filterMap_cons, id_eq, List.map_cons]
      rw [← this]

theorem diff_append_self {α : Type} [BEq α] [LawfulBEq α] :
    ∀ (r n : List α), (r ++ n).diff r = n := by
  intro r
  induction r with
  | nil => intro n; simp
  | cons a r ih =>
    intro n
    rw [List.cons_append, List.diff_cons, List.erase_cons_head]
    exact ih n

theorem perm_erase {α : Type} [BEq α] [LawfulBEq α] (a : α) {l1 l2 : List α}
    (h : l1.Perm l2) : (l1.erase a).Perm (l2.erase a) := by
  induction h with
  | nil => exact List.Perm.nil
  | cons x _ ih =>
    rw [List.erase_cons, List.erase_cons]
    split
    · assumption
    · exact ih.cons x
  | swap x y l =>
    rw [List.erase_cons, List.erase_cons, List.erase_cons, List.erase_cons]
    by_cases hx : (x == a) = true
    · by_cases hy : (y == a) = true
      · obtain rfl : x = a := eq_of_beq hx
        obtain rfl : y = x := eq_of_beq hy
        simp
      · simp [hx, hy]
    · by_cases hy : (y == a) = true
      · simp [hx, hy]
      · simp only [hx, hy, if_false]
        exact List.Perm.swap _ _ _
  | trans _ _ ih1 ih2 => exact ih1.trans ih2

theorem perm_diff_right {α : Type} [BEq α] [LawfulBEq α] :
    ∀ (t l1 l2 : List α), l1.Perm l2 → (l1.diff t).Perm (l2.diff t) := by
  intro t
  induction t with
  | nil => intro l1 l2 h; simpa using h
  | cons a t ih =>
    intro l1 l2 h
    rw [List.diff_cons, List.diff_cons]
    exact ih _ _ (perm_erase a h)

theorem count_one_of_nodup {α : Type} [BEq α] [LawfulBEq α] :
    ∀ (l : List α) (a : α), l.Nodup → a ∈ l → l.count a = 1 := by
  intro l
  induction l with
  | nil => intro a _ h; cases h
  | cons b l ih =>
    intro a hnd hm
    obtain ⟨hb, hnd1⟩ := List.nodup_cons.1 hnd
    rw [List.count_cons]
    by_cases hab : b = a
    · subst hab
      rw [List.count_eq_zero_of_not_mem hb]
      simp
    · have hm1 : a ∈ l := by
        rcases List.mem_cons.1 hm with g | g
        · exact absurd g.symm hab
        · exact g
      rw [ih a hnd1 hm1]
      simp [hab]

theorem mem_released_slots {s : fsevents_state} {p : Nat} {e : kfs_event} :
    ∀ (l : List Nat), p ∈ l → deref s p = some e → e.refcount = 1 →
      p ∈ released_slots s l := by
  intro l
  induction l with
  | nil => intro h; cases h
  | cons a l ih =>
    intro h he hrc
    by_cases hap : p = a
    · subst hap
      simp only [released_slots, he, hrc, if_true]
      exact List.mem_append_left _ (List.mem_cons_self _ _)
    · have hm : p ∈ l := by
        rcases List.mem_cons.1 h with g | g
        · exact absurd g hap
        · exact g
      have := ih hm he hrc
      simp only [released_slots]
      split
      · split
        · exact List.mem_append_right _ this
        · exact this
      · exact this

theorem zone_ext {z z1 : List (Option kfs_event)} (hl : z1.length = z.length)
    (h : ∀ q, z1.getD q none = z.getD q none) : z1 = z := by
  apply List.ext_getElem hl
  intro n h1 h2
  have := h n
  rw [getD_eq_get _ _ _ h1, getD_eq_get _ _ _ h2] at this
  exact this

/-- What `remove_watcher` does on a registered watcher with no reader active:
it returns, with the slot cleared, and the zone, the name references and the
event count are those after one release for each entry of the queue. -/
theorem remove_watcher_detail {s : fsevents_state} {j : Nat} {w : fs_event_watcher}
    {l : List Nat} (h : sys_ok s (fun _ => 0)) (hw : get_watcher s j = some w)
    (hnr : w.num_readers = 0) (hl : pending w = l.map some) (hnd : l.Nodup) :
    ∃ s1, remove_watcher s j = some s1 ∧
      s1.watcher_table = s.watcher_table.set j none ∧
      s1.event_zone.length = s.event_zone.length ∧
      (∀ q, s1.event_zone.getD q none =
        if q ∈ released_slots s l then none
        else if q ∈ l then (s.event_zone.getD q none).map unref
        else s.event_zone.getD q none) ∧
      s1.names = s.names.diff (released_names s l) ∧
      s1.num_events_outstanding = s.num_events_outstanding - released_count s l ∧
      free_slots s1 = free_slots s + (released_slots s l).length := by
  have hi : s.watcher_table.getD j none = some w := hw
  have hwok := h.2 j w hw
  have hz0 : zone_ok s.event_zone (fun p => queue_refs (s.watcher_table.set j none) p +
      (pending w).count (some p)) :=
    zone_ok_congr h.1 (fun p => by rw [queue_refs_split hi p]; rfl)
  have hring : ring_ok ({ w with
      flags := w.flags ||| WATCHER_CLOSING,
      num_readers := w.num_readers + 1 } : fs_event_watcher) :=
    ring_ok_congr hwok.1 rfl rfl rfl rfl
  have hfuel : num_pending w ≤ w.eventq_size := by
    by_cases g : w.eventq_size = 0
    · rcases hwok.1.rd_lt with g1 | ⟨_, g1⟩
      · omega
      · rcases hwok.1.wr_lt with g2 | ⟨_, g2⟩
        · omega
        · simp [num_pending, g, g1, g2]
    · exact Nat.le_of_lt (num_pending_lt g)
  obtain ⟨s0, hs0⟩ : ∃ s0 : fsevents_state, s0 =
      { set_watcher s j none with
        fs_event_type_watchers :=
          bump_type_watchers (-1) w.event_list w.num_events
            (set_watcher s j none).fs_event_type_watchers } := ⟨_, rfl⟩
  have hs0z : s0.event_zone = s.event_zone := by rw [hs0]; rfl
  have hs0t : s0.watcher_table = s.watcher_table.set j none := by rw [hs0]; rfl
  have hs0n : s0.names = s.names := by rw [hs0]; rfl
  have hs0c : s0.num_events_outstanding = s.num_events_outstanding := by rw [hs0]; rfl
  have hs0f : free_slots s0 = free_slots s := by unfold free_slots; rw [hs0z]
  have hderef : ∀ p, deref s0 p = deref s p := by
    intro p
    show s0.event_zone.getD p none = s.event_zone.getD p none
    rw [hs0z]
  have hdp : ∀ e, dest_path s0 e = dest_path s e := by
    intro e
    unfold dest_path
    rw [hs0z]
  obtain ⟨c1, c2, c3⟩ := @released_congr s s0 l (fun p _ => ⟨hderef p, fun e _ => hdp e⟩)
  obtain ⟨s3, q, hdr, _, _, _, _⟩ := drain_event_queue_ok w.eventq_size s0
    ({ w with
        flags := w.flags ||| WATCHER_CLOSING,
        num_readers := w.num_readers + 1 } : fs_event_watcher)
    (fun p => queue_refs (s.watcher_table.set j none) p) hring hfuel
    (by rw [hs0z]; exact hz0)
    (fun x hx => by
      obtain ⟨p, _, a1, _⟩ := hwok.2.2.1 x hx
      rw [a1]; simp)
  have hall := drain_release_all w.eventq_size s0
    ({ w with
        flags := w.flags ||| WATCHER_CLOSING,
        num_readers := w.num_readers + 1 } : fs_event_watcher)
    (fun p => queue_refs (s.watcher_table.set j none) p) l hring hfuel
    (by rw [hs0z]; exact hz0) hl s3 _ hdr
  have hcnt : ∀ p ∈ l, 1 ≤ (fun p => queue_refs (s.watcher_table.set j none) p +
      (pending w).count (some p)) p := by
    intro p hp
    have hm : some p ∈ pending w := by rw [hl]; exact List.mem_map_of_mem _ hp
    have := List.count_pos_iff.mpr hm
    show 1 ≤ _ + _
    omega
  obtain ⟨s4, b1, b2, b3, b4, b5, b6, b7⟩ := release_all_spec l s0 _
    (by rw [hs0z]; exact hz0) hnd hcnt
  rw [hall] at b1
  cases b1
  have hrun : remove_watcher s j = some s3 := by
    unfold remove_watcher
    rw [hw]
    dsimp only
    rw [if_neg (by rw [hwok.2.2.2]; simp), if_neg (by rw [hnr]; decide), ← hs0, hdr]
  refine ⟨s3, hrun, b2.trans hs0t, b3.trans (by rw [hs0z]), fun q => ?_, ?_, ?_, ?_⟩
  · rw [b4 q, c1, hs0z]
  · rw [b5, c2, hs0n]
  · rw [b6, c3, hs0c]
  · rw [b7, c1, hs0f]

/-- One acknowledgment for the device of the barrier, on the handle of a
registered watcher. -/
theorem ack_step {s : fsevents_state} {j : Nat} (b1 b2 : Bool)
    (hj : get_watcher s j ≠ none) :
    fseventsf_ioctl s j (ioctl_cmd.FSEVENTS_UNMOUNT_PENDING_ACK s.fsevent_unmount_dev) b1 b2 =
      (0, none,
        if s.fsevent_unmount_ack_count - 1 ≤ 0 then
          { s with fsevent_unmount_ack_count := s.fsevent_unmount_ack_count - 1,
                   fsevent_unmount_dev := 0 }
        else { s with fsevent_unmount_ack_count := s.fsevent_unmount_ack_count - 1 }) := by
  cases hw : get_watcher s j with
  | none => exact absurd hw hj
  | some w =>
    simp only [fseventsf_ioctl, hw, if_true]
    split <;> rfl

/-- An acknowledgment for another device than the one of the barrier. -/
theorem ack_other {s : fsevents_state} {j : Nat} {dev : Int} (b1 b2 : Bool)
    (hj : get_watcher s j ≠ none) (hd : dev ≠ s.fsevent_unmount_dev) :
    fseventsf_ioctl s j (ioctl_cmd.FSEVENTS_UNMOUNT_PENDING_ACK dev) b1 b2 =
      (EINVAL, none, s) := by
  cases hw : get_watcher s j with
  | none => exact absurd hw hj
  | some w =>
    simp only [fseventsf_ioctl, hw, if_neg (Ne.symm hd)]

theorem ack_all_cons (dev : Int) (b1 b2 : Bool) (j : Nat) (js : List Nat)
    (s : fsevents_state) :
    ack_all dev b1 b2 (j :: js) s =
      ((fseventsf_ioctl s j (ioctl_cmd.FSEVENTS_UNMOUNT_PENDING_ACK dev) b1 b2).1 ::
          (ack_all dev b1 b2 js
            (fseventsf_ioctl s j (ioctl_cmd.FSEVENTS_UNMOUNT_PENDING_ACK dev) b1 b2).2.2).1,
        (ack_all dev b1 b2 js
          (fseventsf_ioctl s j (ioctl_cmd.FSEVENTS_UNMOUNT_PENDING_ACK dev) b1 b2).2.2).2) := rfl

theorem ack_all_spec (b1 b2 : Bool) : ∀ (js : List Nat) (s : fsevents_state) (d n : Int),
    s.fsevent_unmount_dev = d → s.fsevent_unmount_ack_count = n →
    (∀ j ∈ js, get_watcher s j ≠ none) → (js.length : Int) ≤ n →
    (ack_all d b1 b2 js s).1 = js.map (fun _ => 0) ∧
    (ack_all d b1 b2 js s).2.fsevent_unmount_ack_count = n - js.length ∧
    (ack_all d b1 b2 js s).2.fsevent_unmount_dev =
      (if (js.length : Int) < n ∨ js = [] then d else 0) ∧
    (ack_all d b1 b2 js s).2.watcher_table = s.watcher_table := by
  intro js
  induction js with
  | nil =>
    intro s d n hd hn _ _
    refine ⟨rfl, ?_, ?_, rfl⟩
    · show s.fsevent_unmount_ack_count = _
      rw [hn]; simp
    · show s.fsevent_unmount_dev = _
      rw [if_pos (Or.inr rfl), hd]
  | cons j js ih =>
    intro s d n hd hn hj hlen
    subst hd
    subst hn
    have hj0 := hj j (List.mem_cons_self _ _)
    have hlen1 : (js.length : Int) + 1 ≤ s.fsevent_unmount_ack_count := by
      simpa only [List.length_cons, Nat.cast_add, Nat.cast_one] using hlen
    rw [ack_all_cons, ack_step b1 b2 hj0]
    by_cases h1 : s.fsevent_unmount_ack_count - 1 ≤ 0
    · have hjs : js = [] := by
        cases js with
        | nil => rfl
        | cons _ _ =>
          simp only [List.length_cons, Nat.cast_add, Nat.cast_one] at hlen1
          omega
      subst hjs
      rw [if_pos h1]
      refine ⟨rfl, ?_, ?_, rfl⟩
      · show s.fsevent_unmount_ack_count - 1 = s.fsevent_unmount_ack_count - ((1 : Nat) : Int)
        rfl
      · show (0 : Int) = _
        rw [if_neg]
        rintro (g | g)
        · simp only [List.length_cons, List.length_nil, Nat.cast_add, Nat.cast_one,
            Nat.cast_zero] at g
          omega
        · cases g
    · rw [if_neg h1]
      obtain ⟨a1, a2, a3, a4⟩ := ih
        ({ s with fsevent_unmount_ack_count := s.fsevent_unmount_ack_count - 1 } :
          fsevents_state) s.fsevent_unmount_dev (s.fsevent_unmount_ack_count - 1) rfl rfl
        (fun i hi => hj i (List.mem_cons_of_mem _ hi)) (by omega)
      refine ⟨?_, ?_, ?_, a4⟩
      · show (0 : Int) :: (ack_all _ b1 b2 js _).1 = _
        rw [a1, List.map_cons]
      · show (ack_all _ b1 b2 js _).2.fsevent_unmount_ack_count = _
        rw [a2]
        simp only [List.length_cons, Nat.cast_add, Nat.cast_one]
        ring
      · show (ack_all _ b1 b2 js _).2.fsevent_unmount_dev = _
        rw [a3]
        by_cases hlt : (js.length : Int) < s.fsevent_unmount_ack_count - 1
        · rw [if_pos (Or.inl hlt), if_pos (Or.inl (by
            simp only [List.length_cons, Nat.cast_add, Nat.cast_one]; omega))]
        · have hne : ¬ js = [] := by
            intro g
            rw [g] at hlt
            simp only [List.length_nil, Nat.cast_zero] at hlt
            omega
          rw [if_neg (by rintro (g | g); exact hlt g; exact hne g),
            if_neg (by
              rintro (g | g)
              · simp only [List.length_cons, Nat.cast_add, Nat.cast_one] at g; omega
              · cases g)]

/-- C31: with the unmount barrier armed for device `d` with `n >= 1`
acknowledgments pending, `k <= n` UnmountPendingAck ioctls for `d` on handles
of registered watchers all return 0 and leave `n - k` acknowledgments pending;
the barrier device is still `d` when `k < n` and is 0 when `k = n`; and an
acknowledgment for another device returns `EINVAL` and changes nothing. -/
theorem C31_unmount_acks {s : fsevents_state} {d n : Int} (b1 b2 : Bool)
    (hd : s.fsevent_unmount_dev = d) (hn : s.fsevent_unmount_ack_count = n) (h1 : 1 ≤ n) :
    (∀ js : List Nat, (∀ j ∈ js, get_watcher s j ≠ none) → (js.length : Int) ≤ n →
      (ack_all d b1 b2 js s).1 = js.map (fun _ => 0) ∧
      (ack_all d b1 b2 js s).2.fsevent_unmount_ack_count = n - js.length ∧
      ((js.length : Int) < n → (ack_all d b1 b2 js s).2.fsevent_unmount_dev = d) ∧
      ((js.length : Int) = n → (ack_all d b1 b2 js s).2.fsevent_unmount_dev = 0)) ∧
    (∀ (j : Nat) (dev : Int), get_watcher s j ≠ none → dev ≠ d →
      fseventsf_ioctl s j (ioctl_cmd.FSEVENTS_UNMOUNT_PENDING_ACK dev) b1 b2 =
        (EINVAL, none, s)) := by
  refine ⟨fun js hj hlen => ?_, fun j dev hj hne => ack_other b1 b2 hj (by rw [hd]; exact hne)⟩
  obtain ⟨a1, a2, a3, _⟩ := ack_all_spec b1 b2 js s d n hd hn hj hlen
  refine ⟨a1, a2, fun hlt => by rw [a3, if_pos (Or.inl hlt)], fun heq => ?_⟩
  rw [a3, if_neg]
  rintro (g | g)
  · omega
  · rw [g] at heq
    simp only [List.length_nil, Nat.cast_zero] at heq
    omega

theorem scn_two_watchers_reachable : reachable scn_two_watchers :=
  reachable.add_watcher _ _ _ _ scn_one_watcher_reachable

/-- C31 at the barrier for device 5 that waits for the two watchers of
`scn_barrier`. -/
theorem C31_unmount_acks_witness :
    scn_barrier.fsevent_unmount_dev = 5 ∧ scn_barrier.fsevent_unmount_ack_count = 2 ∧
    (1 : Int) ≤ 2 ∧
    ((∀ js : List Nat, (∀ j ∈ js, get_watcher scn_barrier j ≠ none) → (js.length : Int) ≤ 2 →
      (ack_all 5 true true js scn_barrier).1 = js.map (fun _ => 0) ∧
      (ack_all 5 true true js scn_barrier).2.fsevent_unmount_ack_count = 2 - js.length ∧
      ((js.length : Int) < 2 → (ack_all 5 true true js scn_barrier).2.fsevent_unmount_dev = 5) ∧
      ((js.length : Int) = 2 →
        (ack_all 5 true true js scn_barrier).2.fsevent_unmount_dev = 0)) ∧
    (∀ (j : Nat) (dev : Int), get_watcher scn_barrier j ≠ none → dev ≠ 5 →
      fseventsf_ioctl scn_barrier j (ioctl_cmd.FSEVENTS_UNMOUNT_PENDING_ACK dev) true true =
        (EINVAL, none, scn_barrier))) ∧
    (ack_all 5 true true [0] scn_barrier).2.fsevent_unmount_dev = 5 ∧
    (ack_all 5 true true [0, 1] scn_barrier).2.fsevent_unmount_dev = 0 :=
  ⟨by decide, by decide, by decide, C31_unmount_acks true true (by decide) (by decide) (by decide),
    by decide, by decide⟩

/-! ## C40 -/

theorem drop_dest_table {s s1 : fsevents_state} {d : Option Nat}
    {r : Option (Nat × kfs_event)} (h : drop_dest s d = some (s1, r)) :
    s1.watcher_table = s.watcher_table := by
  unfold drop_dest at h
  split at h
  · cases h; rfl
  · split at h
    · cases h
    · simp only [] at h
      split at h <;> (cases h; rfl)

theorem free_event_table {s s1 : fsevents_state} {p : Nat} {e : kfs_event}
    (h : free_event s p e = some s1) : s1.watcher_table = s.watcher_table := by
  unfold free_event at h
  simp only [] at h
  split at h
  · cases h
  · split at h
    · cases h
    · rename_i s2 dest hd
      cases h
      have h1 := drop_dest_table hd
      cases dest with
      | none => simp [h1]
      | some x => simp [h1]

theorem release_table {s s1 : fsevents_state} {p : Nat} (h : release_event_ref s p = some s1) :
    s1.watcher_table = s.watcher_table := by
  unfold release_event_ref at h
  split at h
  · cases h
  · simp only [] at h
    split at h
    · cases h; rfl
    · exact (free_event_table h).trans rfl

theorem watch_body_stop_table {s s1 : fsevents_state} {w : fs_event_watcher} {u u1 : uio}
    {v v1 : watch_locals} {ex : watch_exit}
    (h : watch_body s w u v = some (watch_next.stop s1 u1 v1 ex)) :
    s1.watcher_table = s.watcher_table := by
  have := watch_body_state h
  rcases this with g | ⟨p, g⟩
  · exact congrArg _ g
  · exact (congrArg _ g).trans (forget_table s p)

theorem watch_body_advance_table {s s1 : fsevents_state} {w : fs_event_watcher} {u u1 : uio}
    {v v1 : watch_locals} {p : Nat}
    (h : watch_body s w u v = some (watch_next.advance p s1 u1 v1)) :
    s1.watcher_table = s.watcher_table := by
  have := watch_body_state h
  rcases this.2 with g | g
  · exact congrArg _ g
  · exact (congrArg _ g).trans (forget_table s p)

/-- The read loop leaves the reader count of the watcher and the length of the
watcher table alone. -/
theorem watch_loop_readers : ∀ (fuel : Nat) (s : fsevents_state) (w : fs_event_watcher)
    (u : uio) (v : watch_locals) (s1 : fsevents_state) (w1 : fs_event_watcher) (u1 : uio)
    (v1 : watch_locals) (ex : watch_exit),
    watch_loop fuel s w u v = some (s1, w1, u1, v1, ex) →
    w1.num_readers = w.num_readers ∧ s1.watcher_table = s.watcher_table := by
  intro fuel
  induction fuel with
  | zero =>
    intro s w u v s1 w1 u1 v1 ex h
    simp only [watch_loop] at h
    split at h
    · cases h
    · cases h; exact ⟨rfl, rfl⟩
  | succ n ih =>
    intro s w u v s1 w1 u1 v1 ex h
    simp only [watch_loop] at h
    split at h
    · split at h
      · cases h
      · rename_i s2 u2 v2 ex2 hb
        cases h
        have := watch_body_stop_table hb
        exact ⟨rfl, by rw [this]⟩
      · rename_i p s2 u2 v2 hb
        have ht := watch_body_advance_table hb
        split at h
        · cases h
        · rename_i s3 hrel
          obtain ⟨a1, a2⟩ := ih _ _ _ _ _ _ _ _ _ h
          exact ⟨a1, by rw [a2, release_table hrel, ht]⟩
    · cases h; exact ⟨rfl, rfl⟩

theorem emit_dropped_readers {w w1 : fs_event_watcher} {u u1 : uio} {lf lf1 e : Int}
    (h : emit_dropped w u lf = (e, w1, u1, lf1)) : w1.num_readers = w.num_readers := by
  obtain ⟨f, hf, _⟩ := emit_dropped_flags h
  rw [hf]

/-- Every way out of the body of `fmod_watch` takes the reader's count back. -/
theorem watch_from_restart_readers (sleep_err : Int) : ∀ (fuel : Nat)
    (s : fsevents_state) (w : fs_event_watcher) (u : uio) (lf : Int) (err : Int)
    (s1 : fsevents_state) (w1 : fs_event_watcher) (u1 : uio),
    watch_from_restart sleep_err fuel s w u lf = some (err, s1, w1, u1) →
    w1.num_readers = w.num_readers - 1 ∧ s1.watcher_table = s.watcher_table := by
  intro fuel
  induction fuel with
  | zero => intro s w u lf err s1 w1 u1 h; simp [watch_from_restart] at h
  | succ n ih =>
    intro s w u lf err s1 w1 u1 h
    have hleave : ∀ (e : Int) (s2 : fsevents_state) (w2 : fs_event_watcher) (u2 : uio),
        some (e, s2, ({ w2 with num_readers := w2.num_readers - 1 } : fs_event_watcher), u2) =
          some (err, s1, w1, u1) →
        w2.num_readers = w.num_readers →
        s2.watcher_table = s.watcher_table →
        w1.num_readers = w.num_readers - 1 ∧ s1.watcher_table = s.watcher_table := by
      intro e s2 w2 u2 heq a b
      cases heq
      exact ⟨by show w2.num_readers - 1 = _; rw [a], b⟩
    simp only [watch_from_restart] at h
    split at h
    · exact hleave _ _ _ _ h rfl rfl
    · split at h
      · exact hleave _ _ _ _ h rfl rfl
      · rcases hem : emit_dropped w u lf with ⟨e2, w2, u2, lf2⟩
        rw [hem] at h
        dsimp only at h
        have hr2 := emit_dropped_readers hem
        split at h
        · exact hleave _ _ _ _ h hr2 rfl
        · split at h
          · cases h
          · rename_i s3 w3 u3 v3 hl
            obtain ⟨a1, a2⟩ := watch_loop_readers _ _ _ _ _ _ _ _ _ _ hl
            exact hleave _ _ _ _ h (a1.trans hr2) a2
          · rename_i s3 w3 u3 v3 hl
            obtain ⟨a1, a2⟩ := watch_loop_readers _ _ _ _ _ _ _ _ _ _ hl
            split at h
            · obtain ⟨b1, b2⟩ := ih _ _ _ _ _ _ _ _ h
              exact ⟨by rw [b1, a1, hr2], by rw [b2, a2]⟩
            · exact hleave _ _ _ _ h (a1.trans hr2) a2

/-- The log does not change what the loop computes. -/
theorem fill_buff_loop_traced_fst (B : Nat) : ∀ (fuel : Nat) (data buff : List Nat) (u : uio),
    (fill_buff_loop_traced B fuel data buff u).1 = fill_buff_loop B fuel data buff u := by
  intro fuel
  induction fuel with
  | zero => intro data buff u; rfl
  | succ n ih =>
    intro data buff u
    rw [fill_buff_loop_traced, fill_buff_loop]
    by_cases hd : data.length > 0
    · rw [if_pos hd, if_pos hd]
      dsimp only
      (repeat' split) <;> first | rfl | exact ih _ _ _
    · rw [if_neg hd, if_neg hd]

/-- The log does not change what `fill_buff` computes. -/
theorem fill_buff_traced_fst (type : Int) (data buff : List Nat) (B : Nat) (u : uio) :
    (fill_buff_traced type data buff B u).1 = fill_buff type data buff B u := by
  unfold fill_buff_traced fill_buff
  dsimp only
  (repeat' split) <;> first | rfl | exact fill_buff_loop_traced_fst _ _ _ _ _

/-- Every copy of the loop moves at least one byte and stays inside the
scratch buffer. -/
theorem fill_buff_loop_traced_ok (B : Nat) : ∀ (fuel : Nat) (data buff : List Nat) (u : uio),
    buff.length ≤ B → (data.length > 0 → buff.length < B) →
    ∀ x ∈ (fill_buff_loop_traced B fuel data buff u).2, 1 ≤ x.1 ∧ x.2 ≤ B := by
  intro fuel
  induction fuel with
  | zero => intro data buff u _ _ x hx; cases hx
  | succ n ih =>
    intro data buff u hb hroom x hx
    rw [fill_buff_loop_traced] at hx
    by_cases hd : data.length > 0
    · have hlt := hroom hd
      rw [if_pos hd] at hx
      dsimp only at hx
      have hamt : 1 ≤ min data.length (B - buff.length) := by
        rw [Nat.le_min]; omega
      have hamt0 : ¬ min data.length (B - buff.length) = 0 := by omega
      have hlen : (buff ++ List.take (min data.length (B - buff.length)) data).length ≤ B := by
        rw [List.length_append, List.length_take]
        have : min (min data.length (B - buff.length)) data.length ≤ B - buff.length :=
          le_trans (Nat.min_le_left _ _) (Nat.min_le_right _ _)
        omega
      have hone : ∀ y, y ∈ [(min data.length (B - buff.length),
          (buff ++ List.take (min data.length (B - buff.length)) data).length)] →
          1 ≤ y.1 ∧ y.2 ≤ B := by
        intro y hy
        rw [List.mem_singleton] at hy
        rw [hy]
        exact ⟨hamt, hlen⟩
      split at hx
      · split at hx
        · exact hone x hx
        · split at hx
          · exact hone x hx
          · try rw [if_neg hamt0] at hx
            rcases List.mem_cons.1 hx with g | g
            · rw [g]; exact ⟨hamt, hlen⟩
            · exact ih _ [] _ (Nat.zero_le _) (fun _ => by show 0 < B; omega) x g
      · rename_i hfit
        try rw [if_neg hamt0] at hx
        rcases List.mem_cons.1 hx with g | g
        · rw [g]; exact ⟨hamt, hlen⟩
        · refine ih _ _ _ hlen (fun hpos => ?_) x g
          push_cast at hfit
          omega
    · rw [if_neg hd] at hx
      cases hx

/-- Every copy of `fill_buff` moves at least one byte and stays inside a
scratch buffer of at least 6 bytes. -/
theorem fill_buff_traced_ok (type : Int) (data buff : List Nat) (B : Nat) (u : uio)
    (hB : 6 ≤ B) :
    ∀ x ∈ (fill_buff_traced type data buff B u).2, 1 ≤ x.1 ∧ x.2 ≤ B := by
  have hl2 : ∀ v, (le_bytes 2 v).length = 2 := fun v => le_bytes_length 2 v
  have key : ∀ (b : List Nat) (u1 : uio), b.length + 4 < B →
      ∀ x ∈ ((2, (b ++ le_bytes 2 (type % 2 ^ 16).toNat).length) ::
        (2, (b ++ le_bytes 2 (type % 2 ^ 16).toNat ++
          le_bytes 2 (data.length % 2 ^ 16)).length) ::
        (fill_buff_loop_traced B (data.length + 1) data
          (b ++ le_bytes 2 (type % 2 ^ 16).toNat ++ le_bytes 2 (data.length % 2 ^ 16)) u1).2),
        1 ≤ x.1 ∧ x.2 ≤ B := by
    intro b u1 hb x hx
    have h1 : (b ++ le_bytes 2 (type % 2 ^ 16).toNat).length = b.length + 2 := by
      rw [List.length_append, hl2]
    have h2 : (b ++ le_bytes 2 (type % 2 ^ 16).toNat ++
        le_bytes 2 (data.length % 2 ^ 16)).length = b.length + 4 := by
      rw [List.length_append, h1, hl2]
    rcases List.mem_cons.1 hx with g | g
    · rw [g, h1]; exact ⟨by show 1 ≤ 2; decide, by show b.length + 2 ≤ B; omega⟩
    · rcases List.mem_cons.1 g with g | g
      · rw [g, h2]; exact ⟨by show 1 ≤ 2; decide, by show b.length + 4 ≤ B; omega⟩
      · exact fill_buff_loop_traced_ok B _ _ _ _ (by rw [h2]; omega)
          (fun _ => by rw [h2]; omega) x g
  intro x hx
  unfold fill_buff_traced at hx
  try dsimp only at hx
  by_cases hfl : (B : Int) - (buff.length : Nat) ≤ 5
  · rw [if_pos hfl] at hx
    by_cases hsp : ((buff.length : Nat) : Int) > u.resid
    · rw [if_pos hsp] at hx
      try dsimp only at hx
      rw [if_pos (by decide)] at hx
      cases hx
    · rw [if_neg hsp] at hx
      try dsimp only at hx
      by_cases herr : (uiomove buff u).1 ≠ 0
      · rw [if_pos herr] at hx
        try dsimp only at hx
        rw [if_pos herr] at hx
        cases hx
      · rw [if_neg herr] at hx
        try dsimp only at hx
        rw [if_neg (by decide)] at hx
        exact key [] _ (by show 0 + 4 < B; omega) x hx
  · rw [if_neg hfl] at hx
    try dsimp only at hx
    rw [if_neg (by decide)] at hx
    exact key buff u (by omega) x hx

/-- C35: for every tag, every data block of at most 65535 bytes, every scratch
state, whatever its index, and every writable user buffer with room for the
scratch contents and the field, `fill_buff` on the scratch of 512 bytes returns
0, and the bytes moved to the user buffer followed by the scratch contents are
those before the call followed by the 16-bit tag, the 16-bit size and the data
bytes in order; the scratch index is at most 512 after the call and after each
`memcpy`, and each `memcpy` of the loop copies at least one byte, so the
`amt == 0` exit is not taken. -/
theorem C35_fill_buff (type : Int) (data buff : List Nat) (u : uio)
    (hsz : data.length ≤ 65535) (he : u.errs = [])
    (hroom : ((buff.length + 4 + data.length : Nat) : Int) ≤ u.resid) :
    ∃ (flushed rest : List Nat) (u1 : uio),
      fill_buff type data buff 512 u = (0, rest, u1) ∧
      u1.written = u.written ++ flushed ∧ u1.resid = u.resid - flushed.length ∧
      u1.written ++ rest = u.written ++ buff ++ le_bytes 2 (type % 2 ^ 16).toNat ++
        le_bytes 2 data.length ++ data ∧
      rest.length ≤ 512 ∧
      (fill_buff_traced type data buff 512 u).1 = fill_buff type data buff 512 u ∧
      ∀ x ∈ (fill_buff_traced type data buff 512 u).2, 1 ≤ x.1 ∧ x.2 ≤ 512 := by
  have hmod : data.length % 2 ^ 16 = data.length := Nat.mod_eq_of_lt (by omega)
  have hlen : (buff ++ encode_field (type, data)).length = buff.length + 4 + data.length := by
    rw [List.length_append, encode_field_length]
    omega
  rcases fill_buff_spec (B := 512) type data buff u (by decide) he with
    ⟨d, rest, h1, h2, h3⟩ | ⟨d, rest, _, h2⟩
  · refine ⟨d, rest, moved u d, h1, rfl, rfl, ?_, h3, fill_buff_traced_fst _ _ _ _ _,
      fill_buff_traced_ok _ _ _ _ _ (by decide)⟩
    show u.written ++ d ++ rest = _
    rw [List.append_assoc, h2]
    simp only [encode_field, hmod, List.append_assoc]
  · rw [hlen] at h2
    omega

/-- C35 at a field of 600 bytes that meets a scratch holding 510 bytes. -/
theorem C35_fill_buff_witness :
    (List.replicate 600 7).length ≤ 65535 ∧
    (scn_buffer 2048).errs = [] ∧
    (((List.replicate 510 1).length + 4 + (List.replicate 600 7).length : Nat) : Int) ≤
      (scn_buffer 2048).resid ∧
    ∃ (flushed rest : List Nat) (u1 : uio),
      fill_buff FSE_ARG_STRING (List.replicate 600 7) (List.replicate 510 1) 512
        (scn_buffer 2048) = (0, rest, u1) ∧
      u1.written = (scn_buffer 2048).written ++ flushed ∧
      u1.resid = (scn_buffer 2048).resid - flushed.length ∧
      u1.written ++ rest = (scn_buffer 2048).written ++ List.replicate 510 1 ++
        le_bytes 2 (FSE_ARG_STRING % 2 ^ 16).toNat ++
        le_bytes 2 (List.replicate 600 7).length ++ List.replicate 600 7 ∧
      rest.length ≤ 512 ∧
      (fill_buff_traced FSE_ARG_STRING (List.replicate 600 7) (List.replicate 510 1) 512
        (scn_buffer 2048)).1 =
        fill_buff FSE_ARG_STRING (List.replicate 600 7) (List.replicate 510 1) 512
          (scn_buffer 2048) ∧
      ∀ x ∈ (fill_buff_traced FSE_ARG_STRING (List.replicate 600 7) (List.replicate 510 1) 512
        (scn_buffer 2048)).2, 1 ≤ x.1 ∧ x.2 ≤ 512 :=
  ⟨by simp, rfl, by simp [scn_buffer],
    C35_fill_buff FSE_ARG_STRING (List.replicate 600 7) (List.replicate 510 1) (scn_buffer 2048)
      (by simp) rfl (by simp [scn_buffer])⟩

/-! ## C36 -/

/-- The test `strnstr` is one of containment: the needle may start anywhere in
the string. -/
theorem strnstr_iff (needle : List Nat) : ∀ (hay : List Nat),
    strnstr hay needle = true ↔ List.IsInfix needle hay := by
  intro hay
  induction hay with
  | nil =>
    rw [List.infix_nil]
    cases needle with
    | nil => simp [strnstr]
    | cons a l => simp [strnstr]
  | cons c hay ih =>
    rw [List.infix_cons_iff, ← ih, ← List.isPrefixOf_iff_prefix]
    simp only [strnstr, Bool.or_eq_true]

/-- The test `is_ignored_directory` holds exactly for a path that contains one
of the three directory names within its first `MAXPATHLEN` bytes. -/
theorem is_ignored_directory_iff (path : Option cstr) :
    is_ignored_directory path = true ↔
      ∃ p name, path = some p ∧ name ∈ ignored_names ∧
        List.IsInfix name (p.take MAXPATHLEN) := by
  cases path with
  | none =>
    constructor
    · intro h; cases h
    · rintro ⟨p, _, h, _⟩; cases h
  | some p =>
    simp only [is_ignored_directory, Bool.or_eq_true, strnstr_iff]
    constructor
    · rintro ((h | h) | h)
      · exact ⟨p, _, rfl, by simp [ignored_names], h⟩
      · exact ⟨p, _, rfl, by simp [ignored_names], h⟩
      · exact ⟨p, _, rfl, by simp [ignored_names], h⟩
    · rintro ⟨q, name, hq, hn, hi⟩
      cases hq
      simp only [ignored_names, List.mem_cons, List.mem_singleton, List.not_mem_nil,
        or_false] at hn
      rcases hn with g | g | g
      · rw [g] at hi; exact Or.inl (Or.inl hi)
      · rw [g] at hi; exact Or.inl (Or.inr hi)
      · rw [g] at hi; exact Or.inr hi

/-- The drain loop leaves the watcher table and the `max_event_id` of the
drained watcher alone. -/
theorem drain_max_event_id (fuel : Nat) : ∀ {s s1 : fsevents_state} {w w1 : fs_event_watcher},
    drain_event_queue fuel s w = some (s1, w1) →
    w1.max_event_id = w.max_event_id ∧ s1.watcher_table = s.watcher_table := by
  induction fuel with
  | zero =>
    intro s s1 w w1 h
    simp only [drain_event_queue] at h
    split at h
    · cases h; exact ⟨rfl, rfl⟩
    · cases h
  | succ n ih =>
    intro s s1 w w1 h
    simp only [drain_event_queue] at h
    split at h
    · cases h; exact ⟨rfl, rfl⟩
    · split at h
      · obtain ⟨a, b⟩ := ih h
        exact ⟨a, b⟩
      · split at h
        · cases h
        · split at h
          · split at h
            · cases h
            · rename_i s2 hrel
              obtain ⟨a, b⟩ := ih h
              exact ⟨a, b.trans (release_table hrel)⟩
          · obtain ⟨a, b⟩ := ih h
            exact ⟨a, b⟩

/-- Every call of `watcher_add_event` for a registered watcher, whatever it
returns, leaves the watcher registered with the larger of its `max_event_id`
and the timestamp of the event. -/
theorem watcher_add_event_max {s s2 : fsevents_state} {i p : Nat} {r : Int}
    {w : fs_event_watcher} {e : kfs_event} (hw : get_watcher s i = some w)
    (he : deref s p = some e) (h : watcher_add_event s i p = some (r, s2)) :
    ∃ w2, get_watcher s2 i = some w2 ∧ w2.max_event_id = max w.max_event_id e.abstime := by
  have hlt : i < s.watcher_table.length := get_watcher_some_lt hw
  have hmax : (if e.abstime > w.max_event_id then
      ({ w with max_event_id := e.abstime } : fs_event_watcher) else w).max_event_id =
      max w.max_event_id e.abstime := by
    split
    · show e.abstime = _
      omega
    · omega
  generalize hw0 : (if e.abstime > w.max_event_id then
      ({ w with max_event_id := e.abstime } : fs_event_watcher) else w) = w0 at hmax
  unfold watcher_add_event at h
  rw [hw, he] at h
  dsimp only at h
  rw [hw0] at h
  split at h
  · cases h
  · split at h
    · cases h
      exact ⟨_, get_set_watcher_same _ i _ hlt, hmax⟩
    · split at h
      · split at h
        · cases h
        · rename_i s3 w3 hd
          cases h
          obtain ⟨a, b⟩ := drain_max_event_id _ hd
          have hlt3 : i < s3.watcher_table.length := by rw [b]; exact hlt
          exact ⟨_, get_set_watcher_same _ i _ hlt3, a.trans hmax⟩
      · split at h
        · cases h
          exact ⟨_, get_set_watcher_same _ i _ hlt, hmax⟩
        · split at h
          · cases h
            exact ⟨_, get_set_watcher_same _ i _ hlt, hmax⟩
          · cases h
            exact ⟨_, get_set_watcher_same _ i _ hlt, hmax⟩

/-- After calls of `watcher_add_event` on events with the timestamps `ts`, the
`max_event_id` of the watcher is the highest of its former value and `ts`. -/
theorem offered_all_max (i : Nat) : ∀ (ts : List Nat) (s s1 : fsevents_state)
    (w : fs_event_watcher), get_watcher s i = some w → offered_all i ts s s1 →
    ∃ w1, get_watcher s1 i = some w1 ∧
      w1.max_event_id = ts.foldl max w.max_event_id := by
  intro ts
  induction ts with
  | nil =>
    intro s s1 w hw h
    have h1 : current_id s1 i = current_id s i := h
    unfold current_id at h1
    rw [hw] at h1
    cases hw1 : get_watcher s1 i with
    | none => rw [hw1] at h1; cases h1
    | some w1 =>
      rw [hw1] at h1
      exact ⟨w1, rfl, Option.some.inj h1⟩
  | cons t ts ih =>
    intro s s1 w hw h
    obtain ⟨sm, p, e, r, s2, h1, h2, h3, h4, h5⟩ := h
    unfold current_id at h1
    rw [hw] at h1
    cases hwm : get_watcher sm i with
    | none => rw [hwm] at h1; cases h1
    | some wm =>
      rw [hwm] at h1
      have hm : wm.max_event_id = w.max_event_id := Option.some.inj h1
      obtain ⟨w2, a1, a2⟩ := watcher_add_event_max hwm h2 h4
      obtain ⟨w1, b1, b2⟩ := ih s2 s1 w2 a1 h5
      exact ⟨w1, b1, by rw [b2, a2, hm, h3]; rfl⟩

/-- Rewriting the watcher of a slot without touching its `max_event_id`. -/
theorem current_id_touch {s : fsevents_state} {j : Nat} {w w1 : fs_event_watcher} (i : Nat)
    (hw : get_watcher s j = some w) (hm : w1.max_event_id = w.max_event_id) :
    current_id (set_watcher s j (some w1)) i = current_id s i := by
  unfold current_id
  by_cases hij : j = i
  · subst hij
    rw [get_set_watcher_same _ _ _ (get_watcher_some_lt hw), hw]
    show some w1.max_event_id = some w.max_event_id
    rw [hm]
  · rw [get_set_watcher_other _ _ _ _ hij]

/-- No ioctl changes the `max_event_id` of a watcher. -/
theorem fseventsf_ioctl_current_id (s : fsevents_state) (j : Nat) (cmd : ioctl_cmd)
    (b1 b2 : Bool) (i : Nat) :
    current_id (fseventsf_ioctl s j cmd b1 b2).2.2 i = current_id s i := by
  unfold fseventsf_ioctl
  split
  · rfl
  · rename_i w hw
    split
    · rfl
    · rfl
    · exact current_id_touch i hw rfl
    · exact current_id_touch i hw rfl
    · rfl
    · split
      · rfl
      · split
        · rfl
        · split
          · exact current_id_touch i hw rfl
          · split
            · rfl
            · split
              · rfl
              · exact current_id_touch i hw rfl
    · split
      · dsimp only
        split <;> rfl
      · rfl
    · rfl

/-- What the body of `fmod_watch` changes of the watcher: its flags, its ring
and its reader count. -/
theorem watch_from_restart_fields (sleep_err : Int) : ∀ (fuel : Nat)
    (s : fsevents_state) (w : fs_event_watcher) (u : uio) (lf : Int) (err : Int)
    (s1 : fsevents_state) (w1 : fs_event_watcher) (u1 : uio),
    watch_from_restart sleep_err fuel s w u lf = some (err, s1, w1, u1) →
    w1.max_event_id = w.max_event_id := by
  intro fuel
  induction fuel with
  | zero => intro s w u lf err s1 w1 u1 h; simp [watch_from_restart] at h
  | succ n ih =>
    intro s w u lf err s1 w1 u1 h
    have hleave : ∀ (e : Int) (s2 : fsevents_state) (w2 : fs_event_watcher) (u2 : uio),
        some (e, s2, ({ w2 with num_readers := w2.num_readers - 1 } : fs_event_watcher), u2) =
          some (err, s1, w1, u1) →
        w2.max_event_id = w.max_event_id → w1.max_event_id = w.max_event_id := by
      intro e s2 w2 u2 heq a
      cases heq
      exact a
    simp only [watch_from_restart] at h
    split at h
    · exact hleave _ _ _ _ h rfl
    · split at h
      · exact hleave _ _ _ _ h rfl
      · rcases hem : emit_dropped w u lf with ⟨e2, w2, u2, lf2⟩
        rw [hem] at h
        dsimp only at h
        obtain ⟨f, hf, _⟩ := emit_dropped_flags hem
        have hr2 : w2.max_event_id = w.max_event_id := by rw [hf]
        split at h
        · exact hleave _ _ _ _ h hr2
        · split at h
          · cases h
          · rename_i s3 w3 u3 v3 hl
            obtain ⟨q, r, hq⟩ := watch_loop_watcher _ _ _ _ _ _ _ _ _ _ hl
            exact hleave _ _ _ _ h (by rw [hq]; exact hr2)
          · rename_i s3 w3 u3 v3 hl
            obtain ⟨q, r, hq⟩ := watch_loop_watcher _ _ _ _ _ _ _ _ _ _ hl
            have h3 : w3.max_event_id = w.max_event_id := by rw [hq]; exact hr2
            split at h
            · exact (ih _ _ _ _ _ _ _ _ h).trans h3
            · exact hleave _ _ _ _ h h3

/-- No read changes the `max_event_id` of a watcher. -/
theorem fmod_watch_current_id {s s1 : fsevents_state} {j : Nat} {u u1 : uio}
    {sleep_err r : Int} (h : fmod_watch s j u sleep_err = some (r, s1, u1)) (i : Nat) :
    current_id s1 i = current_id s i := by
  unfold fmod_watch at h
  split at h
  · cases h; rfl
  · rename_i w hw
    split at h
    · cases h; rfl
    · split at h
      · cases h; rfl
      · split at h
        · cases h; rfl
        · dsimp only at h
          split at h
          · cases h
          · rename_i err s2 w2 u2 hwr
            cases h
            have hm := watch_from_restart_fields _ _ _ _ _ _ _ _ _ _ hwr
            obtain ⟨_, htab⟩ := watch_from_restart_readers _ _ _ _ _ _ _ _ _ _ hwr
            have hw2 : get_watcher s2 j = some w := by
              rw [get_watcher_of_table htab]; exact hw
            rw [current_id_touch i hw2 hm]
            unfold current_id
            rw [get_watcher_of_table htab]

/-- C32, as the code has it: the watcher of `scn_full_ring` has one event, of
timestamp 1000, in its full ring; the CreateFile published at 2000 is offered
to it and rejected, so the queue still holds the event of timestamp 1000
alone, and yet `max_event_id` is 2000 and GetCurrentId returns 2000. -/
theorem C32_counterexample :
    reachable scn_full_ring ∧ get_watcher scn_full_ring 0 = some scn_full_ring_watcher ∧
    scn_full_ring_watcher.max_event_id = 1000 ∧
    pending scn_full_ring_watcher = [some 0] ∧
    (deref scn_full_ring 0).map (fun e => e.abstime) = some 1000 ∧
    add_fsevent scn_full_ring FSE_CREATE_FILE scn_path_args (scn_env 2000) =
      some (0, scn_full_ring_create) ∧
    (watcher_add_event scn_full_ring_mid 0 1).map (fun x => x.1) = some ENOSPC ∧
    (get_watcher scn_full_ring_create 0).map pending = some [some 0] ∧
    (deref scn_full_ring_create 0).map (fun e => e.abstime) = some 1000 ∧
    deref scn_full_ring_create 1 = none ∧
    current_id scn_full_ring_create 0 = some 2000 ∧
    fseventsf_ioctl scn_full_ring_create 0 ioctl_cmd.FSEVENTS_GET_CURRENT_ID true true =
      (0, some 2000, scn_full_ring_create) :=
  ⟨scn_full_ring_reachable, by decide, by decide, by decide, by decide, by decide, by decide,
    by decide, by decide, by decide, by decide, by decide⟩

/-- C32 (amended): a watcher registered by `add_watcher` starts with
`max_event_id` 0, and every call of `watcher_add_event` for it raises
`max_event_id` to the timestamp of the event when that is higher, whether the
event is stored, or rejected because the ring is full, or the queue is
drained; so after such calls on events with the timestamps `ts`, with
anything in between that leaves `max_event_id` alone, it is the highest of
`ts`, or 0 when `ts` is empty, and GetCurrentId returns exactly that value.
Reads and ioctls leave it alone. -/
theorem C32_max_event_id {s0 s s1 : fsevents_state} {i : Nat} (event_list : List Int)
    (num_events q : Int) (task : watcher_owner) (ts : List Nat)
    (hadd : add_watcher s0 event_list num_events q task = (0, some i, s))
    (hoff : offered_all i ts s s1) :
    ∃ w1, get_watcher s1 i = some w1 ∧ w1.max_event_id = ts.foldl max 0 ∧
      (∀ t ∈ ts, t ≤ w1.max_event_id) ∧ (ts ≠ [] → w1.max_event_id ∈ ts) ∧
      (∀ b1 b2 : Bool, fseventsf_ioctl s1 i ioctl_cmd.FSEVENTS_GET_CURRENT_ID b1 b2 =
        (0, some (ts.foldl max 0), s1)) ∧
      (∀ (u u1 : uio) (sleep_err r : Int) (s2 : fsevents_state),
        fmod_watch s1 i u sleep_err = some (r, s2, u1) → current_id s2 i = current_id s1 i) ∧
      (∀ (j : Nat) (cmd : ioctl_cmd) (b1 b2 : Bool),
        current_id (fseventsf_ioctl s1 j cmd b1 b2).2.2 i = current_id s1 i) := by
  have hw : ∃ w, get_watcher s i = some w ∧ w.max_event_id = 0 := by
    unfold add_watcher at hadd
    dsimp only at hadd
    split at hadd
    · cases hadd
    · split at hadd
      · cases hadd
      · rename_i i0 hi
        simp only [Prod.mk.injEq, Option.some.injEq, true_and] at hadd
        obtain ⟨hii, hss⟩ := hadd
        subst hii
        subst hss
        have hlt := (first_free_watcher_some _ _ hi).1
        refine ⟨_, get_set_watcher_same _ _ _ hlt, ?_⟩
        split <;> rfl
  obtain ⟨w, hw, hm0⟩ := hw
  obtain ⟨w1, a1, a2⟩ := offered_all_max i ts s s1 w hw hoff
  rw [hm0] at a2
  have hfold : ∀ (l : List Nat) (m : Nat), (∀ t ∈ l, t ≤ l.foldl max m) ∧ m ≤ l.foldl max m ∧
      (l.foldl max m = m ∨ l.foldl max m ∈ l) := by
    intro l
    induction l with
    | nil => intro m; exact ⟨fun t ht => (by cases ht), Nat.le_refl _, Or.inl rfl⟩
    | cons a l ih =>
      intro m
      obtain ⟨b1, b2, b3⟩ := ih (max m a)
      simp only [List.foldl_cons]
      refine ⟨fun t ht => ?_, le_trans (Nat.le_max_left _ _) b2, ?_⟩
      · rcases List.mem_cons.1 ht with g | g
        · rw [g]; exact le_trans (Nat.le_max_right _ _) b2
        · exact b1 t g
      · rcases b3 with g | g
        · rw [g]
          rcases Nat.le_total m a with h | h
          · rw [Nat.max_eq_right h]; exact Or.inr (List.mem_cons_self _ _)
          · rw [Nat.max_eq_left h]; exact Or.inl rfl
        · exact Or.inr (List.mem_cons_of_mem _ g)
  obtain ⟨c1, _, c3⟩ := hfold ts 0
  refine ⟨w1, a1, a2, fun t ht => (by rw [a2]; exact c1 t ht), fun hne => ?_, fun b1 b2 => ?_,
    fun u u1 sleep_err r s2 h => fmod_watch_current_id h i,
    fun j cmd b1 b2 => fseventsf_ioctl_current_id s1 j cmd b1 b2 i⟩
  · rw [a2]
    rcases c3 with g | g
    · cases ts with
      | nil => exact absurd rfl hne
      | cons a l =>
        rw [g]
        have := c1 a (List.mem_cons_self _ _)
        rw [g] at this
        have h0 : a = 0 := by omega
        rw [h0]
        exact List.mem_cons_self _ _
    · exact g
  · unfold fseventsf_ioctl
    rw [a1]
    dsimp only
    rw [a2]

/-- The two publishes that lead from `scn_narrow` to `scn_full_ring_create`,
as calls of `watcher_add_event` for the watcher in slot 0: the first stores the
event of timestamp 1000, the second rejects the event of timestamp 2000. -/
theorem scn_narrow_offered : offered_all 0 [1000, 2000] scn_narrow scn_full_ring_create :=
  ⟨scn_narrow_mid, 0, (deref scn_narrow_mid 0).getD {}, 0,
    ((watcher_add_event scn_narrow_mid 0 0).getD (0, scn_narrow)).2,
    by decide, by decide, by decide, by decide,
    scn_full_ring_mid, 1, (deref scn_full_ring_mid 1).getD {}, ENOSPC,
    ((watcher_add_event scn_full_ring_mid 0 1).getD (0, scn_narrow)).2,
    by decide, by decide, by decide, by decide,
    show current_id scn_full_ring_create 0 =
      current_id ((watcher_add_event scn_full_ring_mid 0 1).getD (0, scn_narrow)).2 0
      by decide⟩

/-- C32 (amended) at the watcher of `scn_narrow`, which is offered the events
of timestamps 1000 and 2000 and stores the first only. -/
theorem C32_max_event_id_witness :
    add_watcher (fsevents_internal_init 4) (List.replicate 17 FSE_REPORT) 17 2 {} =
      (0, some 0, scn_narrow) ∧
    offered_all 0 [1000, 2000] scn_narrow scn_full_ring_create ∧
    ∃ w1, get_watcher scn_full_ring_create 0 = some w1 ∧
      w1.max_event_id = ([1000, 2000] : List Nat).foldl max 0 ∧
      (∀ t ∈ ([1000, 2000] : List Nat), t ≤ w1.max_event_id) ∧
      (([1000, 2000] : List Nat) ≠ [] → w1.max_event_id ∈ ([1000, 2000] : List Nat)) ∧
      (∀ b1 b2 : Bool,
        fseventsf_ioctl scn_full_ring_create 0 ioctl_cmd.FSEVENTS_GET_CURRENT_ID b1 b2 =
          (0, some (([1000, 2000] : List Nat).foldl max 0), scn_full_ring_create)) ∧
      (∀ (u u1 : uio) (sleep_err r : Int) (s2 : fsevents_state),
        fmod_watch scn_full_ring_create 0 u sleep_err = some (r, s2, u1) →
        current_id s2 0 = current_id scn_full_ring_create 0) ∧
      (∀ (j : Nat) (cmd : ioctl_cmd) (b1 b2 : Bool),
        current_id (fseventsf_ioctl scn_full_ring_create j cmd b1 b2).2.2 0 =
          current_id scn_full_ring_create 0) :=
  ⟨by decide, scn_narrow_offered,
    C32_max_event_id (List.replicate 17 FSE_REPORT) 17 2 {} [1000, 2000]
      (show add_watcher (fsevents_internal_init 4) (List.replicate 17 FSE_REPORT) 17 2 {} =
        (0, some 0, scn_narrow) by decide) scn_narrow_offered⟩

/-! ## C39 -/

/-- C39 on two call sequences.  First: with the pool used up, ContentModified on
a vnode is rejected with `ENOSPC`, no zone element is taken and `last_event_ptr`
still names the older event in element 0, yet the dedup record now describes
the rejected event, and the same call 2 µs later is suppressed (return 0, only
`last_coalesced` changes).  Second: ContentModified on "/a" is queued for
watcher 0, CreateFile on "/a" (a kind that skips the filter) moves
`last_event_ptr` to element 1, watcher 0 reads its record and element 0 is
freed without the dedup record being reset, and ContentModified on "/a" 2 µs
later is suppressed: no element is taken and the queue of watcher 0 stays
empty. -/
theorem C39_dedup_record_outlives_event :
    (add_fsevent scn_small_used FSE_CONTENT_MODIFIED (scn_vnode_args scn_vnode) (scn_env 2000) =
        some (ENOSPC, scn_small_vnode_1) ∧
      scn_small_vnode_1.event_zone = scn_small_used.event_zone ∧
      scn_small_vnode_1.last_event_ptr = some 0 ∧
      (deref scn_small_vnode_1 0).map (fun e => (e.type, e.str)) =
        some (FSE_CONTENT_MODIFIED, some [47, 97]) ∧
      (scn_small_vnode_1.last_event_type, scn_small_vnode_1.last_ptr,
          scn_small_vnode_1.last_vid, scn_small_vnode_1.last_coalesced_time) =
        (FSE_CONTENT_MODIFIED, some (ptr_val.vnode_at 8), 3, 2000) ∧
      add_fsevent scn_small_vnode_1 FSE_CONTENT_MODIFIED (scn_vnode_args scn_vnode)
          (scn_env 4000) =
        some (0, { scn_small_vnode_1 with last_coalesced := 1 })) ∧
    (add_fsevent scn_split FSE_CONTENT_MODIFIED scn_path_args (scn_env 1000) =
        some (0, scn_split_modified) ∧
      (scn_split_modified.last_event_ptr, scn_split_modified.last_event_type,
          scn_split_modified.last_str) = (some 0, FSE_CONTENT_MODIFIED, [47, 97]) ∧
      add_fsevent scn_split_modified FSE_CREATE_FILE scn_path_args (scn_env 2000) =
        some (0, scn_split_created) ∧
      (scn_split_created.last_event_ptr, scn_split_created.last_event_type,
          scn_split_created.last_str) = (some 1, FSE_CONTENT_MODIFIED, [47, 97]) ∧
      fmod_watch scn_split_created 0 (scn_buffer 2048) 0 = some scn_split_read ∧
      scn_split_read.1 = 0 ∧
      scn_split_read.2.2.written =
        encode_record FSE_CONTENT_MODIFIED 100
          [(FSE_ARG_STRING, [47, 97, 0]), (FSE_ARG_INT64, le_bytes 8 1000)] ∧
      deref scn_split_read.2.1 0 = none ∧
      scn_split_read.2.1.zfree_log = [0] ∧
      (scn_split_read.2.1.last_event_ptr, scn_split_read.2.1.last_event_type,
          scn_split_read.2.1.last_str, scn_split_read.2.1.last_coalesced_time) =
        (some 1, FSE_CONTENT_MODIFIED, [47, 97], 1000) ∧
      (get_watcher scn_split_read.2.1 0).map pending = some [] ∧
      add_fsevent scn_split_read.2.1 FSE_CONTENT_MODIFIED scn_path_args (scn_env 3000) =
        some (0, { scn_split_read.2.1 with last_coalesced := 1 })) :=
  ⟨⟨by decide, by decide, by decide, by decide, by decide, by decide⟩,
    ⟨by decide, by decide, by decide, by decide, by decide, by decide, by decide, by decide,
      by decide, by decide, by decide, by decide⟩⟩

/-! ## The budget of the sibling-hardlink loop -/

theorem hlink_locals_orig (l : add_locals) :
    (hlink_locals l).orig_linkid = l.orig_linkid ∧
    (hlink_locals l).orig_linkcount = l.orig_linkcount := by
  unfold hlink_locals
  dsimp only
  constructor <;> (repeat' split) <;> rfl

theorem hlink_next_orig (v : vnode) (r : link_reply) (l : add_locals) :
    (hlink_next v r l).orig_linkid = l.orig_linkid ∧
    (hlink_next v r l).orig_linkcount = l.orig_linkcount := by
  unfold hlink_next
  constructor <;> (repeat' split) <;> rfl

theorem link_budget_pred {l l1 : add_locals} (hid : l.orig_linkid ≠ 0)
    (hc : l.orig_linkcount > 0) (h1 : l1.orig_linkid = l.orig_linkid)
    (h2 : l1.orig_linkcount = l.orig_linkcount - 1) :
    link_budget l1 + 1 = link_budget l ∧ l1.orig_linkid ≠ 0 := by
  unfold link_budget
  rw [h1, if_neg hid, if_neg hid, h2]
  refine ⟨?_, hid⟩
  omega

theorem finish_not_restart {s : fsevents_state} {k : Nat} {l : add_locals} {nx : clean_next}
    (h : (add_fsevent_finish s k l).map clean_next.done = some nx) :
    ∃ err s1, nx = clean_next.done (pass_result.ret err s1) := by
  rw [Option.map_eq_some'] at h
  obtain ⟨res, h2, rfl⟩ := h
  unfold add_fsevent_finish at h2
  split at h2
  · cases h2
  · cases h2
    exact ⟨_, _, rfl⟩

theorem hlink_asks_le (type : Int) (kfse : Nat) (links : List link_reply) (s : fsevents_state)
    (l : add_locals) :
    hlink_asks type kfse links s l ≤ 1 ∧ hlink_asks type kfse links s l ≤ link_budget l := by
  unfold hlink_asks
  split
  · exact ⟨Nat.zero_le _, Nat.zero_le _⟩
  · split
    · rename_i hc
      have hb : 1 ≤ link_budget l := by
        unfold link_budget
        rw [if_neg hc.2.2.2.2.2]
        have := hc.2.2.2.2.1
        omega
      split
      · split
        · exact ⟨le_refl _, hb⟩
        · exact ⟨Nat.zero_le _, Nat.zero_le _⟩
      · exact ⟨Nat.zero_le _, Nat.zero_le _⟩
    · exact ⟨Nat.zero_le _, Nat.zero_le _⟩

/-- One execution of the code from `clean_up` that goes on (with `goto
clean_up` or `goto restart`) has used one reply and one unit of the budget. -/
theorem hlink_block_budget {type : Int} {kfse : Nat} {links : List link_reply}
    {s : fsevents_state} {l : add_locals} {nx : clean_next}
    (hr : hlink_block type kfse links s l = some nx) :
    match nx with
    | clean_next.done (pass_result.ret _ _) => True
    | clean_next.done (pass_result.restart _ l1 links1 _) =>
      links1.length + 1 = links.length ∧ link_budget l1 + 1 = link_budget l ∧
        l1.orig_linkid ≠ 0
    | clean_next.again links1 l1 =>
      links1.length + 1 = links.length ∧ link_budget l1 + 1 = link_budget l ∧
        l1.orig_linkid ≠ 0 := by
  have hfin : ∀ {l1 : add_locals}, (add_fsevent_finish s kfse l1).map clean_next.done = some nx →
      match nx with
      | clean_next.done (pass_result.ret _ _) => True
      | clean_next.done (pass_result.restart _ l1 links1 _) =>
        links1.length + 1 = links.length ∧ link_budget l1 + 1 = link_budget l ∧
          l1.orig_linkid ≠ 0
      | clean_next.again links1 l1 =>
        links1.length + 1 = links.length ∧ link_budget l1 + 1 = link_budget l ∧
          l1.orig_linkid ≠ 0 := by
    intro l1 h1
    obtain ⟨err, s1, rfl⟩ := finish_not_restart h1
    trivial
  unfold hlink_block at hr
  split at hr
  · cases hr
  · split at hr
    · rename_i hc
      have hid := hc.2.2.2.2.2
      have hcnt := hc.2.2.2.2.1
      split at hr
      · rename_i xls link_vp r links1 hlv hll
        dsimp only at hr
        have ho := hlink_next_orig link_vp r (hlink_locals l)
        have ho2 := hlink_locals_orig l
        split at hr
        · split at hr
          · split at hr
            · split at hr
              · cases hr
              · cases hr
                exact ⟨by simp, link_budget_pred hid hcnt (ho.1.trans ho2.1)
                  (by show (hlink_next link_vp r (hlink_locals l)).orig_linkcount - 1 = _
                      rw [ho.2, ho2.2])⟩
            · exact hfin hr
          · split at hr
            · cases hr
              exact ⟨by simp, link_budget_pred hid hcnt (ho.1.trans ho2.1)
                (by show (hlink_next link_vp r (hlink_locals l)).orig_linkcount - 1 = _
                    rw [ho.2, ho2.2])⟩
            · exact hfin hr
        · exact hfin hr
      · exact hfin hr
    · exact hfin hr

theorem pass_within_mono {b b1 : Nat} {orig : Option pass_result}
    {traced : Option (Option pass_result × Nat)} (h : pass_within b orig traced) (hb : b ≤ b1) :
    pass_within b1 orig traced := by
  obtain ⟨q, h1, h2, h3⟩ := h
  refine ⟨q, h1, le_trans h2 hb, ?_⟩
  intro s1 l1 links1 now1 he
  obtain ⟨a, b2, c⟩ := h3 s1 l1 links1 now1 he
  exact ⟨le_trans a hb, le_trans b2 hb, c⟩

theorem pass_within_ret (b : Nat) (r : Option pass_result)
    (hr : ∀ s1 l1 links1 now1, r ≠ some (pass_result.restart s1 l1 links1 now1)) :
    pass_within b r (some (r, 0)) :=
  ⟨0, rfl, Nat.zero_le _, fun s1 l1 links1 now1 he => absurd he (hr s1 l1 links1 now1)⟩

theorem clean_up_loop_traced_spec (type : Int) (kfse : Nat) (s : fsevents_state) :
    ∀ (fuel : Nat) (links : List link_reply) (l : add_locals), links.length + 1 ≤ fuel →
      pass_within (link_budget l) (clean_up_loop type kfse s fuel links l)
        (clean_up_loop_traced type kfse s fuel links l) := by
  intro fuel
  induction fuel with
  | zero => intro links l h; omega
  | succ n ih =>
    intro links l hf
    have ha := hlink_asks_le type kfse links s l
    simp only [clean_up_loop, clean_up_loop_traced]
    cases hb : hlink_block type kfse links s l with
    | none =>
      dsimp only
      exact ⟨_, rfl, ha.2, fun s1 l1 links1 now1 he => by cases he⟩
    | some nx =>
      have hbud := hlink_block_budget hb
      cases nx with
      | done r =>
        dsimp only
        refine ⟨_, rfl, ha.2, ?_⟩
        intro s1 l1 links1 now1 he
        cases he
        dsimp only at hbud
        have h1 := ha.1
        exact ⟨by omega, by omega, hbud.2.2⟩
      | again links1 l1 =>
        dsimp only at hbud ⊢
        obtain ⟨q, h1, h2, h3⟩ := ih links1 l1 (by omega)
        rw [h1]
        dsimp only
        have h4 := ha.1
        refine ⟨_, rfl, by omega, ?_⟩
        intro s2 l2 links2 now2 he
        obtain ⟨a, b, c⟩ := h3 s2 l2 links2 now2 he
        exact ⟨by omega, by omega, c⟩

theorem clean_up_traced_spec (type : Int) (kfse : Nat) (links : List link_reply)
    (s : fsevents_state) (l : add_locals) :
    pass_within (link_budget l) (clean_up type kfse links s l)
      (clean_up_traced type kfse links s l) :=
  clean_up_loop_traced_spec type kfse s _ links l (le_refl _)

/-! ## The argument blocks do not raise the budget -/

theorem vnode_locals_budget (l : add_locals) (v : vnode) :
    link_budget (vnode_locals l v) ≤ link_budget l := by
  unfold vnode_locals
  dsimp only
  split
  · rename_i h
    unfold link_budget
    dsimp only
    rw [if_pos h.2]
    split
    · exact le_refl _
    · have : min (v.va_nlink : Int) MAX_HARDLINK_NOTIFICATIONS ≤ 128 := min_le_right _ _
      omega
  · exact le_refl _

theorem finfo_locals_budget (l : add_locals) (fse : fse_info) :
    link_budget (finfo_locals l fse) ≤ link_budget l := by
  unfold finfo_locals
  dsimp only
  split
  · rename_i h
    unfold link_budget
    dsimp only
    rw [if_pos h.2]
    split
    · exact le_refl _
    · have : min (fse.nlink : Int) MAX_HARDLINK_NOTIFICATIONS ≤ 128 := min_le_right _ _
      omega
  · exact le_refl _

theorem arg_vnode_budget {s s1 : fsevents_state} {kfse : Nat} {kd cur c1 : Option Nat}
    {l l1 : add_locals} {vp : Option vnode} {b : Bool}
    (h : arg_vnode s kfse kd cur l vp = some (s1, c1, l1, b)) :
    link_budget l1 ≤ link_budget l := by
  unfold arg_vnode at h
  split at h
  · split at h
    · cases h
    · split at h
      · split at h
        · cases h
        · cases h
          exact le_refl _
      · split at h
        · cases h
        · simp only [] at h
          split at h
          · cases h
          · split at h
            · cases h
              exact vnode_locals_budget _ _
            · split at h
              · cases h
              · split at h
                · cases h
                · cases h
                  exact vnode_locals_budget _ _
  · cases h

theorem arg_finfo_budget {s s1 : fsevents_state} {cur : Option Nat} {l l1 : add_locals}
    {fse : fse_info} (h : arg_finfo s cur l fse = some (s1, l1)) :
    link_budget l1 ≤ link_budget l := by
  unfold arg_finfo at h
  split at h
  · cases h
  · split at h
    · cases h
    · cases h
      exact finfo_locals_budget _ _

theorem regular_arg_budget {kfse : Nat} {kd : Option Nat} {ap : List va_word}
    {s s1 : fsevents_state} {cur cur1 : Option Nat} {l l1 : add_locals} {nx : arg_next}
    (h : regular_arg kfse kd ap s cur l = some (s1, cur1, l1, nx)) :
    link_budget l1 ≤ link_budget l := by
  unfold regular_arg at h
  split at h
  · split at h
    · cases h; exact le_refl _
    · split at h
      · split at h
        · split at h
          · cases h
          · rename_i h2
            cases h
            exact arg_vnode_budget h2
          · rename_i h2
            cases h
            exact arg_vnode_budget h2
        · cases h
      · split at h
        · split at h
          · split at h
            · cases h
            · rename_i h2
              cases h
              exact arg_finfo_budget h2
          · cases h
        · split at h
          · split at h
            · split at h
              · cases h
              · split at h
                · split at h
                  · split at h
                    · cases h
                    · cases h
                      exact le_refl _
                  · cases h
                · split at h
                  · cases h
                  · cases h
                    exact le_refl _
            · cases h
          · split at h
            · split at h
              · split at h
                · cases h
                · cases h
                  exact le_refl _
              · cases h
            · split at h
              · cases h; exact le_refl _
              · cases h
  · cases h

theorem fill_regular_budget (kfse : Nat) (kd : Option Nat) (fuel : Nat) :
    ∀ {ap : List va_word} {s s1 : fsevents_state} {cur : Option Nat} {l l1 : add_locals}
      {b : Bool}, fill_regular kfse kd fuel ap s cur l = some (s1, l1, b) →
      link_budget l1 ≤ link_budget l := by
  induction fuel with
  | zero => intro ap s s1 cur l l1 b h; simp [fill_regular] at h
  | succ fuel ih =>
    intro ap s s1 cur l l1 b h
    simp only [fill_regular] at h
    split at h
    · cases h
    · rename_i h2; cases h; exact regular_arg_budget h2
    · rename_i h2; cases h; exact regular_arg_budget h2
    · rename_i h2; exact le_trans (ih h) (regular_arg_budget h2)

theorem fill_event_budget {s s1 : fsevents_state} {type : Int} {kfse : Nat} {kd : Option Nat}
    {ap : List va_word} {env : fse_env} {l l1 : add_locals} {b : Bool}
    (h : fill_event s type kfse kd ap env l = some (s1, l1, b)) :
    link_budget l1 ≤ link_budget l := by
  unfold fill_event at h
  have hmap : ∀ {o : Option fsevents_state},
      o.map (fun s => (s, { l with do_all_links := false }, false)) = some (s1, l1, b) →
      link_budget l1 ≤ link_budget l := by
    intro o ho
    rw [Option.map_eq_some'] at ho
    obtain ⟨x, _, hx⟩ := ho
    cases hx
    exact le_refl _
  split at h
  · exact hmap h
  · split at h
    · exact hmap h
    · split at h
      · exact hmap h
      · split at h
        · exact hmap h
        · exact fill_regular_budget _ _ _ h

/-! ## The passes -/

theorem deliver_pass_traced_spec (s : fsevents_state) (type : Int) (kfse : Nat)
    (kd : Option Nat) (l : add_locals) (links : List link_reply) (skip : Bool) :
    pass_within (link_budget l) (deliver_pass s type kfse kd l links skip)
      (deliver_pass_traced s type kfse kd l links skip) := by
  unfold deliver_pass deliver_pass_traced
  split
  · exact clean_up_traced_spec _ _ _ _ _
  · cases done_with_args s kfse kd with
    | none => exact pass_within_ret _ _ (fun _ _ _ _ he => by cases he)
    | some s1 =>
      dsimp only
      cases fan_out type l.dev kfse (List.range MAX_WATCHERS) s1 with
      | none => exact pass_within_ret _ _ (fun _ _ _ _ he => by cases he)
      | some s2 => exact clean_up_traced_spec _ _ _ _ _

theorem publish_pass_traced_spec (s : fsevents_state) (type : Int) (ap : List va_word)
    (env : fse_env) (now : Nat) (l : add_locals) (links : List link_reply) :
    pass_within (link_budget l) (publish_pass s type ap env now l links)
      (publish_pass_traced s type ap env now l links) := by
  unfold publish_pass publish_pass_traced
  rcases hal : alloc_events s type with ⟨k, kd, s1⟩
  cases k with
  | none => exact pass_within_ret _ _ (fun _ _ _ _ he => by cases he)
  | some kfse =>
    dsimp only
    cases hf : fill_event (publish_events s1 type now env.pid kfse kd) type kfse kd ap env l with
    | none => exact pass_within_ret _ _ (fun _ _ _ _ he => by cases he)
    | some x =>
      obtain ⟨s2, l2, skip⟩ := x
      dsimp only
      exact pass_within_mono (deliver_pass_traced_spec _ _ _ _ _ _ _) (fill_event_budget hf)

theorem add_fsevent_pass_traced_spec (s : fsevents_state) (type : Int) (ap : List va_word)
    (env : fse_env) (now : Nat) (l : add_locals) (links : List link_reply) :
    pass_within (link_budget l) (add_fsevent_pass s type ap env now l links)
      (add_fsevent_pass_traced s type ap env now l links) := by
  unfold add_fsevent_pass add_fsevent_pass_traced
  split
  · exact pass_within_ret _ _ (fun _ _ _ _ he => by cases he)
  · split
    · exact pass_within_ret _ _ (fun _ _ _ _ he => by cases he)
    · split
      · cases dedup_filter s type ap env now with
        | none => exact pass_within_ret _ _ (fun _ _ _ _ he => by cases he)
        | some x =>
          obtain ⟨b, s1⟩ := x
          cases b with
          | true => exact pass_within_ret _ _ (fun _ _ _ _ he => by cases he)
          | false => exact publish_pass_traced_spec _ _ _ _ _ _ _
      · exact publish_pass_traced_spec _ _ _ _ _ _ _

/-- With more fuel than budget the passes of `add_fsevent` come to an end: the
traced loop returns the result of the loop it traces, and the queries and the
restarts are each within the budget. -/
theorem add_fsevent_loop_traced_spec (type : Int) (ap : List va_word) (env : fse_env) :
    ∀ (fuel : Nat) (s : fsevents_state) (now : Nat) (l : add_locals) (links : List link_reply),
      link_budget l + 1 ≤ fuel →
      ∃ q p, add_fsevent_loop_traced type ap env fuel s now l links =
          some (add_fsevent_loop type ap env fuel s now l links, q, p) ∧
        q ≤ link_budget l ∧ p ≤ link_budget l := by
  intro fuel
  induction fuel with
  | zero => intro s now l links h; omega
  | succ n ih =>
    intro s now l links hf
    obtain ⟨q0, h1, h2, h3⟩ := add_fsevent_pass_traced_spec s type ap env now l links
    simp only [add_fsevent_loop, add_fsevent_loop_traced]
    rw [h1]
    cases hp : add_fsevent_pass s type ap env now l links with
    | none => exact ⟨q0, 0, rfl, h2, Nat.zero_le _⟩
    | some r =>
      cases r with
      | ret err s1 => exact ⟨q0, 0, rfl, h2, Nat.zero_le _⟩
      | restart s1 l1 links1 now1 =>
        obtain ⟨a, b, c⟩ := h3 s1 l1 links1 now1 hp
        obtain ⟨q1, p1, e1, e2, e3⟩ := ih s1 now1 l1 links1 (by omega)
        dsimp only
        rw [e1]
        exact ⟨q1 + q0, p1 + 1, rfl, by omega, by omega⟩

theorem add_fsevent_traced_spec (s : fsevents_state) (type : Int) (ap : List va_word)
    (env : fse_env) :
    ∃ q p, add_fsevent_traced s type ap env = some (add_fsevent s type ap env, q, p) ∧
      q ≤ 128 ∧ p ≤ 128 := by
  unfold add_fsevent_traced add_fsevent
  dsimp only
  split
  · exact add_fsevent_loop_traced_spec _ ap env 130 s env.now _ env.links
      (by simp [link_budget])
  · exact add_fsevent_loop_traced_spec _ ap env 130 s env.now _ env.links
      (by simp [link_budget])

/-- A sibling link whose path does not resolve sends control back to the label
`clean_up` with the same event, the rest of the answers, and one unit less of
budget. -/
theorem hlink_block_failed {type : Int} {kfse : Nat} {k : kfs_event} {v : vnode}
    {r : link_reply} {links : List link_reply} {s : fsevents_state} {l : add_locals}
    (hk : deref s kfse = some k) (hall : l.do_all_links = true)
    (hh : has_flag k.mode FSE_MODE_HLINK = true)
    (hlast : has_flag k.mode FSE_MODE_LAST_HLINK = false) (ht : hlink_type type = true)
    (hc : l.orig_linkcount > 0) (hid : l.orig_linkid ≠ 0)
    (hv : (hlink_locals l).link_vp = some v) (hi : hlink_iret v r = 0)
    (hn : (hlink_next v r (hlink_locals l)).next_linkid ≠ 0) (hg : r.getpath_iret ≠ 0) :
    ∃ l1, hlink_block type kfse (r :: links) s l = some (clean_next.again links l1) ∧
      l1.orig_linkcount = l.orig_linkcount - 1 ∧ l1.orig_linkid = l.orig_linkid ∧
      link_budget l1 + 1 = link_budget l := by
  have ho := hlink_next_orig v r (hlink_locals l)
  have ho2 := hlink_locals_orig l
  have hcond : l.do_all_links ∧ has_flag k.mode FSE_MODE_HLINK ∧
      ¬ has_flag k.mode FSE_MODE_LAST_HLINK ∧ hlink_type type ∧ l.orig_linkcount > 0 ∧
      l.orig_linkid ≠ 0 := ⟨hall, hh, by rw [hlast]; decide, ht, hc, hid⟩
  have hge : (hlink_next v r (hlink_locals l)).orig_linkcount - 1 ≥ 0 := by
    rw [ho.2, ho2.2]; omega
  refine ⟨{ hlink_next v r (hlink_locals l) with
      orig_linkcount := (hlink_next v r (hlink_locals l)).orig_linkcount - 1 }, ?_, ?_, ?_, ?_⟩
  · unfold hlink_block
    rw [hk]
    dsimp only
    rw [if_pos hcond, hv]
    dsimp only
    rw [if_pos ⟨hi, hn⟩, if_neg hg, if_pos hge]
  · show (hlink_next v r (hlink_locals l)).orig_linkcount - 1 = _
    rw [ho.2, ho2.2]
  · exact ho.1.trans ho2.1
  · exact (@link_budget_pred l ({ hlink_next v r (hlink_locals l) with
        orig_linkcount := (hlink_next v r (hlink_locals l)).orig_linkcount - 1 }) hid hc
      (ho.1.trans ho2.1)
      (by show (hlink_next v r (hlink_locals l)).orig_linkcount - 1 = _
          rw [ho.2, ho2.2])).1

/-! ## C37 -/

/-- C37: whatever the next-link and path-resolution collaborators answer, a call
of `add_fsevent` comes to an end (the traced function, whose only way to
give no result is the end of the fuel, returns the result of `add_fsevent`),
issues at most 128 next-link queries and executes `goto restart` at most 128
times.  And when the sibling-hardlink block gets a next link whose path does
not resolve, control goes back to the label `clean_up` with the same event and
the rest of the answers, `orig_linkcount` one less. -/
theorem C37_hardlink_budget (s : fsevents_state) (type : Int) (ap : List va_word)
    (env : fse_env) :
    (∃ q p, add_fsevent_traced s type ap env = some (add_fsevent s type ap env, q, p) ∧
      q ≤ 128 ∧ p ≤ 128) ∧
    ∀ (kfse : Nat) (k : kfs_event) (v : vnode) (r : link_reply) (links : List link_reply)
      (l : add_locals), deref s kfse = some k → l.do_all_links = true →
      has_flag k.mode FSE_MODE_HLINK = true → has_flag k.mode FSE_MODE_LAST_HLINK = false →
      hlink_type type = true → l.orig_linkcount > 0 → l.orig_linkid ≠ 0 →
      (hlink_locals l).link_vp = some v → hlink_iret v r = 0 →
      (hlink_next v r (hlink_locals l)).next_linkid ≠ 0 → r.getpath_iret ≠ 0 →
      ∃ l1, hlink_block type kfse (r :: links) s l = some (clean_next.again links l1) ∧
        l1.orig_linkcount = l.orig_linkcount - 1 ∧ l1.orig_linkid = l.orig_linkid ∧
        link_budget l1 + 1 = link_budget l :=
  ⟨add_fsevent_traced_spec s type ap env,
    fun _ _ _ _ _ _ hk hall hh hlast ht hc hid hv hi hn hg =>
      hlink_block_failed hk hall hh hlast ht hc hid hv hi hn hg⟩

/-- The call of C37 on a file with 200 links whose first sibling does not
resolve and whose second resolves to "/b": two queries, one restart, and both
"/a" and "/b" are queued; and the block at the broken link in the state the
call leaves. -/
theorem C37_hardlink_budget_witness :
    (∃ q p, add_fsevent_traced scn_one_watcher FSE_CONTENT_MODIFIED scn_many_args scn_mixed_env =
        some (add_fsevent scn_one_watcher FSE_CONTENT_MODIFIED scn_many_args scn_mixed_env,
          q, p) ∧ q ≤ 128 ∧ p ≤ 128) ∧
    (add_fsevent_traced scn_one_watcher FSE_CONTENT_MODIFIED scn_many_args scn_mixed_env).map
        (fun x => x.2) = some (2, 1) ∧
    add_fsevent scn_one_watcher FSE_CONTENT_MODIFIED scn_many_args scn_mixed_env =
      some (0, scn_mixed_result) ∧
    (get_watcher scn_mixed_result 0).map pending = some [some 0, some 1] ∧
    (deref scn_mixed_result 0).bind (fun e => e.str) = some [47, 97] ∧
    (deref scn_mixed_result 1).bind (fun e => e.str) = some [47, 98] ∧
    ∃ l1, hlink_block FSE_CONTENT_MODIFIED 0 [scn_broken_link, scn_good_link] scn_mixed_result
        scn_many_locals = some (clean_next.again [scn_good_link] l1) ∧
      l1.orig_linkcount = scn_many_locals.orig_linkcount - 1 ∧
      l1.orig_linkid = scn_many_locals.orig_linkid ∧
      link_budget l1 + 1 = link_budget scn_many_locals :=
  ⟨(C37_hardlink_budget scn_one_watcher FSE_CONTENT_MODIFIED scn_many_args scn_mixed_env).1,
    by decide, by decide, by decide, by decide, by decide,
    (C37_hardlink_budget scn_mixed_result FSE_CONTENT_MODIFIED scn_many_args scn_mixed_env).2
      0 ((deref scn_mixed_result 0).getD {}) scn_many_links scn_broken_link [scn_good_link]
      scn_many_locals (by decide) (by decide) (by decide) (by decide) (by decide) (by decide)
      (by decide) (by decide) (by decide) (by decide) (by decide)⟩

/-- With 200 sibling links none of which resolves, the call makes exactly 128
queries and no restart, and returns 0 with the one event queued. -/
theorem scn_broken_links_counts :
    (add_fsevent_traced scn_one_watcher FSE_CONTENT_MODIFIED scn_many_args scn_broken_env).map
        (fun x => (x.1.map (fun y => y.1), x.2)) = some (some 0, 128, 0) := by
  decide

/-- With 200 sibling links each of which resolves, the call makes exactly 128
queries and 128 restarts. -/
theorem scn_endless_links_counts :
    (add_fsevent_traced scn_roomy FSE_CONTENT_MODIFIED scn_many_args scn_endless_env).map
        (fun x => (x.1.map (fun y => y.1), x.2)) = some (some 0, 128, 128) := by
  decide

/-! ## Reading back what the encoders write -/

theorem read_le_le_bytes : ∀ (n v : Nat) (rest : List Nat),
    read_le n (le_bytes n v ++ rest) = v % 256 ^ n := by
  intro n
  induction n with
  | zero => intro v rest; simp [read_le, Nat.mod_one]
  | succ n ih =>
    intro v rest
    show v % 256 + 256 * read_le n (le_bytes n (v / 256) ++ rest) = _
    rw [ih, pow_succ, mul_comm (256 ^ n) 256, Nat.mod_mul]

theorem drop_append_len {a b : List Nat} {n : Nat} (h : a.length = n) : (a ++ b).drop n = b := by
  subst h
  exact List.drop_left _ _

theorem read_int32_le_bytes (v : Int) (rest : List Nat) (h1 : -2147483648 ≤ v)
    (h2 : v < 2147483648) : read_int32 (le_bytes_int32 v ++ rest) = v := by
  unfold read_int32 le_bytes_int32
  rw [read_le_le_bytes]
  unfold wrap32
  have h3 : ((256 : Nat) ^ 4 : Nat) = 4294967296 := by norm_num
  rw [h3]
  have h4 : (2 : Int) ^ 32 = 4294967296 := by norm_num
  rw [h4]
  omega

theorem encode_fse_info_length (f : fse_info) : (encode_fse_info f).length = 32 := by
  simp [encode_fse_info, le_bytes_length, le_bytes_int32]

theorem read_fse_info_encode (f : fse_info) (rest : List Nat) (h : fse_info_fits f) :
    read_fse_info (encode_fse_info f ++ rest) = f := by
  obtain ⟨h1, h2, h3, h4, h5, h6, h7⟩ := h
  have e8 : ((256 : Nat) ^ 8 : Nat) = 2 ^ 64 := by norm_num
  have e4 : ((256 : Nat) ^ 4 : Nat) = 2 ^ 32 := by norm_num
  have d8 : (encode_fse_info f ++ rest).drop 8 =
      le_bytes_int32 f.dev ++ (le_bytes 4 f.mode ++ (le_bytes 4 f.uid ++
        (le_bytes 4 f.document_id ++ (le_bytes 8 f.nlink ++ rest)))) := by
    unfold encode_fse_info
    simp only [List.append_assoc]
    exact drop_append_len (le_bytes_length _ _)
  have d12 : (encode_fse_info f ++ rest).drop 12 =
      le_bytes 4 f.mode ++ (le_bytes 4 f.uid ++
        (le_bytes 4 f.document_id ++ (le_bytes 8 f.nlink ++ rest))) := by
    have : (12 : Nat) = 8 + 4 := rfl
    rw [this, ← List.drop_drop, d8]
    exact drop_append_len (le_bytes_length _ _)
  have d16 : (encode_fse_info f ++ rest).drop 16 =
      le_bytes 4 f.uid ++ (le_bytes 4 f.document_id ++ (le_bytes 8 f.nlink ++ rest)) := by
    have : (16 : Nat) = 12 + 4 := rfl
    rw [this, ← List.drop_drop, d12]
    exact drop_append_len (le_bytes_length _ _)
  have d20 : (encode_fse_info f ++ rest).drop 20 =
      le_bytes 4 f.document_id ++ (le_bytes 8 f.nlink ++ rest) := by
    have : (20 : Nat) = 16 + 4 := rfl
    rw [this, ← List.drop_drop, d16]
    exact drop_append_len (le_bytes_length _ _)
  have d24 : (encode_fse_info f ++ rest).drop 24 = le_bytes 8 f.nlink ++ rest := by
    have : (24 : Nat) = 20 + 4 := rfl
    rw [this, ← List.drop_drop, d20]
    exact drop_append_len (le_bytes_length _ _)
  have d0 : encode_fse_info f ++ rest =
      le_bytes 8 f.ino ++ (le_bytes_int32 f.dev ++ (le_bytes 4 f.mode ++ (le_bytes 4 f.uid ++
        (le_bytes 4 f.document_id ++ (le_bytes 8 f.nlink ++ rest))))) := by
    unfold encode_fse_info
    simp only [List.append_assoc]
  unfold read_fse_info
  rw [d8, d12, d16, d20, d24]
  have hdev : wrap32 (read_le 4 (le_bytes_int32 f.dev ++ (le_bytes 4 f.mode ++ (le_bytes 4 f.uid ++
      (le_bytes 4 f.document_id ++ (le_bytes 8 f.nlink ++ rest)))))) = f.dev :=
    read_int32_le_bytes f.dev _ h2 h3
  rw [hdev, d0, read_le_le_bytes, read_le_le_bytes, read_le_le_bytes, read_le_le_bytes,
    read_le_le_bytes, e8, e4, Nat.mod_eq_of_lt h1, Nat.mod_eq_of_lt h4, Nat.mod_eq_of_lt h5,
    Nat.mod_eq_of_lt h6, Nat.mod_eq_of_lt h7]

/-! ## The path scan -/

theorem scan_path_append : ∀ (p rest : List Nat), (∀ c ∈ p, c ≠ 0) →
    scan_path (p ++ 0 :: rest) = (p, 0 :: rest) := by
  intro p
  induction p with
  | nil => intro rest _; simp [scan_path]
  | cons c p ih =>
    intro rest h
    have hc : c ≠ 0 := h c (List.mem_cons_self _ _)
    have hp := ih rest (fun d hd => h d (List.mem_cons_of_mem _ hd))
    show scan_path (c :: (p ++ 0 :: rest)) = _
    simp only [scan_path, if_neg hc, hp]

theorem scan_path_no_nul : ∀ (p : List Nat), 0 ∉ p → scan_path p = (p, []) := by
  intro p
  induction p with
  | nil => intro _; rfl
  | cons c p ih =>
    intro h
    have hc : c ≠ 0 := fun e => h (e ▸ List.mem_cons_self _ _)
    have hp := ih (fun hd => h (List.mem_cons_of_mem _ hd))
    simp only [scan_path, if_neg hc, hp]

theorem scan_path_snd : ∀ (p : List Nat), (scan_path p).2 = p.dropWhile (fun c => c ≠ 0) := by
  intro p
  induction p with
  | nil => rfl
  | cons c p ih =>
    by_cases hc : c = 0
    · simp [scan_path, hc, List.dropWhile]
    · simp [scan_path, hc, List.dropWhile, ih]

theorem scan_path_length : ∀ (p : List Nat), (scan_path p).2.length ≤ p.length := by
  intro p
  induction p with
  | nil => simp [scan_path]
  | cons c p ih =>
    by_cases hc : c = 0
    · simp [scan_path, hc]
    · simp only [scan_path, if_neg hc, List.length_cons]
      omega

/-! ## One record -/

/-- The bytes of the second half of a packed record. -/
theorem encode_packed_eq (r : packed_record) (rest : List Nat) :
    encode_packed r ++ rest =
      le_bytes_int32 r.kind ++ (encode_fse_info r.finfo ++ (r.path ++ 0 ::
        ((match r.dest with
          | none => []
          | some d => encode_fse_info d.1 ++ (d.2 ++ [0])) ++ rest))) := by
  unfold encode_packed
  cases r.dest <;> simp [List.append_assoc]

theorem encode_packed_length (r : packed_record) :
    (encode_packed r).length = 37 + r.path.length +
      (match r.dest with
       | none => 0
       | some d => 33 + d.2.length) := by
  unfold encode_packed
  cases r.dest <;>
    simp [le_bytes_int32_length, encode_fse_info_length] <;> omega

theorem packed_ok_kind {r : packed_record} (h : packed_ok r) : ¬ bad_kind r.kind := by
  obtain ⟨h1, h2, h3, h4, _⟩ := h
  unfold bad_kind
  intro hb
  rcases hb with hb | hb | hb | hb
  · omega
  · exact h3 hb
  · exact h4 hb
  · omega

theorem read_int32_encode_packed (r : packed_record) (rest : List Nat) (h : packed_ok r) :
    read_int32 (encode_packed r ++ rest) = r.kind := by
  rw [encode_packed_eq]
  obtain ⟨h1, h2, _⟩ := h
  have h3 : r.kind < 17 := h2
  exact read_int32_le_bytes _ _ (by omega) (by omega)

/-- One iteration of the parsing loop at the bytes of a well-formed record with
more than 37 bytes to the end of the buffer hands the record to `add_fsevent`;
an error ends the function with the bytes after the record as the remainder,
and success moves on to them. -/
theorem parse_body_record (env : Nat → fse_env) {r : packed_record} {rest : List Nat}
    (es : List Nat) (s : fsevents_state) (k : Nat) (hok : packed_ok r)
    (hlen : 37 < (encode_packed r ++ rest).length) :
    parse_body env (encode_packed r ++ rest) es s k =
      match add_fsevent s r.kind (record_args r) (env k) with
      | none => parse_next.undefined
      | some (err, s1) =>
        if err ≠ 0 then parse_next.ret (err, rest.length, s1, k + 1)
        else parse_next.more rest rest s1 (k + 1) := by
  have hkind := read_int32_encode_packed r rest hok
  have hbad : ¬ (r.kind < 0 ∨ r.kind = FSE_ACCESS_GRANTED ∨ r.kind = FSE_ACTIVITY ∨
      r.kind ≥ FSE_MAX_EVENTS) := packed_ok_kind hok
  have hlen1 : SIZEOF_INT + SIZEOF_FSE_INFO + 1 < (encode_packed r ++ rest).length := hlen
  obtain ⟨_, _, _, _, hfit, hpath, hdest⟩ := hok
  have h4 : (encode_packed r ++ rest).drop SIZEOF_INT =
      encode_fse_info r.finfo ++ (r.path ++ 0 ::
        ((match r.dest with
          | none => []
          | some d => encode_fse_info d.1 ++ (d.2 ++ [0])) ++ rest)) := by
    rw [encode_packed_eq]
    exact drop_append_len (le_bytes_int32_length _)
  unfold parse_body
  dsimp only
  rw [if_pos hlen1, hkind, if_neg hbad, h4, read_fse_info_encode _ _ hfit,
    drop_append_len (encode_fse_info_length _), scan_path_append _ _ hpath]
  dsimp only
  rw [if_neg (List.cons_ne_nil _ _), List.tail_cons]
  cases hd : r.dest with
  | none =>
    rw [hd] at hdest
    dsimp only at hdest ⊢
    rw [if_pos hdest]
    simp only [record_args, hd, List.nil_append, List.cons_append, List.append_nil] <;>
      rcases add_fsevent s r.kind _ (env k) with _ | ⟨err, s1⟩ <;> rfl
  | some d =>
    rw [hd] at hdest
    dsimp only at hdest ⊢
    obtain ⟨htwo, hfit2, hpath2⟩ := hdest
    have hne : ¬ (two_target r.kind = false) := by rw [htwo]; decide
    rw [if_neg hne]
    have e1 : encode_fse_info d.1 ++ (d.2 ++ [0]) ++ rest =
        encode_fse_info d.1 ++ (d.2 ++ 0 :: rest) := by simp [List.append_assoc]
    rw [e1, read_fse_info_encode _ _ hfit2, drop_append_len (encode_fse_info_length _),
      scan_path_append _ _ hpath2]
    dsimp only
    rw [if_neg (List.cons_ne_nil _ _), List.tail_cons]
    by_cases hino : d.1.ino ≠ 0
    · rw [if_pos hino]
      simp only [record_args, hd, if_pos hino, List.nil_append, List.cons_append,
        List.append_nil] <;>
        rcases add_fsevent s r.kind _ (env k) with _ | ⟨err, s1⟩ <;> rfl
    · rw [if_neg hino]
      simp only [record_args, hd, if_neg hino, List.nil_append, List.cons_append,
        List.append_nil] <;>
        rcases add_fsevent s r.kind _ (env k) with _ | ⟨err, s1⟩ <;> rfl

/-! ## Where parsing stops -/

theorem parse_body_stops (env : Nat → fse_env) {b : List Nat} (es : List Nat)
    (s : fsevents_state) (k : Nat) (h : parse_stops b) :
    parse_body env b es s k = parse_next.ret (stop_error b, es.length, s, k) := by
  unfold parse_body stop_error
  dsimp only
  by_cases hlen : 37 < b.length
  · have hlen1 : SIZEOF_INT + SIZEOF_FSE_INFO + 1 < b.length := hlen
    rw [if_pos hlen1]
    by_cases hbk : bad_kind (read_int32 b)
    · have hbk1 : read_int32 b < 0 ∨ read_int32 b = FSE_ACCESS_GRANTED ∨
          read_int32 b = FSE_ACTIVITY ∨ read_int32 b ≥ FSE_MAX_EVENTS := hbk
      rw [if_pos hbk1, if_pos ⟨hlen, hbk⟩]
    · have hbk1 : ¬ (read_int32 b < 0 ∨ read_int32 b = FSE_ACCESS_GRANTED ∨
          read_int32 b = FSE_ACTIVITY ∨ read_int32 b ≥ FSE_MAX_EVENTS) := hbk
      have hse : ¬ (37 < b.length ∧ bad_kind (read_int32 b)) := fun hc => hbk hc.2
      rw [if_neg hbk1, if_neg hse]
      have hcut : record_cut b := by
        rcases h with h | h | h
        · omega
        · exact absurd h hbk
        · exact h
      have hdd : List.drop SIZEOF_FSE_INFO (List.drop SIZEOF_INT b) = b.drop 36 := by
        show List.drop 32 (List.drop 4 b) = _
        rw [List.drop_drop]
      rw [hdd]
      by_cases hnul : (scan_path (b.drop 36)).2 = []
      · rw [if_pos hnul]
      · rw [if_neg hnul]
        rcases hcut with hcut | ⟨htwo, hcut⟩
        · exact absurd (by rw [scan_path_no_nul _ hcut]) hnul
        · have hne : ¬ (two_target (read_int32 b) = false) := by rw [htwo]; decide
          rw [if_neg hne]
          have h33 : List.drop SIZEOF_FSE_INFO (scan_path (b.drop 36)).2.tail =
              ((b.drop 36).dropWhile (fun c => c ≠ 0)).drop 33 := by
            show List.drop 32 _ = _
            rw [scan_path_snd]
            cases List.dropWhile (fun c => decide (c ≠ 0)) (b.drop 36) with
            | nil => rfl
            | cons c l => rfl
          rw [h33, scan_path_no_nul _ hcut]
          dsimp only
          rw [if_pos rfl]
  · have hlen1 : ¬ (SIZEOF_INT + SIZEOF_FSE_INFO + 1 < b.length) := hlen
    have hse : ¬ (37 < b.length ∧ bad_kind (read_int32 b)) := fun hc => hlen hc.1
    rw [if_neg hlen1, if_neg hse]

/-! ## A buffer of records -/

theorem encode_all_cons (r : packed_record) (rs : List packed_record) (tail : List Nat) :
    encode_all (r :: rs) ++ tail = encode_packed r ++ (encode_all rs ++ tail) := by
  simp [encode_all, List.append_assoc]

theorem encode_packed_length_ge (r : packed_record) : 37 ≤ (encode_packed r).length := by
  rw [encode_packed_length]
  omega

theorem encode_all_length_ge (recs : List packed_record) :
    recs.length ≤ (encode_all recs).length := by
  induction recs with
  | nil => simp [encode_all]
  | cons r rs ih =>
    have h := encode_packed_length_ge r
    have e : encode_all (r :: rs) = encode_packed r ++ encode_all rs := by simp [encode_all]
    rw [e, List.length_append, List.length_cons]
    omega

/-- The parsing loop on a buffer made of well-formed records followed by bytes
where parsing stops. -/
theorem parse_loop_records (env : Nat → fse_env) :
    ∀ (recs : List packed_record) (tail : List Nat) (s : fsevents_state) (k fuel : Nat),
      (∀ r ∈ recs, packed_ok r) → parse_stops tail →
      (∀ r, recs.getLast? = some r → 37 < (encode_packed r ++ tail).length) →
      recs.length < fuel →
      parse_loop env fuel (encode_all recs ++ tail) (encode_all recs ++ tail) s k =
        some (records_result env recs tail s k) := by
  intro recs
  induction recs with
  | nil =>
    intro tail s k fuel _ hstop _ hf
    obtain ⟨n, rfl⟩ : ∃ n, fuel = n + 1 := ⟨fuel - 1, by simp at hf; omega⟩
    have e : encode_all [] ++ tail = tail := by simp [encode_all]
    rw [e]
    simp only [parse_loop, parse_body_stops env tail s k hstop, records_result, publish_records]
    simp
  | cons r rs ih =>
    intro tail s k fuel hok hstop hlast hf
    obtain ⟨n, rfl⟩ : ∃ n, fuel = n + 1 := ⟨fuel - 1, by simp at hf; omega⟩
    have hr : packed_ok r := hok r (List.mem_cons_self _ _)
    have hrs : ∀ x ∈ rs, packed_ok x := fun x hx => hok x (List.mem_cons_of_mem _ hx)
    have hlen : 37 < (encode_packed r ++ (encode_all rs ++ tail)).length := by
      cases rs with
      | nil =>
        have := hlast r rfl
        simpa [encode_all] using this
      | cons r2 rs2 =>
        have h1 := encode_packed_length_ge r
        have h2 := encode_packed_length_ge r2
        have e : encode_all (r2 :: rs2) = encode_packed r2 ++ encode_all rs2 := by
          simp [encode_all]
        rw [e]
        simp only [List.length_append]
        omega
    have hlast2 : ∀ x, rs.getLast? = some x → 37 < (encode_packed x ++ tail).length := by
      intro x hx
      cases rs with
      | nil => simp at hx
      | cons r2 rs2 => exact hlast x (by rw [List.getLast?_cons_cons]; exact hx)
    have hf2 : rs.length < n := by simp at hf; omega
    rw [encode_all_cons]
    simp only [parse_loop, parse_body_record env _ s k hr hlen, records_result, publish_records]
    cases ha : add_fsevent s r.kind (record_args r) (env k) with
    | none => rfl
    | some x =>
      obtain ⟨err, s1⟩ := x
      dsimp only
      by_cases herr : err ≠ 0
      · rw [if_pos herr, if_pos herr]
        show some (some _) = some (if err ≠ 0 then _ else _)
        rw [if_pos herr]
      · rw [if_neg herr, if_neg herr]
        dsimp only
        rw [ih tail s1 (k + 1) n hrs hstop hlast2 hf2]
        rfl

theorem parse_buffer_records (env : Nat → fse_env) (recs : List packed_record)
    (tail : List Nat) (s : fsevents_state) (k : Nat) (hok : ∀ r ∈ recs, packed_ok r)
    (hstop : parse_stops tail)
    (hlast : ∀ r, recs.getLast? = some r → 37 < (encode_packed r ++ tail).length) :
    parse_buffer_and_add_events (encode_all recs ++ tail) s k env =
      some (records_result env recs tail s k) :=
  parse_loop_records env recs tail s k _ hok hstop hlast (by
    have := encode_all_length_ge recs
    simp only [List.length_append]
    omega)

/-! ## Every buffer -/

theorem scan_tail_length (l : List Nat) : (scan_path l).2.tail.length ≤ l.length := by
  have := scan_path_length l
  rw [List.length_tail]
  omega

theorem parse_body_lengths (l : List Nat) (hl : 37 < l.length) :
    (scan_path (List.drop 32 (List.drop 4 l))).2.tail.length < l.length ∧
    (scan_path (List.drop 32
      (scan_path (List.drop 32 (List.drop 4 l))).2.tail)).2.tail.length < l.length := by
  have h1 := scan_tail_length (List.drop 32 (List.drop 4 l))
  have h3 := scan_tail_length (List.drop 32
    (scan_path (List.drop 32 (List.drop 4 l))).2.tail)
  simp only [List.length_drop] at h1 h3
  constructor <;> omega

/-- An iteration of the parsing loop that returns leaves a remainder that is
the length of `event_start` or less than that of `ptr`. -/
theorem parse_body_ret (env : Nat → fse_env) {ptr es : List Nat} {s : fsevents_state}
    {k : Nat} {r : Int × Nat × fsevents_state × Nat}
    (h : parse_body env ptr es s k = parse_next.ret r) :
    r.2.1 = es.length ∨ r.2.1 < ptr.length := by
  unfold parse_body at h
  dsimp only at h
  split at h
  · rename_i hlen
    have hlen1 : 37 < ptr.length := hlen
    have hl := parse_body_lengths ptr hlen1
    split at h
    · cases h; exact Or.inl rfl
    · split at h
      · cases h; exact Or.inl rfl
      · split at h
        · split at h
          · cases h
          · split at h
            · cases h; exact Or.inr hl.1
            · cases h
        · split at h
          · cases h; exact Or.inl rfl
          · split at h
            · cases h
            · split at h
              · cases h; exact Or.inr hl.2
              · cases h
  · cases h; exact Or.inl rfl

/-- An iteration of the parsing loop that goes on has moved `ptr` forward and
set `event_start` to it. -/
theorem parse_body_more (env : Nat → fse_env) {ptr es : List Nat} {s : fsevents_state}
    {k : Nat} {ptr1 es1 : List Nat} {s1 : fsevents_state} {k1 : Nat}
    (h : parse_body env ptr es s k = parse_next.more ptr1 es1 s1 k1) :
    es1 = ptr1 ∧ ptr1.length < ptr.length := by
  unfold parse_body at h
  dsimp only at h
  split at h
  · rename_i hlen
    have hlen1 : 37 < ptr.length := hlen
    have hl := parse_body_lengths ptr hlen1
    split at h
    · cases h
    · split at h
      · cases h
      · split at h
        · split at h
          · cases h
          · split at h
            · cases h
            · cases h; exact ⟨rfl, hl.1⟩
        · split at h
          · cases h
          · split at h
            · cases h
            · split at h
              · cases h
              · cases h; exact ⟨rfl, hl.2⟩
  · cases h

/-- The parsing loop comes to an end within `ptr.length + 1` iterations, and the
remainder it reports is at most the larger of the lengths of `event_start` and
`ptr`. -/
theorem parse_loop_total (env : Nat → fse_env) :
    ∀ (fuel : Nat) (ptr es : List Nat) (s : fsevents_state) (k : Nat), ptr.length < fuel →
      ∃ r, parse_loop env fuel ptr es s k = some r ∧
        ∀ x, r = some x → x.2.1 ≤ max es.length ptr.length := by
  intro fuel
  induction fuel with
  | zero => intro ptr es s k h; omega
  | succ n ih =>
    intro ptr es s k hf
    simp only [parse_loop]
    cases hb : parse_body env ptr es s k with
    | ret r =>
      have hc := parse_body_ret env hb
      dsimp only
      refine ⟨_, rfl, ?_⟩
      intro x hx
      cases hx
      rcases hc with hc | hc
      · rw [hc]; exact le_max_left _ _
      · exact le_trans (le_of_lt hc) (le_max_right _ _)
    | undefined =>
      exact ⟨_, rfl, fun x hx => by cases hx⟩
    | more ptr1 es1 s1 k1 =>
      obtain ⟨e1, e2⟩ := parse_body_more env hb
      dsimp only
      obtain ⟨r, h1, h2⟩ := ih ptr1 es1 s1 k1 (by omega)
      refine ⟨r, h1, ?_⟩
      intro x hx
      have := h2 x hx
      rw [e1, max_self] at this
      exact le_trans this (le_trans (le_of_lt e2) (le_max_right _ _))

theorem parse_buffer_total (env : Nat → fse_env) (buffer : List Nat) (s : fsevents_state)
    (k : Nat) :
    ∃ r, parse_buffer_and_add_events buffer s k env = some r ∧
      ∀ x, r = some x → x.2.1 ≤ buffer.length := by
  obtain ⟨r, h1, h2⟩ := parse_loop_total env (buffer.length + 1) buffer buffer s k
    (Nat.lt_succ_self _)
  refine ⟨r, h1, ?_⟩
  intro x hx
  have := h2 x hx
  rwa [max_self] at this

/-! ## One iteration of the loop of `fseventswrite` -/

theorem take_append_len {a b : List Nat} {n : Nat} (h : a.length = n) : (a ++ b).take n = a := by
  subst h
  exact List.take_left _ _

/-- The body of the loop of `fseventswrite` when no copy fails, in terms of the
result of parsing the bytes carried over followed by the bytes moved in. -/
theorem fseventswrite_body_parsed {env : Nat → fse_env} {wb : List Nat} {offset : Nat}
    {s : fsevents_state} {k : Nat} {data : List Nat} {err : Int} {rem : Nat}
    {s1 : fsevents_state} {k1 : Nat} (hoff : offset ≤ wb.length)
    (hp : parse_buffer_and_add_events
      (wb.take offset ++ data.take (min (WRITE_BUFFER_SIZE - offset) data.length)) s k env =
        some (some (err, rem, s1, k1))) :
    fseventswrite_body env wb offset s k { data := data } =
      if err ≠ 0 then
        write_next.stop err
          (wb.take offset ++ data.take (min (WRITE_BUFFER_SIZE - offset) data.length) ++
            wb.drop (offset + min (WRITE_BUFFER_SIZE - offset) data.length))
          s1 k1 { data := data.drop (min (WRITE_BUFFER_SIZE - offset) data.length) }
      else
        write_next.again
          (memmove
            (wb.take offset ++ data.take (min (WRITE_BUFFER_SIZE - offset) data.length) ++
              wb.drop (offset + min (WRITE_BUFFER_SIZE - offset) data.length))
            (min (WRITE_BUFFER_SIZE - offset) data.length + offset - rem) rem)
          rem s1 k1 { data := data.drop (min (WRITE_BUFFER_SIZE - offset) data.length) } := by
  have hl : (wb.take offset ++ data.take (min (WRITE_BUFFER_SIZE - offset) data.length)).length =
      offset + min (WRITE_BUFFER_SIZE - offset) data.length := by
    rw [List.length_append, List.length_take, List.length_take]
    omega
  have ht : (wb.take offset ++ data.take (min (WRITE_BUFFER_SIZE - offset) data.length) ++
      wb.drop (offset + min (WRITE_BUFFER_SIZE - offset) data.length)).take
        (offset + min (WRITE_BUFFER_SIZE - offset) data.length) =
      wb.take offset ++ data.take (min (WRITE_BUFFER_SIZE - offset) data.length) :=
    take_append_len hl
  unfold fseventswrite_body uiomove_in
  dsimp only
  rw [if_neg (by decide : ¬ ((0 : Int) ≠ 0)), ht, hp]

theorem fseventswrite_body_undefined {env : Nat → fse_env} {wb : List Nat} {offset : Nat}
    {s : fsevents_state} {k : Nat} {data : List Nat} (hoff : offset ≤ wb.length)
    (hp : parse_buffer_and_add_events
      (wb.take offset ++ data.take (min (WRITE_BUFFER_SIZE - offset) data.length)) s k env =
        some none) :
    fseventswrite_body env wb offset s k { data := data } = write_next.undefined := by
  have hl : (wb.take offset ++ data.take (min (WRITE_BUFFER_SIZE - offset) data.length)).length =
      offset + min (WRITE_BUFFER_SIZE - offset) data.length := by
    rw [List.length_append, List.length_take, List.length_take]
    omega
  have ht : (wb.take offset ++ data.take (min (WRITE_BUFFER_SIZE - offset) data.length) ++
      wb.drop (offset + min (WRITE_BUFFER_SIZE - offset) data.length)).take
        (offset + min (WRITE_BUFFER_SIZE - offset) data.length) =
      wb.take offset ++ data.take (min (WRITE_BUFFER_SIZE - offset) data.length) :=
    take_append_len hl
  unfold fseventswrite_body uiomove_in
  dsimp only
  rw [if_neg (by decide : ¬ ((0 : Int) ≠ 0)), ht, hp]

/-- Parsing bytes where parsing stops. -/
theorem parse_buffer_stops (env : Nat → fse_env) {b : List Nat} (s : fsevents_state) (k : Nat)
    (h : parse_stops b) :
    parse_buffer_and_add_events b s k env = some (some (stop_error b, b.length, s, k)) := by
  have := parse_buffer_records env [] b s k (fun r hr => by cases hr) h
    (fun r hr => by cases hr)
  simpa [encode_all, records_result, publish_records] using this

/-! ## The scratch filled by one incomplete record -/

/-- With the scratch full of bytes where parsing stops without an error and
input left, an iteration of the loop of `fseventswrite` moves in no byte and
leaves everything as it was. -/
theorem fseventswrite_body_stuck (env : Nat → fse_env) {wb : List Nat} (s : fsevents_state)
    (k : Nat) (data : List Nat) (hwb : wb.length = WRITE_BUFFER_SIZE) (hstop : parse_stops wb)
    (herr : stop_error wb = 0) :
    fseventswrite_body env wb WRITE_BUFFER_SIZE s k { data := data } =
      write_next.again wb WRITE_BUFFER_SIZE s k { data := data } := by
  have hc : min (WRITE_BUFFER_SIZE - WRITE_BUFFER_SIZE) data.length = 0 := by simp
  have hb : wb.take WRITE_BUFFER_SIZE ++ data.take 0 = wb := by
    rw [List.take_zero, List.append_nil, ← hwb, List.take_length]
  have hp : parse_buffer_and_add_events
      (wb.take WRITE_BUFFER_SIZE ++
        data.take (min (WRITE_BUFFER_SIZE - WRITE_BUFFER_SIZE) data.length)) s k env =
        some (some (0, WRITE_BUFFER_SIZE, s, k)) := by
    rw [hc, hb, parse_buffer_stops env s k hstop, herr, hwb]
  rw [fseventswrite_body_parsed (le_of_eq hwb.symm) hp, if_neg (by decide : ¬ ((0 : Int) ≠ 0)),
    hc, hb]
  have hm : memmove (wb ++ wb.drop (WRITE_BUFFER_SIZE + 0)) (0 + WRITE_BUFFER_SIZE -
      WRITE_BUFFER_SIZE) WRITE_BUFFER_SIZE = wb := by
    have hd : wb.drop (WRITE_BUFFER_SIZE + 0) = [] := by
      rw [Nat.add_zero, ← hwb, List.drop_length]
    unfold memmove
    rw [hd, List.append_nil]
    show (wb.drop 0).take WRITE_BUFFER_SIZE ++ wb.drop WRITE_BUFFER_SIZE = wb
    rw [List.drop_zero, List.take_append_drop]
  rw [hm, List.drop_zero]

/-- From there the loop never comes to an end: whatever the fuel, it runs
out. -/
theorem fseventswrite_loop_stuck (env : Nat → fse_env) {wb : List Nat} (s : fsevents_state)
    (k : Nat) (data : List Nat) (hwb : wb.length = WRITE_BUFFER_SIZE) (hstop : parse_stops wb)
    (herr : stop_error wb = 0) (hdata : data ≠ []) :
    ∀ fuel, fseventswrite_loop env fuel wb WRITE_BUFFER_SIZE s k { data := data } = none := by
  intro fuel
  induction fuel with
  | zero => rfl
  | succ n ih =>
    have hl : ({ data := data } : write_uio).data.length ≠ 0 := by
      show data.length ≠ 0
      intro h
      exact hdata (List.length_eq_zero.mp h)
    simp only [fseventswrite_loop]
    rw [if_pos hl, fseventswrite_body_stuck env s k data hwb hstop herr]
    exact ih

/-- The first iteration on a write whose first 4096 bytes are bytes where
parsing stops without an error: they fill the scratch. -/
theorem fseventswrite_body_fill (env : Nat → fse_env) {wb : List Nat} (s : fsevents_state)
    (k : Nat) (chunk more : List Nat) (hwb : wb.length = WRITE_BUFFER_SIZE)
    (hc : chunk.length = WRITE_BUFFER_SIZE) (hstop : parse_stops chunk)
    (herr : stop_error chunk = 0) :
    fseventswrite_body env wb 0 s k { data := chunk ++ more } =
      write_next.again chunk WRITE_BUFFER_SIZE s k { data := more } := by
  have hcnt : min (WRITE_BUFFER_SIZE - 0) (chunk ++ more).length = WRITE_BUFFER_SIZE := by
    rw [List.length_append, hc]
    simp
  have hb : wb.take 0 ++ (chunk ++ more).take WRITE_BUFFER_SIZE = chunk := by
    rw [List.take_zero, List.nil_append]
    exact take_append_len hc
  have hp : parse_buffer_and_add_events
      (wb.take 0 ++ (chunk ++ more).take (min (WRITE_BUFFER_SIZE - 0) (chunk ++ more).length))
        s k env = some (some (0, WRITE_BUFFER_SIZE, s, k)) := by
    rw [hcnt, hb, parse_buffer_stops env s k hstop, herr, hc]
  rw [fseventswrite_body_parsed (Nat.zero_le _) hp, if_neg (by decide : ¬ ((0 : Int) ≠ 0)),
    hcnt, hb]
  have hd : wb.drop (0 + WRITE_BUFFER_SIZE) = [] := by
    rw [Nat.zero_add, ← hwb, List.drop_length]
  have hm : memmove (chunk ++ wb.drop (0 + WRITE_BUFFER_SIZE))
      (WRITE_BUFFER_SIZE + 0 - WRITE_BUFFER_SIZE) WRITE_BUFFER_SIZE = chunk := by
    unfold memmove
    rw [hd, List.append_nil]
    show (chunk.drop 0).take WRITE_BUFFER_SIZE ++ chunk.drop WRITE_BUFFER_SIZE = chunk
    rw [List.drop_zero, List.take_append_drop]
  rw [hm, drop_append_len hc]

theorem scn_long_chunk_length : scn_long_chunk.length = WRITE_BUFFER_SIZE := by
  unfold scn_long_chunk
  rw [List.length_append, List.length_append, le_bytes_int32_length, encode_fse_info_length,
    List.length_replicate]

theorem scn_long_chunk_stops : parse_stops scn_long_chunk ∧ stop_error scn_long_chunk = 0 := by
  have hk : read_int32 scn_long_chunk = 0 := by
    unfold scn_long_chunk
    rw [List.append_assoc]
    exact read_int32_le_bytes 0 _ (by decide) (by decide)
  have hd : scn_long_chunk.drop 36 = List.replicate 4060 97 := by
    unfold scn_long_chunk
    exact drop_append_len (by
      rw [List.length_append, le_bytes_int32_length, encode_fse_info_length])
  constructor
  · refine Or.inr (Or.inr (Or.inl ?_))
    rw [hd]
    intro h
    have := (List.mem_replicate.mp h).2
    exact absurd this (by decide)
  · unfold stop_error
    rw [hk]
    exact if_neg (fun h => absurd h.2 (by decide))

/-! ## C38 -/

/-- C38 on a write of 4097 bytes that are the start of one packed record (kind
CreateFile, a zero `fse_info`, 4061 letters of a path without NUL), the scratch
being 4096 zero bytes.  The first iteration moves in 4096 bytes, parses them to
error 0 and remainder 4096, and leaves `offset` at 4096 with one input byte to
go.  The second iteration moves in `MIN(4096 - 4096, 1)`, that is no byte,
parses the same bytes to the same result and leaves scratch, offset, state and
input exactly as they were, with error 0: the iteration neither consumes a byte
nor stops.  So the loop has no last iteration: for every bound on the number of
iterations it is still running when the bound is reached. -/
theorem C38_write_loop_never_ends :
    scn_long_write.data.length = 4097 ∧
    fseventswrite_body scn_write_env scn_zero_buffer 0 scn_one_watcher 0 scn_long_write =
      write_next.again scn_long_chunk WRITE_BUFFER_SIZE scn_one_watcher 0 { data := [97] } ∧
    fseventswrite_body scn_write_env scn_long_chunk WRITE_BUFFER_SIZE scn_one_watcher 0
        { data := [97] } =
      write_next.again scn_long_chunk WRITE_BUFFER_SIZE scn_one_watcher 0 { data := [97] } ∧
    ∀ fuel, fseventswrite scn_write_env fuel scn_zero_buffer scn_one_watcher 0 scn_long_write =
      none := by
  have hz : scn_zero_buffer.length = WRITE_BUFFER_SIZE := List.length_replicate _ _
  have h1 := fseventswrite_body_fill scn_write_env scn_one_watcher 0 scn_long_chunk [97] hz
    scn_long_chunk_length scn_long_chunk_stops.1 scn_long_chunk_stops.2
  refine ⟨?_, h1, ?_, ?_⟩
  · show (scn_long_chunk ++ [97]).length = 4097
    rw [List.length_append, scn_long_chunk_length]
    rfl
  · exact fseventswrite_body_stuck scn_write_env scn_one_watcher 0 [97] scn_long_chunk_length
      scn_long_chunk_stops.1 scn_long_chunk_stops.2
  · intro fuel
    cases fuel with
    | zero => rfl
    | succ n =>
      have hl : scn_long_write.data.length ≠ 0 := by
        show (scn_long_chunk ++ [97]).length ≠ 0
        rw [List.length_append, scn_long_chunk_length]
        decide
      show fseventswrite_loop scn_write_env (n + 1) scn_zero_buffer 0 scn_one_watcher 0
        scn_long_write = none
      simp only [fseventswrite_loop]
      rw [if_pos hl]
      have h2 : fseventswrite_body scn_write_env scn_zero_buffer 0 scn_one_watcher 0
          scn_long_write =
          write_next.again scn_long_chunk WRITE_BUFFER_SIZE scn_one_watcher 0
            { data := [97] } := h1
      rw [h2]
      exact fseventswrite_loop_stuck scn_write_env scn_one_watcher 0 [97]
        scn_long_chunk_length scn_long_chunk_stops.1 scn_long_chunk_stops.2 (by decide) n

/-! ## The start of a record is where parsing stops -/

theorem dropWhile_path : ∀ (p Z : List Nat), (∀ c ∈ p, c ≠ 0) →
    (p ++ 0 :: Z).dropWhile (fun c => decide (c ≠ 0)) = 0 :: Z := by
  intro p
  induction p with
  | nil => intro Z _; simp [List.dropWhile]
  | cons c p ih =>
    intro Z h
    have hc : c ≠ 0 := h c (List.mem_cons_self _ _)
    have hp := ih Z (fun d hd => h d (List.mem_cons_of_mem _ hd))
    show List.dropWhile _ (c :: (p ++ 0 :: Z)) = _
    rw [List.dropWhile_cons]
    simp only [hc, ne_eq, not_false_eq_true, decide_True, if_true]
    exact hp

theorem take_sub_nil (l : List Nat) {a b : Nat} (h : a ≤ b) : l.take (a - b) = [] := by
  rw [Nat.sub_eq_zero_of_le h, List.take_zero]

theorem no_nul_take {p : List Nat} (hp : ∀ c ∈ p, c ≠ 0) (n : Nat) : 0 ∉ p.take n :=
  fun h => hp 0 (List.mem_of_mem_take h) rfl

theorem encode_packed_drop36 (r : packed_record) :
    (encode_packed r).drop 36 = r.path ++ 0 ::
      (match r.dest with
       | none => []
       | some d => encode_fse_info d.1 ++ (d.2 ++ [0])) := by
  have hE := encode_packed_eq r []
  simp only [List.append_nil] at hE
  rw [hE, ← List.append_assoc]
  exact drop_append_len (by
    rw [List.length_append, le_bytes_int32_length, encode_fse_info_length])

/-- A proper initial part of the bytes of a well-formed record is where parsing
stops, without an error. -/
theorem prefix_stops {r : packed_record} (hok : packed_ok r) {i : Nat}
    (hi : i < (encode_packed r).length) :
    parse_stops ((encode_packed r).take i) ∧ stop_error ((encode_packed r).take i) = 0 := by
  have hlen := encode_packed_length r
  by_cases h37 : i ≤ 37
  · have hl : ((encode_packed r).take i).length ≤ 37 := by
      rw [List.length_take]; omega
    exact ⟨Or.inl hl, if_neg (fun h => by omega)⟩
  · have h38 : 37 < i := by omega
    have hE := encode_packed_eq r []
    simp only [List.append_nil] at hE
    have hk : read_int32 ((encode_packed r).take i) = r.kind := by
      rw [hE, List.take_append_eq_append_take,
        List.take_of_length_le (by rw [le_bytes_int32_length]; omega)]
      obtain ⟨h1, h2, _⟩ := hok
      have h3 : r.kind < 17 := h2
      exact read_int32_le_bytes _ _ (by omega) (by omega)
    have hnb := packed_ok_kind hok
    refine ⟨Or.inr (Or.inr ?_), if_neg (fun h => by rw [hk] at h; exact hnb h.2)⟩
    obtain ⟨_, _, _, _, _, hpath, hdest⟩ := hok
    have hd : ((encode_packed r).take i).drop 36 =
        (r.path ++ 0 ::
          (match r.dest with
           | none => []
           | some d => encode_fse_info d.1 ++ (d.2 ++ [0]))).take (i - 36) := by
      rw [List.drop_take, encode_packed_drop36]
    unfold record_cut
    rw [hd, hk]
    by_cases hp : i - 36 ≤ r.path.length
    · left
      rw [List.take_append_eq_append_take, take_sub_nil _ hp, List.append_nil]
      exact no_nul_take hpath _
    · right
      cases hdd : r.dest with
      | none =>
        rw [hdd] at hlen
        dsimp only at hlen
        omega
      | some d =>
        rw [hdd] at hdest hlen
        dsimp only at hdest hlen ⊢
        obtain ⟨htwo, _, hpath2⟩ := hdest
        refine ⟨htwo, ?_⟩
        have e1 : (r.path ++ 0 :: (encode_fse_info d.1 ++ (d.2 ++ [0]))).take (i - 36) =
            r.path ++ 0 :: (encode_fse_info d.1 ++ (d.2 ++ [0])).take (i - 37 - r.path.length) := by
          rw [List.take_append_eq_append_take, List.take_of_length_le (by omega)]
          have e2 : i - 36 - r.path.length = (i - 37 - r.path.length) + 1 := by omega
          rw [e2, List.take_succ_cons]
        rw [e1, dropWhile_path _ _ hpath]
        show 0 ∉ List.drop (32 + 1) (0 :: (encode_fse_info d.1 ++ (d.2 ++ [0])).take
          (i - 37 - r.path.length))
        rw [List.drop_succ_cons, List.drop_take, drop_append_len (encode_fse_info_length _),
          List.take_append_eq_append_take,
          take_sub_nil _ (by omega : i - 37 - r.path.length - 32 ≤ d.2.length),
          List.append_nil]
        exact no_nul_take hpath2 _

/-! ## A record cut by the end of a chunk -/

theorem memmove_tail {X : List Nat} {src n : Nat} (part : List Nat)
    (h1 : X.drop src = part) (h2 : part.length = n) :
    memmove X src n = part ++ X.drop n := by
  unfold memmove
  rw [h1, List.take_of_length_le (le_of_eq h2)]

/-- The first iteration of a write whose first 4096 bytes are the records `recs`
(all handed over without an error) and the first `4096 - |recs|` bytes of the
record `r`: the records are handed over, the start of `r` is moved to the head
of the scratch, and `offset` is its length. -/
theorem fseventswrite_body_cut (env : Nat → fse_env) {wb : List Nat} {s s1 : fsevents_state}
    {k k1 : Nat} {recs : List packed_record} {r : packed_record} (tail : List Nat)
    (hwb : wb.length = WRITE_BUFFER_SIZE) (hok : ∀ x ∈ recs, packed_ok x) (hr : packed_ok r)
    (hpub : publish_records env recs s k = some (0, s1, k1, []))
    (hcut1 : (encode_all recs).length < WRITE_BUFFER_SIZE)
    (hcut2 : WRITE_BUFFER_SIZE < (encode_all recs).length + (encode_packed r).length) :
    ∃ wb1, fseventswrite_body env wb 0 s k
          { data := encode_all recs ++ (encode_packed r ++ tail) } =
        write_next.again wb1 (WRITE_BUFFER_SIZE - (encode_all recs).length) s1 k1
          { data := (encode_packed r).drop (WRITE_BUFFER_SIZE - (encode_all recs).length) ++
              tail } ∧
      wb1.length = WRITE_BUFFER_SIZE ∧
      wb1.take (WRITE_BUFFER_SIZE - (encode_all recs).length) =
        (encode_packed r).take (WRITE_BUFFER_SIZE - (encode_all recs).length) := by
  have hi : WRITE_BUFFER_SIZE - (encode_all recs).length < (encode_packed r).length := by omega
  have hpl : ((encode_packed r).take (WRITE_BUFFER_SIZE - (encode_all recs).length)).length =
      WRITE_BUFFER_SIZE - (encode_all recs).length := by
    rw [List.length_take]; omega
  have hDl : WRITE_BUFFER_SIZE ≤ (encode_all recs ++ (encode_packed r ++ tail)).length := by
    simp only [List.length_append]; omega
  have hcnt : min (WRITE_BUFFER_SIZE - 0) (encode_all recs ++ (encode_packed r ++ tail)).length =
      WRITE_BUFFER_SIZE := by
    rw [Nat.sub_zero]; exact min_eq_left hDl
  have htake : (encode_all recs ++ (encode_packed r ++ tail)).take WRITE_BUFFER_SIZE =
      encode_all recs ++
        (encode_packed r).take (WRITE_BUFFER_SIZE - (encode_all recs).length) := by
    rw [List.take_append_eq_append_take, List.take_of_length_le (le_of_lt hcut1),
      List.take_append_eq_append_take, take_sub_nil _ (le_of_lt hi), List.append_nil]
  have hdrop : (encode_all recs ++ (encode_packed r ++ tail)).drop WRITE_BUFFER_SIZE =
      (encode_packed r).drop (WRITE_BUFFER_SIZE - (encode_all recs).length) ++ tail := by
    rw [List.drop_append_eq_append_drop, List.drop_eq_nil_of_le (le_of_lt hcut1),
      List.nil_append, List.drop_append_eq_append_drop,
      Nat.sub_eq_zero_of_le (le_of_lt hi), List.drop_zero]
  have hps := prefix_stops hr hi
  have hlast : ∀ x, recs.getLast? = some x → 37 <
      (encode_packed x ++
        (encode_packed r).take (WRITE_BUFFER_SIZE - (encode_all recs).length)).length := by
    intro x _
    have := encode_packed_length_ge x
    rw [List.length_append, hpl]
    omega
  have hres : records_result env recs
      ((encode_packed r).take (WRITE_BUFFER_SIZE - (encode_all recs).length)) s k =
      some (0, WRITE_BUFFER_SIZE - (encode_all recs).length, s1, k1) := by
    unfold records_result
    rw [hpub]
    dsimp only
    rw [if_neg (by decide : ¬ ((0 : Int) ≠ 0)), hps.2, hpl]
  have hp : parse_buffer_and_add_events
      (wb.take 0 ++ (encode_all recs ++ (encode_packed r ++ tail)).take
        (min (WRITE_BUFFER_SIZE - 0) (encode_all recs ++ (encode_packed r ++ tail)).length))
        s k env = some (some (0, WRITE_BUFFER_SIZE - (encode_all recs).length, s1, k1)) := by
    rw [hcnt, List.take_zero, List.nil_append, htake,
      parse_buffer_records env recs _ s k hok hps.1 hlast, hres]
  have hwd : wb.drop (0 + WRITE_BUFFER_SIZE) = [] := by
    rw [Nat.zero_add, ← hwb, List.drop_length]
  have hsrc : WRITE_BUFFER_SIZE + 0 - (WRITE_BUFFER_SIZE - (encode_all recs).length) =
      (encode_all recs).length := by omega
  refine ⟨(encode_packed r).take (WRITE_BUFFER_SIZE - (encode_all recs).length) ++
    (encode_all recs ++
      (encode_packed r).take (WRITE_BUFFER_SIZE - (encode_all recs).length)).drop
        (WRITE_BUFFER_SIZE - (encode_all recs).length), ?_, ?_, take_append_len hpl⟩
  · rw [fseventswrite_body_parsed (Nat.zero_le _) hp, if_neg (by decide : ¬ ((0 : Int) ≠ 0)),
      hcnt, List.take_zero, List.nil_append, htake, hwd, List.append_nil, hdrop, hsrc,
      memmove_tail _ (drop_append_len rfl) hpl]
  · rw [List.length_append, hpl, List.length_drop, List.length_append, hpl]
    omega

/-- The next iteration: with the start of `r` at the head of the scratch and
the rest of the write being the rest of `r` followed by bytes where parsing
stops, all within the scratch, the bytes parsed are those of `r` followed by
the stopping bytes, and the write ends with the result of that parse. -/
theorem fseventswrite_loop_rest (env : Nat → fse_env) {wb1 : List Nat} {s1 : fsevents_state}
    {k1 : Nat} {r : packed_record} {tail : List Nat} {i : Nat} (fuel : Nat)
    (hwb : wb1.length = WRITE_BUFFER_SIZE) (hi : i < (encode_packed r).length)
    (hhead : wb1.take i = (encode_packed r).take i) (hr : packed_ok r)
    (hstop : parse_stops tail)
    (hfit : (encode_packed r).length + tail.length ≤ WRITE_BUFFER_SIZE)
    (hreach : 37 < (encode_packed r).length + tail.length) :
    (fseventswrite_loop env (fuel + 2) wb1 i s1 k1
        { data := (encode_packed r).drop i ++ tail }).map
        (Option.map (fun x => (x.1, x.2.2.1, x.2.2.2.1, x.2.2.2.2))) =
      some ((records_result env [r] tail s1 k1).map
        (fun y => (y.1, y.2.2.1, y.2.2.2, ({ data := [] } : write_uio)))) := by
  have hdl : ((encode_packed r).drop i ++ tail).length =
      (encode_packed r).length - i + tail.length := by
    rw [List.length_append, List.length_drop]
  have hcnt : min (WRITE_BUFFER_SIZE - i) ((encode_packed r).drop i ++ tail).length =
      ((encode_packed r).drop i ++ tail).length := by
    rw [hdl]; exact min_eq_right (by omega)
  have hB : wb1.take i ++ ((encode_packed r).drop i ++ tail).take
      (min (WRITE_BUFFER_SIZE - i) ((encode_packed r).drop i ++ tail).length) =
      encode_all [r] ++ tail := by
    rw [hcnt, List.take_length, hhead, ← List.append_assoc, List.take_append_drop]
    simp [encode_all]
  have hp := parse_buffer_records env [r] tail s1 k1
    (fun x hx => by rw [List.mem_singleton.mp hx]; exact hr) hstop
    (fun x hx => by
      have : x = r := by simpa using hx.symm
      rw [this, List.length_append]; exact hreach)
  rw [← hB] at hp
  have hne : ({ data := (encode_packed r).drop i ++ tail } : write_uio).data.length ≠ 0 := by
    show ((encode_packed r).drop i ++ tail).length ≠ 0
    rw [hdl]; omega
  have hoff : i ≤ wb1.length := by omega
  have hlast : List.drop (min (WRITE_BUFFER_SIZE - i) ((encode_packed r).drop i ++ tail).length)
      ((encode_packed r).drop i ++ tail) = [] := by
    rw [hcnt, List.drop_length]
  simp only [fseventswrite_loop]
  rw [if_pos hne]
  cases hres : records_result env [r] tail s1 k1 with
  | none =>
    rw [hres] at hp
    rw [fseventswrite_body_undefined hoff hp]
    rfl
  | some y =>
    obtain ⟨err, rem, s2, k2⟩ := y
    rw [hres] at hp
    rw [fseventswrite_body_parsed hoff hp, hlast]
    by_cases herr : err ≠ 0
    · rw [if_pos herr]
      rfl
    · rw [if_neg herr]
      have he : err = 0 := not_not.mp herr
      subst he
      rfl

/-! ## A write that fits the scratch -/

/-- A write of at most 37 bytes hands nothing to `add_fsevent`: the bytes are
left at the head of the scratch and the call returns 0. -/
theorem fseventswrite_short (env : Nat → fse_env) {wb : List Nat} (s : fsevents_state)
    (k : Nat) {data : List Nat} (fuel : Nat) (hd : data.length ≤ 37) (hne : data ≠ []) :
    fseventswrite env (fuel + 2) wb s k { data := data } =
      some (some (0, data ++ wb.drop data.length, s, k, { data := [] })) := by
  have hcnt : min (WRITE_BUFFER_SIZE - 0) data.length = data.length := by
    rw [Nat.sub_zero]; exact min_eq_right (by show data.length ≤ 4096; omega)
  have hse : stop_error data = 0 := if_neg (fun h => by omega)
  have hp : parse_buffer_and_add_events
      (wb.take 0 ++ data.take (min (WRITE_BUFFER_SIZE - 0) data.length)) s k env =
        some (some (0, data.length, s, k)) := by
    rw [hcnt, List.take_zero, List.nil_append, List.take_length,
      parse_buffer_stops env s k (Or.inl hd), hse]
  have hl : ({ data := data } : write_uio).data.length ≠ 0 := by
    show data.length ≠ 0
    intro h
    exact hne (List.length_eq_zero.mp h)
  have hm : memmove (data ++ wb.drop (0 + data.length)) (data.length + 0 - data.length)
      data.length = data ++ wb.drop data.length := by
    unfold memmove
    rw [Nat.zero_add, Nat.add_zero, Nat.sub_self, List.drop_zero, List.take_append_drop]
  show fseventswrite_loop env (fuel + 2) wb 0 s k { data := data } = _
  simp only [fseventswrite_loop]
  rw [if_pos hl, fseventswrite_body_parsed (Nat.zero_le _) hp,
    if_neg (by decide : ¬ ((0 : Int) ≠ 0)), hcnt, List.take_zero, List.nil_append,
    List.take_length, List.drop_length, hm]
  rfl

/-- A write that fits the scratch and parses without an error ends with the
state and the count of calls the parse leaves. -/
theorem fseventswrite_whole (env : Nat → fse_env) {wb : List Nat} {s s1 : fsevents_state}
    {k k1 rem : Nat} {data : List Nat} (fuel : Nat) (hd : data.length ≤ WRITE_BUFFER_SIZE)
    (hne : data ≠ [])
    (hp : parse_buffer_and_add_events data s k env = some (some (0, rem, s1, k1))) :
    (fseventswrite env (fuel + 2) wb s k { data := data }).map
        (Option.map (fun x => (x.1, x.2.2.1, x.2.2.2.1, x.2.2.2.2))) =
      some (some (0, s1, k1, { data := [] })) := by
  have hcnt : min (WRITE_BUFFER_SIZE - 0) data.length = data.length := by
    rw [Nat.sub_zero]; exact min_eq_right hd
  have hp1 : parse_buffer_and_add_events
      (wb.take 0 ++ data.take (min (WRITE_BUFFER_SIZE - 0) data.length)) s k env =
        some (some (0, rem, s1, k1)) := by
    rw [hcnt, List.take_zero, List.nil_append, List.take_length, hp]
  have hl : ({ data := data } : write_uio).data.length ≠ 0 := by
    show data.length ≠ 0
    intro h
    exact hne (List.length_eq_zero.mp h)
  show (fseventswrite_loop env (fuel + 2) wb 0 s k { data := data }).map _ = _
  simp only [fseventswrite_loop]
  rw [if_pos hl, fseventswrite_body_parsed (Nat.zero_le _) hp1,
    if_neg (by decide : ¬ ((0 : Int) ≠ 0)), hcnt, List.drop_length]
  rfl

/-! ## C34 -/

theorem scn_half_buffer_length : scn_half_buffer.length = WRITE_BUFFER_SIZE := by
  unfold scn_half_buffer scn_zero_buffer
  rw [List.length_append, List.length_take, List.length_drop, List.length_replicate,
    show (encode_packed scn_packed_a).length = 39 from by decide]
  rfl

/-- C34 fails across two writes.  The first write brings the first 20 of the 39
bytes of the record CreateFile "/a": it returns 0, hands nothing to
`add_fsevent`, and leaves the 20 bytes at the head of the scratch.  The second
write brings the other 19 bytes: `offset` starts at 0 again, so the 19 bytes
are copied over the head of the scratch and parsed on their own; the call
returns 0 and again hands nothing to `add_fsevent` (the state is unchanged and
no call was made).  The same 39 bytes in one write are handed over in one
call. -/
theorem C34_counterexample :
    (encode_packed scn_packed_a).take 20 ++ (encode_packed scn_packed_a).drop 20 =
      encode_packed scn_packed_a ∧
    fseventswrite scn_write_env 2 scn_zero_buffer scn_one_watcher 0
        { data := (encode_packed scn_packed_a).take 20 } =
      some (some (0, scn_half_buffer, scn_one_watcher, 0, { data := [] })) ∧
    scn_half_buffer.take 20 = (encode_packed scn_packed_a).take 20 ∧
    fseventswrite scn_write_env 2 scn_half_buffer scn_one_watcher 0
        { data := (encode_packed scn_packed_a).drop 20 } =
      some (some (0, (encode_packed scn_packed_a).drop 20 ++ scn_half_buffer.drop 19,
        scn_one_watcher, 0, { data := [] })) ∧
    (fseventswrite scn_write_env 2 scn_zero_buffer scn_one_watcher 0
        { data := encode_packed scn_packed_a }).map
        (Option.map (fun x => (x.1, x.2.2.1, x.2.2.2.1, x.2.2.2.2))) =
      some (some (0, scn_parsed_a, 1, { data := [] })) := by
  refine ⟨List.take_append_drop _ _, ?_, ?_, ?_, ?_⟩
  · exact fseventswrite_short scn_write_env scn_one_watcher 0 0 (by decide) (by decide)
  · exact take_append_len (by decide)
  · exact fseventswrite_short scn_write_env scn_one_watcher 0 0 (by decide) (by decide)
  · exact fseventswrite_whole scn_write_env 0 (by decide) (by decide)
      (show parse_buffer_and_add_events (encode_packed scn_packed_a) scn_one_watcher 0
        scn_write_env = some (some (0, 0, scn_parsed_a, 1)) from by decide)

/-- C34, amended to one write: when the first 4096 bytes of a write are the
well-formed records `recs`, each handed to `add_fsevent` without an error, and
the start of the well-formed record `r`, the first iteration leaves that start
at the head of the scratch with `offset` its length; and when the rest of the
write is the rest of `r` followed by bytes where parsing stops, all within the
scratch, the write ends with `r` handed to `add_fsevent` in one call, as if `r`
had arrived in one piece after `recs`. -/
theorem C34_record_across_chunks (env : Nat → fse_env) (wb : List Nat)
    (s s1 : fsevents_state) (k k1 : Nat) (recs : List packed_record) (r : packed_record)
    (tail : List Nat) (fuel : Nat) (hwb : wb.length = WRITE_BUFFER_SIZE)
    (hok : ∀ x ∈ recs, packed_ok x) (hr : packed_ok r) (hstop : parse_stops tail)
    (hpub : publish_records env recs s k = some (0, s1, k1, []))
    (hcut1 : (encode_all recs).length < WRITE_BUFFER_SIZE)
    (hcut2 : WRITE_BUFFER_SIZE < (encode_all recs).length + (encode_packed r).length)
    (hfit : (encode_packed r).length + tail.length ≤ WRITE_BUFFER_SIZE)
    (hreach : 37 < (encode_packed r).length + tail.length) :
    (∃ wb1, fseventswrite_body env wb 0 s k
          { data := encode_all recs ++ (encode_packed r ++ tail) } =
        write_next.again wb1 (WRITE_BUFFER_SIZE - (encode_all recs).length) s1 k1
          { data := (encode_packed r).drop (WRITE_BUFFER_SIZE - (encode_all recs).length) ++
              tail } ∧
      wb1.length = WRITE_BUFFER_SIZE ∧
      wb1.take (WRITE_BUFFER_SIZE - (encode_all recs).length) =
        (encode_packed r).take (WRITE_BUFFER_SIZE - (encode_all recs).length)) ∧
    (fseventswrite env (fuel + 3) wb s k
        { data := encode_all recs ++ (encode_packed r ++ tail) }).map
        (Option.map (fun x => (x.1, x.2.2.1, x.2.2.2.1, x.2.2.2.2))) =
      some ((records_result env [r] tail s1 k1).map
        (fun y => (y.1, y.2.2.1, y.2.2.2, ({ data := [] } : write_uio)))) ∧
    records_result env [r] tail s1 k1 =
      (match add_fsevent s1 r.kind (record_args r) (env k1) with
       | none => none
       | some (err, s2) =>
         if err ≠ 0 then some (err, tail.length, s2, k1 + 1)
         else some (stop_error tail, tail.length, s2, k1 + 1)) := by
  have hcut := fseventswrite_body_cut env tail hwb hok hr hpub hcut1 hcut2
  refine ⟨hcut, ?_, ?_⟩
  · obtain ⟨wb1, h1, h2, h3⟩ := hcut
    have hl : ({ data := encode_all recs ++ (encode_packed r ++ tail) } :
        write_uio).data.length ≠ 0 := by
      show (encode_all recs ++ (encode_packed r ++ tail)).length ≠ 0
      simp only [List.length_append]
      omega
    show (fseventswrite_loop env (fuel + 3) wb 0 s k _).map _ = _
    simp only [fseventswrite_loop]
    rw [if_pos hl, h1]
    exact fseventswrite_loop_rest env fuel h2 (by omega) h3 hr hstop hfit hreach
  · unfold records_result publish_records
    cases add_fsevent s1 r.kind (record_args r) (env k1) with
    | none => rfl
    | some x =>
      obtain ⟨err, s2⟩ := x
      dsimp only
      by_cases herr : err ≠ 0
      · simp [herr, encode_all]
      · simp [herr, publish_records]

theorem scn_packed_long_ok : packed_ok scn_packed_long :=
  ⟨by decide, by decide, by decide, by decide, by decide,
    fun c hc => by
      have h : c = 97 := (List.mem_replicate.mp hc).2
      rw [h]; decide,
    rfl⟩

theorem scn_packed_long_length : (encode_packed scn_packed_long).length = 4087 := by
  have hp : scn_packed_long.path = List.replicate 4050 97 := rfl
  have hd : scn_packed_long.dest = none := rfl
  rw [encode_packed_length, hd, hp, List.length_replicate]
  rfl

/-- The theorem of C34 on a write of 4126 bytes, the record CreateFile "/a" (39
bytes) followed by the record CreateFile on a path of 4050 letters (4087
bytes): the first iteration hands over the first record and keeps the first
4057 bytes of the second at the head of the scratch, and the write ends with
the second record handed over in one call. -/
theorem C34_record_across_chunks_witness :
    packed_ok scn_packed_long ∧
    publish_records scn_write_env [scn_packed_a] scn_one_watcher 0 =
      some (0, scn_parsed_a, 1, []) ∧
    (encode_all [scn_packed_a]).length = 39 ∧
    (encode_packed scn_packed_long).length = 4087 ∧
    (∃ wb1, fseventswrite_body scn_write_env scn_zero_buffer 0 scn_one_watcher 0
          { data := encode_all [scn_packed_a] ++ (encode_packed scn_packed_long ++ []) } =
        write_next.again wb1 (WRITE_BUFFER_SIZE - (encode_all [scn_packed_a]).length)
          scn_parsed_a 1
          { data := (encode_packed scn_packed_long).drop
              (WRITE_BUFFER_SIZE - (encode_all [scn_packed_a]).length) ++ [] } ∧
      wb1.length = WRITE_BUFFER_SIZE ∧
      wb1.take (WRITE_BUFFER_SIZE - (encode_all [scn_packed_a]).length) =
        (encode_packed scn_packed_long).take
          (WRITE_BUFFER_SIZE - (encode_all [scn_packed_a]).length)) ∧
    (fseventswrite scn_write_env 3 scn_zero_buffer scn_one_watcher 0
        { data := encode_all [scn_packed_a] ++ (encode_packed scn_packed_long ++ []) }).map
        (Option.map (fun x => (x.1, x.2.2.1, x.2.2.2.1, x.2.2.2.2))) =
      some ((records_result scn_write_env [scn_packed_long] [] scn_parsed_a 1).map
        (fun y => (y.1, y.2.2.1, y.2.2.2, ({ data := [] } : write_uio)))) ∧
    records_result scn_write_env [scn_packed_long] [] scn_parsed_a 1 =
      (match add_fsevent scn_parsed_a scn_packed_long.kind (record_args scn_packed_long)
          (scn_write_env 1) with
       | none => none
       | some (err, s2) =>
         if err ≠ 0 then some (err, ([] : List Nat).length, s2, 1 + 1)
         else some (stop_error [], ([] : List Nat).length, s2, 1 + 1)) :=
  ⟨scn_packed_long_ok, by decide, by decide, scn_packed_long_length,
    C34_record_across_chunks scn_write_env scn_zero_buffer scn_one_watcher scn_parsed_a 0 1
      [scn_packed_a] scn_packed_long [] 0 (List.length_replicate _ _) (by decide)
      scn_packed_long_ok (by decide) (by decide) (by decide)
      (by
        have h1 : (encode_all [scn_packed_a]).length = 39 := by decide
        have h2 := scn_packed_long_length
        show 4096 < _
        omega)
      (by
        have h2 := scn_packed_long_length
        show _ + ([] : List Nat).length ≤ 4096
        rw [List.length_nil]
        omega)
      (by
        have h2 := scn_packed_long_length
        show 37 < _ + ([] : List Nat).length
        rw [List.length_nil]
        omega)⟩

/-! ## Every buffer of bytes is a sequence of records and a stop -/

theorem read_le_lt : ∀ (n : Nat) (l : List Nat), (∀ c ∈ l, c < 256) → read_le n l < 256 ^ n := by
  intro n
  induction n with
  | zero => intro l _; simp [read_le]
  | succ n ih =>
    intro l h
    cases l with
    | nil => simp [read_le]
    | cons c rest =>
      have hc : c < 256 := h c (List.mem_cons_self _ _)
      have hr := ih rest (fun d hd => h d (List.mem_cons_of_mem _ hd))
      show c + 256 * read_le n rest < 256 ^ (n + 1)
      rw [pow_succ]
      nlinarith

theorem le_bytes_read_le : ∀ (n : Nat) (l : List Nat), n ≤ l.length → (∀ c ∈ l, c < 256) →
    le_bytes n (read_le n l) = l.take n := by
  intro n
  induction n with
  | zero => intro l _ _; simp [le_bytes]
  | succ n ih =>
    intro l hl h
    cases l with
    | nil => simp at hl
    | cons c rest =>
      have hc : c < 256 := h c (List.mem_cons_self _ _)
      have hr := ih rest (by simpa using hl) (fun d hd => h d (List.mem_cons_of_mem _ hd))
      show (c + 256 * read_le n rest) % 256 :: le_bytes n ((c + 256 * read_le n rest) / 256) =
        c :: rest.take n
      have e1 : (c + 256 * read_le n rest) % 256 = c := by omega
      have e2 : (c + 256 * read_le n rest) / 256 = read_le n rest := by omega
      rw [e1, e2, hr]

theorem le_bytes_int32_wrap32 (x : Nat) (h : x < 4294967296) :
    le_bytes_int32 (wrap32 x) = le_bytes 4 x := by
  have h4 : (2 : Int) ^ 32 = 4294967296 := by norm_num
  have e : ((((x : Int) + 2147483648) % 4294967296 - 2147483648) % 2 ^ 32).toNat = x := by
    rw [h4]
    omega
  unfold le_bytes_int32 wrap32
  rw [e]

theorem wrap32_range (x : Int) : -2147483648 ≤ wrap32 x ∧ wrap32 x < 2147483648 := by
  unfold wrap32
  constructor <;> omega

theorem le_bytes_int32_read (l : List Nat) (hl : 4 ≤ l.length) (h : ∀ c ∈ l, c < 256) :
    le_bytes_int32 (read_int32 l) = l.take 4 := by
  unfold read_int32
  have := read_le_lt 4 l h
  rw [le_bytes_int32_wrap32 _ (by norm_num at this; exact this), le_bytes_read_le 4 l hl h]

theorem bytes_drop {l : List Nat} (h : ∀ c ∈ l, c < 256) (n : Nat) : ∀ c ∈ l.drop n, c < 256 :=
  fun c hc => h c (List.mem_of_mem_drop hc)

theorem encode_read_fse_info (l : List Nat) (hl : 32 ≤ l.length) (h : ∀ c ∈ l, c < 256) :
    encode_fse_info (read_fse_info l) = l.take 32 ∧ fse_info_fits (read_fse_info l) := by
  have e8 : ((256 : Nat) ^ 8 : Nat) = 2 ^ 64 := by norm_num
  have e4 : ((256 : Nat) ^ 4 : Nat) = 2 ^ 32 := by norm_num
  have b0 := read_le_lt 8 l h
  have b8 := read_le_lt 4 (l.drop 8) (bytes_drop h 8)
  have b12 := read_le_lt 4 (l.drop 12) (bytes_drop h 12)
  have b16 := read_le_lt 4 (l.drop 16) (bytes_drop h 16)
  have b20 := read_le_lt 4 (l.drop 20) (bytes_drop h 20)
  have b24 := read_le_lt 8 (l.drop 24) (bytes_drop h 24)
  rw [e8] at b0 b24
  rw [e4] at b8 b12 b16 b20
  constructor
  · unfold encode_fse_info read_fse_info
    dsimp only
    rw [le_bytes_int32_wrap32 _ (by norm_num at b8; exact b8),
      le_bytes_read_le 8 l (by omega) h,
      le_bytes_read_le 4 (l.drop 8) (by rw [List.length_drop]; omega) (bytes_drop h 8),
      le_bytes_read_le 4 (l.drop 12) (by rw [List.length_drop]; omega) (bytes_drop h 12),
      le_bytes_read_le 4 (l.drop 16) (by rw [List.length_drop]; omega) (bytes_drop h 16),
      le_bytes_read_le 4 (l.drop 20) (by rw [List.length_drop]; omega) (bytes_drop h 20),
      le_bytes_read_le 8 (l.drop 24) (by rw [List.length_drop]; omega) (bytes_drop h 24)]
    have t1 : l.take 32 = l.take 24 ++ (l.drop 24).take 8 := List.take_add l 24 8
    have t2 : l.take 24 = l.take 20 ++ (l.drop 20).take 4 := List.take_add l 20 4
    have t3 : l.take 20 = l.take 16 ++ (l.drop 16).take 4 := List.take_add l 16 4
    have t4 : l.take 16 = l.take 12 ++ (l.drop 12).take 4 := List.take_add l 12 4
    have t5 : l.take 12 = l.take 8 ++ (l.drop 8).take 4 := List.take_add l 8 4
    rw [t1, t2, t3, t4, t5]
  · exact ⟨b0, (wrap32_range _).1, (wrap32_range _).2, b12, b16, b20, b24⟩

theorem scan_path_split : ∀ (l : List Nat),
    l = (scan_path l).1 ++ (scan_path l).2 ∧ (∀ c ∈ (scan_path l).1, c ≠ 0) ∧
    ((scan_path l).2 ≠ [] → ∃ Z, (scan_path l).2 = 0 :: Z) := by
  intro l
  induction l with
  | nil => simp [scan_path]
  | cons c rest ih =>
    by_cases hc : c = 0
    · subst hc
      simp [scan_path]
    · obtain ⟨h1, h2, h3⟩ := ih
      simp only [scan_path, if_neg hc]
      refine ⟨by rw [List.cons_append, ← h1], ?_, h3⟩
      intro d hd
      rcases List.mem_cons.mp hd with hd | hd
      · rw [hd]; exact hc
      · exact h2 d hd

theorem scan_path_found {l : List Nat} (h : 0 ∈ l) :
    ∃ Z, l = (scan_path l).1 ++ 0 :: Z ∧ ∀ c ∈ (scan_path l).1, c ≠ 0 := by
  obtain ⟨h1, h2, h3⟩ := scan_path_split l
  have hne : (scan_path l).2 ≠ [] := by
    intro he
    rw [he, List.append_nil] at h1
    rw [h1] at h
    exact h2 0 h rfl
  obtain ⟨Z, hZ⟩ := h3 hne
  exact ⟨Z, by rw [← hZ]; exact h1, h2⟩

/-- Bytes where parsing does not stop start with the bytes of a well-formed
record. -/
theorem record_at_start {b : List Nat} (hb : ∀ c ∈ b, c < 256) (hns : ¬ parse_stops b) :
    ∃ r rest, packed_ok r ∧ b = encode_packed r ++ rest := by
  unfold parse_stops at hns
  have hlen : 37 < b.length := by
    by_contra h
    exact hns (Or.inl (by omega))
  have hkind : ¬ bad_kind (read_int32 b) := fun h => hns (Or.inr (Or.inl h))
  have hcut : ¬ record_cut b := fun h => hns (Or.inr (Or.inr h))
  unfold record_cut at hcut
  have hnul : 0 ∈ b.drop 36 := by
    by_contra h
    exact hcut (Or.inl h)
  obtain ⟨Z, hZ, hpath⟩ := scan_path_found hnul
  have hfi := encode_read_fse_info (b.drop 4) (by rw [List.length_drop]; omega)
    (bytes_drop hb 4)
  have hk4 := le_bytes_int32_read b (by omega) hb
  have hb36 : b = b.take 4 ++ ((b.drop 4).take 32 ++ b.drop 36) := by
    have e1 : b.drop 36 = (b.drop 4).drop 32 := by rw [List.drop_drop]
    rw [e1, List.take_append_drop, List.take_append_drop]
  have hkr : 0 ≤ read_int32 b ∧ read_int32 b < FSE_MAX_EVENTS ∧
      read_int32 b ≠ FSE_ACCESS_GRANTED ∧ read_int32 b ≠ FSE_ACTIVITY := by
    unfold bad_kind at hkind
    refine ⟨?_, ?_, ?_, ?_⟩
    · by_contra h; exact hkind (Or.inl (by omega))
    · by_contra h; exact hkind (Or.inr (Or.inr (Or.inr (by omega))))
    · intro h; exact hkind (Or.inr (Or.inl h))
    · intro h; exact hkind (Or.inr (Or.inr (Or.inl h)))
  by_cases htwo : two_target (read_int32 b) = true
  · have hnul2 : 0 ∈ ((b.drop 36).dropWhile (fun c => decide (c ≠ 0))).drop 33 := by
      by_contra h
      exact hcut (Or.inr ⟨htwo, h⟩)
    have hdw : (b.drop 36).dropWhile (fun c => decide (c ≠ 0)) = 0 :: Z := by
      rw [hZ]
      exact dropWhile_path _ _ hpath
    rw [hdw] at hnul2
    have hnul3 : 0 ∈ Z.drop 32 := hnul2
    have hZlen : 32 ≤ Z.length := by
      by_contra h
      rw [List.drop_eq_nil_of_le (by omega)] at hnul3
      cases hnul3
    have hZb : ∀ c ∈ Z, c < 256 := by
      intro c hc
      have : c ∈ b.drop 36 := by rw [hZ]; simp [hc]
      exact hb c (List.mem_of_mem_drop this)
    obtain ⟨Z2, hZ2, hpath2⟩ := scan_path_found hnul3
    have hfi2 := encode_read_fse_info Z hZlen hZb
    refine ⟨{ kind := read_int32 b, finfo := read_fse_info (b.drop 4),
              path := (scan_path (b.drop 36)).1,
              dest := some (read_fse_info Z, (scan_path (Z.drop 32)).1) }, Z2,
      ⟨hkr.1, hkr.2.1, hkr.2.2.1, hkr.2.2.2, hfi.2, hpath, htwo, hfi2.2, hpath2⟩, ?_⟩
    unfold encode_packed
    dsimp only
    rw [hk4, hfi.1, hfi2.1]
    have e2 : Z = Z.take 32 ++ ((scan_path (Z.drop 32)).1 ++ 0 :: Z2) := by
      rw [← hZ2, List.take_append_drop]
    have e3 : b.drop 36 = (scan_path (b.drop 36)).1 ++ 0 ::
        (Z.take 32 ++ ((scan_path (Z.drop 32)).1 ++ 0 :: Z2)) := by
      rw [← e2]; exact hZ
    have e4 : b = b.take 4 ++ ((b.drop 4).take 32 ++ ((scan_path (b.drop 36)).1 ++ 0 ::
        (Z.take 32 ++ ((scan_path (Z.drop 32)).1 ++ 0 :: Z2)))) := by
      rw [← e3]; exact hb36
    calc b = b.take 4 ++ ((b.drop 4).take 32 ++ ((scan_path (b.drop 36)).1 ++ 0 ::
        (Z.take 32 ++ ((scan_path (Z.drop 32)).1 ++ 0 :: Z2)))) := e4
      _ = _ := by simp [List.append_assoc]
  · have htwo2 : two_target (read_int32 b) = false := by
      cases h : two_target (read_int32 b) with
      | true => exact absurd h htwo
      | false => rfl
    refine ⟨{ kind := read_int32 b, finfo := read_fse_info (b.drop 4),
              path := (scan_path (b.drop 36)).1, dest := none }, Z,
      ⟨hkr.1, hkr.2.1, hkr.2.2.1, hkr.2.2.2, hfi.2, hpath, htwo2⟩, ?_⟩
    unfold encode_packed
    dsimp only
    rw [hk4, hfi.1]
    have e4 : b = b.take 4 ++ ((b.drop 4).take 32 ++ ((scan_path (b.drop 36)).1 ++ 0 :: Z)) := by
      rw [← hZ]; exact hb36
    calc b = b.take 4 ++ ((b.drop 4).take 32 ++ ((scan_path (b.drop 36)).1 ++ 0 :: Z)) := e4
      _ = _ := by simp [List.append_assoc]

/-- Every buffer of bytes is made of well-formed records, each with more than
37 bytes from its start to the end of the buffer, followed by bytes where
parsing stops. -/
theorem buffer_split : ∀ (n : Nat) (b : List Nat), b.length ≤ n → (∀ c ∈ b, c < 256) →
    ∃ recs tail, b = encode_all recs ++ tail ∧ (∀ r ∈ recs, packed_ok r) ∧ parse_stops tail ∧
      ∀ r, recs.getLast? = some r → 37 < (encode_packed r ++ tail).length := by
  intro n
  induction n with
  | zero =>
    intro b hl _
    have hb : b = [] := List.length_eq_zero.mp (by omega)
    subst hb
    exact ⟨[], [], (by simp [encode_all]), (fun r hr => by cases hr), (by decide),
      (fun r hr => by cases hr)⟩
  | succ n ih =>
    intro b hl hb
    by_cases hs : parse_stops b
    · exact ⟨[], b, (by simp [encode_all]), (fun r hr => by cases hr), hs,
        (fun r hr => by cases hr)⟩
    · obtain ⟨r, rest, hr, hbr⟩ := record_at_start hb hs
      have h37 : 37 < b.length := by
        by_contra h
        exact hs (Or.inl (by omega))
      have hge := encode_packed_length_ge r
      have hrl : rest.length ≤ n := by
        have : b.length = (encode_packed r).length + rest.length := by
          rw [hbr, List.length_append]
        omega
      have hrb : ∀ c ∈ rest, c < 256 := by
        intro c hc
        exact hb c (by rw [hbr]; exact List.mem_append_right _ hc)
      obtain ⟨recs, tail, h1, h2, h3, h4⟩ := ih rest hrl hrb
      refine ⟨r :: recs, tail, ?_, ?_, h3, ?_⟩
      · rw [encode_all_cons, ← h1]; exact hbr
      · intro x hx
        rcases List.mem_cons.mp hx with hx | hx
        · rw [hx]; exact hr
        · exact h2 x hx
      · intro x hx
        cases recs with
        | nil =>
          have hx2 : x = r := by simpa using hx.symm
          have ht : rest = tail := by simpa [encode_all] using h1
          rw [hx2, ← ht, ← hbr]
          exact h37
        | cons r2 rs2 =>
          exact h4 x (by rw [List.getLast?_cons_cons] at hx; exact hx)

/-! ## C33 -/

/-- C33 fails on two buffers.  A buffer that is the one complete packed record
of CreateFile on the empty path (37 bytes) is not handed to `add_fsevent`: the
function returns 0 with the whole buffer as remainder, although the same
record followed by one more byte is handed over.  And with the event pool
used up, the first of two complete records meets `ENOSPC`, which the function
returns; the second record is never handed over and is the remainder. -/
theorem C33_counterexample :
    packed_ok scn_packed_empty ∧ (encode_packed scn_packed_empty).length = 37 ∧
    parse_buffer_and_add_events (encode_packed scn_packed_empty) scn_one_watcher 0
        scn_write_env = some (some (0, 37, scn_one_watcher, 0)) ∧
    (parse_buffer_and_add_events (encode_packed scn_packed_empty ++ [0]) scn_one_watcher 0
        scn_write_env).map (Option.map (fun x => (x.1, x.2.1, x.2.2.2))) =
      some (some (0, 1, 1)) ∧
    packed_ok scn_packed_a ∧
    parse_buffer_and_add_events (encode_packed scn_packed_a ++ encode_packed scn_packed_a)
        scn_small_used 0 scn_write_env = some (some (ENOSPC, 39, scn_parsed_full, 1)) ∧
    scn_parsed_full.event_zone = scn_small_used.event_zone :=
  ⟨by decide, by decide, by decide, by decide, by decide, by decide, by decide⟩

/-- C33, amended: for every buffer `parse_buffer_and_add_events` returns, with
a remainder of at most `bufsize`; every buffer of bytes is made of well-formed
packed records, each with more than 37 bytes from its start to the end of the
buffer, followed by bytes where parsing stops (fewer than 38 of them, or a kind
that is negative, at least `FSE_MAX_EVENTS`, AccessGranted or Activity, or a
record that is not complete); and on a buffer so made the function hands the
records to `add_fsevent` in order up to the
first call that returns an error; that error is returned with the bytes after
the record that met it as the remainder, and otherwise the result is `EINVAL`
for a rejected kind and 0 else, with the stopping bytes as the remainder. -/
theorem C33_parse_buffer (env : Nat → fse_env) (buffer : List Nat) (s : fsevents_state)
    (k : Nat) :
    (∃ r, parse_buffer_and_add_events buffer s k env = some r ∧
      ∀ x, r = some x → x.2.1 ≤ buffer.length) ∧
    ((∀ c ∈ buffer, c < 256) →
      ∃ recs tail, buffer = encode_all recs ++ tail ∧ (∀ r ∈ recs, packed_ok r) ∧
        parse_stops tail ∧
        ∀ r, recs.getLast? = some r → 37 < (encode_packed r ++ tail).length) ∧
    ∀ (recs : List packed_record) (tail : List Nat), buffer = encode_all recs ++ tail →
      (∀ r ∈ recs, packed_ok r) → parse_stops tail →
      (∀ r, recs.getLast? = some r → 37 < (encode_packed r ++ tail).length) →
      parse_buffer_and_add_events buffer s k env = some (records_result env recs tail s k) ∧
      records_result env recs tail s k =
        (match publish_records env recs s k with
         | none => none
         | some (err, s1, k1, left) =>
           if err ≠ 0 then some (err, (encode_all left ++ tail).length, s1, k1)
           else some (if 37 < tail.length ∧ bad_kind (read_int32 tail) then EINVAL else 0,
             tail.length, s1, k1)) :=
  ⟨parse_buffer_total env buffer s k,
    fun hb => buffer_split buffer.length buffer (le_refl _) hb,
    fun recs tail hb hok hstop hlast => by
      subst hb
      exact ⟨parse_buffer_records env recs tail s k hok hstop hlast, rfl⟩⟩

/-- The theorem of C33 on the records CreateFile "/a" and Rename "/a" to "/b"
followed by three bytes: both are handed over, in this order, and the
remainder is 3. -/
theorem C33_parse_buffer_witness :
    (∀ r ∈ [scn_packed_a, scn_packed_rename], packed_ok r) ∧ parse_stops [1, 2, 3] ∧
    parse_buffer_and_add_events (encode_all [scn_packed_a, scn_packed_rename] ++ [1, 2, 3])
        scn_one_watcher 0 scn_write_env =
      some (records_result scn_write_env [scn_packed_a, scn_packed_rename] [1, 2, 3]
        scn_one_watcher 0) ∧
    records_result scn_write_env [scn_packed_a, scn_packed_rename] [1, 2, 3] scn_one_watcher 0 =
      some (0, 3, scn_parsed_two, 2) ∧
    (get_watcher scn_parsed_two 0).map pending = some [some 0, some 1] ∧
    (deref scn_parsed_two 0).map (fun e => (e.type, e.str, e.ino)) =
      some (FSE_CREATE_FILE, some [47, 97], 9) ∧
    (deref scn_parsed_two 1).map (fun e => (e.type, e.str, e.dest)) =
      some (FSE_RENAME, some [47, 97], some 2) ∧
    (deref scn_parsed_two 2).map (fun e => (e.type, e.str, e.ino)) =
      some (FSE_RENAME, some [47, 98], 3) :=
  ⟨by decide, by decide,
    ((C33_parse_buffer scn_write_env
      (encode_all [scn_packed_a, scn_packed_rename] ++ [1, 2, 3]) scn_one_watcher 0).2.2
      [scn_packed_a, scn_packed_rename] [1, 2, 3] rfl (by decide) (by decide) (by decide)).1,
    by decide, by decide, by decide, by decide, by decide⟩

/-! ## The dedup record and `last_event_ptr` across the steps of a publish -/

theorem rk_refl (s : fsevents_state) : record_kept s s := Or.inl ⟨rfl, rfl⟩

theorem rk_trans {s s1 s2 : fsevents_state} (h1 : record_kept s s1) (h2 : record_kept s1 s2) :
    record_kept s s2 := by
  rcases h2 with ⟨a, b⟩ | a
  · rcases h1 with ⟨c, d⟩ | c
    · exact Or.inl ⟨a.trans c, b.trans d⟩
    · exact Or.inr (b.trans c)
  · exact Or.inr a

theorem rk_store (s : fsevents_state) (p : Nat) (e : kfs_event) : record_kept s (store s p e) :=
  Or.inl ⟨rfl, rfl⟩

theorem rk_zfree (s : fsevents_state) (p : Nat) : record_kept s (zfree s p) :=
  Or.inl ⟨rfl, rfl⟩

theorem rk_set_watcher (s : fsevents_state) (i : Nat) (w : Option fs_event_watcher) :
    record_kept s (set_watcher s i w) :=
  Or.inl ⟨rfl, rfl⟩

theorem rk_forget (s : fsevents_state) (p : Nat) : record_kept s (forget_last_event s p) := by
  unfold forget_last_event
  split
  · exact Or.inr rfl
  · exact rk_refl s

theorem rk_unlist (s : fsevents_state) (p : Nat) (e : kfs_event)
    (d : Option (Nat × kfs_event)) : record_kept s (unlist_events s p e d) := by
  unfold unlist_events
  have h1 : record_kept s (match d with
      | none => s
      | some (d, de) =>
        if has_flag de.flags KFSE_ON_LIST then
          { s with num_events_outstanding := s.num_events_outstanding - 1,
                   kfse_list_head := s.kfse_list_head.erase d }
        else s) := by
    cases d with
    | none => exact rk_refl s
    | some x =>
      simp only []
      split
      · exact Or.inl ⟨rfl, rfl⟩
      · exact rk_refl s
  simp only []
  split
  · exact rk_trans h1 (Or.inl ⟨rfl, rfl⟩)
  · exact h1

theorem rk_removename_opt (s : fsevents_state) (n : Option cstr) :
    record_kept s (vfs_removename_opt s n) := by
  cases n with
  | none => exact rk_refl s
  | some x => exact Or.inl ⟨rfl, rfl⟩

theorem rk_addname (s : fsevents_state) (n : cstr) (len : Nat) :
    record_kept s (vfs_addname s n len).2 :=
  Or.inl ⟨rfl, rfl⟩

theorem rk_drop_dest {s s1 : fsevents_state} {d : Option Nat} {r : Option (Nat × kfs_event)}
    (h : drop_dest s d = some (s1, r)) : record_kept s s1 := by
  unfold drop_dest at h
  split at h
  · cases h; exact rk_refl s
  · split at h
    · cases h
    · simp only [] at h
      split at h <;> (cases h; exact rk_store _ _ _)

theorem rk_free_event {s s1 : fsevents_state} {p : Nat} {e : kfs_event}
    (h : free_event s p e = some s1) : record_kept s s1 := by
  unfold free_event at h
  simp only [] at h
  split at h
  · cases h
  · split at h
    · cases h
    · rename_i s2 dest hd
      cases h
      have h1 := rk_trans (rk_forget s p) (rk_drop_dest hd)
      have h2 := rk_trans h1 (rk_unlist s2 p e dest)
      have h3 := rk_trans h2 (rk_zfree _ p)
      cases dest with
      | none =>
        exact rk_trans (rk_trans h3 (rk_removename_opt _ _)) (rk_removename_opt _ _)
      | some x =>
        exact rk_trans (rk_trans (rk_trans h3 (rk_zfree _ _))
          (rk_removename_opt _ _)) (rk_removename_opt _ _)

theorem rk_release {s s1 : fsevents_state} {p : Nat} (h : release_event_ref s p = some s1) :
    record_kept s s1 := by
  unfold release_event_ref at h
  split at h
  · cases h
  · simp only [] at h
    split at h
    · cases h; exact rk_store _ _ _
    · exact rk_trans (rk_store _ _ _) (rk_free_event h)

theorem rk_drain (fuel : Nat) : ∀ {s s1 : fsevents_state} {w w1 : fs_event_watcher},
    drain_event_queue fuel s w = some (s1, w1) → record_kept s s1 := by
  induction fuel with
  | zero =>
    intro s s1 w w1 h
    simp only [drain_event_queue] at h
    split at h
    · cases h; exact rk_refl s
    · cases h
  | succ fuel ih =>
    intro s s1 w w1 h
    simp only [drain_event_queue] at h
    split at h
    · cases h; exact rk_refl s
    · split at h
      · exact ih h
      · split at h
        · cases h
        · split at h
          · split at h
            · cases h
            · rename_i s2 hrel
              exact rk_trans (rk_release hrel) (ih h)
          · exact ih h

theorem rk_upd {s s1 : fsevents_state} {p : Nat} {f : kfs_event → kfs_event}
    (h : upd s p f = some s1) (_ : ∀ e, event_benign e (f e)) : record_kept s s1 := by
  unfold upd at h
  split at h
  · cases h
  · cases h
    exact rk_store _ _ _

theorem rk_fill_docid {s s1 : fsevents_state} {cur : Nat} {ap : List va_word}
    (h : fill_docid s cur ap = some s1) : record_kept s s1 := by
  unfold fill_docid at h
  split at h
  · cases h
  · split at h
    · cases h
    · split at h
      · cases h
      · simp only [] at h
        split at h
        · cases h
        · exact rk_upd h (fun e => ⟨rfl, rfl, rfl, Or.inl rfl⟩)

theorem rk_fill_activity {s s1 : fsevents_state} {cur : Nat} {ap : List va_word}
    (h : fill_activity s cur ap = some s1) : record_kept s s1 := by
  unfold fill_activity at h
  repeat (split at h; · cases h)
  exact rk_upd h (fun e => ⟨rfl, rfl, rfl, Or.inl rfl⟩)

theorem rk_fill_unmount_pending {s s1 : fsevents_state} {cur : Nat} {ap : List va_word}
    (h : fill_unmount_pending s cur ap = some s1) : record_kept s s1 := by
  unfold fill_unmount_pending at h
  split at h
  · cases h
  · exact rk_upd h (fun e => ⟨rfl, rfl, rfl, Or.inr rfl⟩)

theorem rk_intern_access_path {s s1 : fsevents_state} {cur : Nat}
    {path : Option cstr × Nat} (h : intern_access_path s cur path = some s1) :
    record_kept s s1 := by
  unfold intern_access_path at h
  split at h
  · exact rk_trans (rk_addname _ _ _)
      (rk_upd h (fun e => ⟨rfl, rfl, rfl, Or.inl rfl⟩))
  · cases h; exact rk_refl _

theorem rk_fill_access_granted {s s1 : fsevents_state} {cur : Nat} {ap : List va_word}
    {env : fse_env} (h : fill_access_granted s cur ap env = some s1) : record_kept s s1 := by
  unfold fill_access_granted at h
  split at h
  · cases h
  · simp only [] at h
    split at h
    · exact rk_upd h (fun e => ⟨rfl, on_list_or_dropped e, rfl, Or.inl rfl⟩)
    · split at h
      · cases h
      · rename_i s2 h2
        have b2 := rk_upd h2 (fun e => ⟨rfl, rfl, rfl, Or.inl rfl⟩)
        split at h
        · cases h
        · rename_i s3 h3
          refine rk_trans (rk_trans b2 (rk_intern_access_path h3))
            (rk_upd h (fun e => ?_))
          split
          · exact ⟨rfl, on_list_or_dropped e, rfl, Or.inl rfl⟩
          · exact event_benign_refl e

theorem rk_arg_vnode {s s1 : fsevents_state} {kfse : Nat} {kfse_dest cur cur1 : Option Nat}
    {l l1 : add_locals} {vp : Option vnode} {b : Bool}
    (h : arg_vnode s kfse kfse_dest cur l vp = some (s1, cur1, l1, b)) : record_kept s s1 := by
  unfold arg_vnode at h
  split at h
  · split at h
    · cases h
    · split at h
      · split at h
        · cases h
        · rename_i s2 h2
          cases h
          exact rk_upd h2 (fun e => ⟨rfl, rfl, rfl, Or.inl rfl⟩)
      · split at h
        · cases h
        · rename_i s2 h2
          have b2 := rk_upd h2 (fun e => ⟨rfl, rfl, rfl, Or.inl rfl⟩)
          simp only [] at h
          split at h
          · cases h
          · rename_i s3 h3
            have b3 : record_kept s2 s3 := by
              split at h3
              · exact rk_upd h3 (fun e => ⟨rfl, on_list_or_dropped e, rfl, Or.inl rfl⟩)
              · cases h3; exact rk_refl _
            split at h
            · cases h; exact rk_trans b2 b3
            · split at h
              · cases h
              · split at h
                · cases h
                · rename_i s4 h4
                  cases h
                  exact rk_trans (rk_trans b2 b3) (rk_trans (rk_addname _ _ _)
                    (rk_upd h4 (fun e => ⟨rfl, rfl, rfl, Or.inl rfl⟩)))
  · cases h

theorem rk_arg_finfo {s s1 : fsevents_state} {cur : Option Nat} {l l1 : add_locals}
    {fse : fse_info} (h : arg_finfo s cur l fse = some (s1, l1)) : record_kept s s1 := by
  unfold arg_finfo at h
  split at h
  · cases h
  · split at h
    · cases h
    · rename_i s2 h2
      cases h
      refine rk_upd h2 (fun e => ⟨rfl, ?_, rfl, Or.inl rfl⟩)
      split
      · exact on_list_or_dropped e
      · rfl

theorem rk_regular_arg {kfse : Nat} {kfse_dest : Option Nat} {ap : List va_word}
    {s s1 : fsevents_state} {cur cur1 : Option Nat} {l l1 : add_locals} {nx : arg_next}
    (h : regular_arg kfse kfse_dest ap s cur l = some (s1, cur1, l1, nx)) : record_kept s s1 := by
  unfold regular_arg at h
  split at h
  · split at h
    · cases h; exact rk_refl s
    · split at h
      · split at h
        · split at h
          · cases h
          · rename_i h2
            cases h
            exact rk_arg_vnode h2
          · rename_i h2
            cases h
            exact rk_arg_vnode h2
        · cases h
      · split at h
        · split at h
          · split at h
            · cases h
            · rename_i h2
              cases h
              exact rk_arg_finfo h2
          · cases h
        · split at h
          · split at h
            · split at h
              · cases h
              · split at h
                · split at h
                  · split at h
                    · cases h
                    · rename_i h2
                      cases h
                      exact rk_trans (rk_addname _ _ _)
                        (rk_upd h2 (fun e => ⟨rfl, rfl, rfl, Or.inl rfl⟩))
                  · cases h
                · split at h
                  · cases h
                  · rename_i h2
                    cases h
                    exact rk_trans (rk_addname _ _ _)
                      (rk_upd h2 (fun e => ⟨rfl, rfl, rfl, Or.inl rfl⟩))
            · cases h
          · split at h
            · split at h
              · split at h
                · cases h
                · rename_i h2
                  cases h
                  exact rk_upd h2 (fun e => ⟨rfl, rfl, rfl, Or.inl rfl⟩)
              · cases h
            · split at h
              · cases h; exact rk_refl s
              · cases h
  · cases h

theorem rk_fill_regular (kfse : Nat) (kfse_dest : Option Nat) (fuel : Nat) :
    ∀ {ap : List va_word} {s s1 : fsevents_state} {cur : Option Nat} {l l1 : add_locals}
      {b : Bool}, fill_regular kfse kfse_dest fuel ap s cur l = some (s1, l1, b) →
      record_kept s s1 := by
  induction fuel with
  | zero => intro ap s s1 cur l l1 b h; simp [fill_regular] at h
  | succ fuel ih =>
    intro ap s s1 cur l l1 b h
    simp only [fill_regular] at h
    split at h
    · cases h
    · rename_i h2; cases h; exact rk_regular_arg h2
    · rename_i h2; cases h; exact rk_regular_arg h2
    · rename_i h2; exact rk_trans (rk_regular_arg h2) (ih h)

theorem rk_done_with_args {s s1 : fsevents_state} {kfse : Nat} {kfse_dest : Option Nat}
    (h : done_with_args s kfse kfse_dest = some s1) : record_kept s s1 := by
  unfold done_with_args at h
  simp only [] at h
  split at h
  · cases h
  · rename_i s2 h2
    have b2 : record_kept s s2 := by
      split at h2
      · exact rk_upd h2 (fun e => ⟨rfl, on_list_clear_created e, rfl, Or.inl rfl⟩)
      · cases h2; exact rk_refl s
    exact rk_trans b2 (rk_upd h (fun e => ⟨rfl, on_list_clear_created e, rfl, Or.inl rfl⟩))

theorem rk_fill_event {s s1 : fsevents_state} {type : Int} {kfse : Nat}
    {kfse_dest : Option Nat} {ap : List va_word} {env : fse_env} {l l1 : add_locals} {b : Bool}
    (h : fill_event s type kfse kfse_dest ap env l = some (s1, l1, b)) : record_kept s s1 := by
  unfold fill_event at h
  split at h
  · rw [Option.map_eq_some'] at h
    obtain ⟨s2, h2, h3⟩ := h
    cases h3
    exact rk_fill_docid h2
  · split at h
    · rw [Option.map_eq_some'] at h
      obtain ⟨s2, h2, h3⟩ := h
      cases h3
      exact rk_fill_activity h2
    · split at h
      · rw [Option.map_eq_some'] at h
        obtain ⟨s2, h2, h3⟩ := h
        cases h3
        exact rk_fill_access_granted h2
      · split at h
        · rw [Option.map_eq_some'] at h
          obtain ⟨s2, h2, h3⟩ := h
          cases h3
          exact rk_fill_unmount_pending h2
        · exact rk_fill_regular _ _ _ h

theorem rk_watcher_add_event {s s1 : fsevents_state} {i p : Nat} {r : Int}
    (h : watcher_add_event s i p = some (r, s1)) : record_kept s s1 := by
  cases hw : get_watcher s i with
  | none => simp [watcher_add_event, hw] at h
  | some w =>
    cases he : deref s p with
    | none => simp [watcher_add_event, hw, he] at h
    | some e =>
      have hsz : w.eventq_size ≠ 0 := by
        intro h0
        by_cases hab : e.abstime > w.max_event_id <;>
          simp [watcher_add_event, hw, he, hab, h0] at h
      rw [watcher_add_event_eq hw he hsz] at h
      split at h
      · cases h; exact rk_set_watcher _ _ _
      · split at h
        · split at h
          · cases h
          · rename_i s2 w2 hd
            cases h
            exact rk_trans (rk_trans (rk_store _ _ _) (rk_drain _ hd)) (rk_set_watcher _ _ _)
        · cases h
          exact Or.inl ⟨rfl, rfl⟩

theorem rk_fan_out (type dev : Int) (kfse : Nat) :
    ∀ (slots : List Nat) (s s1 : fsevents_state),
      fan_out type dev kfse slots s = some s1 → record_kept s s1 := by
  intro slots
  induction slots with
  | nil =>
    intro s s1 h
    simp only [fan_out, Option.some.injEq] at h
    subst h
    exact rk_refl _
  | cons i rest ih =>
    intro s s1 h
    simp only [fan_out] at h
    split at h
    · exact ih s s1 h
    · split at h
      · split at h
        · cases h
        · rename_i r s2 hadd
          split at h
          · split at h
            · cases h
            · exact rk_trans (rk_watcher_add_event hadd)
                (rk_trans (rk_set_watcher _ _ _) (ih _ s1 h))
          · exact rk_trans (rk_watcher_add_event hadd) (ih _ s1 h)
      · exact ih s s1 h

/-! ## A publish that leaves its record in place has queued its event -/

theorem queue_refs_mem {table : List (Option fs_event_watcher)} {p : Nat}
    (h : 1 ≤ queue_refs table p) :
    ∃ j w, table.getD j none = some w ∧ some p ∈ pending w := by
  induction table with
  | nil => simp [queue_refs] at h
  | cons a t ih =>
    simp only [queue_refs, List.map_cons, List.sum_cons] at h
    by_cases ha : 1 ≤ slot_refs p a
    · cases a with
      | none => simp [slot_refs] at ha
      | some w =>
        refine ⟨0, w, rfl, ?_⟩
        simp only [slot_refs] at ha
        exact List.count_pos_iff.1 (by omega)
    · have ht : 1 ≤ queue_refs t p := by
        simp only [queue_refs]
        omega
      obtain ⟨j, w, hj, hp⟩ := ih ht
      exact ⟨j + 1, w, by simpa using hj, hp⟩

theorem forget_forget (s : fsevents_state) (p : Nat) :
    forget_last_event (forget_last_event s p) p = forget_last_event s p := by
  unfold forget_last_event
  split
  · simp
  · rename_i h
    simp [h]

theorem free_event_forget (s : fsevents_state) (p : Nat) (e : kfs_event) :
    free_event (forget_last_event s p) p e = free_event s p e := by
  unfold free_event
  rw [forget_forget]

/-- The release of the publisher's reference: either the record is reset, or
the event stays, in the queue of a watcher. -/
theorem release_held_outcome {s s1 : fsevents_state} {k : Nat} {type : Int}
    (h : sys_ok s (fun p => if p = k then 1 else 0))
    (hty : ∀ e, deref s k = some e → e.type = type)
    (hj : s.last_event_ptr = some k ∨ s.last_event_type = -1)
    (hr : release_event_ref s k = some s1) :
    s1.last_event_type = -1 ∨ newest_queued s1 type := by
  obtain ⟨e, he, hl⟩ := zone_ok_alloc_of_pos h.1 (p := k) (by simp)
  have hrc := ((h.1.2 k e he).1 hl).1
  simp only [if_true] at hrc
  rcases hj with hj | hj
  · by_cases hgt : e.refcount > 1
    · rw [release_event_ref_gt he hgt] at hr
      cases hr
      have hq : 1 ≤ queue_refs s.watcher_table k := by omega
      obtain ⟨j, w, hjw, hp⟩ := queue_refs_mem hq
      refine Or.inr ⟨k, { e with refcount := e.refcount - 1 }, j, w, hj, ?_, hty e he, hjw, hp⟩
      have hk : k < s.event_zone.length := getD_some_lt he
      simp [deref, store, getD_set_eq, hk]
    · rw [release_event_ref_last he hgt, ← free_event_forget] at hr
      have hfr := frame_free_event hr
      have hf : (forget_last_event (store s k { e with refcount := e.refcount - 1 })
          k).last_event_type = -1 := by
        unfold forget_last_event
        rw [if_pos (show (store s k { e with refcount := e.refcount - 1 }).last_event_ptr =
          some k from hj)]
      rcases hfr.record with ⟨a, _⟩ | ⟨a, _⟩
      · exact Or.inl (a.trans hf)
      · exact Or.inl a
  · rcases (frame_release hr).record with ⟨a, _⟩ | ⟨a, _⟩
    · exact Or.inl (a.trans hj)
    · exact Or.inl a

theorem publish_events_last_ptr (sa : fsevents_state) (type : Int) (now : Nat) (pid : Int)
    (k : Nat) (dd : Option Nat) :
    (publish_events sa type now pid k dd).last_event_ptr = some k := by
  unfold publish_events
  simp only []
  split <;> (try split) <;> (try split) <;> rfl

theorem record_kept_newest {s s1 : fsevents_state} {k : Nat} (h : record_kept s s1)
    (hk : s.last_event_ptr = some k) :
    s1.last_event_ptr = some k ∨ s1.last_event_type = -1 := by
  rcases h with ⟨a, _⟩ | a
  · exact Or.inl (a.trans hk)
  · exact Or.inr a

theorem deliver_pass_outcome {s : fsevents_state} {type : Int} {k : Nat} {dd : Option Nat}
    {l : add_locals} {links : List link_reply} {skip : Bool} {res : pass_result}
    (h : sys_ok s (fun p => if p = k then 1 else 0))
    (hty : ∀ e, deref s k = some e → e.type = type)
    (hj : s.last_event_ptr = some k ∨ s.last_event_type = -1)
    (hr : deliver_pass s type k dd l links skip = some res) :
    (pass_state res).last_event_type = -1 ∨ newest_queued (pass_state res) type := by
  unfold deliver_pass at hr
  split at hr
  · exact release_held_outcome h hty hj (clean_up_release hr)
  · split at hr
    · cases hr
    · rename_i s1 h1
      have hb := benign_done_with_args h1
      have ok1 := sys_ok_benign h hb
      have hex : ∃ e, deref s k = some e := by
        obtain ⟨e, he, _⟩ := zone_ok_alloc_of_pos h.1 (p := k) (by simp)
        exact ⟨e, he⟩
      have hty1 := benign_type hb hex hty
      split at hr
      · cases hr
      · rename_i s2 h2
        obtain ⟨ok2, fr2, sh2⟩ := fan_out_ok type l.dev k (by simp) _ s1 s2 ok1 hty1 h2
        have hrk := rk_trans (rk_done_with_args h1) (rk_fan_out type l.dev k _ s1 s2 h2)
        have hj2 : s2.last_event_ptr = some k ∨ s2.last_event_type = -1 := by
          rcases hj with hj | hj
          · exact record_kept_newest hrk hj
          · rcases hrk with ⟨_, b⟩ | b
            · exact Or.inr (b.trans hj)
            · exact Or.inr b
        have hty2 : ∀ e, deref s2 k = some e → e.type = type := by
          intro e2 he2
          obtain ⟨e1, he1⟩ : ∃ e1, deref s1 k = some e1 := by
            obtain ⟨e1, he1, _⟩ := zone_ok_alloc_of_pos ok1.1 (p := k) (by simp)
            exact ⟨e1, he1⟩
          obtain ⟨e0, he0, ht⟩ := zone_shrinks_type sh2 he2
          have : s1.event_zone.getD k none = some e1 := he1
          rw [this] at he0
          cases he0
          rw [ht]
          exact hty1 e1 he1
        exact release_held_outcome ok2 hty2 hj2 (clean_up_release hr)

/-- A pass of `add_fsevent` after the dedup filter ends in one of three ways:
the pool is used up, the record is reset, or the event of the pass stands in a
queue. -/
theorem publish_pass_outcome {s : fsevents_state} {type : Int} {ap : List va_word}
    {env : fse_env} {now : Nat} {l : add_locals} {links : List link_reply} {res : pass_result}
    (h : sys_ok s (fun _ => 0)) (hty : 0 ≤ type ∧ type < FSE_MAX_EVENTS)
    (hr : publish_pass s type ap env now l links = some res) :
    (∃ sd, res = pass_result.ret ENOSPC sd) ∨ (pass_state res).last_event_type = -1 ∨
      newest_queued (pass_state res) type := by
  unfold publish_pass at hr
  split at hr
  · cases hr
    exact Or.inl ⟨_, rfl⟩
  · rename_i k dd sa ha
    obtain ⟨ok1, fr1, ty1⟩ := @alloc_publish_ok _ _ _ now env.pid _ _ h hty ha
    split at hr
    · cases hr
    · rename_i s2 l2 skip hf
      have hb := benign_fill_event hf
      have ok2 := sys_ok_benign ok1 hb
      have hex : ∃ e, deref (publish_events sa type now env.pid k dd) k = some e := by
        obtain ⟨e, he, _⟩ := zone_ok_alloc_of_pos ok1.1 (p := k) (by simp)
        exact ⟨e, he⟩
      have ty2 := benign_type hb hex ty1
      have hj2 := record_kept_newest (rk_fill_event hf)
        (publish_events_last_ptr sa type now env.pid k dd)
      exact Or.inr (deliver_pass_outcome ok2 ty2 hj2 hr)

theorem add_fsevent_loop_outcome (type : Int) (ap : List va_word) (env : fse_env)
    (hty : 0 ≤ type ∧ type < FSE_MAX_EVENTS) :
    ∀ (fuel : Nat) (s : fsevents_state) (now : Nat) (l : add_locals) (links : List link_reply)
      (r : Int) (s1 : fsevents_state), sys_ok s (fun _ => 0) →
      s.fs_event_type_watchers.getD type.toNat 0 ≠ 0 → l.path_override ≠ none →
      add_fsevent_loop type ap env fuel s now l links = some (r, s1) →
      r = ENOSPC ∨ s1.last_event_type = -1 ∨ newest_queued s1 type := by
  intro fuel
  induction fuel with
  | zero => intro s now l links r s1 _ _ _ hr; simp [add_fsevent_loop] at hr
  | succ n ih =>
    intro s now l links r s1 h hint hov hr
    have hrange : ¬ (type < 0 ∨ type ≥ FSE_MAX_EVENTS) := by omega
    have hpass : add_fsevent_pass s type ap env now l links =
        publish_pass s type ap env now l links := by
      unfold add_fsevent_pass
      rw [if_neg hrange, if_neg hint, if_neg (fun hc => hov hc.1)]
    simp only [add_fsevent_loop, hpass] at hr
    split at hr
    · cases hr
    · rename_i err s2 hp
      cases hr
      rcases publish_pass_outcome h hty hp with ⟨sd, g⟩ | g | g
      · cases g; exact Or.inl rfl
      · exact Or.inr (Or.inl g)
      · exact Or.inr (Or.inr g)
    · rename_i s2 l2 links2 now2 hp
      obtain ⟨ok2, fr2, ov2⟩ := publish_pass_ok h hty hp
      exact ih s2 now2 l2 links2 r s1 ok2 (by
        have g := fr2.type_watchers
        simp only [pass_state] at g
        rw [g]; exact hint) ov2 hr

/-- A call of `add_fsevent` whose first pass gets past the dedup filter ends in
one of three ways: its last pass found the pool used up, the record is reset,
or the event it published last stands in the queue of a watcher. -/
theorem add_fsevent_filtered_outcome {s sf s1 : fsevents_state} {type : Int}
    {ap : List va_word} {env : fse_env} {r : Int} (hs : sys_ok s (fun _ => 0))
    (hex : dedup_exempt type = false) (hty : 0 ≤ type ∧ type < FSE_MAX_EVENTS)
    (hint : s.fs_event_type_watchers.getD type.toNat 0 ≠ 0)
    (hf : dedup_filter s type ap env env.now = some (false, sf))
    (h : add_fsevent s type ap env = some (r, s1)) :
    r = ENOSPC ∨ s1.last_event_type = -1 ∨ newest_queued s1 type := by
  have hrange : ¬ (type < 0 ∨ type ≥ FSE_MAX_EVENTS) := by omega
  have hd := dedup_filter_fields hf
  have hsf := sys_ok_dedup_only hs hd
  rw [add_fsevent_first_pass ap env hty] at h
  have hpass : add_fsevent_pass s type ap env env.now {} env.links =
      publish_pass sf type ap env env.now {} env.links := by
    unfold add_fsevent_pass
    rw [if_neg hrange, if_neg hint, if_pos ⟨rfl, hex⟩, hf]
  rw [hpass] at h
  split at h
  · cases h
  · rename_i err s2 hp
    cases h
    rcases publish_pass_outcome hsf hty hp with ⟨sd, g⟩ | g | g
    · cases g; exact Or.inl rfl
    · exact Or.inr (Or.inl g)
    · exact Or.inr (Or.inr g)
  · rename_i s2 l2 links2 now2 hp
    obtain ⟨ok2, fr2, ov2⟩ := publish_pass_ok hsf hty hp
    exact add_fsevent_loop_outcome type ap env hty 129 s2 now2 l2 links2 r s1 ok2
      (by
        have g := fr2.type_watchers
        simp only [pass_state] at g
        rw [g, hd.type_watchers]; exact hint) ov2 h

/-! ## C8 and C9: the publishes that follow a recorded publish -/

/-- What the filter records when it lets a publish with a path through. -/
theorem dedup_filter_path_record {s sf : fsevents_state} {type : Int} {n : Int} {str : cstr}
    {rest : List va_word} {env : fse_env} {now : Nat}
    (h : dedup_filter s type (va_word.int32 FSE_ARG_STRING :: va_word.int32 n ::
      va_word.chars (some str) :: rest) env now = some (false, sf)) :
    sf.last_str = str.take (MAXPATHLEN - 1) ∧ sf.last_nlen = n ∧ sf.last_pid = env.pid ∧
      sf.last_event_type = type ∧ sf.last_coalesced_time = now % 2 ^ 64 := by
  have hscan : dedup_scan s (va_word.int32 FSE_ARG_STRING :: va_word.int32 n ::
      va_word.chars (some str) :: rest) false 0 =
      some (s, some (ptr_val.chars_at str), 0, true, n) := by
    simp [dedup_scan]
  unfold dedup_filter at h
  rw [hscan] at h
  dsimp only at h
  generalize (if s.timebase_denom = 0 then
      { s with timebase_numer := env.clock_numer, timebase_denom := env.clock_denom }
    else s) = s3 at h
  split at h
  · cases h
  · split at h
    · cases h
    · simp only [if_true] at h
      cases h
      exact ⟨rfl, rfl, rfl, rfl, rfl⟩

/-- The record the filter leaves when it lets a publish through matches the
arguments of the publish, when these start with a vnode whose vid is not 0 or
with a path that is not empty and fits into `last_str`. -/
theorem dedup_key_recorded {s sf : fsevents_state} {type : Int} {ap : List va_word}
    {env : fse_env} {now : Nat} (hkey : dedup_key ap)
    (h : dedup_filter s type ap env now = some (false, sf)) :
    recorded_match sf ap ∧ sf.last_pid = env.pid ∧ sf.last_event_type = type ∧
      sf.last_coalesced_time = now % 2 ^ 64 := by
  unfold dedup_key at hkey
  split at hkey
  · rename_i tag v rest
    obtain ⟨rfl, hvid⟩ := hkey
    obtain ⟨a1, a2, a3, a4, a5⟩ := dedup_filter_vnode_record h
    exact ⟨⟨rfl, hvid, a2, a1⟩, a3, a4, a5⟩
  · rename_i tag n str rest
    obtain ⟨rfl, hne, hlen⟩ := hkey
    obtain ⟨a1, a2, a3, a4, a5⟩ := dedup_filter_path_record h
    refine ⟨⟨rfl, hne, ?_, a2⟩, a3, a4, a5⟩
    rw [a1]
    exact List.take_of_length_le (by
      have : str.length < 1024 := hlen
      show str.length ≤ 1024 - 1
      omega)
  · exact absurd hkey id

theorem recorded_match_frame {s s1 : fsevents_state} {ap : List va_word} (hfr : frame s s1)
    (hm : recorded_match s ap) : recorded_match s1 ap := by
  unfold recorded_match at hm ⊢
  split at hm
  · obtain ⟨a, b, c, d⟩ := hm
    exact ⟨a, b, by rw [hfr.last_vid, c], by rw [hfr.last_ptr, d]⟩
  · obtain ⟨a, b, c, d⟩ := hm
    exact ⟨a, b, by rw [hfr.last_str, c], by rw [hfr.last_nlen, d]⟩
  · exact absurd hm id

/-- The time the filter measures is the time since the clock value of the
record. -/
theorem dedup_elapsed_since {s : fsevents_state} {t0 : Nat} (now : Nat)
    (h : s.last_coalesced_time = t0 % 2 ^ 64) :
    dedup_elapsed s now = dedup_elapsed { s with last_coalesced_time := t0 } now := by
  simp only [dedup_elapsed, h, Nat.mod_mod]

/-- A publish that gets past the dedup filter, returns 0 and leaves the record
of the filter in place: the record holds the pid, the clock value and the
vnode or path of the publish, and the event published last stands in the
queue of a watcher. -/
theorem first_publish_recorded {s sf s1 : fsevents_state} {type : Int} {ap : List va_word}
    {env : fse_env} (hs : sys_ok s (fun _ => 0)) (hex : dedup_exempt type = false)
    (hty : 0 ≤ type ∧ type < FSE_MAX_EVENTS)
    (hint : s.fs_event_type_watchers.getD type.toNat 0 ≠ 0) (hkey : dedup_key ap)
    (hf : dedup_filter s type ap env env.now = some (false, sf))
    (h : add_fsevent s type ap env = some (0, s1)) (hrec : s1.last_event_type = type) :
    s1.last_coalesced_time = env.now % 2 ^ 64 ∧ s1.last_pid = env.pid ∧
      recorded_match s1 ap ∧ s1.fs_event_type_watchers.getD type.toNat 0 ≠ 0 ∧
      newest_queued s1 type := by
  have hfr := add_fsevent_after_filter hs hex hty hint hf h
  obtain ⟨a1, a2, a3, a4⟩ := dedup_key_recorded hkey hf
  have hd := dedup_filter_fields hf
  have hne : s1.last_event_type ≠ -1 := by
    rw [hrec]
    intro g
    rw [g] at hty
    exact absurd hty.1 (by decide)
  refine ⟨?_, by rw [hfr.last_pid, a2], recorded_match_frame hfr a1, ?_, ?_⟩
  · rcases hfr.record with ⟨_, g⟩ | ⟨g, _⟩
    · rw [g, a4]
    · exact absurd g hne
  · rw [hfr.type_watchers, hd.type_watchers]; exact hint
  · rcases add_fsevent_filtered_outcome hs hex hty hint hf h with g | g | g
    · exact absurd g (by decide)
    · exact absurd g hne
    · exact g

/-- In a reachable state a queue holds only events of kinds its watcher
reports, so the newest event, when queued, is delivered. -/
theorem newest_delivered_of_queued {s : fsevents_state} {type : Int} (hreach : reachable s)
    (h : newest_queued s type) : newest_delivered s type := by
  obtain ⟨k, e, i, w, a1, a2, a3, a4, a5⟩ := h
  have hq := (reachable_registry hreach).2.2.2 i w a4
  exact ⟨k, e, i, w, a1, a2, a3, a4, by rw [← a3]; exact hq.2 k e a5 a2, a5⟩

/-! ## C8 -/

/-- C8 (amended): for a dedup-eligible type with an interested watcher, let a
publish with a vnode whose vid is not 0, or with a path that is not empty and
shorter than `MAXPATHLEN`, get past the dedup filter (it is not suppressed
itself), return 0 and leave its record in place (no event of it is freed).
Then its event stands in the queue of a watcher that reports the type, and
every publish of the same type and arguments by the same pid that follows it,
with no read or release in between, at a clock value less than 1 s after that
of the first, returns 0 and neither allocates nor enqueues: any number of
them leave the zone and the queues as the first publish left them. -/
theorem C8_following_suppressed {s sf s1 : fsevents_state} {type : Int} {ap : List va_word}
    {env0 : fse_env} (envs : List fse_env) (hreach : reachable s)
    (hex : dedup_exempt type = false) (hty : 0 ≤ type ∧ type < FSE_MAX_EVENTS)
    (hint : s.fs_event_type_watchers.getD type.toNat 0 ≠ 0) (hkey : dedup_key ap)
    (hf : dedup_filter s type ap env0 env0.now = some (false, sf))
    (h0 : add_fsevent s type ap env0 = some (0, s1)) (hrec : s1.last_event_type = type)
    (htb : s1.timebase_denom ≠ 0)
    (henv : ∀ env ∈ envs, env.pid = env0.pid ∧
      ∃ el, dedup_elapsed { s1 with last_coalesced_time := env0.now } env.now = some el ∧
        el < 1000000000) :
    newest_delivered s1 type ∧
    ∃ s2, publish_all type ap s1 envs = some (List.replicate envs.length 0, s2) ∧
      s2.event_zone = s1.event_zone ∧ s2.watcher_table = s1.watcher_table := by
  obtain ⟨a1, a2, a3, a4, a5⟩ :=
    first_publish_recorded (reachable_inv hreach) hex hty hint hkey hf h0 hrec
  refine ⟨newest_delivered_of_queued (reachable.add_fsevent type ap env0 0 hreach h0) a5,
    publish_all_suppressed hex hty envs s1 a4 hrec htb a3 (fun env he => ?_)⟩
  obtain ⟨b1, el, b2, b3⟩ := henv env he
  exact ⟨by rw [a2, b1], el, by rw [dedup_elapsed_since env.now a1]; exact b2, b3⟩

theorem scn_path_key : dedup_key scn_path_args := by
  show FSE_ARG_STRING = FSE_ARG_STRING ∧ ([47, 97] : cstr) ≠ [] ∧
    ([47, 97] : cstr).length < MAXPATHLEN
  decide

theorem scn_published_followers : ∀ env ∈ [scn_env 10001000, scn_env 20001000],
    env.pid = (scn_env 1000).pid ∧
      ∃ el, dedup_elapsed { scn_published with last_coalesced_time := (scn_env 1000).now }
        env.now = some el ∧ el < 1000000000 := by
  intro env henv
  simp only [List.mem_cons, List.mem_singleton, List.not_mem_nil, or_false] at henv
  rcases henv with rfl | rfl
  · exact ⟨by decide, 10000000, by decide, by decide⟩
  · exact ⟨by decide, 20000000, by decide, by decide⟩

/-- C8 (amended) at the example of the spec: ContentModified on "/a" by pid 100,
published a second and a third time 10 ms and 20 ms after the first, which left
one event in the queue of the watcher. -/
theorem C8_following_suppressed_witness :
    reachable scn_one_watcher ∧ dedup_exempt FSE_CONTENT_MODIFIED = false ∧
    dedup_key scn_path_args ∧
    add_fsevent scn_one_watcher FSE_CONTENT_MODIFIED scn_path_args (scn_env 1000) =
      some (0, scn_published) ∧
    (get_watcher scn_published 0).map num_pending = some 1 ∧
    newest_delivered scn_published FSE_CONTENT_MODIFIED ∧
    ∃ s2, publish_all FSE_CONTENT_MODIFIED scn_path_args scn_published
          [scn_env 10001000, scn_env 20001000] =
        some (List.replicate [scn_env 10001000, scn_env 20001000].length 0, s2) ∧
      s2.event_zone = scn_published.event_zone ∧
      s2.watcher_table = scn_published.watcher_table :=
  ⟨scn_one_watcher_reachable, by decide, scn_path_key, by decide, by decide,
    @C8_following_suppressed scn_one_watcher scn_filtered_path scn_published FSE_CONTENT_MODIFIED
      scn_path_args (scn_env 1000) [scn_env 10001000, scn_env 20001000]
      scn_one_watcher_reachable (by decide) (by decide) (by decide) scn_path_key (by decide)
      (by decide) (by decide) (by decide) scn_published_followers⟩

/-- C8, as stated, fails in four ways.  Of three publishes of ContentModified
on "/a" by pid 100 at 0 s, 0.6 s and 1.2 s, none read in between, the second is
suppressed, and the third, which comes less than 1 s after the second, is
not: two events are queued.  Of two publishes 50 ms apart with the empty path,
with the same vnode of vid 0, or with the same path of 1100 bytes, of which
`last_str` keeps 1023, the second is not suppressed either. -/
theorem C8_second_not_suppressed :
    (add_fsevent scn_published FSE_CONTENT_MODIFIED scn_path_args (scn_env 600001000) =
      some (0, scn_spaced_2) ∧
    scn_spaced_2.event_zone = scn_published.event_zone ∧
    add_fsevent scn_spaced_2 FSE_CONTENT_MODIFIED scn_path_args (scn_env 1200001000) =
      some (0, scn_spaced_3) ∧
    zone_in_use scn_spaced_3 = 2 ∧
    (get_watcher scn_spaced_3 0).map num_pending = some 2) ∧
    (add_fsevent (scn_once FSE_CONTENT_MODIFIED scn_empty_path_args) FSE_CONTENT_MODIFIED
        scn_empty_path_args (scn_env 50001000) =
      some (0, scn_again FSE_CONTENT_MODIFIED scn_empty_path_args) ∧
    (get_watcher (scn_once FSE_CONTENT_MODIFIED scn_empty_path_args) 0).map num_pending =
      some 1 ∧
    (get_watcher (scn_again FSE_CONTENT_MODIFIED scn_empty_path_args) 0).map num_pending =
      some 2) ∧
    (add_fsevent (scn_once FSE_CONTENT_MODIFIED (scn_vnode_args scn_vid0)) FSE_CONTENT_MODIFIED
        (scn_vnode_args scn_vid0) (scn_env 50001000) =
      some (0, scn_again FSE_CONTENT_MODIFIED (scn_vnode_args scn_vid0)) ∧
    (get_watcher (scn_once FSE_CONTENT_MODIFIED (scn_vnode_args scn_vid0)) 0).map num_pending =
      some 1 ∧
    (get_watcher (scn_again FSE_CONTENT_MODIFIED (scn_vnode_args scn_vid0)) 0).map
      num_pending = some 2) ∧
    (add_fsevent scn_one_watcher FSE_CONTENT_MODIFIED scn_long_path_args (scn_env 1000) =
      some (0, scn_once FSE_CONTENT_MODIFIED scn_long_path_args) ∧
    add_fsevent (scn_once FSE_CONTENT_MODIFIED scn_long_path_args) FSE_CONTENT_MODIFIED
        scn_long_path_args (scn_env 50001000) =
      some (0, scn_again FSE_CONTENT_MODIFIED scn_long_path_args) ∧
    (scn_once FSE_CONTENT_MODIFIED scn_long_path_args).last_str.length = 1023 ∧
    (get_watcher (scn_once FSE_CONTENT_MODIFIED scn_long_path_args) 0).map num_pending =
      some 1 ∧
    (get_watcher (scn_again FSE_CONTENT_MODIFIED scn_long_path_args) 0).map num_pending =
      some 2) :=
  ⟨⟨by decide, by decide, by decide, by decide, by decide⟩, ⟨by decide, by decide, by decide⟩,
    ⟨by decide, by decide, by decide⟩,
    ⟨by decide!, by decide!, by decide!, by decide!, by decide!⟩⟩

/-! ## C9 -/

/-- C9 (amended): of two consecutive `add_fsevent` calls by the same pid with
the same dedup-eligible type and the same vnode, whose vid is not 0, for which
a watcher is interested, the first not suppressed itself, returning 0 and
leaving its record in place (no event of it is freed), the second made at a
clock value less than 1 s after that of the first, exactly one is delivered:
the event of the first stands in the queue of a watcher that reports the
type, and the second is suppressed, it returns 0 and neither allocates nor
enqueues. -/
theorem C9_exactly_one {s sf s1 : fsevents_state} {type : Int} {v : vnode}
    {rest : List va_word} {env1 env2 : fse_env} {el : Nat}
    (hreach : reachable s) (hex : dedup_exempt type = false)
    (hty : 0 ≤ type ∧ type < FSE_MAX_EVENTS)
    (hint : s.fs_event_type_watchers.getD type.toNat 0 ≠ 0) (hvid : v.vid ≠ 0)
    (hf : dedup_filter s type (va_word.int32 FSE_ARG_VNODE :: va_word.vp (some v) :: rest)
      env1 env1.now = some (false, sf))
    (h1 : add_fsevent s type (va_word.int32 FSE_ARG_VNODE :: va_word.vp (some v) :: rest)
      env1 = some (0, s1))
    (hrec : s1.last_event_type = type) (hpid : env2.pid = env1.pid)
    (htb : s1.timebase_denom ≠ 0)
    (hel : dedup_elapsed { s1 with last_coalesced_time := env1.now } env2.now = some el)
    (hlt : el < 1000000000) :
    newest_delivered s1 type ∧
    ∃ s2, add_fsevent s1 type (va_word.int32 FSE_ARG_VNODE :: va_word.vp (some v) :: rest)
        env2 = some (0, s2) ∧
      s2.event_zone = s1.event_zone ∧ s2.watcher_table = s1.watcher_table := by
  obtain ⟨a1, a2, a3, a4, a5⟩ := first_publish_recorded (reachable_inv hreach) hex hty hint
    (show dedup_key (va_word.int32 FSE_ARG_VNODE :: va_word.vp (some v) :: rest) from
      ⟨rfl, hvid⟩) hf h1 hrec
  obtain ⟨s2, b1, b2, b3, _⟩ := @add_fsevent_suppressed _ _ (va_word.int32 FSE_ARG_VNODE ::
      va_word.vp (some v) :: rest) _ _ hex hty a4 hrec (by rw [a2, hpid]) htb
    (by rw [dedup_elapsed_since env2.now a1]; exact hel) hlt a3
  exact ⟨newest_delivered_of_queued (reachable.add_fsevent type _ env1 0 hreach h1) a5,
    s2, b1, b2, b3⟩

/-- C9 (amended) at an example: ContentModified on a vnode of vid 3, published
by pid 100 twice, 50 ms apart; the queue of the watcher holds one event after
the first and after the second. -/
theorem C9_exactly_one_witness :
    reachable scn_one_watcher ∧ dedup_exempt FSE_CONTENT_MODIFIED = false ∧
    add_fsevent scn_one_watcher FSE_CONTENT_MODIFIED (scn_vnode_args scn_vnode)
        (scn_env 1000) =
      some (0, scn_once FSE_CONTENT_MODIFIED (scn_vnode_args scn_vnode)) ∧
    (get_watcher (scn_once FSE_CONTENT_MODIFIED (scn_vnode_args scn_vnode)) 0).map
      num_pending = some 1 ∧
    newest_delivered (scn_once FSE_CONTENT_MODIFIED (scn_vnode_args scn_vnode))
      FSE_CONTENT_MODIFIED ∧
    ∃ s2, add_fsevent (scn_once FSE_CONTENT_MODIFIED (scn_vnode_args scn_vnode))
          FSE_CONTENT_MODIFIED (scn_vnode_args scn_vnode) (scn_env 50001000) = some (0, s2) ∧
      s2.event_zone = (scn_once FSE_CONTENT_MODIFIED (scn_vnode_args scn_vnode)).event_zone ∧
      s2.watcher_table =
        (scn_once FSE_CONTENT_MODIFIED (scn_vnode_args scn_vnode)).watcher_table :=
  ⟨scn_one_watcher_reachable, by decide, by decide, by decide,
    @C9_exactly_one scn_one_watcher scn_filtered
      (scn_once FSE_CONTENT_MODIFIED (scn_vnode_args scn_vnode)) FSE_CONTENT_MODIFIED scn_vnode
      [va_word.int32 FSE_ARG_DONE] (scn_env 1000) (scn_env 50001000) 50000000
      scn_one_watcher_reachable (by decide) (by decide) (by decide) (by decide) (by decide)
      (by decide) (by decide) (by decide) (by decide) (by decide) (by decide)⟩

/-- C9, as stated, fails: of two publishes of CreateFile on the same vnode by
pid 100, 50 ms apart, both are queued for the watcher, and so are both of two
publishes of ContentModified on the same vnode when its vid is 0.  Of three
publishes of ContentModified on a vnode of vid 3 within 100 ms, the second and
the third are both suppressed: of these two none is queued.  And of two
publishes of ContentModified on that vnode, 50 ms apart, for a watcher whose
ring is full, none is queued: each event is dropped and freed, and the watcher
is flagged. -/
theorem C9_both_or_none_delivered :
    (add_fsevent scn_one_watcher FSE_CREATE_FILE (scn_vnode_args scn_vnode) (scn_env 1000) =
      some (0, scn_once FSE_CREATE_FILE (scn_vnode_args scn_vnode)) ∧
    add_fsevent (scn_once FSE_CREATE_FILE (scn_vnode_args scn_vnode)) FSE_CREATE_FILE
        (scn_vnode_args scn_vnode) (scn_env 50001000) =
      some (0, scn_again FSE_CREATE_FILE (scn_vnode_args scn_vnode)) ∧
    (get_watcher (scn_once FSE_CREATE_FILE (scn_vnode_args scn_vnode)) 0).map num_pending =
      some 1 ∧
    (get_watcher (scn_again FSE_CREATE_FILE (scn_vnode_args scn_vnode)) 0).map num_pending =
      some 2) ∧
    (add_fsevent scn_one_watcher FSE_CONTENT_MODIFIED (scn_vnode_args scn_vid0)
        (scn_env 1000) =
      some (0, scn_once FSE_CONTENT_MODIFIED (scn_vnode_args scn_vid0)) ∧
    add_fsevent (scn_once FSE_CONTENT_MODIFIED (scn_vnode_args scn_vid0)) FSE_CONTENT_MODIFIED
        (scn_vnode_args scn_vid0) (scn_env 50001000) =
      some (0, scn_again FSE_CONTENT_MODIFIED (scn_vnode_args scn_vid0)) ∧
    zone_in_use (scn_again FSE_CONTENT_MODIFIED (scn_vnode_args scn_vid0)) = 2) ∧
    (add_fsevent (scn_once FSE_CONTENT_MODIFIED (scn_vnode_args scn_vnode))
        FSE_CONTENT_MODIFIED (scn_vnode_args scn_vnode) (scn_env 50001000) =
      some (0, scn_again FSE_CONTENT_MODIFIED (scn_vnode_args scn_vnode)) ∧
    add_fsevent (scn_again FSE_CONTENT_MODIFIED (scn_vnode_args scn_vnode))
        FSE_CONTENT_MODIFIED (scn_vnode_args scn_vnode) (scn_env 100001000) =
      some (0, scn_vnode_third) ∧
    scn_vnode_third.event_zone =
      (scn_once FSE_CONTENT_MODIFIED (scn_vnode_args scn_vnode)).event_zone ∧
    (get_watcher scn_vnode_third 0).map pending =
      (get_watcher (scn_once FSE_CONTENT_MODIFIED (scn_vnode_args scn_vnode)) 0).map
        pending) ∧
    (add_fsevent scn_full_ring FSE_CONTENT_MODIFIED (scn_vnode_args scn_vnode)
        (scn_env 2000) = some (0, scn_full_vnode_1) ∧
    add_fsevent scn_full_vnode_1 FSE_CONTENT_MODIFIED (scn_vnode_args scn_vnode)
        (scn_env 50002000) = some (0, scn_full_vnode_2) ∧
    scn_full_vnode_1.event_zone = scn_full_ring.event_zone ∧
    scn_full_vnode_2.event_zone = scn_full_ring.event_zone ∧
    (get_watcher scn_full_vnode_1 0).map pending = (get_watcher scn_full_ring 0).map pending ∧
    (get_watcher scn_full_vnode_2 0).map pending = (get_watcher scn_full_ring 0).map pending ∧
    (get_watcher scn_full_vnode_2 0).map
      (fun w => has_flag w.flags WATCHER_DROPPED_EVENTS) = some true) :=
  ⟨⟨by decide, by decide, by decide, by decide⟩, ⟨by decide, by decide, by decide⟩,
    ⟨by decide, by decide, by decide, by decide⟩,
    ⟨by decide, by decide, by decide, by decide, by decide, by decide, by decide⟩⟩

/-! ## C11 and C13: the synthetic record and a buffer that faults -/

/-- A record is at least ten bytes long: the kind, the pid and `FSE_ARG_DONE`. -/
theorem is_record_length {x : List Nat} (h : is_record x) : 10 ≤ x.length := by
  obtain ⟨kind, pid, fields, rfl⟩ := h
  rw [encode_record_length]
  omega

/-- No concatenation of whole records is six bytes long. -/
theorem records_not_six {recs : List (List Nat)} (h : ∀ x ∈ recs, is_record x) :
    recs.flatten.length ≠ 6 := by
  cases recs with
  | nil => simp
  | cons x rest =>
    have := is_record_length (h x (List.mem_cons_self _ _))
    simp only [List.flatten_cons, List.length_append]
    omega

theorem scn_fault_read_eq :
    fmod_watch scn_full_ring_create 0 scn_fault_buffer 0 = some scn_fault_read := by decide

theorem scn_fault_read_written :
    scn_fault_read.2.2.written = le_bytes_int32 FSE_EVENTS_DROPPED ++ done_bytes := by decide

/-- C11 fails on the code.  The watcher of `scn_full_ring_create` has dropped an
event and holds one.  A read into a buffer of 2048 bytes of which only the
first six are writable returns 0 and reports six bytes as transferred: the
kind `FSE_EVENTS_DROPPED` and the tag `FSE_ARG_DONE`, without the pid between
them.  The second `uiomove` of the synthetic record faults, its return value
is overwritten by that of the third, which succeeds.  The six bytes are no
concatenation of whole records. -/
theorem C11_synthetic_record_torn :
    get_watcher scn_full_ring_create 0 = some scn_flagged_watcher ∧
    has_flag scn_flagged_watcher.flags WATCHER_DROPPED_EVENTS = true ∧
    fmod_watch scn_full_ring_create 0 scn_fault_buffer 0 = some scn_fault_read ∧
    scn_fault_read.1 = 0 ∧
    scn_fault_buffer.resid - scn_fault_read.2.2.resid = 6 ∧
    scn_fault_read.2.2.written = le_bytes_int32 FSE_EVENTS_DROPPED ++ done_bytes ∧
    ¬ ∃ recs : List (List Nat), (∀ x ∈ recs, is_record x) ∧
      scn_fault_read.2.2.written = recs.flatten := by
  refine ⟨by decide, by decide, scn_fault_read_eq, by decide, by decide,
    scn_fault_read_written, ?_⟩
  rintro ⟨recs, hrec, hw⟩
  have hlen : scn_fault_read.2.2.written.length = 6 := by decide
  rw [hw] at hlen
  exact records_not_six hrec hlen

/-- C13 fails on the code.  The read `scn_fault_read`, into a buffer of 2048
bytes of which only the first six are writable, is successful (it returns 0)
and is made on a watcher whose `WATCHER_DROPPED_EVENTS` flag is set.  What it writes does not start with the
synthetic record (kind `FSE_EVENTS_DROPPED`, pid 0, `FSE_ARG_DONE`): the pid is
missing.  Yet the flag is clear afterwards, so no later read reports the
dropped events. -/
theorem C13_dropped_record_without_pid :
    get_watcher scn_full_ring_create 0 = some scn_flagged_watcher ∧
    has_flag scn_flagged_watcher.flags WATCHER_DROPPED_EVENTS = true ∧
    scn_flagged_watcher.num_readers = 0 ∧
    fmod_watch scn_full_ring_create 0 scn_fault_buffer 0 = some scn_fault_read ∧
    scn_fault_read.1 = 0 ∧
    (get_watcher scn_fault_read.2.1 0).map
      (fun w => has_flag w.flags WATCHER_DROPPED_EVENTS) = some false ∧
    dropped_record = le_bytes_int32 FSE_EVENTS_DROPPED ++ le_bytes_int32 0 ++ done_bytes ∧
    scn_fault_read.2.2.written = le_bytes_int32 FSE_EVENTS_DROPPED ++ done_bytes ∧
    ¬ ∃ more : List Nat, scn_fault_read.2.2.written = dropped_record ++ more := by
  refine ⟨by decide, by decide, by decide, scn_fault_read_eq, by decide, by decide, by decide,
    scn_fault_read_written, ?_⟩
  rintro ⟨more, hw⟩
  have hlen : scn_fault_read.2.2.written.length = 6 := by decide
  have hd : dropped_record.length = 10 := by decide
  rw [hw, List.length_append, hd] at hlen
  omega

/-! ## C2: `release_event_ref` and the union of `kfs_event` -/

theorem drop_dest_union_eq (s : fsevents_state) {k : kfs_event} (b : Bool)
    (h : k.type = FSE_ACCESS_GRANTED → k.dest = none ∧
      k.audit_token.getD 6 0 % 2 ^ 32 + 2 ^ 32 * (k.audit_token.getD 7 0 % 2 ^ 32) = 0) :
    drop_dest_union s (if b then regular_event_dest k else dest_word.null) =
      drop_dest s (if b then k.dest else none) := by
  cases b with
  | false => rfl
  | true =>
    simp only [if_true]
    unfold regular_event_dest
    by_cases hty : k.type = FSE_ACCESS_GRANTED
    · obtain ⟨h1, h2⟩ := h hty
      simp only [hty, if_true, h2, h1]
      rfl
    · simp only [hty, if_false]
      cases k.dest <;> rfl

theorem free_event_union_eq (s : fsevents_state) (p : Nat) {k : kfs_event}
    (h : k.type = FSE_ACCESS_GRANTED → k.dest = none ∧
      k.audit_token.getD 6 0 % 2 ^ 32 + 2 ^ 32 * (k.audit_token.getD 7 0 % 2 ^ 32) = 0) :
    free_event_union s p k = free_event s p k := by
  unfold free_event_union free_event
  dsimp only
  rw [drop_dest_union_eq _ _ h]
  all_goals
    split
    · rfl
    · generalize drop_dest _ _ = r
      rcases r with _ | ⟨s2, _ | ⟨d, de⟩⟩ <;> rfl

/-- Where `regular_event.dest` holds the link the event stores, that is for
every event but an `FSE_ACCESS_GRANTED` event whose token words 6 and 7 are
not both 0, reading it through the union changes nothing. -/
theorem release_event_ref_union_eq {s : fsevents_state} {p : Nat} {e : kfs_event}
    (he : deref s p = some e)
    (h : e.type = FSE_ACCESS_GRANTED → e.dest = none ∧
      e.audit_token.getD 6 0 % 2 ^ 32 + 2 ^ 32 * (e.audit_token.getD 7 0 % 2 ^ 32) = 0) :
    release_event_ref_union s p = release_event_ref s p := by
  unfold release_event_ref_union release_event_ref
  rw [he]
  dsimp only
  rw [free_event_union_eq _ _ (show ({ e with refcount := e.refcount - 1 } : kfs_event).type =
    FSE_ACCESS_GRANTED → _ from h)]

/-- The release of the last reference to an `FSE_ACCESS_GRANTED` event whose
token words 6 and 7 are not both 0 dereferences what these words hold. -/
theorem release_event_ref_union_wild {s : fsevents_state} {p : Nat} {e : kfs_event}
    (he : deref s p = some e) (hty : e.type = FSE_ACCESS_GRANTED) (hrc : e.refcount ≤ 1)
    (hw : e.audit_token.getD 6 0 % 2 ^ 32 + 2 ^ 32 * (e.audit_token.getD 7 0 % 2 ^ 32) ≠ 0) :
    release_event_ref_union s p = none := by
  unfold release_event_ref_union
  rw [he]
  dsimp only
  rw [if_neg (by omega)]
  unfold free_event_union
  dsimp only
  split
  · rfl
  · have hreg : (e.type != FSE_DOCID_CREATED && e.type != FSE_DOCID_CHANGED &&
        e.type != FSE_ACTIVITY) = true := by
      rw [hty]; decide
    have hdest : regular_event_dest { e with refcount := e.refcount - 1 } =
        dest_word.wild (e.audit_token.getD 6 0 % 2 ^ 32 +
          2 ^ 32 * (e.audit_token.getD 7 0 % 2 ^ 32)) := by
      simp only [regular_event_dest, hty, if_true, hw, if_false]
    simp only [hreg, if_true, hdest, drop_dest_union]

/-- C2 fails on the code for an `FSE_ACCESS_GRANTED` event.  In `scn_granted`
element 0 holds the event of `add_fsevent(FSE_ACCESS_GRANTED, ctx,
FSE_ARG_STRING, 3, "/a", FSE_ARG_AUDIT_TOKEN, &token, FSE_ARG_DONE)` with the
token words 1 to 8; its one reference is that of the queue of the watcher.
`release_event_ref` reads `kfse->regular_event.dest`, which shares its storage
with `audit_token.val[6..7]`: the value read is 7 + 2^32 * 8, no pointer to an
event, and the function goes on to `dest->type` and `dest->refcount`, where
the claim has it free the event and its path once. -/
theorem C2_access_granted_release :
    deref scn_granted 0 = some (scn_entitled_event FSE_ACCESS_GRANTED scn_granted_args) ∧
    (scn_entitled_event FSE_ACCESS_GRANTED scn_granted_args).type = FSE_ACCESS_GRANTED ∧
    (scn_entitled_event FSE_ACCESS_GRANTED scn_granted_args).refcount = 1 ∧
    queue_refs scn_granted.watcher_table 0 = 1 ∧
    (scn_entitled_event FSE_ACCESS_GRANTED scn_granted_args).audit_token =
      [1, 2, 3, 4, 5, 6, 7, 8] ∧
    regular_event_dest (scn_entitled_event FSE_ACCESS_GRANTED scn_granted_args) =
      dest_word.wild (7 + 2 ^ 32 * 8) ∧
    release_event_ref_union scn_granted 0 = none := by
  refine ⟨by decide, by decide, by decide, by decide, by decide, by decide, by decide⟩

end Fsevents
